import Mathlib

/-!
A shallow embedding of the cs420 single-pass compiler (`src/src/parser.cc`)

The recursive-descent parser of `parser.cc` is embedded as state-passing
functions over an explicit `Parser` record.  Every `Parser::parse_*` method is
one Lean function of the same name.  The collaborators whose sources are not
part of the repository snapshot (tokens, symbol table, register allocator,
operand, emitter) are modelled from the specification and are marked as such.

Conventions of the embedding

* A C++ `bool` method with reference out-parameters `T& x` becomes a function
  that receives the incoming value of `x` and returns the pair
  `(result, outgoing value of x)`.
* A local variable of type `Operand*` is a numbered *slot* of the record; an
  `Operand*&` parameter is the number of the slot it is bound to, and
  `last_register_op` (an `Operand**`) is an optional slot number.
* Recursion is bounded by a fuel argument: every production consumes one unit
  per call and halts with `Halt.out_of_fuel` when none is left.
* `exit(EXIT_FAILURE)` and violated contracts of the collaborators end the run
  with `Res.halt`; the record at that moment is kept for inspection.
-/

namespace Cs420

/-! ## Tokens (modelled from the attribute tables of the specification) -/

/-- Modelled from the spec: keyword attributes of `keywordtoken.h` (absent). -/
inductive keyword_attr where
  | KW_PROGRAM | KW_PROCEDURE | KW_INT | KW_BOOL | KW_BEGIN | KW_END | KW_IF
  | KW_THEN | KW_ELSE | KW_WHILE | KW_LOOP | KW_PRINT | KW_NOT
deriving DecidableEq

/-- Modelled from the spec: punctuation attributes of `punctoken.h` (absent). -/
inductive punc_attr where
  | PUNC_SEMI | PUNC_COLON | PUNC_COMMA | PUNC_ASSIGN | PUNC_OPEN | PUNC_CLOSE
deriving DecidableEq

/-- Modelled from the spec: additive operator attributes of `addoptoken.h` (absent). -/
inductive addop_attr where
  | ADDOP_ADD | ADDOP_SUB | ADDOP_OR
deriving DecidableEq

/-- Modelled from the spec: multiplicative operator attributes of `muloptoken.h` (absent). -/
inductive mulop_attr where
  | MULOP_MUL | MULOP_DIV | MULOP_AND
deriving DecidableEq

/-- Modelled from the spec: relational operator attributes of `reloptoken.h` (absent). -/
inductive relop_attr where
  | RELOP_EQ | RELOP_NE | RELOP_GT | RELOP_GE | RELOP_LT | RELOP_LE
deriving DecidableEq

/-- Modelled from the spec: the token variant of `token.h` and its subclasses
(absent).  The attribute of a number token is the digit string; it is
represented by the natural number the digits denote. -/
inductive Token where
  | TOKEN_KEYWORD (attr : keyword_attr)
  | TOKEN_PUNC (attr : punc_attr)
  | TOKEN_RELOP (attr : relop_attr)
  | TOKEN_ADDOP (attr : addop_attr)
  | TOKEN_MULOP (attr : mulop_attr)
  | TOKEN_ID (attr : String)
  | TOKEN_NUM (attr : Nat)
  | TOKEN_EOF
deriving DecidableEq

/-- Anonymous-namespace helper `is_identifier` of `parser.cc`. -/
def is_identifier : Token → Bool
  | .TOKEN_ID _ => true
  | _ => false

/-- Anonymous-namespace helper `is_keyword` of `parser.cc`. -/
def is_keyword : Token → keyword_attr → Bool
  | .TOKEN_KEYWORD a, attr => decide (a = attr)
  | _, _ => false

/-- Anonymous-namespace helper `is_punctuation` of `parser.cc`. -/
def is_punctuation : Token → punc_attr → Bool
  | .TOKEN_PUNC a, attr => decide (a = attr)
  | _, _ => false

/-- Anonymous-namespace helper `is_addop(token, attr)` of `parser.cc`. -/
def is_addop_attr : Token → addop_attr → Bool
  | .TOKEN_ADDOP a, attr => decide (a = attr)
  | _, _ => false

/-- Anonymous-namespace helper `is_relop` of `parser.cc`. -/
def is_relop : Token → Bool
  | .TOKEN_RELOP _ => true
  | _ => false

/-- Anonymous-namespace helper `is_number` of `parser.cc`. -/
def is_number : Token → Bool
  | .TOKEN_NUM _ => true
  | _ => false

/-- The value `ss >> op_val` stores into an `int` for a digit string denoting
`n` (`parse_factor`): the number itself, or the largest `int` on overflow. -/
def num_value (n : Nat) : Int :=
  if n ≤ 2147483647 then (n : Int) else 2147483647

/-! ## Types and the symbol table (modelled from the specification, §3 and §4.1) -/

/-- Modelled from the spec: the closed set of expression types (`symbol_table.h` absent). -/
inductive expr_type where
  | INT_T | BOOL_T | PROGRAM_T | PROCEDURE_T | UNKNOWN_T | NO_T | GARBAGE_T
deriving DecidableEq

/-- Modelled from the spec: one symbol table entry; `position` is the ordinal
of a formal parameter and is absent for every other entry. -/
structure stab_entry where
  id : String
  env : String
  type : expr_type
  position : Option Int
deriving DecidableEq

/-- Modelled from the spec: the symbol table is a flat collection of entries
in installation order (`symbol_table.cc` absent). -/
structure Symbol_Table where
  entries : List stab_entry
deriving DecidableEq

namespace Symbol_Table

/-- Modelled from the spec: `install(name, env, type)` appends an entry. -/
def install (t : Symbol_Table) (id env : String) (ty : expr_type) : Symbol_Table :=
  { entries := t.entries ++ [{ id := id, env := env, type := ty, position := none }] }

/-- Modelled from the spec: `install(name, env, type, ordinal)` appends an
entry that records the formal-parameter position. -/
def install_pos (t : Symbol_Table) (id env : String) (ty : expr_type) (pos : Int) :
    Symbol_Table :=
  { entries := t.entries ++ [{ id := id, env := env, type := ty, position := some pos }] }

/-- Modelled from the spec: the program environment known to the table is the
name of the entry of type `PROGRAM_T` (installed in `_EXTERNAL`). -/
def program_env (t : Symbol_Table) : Option String :=
  (t.entries.find? (fun x => decide (x.type = expr_type.PROGRAM_T))).map (fun x => x.id)

/-- Modelled from the spec: the first entry with the given name and environment. -/
def lookup (t : Symbol_Table) (id env : String) : Option stab_entry :=
  t.entries.find? (fun x => decide (x.id = id) && decide (x.env = env))

/-- Modelled from the spec: lookup in `env`, then, when `env` is not the
program environment and there is no hit, in the program environment. -/
def lookup_scoped (t : Symbol_Table) (id env : String) : Option stab_entry :=
  match t.lookup id env with
  | some x => some x
  | none =>
    match t.program_env with
    | some m => if env = m then none else t.lookup id m
    | none => none

/-- Modelled from the spec: `is_decl(name, env)`. -/
def is_decl (t : Symbol_Table) (id env : String) : Bool :=
  (t.lookup_scoped id env).isSome

/-- Modelled from the spec: `get_type(name, env)`; `GARBAGE_T` when no entry exists. -/
def get_type (t : Symbol_Table) (id env : String) : expr_type :=
  match t.lookup_scoped id env with
  | some x => x.type
  | none => expr_type.GARBAGE_T

/-- Modelled from the spec: `get_type(procedure_name, ordinal)`, the declared
type of the formal parameter of that procedure with that ordinal
(`GARBAGE_T` when there is none). -/
def get_type_pos (t : Symbol_Table) (proc_id : String) (pos : Int) : expr_type :=
  match t.entries.find? (fun x => decide (x.env = proc_id) && decide (x.position = some pos)) with
  | some x => x.type
  | none => expr_type.GARBAGE_T

/-- Modelled from the spec: `update_type(T)` stamps every entry whose type is
still `UNKNOWN_T`. -/
def update_type (t : Symbol_Table) (ty : expr_type) : Symbol_Table :=
  { entries := t.entries.map
      (fun x => if x.type = expr_type.UNKNOWN_T then { x with type := ty } else x) }

end Symbol_Table

/-! ## Registers, operands and the emitter (modelled from the specification) -/

/-- Modelled from the spec: the three machine registers (`register.h` absent). -/
inductive Register where
  | R1 | R2 | R3
deriving DecidableEq

/-- Modelled from the spec: the register pool, one in-use flag per register
(`register_allocator.cc` absent). -/
structure Register_Allocator where
  inuse1 : Bool
  inuse2 : Bool
  inuse3 : Bool
deriving DecidableEq

namespace Register_Allocator

/-- The in-use flag of a register. -/
def inuse (a : Register_Allocator) : Register → Bool
  | .R1 => a.inuse1
  | .R2 => a.inuse2
  | .R3 => a.inuse3

/-- Modelled from the spec: `has_free_register()`. -/
def has_free_register (a : Register_Allocator) : Bool :=
  !a.inuse1 || !a.inuse2 || !a.inuse3

/-- Modelled from the spec: `allocate_register()` hands out the free register
of lowest number; `none` is the contract error of an empty pool. -/
def allocate_register (a : Register_Allocator) : Option (Register × Register_Allocator) :=
  if !a.inuse1 then some (.R1, { a with inuse1 := true })
  else if !a.inuse2 then some (.R2, { a with inuse2 := true })
  else if !a.inuse3 then some (.R3, { a with inuse3 := true })
  else none

/-- Modelled from the spec: `deallocate_register(R)`; `none` is the contract
violation of releasing a register that is not allocated. -/
def deallocate_register (a : Register_Allocator) (r : Register) : Option Register_Allocator :=
  if a.inuse r then
    some (match r with
      | .R1 => { a with inuse1 := false }
      | .R2 => { a with inuse2 := false }
      | .R3 => { a with inuse3 := false })
  else none

/-- The register free set is full: no register is in use. -/
def all_free (a : Register_Allocator) : Bool :=
  !a.inuse1 && !a.inuse2 && !a.inuse3

end Register_Allocator

/-- Modelled from the spec: where an expression result lives (`operand.h` absent). -/
inductive Operand where
  | OPTYPE_REGISTER (r : Register)
  | OPTYPE_IMMEDIATE (i : Int)
  | OPTYPE_MEMORY (m : String)
deriving DecidableEq

/-- Modelled from the spec: the instruction mnemonics used by the parser. -/
inductive inst_type where
  | INST_ADD | INST_SUB | INST_MUL | INST_DIV | INST_NEG | INST_NOT | INST_OUTB
  | INST_BREZ | INST_BRNE | INST_BRPO
deriving DecidableEq

/-- Modelled from the spec: one line of emitted IR, by emitter operation (`emitter.cc` absent). -/
inductive IR where
  | label (l : String)
  | comment (text : String)
  | halt
  | data_directive (l : String) (size : Nat)
  | move_reg_imm (dst : Register) (src : Int)
  | move_reg_mem (dst : Register) (src : String)
  | move_mem_reg (dst : String) (src : Register)
  | inst_1addr (op : inst_type) (r : Register)
  | inst_2addr (op : inst_type) (dst : Register) (src : Operand)
  | branch (l : String)
  | branch_cond (op : inst_type) (r : Register) (l : String)
deriving DecidableEq

/-- Modelled from the spec: the emitter owns the append-only output and one
label counter per label stem. -/
structure Emitter where
  out : List IR
  counters : List (String × Nat)
deriving DecidableEq

namespace Emitter

/-- The number of labels already generated for a stem. -/
def count (e : Emitter) (stem : String) : Nat :=
  match e.counters.find? (fun x => decide (x.1 = stem)) with
  | some x => x.2
  | none => 0

/-- Modelled from the spec: `get_new_label(stem)` returns the stem followed by
the next value of its counter (`spill1`, `spill2`, ...). -/
def get_new_label (e : Emitter) (stem : String) : String × Emitter :=
  let n := e.count stem + 1
  (stem ++ toString n,
   { e with counters := (stem, n) :: e.counters.filter (fun x => !decide (x.1 = stem)) })

/-- Append one line to the output. -/
def emit (e : Emitter) (i : IR) : Emitter :=
  { e with out := e.out ++ [i] }

end Emitter

/-! ## Parser state -/

/-- What is written to standard error. -/
inductive Diagnostic where
  | parse_error (expected : String) (found : Token)
  | multiply_defined_identifier (id : String)
  | undeclared_identifier (id : String)
  | type_error (expected found : expr_type)
  | type_error2 (expected1 expected2 found : expr_type)
deriving DecidableEq

/-- A local variable of type `Operand*`: the operand it points to (`none` for
`nullptr`), whether that operand object has been deleted, and whether the
variable is still in scope. -/
structure Slot where
  op : Option Operand
  deleted : Bool
  live : Bool
deriving DecidableEq

/-- The data members of `class Parser` together with the compile-time switch
`PARSER_TEST_MODE`, the standard-error log and the operand slots.  `lex` is
the scanner: the tokens it has not delivered yet. -/
structure Parser where
  test_mode : Bool
  lex : List Token
  word : Token
  stab : Symbol_Table
  current_env : String
  main_env : String
  procedure_name : String
  actual_parm_position : Int
  formal_parm_position : Int
  parsing_formal_parm_list : Bool
  e : Emitter
  allocator : Register_Allocator
  last_register_op : Option Nat
  program_labels : List String
  spilled_labels : List (String × Bool)
  slots : List Slot
  diagnostics : List Diagnostic
deriving DecidableEq

/-- A contract of a collaborator that the parser violated. -/
inductive Contract where
  | allocate_on_empty_pool
  | deallocate_free_register (r : Register)
  | invalid_last_register_op
  | invalid_operand
deriving DecidableEq

/-- Why a run ended before the production returned. -/
inductive Halt where
  | exit_failure
  | out_of_fuel
  | contract (c : Contract)
deriving DecidableEq

/-- The result of running a piece of the parser. -/
inductive Res (α : Type) where
  | ok (a : α) (p : Parser)
  | halt (h : Halt) (p : Parser)
deriving DecidableEq

/-- A piece of parser code: a function of the parser record. -/
def M (α : Type) : Type := Parser → Res α

/-- Sequencing of parser code. -/
def M.bind {α β : Type} (x : M α) (f : α → M β) : M β := fun p =>
  match x p with
  | .ok a p1 => f a p1
  | .halt h p1 => .halt h p1

/-- Code that returns a value without touching the record. -/
def M.pure {α : Type} (a : α) : M α := fun p => .ok a p

instance : Monad M where
  pure := M.pure
  bind := M.bind

/-- End the run. -/
def halt_with {α : Type} (h : Halt) : M α := fun p => .halt h p

/-- Read the parser record. -/
def getp : M Parser := fun p => .ok p p

/-- Update the parser record. -/
def modifyp (f : Parser → Parser) : M Unit := fun p => .ok () (f p)

/-- The current lookahead token. -/
def get_word : M Token := fun p => .ok p.word p

/-- The constructor `Parser::Parser`: the first token is requested from the
scanner; `test_mode` is the value of `PARSER_TEST_MODE`.  The three name
pointers start out as empty strings (the null pointers of production mode are
never dereferenced before `parse_program` assigns them). -/
def Parser.init (test_mode : Bool) (tokens : List Token) : Parser :=
  { test_mode := test_mode
    lex := tokens.tail
    word := tokens.headD Token.TOKEN_EOF
    stab := { entries := [] }
    current_env := ""
    main_env := ""
    procedure_name := ""
    actual_parm_position := -1
    formal_parm_position := -1
    parsing_formal_parm_list := false
    e := { out := [], counters := [] }
    allocator := { inuse1 := false, inuse2 := false, inuse3 := false }
    last_register_op := none
    program_labels := []
    spilled_labels := []
    slots := []
    diagnostics := [] }

/-! ## Primitive actions of the parser -/

/-- Method `Parser::done_with_input`. -/
def done_with_input (p : Parser) : Bool :=
  decide (p.word = Token.TOKEN_EOF)

/-- The record after `Parser::advance`: the lookahead is replaced by the next
token of the scanner, which keeps answering `TOKEN_EOF` once it is exhausted. -/
def Parser.advanced (p : Parser) : Parser :=
  match p.lex with
  | [] => { p with word := Token.TOKEN_EOF }
  | t :: rest => { p with word := t, lex := rest }

/-- Method `Parser::advance`. -/
def advance : M Unit := modifyp Parser.advanced

/-- Write one diagnostic to standard error. -/
def report (d : Diagnostic) : M Unit := modifyp fun p =>
  { p with diagnostics := p.diagnostics ++ [d] }

/-- Method `Parser::parse_error`. -/
def parse_error (expected : String) (found : Token) : M Unit :=
  report (.parse_error expected found)

/-- The tail `#if !PARSER_TEST_MODE exit(EXIT_FAILURE); #endif` of the
semantic error reporters. -/
def exit_unless_test_mode : M Unit := fun p =>
  if p.test_mode then .ok () p else .halt .exit_failure p

/-- Method `Parser::multiply_defined_identifier`. -/
def multiply_defined_identifier (id : String) : M Unit := do
  report (.multiply_defined_identifier id)
  exit_unless_test_mode

/-- Method `Parser::undeclared_identifier`. -/
def undeclared_identifier (id : String) : M Unit := do
  report (.undeclared_identifier id)
  exit_unless_test_mode

/-- Method `Parser::type_error(expected, found)`. -/
def type_error (expected found : expr_type) : M Unit := do
  report (.type_error expected found)
  exit_unless_test_mode

/-- Method `Parser::type_error(expected1, expected2, found)`. -/
def type_error2 (expected1 expected2 found : expr_type) : M Unit := do
  report (.type_error2 expected1 expected2 found)
  exit_unless_test_mode

/-- Method `Parser::allocate_spill_memory`: the label of the first inactive entry is
returned as it is; otherwise a new label is generated and pushed as active. -/
def allocate_spill_memory : M String := fun p =>
  match p.spilled_labels.find? (fun entry => !entry.2) with
  | some entry => .ok entry.1 p
  | none =>
    let spilled_label := p.e.get_new_label "spill"
    .ok spilled_label.1
      { p with e := spilled_label.2,
               spilled_labels := p.spilled_labels ++ [(spilled_label.1, true)] }

/-- Method `Parser::deallocate_spill_memory`: every entry whose label equals the
argument (as a string) becomes inactive. -/
def deallocate_spill_memory (spilled_label : String) : M Unit := modifyp fun p =>
  let spilled_labels := p.spilled_labels.map
    (fun entry => if entry.1 = spilled_label then (entry.1, false) else entry)
  { p with spilled_labels := spilled_labels }

/-- Append one line of IR (`e->emit_...`). -/
def emit (i : IR) : M Unit := modifyp fun p => { p with e := p.e.emit i }

/-- The call `e->get_new_label(stem)`. -/
def get_new_label (stem : String) : M String := fun p =>
  let l := p.e.get_new_label stem
  .ok l.1 { p with e := l.2 }

/-- The call `allocator->has_free_register()`. -/
def has_free_register : M Bool := fun p => .ok p.allocator.has_free_register p

/-- The call `allocator->allocate_register()`; allocating from an empty pool
ends the run with the contract error. -/
def allocate_register : M Register := fun p =>
  match p.allocator.allocate_register with
  | some (r, a) => .ok r { p with allocator := a }
  | none => .halt (.contract .allocate_on_empty_pool) p

/-- The call `allocator->deallocate_register(r)`; releasing a register that is
not allocated ends the run with the contract violation. -/
def deallocate_register (r : Register) : M Unit := fun p =>
  match p.allocator.deallocate_register r with
  | some a => .ok () { p with allocator := a }
  | none => .halt (.contract (.deallocate_free_register r)) p

/-! ## Operand slots -/

/-- Declaration of a local `Operand*` variable with its initial value; the
result is the number of the new slot. -/
def new_operand_slot (init : Option Operand) : M Nat := fun p =>
  .ok p.slots.length { p with slots := p.slots ++ [{ op := init, deleted := false, live := true }] }

/-- The local variable goes out of scope (its production returns). -/
def end_of_scope (slot : Nat) : M Unit := modifyp fun p =>
  { p with slots := p.slots.modify (fun s => { s with live := false }) slot }

/-- Dereference of an operand pointer (`op->get_type()`, `op->get_r_value()`,
...): the operand the slot points to.  A null or dangling pointer ends the
run. -/
def operand_at (slot : Nat) : M Operand := fun p =>
  match p.slots[slot]? with
  | some { op := some o, deleted := false, live := true } => .ok o p
  | _ => .halt (.contract .invalid_operand) p

/-- The assignment `op = new Operand(...)`. -/
def assign_operand (slot : Nat) (o : Operand) : M Unit := modifyp fun p =>
  { p with slots := p.slots.modify (fun s => { s with op := some o, deleted := false }) slot }

/-- The statement `delete op`. -/
def delete_operand (slot : Nat) : M Unit := modifyp fun p =>
  { p with slots := p.slots.modify (fun s => { s with deleted := true }) slot }

/-- The assignment `last_register_op = &op`. -/
def set_last_register_op (slot : Nat) : M Unit := modifyp fun p =>
  { p with last_register_op := some slot }

/-- The expression `(*last_register_op)->get_r_value()`: the register of the
operand in the slot `last_register_op` refers to.  The run ends when
`last_register_op` is null, refers to a variable that is out of scope, or the
operand there is null, deleted or not a register operand. -/
def last_register_op_r_value : M Register := fun p =>
  match p.last_register_op with
  | none => .halt (.contract .invalid_last_register_op) p
  | some slot =>
    match p.slots[slot]? with
    | some { op := some (.OPTYPE_REGISTER r), deleted := false, live := true } => .ok r p
    | _ => .halt (.contract .invalid_last_register_op) p

/-- The assignment `*last_register_op = new Operand(OPTYPE_MEMORY, spill_location)`. -/
def assign_last_register_op (o : Operand) : M Unit := fun p =>
  match p.last_register_op with
  | none => .halt (.contract .invalid_last_register_op) p
  | some slot => assign_operand slot o p

/-- The block guarded by `if (!allocator->has_free_register())` that is
repeated at every materialization site (`parse_stmt`, `parse_if_stmt`,
`parse_while_stmt`, `parse_print_stmt`, `parse_expr_hat`,
`parse_simple_expr_prm`, `parse_term_prm`, `parse_factor`). -/
def spill_last_register_op : M Unit := do
  let spill_location ← allocate_spill_memory
  emit (.comment "Spill register to memory since all registers are live.")
  let r ← last_register_op_r_value
  emit (.move_mem_reg spill_location r)
  deallocate_register r
  assign_last_register_op (.OPTYPE_MEMORY spill_location)

/-- The moves `e->emit_move(reg, op->get_i_value())` / `e->emit_move(reg,
op->get_m_value())` that load an operand into a register.  With
`else_branch` the second move is the plain `else` of the binary-operator
sites, so that it reads the memory value of whatever operand is there;
without it the second move is guarded by `else if (... == OPTYPE_MEMORY)`. -/
def emit_move_operand (else_branch : Bool) (reg : Register) : Operand → M Unit
  | .OPTYPE_IMMEDIATE i => emit (.move_reg_imm reg i)
  | .OPTYPE_MEMORY m => emit (.move_reg_mem reg m)
  | .OPTYPE_REGISTER _ =>
    if else_branch then halt_with (.contract .invalid_operand) else pure ()

/-- The block "make sure that the left operand is stored in a register" of
`parse_expr_hat`, `parse_simple_expr_prm`, `parse_term_prm` and (with the
guarded second move) of the signed factor in `parse_factor`: the register of
the operand, or a newly allocated register the operand is moved into, the
slot being rewritten to the register operand. -/
def left_op_into_register (else_branch : Bool) (left_op : Nat) : M Register := do
  match (← operand_at left_op) with
  | .OPTYPE_REGISTER r => pure r
  | _ =>
    if !(← has_free_register) then
      spill_last_register_op
    let left_op_reg ← allocate_register
    emit_move_operand else_branch left_op_reg (← operand_at left_op)
    delete_operand left_op
    assign_operand left_op (.OPTYPE_REGISTER left_op_reg)
    pure left_op_reg

/-- The block "make sure that the operand holding the expression value is in
a register" of `parse_stmt`, `parse_if_stmt`, `parse_while_stmt` and
`parse_print_stmt`: the operand slot is left as it is. -/
def expression_into_register (expression : Nat) : M Register := do
  match (← operand_at expression) with
  | .OPTYPE_REGISTER r => pure r
  | _ =>
    if !(← has_free_register) then
      spill_last_register_op
    let expression_register ← allocate_register
    emit_move_operand false expression_register (← operand_at expression)
    pure expression_register

/-- The `switch (right_op->get_type())` that outputs the 2-address
instruction with the right operand in whatever form it has. -/
def emit_2addr_operand (instruction : inst_type) (left_op_reg : Register) (right_op : Nat) :
    M Unit := do
  emit (.inst_2addr instruction left_op_reg (← operand_at right_op))

/-- The block "clean up the right operand" of the binary-operator sites. -/
def release_right_op (right_op : Nat) : M Unit := do
  match (← operand_at right_op) with
  | .OPTYPE_REGISTER r => deallocate_register r
  | .OPTYPE_MEMORY m => deallocate_spill_memory m
  | .OPTYPE_IMMEDIATE _ => pure ()
  delete_operand right_op

/-! ## Productions: declarations -/

/-- The call `stab.install(id, current_env, type)`. -/
def stab_install (id : String) (ty : expr_type) : M Unit := modifyp fun p =>
  { p with stab := p.stab.install id p.current_env ty }

/-- The calls `stab.install(id, current_env, UNKNOWN_T, formal_parm_position);
++formal_parm_position;`. -/
def stab_install_formal (id : String) : M Unit := modifyp fun p =>
  { p with stab := p.stab.install_pos id p.current_env expr_type.UNKNOWN_T p.formal_parm_position,
           formal_parm_position := p.formal_parm_position + 1 }

/-- The statement `if (*current_env == *main_env) program_labels.push_back(id);`. -/
def reserve_program_label (id : String) : M Unit := modifyp fun p =>
  if p.current_env = p.main_env then { p with program_labels := p.program_labels ++ [id] } else p

/-- The call `stab.update_type(standard_type_type)`. -/
def stab_update_type (ty : expr_type) : M Unit := modifyp fun p =>
  { p with stab := p.stab.update_type ty }

/-- The assignment `parsing_formal_parm_list = b`. -/
def set_parsing_formal_parm_list (b : Bool) : M Unit := modifyp fun p =>
  { p with parsing_formal_parm_list := b }

/-- The assignment `procedure_name = identifier_attr` of `parse_stmt`. -/
def set_procedure_name (id : String) : M Unit := modifyp fun p =>
  { p with procedure_name := id }

/-- The assignment `actual_parm_position = 0` of `parse_adhoc_as_pc_tail`. -/
def reset_actual_parm_position : M Unit := modifyp fun p =>
  { p with actual_parm_position := 0 }

/-- The statement `++actual_parm_position` of `parse_actual_parm_list`. -/
def increment_actual_parm_position : M Unit := modifyp fun p =>
  { p with actual_parm_position := p.actual_parm_position + 1 }

/-- The statements `stab.install(id, current_env, PROCEDURE_T); current_env =
id; formal_parm_position = 0;` of `parse_procedure_decl`. -/
def enter_procedure (id : String) : M Unit := modifyp fun p =>
  { p with stab := p.stab.install id p.current_env expr_type.PROCEDURE_T,
           current_env := id,
           formal_parm_position := 0 }

/-- The assignment `current_env = main_env` of `parse_procedure_decl`. -/
def leave_procedure : M Unit := modifyp fun p =>
  { p with current_env := p.main_env }

/-- The semantic actions on `program id` in `parse_program`: the program
name is installed as `PROGRAM_T` in `_EXTERNAL` and becomes the current and
the program environment. -/
def enter_program (id_name : String) : M Unit := modifyp fun p =>
  { p with stab := p.stab.install id_name "_EXTERNAL" expr_type.PROGRAM_T,
           current_env := id_name,
           main_env := id_name }

/-- Method `Parser::parse_standard_type`. -/
def parse_standard_type (standard_type_type : expr_type) : M (Bool × expr_type) := do
  if is_keyword (← get_word) .KW_INT then
    advance
    pure (true, .INT_T)
  else if is_keyword (← get_word) .KW_BOOL then
    advance
    pure (true, .BOOL_T)
  else
    pure (false, standard_type_type)

/-- Method `Parser::parse_identifier_list_prm`. -/
def parse_identifier_list_prm : Nat → M Bool
  | 0 => halt_with .out_of_fuel
  | fuel + 1 => do
    if is_punctuation (← get_word) .PUNC_COMMA then
      advance
      match (← get_word) with
      | .TOKEN_ID identifier_attr =>
        let p ← getp
        if p.stab.is_decl identifier_attr p.current_env then
          multiply_defined_identifier identifier_attr
        else
          if p.parsing_formal_parm_list then
            stab_install_formal identifier_attr
          else
            stab_install identifier_attr .UNKNOWN_T
        reserve_program_label identifier_attr
        advance
        parse_identifier_list_prm fuel
      | word =>
        parse_error "identifier" word
        pure false
    else
      pure true
termination_by structural fuel => fuel

/-- Method `Parser::parse_identifier_list`. -/
def parse_identifier_list : Nat → M Bool
  | 0 => halt_with .out_of_fuel
  | fuel + 1 => do
    match (← get_word) with
    | .TOKEN_ID identifier_attr =>
      let p ← getp
      if p.stab.is_decl identifier_attr p.current_env then
        multiply_defined_identifier identifier_attr
      else
        stab_install identifier_attr .UNKNOWN_T
      reserve_program_label identifier_attr
      advance
      parse_identifier_list_prm fuel
    | word =>
      parse_error "identifier" word
      pure false

/-- Method `Parser::parse_variable_decl`. -/
def parse_variable_decl : Nat → M Bool
  | 0 => halt_with .out_of_fuel
  | fuel + 1 => do
    if is_identifier (← get_word) then
      if (← parse_identifier_list fuel) then
        if is_punctuation (← get_word) .PUNC_COLON then
          advance
          let standard_type ← parse_standard_type .GARBAGE_T
          if standard_type.1 then
            stab_update_type standard_type.2
            pure true
          else
            pure false
        else
          parse_error "':'" (← get_word)
          pure false
      else
        pure false
    else
      parse_error "identifier" (← get_word)
      pure false

/-- Method `Parser::parse_variable_decl_list`. -/
def parse_variable_decl_list : Nat → M Bool
  | 0 => halt_with .out_of_fuel
  | fuel + 1 => do
    if is_identifier (← get_word) then
      if (← parse_variable_decl fuel) then
        if is_punctuation (← get_word) .PUNC_SEMI then
          advance
          parse_variable_decl_list fuel
        else
          parse_error "';'" (← get_word)
          pure false
      else
        pure false
    else
      pure true
termination_by structural fuel => fuel

mutual

/-- Method `Parser::parse_formal_parm_list`. -/
def parse_formal_parm_list : Nat → M Bool
  | 0 => halt_with .out_of_fuel
  | fuel + 1 => do
    match (← get_word) with
    | .TOKEN_ID identifier_attr =>
      let p ← getp
      if p.stab.is_decl identifier_attr p.current_env then
        multiply_defined_identifier identifier_attr
      else
        stab_install_formal identifier_attr
      advance
      if (← parse_identifier_list_prm fuel) then
        if is_punctuation (← get_word) .PUNC_COLON then
          advance
          let standard_type ← parse_standard_type .GARBAGE_T
          if standard_type.1 then
            stab_update_type standard_type.2
            parse_formal_parm_list_hat fuel
          else
            pure false
        else
          parse_error "':'" (← get_word)
          pure false
      else
        pure false
    | word =>
      parse_error "identifier" word
      pure false
termination_by structural fuel => fuel

/-- Method `Parser::parse_formal_parm_list_hat`. -/
def parse_formal_parm_list_hat : Nat → M Bool
  | 0 => halt_with .out_of_fuel
  | fuel + 1 => do
    if is_punctuation (← get_word) .PUNC_SEMI then
      advance
      parse_formal_parm_list fuel
    else
      pure true
termination_by structural fuel => fuel

end

/-- Method `Parser::parse_procedure_args`. -/
def parse_procedure_args : Nat → M Bool
  | 0 => halt_with .out_of_fuel
  | fuel + 1 => do
    if is_identifier (← get_word) then
      set_parsing_formal_parm_list true
      if (← parse_formal_parm_list fuel) then
        set_parsing_formal_parm_list false
        pure true
      else
        pure false
    else
      pure true

/-! ## Productions: expressions -/

/-- Method `Parser::parse_sign`. -/
def parse_sign (sign_type : expr_type) : M (Bool × expr_type) := do
  if is_addop_attr (← get_word) .ADDOP_ADD then
    advance
    pure (true, .INT_T)
  else if is_addop_attr (← get_word) .ADDOP_SUB then
    advance
    pure (true, .INT_T)
  else if is_keyword (← get_word) .KW_NOT then
    advance
    pure (true, .BOOL_T)
  else
    pure (false, sign_type)

/-- The `switch (comparator)` of `parse_expr_hat`: the conditional branches
to `compare_false` for each relational operator. -/
def emit_compare_branches (comparator : relop_attr) (r : Register) (compare_false : String) :
    M Unit :=
  match comparator with
  | .RELOP_EQ => do
    emit (.branch_cond .INST_BRNE r compare_false)
    emit (.branch_cond .INST_BRPO r compare_false)
  | .RELOP_NE =>
    emit (.branch_cond .INST_BREZ r compare_false)
  | .RELOP_GT => do
    emit (.branch_cond .INST_BRNE r compare_false)
    emit (.branch_cond .INST_BREZ r compare_false)
  | .RELOP_GE =>
    emit (.branch_cond .INST_BRNE r compare_false)
  | .RELOP_LT => do
    emit (.branch_cond .INST_BREZ r compare_false)
    emit (.branch_cond .INST_BRPO r compare_false)
  | .RELOP_LE =>
    emit (.branch_cond .INST_BRPO r compare_false)

/-- The semantic analysis at the end of `parse_expr`. -/
def expr_semantics (expr_type_result simple_expr_type expr_hat_type : expr_type) :
    M expr_type := do
  if expr_hat_type = .NO_T then
    pure simple_expr_type
  else if simple_expr_type = .INT_T ∧ expr_hat_type = .INT_T then
    pure .BOOL_T
  else
    type_error2 .INT_T simple_expr_type expr_hat_type
    pure expr_type_result

/-- The semantic analysis at the end of `parse_simple_expr`. -/
def simple_expr_semantics (simple_expr_type term_type simple_expr_prm_type : expr_type) :
    M expr_type := do
  if simple_expr_prm_type = .NO_T then
    pure term_type
  else if term_type = simple_expr_prm_type then
    pure term_type
  else
    type_error term_type simple_expr_prm_type
    pure simple_expr_type

/-- The semantic analysis at the end of the `addop` branch of
`parse_simple_expr_prm`. -/
def simple_expr_prm_semantics
    (simple_expr_prm0_type addop_type term_type simple_expr_prm1_type : expr_type) :
    M expr_type := do
  if simple_expr_prm1_type = .NO_T then
    if addop_type = term_type then
      pure addop_type
    else
      type_error addop_type term_type
      pure simple_expr_prm0_type
  else if addop_type = term_type ∧ term_type = simple_expr_prm1_type then
    pure addop_type
  else
    type_error2 addop_type term_type simple_expr_prm1_type
    pure simple_expr_prm0_type

/-- The semantic analysis at the end of `parse_term`. -/
def term_semantics (term_type factor_type term_prm_type : expr_type) : M expr_type := do
  if term_prm_type = .NO_T then
    pure factor_type
  else if factor_type = term_prm_type then
    pure factor_type
  else
    type_error factor_type term_prm_type
    pure term_type

/-- The semantic analysis at the end of the `mulop` branch of `parse_term_prm`. -/
def term_prm_semantics (term_prm0_type mulop_type factor_type term_prm1_type : expr_type) :
    M expr_type := do
  if term_prm1_type = .NO_T ∧ mulop_type = factor_type then
    pure mulop_type
  else if mulop_type = factor_type ∧ factor_type = term_prm1_type then
    pure mulop_type
  else if term_prm1_type = .NO_T then
    type_error mulop_type factor_type
    pure term_prm0_type
  else
    type_error2 mulop_type factor_type term_prm1_type
    pure term_prm0_type

/-- The type an additive operator is given in `parse_simple_expr_prm`. -/
def addop_type_of (addop_attr : addop_attr) : expr_type :=
  if addop_attr = .ADDOP_ADD ∨ addop_attr = .ADDOP_SUB then .INT_T else .BOOL_T

/-- The instruction an additive operator is given in `parse_simple_expr_prm`. -/
def addop_instruction (addop_attr : addop_attr) : inst_type :=
  if addop_attr = .ADDOP_ADD ∨ addop_attr = .ADDOP_OR then .INST_ADD else .INST_SUB

/-- The type a multiplicative operator is given in `parse_term_prm`. -/
def mulop_type_of (mulop_attr : mulop_attr) : expr_type :=
  if mulop_attr = .MULOP_MUL ∨ mulop_attr = .MULOP_DIV then .INT_T else .BOOL_T

/-- The instruction a multiplicative operator is given in `parse_term_prm`. -/
def mulop_instruction (mulop_attr : mulop_attr) : inst_type :=
  if mulop_attr = .MULOP_MUL ∨ mulop_attr = .MULOP_AND then .INST_MUL else .INST_DIV

/-- The IR block of `parse_expr_hat` ("generate code for left_op relop
right_op"), from the materialization of the left operand to the release of
the right operand. -/
def relop_codegen (comparator : relop_attr) (left_op right_op : Nat) : M Unit := do
  let left_op_reg ← left_op_into_register true left_op
  set_last_register_op left_op
  emit (.comment "Compare two values by examining their difference.")
  emit_2addr_operand .INST_SUB left_op_reg right_op
  let compare_false ← get_new_label "compare_false"
  let compare_done ← get_new_label "compare_done"
  emit (.comment "Normalize result of comparison to 0 or 1.")
  emit_compare_branches comparator left_op_reg compare_false
  emit (.move_reg_imm left_op_reg 1)
  emit (.branch compare_done)
  emit (.label compare_false)
  emit (.move_reg_imm left_op_reg 0)
  emit (.label compare_done)
  release_right_op right_op

/-- The IR block of `parse_simple_expr_prm` ("generate code for left_op addop
right_op"), from the materialization of the left operand to the release of
the right operand. -/
def addop_codegen (addop_attr : addop_attr) (left_op right_op : Nat) : M Unit := do
  let left_op_reg ← left_op_into_register true left_op
  set_last_register_op left_op
  emit_2addr_operand (addop_instruction addop_attr) left_op_reg right_op
  if addop_attr = .ADDOP_OR then
    emit (.comment "Normalize result of OR operation to 0 or 1.")
    let or_done ← get_new_label "or_done"
    emit (.branch_cond .INST_BREZ left_op_reg or_done)
    emit (.move_reg_imm left_op_reg 1)
    emit (.label or_done)
  release_right_op right_op

/-- The IR block of `parse_term_prm` ("left_op operation right_op"), from the
materialization of the left operand to the release of the right operand. -/
def mulop_codegen (mulop_attr : mulop_attr) (left_op right_op : Nat) : M Unit := do
  let left_op_reg ← left_op_into_register true left_op
  set_last_register_op left_op
  emit_2addr_operand (mulop_instruction mulop_attr) left_op_reg right_op
  release_right_op right_op

/-- The IR block of the signed factor in `parse_factor`; `sign_operation` is
the flag of the source: 0 for `+`, 1 for `-`, 2 for `not`. -/
def sign_codegen (sign_operation : Int) (op : Nat) : M Unit := do
  if sign_operation = 0 then
    pure ()
  else
    let op_register ← left_op_into_register false op
    set_last_register_op op
    if sign_operation = 1 then
      emit (.inst_1addr .INST_NEG op_register)
    else if sign_operation = 2 then
      emit (.inst_1addr .INST_NOT op_register)

/-- The flag `sign_operation` computed in `parse_factor` from the lookahead. -/
def sign_operation_of (word : Token) : Int :=
  if is_addop_attr word .ADDOP_ADD then 0
  else if is_addop_attr word .ADDOP_SUB then 1
  else if is_keyword word .KW_NOT then 2
  else -1

mutual

/-- Method `Parser::parse_expr`. -/
def parse_expr : Nat → expr_type → Nat → M (Bool × expr_type)
  | 0, _, _ => halt_with .out_of_fuel
  | fuel + 1, expr_type_result, op => do
    let simple_expr ← parse_simple_expr fuel .GARBAGE_T op
    if simple_expr.1 then
      let expr_hat ← parse_expr_hat fuel .GARBAGE_T op
      if expr_hat.1 then
        let result ← expr_semantics expr_type_result simple_expr.2 expr_hat.2
        pure (true, result)
      else
        pure (false, expr_type_result)
    else
      pure (false, expr_type_result)
termination_by structural fuel _ _ => fuel

/-- Method `Parser::parse_expr_hat`. -/
def parse_expr_hat : Nat → expr_type → Nat → M (Bool × expr_type)
  | 0, _, _ => halt_with .out_of_fuel
  | fuel + 1, expr_hat_type, left_op => do
    match (← get_word) with
    | .TOKEN_RELOP comparator =>
      advance
      let right_op ← new_operand_slot none
      let simple_expr ← parse_simple_expr fuel .GARBAGE_T right_op
      if simple_expr.1 then
        let expr_hat_type ←
          if simple_expr.2 = .INT_T then
            pure expr_type.INT_T
          else do
            type_error .INT_T simple_expr.2
            pure expr_hat_type
        relop_codegen comparator left_op right_op
        end_of_scope right_op
        pure (true, expr_hat_type)
      else
        end_of_scope right_op
        pure (false, expr_hat_type)
    | _ =>
      pure (true, .NO_T)
termination_by structural fuel _ _ => fuel

/-- Method `Parser::parse_simple_expr`. -/
def parse_simple_expr : Nat → expr_type → Nat → M (Bool × expr_type)
  | 0, _, _ => halt_with .out_of_fuel
  | fuel + 1, simple_expr_type, op => do
    let term ← parse_term fuel .GARBAGE_T op
    if term.1 then
      let simple_expr_prm ← parse_simple_expr_prm fuel .GARBAGE_T op
      if simple_expr_prm.1 then
        let result ← simple_expr_semantics simple_expr_type term.2 simple_expr_prm.2
        pure (true, result)
      else
        pure (false, simple_expr_type)
    else
      pure (false, simple_expr_type)
termination_by structural fuel _ _ => fuel

/-- Method `Parser::parse_simple_expr_prm`. -/
def parse_simple_expr_prm : Nat → expr_type → Nat → M (Bool × expr_type)
  | 0, _, _ => halt_with .out_of_fuel
  | fuel + 1, simple_expr_prm0_type, left_op => do
    match (← get_word) with
    | .TOKEN_ADDOP addop_attr =>
      advance
      let right_op ← new_operand_slot none
      let term ← parse_term fuel .GARBAGE_T right_op
      if term.1 then
        addop_codegen addop_attr left_op right_op
        let simple_expr_prm1 ← parse_simple_expr_prm fuel .GARBAGE_T left_op
        if simple_expr_prm1.1 then
          let result ← simple_expr_prm_semantics simple_expr_prm0_type
            (addop_type_of addop_attr) term.2 simple_expr_prm1.2
          end_of_scope right_op
          pure (true, result)
        else
          end_of_scope right_op
          pure (false, simple_expr_prm0_type)
      else
        end_of_scope right_op
        pure (false, simple_expr_prm0_type)
    | _ =>
      pure (true, .NO_T)
termination_by structural fuel _ _ => fuel

/-- Method `Parser::parse_term`. -/
def parse_term : Nat → expr_type → Nat → M (Bool × expr_type)
  | 0, _, _ => halt_with .out_of_fuel
  | fuel + 1, term_type, op => do
    let factor ← parse_factor fuel .GARBAGE_T op
    if factor.1 then
      let term_prm ← parse_term_prm fuel .GARBAGE_T op
      if term_prm.1 then
        let result ← term_semantics term_type factor.2 term_prm.2
        pure (true, result)
      else
        pure (false, term_type)
    else
      pure (false, term_type)
termination_by structural fuel _ _ => fuel

/-- Method `Parser::parse_term_prm`. -/
def parse_term_prm : Nat → expr_type → Nat → M (Bool × expr_type)
  | 0, _, _ => halt_with .out_of_fuel
  | fuel + 1, term_prm0_type, left_op => do
    let right_op ← new_operand_slot none
    match (← get_word) with
    | .TOKEN_MULOP mulop_attr =>
      advance
      let factor ← parse_factor fuel .GARBAGE_T right_op
      if factor.1 then
        mulop_codegen mulop_attr left_op right_op
        let term_prm1 ← parse_term_prm fuel .GARBAGE_T left_op
        if term_prm1.1 then
          let result ← term_prm_semantics term_prm0_type (mulop_type_of mulop_attr) factor.2
            term_prm1.2
          end_of_scope right_op
          pure (true, result)
        else
          end_of_scope right_op
          pure (false, term_prm0_type)
      else
        end_of_scope right_op
        pure (false, term_prm0_type)
    | _ =>
      end_of_scope right_op
      pure (true, .NO_T)
termination_by structural fuel _ _ => fuel

/-- Method `Parser::parse_factor`. -/
def parse_factor : Nat → expr_type → Nat → M (Bool × expr_type)
  | 0, _, _ => halt_with .out_of_fuel
  | fuel + 1, factor0_type, op => do
    match (← get_word) with
    | .TOKEN_ID identifier_attr =>
      let p ← getp
      let factor0_type ←
        if !p.stab.is_decl identifier_attr p.current_env then do
          undeclared_identifier identifier_attr
          pure factor0_type
        else
          pure (p.stab.get_type identifier_attr p.current_env)
      assign_operand op (.OPTYPE_MEMORY identifier_attr)
      advance
      pure (true, factor0_type)
    | .TOKEN_NUM attr =>
      assign_operand op (.OPTYPE_IMMEDIATE (num_value attr))
      advance
      pure (true, .INT_T)
    | word =>
      if is_punctuation word .PUNC_OPEN then
        advance
        let expr ← parse_expr fuel .GARBAGE_T op
        if expr.1 then
          if is_punctuation (← get_word) .PUNC_CLOSE then
            advance
            pure (true, expr.2)
          else
            parse_error "')'" (← get_word)
            pure (false, factor0_type)
        else
          pure (false, factor0_type)
      else if is_addop_attr word .ADDOP_ADD || is_addop_attr word .ADDOP_SUB
          || is_keyword word .KW_NOT then
        let sign ← parse_sign .GARBAGE_T
        if sign.1 then
          let factor1 ← parse_factor fuel .GARBAGE_T op
          if factor1.1 then
            if sign.2 ≠ factor1.2 then
              type_error sign.2 factor1.2
            sign_codegen (sign_operation_of word) op
            pure (true, factor1.2)
          else
            pure (false, factor0_type)
        else
          pure (false, factor0_type)
      else
        pure (false, factor0_type)
termination_by structural fuel _ _ => fuel

end

/-! ## Productions: actual parameters -/

mutual

/-- Method `Parser::parse_actual_parm_list`: the operand of the actual parameter is
not used (the source marks it unimplemented). -/
def parse_actual_parm_list : Nat → M Bool
  | 0 => halt_with .out_of_fuel
  | fuel + 1 => do
    let expression ← new_operand_slot none
    let expr ← parse_expr fuel .GARBAGE_T expression
    if expr.1 then
      let p ← getp
      let expected_type := p.stab.get_type_pos p.procedure_name p.actual_parm_position
      if expr.2 ≠ expected_type then
        type_error expected_type expr.2
      increment_actual_parm_position
      let result ← parse_actual_parm_list_hat fuel
      end_of_scope expression
      pure result
    else
      end_of_scope expression
      pure false
termination_by structural fuel => fuel

/-- Method `Parser::parse_actual_parm_list_hat`. -/
def parse_actual_parm_list_hat : Nat → M Bool
  | 0 => halt_with .out_of_fuel
  | fuel + 1 => do
    if is_punctuation (← get_word) .PUNC_COMMA then
      advance
      parse_actual_parm_list fuel
    else
      pure true
termination_by structural fuel => fuel

end

/-- Method `Parser::parse_expr_list`. -/
def parse_expr_list : Nat → M Bool
  | 0 => halt_with .out_of_fuel
  | fuel + 1 => do
    let word ← get_word
    if is_identifier word || is_number word || is_punctuation word .PUNC_OPEN
        || is_addop_attr word .ADDOP_ADD || is_addop_attr word .ADDOP_SUB
        || is_keyword word .KW_NOT then
      parse_actual_parm_list fuel
    else
      pure true

/-! ## Productions: statements -/

/-- Method `Parser::parse_adhoc_as_pc_tail`. -/
def parse_adhoc_as_pc_tail : Nat → expr_type → Nat → M (Bool × expr_type)
  | 0, _, _ => halt_with .out_of_fuel
  | fuel + 1, adhoc_as_pc_tail_type, expression => do
    if is_punctuation (← get_word) .PUNC_ASSIGN then
      advance
      let expr ← parse_expr fuel .GARBAGE_T expression
      if expr.1 then
        pure (true, expr.2)
      else
        pure (false, adhoc_as_pc_tail_type)
    else if is_punctuation (← get_word) .PUNC_OPEN then
      let p ← getp
      let procedure_type := p.stab.get_type p.procedure_name p.main_env
      if procedure_type ≠ .PROCEDURE_T then
        type_error .PROCEDURE_T procedure_type
      reset_actual_parm_position
      advance
      if (← parse_expr_list fuel) then
        if is_punctuation (← get_word) .PUNC_CLOSE then
          advance
          pure (true, .PROCEDURE_T)
        else
          parse_error "')'" (← get_word)
          pure (false, adhoc_as_pc_tail_type)
      else
        pure (false, adhoc_as_pc_tail_type)
    else
      pure (false, adhoc_as_pc_tail_type)

/-- The IR block of `parse_print_stmt`: the value is brought into a register,
printed, and the register and the operand are released. -/
def print_codegen (expression : Nat) : M Unit := do
  let expression_register ← expression_into_register expression
  emit (.inst_1addr .INST_OUTB expression_register)
  deallocate_register expression_register
  delete_operand expression

/-- Method `Parser::parse_print_stmt`. -/
def parse_print_stmt : Nat → M Bool
  | 0 => halt_with .out_of_fuel
  | fuel + 1 => do
    if is_keyword (← get_word) .KW_PRINT then
      advance
      let expression ← new_operand_slot none
      let expr ← parse_expr fuel .GARBAGE_T expression
      if expr.1 then
        if expr.2 ≠ .INT_T ∧ expr.2 ≠ .BOOL_T then
          type_error2 .INT_T .BOOL_T expr.2
        print_codegen expression
        end_of_scope expression
        pure true
      else
        end_of_scope expression
        pure false
    else
      parse_error "print" (← get_word)
      pure false

/-- The IR block of the assignment in `parse_stmt` ("only generate code for
assignment statements"): the value is brought into a register, moved to the
memory location of the identifier, and the register and the operand are
released. -/
def assignment_codegen (identifier_attr : String) (expression : Nat) : M Unit := do
  let expression_register ← expression_into_register expression
  emit (.move_mem_reg identifier_attr expression_register)
  deallocate_register expression_register
  delete_operand expression

/-- The alternative `STMT -> identifier ADHOC_AS_PC_TAIL` of
`Parser::parse_stmt`, entered with the identifier as lookahead. -/
def parse_stmt_identifier (fuel : Nat) (identifier_attr : String) : M Bool := do
  let p ← getp
  if !p.stab.is_decl identifier_attr p.current_env then
    undeclared_identifier identifier_attr
  else
    set_procedure_name identifier_attr
  advance
  let expression ← new_operand_slot (some (.OPTYPE_MEMORY identifier_attr))
  let adhoc_as_pc_tail ← parse_adhoc_as_pc_tail fuel .GARBAGE_T expression
  if adhoc_as_pc_tail.1 then
    let p ← getp
    let identifier_type := p.stab.get_type identifier_attr p.current_env
    if adhoc_as_pc_tail.2 ≠ identifier_type then
      type_error identifier_type adhoc_as_pc_tail.2
    if identifier_type ≠ .PROCEDURE_T then
      assignment_codegen identifier_attr expression
    end_of_scope expression
    pure true
  else
    end_of_scope expression
    pure false

/-- The IR block for the condition of `parse_if_stmt`: the value is brought
into a register, the labels of the else part and of the end of the statement
are generated (the result is the pair `(else_part, if_done)`), the test is emitted, and the register
and the operand are released. -/
def if_condition_codegen (expression : Nat) : M (String × String) := do
  let expression_register ← expression_into_register expression
  let else_part ← get_new_label "else"
  let if_done ← get_new_label "if_done"
  emit (.branch_cond .INST_BREZ expression_register else_part)
  deallocate_register expression_register
  delete_operand expression
  pure (else_part, if_done)

/-- The IR block for the condition of `parse_while_stmt`: the value is
brought into a register, the test is emitted, and the register and the
operand are released. -/
def while_condition_codegen (while_done : String) (expression : Nat) : M Unit := do
  let expression_register ← expression_into_register expression
  emit (.branch_cond .INST_BREZ expression_register while_done)
  deallocate_register expression_register
  delete_operand expression

/-- The part of `parse_if_stmt` that follows the semantic analysis of the
condition: the IR for the test, then `then BLOCK IF_STMT_HAT`.  `block` and
`if_stmt_hat` are the calls `parse_block()` and `parse_if_stmt_hat()`. -/
def if_stmt_tail (block if_stmt_hat : M Bool) (expression : Nat) : M Bool := do
  let labels ← if_condition_codegen expression
  if is_keyword (← get_word) .KW_THEN then
    advance
    if (← block) then
      emit (.branch labels.2)
      emit (.label labels.1)
      if (← if_stmt_hat) then
        emit (.label labels.2)
        end_of_scope expression
        pure true
      else
        end_of_scope expression
        pure false
    else
      end_of_scope expression
      pure false
  else
    parse_error "then" (← get_word)
    end_of_scope expression
    pure false

/-- The part of `parse_while_stmt` that follows the semantic analysis of the
condition: the IR for the test, then `loop BLOCK`.  `block` is the call
`parse_block()`. -/
def while_stmt_tail (block : M Bool) (while_cond while_done : String) (expression : Nat) :
    M Bool := do
  while_condition_codegen while_done expression
  if is_keyword (← get_word) .KW_LOOP then
    advance
    if (← block) then
      emit (.branch while_cond)
      emit (.label while_done)
      end_of_scope expression
      pure true
    else
      end_of_scope expression
      pure false
  else
    parse_error "loop" (← get_word)
    end_of_scope expression
    pure false

mutual

/-- Method `Parser::parse_block`. -/
def parse_block : Nat → M Bool
  | 0 => halt_with .out_of_fuel
  | fuel + 1 => do
    if is_keyword (← get_word) .KW_BEGIN then
      advance
      if (← parse_stmt_list fuel) then
        if is_keyword (← get_word) .KW_END then
          advance
          pure true
        else
          parse_error "end" (← get_word)
          pure false
      else
        pure false
    else
      parse_error "begin" (← get_word)
      pure false
termination_by structural fuel => fuel

/-- Method `Parser::parse_stmt_list`. -/
def parse_stmt_list : Nat → M Bool
  | 0 => halt_with .out_of_fuel
  | fuel + 1 => do
    let word ← get_word
    if is_identifier word || is_keyword word .KW_IF || is_keyword word .KW_WHILE
        || is_keyword word .KW_PRINT then
      if (← parse_stmt fuel) then
        if is_punctuation (← get_word) .PUNC_SEMI then
          advance
          parse_stmt_list_prm fuel
        else
          parse_error "';'" (← get_word)
          pure false
      else
        pure false
    else if is_punctuation word .PUNC_SEMI then
      advance
      parse_stmt_list_prm fuel
    else
      pure false
termination_by structural fuel => fuel

/-- Method `Parser::parse_stmt_list_prm`. -/
def parse_stmt_list_prm : Nat → M Bool
  | 0 => halt_with .out_of_fuel
  | fuel + 1 => do
    let word ← get_word
    if is_identifier word || is_keyword word .KW_IF || is_keyword word .KW_WHILE
        || is_keyword word .KW_PRINT then
      if (← parse_stmt fuel) then
        if is_punctuation (← get_word) .PUNC_SEMI then
          advance
          parse_stmt_list_prm fuel
        else
          parse_error "';'" (← get_word)
          pure false
      else
        pure false
    else
      pure true
termination_by structural fuel => fuel

/-- Method `Parser::parse_stmt`. -/
def parse_stmt : Nat → M Bool
  | 0 => halt_with .out_of_fuel
  | fuel + 1 => do
    match (← get_word) with
    | .TOKEN_ID identifier_attr =>
      parse_stmt_identifier fuel identifier_attr
    | word =>
      if is_keyword word .KW_IF then
        parse_if_stmt fuel
      else if is_keyword word .KW_WHILE then
        parse_while_stmt fuel
      else if is_keyword word .KW_PRINT then
        parse_print_stmt fuel
      else
        pure false
termination_by structural fuel => fuel

/-- Method `Parser::parse_if_stmt`. -/
def parse_if_stmt : Nat → M Bool
  | 0 => halt_with .out_of_fuel
  | fuel + 1 => do
    if is_keyword (← get_word) .KW_IF then
      advance
      let expression ← new_operand_slot none
      let expr ← parse_expr fuel .GARBAGE_T expression
      if expr.1 then
        if expr.2 ≠ .BOOL_T then
          type_error .BOOL_T expr.2
        if_stmt_tail (parse_block fuel) (parse_if_stmt_hat fuel) expression
      else
        end_of_scope expression
        pure false
    else
      parse_error "if" (← get_word)
      pure false
termination_by structural fuel => fuel

/-- Method `Parser::parse_if_stmt_hat`. -/
def parse_if_stmt_hat : Nat → M Bool
  | 0 => halt_with .out_of_fuel
  | fuel + 1 => do
    if is_keyword (← get_word) .KW_ELSE then
      advance
      parse_block fuel
    else
      pure true
termination_by structural fuel => fuel

/-- Method `Parser::parse_while_stmt`. -/
def parse_while_stmt : Nat → M Bool
  | 0 => halt_with .out_of_fuel
  | fuel + 1 => do
    if is_keyword (← get_word) .KW_WHILE then
      advance
      let expression ← new_operand_slot none
      let while_cond ← get_new_label "while_cond"
      let while_done ← get_new_label "while_done"
      emit (.label while_cond)
      let expr ← parse_expr fuel .GARBAGE_T expression
      if expr.1 then
        if expr.2 ≠ .BOOL_T then
          type_error .BOOL_T expr.2
        while_stmt_tail (parse_block fuel) while_cond while_done expression
      else
        end_of_scope expression
        pure false
    else
      parse_error "while" (← get_word)
      pure false
termination_by structural fuel => fuel

end

/-! ## Productions: procedures and the program -/

/-- Method `Parser::parse_procedure_decl`. -/
def parse_procedure_decl : Nat → M Bool
  | 0 => halt_with .out_of_fuel
  | fuel + 1 => do
    if is_keyword (← get_word) .KW_PROCEDURE then
      advance
      match (← get_word) with
      | .TOKEN_ID identifier_attr =>
        let p ← getp
        if p.stab.is_decl identifier_attr p.current_env then
          multiply_defined_identifier identifier_attr
        else
          enter_procedure identifier_attr
        advance
        if is_punctuation (← get_word) .PUNC_OPEN then
          advance
          if (← parse_procedure_args fuel) then
            if is_punctuation (← get_word) .PUNC_CLOSE then
              advance
              if (← parse_variable_decl_list fuel) then
                if (← parse_block fuel) then
                  leave_procedure
                  pure true
                else
                  pure false
              else
                pure false
            else
              parse_error "')'" (← get_word)
              pure false
          else
            pure false
        else
          parse_error "'('" (← get_word)
          pure false
      | word =>
        parse_error "identifier" word
        pure false
    else
      parse_error "procedure" (← get_word)
      pure false

/-- Method `Parser::parse_procedure_decl_list`. -/
def parse_procedure_decl_list : Nat → M Bool
  | 0 => halt_with .out_of_fuel
  | fuel + 1 => do
    if is_keyword (← get_word) .KW_PROCEDURE then
      if (← parse_procedure_decl fuel) then
        if is_punctuation (← get_word) .PUNC_SEMI then
          advance
          parse_procedure_decl_list fuel
        else
          parse_error "';'" (← get_word)
          pure false
      else
        pure false
    else
      pure true
termination_by structural fuel => fuel

/-- Method `Parser::parse_decl_list`. -/
def parse_decl_list : Nat → M Bool
  | 0 => halt_with .out_of_fuel
  | fuel + 1 => do
    if (← parse_variable_decl_list fuel) then
      parse_procedure_decl_list fuel
    else
      pure false

/-- The loops `for (label : labels) e->emit_data_directive(label, 1);` of
`parse_program`. -/
def emit_data_directives (labels : List String) : M Unit := modifyp fun p =>
  { p with e := labels.foldl (fun e l => e.emit (.data_directive l 1)) p.e }

/-- The epilogue of `parse_program`: the halt instruction and the data
directives for the program variables and the spilled memories. -/
def emit_epilogue : M Unit := do
  emit .halt
  let p ← getp
  if !p.program_labels.isEmpty then
    emit (.comment "Data directives for program variables.")
    emit_data_directives p.program_labels
  if !p.spilled_labels.isEmpty then
    emit (.comment "Data directives for spilled memories.")
    emit_data_directives (p.spilled_labels.map (fun entry => entry.1))

/-- Method `Parser::parse_program`. -/
def parse_program : Nat → M Bool
  | 0 => halt_with .out_of_fuel
  | fuel + 1 => do
    if is_keyword (← get_word) .KW_PROGRAM then
      advance
      match (← get_word) with
      | .TOKEN_ID id_name =>
        enter_program id_name
        emit (.label ("_" ++ id_name))
        advance
        if is_punctuation (← get_word) .PUNC_SEMI then
          advance
          if (← parse_decl_list fuel) then
            if (← parse_block fuel) then
              if is_punctuation (← get_word) .PUNC_SEMI then
                advance
                emit_epilogue
                pure true
              else
                parse_error "';'" (← get_word)
                pure false
            else
              pure false
          else
            pure false
        else
          parse_error "';'" (← get_word)
          pure false
      | word =>
        parse_error "identifier" word
        pure false
    else
      parse_error "keyword program" (← get_word)
      pure false

/-- Compile a token sequence with a freshly constructed parser. -/
def compile (test_mode : Bool) (fuel : Nat) (tokens : List Token) : Res Bool :=
  parse_program fuel (Parser.init test_mode tokens)

/-- The parser record a run ended with. -/
def Res.parser {α : Type} : Res α → Parser
  | .ok _ p => p
  | .halt _ p => p

/-- The value a run returned, if it returned. -/
def Res.value {α : Type} : Res α → Option α
  | .ok a _ => some a
  | .halt _ _ => none

/-- The reason a run was ended for, if it was. -/
def Res.halted {α : Type} : Res α → Option Halt
  | .ok _ _ => none
  | .halt h _ => some h

/-! ## Concrete programs -/

/-- The tokens of `program p; a, b : int; procedure q(x : int) begin x := 1;
end; begin q(a + b); end;`. -/
def prog_call_compound_actual : List Token :=
  [.TOKEN_KEYWORD .KW_PROGRAM, .TOKEN_ID "p", .TOKEN_PUNC .PUNC_SEMI,
   .TOKEN_ID "a", .TOKEN_PUNC .PUNC_COMMA, .TOKEN_ID "b", .TOKEN_PUNC .PUNC_COLON,
   .TOKEN_KEYWORD .KW_INT, .TOKEN_PUNC .PUNC_SEMI,
   .TOKEN_KEYWORD .KW_PROCEDURE, .TOKEN_ID "q", .TOKEN_PUNC .PUNC_OPEN, .TOKEN_ID "x",
   .TOKEN_PUNC .PUNC_COLON, .TOKEN_KEYWORD .KW_INT, .TOKEN_PUNC .PUNC_CLOSE,
   .TOKEN_KEYWORD .KW_BEGIN, .TOKEN_ID "x", .TOKEN_PUNC .PUNC_ASSIGN, .TOKEN_NUM 1,
   .TOKEN_PUNC .PUNC_SEMI, .TOKEN_KEYWORD .KW_END, .TOKEN_PUNC .PUNC_SEMI,
   .TOKEN_KEYWORD .KW_BEGIN,
   .TOKEN_ID "q", .TOKEN_PUNC .PUNC_OPEN, .TOKEN_ID "a", .TOKEN_ADDOP .ADDOP_ADD, .TOKEN_ID "b",
   .TOKEN_PUNC .PUNC_CLOSE, .TOKEN_PUNC .PUNC_SEMI,
   .TOKEN_KEYWORD .KW_END, .TOKEN_PUNC .PUNC_SEMI]

/-- The tokens of `program p; a, b, c, d, e, f, g, h : int; begin
a := (a + b) * ((c + d) * ((e + f) * (g + h))); end;`. -/
def prog_nested_products : List Token :=
  [.TOKEN_KEYWORD .KW_PROGRAM, .TOKEN_ID "p", .TOKEN_PUNC .PUNC_SEMI,
   .TOKEN_ID "a", .TOKEN_PUNC .PUNC_COMMA, .TOKEN_ID "b", .TOKEN_PUNC .PUNC_COMMA,
   .TOKEN_ID "c", .TOKEN_PUNC .PUNC_COMMA, .TOKEN_ID "d", .TOKEN_PUNC .PUNC_COMMA,
   .TOKEN_ID "e", .TOKEN_PUNC .PUNC_COMMA, .TOKEN_ID "f", .TOKEN_PUNC .PUNC_COMMA,
   .TOKEN_ID "g", .TOKEN_PUNC .PUNC_COMMA, .TOKEN_ID "h", .TOKEN_PUNC .PUNC_COLON,
   .TOKEN_KEYWORD .KW_INT, .TOKEN_PUNC .PUNC_SEMI,
   .TOKEN_KEYWORD .KW_BEGIN,
   .TOKEN_ID "a", .TOKEN_PUNC .PUNC_ASSIGN,
   .TOKEN_PUNC .PUNC_OPEN, .TOKEN_ID "a", .TOKEN_ADDOP .ADDOP_ADD, .TOKEN_ID "b",
   .TOKEN_PUNC .PUNC_CLOSE, .TOKEN_MULOP .MULOP_MUL,
   .TOKEN_PUNC .PUNC_OPEN,
   .TOKEN_PUNC .PUNC_OPEN, .TOKEN_ID "c", .TOKEN_ADDOP .ADDOP_ADD, .TOKEN_ID "d",
   .TOKEN_PUNC .PUNC_CLOSE, .TOKEN_MULOP .MULOP_MUL,
   .TOKEN_PUNC .PUNC_OPEN,
   .TOKEN_PUNC .PUNC_OPEN, .TOKEN_ID "e", .TOKEN_ADDOP .ADDOP_ADD, .TOKEN_ID "f",
   .TOKEN_PUNC .PUNC_CLOSE, .TOKEN_MULOP .MULOP_MUL,
   .TOKEN_PUNC .PUNC_OPEN, .TOKEN_ID "g", .TOKEN_ADDOP .ADDOP_ADD, .TOKEN_ID "h",
   .TOKEN_PUNC .PUNC_CLOSE,
   .TOKEN_PUNC .PUNC_CLOSE, .TOKEN_PUNC .PUNC_CLOSE,
   .TOKEN_PUNC .PUNC_SEMI,
   .TOKEN_KEYWORD .KW_END, .TOKEN_PUNC .PUNC_SEMI]

/-- The tokens of `program p; a, b : int; procedure q(x : int) begin x := 1;
end; begin q(a + b); q(a + b); q(a + b); a := 1; end;`. -/
def prog_three_calls_then_assignment : List Token :=
  [.TOKEN_KEYWORD .KW_PROGRAM, .TOKEN_ID "p", .TOKEN_PUNC .PUNC_SEMI,
   .TOKEN_ID "a", .TOKEN_PUNC .PUNC_COMMA, .TOKEN_ID "b", .TOKEN_PUNC .PUNC_COLON,
   .TOKEN_KEYWORD .KW_INT, .TOKEN_PUNC .PUNC_SEMI,
   .TOKEN_KEYWORD .KW_PROCEDURE, .TOKEN_ID "q", .TOKEN_PUNC .PUNC_OPEN, .TOKEN_ID "x",
   .TOKEN_PUNC .PUNC_COLON, .TOKEN_KEYWORD .KW_INT, .TOKEN_PUNC .PUNC_CLOSE,
   .TOKEN_KEYWORD .KW_BEGIN, .TOKEN_ID "x", .TOKEN_PUNC .PUNC_ASSIGN, .TOKEN_NUM 1,
   .TOKEN_PUNC .PUNC_SEMI, .TOKEN_KEYWORD .KW_END, .TOKEN_PUNC .PUNC_SEMI,
   .TOKEN_KEYWORD .KW_BEGIN,
   .TOKEN_ID "q", .TOKEN_PUNC .PUNC_OPEN, .TOKEN_ID "a", .TOKEN_ADDOP .ADDOP_ADD, .TOKEN_ID "b",
   .TOKEN_PUNC .PUNC_CLOSE, .TOKEN_PUNC .PUNC_SEMI,
   .TOKEN_ID "q", .TOKEN_PUNC .PUNC_OPEN, .TOKEN_ID "a", .TOKEN_ADDOP .ADDOP_ADD, .TOKEN_ID "b",
   .TOKEN_PUNC .PUNC_CLOSE, .TOKEN_PUNC .PUNC_SEMI,
   .TOKEN_ID "q", .TOKEN_PUNC .PUNC_OPEN, .TOKEN_ID "a", .TOKEN_ADDOP .ADDOP_ADD, .TOKEN_ID "b",
   .TOKEN_PUNC .PUNC_CLOSE, .TOKEN_PUNC .PUNC_SEMI,
   .TOKEN_ID "a", .TOKEN_PUNC .PUNC_ASSIGN, .TOKEN_NUM 1, .TOKEN_PUNC .PUNC_SEMI,
   .TOKEN_KEYWORD .KW_END, .TOKEN_PUNC .PUNC_SEMI]

/-- The slot `last_register_op` refers to, if any. -/
def Parser.last_register_slot (p : Parser) : Option Slot :=
  match p.last_register_op with
  | none => none
  | some slot => p.slots[slot]?

/-! ## Invariants of the parser record -/

/-- A predicate on parser records that a piece of parser code maintains: if it
holds before, it holds for the record the code returns with, and `H` holds
for the reason and record of a run that is ended. -/
def preserves {α : Type} (I : Parser → Prop) (H : Halt → Parser → Prop) (x : M α) : Prop :=
  ∀ p, I p → match x p with
    | .ok _ p1 => I p1
    | .halt h p1 => H h p1

/-- The basic blocks of the expression productions maintain `I` (with `H` at
a halt). -/
structure ExprBlockInvariant (I : Parser → Prop) (H : Halt → Parser → Prop) : Prop where
  out_of_fuel : ∀ p, I p → H .out_of_fuel p
  advance : preserves I H advance
  parse_error : ∀ expected found, preserves I H (parse_error expected found)
  undeclared_identifier : ∀ id, preserves I H (undeclared_identifier id)
  type_error : ∀ expected found, preserves I H (type_error expected found)
  type_error2 : ∀ expected1 expected2 found, preserves I H (type_error2 expected1 expected2 found)
  new_operand_slot_null : preserves I H (new_operand_slot none)
  end_of_scope : ∀ slot, preserves I H (end_of_scope slot)
  assign_memory : ∀ slot m, preserves I H (assign_operand slot (.OPTYPE_MEMORY m))
  assign_immediate : ∀ slot i, preserves I H (assign_operand slot (.OPTYPE_IMMEDIATE i))
  relop_codegen : ∀ c l r, preserves I H (relop_codegen c l r)
  addop_codegen : ∀ a l r, preserves I H (addop_codegen a l r)
  mulop_codegen : ∀ m l r, preserves I H (mulop_codegen m l r)
  sign_codegen : ∀ s op, preserves I H (sign_codegen s op)

/-- A predicate on parser records that a piece of parser code maintains when
it is entered from a record satisfying the guard `G`. -/
def preserves_from {α : Type} (G : Parser → Prop) (I : Parser → Prop)
    (H : Halt → Parser → Prop) (x : M α) : Prop :=
  ∀ p, I p → G p → match x p with
    | .ok _ p1 => I p1
    | .halt h p1 => H h p1

/-- The basic blocks of the statement productions maintain `I` (with `H` at a
halt). -/
structure StmtBlockInvariant (I : Parser → Prop) (H : Halt → Parser → Prop)
    extends ExprBlockInvariant I H : Prop where
  set_procedure_name : ∀ id, preserves I H (set_procedure_name id)
  reset_actual_parm_position : preserves I H reset_actual_parm_position
  increment_actual_parm_position : preserves I H increment_actual_parm_position
  emit : ∀ i, preserves I H (emit i)
  get_new_label : ∀ stem, preserves I H (get_new_label stem)
  new_operand_slot_memory : ∀ m, preserves I H (new_operand_slot (some (.OPTYPE_MEMORY m)))
  print_codegen : ∀ e, preserves I H (print_codegen e)
  assignment_codegen : ∀ id e, preserves I H (assignment_codegen id e)
  if_condition_codegen : ∀ e, preserves I H (if_condition_codegen e)
  while_condition_codegen : ∀ l e, preserves I H (while_condition_codegen l e)

/-- The basic blocks of the variable and formal parameter declarations
maintain `I` (with `H` at a halt); the two installations are entered only
when `is_decl` has answered false for the identifier. -/
structure DeclBlockInvariant (I : Parser → Prop) (H : Halt → Parser → Prop)
    extends StmtBlockInvariant I H : Prop where
  multiply_defined_identifier : ∀ id, preserves I H (multiply_defined_identifier id)
  reserve_program_label : ∀ id, preserves I H (reserve_program_label id)
  stab_update_type : ∀ ty, preserves I H (stab_update_type ty)
  set_parsing_formal_parm_list : ∀ b, preserves I H (set_parsing_formal_parm_list b)
  stab_install : ∀ id ty,
    preserves_from (fun p => p.stab.is_decl id p.current_env = false) I H (stab_install id ty)
  stab_install_formal : ∀ id,
    preserves_from (fun p => p.stab.is_decl id p.current_env = false) I H
      (stab_install_formal id)

/-- The basic blocks of the procedure declarations maintain `I` (with `H` at
a halt); a procedure is entered only when `is_decl` has answered false for
its name. -/
structure ProcBlockInvariant (I : Parser → Prop) (H : Halt → Parser → Prop)
    extends DeclBlockInvariant I H : Prop where
  leave_procedure : preserves I H leave_procedure
  enter_procedure : ∀ id,
    preserves_from (fun p => p.stab.is_decl id p.current_env = false) I H (enter_procedure id)

/-- The basic blocks of the parser maintain `I` (with `H` at a halt). -/
structure BlockInvariant (I : Parser → Prop) (H : Halt → Parser → Prop)
    extends ProcBlockInvariant I H : Prop where
  enter_program : ∀ id, preserves I H (enter_program id)
  emit_epilogue : preserves I H emit_epilogue

/-! ### Register ownership -/

/-- The slot owns the register: it points to a register operand that has not
been deleted. -/
def Slot.owns (s : Slot) (r : Register) : Prop :=
  s.op = some (.OPTYPE_REGISTER r) ∧ s.deleted = false

/-- Register ownership is consistent for all slots but `x`: a register owned
by a slot is in use, and no two slots own the same register. -/
def owner_invariant_except (x : Option Nat) (p : Parser) : Prop :=
  ∀ (i : Nat) (s : Slot) (r : Register), some i ≠ x → p.slots[i]? = some s → s.owns r →
    p.allocator.inuse r = true ∧
      ∀ (j : Nat) (t : Slot), some j ≠ x → p.slots[j]? = some t → t.owns r → i = j

/-- Register ownership is consistent: a register owned by a slot is in use,
and no two slots own the same register. -/
def owner_invariant (p : Parser) : Prop :=
  owner_invariant_except none p

/-- Ownership is consistent, the register `r` is in use, and it is owned by
no slot other than `x`. -/
def register_held (x : Option Nat) (r : Register) (p : Parser) : Prop :=
  owner_invariant p ∧ p.allocator.inuse r = true ∧
    ∀ (i : Nat) (s : Slot), p.slots[i]? = some s → s.owns r → some i = x

/-- The run was not ended by the release of a register that is not allocated. -/
def no_double_free (h : Halt) : Prop :=
  ∀ r, h ≠ .contract (.deallocate_free_register r)

/-- The halt condition "no release of a register that is not allocated". -/
def NDF : Halt → Parser → Prop := fun h _ => no_double_free h

/-- A Hoare triple for parser code: from a record satisfying `P` the code
returns with a value and a record satisfying `Q`, or the run is ended for a
reason satisfying `H`. -/
def triple {α : Type} (H : Halt → Parser → Prop) (P : Parser → Prop) (x : M α)
    (Q : α → Parser → Prop) : Prop :=
  ∀ p, P p → match x p with
    | .ok a p1 => Q a p1
    | .halt h p1 => H h p1

/-- Code that leaves the slots, the register pool and `last_register_op` as
they are and can only be ended by `exit`. -/
def frame_only {α : Type} (x : M α) : Prop :=
  ∀ p, match x p with
    | .ok _ p1 => p1.slots = p.slots ∧ p1.allocator = p.allocator ∧
        p1.last_register_op = p.last_register_op
    | .halt h _ => h = .exit_failure

/-- A predicate that depends on the slots, the register pool and
`last_register_op` only. -/
def framed (P : Parser → Prop) : Prop :=
  ∀ p q : Parser, q.slots = p.slots → q.allocator = p.allocator →
    q.last_register_op = p.last_register_op → P p → P q

/-! ## The typing rules of the semantic checks -/

/-- The record after the diagnostics `ds` have been written to standard error. -/
def report_all (ds : List Diagnostic) (p : Parser) : Parser :=
  { p with diagnostics := p.diagnostics ++ ds }

/-- The effect of a semantic check that found the errors `errs` (at most one)
and otherwise yields `a`: without an error the value is returned; with an
error the diagnostic is written, and the run goes on in test mode and exits
in production mode. -/
def checked {α : Type} (errs : List Diagnostic) (a : α) : M α := fun p =>
  match errs with
  | [] => .ok a p
  | d :: _ => if p.test_mode then .ok a (report_all [d] p) else .halt .exit_failure (report_all [d] p)

/-- The diagnostics of the semantic check at the end of `parse_expr`. -/
def expr_errors (simple_expr_type expr_hat_type : expr_type) : List Diagnostic :=
  if expr_hat_type = .NO_T then []
  else if simple_expr_type = .INT_T ∧ expr_hat_type = .INT_T then []
  else [.type_error2 .INT_T simple_expr_type expr_hat_type]

/-- The type synthesized by the semantic check at the end of `parse_expr`. -/
def expr_result (expr_type_result simple_expr_type expr_hat_type : expr_type) : expr_type :=
  if expr_hat_type = .NO_T then simple_expr_type
  else if simple_expr_type = .INT_T ∧ expr_hat_type = .INT_T then .BOOL_T
  else expr_type_result

/-- The diagnostics of the semantic check of `parse_expr_hat`. -/
def expr_hat_errors (simple_expr_type : expr_type) : List Diagnostic :=
  if simple_expr_type = .INT_T then [] else [.type_error .INT_T simple_expr_type]

/-- The type synthesized by the semantic check of `parse_expr_hat`. -/
def expr_hat_result (expr_hat_type simple_expr_type : expr_type) : expr_type :=
  if simple_expr_type = .INT_T then .INT_T else expr_hat_type

/-- The diagnostics of the semantic check at the end of `parse_simple_expr`
and, likewise, of `parse_term`: `first` is the type of the first operand and
`rest` the type synthesized for the operators that follow it. -/
def chain_head_errors (first rest : expr_type) : List Diagnostic :=
  if rest = .NO_T then []
  else if first = rest then []
  else [.type_error first rest]

/-- The type synthesized at the end of `parse_simple_expr` and of `parse_term`. -/
def chain_head_result (incoming first rest : expr_type) : expr_type :=
  if rest = .NO_T then first
  else if first = rest then first
  else incoming

/-- The diagnostics of the semantic check of one operator of
`parse_simple_expr_prm` and, likewise, of `parse_term_prm`: `op_type` is the
type of the operator, `operand` the type of its right operand and `rest` the
type synthesized for the operators that follow. -/
def chain_link_errors (op_type operand rest : expr_type) : List Diagnostic :=
  if rest = .NO_T then
    if op_type = operand then [] else [.type_error op_type operand]
  else if op_type = operand ∧ operand = rest then []
  else [.type_error2 op_type operand rest]

/-- The type synthesized for one operator of `parse_simple_expr_prm` and of
`parse_term_prm`. -/
def chain_link_result (incoming op_type operand rest : expr_type) : expr_type :=
  if rest = .NO_T then
    if op_type = operand then op_type else incoming
  else if op_type = operand ∧ operand = rest then op_type
  else incoming

/-- What the semantic checks read: the mode, the symbol table and the two
environments. -/
def environment (p : Parser) : Bool × Symbol_Table × String × String :=
  (p.test_mode, p.stab, p.current_env, p.main_env)

/-- Code that writes nothing to standard error and leaves the mode, the
symbol table and the environments as they are. -/
def keeps_semantic_state {α : Type} (x : M α) : Prop :=
  ∀ p, (x p).parser.diagnostics = p.diagnostics ∧ environment (x p).parser = environment p

/-- The predict set test of `FACTOR -> SIGN FACTOR` in `parse_factor`: the
lookahead is `+`, `-` or `not`. -/
def is_sign (word : Token) : Bool :=
  is_addop_attr word .ADDOP_ADD || is_addop_attr word .ADDOP_SUB || is_keyword word .KW_NOT

/-- The type `parse_sign` gives to a sign: `INT_T` for `+` and `-`, `BOOL_T`
for `not`. -/
def sign_type_of (word : Token) : expr_type :=
  if is_addop_attr word .ADDOP_ADD || is_addop_attr word .ADDOP_SUB then .INT_T else .BOOL_T

/-! ## Chains of binary operators -/

/-- A parser in test mode that is about to parse the factor `not 1`, with one
operand slot. -/
def example_not_one : Parser :=
  (new_operand_slot none
    (Parser.init true [.TOKEN_KEYWORD .KW_NOT, .TOKEN_NUM 1, .TOKEN_PUNC .PUNC_SEMI])).parser

/-- The record after the lookahead has been consumed and an operand slot has
been created. -/
def advanced_with_slot (p : Parser) : Parser :=
  ((do advance; new_operand_slot none) p).parser

/-- The record after `while` has been consumed, the operand slot created, the
two labels drawn and the loop head label emitted. -/
def after_while_head (p : Parser) : Parser :=
  ((do
    advance
    let e ← new_operand_slot none
    let while_cond ← get_new_label "while_cond"
    let while_done ← get_new_label "while_done"
    emit (.label while_cond)
    pure (e, while_cond, while_done)) p).parser

/-- A parser in test mode in the program `p`, where `a` is declared as a
`bool` variable of the program, with one operand slot and the given input. -/
def example_with_bool_a (tokens : List Token) : Parser :=
  (new_operand_slot none
    { Parser.init true tokens with
      stab := { entries := [{ id := "p", env := "_EXTERNAL", type := .PROGRAM_T, position := none },
                            { id := "a", env := "p", type := .BOOL_T, position := none }] }
      current_env := "p"
      main_env := "p" }).parser

/-- The simple expression `1 + a` with `a : bool`. -/
def example_one_plus_a : Parser :=
  example_with_bool_a [.TOKEN_NUM 1, .TOKEN_ADDOP .ADDOP_ADD, .TOKEN_ID "a", .TOKEN_PUNC .PUNC_SEMI]

/-- The record after `1` of `1 + a` has been parsed as a term. -/
def example_sum_first : Parser := (parse_term 4 .GARBAGE_T 0 example_one_plus_a).parser

/-- The record after `+` has been consumed and the right operand slot created. -/
def example_sum_slot : Parser := ((do advance; new_operand_slot none) example_sum_first).parser

/-- The record after `a` of `1 + a` has been parsed as a term. -/
def example_sum_second : Parser := (parse_term 3 .GARBAGE_T 2 example_sum_slot).parser

/-- The record after the code of `1 + a` has been generated. -/
def example_sum_code : Parser := (addop_codegen .ADDOP_ADD 0 2 example_sum_second).parser

/-- The term `1 * a` with `a : bool`. -/
def example_one_times_a : Parser :=
  example_with_bool_a [.TOKEN_NUM 1, .TOKEN_MULOP .MULOP_MUL, .TOKEN_ID "a", .TOKEN_PUNC .PUNC_SEMI]

/-- The record after `1` of `1 * a` has been parsed as a factor. -/
def example_product_first : Parser := (parse_factor 4 .GARBAGE_T 0 example_one_times_a).parser

/-- The record after the right operand slot has been created and `*` consumed. -/
def example_product_slot : Parser :=
  ((do let right_op ← new_operand_slot none; advance; pure right_op) example_product_first).parser

/-- The record after `a` of `1 * a` has been parsed as a factor. -/
def example_product_second : Parser := (parse_factor 3 .GARBAGE_T 1 example_product_slot).parser

/-- The record after the code of `1 * a` has been generated. -/
def example_product_code : Parser := (mulop_codegen .MULOP_MUL 0 1 example_product_second).parser

/-- A parser in test mode at the expression `1 < a` in the program `p`, where
`a` is declared as a `bool` variable of the program, with one operand slot. -/
def example_one_less_a : Parser :=
  (new_operand_slot none
    { Parser.init true [.TOKEN_NUM 1, .TOKEN_RELOP .RELOP_LT, .TOKEN_ID "a",
        .TOKEN_PUNC .PUNC_SEMI] with
      stab := { entries := [{ id := "p", env := "_EXTERNAL", type := .PROGRAM_T, position := none },
                            { id := "a", env := "p", type := .BOOL_T, position := none }] }
      current_env := "p"
      main_env := "p" }).parser

/-- A parser in test mode at the statement `if 1 then begin ; end`. -/
def example_if_one : Parser :=
  Parser.init true [.TOKEN_KEYWORD .KW_IF, .TOKEN_NUM 1, .TOKEN_KEYWORD .KW_THEN,
    .TOKEN_KEYWORD .KW_BEGIN, .TOKEN_PUNC .PUNC_SEMI, .TOKEN_KEYWORD .KW_END,
    .TOKEN_PUNC .PUNC_SEMI]

/-- A parser in test mode at the statement `while 1 loop begin ; end`. -/
def example_while_one : Parser :=
  Parser.init true [.TOKEN_KEYWORD .KW_WHILE, .TOKEN_NUM 1, .TOKEN_KEYWORD .KW_LOOP,
    .TOKEN_KEYWORD .KW_BEGIN, .TOKEN_PUNC .PUNC_SEMI, .TOKEN_KEYWORD .KW_END,
    .TOKEN_PUNC .PUNC_SEMI]

/-- A parser in test mode at the statement `print q`, where `q` is declared
as a procedure of the program `p`. -/
def example_print_procedure : Parser :=
  { Parser.init true [.TOKEN_KEYWORD .KW_PRINT, .TOKEN_ID "q", .TOKEN_PUNC .PUNC_SEMI] with
    stab := { entries := [{ id := "p", env := "_EXTERNAL", type := .PROGRAM_T, position := none },
                          { id := "q", env := "p", type := .PROCEDURE_T, position := none }] }
    current_env := "p"
    main_env := "p" }

/-- A parser in test mode at the statement `a := 1` of the program `p`, where
`a` is declared as a `bool` variable of the program. -/
def example_assign_bool : Parser :=
  { Parser.init true [.TOKEN_ID "a", .TOKEN_PUNC .PUNC_ASSIGN, .TOKEN_NUM 1,
      .TOKEN_PUNC .PUNC_SEMI] with
    stab := { entries := [{ id := "p", env := "_EXTERNAL", type := .PROGRAM_T, position := none },
                          { id := "a", env := "p", type := .BOOL_T, position := none }] }
    current_env := "p"
    main_env := "p" }

/-- The record after the identifier of an assignment has been consumed and
the operand slot of the statement has been created. -/
def after_identifier (id : String) (p : Parser) : Parser :=
  ((do
    set_procedure_name id
    advance
    new_operand_slot (some (.OPTYPE_MEMORY id))) p).parser

/-! ## What the productions leave as it is -/

/-- The part of the parser record that code generation does not touch:
everything but the emitter, the register pool, `last_register_op`, the spill
table and the operand slots. -/
def Parser.context (p : Parser) : Bool × List Token × Token × Symbol_Table × String × String
    × String × Int × Int × Bool × List String × List Diagnostic :=
  (p.test_mode, p.lex, p.word, p.stab, p.current_env, p.main_env, p.procedure_name,
    p.actual_parm_position, p.formal_parm_position, p.parsing_formal_parm_list,
    p.program_labels, p.diagnostics)

/-- Code that changes nothing but the emitter, the register pool,
`last_register_op`, the spill table and the operand slots. -/
def only_codegen {α : Type} (x : M α) : Prop :=
  ∀ p, (x p).parser.context = p.context

/-- What the expression productions leave as it is: the mode, the symbol
table, the two environments, the name of the callee or assignee, the two
parameter counters, the formal parameter flag and the program labels. -/
def Parser.declarations (p : Parser) : Bool × Symbol_Table × String × String × String × Int × Int
    × Bool × List String :=
  (p.test_mode, p.stab, p.current_env, p.main_env, p.procedure_name, p.actual_parm_position,
    p.formal_parm_position, p.parsing_formal_parm_list, p.program_labels)

/-- What the statement productions leave as it is: the mode, the symbol
table, the two environments, the formal parameter counter and flag, and the
program labels. -/
def Parser.scope (p : Parser) : Bool × Symbol_Table × String × String × Int × Bool
    × List String :=
  (p.test_mode, p.stab, p.current_env, p.main_env, p.formal_parm_position,
    p.parsing_formal_parm_list, p.program_labels)

/-! ## Calls and undeclared identifiers -/

/-- The semantic check of one actual parameter in `parse_actual_parm_list`,
for an expression of type `expr_type_result`: the type is compared with the
type of the formal parameter of `procedure_name` at `actual_parm_position`,
and the position is incremented. -/
def actual_parm_check (expr_type_result : expr_type) : M Unit := do
  let p ← getp
  let expected_type := p.stab.get_type_pos p.procedure_name p.actual_parm_position
  if expr_type_result ≠ expected_type then
    type_error expected_type expr_type_result
  increment_actual_parm_position

/-- The part of `parse_adhoc_as_pc_tail` after `parse_expr_list` has returned
`expr_list`: the closing bracket is matched. -/
def expr_list_tail (adhoc_as_pc_tail_type : expr_type) (expr_list : Bool) :
    M (Bool × expr_type) := do
  if expr_list then
    if is_punctuation (← get_word) .PUNC_CLOSE then
      advance
      pure (true, .PROCEDURE_T)
    else
      parse_error "')'" (← get_word)
      pure (false, adhoc_as_pc_tail_type)
  else
    pure (false, adhoc_as_pc_tail_type)

/-- The part of `parse_stmt` after `parse_adhoc_as_pc_tail` has returned
`adhoc_as_pc_tail`: the type of the tail is compared with the type of the
identifier, and the code of an assignment is generated. -/
def adhoc_as_pc_tail_semantics (identifier_attr : String) (expression : Nat)
    (adhoc_as_pc_tail : Bool × expr_type) : M Bool := do
  if adhoc_as_pc_tail.1 then
    let p ← getp
    let identifier_type := p.stab.get_type identifier_attr p.current_env
    if adhoc_as_pc_tail.2 ≠ identifier_type then
      type_error identifier_type adhoc_as_pc_tail.2
    if identifier_type ≠ .PROCEDURE_T then
      assignment_codegen identifier_attr expression
    end_of_scope expression
    pure true
  else
    end_of_scope expression
    pure false

/-- The diagnostics of the check of the callee in `parse_adhoc_as_pc_tail`:
the identifier must have type `PROCEDURE_T` in the program environment. -/
def callee_errors (stab : Symbol_Table) (id main_env : String) : List Diagnostic :=
  if stab.get_type id main_env = .PROCEDURE_T then []
  else [.type_error .PROCEDURE_T (stab.get_type id main_env)]

/-- The diagnostics of the check of an actual parameter of type `t` against
the formal parameter of `procedure_name` with ordinal `position`. -/
def actual_errors (stab : Symbol_Table) (procedure_name : String) (position : Int)
    (t : expr_type) : List Diagnostic :=
  if t = stab.get_type_pos procedure_name position then []
  else [.type_error (stab.get_type_pos procedure_name position) t]

/-- The record in which `parse_expr_list` is entered after the check of the
callee has written `errs`: the actual parameter position is 0 and the opening
bracket has been consumed. -/
def call_entered (errs : List Diagnostic) (p : Parser) : Parser :=
  ((do reset_actual_parm_position; advance) (report_all errs p)).parser

/-- The way `parse_actual_parm_list` goes through a list of actual
parameters from the record `p`: each expression is parsed successfully, its
check returns, and a comma follows every expression but the last; the list
ends at the record `q`.  For each actual parameter the list `acts` holds the
type of the expression, the record after the expression and the record after
its check. -/
inductive actual_parms : Nat → Parser → List (expr_type × Parser × Parser) → Parser → Prop
  | last (fuel e : Nat) (p p1 p2 : Parser) (t : expr_type) :
      (do
        let expression ← new_operand_slot none
        let expr ← parse_expr (fuel + 1) .GARBAGE_T expression
        pure (expression, expr)) p = .ok (e, (true, t)) p1 →
      actual_parm_check t p1 = .ok () p2 →
      is_punctuation p2.word .PUNC_COMMA = false →
      actual_parms (fuel + 2) p [(t, p1, p2)] p2
  | more (fuel e : Nat) (p p1 p2 q : Parser) (t : expr_type)
      (acts : List (expr_type × Parser × Parser)) :
      (do
        let expression ← new_operand_slot none
        let expr ← parse_expr (fuel + 1) .GARBAGE_T expression
        pure (expression, expr)) p = .ok (e, (true, t)) p1 →
      actual_parm_check t p1 = .ok () p2 →
      is_punctuation p2.word .PUNC_COMMA = true →
      actual_parms fuel p2.advanced acts q →
      actual_parms (fuel + 2) p ((t, p1, p2) :: acts) q

/-- A parser in production mode at the statement `q ( 5 )` of the program
`p; x : int; procedure q (y : int) ...` (the call of scenario 6). -/
def example_call : Parser :=
  { Parser.init false [.TOKEN_ID "q", .TOKEN_PUNC .PUNC_OPEN, .TOKEN_NUM 5,
      .TOKEN_PUNC .PUNC_CLOSE, .TOKEN_PUNC .PUNC_SEMI] with
    stab := { entries := [{ id := "p", env := "_EXTERNAL", type := .PROGRAM_T, position := none },
                          { id := "x", env := "p", type := .INT_T, position := none },
                          { id := "q", env := "p", type := .PROCEDURE_T, position := none },
                          { id := "y", env := "q", type := .INT_T, position := some 0 }] }
    current_env := "p"
    main_env := "p" }

/-- The record in which the actual parameter list of `example_call` is entered. -/
def example_call_entered : Parser :=
  call_entered (callee_errors example_call.stab "q" example_call.main_env)
    (after_identifier "q" example_call)

/-- The record after the actual parameter `5` of `example_call` has been parsed. -/
def example_call_parsed : Parser :=
  ((do
    let expression ← new_operand_slot none
    let expr ← parse_expr 4 .GARBAGE_T expression
    pure (expression, expr)) example_call_entered).parser

/-- The record after the actual parameter `5` of `example_call` has been checked. -/
def example_call_checked : Parser :=
  (actual_parm_check .INT_T example_call_parsed).parser

/-- The tokens of `program p; begin a := 1; end;`. -/
def prog_undeclared_target : List Token :=
  [.TOKEN_KEYWORD .KW_PROGRAM, .TOKEN_ID "p", .TOKEN_PUNC .PUNC_SEMI,
   .TOKEN_KEYWORD .KW_BEGIN, .TOKEN_ID "a", .TOKEN_PUNC .PUNC_ASSIGN, .TOKEN_NUM 1,
   .TOKEN_PUNC .PUNC_SEMI, .TOKEN_KEYWORD .KW_END, .TOKEN_PUNC .PUNC_SEMI]

/-- A parser in production mode at the statement `a := 1` of the program
`p`, which declares nothing. -/
def example_undeclared_target : Parser :=
  { Parser.init false [.TOKEN_ID "a", .TOKEN_PUNC .PUNC_ASSIGN, .TOKEN_NUM 1,
      .TOKEN_PUNC .PUNC_SEMI, .TOKEN_KEYWORD .KW_END, .TOKEN_PUNC .PUNC_SEMI] with
    stab := { entries := [{ id := "p", env := "_EXTERNAL", type := .PROGRAM_T, position := none }] }
    current_env := "p"
    main_env := "p" }

/-! ## Declarations -/

/-- The names and environments of the entries of the symbol table, in
installation order. -/
def Symbol_Table.keys (t : Symbol_Table) : List (String × String) :=
  t.entries.map (fun x => (x.id, x.env))

/-- The guard of every declaration site (`parse_identifier_list`,
`parse_identifier_list_prm`, `parse_formal_parm_list`,
`parse_procedure_decl`): `if (stab.is_decl(id, current_env))
multiply_defined_identifier(id); else <install>`. -/
def declare (identifier_attr : String) (install : M Unit) : M Unit := do
  let p ← getp
  if p.stab.is_decl identifier_attr p.current_env then
    multiply_defined_identifier identifier_attr
  else
    install

/-- The part of `parse_program` after the program name has been matched, its
label emitted and the name consumed. -/
def program_rest (fuel : Nat) : M Bool := do
  if is_punctuation (← get_word) .PUNC_SEMI then
    advance
    if (← parse_decl_list fuel) then
      if (← parse_block fuel) then
        if is_punctuation (← get_word) .PUNC_SEMI then
          advance
          emit_epilogue
          pure true
        else
          parse_error "';'" (← get_word)
          pure false
      else
        pure false
    else
      pure false
  else
    parse_error "';'" (← get_word)
    pure false

/-- The tokens of `program p; a : int; a : bool; begin a := 1; end;`. -/
def prog_declared_twice : List Token :=
  [.TOKEN_KEYWORD .KW_PROGRAM, .TOKEN_ID "p", .TOKEN_PUNC .PUNC_SEMI,
   .TOKEN_ID "a", .TOKEN_PUNC .PUNC_COLON, .TOKEN_KEYWORD .KW_INT, .TOKEN_PUNC .PUNC_SEMI,
   .TOKEN_ID "a", .TOKEN_PUNC .PUNC_COLON, .TOKEN_KEYWORD .KW_BOOL, .TOKEN_PUNC .PUNC_SEMI,
   .TOKEN_KEYWORD .KW_BEGIN, .TOKEN_ID "a", .TOKEN_PUNC .PUNC_ASSIGN, .TOKEN_NUM 1,
   .TOKEN_PUNC .PUNC_SEMI, .TOKEN_KEYWORD .KW_END, .TOKEN_PUNC .PUNC_SEMI]

/-- A parser in test mode at the second declaration `a : bool` of
`prog_declared_twice`. -/
def example_declared_twice : Parser :=
  { Parser.init true [.TOKEN_ID "a", .TOKEN_PUNC .PUNC_COLON, .TOKEN_KEYWORD .KW_BOOL,
      .TOKEN_PUNC .PUNC_SEMI] with
    stab := { entries := [{ id := "p", env := "_EXTERNAL", type := .PROGRAM_T, position := none },
                          { id := "a", env := "p", type := .INT_T, position := none }] }
    current_env := "p"
    main_env := "p" }

/-! ## Procedure headers -/

/-- The name, environment and ordinal of the entries of the symbol table, in
installation order. -/
def Symbol_Table.ordinals (t : Symbol_Table) : List (String × String × Option Int) :=
  t.entries.map (fun x => (x.id, x.env, x.position))

/-- The names of a list in one environment with consecutive ordinals from
`start` on. -/
def with_ordinals (env : String) (start : Int) :
    List String → List (String × String × Option Int)
  | [] => []
  | x :: names => (x, env, some start) :: with_ordinals env (start + 1) names

/-- The names of a list in one environment without an ordinal. -/
def without_ordinals (env : String) (names : List String) :
    List (String × String × Option Int) :=
  names.map (fun x => (x, env, none))

/-- The fields of the parser record that the declarations of a procedure
header work on. -/
def Parser.header (p : Parser) : Symbol_Table × String × Bool × Int :=
  (p.stab, p.current_env, p.parsing_formal_parm_list, p.formal_parm_position)

/-- The statements of `parse_identifier_list_prm` for an identifier that is
not declared yet: the installation (with the ordinal while a formal parameter
list is parsed), the label reservation and the advance. -/
def more_declared (identifier_attr : String) : M Unit := do
  if (← getp).parsing_formal_parm_list then
    stab_install_formal identifier_attr
  else
    stab_install identifier_attr .UNKNOWN_T
  reserve_program_label identifier_attr
  advance

/-- The statements of `parse_identifier_list` for an identifier that is not
declared yet. -/
def first_declared (identifier_attr : String) : M Unit := do
  stab_install identifier_attr .UNKNOWN_T
  reserve_program_label identifier_attr
  advance

/-- The statements of `parse_formal_parm_list` for an identifier that is not
declared yet. -/
def formal_declared (identifier_attr : String) : M Unit := do
  stab_install_formal identifier_attr
  advance

/-- The statements of `parse_procedure_decl` from the keyword to the
parenthesis, for a procedure name that is not declared yet. -/
def procedure_entered (identifier_attr : String) : M Unit := do
  advance
  enter_procedure identifier_attr
  advance

/-- The statements that `parse_variable_decl` and `parse_formal_parm_list`
share after the identifier list: the colon, the standard type and the
stamping of the entries that wait for their type. -/
def declare_type : M Bool := do
  if is_punctuation (← get_word) .PUNC_COLON then
    advance
    let standard_type ← parse_standard_type .GARBAGE_T
    if standard_type.1 then
      stab_update_type standard_type.2
      pure true
    else
      pure false
  else
    parse_error "':'" (← get_word)
    pure false

/-- The run of `parse_identifier_list_prm` with the given fuel from the
record `p` over `, x1 , x2 ...`, each name met undeclared, to the record `q`
where the lookahead is no comma; `names` lists the identifiers in source
order. -/
inductive more_identifiers : Nat → Parser → List String → Parser → Prop
  | done (fuel : Nat) (p : Parser) :
      is_punctuation p.word .PUNC_COMMA = false →
      more_identifiers (fuel + 1) p [] p
  | next (fuel : Nat) (p q : Parser) (x : String) (names : List String) :
      is_punctuation p.word .PUNC_COMMA = true →
      p.advanced.word = .TOKEN_ID x →
      p.advanced.stab.is_decl x p.advanced.current_env = false →
      more_identifiers fuel (more_declared x p.advanced).parser names q →
      more_identifiers (fuel + 1) p (x :: names) q

/-- The run of `parse_formal_parm_list` with the given fuel from the record
`p` over the groups `x1 , x2 ... : T ; y1 ...` of a formal parameter list,
each name met undeclared, to the record `q` where the lookahead is no
semicolon; `names` lists the identifiers of all groups in source order. -/
inductive formal_groups : Nat → Parser → List String → Parser → Prop
  | last (fuel : Nat) (p p1 q : Parser) (x : String) (names : List String) :
      p.word = .TOKEN_ID x →
      p.stab.is_decl x p.current_env = false →
      more_identifiers (fuel + 1) (formal_declared x p).parser names p1 →
      declare_type p1 = .ok true q →
      is_punctuation q.word .PUNC_SEMI = false →
      formal_groups (fuel + 2) p (x :: names) q
  | more (fuel : Nat) (p p1 p2 q : Parser) (x : String) (names others : List String) :
      p.word = .TOKEN_ID x →
      p.stab.is_decl x p.current_env = false →
      more_identifiers (fuel + 1) (formal_declared x p).parser names p1 →
      declare_type p1 = .ok true p2 →
      is_punctuation p2.word .PUNC_SEMI = true →
      formal_groups fuel p2.advanced others q →
      formal_groups (fuel + 2) p (x :: names ++ others) q

/-- The run of `parse_procedure_args` with the given fuel from the record `p`
(the lookahead after the opening parenthesis) to the record `q`; `names`
lists the formal parameters in source order. -/
inductive formal_args : Nat → Parser → List String → Parser → Prop
  | none (fuel : Nat) (p : Parser) :
      is_identifier p.word = false →
      formal_args (fuel + 1) p [] p
  | some (fuel : Nat) (p q : Parser) (names : List String) :
      is_identifier p.word = true →
      formal_groups fuel (set_parsing_formal_parm_list true p).parser names q →
      formal_args (fuel + 1) p names (set_parsing_formal_parm_list false q).parser

/-- The run of `parse_variable_decl_list` with the given fuel from the record
`p` over the declarations `x1 , x2 ... : T ;` to the record `q` where the
lookahead is no identifier; `names` lists the declared identifiers, each met
undeclared, in source order. -/
inductive variable_groups : Nat → Parser → List String → Parser → Prop
  | done (fuel : Nat) (p : Parser) :
      is_identifier p.word = false →
      variable_groups (fuel + 1) p [] p
  | group (fuel : Nat) (p p1 p2 q : Parser) (x : String) (names others : List String) :
      p.word = .TOKEN_ID x →
      p.stab.is_decl x p.current_env = false →
      more_identifiers fuel (first_declared x p).parser names p1 →
      declare_type p1 = .ok true p2 →
      is_punctuation p2.word .PUNC_SEMI = true →
      variable_groups (fuel + 2) p2.advanced others q →
      variable_groups (fuel + 3) p (x :: names ++ others) q

/-- A parser at the procedure declaration of `program p; procedure q (x, y :
int; z : bool) w : int; begin x := 1; end; begin end;`. -/
def example_procedure_header : Parser :=
  { Parser.init false
      [.TOKEN_KEYWORD .KW_PROCEDURE, .TOKEN_ID "q", .TOKEN_PUNC .PUNC_OPEN,
       .TOKEN_ID "x", .TOKEN_PUNC .PUNC_COMMA, .TOKEN_ID "y", .TOKEN_PUNC .PUNC_COLON,
       .TOKEN_KEYWORD .KW_INT, .TOKEN_PUNC .PUNC_SEMI,
       .TOKEN_ID "z", .TOKEN_PUNC .PUNC_COLON, .TOKEN_KEYWORD .KW_BOOL,
       .TOKEN_PUNC .PUNC_CLOSE,
       .TOKEN_ID "w", .TOKEN_PUNC .PUNC_COLON, .TOKEN_KEYWORD .KW_INT, .TOKEN_PUNC .PUNC_SEMI,
       .TOKEN_KEYWORD .KW_BEGIN, .TOKEN_ID "x", .TOKEN_PUNC .PUNC_ASSIGN, .TOKEN_NUM 1,
       .TOKEN_PUNC .PUNC_SEMI, .TOKEN_KEYWORD .KW_END, .TOKEN_PUNC .PUNC_SEMI,
       .TOKEN_KEYWORD .KW_BEGIN, .TOKEN_KEYWORD .KW_END, .TOKEN_PUNC .PUNC_SEMI] with
    stab := { entries := [{ id := "p", env := "_EXTERNAL", type := .PROGRAM_T,
                            position := none }] }
    current_env := "p"
    main_env := "p" }

/-- The record of `example_procedure_header` after the group `x, y : int` of
the formal parameter list. -/
def example_formals_first : Parser :=
  (declare_type (more_declared "y" (formal_declared "x" (set_parsing_formal_parm_list true
    (procedure_entered "q" example_procedure_header).parser.advanced).parser).parser.advanced
    ).parser).parser

/-- The record of `example_procedure_header` after the group `z : bool` of
the formal parameter list. -/
def example_formals_second : Parser :=
  (declare_type (formal_declared "z" example_formals_first.advanced).parser).parser

/-- The record of `example_procedure_header` after the local declaration
`w : int` without its semicolon. -/
def example_locals : Parser :=
  (declare_type (first_declared "w"
    (set_parsing_formal_parm_list false example_formals_second).parser.advanced).parser).parser

/-! ## Environments of procedures -/

/-- The part of `parse_procedure_decl` after the procedure name has been
matched, installed and consumed: the parenthesised formal parameters, the
local declarations and the block, then `current_env = main_env`. -/
def procedure_rest (fuel : Nat) : M Bool := do
  if is_punctuation (← get_word) .PUNC_OPEN then
    advance
    if (← parse_procedure_args fuel) then
      if is_punctuation (← get_word) .PUNC_CLOSE then
        advance
        if (← parse_variable_decl_list fuel) then
          if (← parse_block fuel) then
            leave_procedure
            pure true
          else
            pure false
        else
          pure false
      else
        parse_error "')'" (← get_word)
        pure false
    else
      pure false
  else
    parse_error "'('" (← get_word)
    pure false

/-- Every run of `x` that returns true ends in a record with `Q`. -/
def returns_true_with (Q : Parser → Prop) (x : M Bool) : Prop :=
  ∀ p q, x p = .ok true q → Q q

/-- The tokens of `program p; procedure q (x : int begin x := 1; end; begin
end;`, where the parenthesis of the formal parameters is never closed. -/
def prog_unclosed_formals : List Token :=
  [.TOKEN_KEYWORD .KW_PROGRAM, .TOKEN_ID "p", .TOKEN_PUNC .PUNC_SEMI,
   .TOKEN_KEYWORD .KW_PROCEDURE, .TOKEN_ID "q", .TOKEN_PUNC .PUNC_OPEN,
   .TOKEN_ID "x", .TOKEN_PUNC .PUNC_COLON, .TOKEN_KEYWORD .KW_INT,
   .TOKEN_KEYWORD .KW_BEGIN, .TOKEN_ID "x", .TOKEN_PUNC .PUNC_ASSIGN, .TOKEN_NUM 1,
   .TOKEN_PUNC .PUNC_SEMI, .TOKEN_KEYWORD .KW_END, .TOKEN_PUNC .PUNC_SEMI,
   .TOKEN_KEYWORD .KW_BEGIN, .TOKEN_KEYWORD .KW_END, .TOKEN_PUNC .PUNC_SEMI]

/-- The parser of `prog_unclosed_formals` at its procedure declaration, as
`parse_program` reaches it. -/
def example_unclosed_formals (test_mode : Bool) : Parser :=
  { Parser.init test_mode (prog_unclosed_formals.drop 3) with
    stab := { entries := [{ id := "p", env := "_EXTERNAL", type := .PROGRAM_T,
                            position := none }] }
    current_env := "p"
    main_env := "p"
    e := { (Parser.init test_mode []).e with out := [.label "_p"] } }

/-- The tokens of `program p; a : int; procedure name (x, y : int) z : int;
begin x := 1; end; begin a := 2; end;`. -/
def prog_procedure_named (name : String) : List Token :=
  [.TOKEN_KEYWORD .KW_PROGRAM, .TOKEN_ID "p", .TOKEN_PUNC .PUNC_SEMI,
   .TOKEN_ID "a", .TOKEN_PUNC .PUNC_COLON, .TOKEN_KEYWORD .KW_INT, .TOKEN_PUNC .PUNC_SEMI,
   .TOKEN_KEYWORD .KW_PROCEDURE, .TOKEN_ID name, .TOKEN_PUNC .PUNC_OPEN,
   .TOKEN_ID "x", .TOKEN_PUNC .PUNC_COMMA, .TOKEN_ID "y", .TOKEN_PUNC .PUNC_COLON,
   .TOKEN_KEYWORD .KW_INT, .TOKEN_PUNC .PUNC_CLOSE,
   .TOKEN_ID "z", .TOKEN_PUNC .PUNC_COLON, .TOKEN_KEYWORD .KW_INT, .TOKEN_PUNC .PUNC_SEMI,
   .TOKEN_KEYWORD .KW_BEGIN, .TOKEN_ID "x", .TOKEN_PUNC .PUNC_ASSIGN, .TOKEN_NUM 1,
   .TOKEN_PUNC .PUNC_SEMI, .TOKEN_KEYWORD .KW_END, .TOKEN_PUNC .PUNC_SEMI,
   .TOKEN_KEYWORD .KW_BEGIN, .TOKEN_ID "a", .TOKEN_PUNC .PUNC_ASSIGN, .TOKEN_NUM 2,
   .TOKEN_PUNC .PUNC_SEMI, .TOKEN_KEYWORD .KW_END, .TOKEN_PUNC .PUNC_SEMI]

/-! ## The epilogue and whole programs -/

/-- One section of data directives as the claim words it: nothing for an
empty list of labels, otherwise the section comment and one directive of
size 1 per label, in the order of the list. -/
def data_section (text : String) (labels : List String) : List IR :=
  if labels.isEmpty then [] else .comment text :: labels.map (fun l => .data_directive l 1)

/-- The end of the IR as the claim words it: the halt instruction, the
section of the program-variable labels and the section of the labels of the
spill table (every entry, active or not). -/
def epilogue (p : Parser) : List IR :=
  .halt :: (data_section "Data directives for program variables." p.program_labels
    ++ data_section "Data directives for spilled memories."
        (p.spilled_labels.map (fun entry => entry.1)))

/-- The IR of the record ends with the epilogue of its labels and spill table. -/
def ends_with_epilogue (q : Parser) : Prop :=
  ∃ body, q.e.out = body ++ epilogue q

/-- The tokens of `program p; a : int; begin a := m + n; end;`. -/
def prog_sum (p a : String) (m n : Nat) : List Token :=
  [.TOKEN_KEYWORD .KW_PROGRAM, .TOKEN_ID p, .TOKEN_PUNC .PUNC_SEMI,
   .TOKEN_ID a, .TOKEN_PUNC .PUNC_COLON, .TOKEN_KEYWORD .KW_INT, .TOKEN_PUNC .PUNC_SEMI,
   .TOKEN_KEYWORD .KW_BEGIN, .TOKEN_ID a, .TOKEN_PUNC .PUNC_ASSIGN, .TOKEN_NUM m,
   .TOKEN_ADDOP .ADDOP_ADD, .TOKEN_NUM n, .TOKEN_PUNC .PUNC_SEMI,
   .TOKEN_KEYWORD .KW_END, .TOKEN_PUNC .PUNC_SEMI]

/-- The tokens of `program p; a, b, c, d : int; begin a := ((b + c) * (b - c))
+ ((b + c) * (b - c)); end;`. -/
def prog_two_products : List Token :=
  [.TOKEN_KEYWORD .KW_PROGRAM, .TOKEN_ID "p", .TOKEN_PUNC .PUNC_SEMI,
   .TOKEN_ID "a", .TOKEN_PUNC .PUNC_COMMA, .TOKEN_ID "b", .TOKEN_PUNC .PUNC_COMMA,
   .TOKEN_ID "c", .TOKEN_PUNC .PUNC_COMMA, .TOKEN_ID "d", .TOKEN_PUNC .PUNC_COLON,
   .TOKEN_KEYWORD .KW_INT, .TOKEN_PUNC .PUNC_SEMI,
   .TOKEN_KEYWORD .KW_BEGIN,
   .TOKEN_ID "a", .TOKEN_PUNC .PUNC_ASSIGN,
   .TOKEN_PUNC .PUNC_OPEN,
   .TOKEN_PUNC .PUNC_OPEN, .TOKEN_ID "b", .TOKEN_ADDOP .ADDOP_ADD, .TOKEN_ID "c",
   .TOKEN_PUNC .PUNC_CLOSE, .TOKEN_MULOP .MULOP_MUL,
   .TOKEN_PUNC .PUNC_OPEN, .TOKEN_ID "b", .TOKEN_ADDOP .ADDOP_SUB, .TOKEN_ID "c",
   .TOKEN_PUNC .PUNC_CLOSE,
   .TOKEN_PUNC .PUNC_CLOSE, .TOKEN_ADDOP .ADDOP_ADD,
   .TOKEN_PUNC .PUNC_OPEN,
   .TOKEN_PUNC .PUNC_OPEN, .TOKEN_ID "b", .TOKEN_ADDOP .ADDOP_ADD, .TOKEN_ID "c",
   .TOKEN_PUNC .PUNC_CLOSE, .TOKEN_MULOP .MULOP_MUL,
   .TOKEN_PUNC .PUNC_OPEN, .TOKEN_ID "b", .TOKEN_ADDOP .ADDOP_SUB, .TOKEN_ID "c",
   .TOKEN_PUNC .PUNC_CLOSE,
   .TOKEN_PUNC .PUNC_CLOSE, .TOKEN_PUNC .PUNC_SEMI,
   .TOKEN_KEYWORD .KW_END, .TOKEN_PUNC .PUNC_SEMI]

/-- The number of spills a run has performed, read off its IR: every spill
site emits this comment before it moves the register to the spill location. -/
def spills_performed (out : List IR) : Nat :=
  (out.filter (fun i =>
    decide (i = IR.comment "Spill register to memory since all registers are live."))).length

/-- The data directives in the IR of the record for the labels of its spill
table. -/
def spill_directives (p : Parser) : List IR :=
  p.e.out.filter (fun i => p.spilled_labels.any (fun entry =>
    decide (i = IR.data_directive entry.1 1)))

/-- The program-variable labels and the labels of the spill table, in the
order of the two lists. -/
def Parser.labels (p : Parser) : List String × List String :=
  (p.program_labels, p.spilled_labels.map (fun entry => entry.1))

/-- The second pair of lists continues the first: each list of the first is
a prefix of the corresponding list of the second. -/
def labels_extend (a b : List String × List String) : Prop :=
  a.1 <+: b.1 ∧ a.2 <+: b.2

/-- Code that removes no label and changes no label and no order: the
program-variable labels and the labels of the spill table can only grow at
the end. -/
def extends_labels {α : Type} (x : M α) : Prop :=
  ∀ p, labels_extend p.labels (x p).parser.labels

/-! ## Codegen blocks in the words of the specification -/

/-- The spill step as the claim words it: a spill label `S` is obtained from
`allocate_spill_memory`, the comment and `MOVE S, R` are emitted, where `R`
is the register of the operand that `last_register_op` refers to, `R` is
deallocated, and the slot `last_register_op` refers to is rewritten to the
memory operand naming `S`. -/
def spill_step (p q : Parser) : Prop :=
  ∃ (S : String) (p1 : Parser) (x : Nat) (r : Register) (a : Register_Allocator),
    allocate_spill_memory p = .ok S p1
    ∧ p.last_register_op = some x
    ∧ p.slots[x]? = some { op := some (.OPTYPE_REGISTER r), deleted := false, live := true }
    ∧ p.allocator.deallocate_register r = some a
    ∧ q = { p1 with
        e := (p1.e.emit (.comment "Spill register to memory since all registers are live.")).emit
          (.move_mem_reg S r),
        allocator := a,
        slots := p1.slots.modify
          (fun s => { s with op := some (.OPTYPE_MEMORY S), deleted := false }) x }

/-- The move that loads an operand into the register `r`: of the immediate
value or of the memory value; nothing for an operand that is a register. -/
def load_code (r : Register) : Operand → List IR
  | .OPTYPE_IMMEDIATE i => [.move_reg_imm r i]
  | .OPTYPE_MEMORY m => [.move_reg_mem r m]
  | .OPTYPE_REGISTER _ => []

/-- The operand is a register operand. -/
def Operand.is_register : Operand → Bool
  | .OPTYPE_REGISTER _ => true
  | _ => false

/-- The record before the allocation at a materialization site: the record
itself when a register is free, otherwise a record that the spill step
leads to. -/
def room_made (p p1 : Parser) : Prop :=
  (p.allocator.has_free_register = true ∧ p1 = p)
  ∨ (p.allocator.has_free_register = false ∧ spill_step p p1)

/-- Materialization as the claims word it, for the operand `o` in the slot
`x`, with the register `r` and the record `q` as result.  A register operand
is left where it is.  Any other operand is loaded into a newly allocated
register, after the spill step when no register is free; with `rewrite` the
slot is rewritten to the register operand (the left operand of an operator
and the operand of a sign), without it the slot is left as it is (the value
of a statement). -/
def materialized (rewrite : Bool) (x : Nat) (p : Parser) (r : Register) (q : Parser) : Prop :=
  ∃ (o : Operand),
    p.slots[x]? = some { op := some o, deleted := false, live := true }
    ∧ ((o = .OPTYPE_REGISTER r ∧ q = p)
      ∨ (o.is_register = false
        ∧ ∃ (p1 : Parser) (a : Register_Allocator),
          room_made p p1
          ∧ p1.allocator.allocate_register = some (r, a)
          ∧ q = { p1 with
              allocator := a,
              e := { p1.e with out := p1.e.out ++ load_code r o },
              slots := if rewrite then
                  p1.slots.modify
                    (fun s => { s with op := some (.OPTYPE_REGISTER r), deleted := false }) x
                else p1.slots }))

/-- The `else` branch of "make sure that the left operand is stored in a
register": the spill when no register is free, the allocation, the move, and
the rewriting of the slot to the register operand. -/
def load_left_op (else_branch : Bool) (left_op : Nat) : M Register := do
  if !(← has_free_register) then
    spill_last_register_op
  let left_op_reg ← allocate_register
  emit_move_operand else_branch left_op_reg (← operand_at left_op)
  delete_operand left_op
  assign_operand left_op (.OPTYPE_REGISTER left_op_reg)
  pure left_op_reg

/-- The `else` branch of "make sure that the operand holding the expression
value is in a register": the spill when no register is free, the allocation
and the move. -/
def load_expression (expression : Nat) : M Register := do
  if !(← has_free_register) then
    spill_last_register_op
  let expression_register ← allocate_register
  emit_move_operand false expression_register (← operand_at expression)
  pure expression_register

/-- A record in which all three registers are in use, the slot 0 holds the
register operand `R3`, the slot 1 holds the memory operand `g`, and
`last_register_op` refers to the slot 0. -/
def example_full_pool : Parser :=
  { Parser.init false [.TOKEN_PUNC .PUNC_SEMI] with
    allocator := { inuse1 := true, inuse2 := true, inuse3 := true }
    slots := [{ op := some (.OPTYPE_REGISTER .R3), deleted := false, live := true },
              { op := some (.OPTYPE_MEMORY "g"), deleted := false, live := true }]
    last_register_op := some 0 }

/-- The IR appended to the output between the record `p` and the later
record `q`. -/
def emitted (p q : Parser) : List IR :=
  q.e.out.drop p.e.out.length

/-- The line is a 2-address instruction (`emit_2addr`). -/
def IR.is_2addr : IR → Bool
  | .inst_2addr _ _ _ => true
  | _ => false

/-- The release of the right operand as the specification words it: a
register operand gives its register back, a memory operand has its label
deallocated in the spill table, and the operand object is destroyed. -/
def released_right (right_op : Nat) (p q : Parser) : Prop :=
  ∃ (src : Operand),
    p.slots[right_op]? = some { op := some src, deleted := false, live := true }
    ∧ q.slots = p.slots.modify (fun s => { s with deleted := true }) right_op
    ∧ q.e = p.e ∧ q.last_register_op = p.last_register_op ∧ q.context = p.context
    ∧ match src with
      | .OPTYPE_REGISTER r =>
        p.allocator.deallocate_register r = some q.allocator
        ∧ q.spilled_labels = p.spilled_labels
      | .OPTYPE_MEMORY m =>
        q.allocator = p.allocator
        ∧ q.spilled_labels = p.spilled_labels.map
            (fun entry => if entry.1 = m then (entry.1, false) else entry)
      | .OPTYPE_IMMEDIATE _ =>
        q.allocator = p.allocator ∧ q.spilled_labels = p.spilled_labels

/-- The lines that normalize the result of `or` to 0 or 1, for the register
`reg` and an emitter that has generated `n` labels `or_done` so far. -/
def or_code (reg : Register) (n : Nat) : List IR :=
  [.comment "Normalize result of OR operation to 0 or 1.",
   .branch_cond .INST_BREZ reg ("or_done" ++ toString (n + 1)),
   .move_reg_imm reg 1,
   .label ("or_done" ++ toString (n + 1))]

/-- The emission of a binary operator as the claim words it, from the record
`p` to the record `q`, for the operands in the slots `left_op` and
`right_op`: the left operand is materialized into the register `reg`, one
2-address instruction with the given mnemonic, the destination `reg` and the
right operand in its current form as source is emitted, followed by the
lines `post`; `last_register_op` is set to the left slot, the right operand
is released, and the left slot holds the register operand `reg`; the last
part lists the 2-address instructions among the lines emitted. -/
def binary_emitted (instruction : inst_type) (post : Register → Nat → List IR)
    (left_op right_op : Nat) (p q : Parser) : Prop :=
  ∃ (reg : Register) (p1 p2 : Parser) (src : Operand),
    materialized true left_op p reg p1
    ∧ p1.slots[right_op]? = some { op := some src, deleted := false, live := true }
    ∧ p2.e.out = p1.e.out
        ++ .inst_2addr instruction reg src :: post reg (p1.e.count "or_done")
    ∧ p2.slots = p1.slots ∧ p2.allocator = p1.allocator
    ∧ p2.spilled_labels = p1.spilled_labels
    ∧ p2.last_register_op = some left_op
    ∧ released_right right_op p2 q
    ∧ (left_op ≠ right_op → q.slots[left_op]?
        = some { op := some (.OPTYPE_REGISTER reg), deleted := false, live := true })
    ∧ (emitted p q).filter IR.is_2addr
        = .inst_2addr instruction reg src
          :: (post reg (p1.e.count "or_done")).filter IR.is_2addr

/-- A record with all registers free in which the slot 0 holds the memory
operand `a` and the slot 1 the memory operand `b`. -/
def example_two_operands : Parser :=
  { Parser.init false [.TOKEN_PUNC .PUNC_SEMI] with
    slots := [{ op := some (.OPTYPE_MEMORY "a"), deleted := false, live := true },
              { op := some (.OPTYPE_MEMORY "b"), deleted := false, live := true }] }

/-- The conditional branches of a relational operator as the specification
lists them: `=` gives BRNE then BRPO, `<>` gives BREZ, `>` gives BRNE then
BREZ, `>=` gives BRNE, `<` gives BREZ then BRPO, `<=` gives BRPO. -/
def compare_branches : relop_attr → List inst_type
  | .RELOP_EQ => [.INST_BRNE, .INST_BRPO]
  | .RELOP_NE => [.INST_BREZ]
  | .RELOP_GT => [.INST_BRNE, .INST_BREZ]
  | .RELOP_GE => [.INST_BRNE]
  | .RELOP_LT => [.INST_BREZ, .INST_BRPO]
  | .RELOP_LE => [.INST_BRPO]

/-- The lines of a relational operator as the specification lists them, for
the register `reg` of the left operand, the right operand `src` and the two
labels: `SUB left, right`, the conditional branches to `compare_false`, then
`MOVE left, 1; BR compare_done; compare_false:; MOVE left, 0;
compare_done:`.  The two comment lines are those of the source. -/
def relational_code (comparator : relop_attr) (reg : Register) (src : Operand)
    (compare_false compare_done : String) : List IR :=
  [.comment "Compare two values by examining their difference.",
   .inst_2addr .INST_SUB reg src,
   .comment "Normalize result of comparison to 0 or 1."]
  ++ (compare_branches comparator).map (fun i => .branch_cond i reg compare_false)
  ++ [.move_reg_imm reg 1, .branch compare_done, .label compare_false,
      .move_reg_imm reg 0, .label compare_done]

/-- The factor `not a` with `a : bool`, in the program `p`. -/
def example_not_a : Parser :=
  example_with_bool_a [.TOKEN_KEYWORD .KW_NOT, .TOKEN_ID "a", .TOKEN_PUNC .PUNC_SEMI]

/-- The tokens of `program p; a, b, c, d, e, f, g, h : int; begin
a := (a + b) + ((c + d) + ((e + f) + (g + h))); end;`. -/
def prog_nested_sums : List Token :=
  [.TOKEN_KEYWORD .KW_PROGRAM, .TOKEN_ID "p", .TOKEN_PUNC .PUNC_SEMI,
   .TOKEN_ID "a", .TOKEN_PUNC .PUNC_COMMA, .TOKEN_ID "b", .TOKEN_PUNC .PUNC_COMMA,
   .TOKEN_ID "c", .TOKEN_PUNC .PUNC_COMMA, .TOKEN_ID "d", .TOKEN_PUNC .PUNC_COMMA,
   .TOKEN_ID "e", .TOKEN_PUNC .PUNC_COMMA, .TOKEN_ID "f", .TOKEN_PUNC .PUNC_COMMA,
   .TOKEN_ID "g", .TOKEN_PUNC .PUNC_COMMA, .TOKEN_ID "h", .TOKEN_PUNC .PUNC_COLON,
   .TOKEN_KEYWORD .KW_INT, .TOKEN_PUNC .PUNC_SEMI,
   .TOKEN_KEYWORD .KW_BEGIN,
   .TOKEN_ID "a", .TOKEN_PUNC .PUNC_ASSIGN,
   .TOKEN_PUNC .PUNC_OPEN, .TOKEN_ID "a", .TOKEN_ADDOP .ADDOP_ADD, .TOKEN_ID "b",
   .TOKEN_PUNC .PUNC_CLOSE, .TOKEN_ADDOP .ADDOP_ADD,
   .TOKEN_PUNC .PUNC_OPEN,
   .TOKEN_PUNC .PUNC_OPEN, .TOKEN_ID "c", .TOKEN_ADDOP .ADDOP_ADD, .TOKEN_ID "d",
   .TOKEN_PUNC .PUNC_CLOSE, .TOKEN_ADDOP .ADDOP_ADD,
   .TOKEN_PUNC .PUNC_OPEN,
   .TOKEN_PUNC .PUNC_OPEN, .TOKEN_ID "e", .TOKEN_ADDOP .ADDOP_ADD, .TOKEN_ID "f",
   .TOKEN_PUNC .PUNC_CLOSE, .TOKEN_ADDOP .ADDOP_ADD,
   .TOKEN_PUNC .PUNC_OPEN, .TOKEN_ID "g", .TOKEN_ADDOP .ADDOP_ADD, .TOKEN_ID "h",
   .TOKEN_PUNC .PUNC_CLOSE,
   .TOKEN_PUNC .PUNC_CLOSE, .TOKEN_PUNC .PUNC_CLOSE,
   .TOKEN_PUNC .PUNC_SEMI,
   .TOKEN_KEYWORD .KW_END, .TOKEN_PUNC .PUNC_SEMI]

/-- The statements of `parse_stmt` for an identifier before the call of
`parse_adhoc_as_pc_tail`: the check of the declaration, the advance and the
operand of the identifier; the result is the slot of that operand. -/
def statement_entered (identifier_attr : String) : M Nat := do
  let p ← getp
  if !p.stab.is_decl identifier_attr p.current_env then
    undeclared_identifier identifier_attr
  else
    set_procedure_name identifier_attr
  advance
  new_operand_slot (some (.OPTYPE_MEMORY identifier_attr))

/-- The tokens of `program p; procedure q(x : int) begin x := 1; end; begin
q := q; end;`. -/
def prog_assign_procedure : List Token :=
  [.TOKEN_KEYWORD .KW_PROGRAM, .TOKEN_ID "p", .TOKEN_PUNC .PUNC_SEMI,
   .TOKEN_KEYWORD .KW_PROCEDURE, .TOKEN_ID "q", .TOKEN_PUNC .PUNC_OPEN, .TOKEN_ID "x",
   .TOKEN_PUNC .PUNC_COLON, .TOKEN_KEYWORD .KW_INT, .TOKEN_PUNC .PUNC_CLOSE,
   .TOKEN_KEYWORD .KW_BEGIN, .TOKEN_ID "x", .TOKEN_PUNC .PUNC_ASSIGN, .TOKEN_NUM 1,
   .TOKEN_PUNC .PUNC_SEMI, .TOKEN_KEYWORD .KW_END, .TOKEN_PUNC .PUNC_SEMI,
   .TOKEN_KEYWORD .KW_BEGIN,
   .TOKEN_ID "q", .TOKEN_PUNC .PUNC_ASSIGN, .TOKEN_ID "q", .TOKEN_PUNC .PUNC_SEMI,
   .TOKEN_KEYWORD .KW_END, .TOKEN_PUNC .PUNC_SEMI]

/-- The record in which the statement `q := q` of `prog_assign_procedure` is
entered: the declarations have been parsed and `begin` has been consumed. -/
def example_assign_procedure : Parser :=
  { Parser.init false
      [.TOKEN_ID "q", .TOKEN_PUNC .PUNC_ASSIGN, .TOKEN_ID "q", .TOKEN_PUNC .PUNC_SEMI,
       .TOKEN_KEYWORD .KW_END, .TOKEN_PUNC .PUNC_SEMI] with
    stab := { entries := [{ id := "p", env := "_EXTERNAL", type := .PROGRAM_T, position := none },
                          { id := "q", env := "p", type := .PROCEDURE_T, position := none },
                          { id := "x", env := "q", type := .INT_T, position := some 0 }] }
    current_env := "p"
    main_env := "p" }

/-- The record in which the statement `a := 1` is entered, with `a : int`
declared in the program `p`. -/
def example_assign_one : Parser :=
  { Parser.init false
      [.TOKEN_ID "a", .TOKEN_PUNC .PUNC_ASSIGN, .TOKEN_NUM 1, .TOKEN_PUNC .PUNC_SEMI] with
    stab := { entries := [{ id := "p", env := "_EXTERNAL", type := .PROGRAM_T, position := none },
                          { id := "a", env := "p", type := .INT_T, position := none }] }
    current_env := "p"
    main_env := "p" }

/-- Code that only appends to the IR: the output it starts from is a prefix
of the output it ends with, whether it returns or the run is ended. -/
def appends_out {α : Type} (x : M α) : Prop :=
  ∀ p, p.e.out <+: (x p).parser.e.out

/-- The register is in use and no operand slot owns it. -/
def leaked (p : Parser) (r : Register) : Prop :=
  p.allocator.inuse r = true ∧ ∀ (i : Nat) (s : Slot), p.slots[i]? = some s → ¬ s.owns r

/-- The slot `i` owns no register. -/
def owns_nothing (p : Parser) (i : Nat) : Prop :=
  ∀ (s : Slot) (r : Register), p.slots[i]? = some s → ¬ s.owns r

/-- The slot `i` holds an operand that can be dereferenced: the variable is
in scope and points to an operand that has not been deleted. -/
def valid_operand (p : Parser) (i : Nat) : Prop :=
  ∃ o, p.slots[i]? = some { op := some o, deleted := false, live := true }

/-- The slot `i` is a variable in scope that owns no register: a production
can be asked to leave its operand there. -/
def fillable (p : Parser) (i : Nat) : Prop :=
  ∃ s, p.slots[i]? = some s ∧ s.live = true ∧ ∀ r, ¬ s.owns r

/-- From the record `p` to the record `q` the slot `i` is as it was, or its
register operand has been spilled to memory. -/
def slot_kept (p q : Parser) (i : Nat) : Prop :=
  q.slots[i]? = p.slots[i]?
  ∨ ∃ r S, p.slots[i]? = some { op := some (.OPTYPE_REGISTER r), deleted := false, live := true }
      ∧ q.slots[i]? = some { op := some (.OPTYPE_MEMORY S), deleted := false, live := true }

/-- The two records have the same operand slots and the same register pool. -/
def same_registers (p q : Parser) : Prop :=
  q.slots = p.slots ∧ q.allocator = p.allocator

/-- The register balance of an expression production that was entered in
`p` for the operand slot `op` and returned true in `q`: the slots that were
there are as they were or have been spilled, the slots created since own no
register, the slot `op` holds an operand, ownership is consistent and the
same registers are leaked. -/
def balanced (op : Nat) (p q : Parser) : Prop :=
  op < p.slots.length ∧ p.slots.length ≤ q.slots.length
  ∧ (∀ i, i < p.slots.length → i ≠ op → slot_kept p q i)
  ∧ (∀ i, p.slots.length ≤ i → owns_nothing q i)
  ∧ valid_operand q op
  ∧ owner_invariant q
  ∧ (∀ r, leaked q r ↔ leaked p r)

/-- The state of the operand slots between two statements: ownership is
consistent and no variable in scope owns a register. -/
def statement_boundary (p : Parser) : Prop :=
  owner_invariant p
  ∧ ∀ (i : Nat) (s : Slot) (r : Register), p.slots[i]? = some s → s.live = true → ¬ s.owns r

/-- The slot `i` of the record owns the register `r`. -/
def slot_owns (p : Parser) (i : Nat) (r : Register) : Prop :=
  ∃ s, p.slots[i]? = some s ∧ s.owns r

/-- The production leaves an operand in the slot it is given and keeps the
register balance, whenever it returns true from a record with consistent
ownership in which that slot can be filled. -/
def fills_operand (x : expr_type → Nat → M (Bool × expr_type)) : Prop :=
  ∀ (t : expr_type) (op : Nat) (p : Parser) (ty : expr_type) (q : Parser),
    x t op p = .ok (true, ty) q → owner_invariant p → fillable p op → balanced op p q

/-- The production goes on from the operand in the slot it is given and
keeps the register balance, whenever it returns true from a record with
consistent ownership in which that slot holds an operand. -/
def continues_operand (x : expr_type → Nat → M (Bool × expr_type)) : Prop :=
  ∀ (t : expr_type) (op : Nat) (p : Parser) (ty : expr_type) (q : Parser),
    x t op p = .ok (true, ty) q → owner_invariant p → valid_operand p op → balanced op p q

/-- The value of a condition is brought into the register `r` without a
spill: a register operand is left where it is; any other operand is moved
into `r`, a register that was free and is allocated for it. -/
def condition_loaded (x : Nat) (p : Parser) (r : Register) (q : Parser) : Prop :=
  ∃ (o : Operand),
    p.slots[x]? = some { op := some o, deleted := false, live := true }
    ∧ ((o = .OPTYPE_REGISTER r ∧ q = p)
      ∨ (o.is_register = false ∧ p.allocator.inuse r = false
        ∧ ∃ (a : Register_Allocator),
          p.allocator.allocate_register = some (r, a)
          ∧ q = { p with allocator := a, e := { p.e with out := p.e.out ++ load_code r o } }))

/-- A parser in production mode at the statement `if a < b then begin a := 1;
end else begin b := 2; end`, with `a, b : int` declared in the program `p`. -/
def example_if_less : Parser :=
  { Parser.init false
      [.TOKEN_KEYWORD .KW_IF, .TOKEN_ID "a", .TOKEN_RELOP .RELOP_LT, .TOKEN_ID "b",
       .TOKEN_KEYWORD .KW_THEN,
       .TOKEN_KEYWORD .KW_BEGIN, .TOKEN_ID "a", .TOKEN_PUNC .PUNC_ASSIGN, .TOKEN_NUM 1,
       .TOKEN_PUNC .PUNC_SEMI, .TOKEN_KEYWORD .KW_END,
       .TOKEN_KEYWORD .KW_ELSE,
       .TOKEN_KEYWORD .KW_BEGIN, .TOKEN_ID "b", .TOKEN_PUNC .PUNC_ASSIGN, .TOKEN_NUM 2,
       .TOKEN_PUNC .PUNC_SEMI, .TOKEN_KEYWORD .KW_END,
       .TOKEN_PUNC .PUNC_SEMI] with
    stab := { entries := [{ id := "p", env := "_EXTERNAL", type := .PROGRAM_T, position := none },
                          { id := "a", env := "p", type := .INT_T, position := none },
                          { id := "b", env := "p", type := .INT_T, position := none }] }
    current_env := "p"
    main_env := "p" }

/-- A parser in production mode at the statement `while c loop begin c := a <
1; end`, with `a : int` and `c : bool` declared in the program `p`. -/
def example_while_flag : Parser :=
  { Parser.init false
      [.TOKEN_KEYWORD .KW_WHILE, .TOKEN_ID "c", .TOKEN_KEYWORD .KW_LOOP,
       .TOKEN_KEYWORD .KW_BEGIN, .TOKEN_ID "c", .TOKEN_PUNC .PUNC_ASSIGN, .TOKEN_ID "a",
       .TOKEN_RELOP .RELOP_LT, .TOKEN_NUM 1,
       .TOKEN_PUNC .PUNC_SEMI, .TOKEN_KEYWORD .KW_END,
       .TOKEN_PUNC .PUNC_SEMI] with
    stab := { entries := [{ id := "p", env := "_EXTERNAL", type := .PROGRAM_T, position := none },
                          { id := "a", env := "p", type := .INT_T, position := none },
                          { id := "c", env := "p", type := .BOOL_T, position := none }] }
    current_env := "p"
    main_env := "p" }

/-- The operand variables of the record `p` are kept in the later record `q`,
the slot `x` apart: no slot is removed, every slot of `p` but `x` is as it
was or has had its register spilled, and no slot added since `p` is in scope
with a register. -/
def slots_kept (x : Option Nat) (p q : Parser) : Prop :=
  p.slots.length ≤ q.slots.length
  ∧ (∀ i, i < p.slots.length → some i ≠ x → slot_kept p q i)
  ∧ (∀ (i : Nat) (s : Slot) (r : Register), p.slots.length ≤ i → q.slots[i]? = some s →
      s.live = true → ¬ s.owns r)

/-- The operand variables of `p` are kept in `q`, all of them. -/
def scope_kept (p q : Parser) : Prop :=
  slots_kept none p q

/-- The production keeps the operand variables of the record it is entered
in, whenever it returns true from a record with consistent ownership. -/
def keeps_scope (x : M Bool) : Prop :=
  ∀ (p q : Parser), x p = .ok true q → owner_invariant p → scope_kept p q

/-- The production returns at a statement boundary whenever it returns true
from a record at a statement boundary. -/
def keeps_boundary (x : M Bool) : Prop :=
  ∀ (p q : Parser), x p = .ok true q → statement_boundary p → statement_boundary q

/-- The lookahead is `begin` and the token after it is `end`: the block
`begin end`. -/
def at_empty_block (p : Parser) : Prop :=
  p.word = .TOKEN_KEYWORD .KW_BEGIN ∧ p.lex.head? = some (.TOKEN_KEYWORD .KW_END)

instance (p : Parser) : Decidable (at_empty_block p) := by
  unfold at_empty_block
  infer_instance

/-- The tokens of `program p; begin end;`. -/
def prog_empty_block : List Token :=
  [.TOKEN_KEYWORD .KW_PROGRAM, .TOKEN_ID "p", .TOKEN_PUNC .PUNC_SEMI,
   .TOKEN_KEYWORD .KW_BEGIN, .TOKEN_KEYWORD .KW_END, .TOKEN_PUNC .PUNC_SEMI]

/-- The tokens of `program p; begin ; end;`. -/
def prog_empty_statement : List Token :=
  [.TOKEN_KEYWORD .KW_PROGRAM, .TOKEN_ID "p", .TOKEN_PUNC .PUNC_SEMI,
   .TOKEN_KEYWORD .KW_BEGIN, .TOKEN_PUNC .PUNC_SEMI, .TOKEN_KEYWORD .KW_END,
   .TOKEN_PUNC .PUNC_SEMI]

/-- The tokens of `program p; procedure q() begin end; begin ; end;`. -/
def prog_empty_procedure_block : List Token :=
  [.TOKEN_KEYWORD .KW_PROGRAM, .TOKEN_ID "p", .TOKEN_PUNC .PUNC_SEMI,
   .TOKEN_KEYWORD .KW_PROCEDURE, .TOKEN_ID "q", .TOKEN_PUNC .PUNC_OPEN,
   .TOKEN_PUNC .PUNC_CLOSE, .TOKEN_KEYWORD .KW_BEGIN, .TOKEN_KEYWORD .KW_END,
   .TOKEN_PUNC .PUNC_SEMI,
   .TOKEN_KEYWORD .KW_BEGIN, .TOKEN_PUNC .PUNC_SEMI, .TOKEN_KEYWORD .KW_END,
   .TOKEN_PUNC .PUNC_SEMI]

/-- The tokens of `program p; a : a; begin ; end;`: the type of the
declaration is neither `int` nor `bool`. -/
def prog_bad_standard_type : List Token :=
  [.TOKEN_KEYWORD .KW_PROGRAM, .TOKEN_ID "p", .TOKEN_PUNC .PUNC_SEMI,
   .TOKEN_ID "a", .TOKEN_PUNC .PUNC_COLON, .TOKEN_ID "a", .TOKEN_PUNC .PUNC_SEMI,
   .TOKEN_KEYWORD .KW_BEGIN, .TOKEN_PUNC .PUNC_SEMI, .TOKEN_KEYWORD .KW_END,
   .TOKEN_PUNC .PUNC_SEMI]

/-- The tokens of `program p; a : int; begin a ; end;`: the statement
identifier is followed by neither `:=` nor `(`. -/
def prog_bad_statement_tail : List Token :=
  [.TOKEN_KEYWORD .KW_PROGRAM, .TOKEN_ID "p", .TOKEN_PUNC .PUNC_SEMI,
   .TOKEN_ID "a", .TOKEN_PUNC .PUNC_COLON, .TOKEN_KEYWORD .KW_INT, .TOKEN_PUNC .PUNC_SEMI,
   .TOKEN_KEYWORD .KW_BEGIN, .TOKEN_ID "a", .TOKEN_PUNC .PUNC_SEMI, .TOKEN_KEYWORD .KW_END,
   .TOKEN_PUNC .PUNC_SEMI]

/-- The tokens of `program p; a : int; begin a := ; end;`: no factor follows
`:=`. -/
def prog_missing_factor : List Token :=
  [.TOKEN_KEYWORD .KW_PROGRAM, .TOKEN_ID "p", .TOKEN_PUNC .PUNC_SEMI,
   .TOKEN_ID "a", .TOKEN_PUNC .PUNC_COLON, .TOKEN_KEYWORD .KW_INT, .TOKEN_PUNC .PUNC_SEMI,
   .TOKEN_KEYWORD .KW_BEGIN, .TOKEN_ID "a", .TOKEN_PUNC .PUNC_ASSIGN, .TOKEN_PUNC .PUNC_SEMI,
   .TOKEN_KEYWORD .KW_END, .TOKEN_PUNC .PUNC_SEMI]

/-- The tokens of `program p; begin ; end`: the final `;` is missing. -/
def prog_missing_semicolon : List Token :=
  [.TOKEN_KEYWORD .KW_PROGRAM, .TOKEN_ID "p", .TOKEN_PUNC .PUNC_SEMI,
   .TOKEN_KEYWORD .KW_BEGIN, .TOKEN_PUNC .PUNC_SEMI, .TOKEN_KEYWORD .KW_END]

/-- The tokens of `program p; a, b, c, d, e, f, g, spill1 : int; begin
a := (a + b) + ((c + d) + ((e + f) + (g + spill1))); end;`: the program
variable `spill1` bears the name of the first spill label. -/
def prog_variable_named_spill : List Token :=
  [.TOKEN_KEYWORD .KW_PROGRAM, .TOKEN_ID "p", .TOKEN_PUNC .PUNC_SEMI,
   .TOKEN_ID "a", .TOKEN_PUNC .PUNC_COMMA, .TOKEN_ID "b", .TOKEN_PUNC .PUNC_COMMA,
   .TOKEN_ID "c", .TOKEN_PUNC .PUNC_COMMA, .TOKEN_ID "d", .TOKEN_PUNC .PUNC_COMMA,
   .TOKEN_ID "e", .TOKEN_PUNC .PUNC_COMMA, .TOKEN_ID "f", .TOKEN_PUNC .PUNC_COMMA,
   .TOKEN_ID "g", .TOKEN_PUNC .PUNC_COMMA, .TOKEN_ID "spill1", .TOKEN_PUNC .PUNC_COLON,
   .TOKEN_KEYWORD .KW_INT, .TOKEN_PUNC .PUNC_SEMI,
   .TOKEN_KEYWORD .KW_BEGIN,
   .TOKEN_ID "a", .TOKEN_PUNC .PUNC_ASSIGN,
   .TOKEN_PUNC .PUNC_OPEN, .TOKEN_ID "a", .TOKEN_ADDOP .ADDOP_ADD, .TOKEN_ID "b",
   .TOKEN_PUNC .PUNC_CLOSE, .TOKEN_ADDOP .ADDOP_ADD,
   .TOKEN_PUNC .PUNC_OPEN,
   .TOKEN_PUNC .PUNC_OPEN, .TOKEN_ID "c", .TOKEN_ADDOP .ADDOP_ADD, .TOKEN_ID "d",
   .TOKEN_PUNC .PUNC_CLOSE, .TOKEN_ADDOP .ADDOP_ADD,
   .TOKEN_PUNC .PUNC_OPEN,
   .TOKEN_PUNC .PUNC_OPEN, .TOKEN_ID "e", .TOKEN_ADDOP .ADDOP_ADD, .TOKEN_ID "f",
   .TOKEN_PUNC .PUNC_CLOSE, .TOKEN_ADDOP .ADDOP_ADD,
   .TOKEN_PUNC .PUNC_OPEN, .TOKEN_ID "g", .TOKEN_ADDOP .ADDOP_ADD, .TOKEN_ID "spill1",
   .TOKEN_PUNC .PUNC_CLOSE,
   .TOKEN_PUNC .PUNC_CLOSE, .TOKEN_PUNC .PUNC_CLOSE,
   .TOKEN_PUNC .PUNC_SEMI,
   .TOKEN_KEYWORD .KW_END, .TOKEN_PUNC .PUNC_SEMI]

/-- A record at the release of the right operand of `g + spill1`: the slot 0
holds the sum in `R3`, the slot 1 holds the program variable `spill1` as a
memory operand, and the spill table holds the active entry of the label
`spill1`, to which an earlier register has been spilled. -/
def example_release_variable : Parser :=
  { Parser.init false [.TOKEN_PUNC .PUNC_CLOSE] with
    allocator := { inuse1 := true, inuse2 := true, inuse3 := true }
    spilled_labels := [("spill1", true)]
    slots := [{ op := some (.OPTYPE_REGISTER .R3), deleted := false, live := true },
              { op := some (.OPTYPE_MEMORY "spill1"), deleted := false, live := true }]
    last_register_op := some 0 }

/-- The tokens of the assignment `a := (a + b) + ((c + d) + ((e + f) + (g +
h)));`. -/
def stmt_nested_sums : List Token :=
  [.TOKEN_ID "a", .TOKEN_PUNC .PUNC_ASSIGN,
   .TOKEN_PUNC .PUNC_OPEN, .TOKEN_ID "a", .TOKEN_ADDOP .ADDOP_ADD, .TOKEN_ID "b",
   .TOKEN_PUNC .PUNC_CLOSE, .TOKEN_ADDOP .ADDOP_ADD,
   .TOKEN_PUNC .PUNC_OPEN,
   .TOKEN_PUNC .PUNC_OPEN, .TOKEN_ID "c", .TOKEN_ADDOP .ADDOP_ADD, .TOKEN_ID "d",
   .TOKEN_PUNC .PUNC_CLOSE, .TOKEN_ADDOP .ADDOP_ADD,
   .TOKEN_PUNC .PUNC_OPEN,
   .TOKEN_PUNC .PUNC_OPEN, .TOKEN_ID "e", .TOKEN_ADDOP .ADDOP_ADD, .TOKEN_ID "f",
   .TOKEN_PUNC .PUNC_CLOSE, .TOKEN_ADDOP .ADDOP_ADD,
   .TOKEN_PUNC .PUNC_OPEN, .TOKEN_ID "g", .TOKEN_ADDOP .ADDOP_ADD, .TOKEN_ID "h",
   .TOKEN_PUNC .PUNC_CLOSE,
   .TOKEN_PUNC .PUNC_CLOSE, .TOKEN_PUNC .PUNC_CLOSE,
   .TOKEN_PUNC .PUNC_SEMI]

/-- The tokens of `program p; a, b, c, d, e, f, g, h : int; begin S S end;`
with the assignment `S` of `stmt_nested_sums` twice. -/
def prog_nested_sums_twice : List Token :=
  [.TOKEN_KEYWORD .KW_PROGRAM, .TOKEN_ID "p", .TOKEN_PUNC .PUNC_SEMI,
   .TOKEN_ID "a", .TOKEN_PUNC .PUNC_COMMA, .TOKEN_ID "b", .TOKEN_PUNC .PUNC_COMMA,
   .TOKEN_ID "c", .TOKEN_PUNC .PUNC_COMMA, .TOKEN_ID "d", .TOKEN_PUNC .PUNC_COMMA,
   .TOKEN_ID "e", .TOKEN_PUNC .PUNC_COMMA, .TOKEN_ID "f", .TOKEN_PUNC .PUNC_COMMA,
   .TOKEN_ID "g", .TOKEN_PUNC .PUNC_COMMA, .TOKEN_ID "h", .TOKEN_PUNC .PUNC_COLON,
   .TOKEN_KEYWORD .KW_INT, .TOKEN_PUNC .PUNC_SEMI,
   .TOKEN_KEYWORD .KW_BEGIN]
  ++ stmt_nested_sums ++ stmt_nested_sums
  ++ [.TOKEN_KEYWORD .KW_END, .TOKEN_PUNC .PUNC_SEMI]

/-! ## The meaning of the emitted IR -/

/-- Modelled from the spec: the state of the register machine the IR is
written for (no machine is part of the repository): the three registers, the
memory cells named by labels, and the index of the next line. -/
structure Machine where
  reg : Register → Int
  mem : String → Int
  pc : Nat

/-- The value an operand denotes for given contents of the registers and of
the memory: the content of the register, the immediate itself, or the content
of the memory cell. -/
def operand_value (reg : Register → Int) (mem : String → Int) : Operand → Int
  | .OPTYPE_REGISTER r => reg r
  | .OPTYPE_IMMEDIATE i => i
  | .OPTYPE_MEMORY x => mem x

namespace Machine

/-- The value an operand denotes in a state of the machine. -/
def value (m : Machine) (o : Operand) : Int :=
  operand_value m.reg m.mem o

/-- The register `r` is given the value `v`. -/
def set_reg (m : Machine) (r : Register) (v : Int) : Machine :=
  { m with reg := fun r1 => if r1 = r then v else m.reg r1 }

/-- The memory cell `x` is given the value `v`. -/
def set_mem (m : Machine) (x : String) (v : Int) : Machine :=
  { m with mem := fun x1 => if x1 = x then v else m.mem x1 }

/-- The next line is the line that follows. -/
def next (m : Machine) : Machine :=
  { m with pc := m.pc + 1 }

end Machine

/-- Modelled from the spec: the condition under which a conditional branch is
taken (§4.3): `BREZ` when the register is zero, `BRNE` when it is negative,
`BRPO` when it is positive. -/
def branch_taken (op : inst_type) (v : Int) : Bool :=
  match op with
  | .INST_BREZ => decide (v = 0)
  | .INST_BRNE => decide (v < 0)
  | .INST_BRPO => decide (0 < v)
  | _ => false

/-- Modelled from the spec: the result of a 2-address instruction on the
integers: `ADD`, `SUB`, `MUL` and `DIV` are the integer operations (the
quotient is truncated, as that of the machine integers). -/
def alu (op : inst_type) (a b : Int) : Option Int :=
  match op with
  | .INST_ADD => some (a + b)
  | .INST_SUB => some (a - b)
  | .INST_MUL => some (a * b)
  | .INST_DIV => some (Int.tdiv a b)
  | _ => none

/-- Modelled from the spec: the result of a 1-address instruction: `NEG`
negates and `NOT` turns zero into one and everything else into zero. -/
def alu1 (op : inst_type) (a : Int) : Option Int :=
  match op with
  | .INST_NEG => some (-a)
  | .INST_NOT => some (if a = 0 then 1 else 0)
  | .INST_OUTB => some a
  | _ => none

/-- The index of the first line that defines the label `l`. -/
def label_index : List IR → String → Option Nat
  | [], _ => none
  | i :: code, l =>
    if i = .label l then some 0 else (label_index code l).map (fun j => j + 1)

/-- Modelled from the spec: one step of the machine on the program `code`.
Labels, comments and data directives do nothing; `MOVE` copies; the
arithmetic instructions put their result into the destination register; `BR`
goes to the line of its label and a conditional branch does so when its
condition holds.  There is no step at `HALT`, beyond the last line, to a
label that is not defined, and for a mnemonic in the wrong form. -/
def step (code : List IR) (m : Machine) : Option Machine :=
  match code[m.pc]? with
  | none => none
  | some .halt => none
  | some (.label _) => some m.next
  | some (.comment _) => some m.next
  | some (.data_directive _ _) => some m.next
  | some (.move_reg_imm d i) => some (m.set_reg d i).next
  | some (.move_reg_mem d x) => some (m.set_reg d (m.mem x)).next
  | some (.move_mem_reg x s) => some (m.set_mem x (m.reg s)).next
  | some (.inst_1addr op r) => (alu1 op (m.reg r)).map (fun v => (m.set_reg r v).next)
  | some (.inst_2addr op d src) =>
    (alu op (m.reg d) (m.value src)).map (fun v => (m.set_reg d v).next)
  | some (.branch l) => (label_index code l).map (fun j => { m with pc := j })
  | some (.branch_cond op r l) =>
    if branch_taken op (m.reg r) then (label_index code l).map (fun j => { m with pc := j })
    else some m.next

/-- The state after `n` steps, if the machine can take them. -/
def steps (code : List IR) : Nat → Machine → Option Machine
  | 0, m => some m
  | n + 1, m => (step code m).bind (steps code n)

/-- The machine gets from the state `m` to the state `m1` in some number of
steps. -/
def reaches (code : List IR) (m m1 : Machine) : Prop :=
  ∃ n, steps code n m = some m1

/-- The relation of a relational operator on the integers. -/
def relop_holds (c : relop_attr) (l r : Int) : Bool :=
  match c with
  | .RELOP_EQ => decide (l = r)
  | .RELOP_NE => decide (l ≠ r)
  | .RELOP_GT => decide (r < l)
  | .RELOP_GE => decide (r ≤ l)
  | .RELOP_LT => decide (l < r)
  | .RELOP_LE => decide (l ≤ r)

/-- A state of the machine at the first line in which the variables `a` to
`h` hold the powers of two 1, 2, 4, ..., 128 and every register and every
other memory cell holds 0. -/
def machine_powers_of_two : Machine :=
  { reg := fun _ => 0,
    mem := fun x =>
      if x = "a" then 1 else if x = "b" then 2 else if x = "c" then 4
      else if x = "d" then 8 else if x = "e" then 16 else if x = "f" then 32
      else if x = "g" then 64 else if x = "h" then 128 else 0,
    pc := 0 }

/-! ## Calls with fewer actual parameters than formal parameters -/

/-- The lookahead with which `parse_expr_list` enters the list of actual
parameters (the test of the source): an identifier, a number, `(`, `+`, `-`
or `not`. -/
def starts_expression (word : Token) : Bool :=
  is_identifier word || is_number word || is_punctuation word .PUNC_OPEN
    || is_addop_attr word .ADDOP_ADD || is_addop_attr word .ADDOP_SUB
    || is_keyword word .KW_NOT

/-- Along the actual parameters of a trace that starts at the record `p`, no
expression has written a diagnostic of its own while it was parsed. -/
def actuals_silent : Parser → List (expr_type × Parser × Parser) → Prop
  | _, [] => True
  | p, (_, p1, p2) :: acts =>
    p1.diagnostics = p.diagnostics ∧ actuals_silent p2.advanced acts

/-- A parser in production mode at the statement `q ( 5 )` of the program
`p; x : int; procedure q (y, z : int) ...`: the callee has two formal
parameters and the call has one actual parameter. -/
def example_call_one_of_two : Parser :=
  { Parser.init false [.TOKEN_ID "q", .TOKEN_PUNC .PUNC_OPEN, .TOKEN_NUM 5,
      .TOKEN_PUNC .PUNC_CLOSE, .TOKEN_PUNC .PUNC_SEMI] with
    stab := { entries := [{ id := "p", env := "_EXTERNAL", type := .PROGRAM_T, position := none },
                          { id := "x", env := "p", type := .INT_T, position := none },
                          { id := "q", env := "p", type := .PROCEDURE_T, position := none },
                          { id := "y", env := "q", type := .INT_T, position := some 0 },
                          { id := "z", env := "q", type := .INT_T, position := some 1 }] }
    current_env := "p"
    main_env := "p" }

/-- A parser in production mode at the statement `q ( )` of the same program:
the callee has two formal parameters and the call has no actual parameter. -/
def example_call_none_of_two : Parser :=
  { example_call_one_of_two with
    word := .TOKEN_ID "q"
    lex := [.TOKEN_PUNC .PUNC_OPEN, .TOKEN_PUNC .PUNC_CLOSE, .TOKEN_PUNC .PUNC_SEMI] }

/-- The record in which the actual parameter list of `example_call_one_of_two`
is entered. -/
def example_call_one_of_two_entered : Parser :=
  call_entered [] (after_identifier "q" example_call_one_of_two)

/-- The record after the actual parameter `5` of `example_call_one_of_two`
has been parsed. -/
def example_call_one_of_two_parsed : Parser :=
  ((do
    let expression ← new_operand_slot none
    let expr ← parse_expr 4 .GARBAGE_T expression
    pure (expression, expr)) example_call_one_of_two_entered).parser

/-- The record after the actual parameter `5` of `example_call_one_of_two`
has been checked. -/
def example_call_one_of_two_checked : Parser :=
  (actual_parm_check .INT_T example_call_one_of_two_parsed).parser

/-- The tokens of `program p; x : int; procedure q (y, z : int) begin y := 1;
end; begin q(5); q(); end;`: the procedure has two formal parameters, the
calls have one actual parameter and none. -/
def prog_calls_with_too_few_actuals : List Token :=
  [.TOKEN_KEYWORD .KW_PROGRAM, .TOKEN_ID "p", .TOKEN_PUNC .PUNC_SEMI,
   .TOKEN_ID "x", .TOKEN_PUNC .PUNC_COLON, .TOKEN_KEYWORD .KW_INT, .TOKEN_PUNC .PUNC_SEMI,
   .TOKEN_KEYWORD .KW_PROCEDURE, .TOKEN_ID "q", .TOKEN_PUNC .PUNC_OPEN,
   .TOKEN_ID "y", .TOKEN_PUNC .PUNC_COMMA, .TOKEN_ID "z", .TOKEN_PUNC .PUNC_COLON,
   .TOKEN_KEYWORD .KW_INT, .TOKEN_PUNC .PUNC_CLOSE,
   .TOKEN_KEYWORD .KW_BEGIN, .TOKEN_ID "y", .TOKEN_PUNC .PUNC_ASSIGN, .TOKEN_NUM 1,
   .TOKEN_PUNC .PUNC_SEMI, .TOKEN_KEYWORD .KW_END, .TOKEN_PUNC .PUNC_SEMI,
   .TOKEN_KEYWORD .KW_BEGIN,
   .TOKEN_ID "q", .TOKEN_PUNC .PUNC_OPEN, .TOKEN_NUM 5, .TOKEN_PUNC .PUNC_CLOSE,
   .TOKEN_PUNC .PUNC_SEMI,
   .TOKEN_ID "q", .TOKEN_PUNC .PUNC_OPEN, .TOKEN_PUNC .PUNC_CLOSE, .TOKEN_PUNC .PUNC_SEMI,
   .TOKEN_KEYWORD .KW_END, .TOKEN_PUNC .PUNC_SEMI]

/-! ## Names of the program level inside a procedure -/

/-- The tokens of `program p; a : int; procedure r (x : int) begin x := 1;
end; procedure q (F : int) L : int; begin a := 1; end; begin a := 2; end;`
with the name `formal` for the formal parameter `F` and the name `loc` for
the local variable `L` of the procedure `q`. -/
def prog_names_in_procedure (formal loc : String) : List Token :=
  [.TOKEN_KEYWORD .KW_PROGRAM, .TOKEN_ID "p", .TOKEN_PUNC .PUNC_SEMI,
   .TOKEN_ID "a", .TOKEN_PUNC .PUNC_COLON, .TOKEN_KEYWORD .KW_INT, .TOKEN_PUNC .PUNC_SEMI,
   .TOKEN_KEYWORD .KW_PROCEDURE, .TOKEN_ID "r", .TOKEN_PUNC .PUNC_OPEN,
   .TOKEN_ID "x", .TOKEN_PUNC .PUNC_COLON, .TOKEN_KEYWORD .KW_INT, .TOKEN_PUNC .PUNC_CLOSE,
   .TOKEN_KEYWORD .KW_BEGIN, .TOKEN_ID "x", .TOKEN_PUNC .PUNC_ASSIGN, .TOKEN_NUM 1,
   .TOKEN_PUNC .PUNC_SEMI, .TOKEN_KEYWORD .KW_END, .TOKEN_PUNC .PUNC_SEMI,
   .TOKEN_KEYWORD .KW_PROCEDURE, .TOKEN_ID "q", .TOKEN_PUNC .PUNC_OPEN,
   .TOKEN_ID formal, .TOKEN_PUNC .PUNC_COLON, .TOKEN_KEYWORD .KW_INT, .TOKEN_PUNC .PUNC_CLOSE,
   .TOKEN_ID loc, .TOKEN_PUNC .PUNC_COLON, .TOKEN_KEYWORD .KW_INT, .TOKEN_PUNC .PUNC_SEMI,
   .TOKEN_KEYWORD .KW_BEGIN, .TOKEN_ID "a", .TOKEN_PUNC .PUNC_ASSIGN, .TOKEN_NUM 1,
   .TOKEN_PUNC .PUNC_SEMI, .TOKEN_KEYWORD .KW_END, .TOKEN_PUNC .PUNC_SEMI,
   .TOKEN_KEYWORD .KW_BEGIN, .TOKEN_ID "a", .TOKEN_PUNC .PUNC_ASSIGN, .TOKEN_NUM 2,
   .TOKEN_PUNC .PUNC_SEMI, .TOKEN_KEYWORD .KW_END, .TOKEN_PUNC .PUNC_SEMI]

/-- A parser in test mode inside the procedure `q` of the program `p; a :
int; procedure r ...; procedure q (`, at the formal parameter `a`, which is
followed by `, r : int )`. -/
def example_formal_named_like_global : Parser :=
  { Parser.init true [.TOKEN_ID "a", .TOKEN_PUNC .PUNC_COMMA, .TOKEN_ID "r",
      .TOKEN_PUNC .PUNC_COLON, .TOKEN_KEYWORD .KW_INT, .TOKEN_PUNC .PUNC_CLOSE] with
    stab := { entries := [{ id := "p", env := "_EXTERNAL", type := .PROGRAM_T, position := none },
                          { id := "a", env := "p", type := .INT_T, position := none },
                          { id := "r", env := "p", type := .PROCEDURE_T, position := none },
                          { id := "x", env := "r", type := .INT_T, position := some 0 },
                          { id := "q", env := "p", type := .PROCEDURE_T, position := none }] }
    current_env := "q"
    main_env := "p"
    parsing_formal_parm_list := true }

/-! ## The grammar -/

/-- The non-terminals of the grammar of section 4.4.1 of the specification. -/
inductive Nonterminal where
  | PROGRAM | DECL_LIST | VAR_DECL_LIST | VAR_DECL | ID_LIST | ID_LIST_PRM
  | PROC_DECL_LIST | PROC_DECL | PROC_ARGS | FORMAL_PARM_LIST | FORMAL_PARM_LIST_HAT
  | STANDARD_TYPE | BLOCK | STMT_LIST | STMT_LIST_PRM | STMT | ADHOC_AS_PC_TAIL
  | IF_STMT | IF_STMT_HAT | WHILE_STMT | PRINT_STMT | EXPR_LIST | ACTUAL_PARM_LIST
  | ACTUAL_PARM_LIST_HAT | EXPR | EXPR_HAT | SIMPLE_EXPR | SIMPLE_EXPR_PRM | TERM
  | TERM_PRM | FACTOR | SIGN
deriving DecidableEq

/-- The grammar of section 4.4.1 as the specification lists it, one rule per
alternative of a production: `derives N ts` says that the token sequence `ts`
is derivable from the non-terminal `N`.  The terminal `id` is any identifier
token, `num` any number token, and `relop`, `addop`, `mulop` any token of
their class. -/
inductive derives : Nonterminal → List Token → Prop
  | program (x : String) (d b : List Token) :
      derives .DECL_LIST d → derives .BLOCK b →
      derives .PROGRAM (.TOKEN_KEYWORD .KW_PROGRAM :: .TOKEN_ID x :: .TOKEN_PUNC .PUNC_SEMI
        :: (d ++ (b ++ [.TOKEN_PUNC .PUNC_SEMI])))
  | decl_list (v p : List Token) :
      derives .VAR_DECL_LIST v → derives .PROC_DECL_LIST p → derives .DECL_LIST (v ++ p)
  | var_decl_list_cons (d rest : List Token) :
      derives .VAR_DECL d → derives .VAR_DECL_LIST rest →
      derives .VAR_DECL_LIST (d ++ .TOKEN_PUNC .PUNC_SEMI :: rest)
  | var_decl_list_nil : derives .VAR_DECL_LIST []
  | var_decl (ids ty : List Token) :
      derives .ID_LIST ids → derives .STANDARD_TYPE ty →
      derives .VAR_DECL (ids ++ .TOKEN_PUNC .PUNC_COLON :: ty)
  | id_list (x : String) (rest : List Token) :
      derives .ID_LIST_PRM rest → derives .ID_LIST (.TOKEN_ID x :: rest)
  | id_list_prm_cons (x : String) (rest : List Token) :
      derives .ID_LIST_PRM rest →
      derives .ID_LIST_PRM (.TOKEN_PUNC .PUNC_COMMA :: .TOKEN_ID x :: rest)
  | id_list_prm_nil : derives .ID_LIST_PRM []
  | proc_decl_list_cons (d rest : List Token) :
      derives .PROC_DECL d → derives .PROC_DECL_LIST rest →
      derives .PROC_DECL_LIST (d ++ .TOKEN_PUNC .PUNC_SEMI :: rest)
  | proc_decl_list_nil : derives .PROC_DECL_LIST []
  | proc_decl (x : String) (args vars block : List Token) :
      derives .PROC_ARGS args → derives .VAR_DECL_LIST vars → derives .BLOCK block →
      derives .PROC_DECL (.TOKEN_KEYWORD .KW_PROCEDURE :: .TOKEN_ID x :: .TOKEN_PUNC .PUNC_OPEN
        :: (args ++ .TOKEN_PUNC .PUNC_CLOSE :: (vars ++ block)))
  | proc_args_some (f : List Token) : derives .FORMAL_PARM_LIST f → derives .PROC_ARGS f
  | proc_args_nil : derives .PROC_ARGS []
  | formal_parm_list (x : String) (rest ty hat : List Token) :
      derives .ID_LIST_PRM rest → derives .STANDARD_TYPE ty →
      derives .FORMAL_PARM_LIST_HAT hat →
      derives .FORMAL_PARM_LIST (.TOKEN_ID x :: (rest ++ .TOKEN_PUNC .PUNC_COLON :: (ty ++ hat)))
  | formal_parm_list_hat_cons (f : List Token) :
      derives .FORMAL_PARM_LIST f → derives .FORMAL_PARM_LIST_HAT (.TOKEN_PUNC .PUNC_SEMI :: f)
  | formal_parm_list_hat_nil : derives .FORMAL_PARM_LIST_HAT []
  | standard_type_int : derives .STANDARD_TYPE [.TOKEN_KEYWORD .KW_INT]
  | standard_type_bool : derives .STANDARD_TYPE [.TOKEN_KEYWORD .KW_BOOL]
  | block (s : List Token) :
      derives .STMT_LIST s →
      derives .BLOCK (.TOKEN_KEYWORD .KW_BEGIN :: (s ++ [.TOKEN_KEYWORD .KW_END]))
  | stmt_list_stmt (s rest : List Token) :
      derives .STMT s → derives .STMT_LIST_PRM rest →
      derives .STMT_LIST (s ++ .TOKEN_PUNC .PUNC_SEMI :: rest)
  | stmt_list_empty (rest : List Token) :
      derives .STMT_LIST_PRM rest → derives .STMT_LIST (.TOKEN_PUNC .PUNC_SEMI :: rest)
  | stmt_list_prm_cons (s rest : List Token) :
      derives .STMT s → derives .STMT_LIST_PRM rest →
      derives .STMT_LIST_PRM (s ++ .TOKEN_PUNC .PUNC_SEMI :: rest)
  | stmt_list_prm_nil : derives .STMT_LIST_PRM []
  | stmt_if (s : List Token) : derives .IF_STMT s → derives .STMT s
  | stmt_while (s : List Token) : derives .WHILE_STMT s → derives .STMT s
  | stmt_print (s : List Token) : derives .PRINT_STMT s → derives .STMT s
  | stmt_id (x : String) (tail : List Token) :
      derives .ADHOC_AS_PC_TAIL tail → derives .STMT (.TOKEN_ID x :: tail)
  | tail_assign (e : List Token) :
      derives .EXPR e → derives .ADHOC_AS_PC_TAIL (.TOKEN_PUNC .PUNC_ASSIGN :: e)
  | tail_call (l : List Token) :
      derives .EXPR_LIST l →
      derives .ADHOC_AS_PC_TAIL (.TOKEN_PUNC .PUNC_OPEN :: (l ++ [.TOKEN_PUNC .PUNC_CLOSE]))
  | if_stmt (e b hat : List Token) :
      derives .EXPR e → derives .BLOCK b → derives .IF_STMT_HAT hat →
      derives .IF_STMT (.TOKEN_KEYWORD .KW_IF :: (e ++ .TOKEN_KEYWORD .KW_THEN :: (b ++ hat)))
  | if_stmt_hat_else (b : List Token) :
      derives .BLOCK b → derives .IF_STMT_HAT (.TOKEN_KEYWORD .KW_ELSE :: b)
  | if_stmt_hat_nil : derives .IF_STMT_HAT []
  | while_stmt (e b : List Token) :
      derives .EXPR e → derives .BLOCK b →
      derives .WHILE_STMT (.TOKEN_KEYWORD .KW_WHILE :: (e ++ .TOKEN_KEYWORD .KW_LOOP :: b))
  | print_stmt (e : List Token) :
      derives .EXPR e → derives .PRINT_STMT (.TOKEN_KEYWORD .KW_PRINT :: e)
  | expr_list_some (l : List Token) : derives .ACTUAL_PARM_LIST l → derives .EXPR_LIST l
  | expr_list_nil : derives .EXPR_LIST []
  | actual_parm_list (e hat : List Token) :
      derives .EXPR e → derives .ACTUAL_PARM_LIST_HAT hat →
      derives .ACTUAL_PARM_LIST (e ++ hat)
  | actual_parm_list_hat_cons (l : List Token) :
      derives .ACTUAL_PARM_LIST l →
      derives .ACTUAL_PARM_LIST_HAT (.TOKEN_PUNC .PUNC_COMMA :: l)
  | actual_parm_list_hat_nil : derives .ACTUAL_PARM_LIST_HAT []
  | expr (s hat : List Token) :
      derives .SIMPLE_EXPR s → derives .EXPR_HAT hat → derives .EXPR (s ++ hat)
  | expr_hat_relop (c : relop_attr) (s : List Token) :
      derives .SIMPLE_EXPR s → derives .EXPR_HAT (.TOKEN_RELOP c :: s)
  | expr_hat_nil : derives .EXPR_HAT []
  | simple_expr (t rest : List Token) :
      derives .TERM t → derives .SIMPLE_EXPR_PRM rest → derives .SIMPLE_EXPR (t ++ rest)
  | simple_expr_prm_cons (a : addop_attr) (t rest : List Token) :
      derives .TERM t → derives .SIMPLE_EXPR_PRM rest →
      derives .SIMPLE_EXPR_PRM (.TOKEN_ADDOP a :: (t ++ rest))
  | simple_expr_prm_nil : derives .SIMPLE_EXPR_PRM []
  | term (f rest : List Token) :
      derives .FACTOR f → derives .TERM_PRM rest → derives .TERM (f ++ rest)
  | term_prm_cons (m : mulop_attr) (f rest : List Token) :
      derives .FACTOR f → derives .TERM_PRM rest →
      derives .TERM_PRM (.TOKEN_MULOP m :: (f ++ rest))
  | term_prm_nil : derives .TERM_PRM []
  | factor_id (x : String) : derives .FACTOR [.TOKEN_ID x]
  | factor_num (n : Nat) : derives .FACTOR [.TOKEN_NUM n]
  | factor_paren (e : List Token) :
      derives .EXPR e →
      derives .FACTOR (.TOKEN_PUNC .PUNC_OPEN :: (e ++ [.TOKEN_PUNC .PUNC_CLOSE]))
  | factor_sign (s f : List Token) :
      derives .SIGN s → derives .FACTOR f → derives .FACTOR (s ++ f)
  | sign_plus : derives .SIGN [.TOKEN_ADDOP .ADDOP_ADD]
  | sign_minus : derives .SIGN [.TOKEN_ADDOP .ADDOP_SUB]
  | sign_not : derives .SIGN [.TOKEN_KEYWORD .KW_NOT]

/-! ## The value of an arithmetic expression and straight-line code -/

/-- The scanner as the productions see it, the lookahead and the tokens not
yet delivered, after one more token has been delivered. -/
def next_token (s : Token × List Token) : Token × List Token :=
  match s.2 with
  | [] => (.TOKEN_EOF, [])
  | t :: rest => (t, rest)

mutual

/-- The value of the expression at the head of the token stream `s`, for the
contents `mem` of the variables, together with the stream behind the
expression: `EXPR → SIMPLE_EXPR`, where no relational operator follows (a
comparison is not an arithmetic expression).  The six functions follow the
grammar of section 4.4.1 for the expressions over literals, variables, unary
`+` and `-`, binary `+`, `-`, `*`, `/` and parentheses; the binary operators
associate to the left, `*` and `/` bind tighter than `+` and `-`, the
quotient is truncated and a division by zero has no value, and a literal
denotes the `int` the source reads it into (`num_value`, the number itself
up to 2147483647).  Any other expression has no value.  The evaluator is
the reference the emitted code is compared with: it follows the grammar and
the usual meaning of the operators, not the productions of the source. -/
def value_expr (mem : String → Int) :
    Nat → Token × List Token → Option (Int × (Token × List Token))
  | 0, _ => none
  | fuel + 1, s =>
    match value_simple_expr mem fuel s with
    | some (v, s1) =>
      match s1.1 with
      | .TOKEN_RELOP _ => none
      | _ => some (v, s1)
    | none => none
termination_by structural fuel _ => fuel

/-- The value of `SIMPLE_EXPR → TERM SIMPLE_EXPR_PRM`. -/
def value_simple_expr (mem : String → Int) :
    Nat → Token × List Token → Option (Int × (Token × List Token))
  | 0, _ => none
  | fuel + 1, s =>
    match value_term mem fuel s with
    | some (v, s1) => value_simple_expr_prm mem fuel v s1
    | none => none
termination_by structural fuel _ => fuel

/-- The value of `SIMPLE_EXPR_PRM → addop TERM SIMPLE_EXPR_PRM | ε` for the
value `left` of what stands to the left. -/
def value_simple_expr_prm (mem : String → Int) :
    Nat → Int → Token × List Token → Option (Int × (Token × List Token))
  | 0, _, _ => none
  | fuel + 1, left, s =>
    match s.1 with
    | .TOKEN_ADDOP a =>
      match a with
      | .ADDOP_ADD =>
        match value_term mem fuel (next_token s) with
        | some (v, s1) => value_simple_expr_prm mem fuel (left + v) s1
        | none => none
      | .ADDOP_SUB =>
        match value_term mem fuel (next_token s) with
        | some (v, s1) => value_simple_expr_prm mem fuel (left - v) s1
        | none => none
      | .ADDOP_OR => none
    | _ => some (left, s)
termination_by structural fuel _ _ => fuel

/-- The value of `TERM → FACTOR TERM_PRM`. -/
def value_term (mem : String → Int) :
    Nat → Token × List Token → Option (Int × (Token × List Token))
  | 0, _ => none
  | fuel + 1, s =>
    match value_factor mem fuel s with
    | some (v, s1) => value_term_prm mem fuel v s1
    | none => none
termination_by structural fuel _ => fuel

/-- The value of `TERM_PRM → mulop FACTOR TERM_PRM | ε` for the value `left`
of what stands to the left. -/
def value_term_prm (mem : String → Int) :
    Nat → Int → Token × List Token → Option (Int × (Token × List Token))
  | 0, _, _ => none
  | fuel + 1, left, s =>
    match s.1 with
    | .TOKEN_MULOP m =>
      match m with
      | .MULOP_MUL =>
        match value_factor mem fuel (next_token s) with
        | some (v, s1) => value_term_prm mem fuel (left * v) s1
        | none => none
      | .MULOP_DIV =>
        match value_factor mem fuel (next_token s) with
        | some (v, s1) => if v = 0 then none else value_term_prm mem fuel (Int.tdiv left v) s1
        | none => none
      | .MULOP_AND => none
    | _ => some (left, s)
termination_by structural fuel _ _ => fuel

/-- The value of `FACTOR → id | num | ( EXPR ) | + FACTOR | - FACTOR`. -/
def value_factor (mem : String → Int) :
    Nat → Token × List Token → Option (Int × (Token × List Token))
  | 0, _ => none
  | fuel + 1, s =>
    match s.1 with
    | .TOKEN_ID x => some (mem x, next_token s)
    | .TOKEN_NUM n => some (num_value n, next_token s)
    | .TOKEN_PUNC c =>
      match c with
      | .PUNC_OPEN =>
        match value_expr mem fuel (next_token s) with
        | some (v, s1) =>
          match s1.1 with
          | .TOKEN_PUNC .PUNC_CLOSE => some (v, next_token s1)
          | _ => none
        | none => none
      | _ => none
    | .TOKEN_ADDOP a =>
      match a with
      | .ADDOP_ADD => value_factor mem fuel (next_token s)
      | .ADDOP_SUB =>
        match value_factor mem fuel (next_token s) with
        | some (v, s1) => some (-v, s1)
        | none => none
      | .ADDOP_OR => none
    | _ => none
termination_by structural fuel _ => fuel

end

/-- The register a line of IR writes, if any. -/
def IR.writes : IR → Option Register
  | .move_reg_imm d _ => some d
  | .move_reg_mem d _ => some d
  | .inst_1addr _ r => some r
  | .inst_2addr _ d _ => some d
  | _ => none

/-- The effect of one line of straight-line code that stores nothing on the
registers, for the contents `mem` of the memory; as in `step`.  Stores,
branches and `HALT` are not such lines. -/
def line_effect (mem : String → Int) (i : IR) (reg : Register → Int) :
    Option (Register → Int) :=
  match i with
  | .label _ => some reg
  | .comment _ => some reg
  | .data_directive _ _ => some reg
  | .move_reg_imm d v => some (fun r1 => if r1 = d then v else reg r1)
  | .move_reg_mem d x => some (fun r1 => if r1 = d then mem x else reg r1)
  | .inst_1addr op r => (alu1 op (reg r)).map (fun v => fun r1 => if r1 = r then v else reg r1)
  | .inst_2addr op d src =>
    (alu op (reg d) (operand_value reg mem src)).map
      (fun v => fun r1 => if r1 = d then v else reg r1)
  | _ => none

/-- The effect of straight-line code that stores nothing on the registers. -/
def run_lines (mem : String → Int) : List IR → (Register → Int) → Option (Register → Int)
  | [], reg => some reg
  | i :: code, reg => (line_effect mem i reg).bind (run_lines mem code)

/-- No spill has been emitted behind the first `n` lines of the output: no
line there stores a register to memory (`MOVE S, R`). -/
def spill_free (n : Nat) (out : List IR) : Prop :=
  ∀ (x : String) (r : Register), IR.move_mem_reg x r ∉ out.drop n

/-- The register of a register operand. -/
def Operand.register : Operand → Option Register
  | .OPTYPE_REGISTER r => some r
  | _ => none

/-- The operand variable `op` is in scope in the record `p`. -/
def in_scope (p : Parser) (op : Nat) : Prop :=
  ∃ s, p.slots[op]? = some s ∧ s.live = true

/-- The record `q` has the operand slots, the register pool, the emitter and
the scanner of the record `p`: nothing has been parsed and no code has been
generated in between. -/
def same_code (p q : Parser) : Prop :=
  q.slots = p.slots ∧ q.allocator = p.allocator ∧ q.e = p.e ∧ q.word = p.word
    ∧ q.lex = p.lex

/-- What the code of an expression production does, between the record `p`
in which it is entered for the operand slot `op` and the record `q` in which
it returns: the slot holds an operand `o`, the output has grown by the lines
`code`, the register of `o` is allocated and was free before (or is the
register `own` of the operand the production started from), no register has
been released that was in use, the other slots that were there are as they
were, the lines write only registers that were free (or `own`), and run from
any registers that satisfy `pre` the lines leave the value `v` where `o`
says, for the contents `mem` of the memory, which they do not change. -/
def computes (mem : String → Int) (op : Nat) (own : Option Register)
    (pre : (Register → Int) → Prop) (v : Int) (p q : Parser) : Prop :=
  ∃ (o : Operand) (code : List IR),
    q.slots[op]? = some { op := some o, deleted := false, live := true }
    ∧ q.e.out = p.e.out ++ code
    ∧ (∀ r, o = .OPTYPE_REGISTER r →
        q.allocator.inuse r = true ∧ (p.allocator.inuse r = false ∨ own = some r))
    ∧ (∀ r, p.allocator.inuse r = true → q.allocator.inuse r = true)
    ∧ p.slots.length ≤ q.slots.length
    ∧ (∀ i, i < p.slots.length → i ≠ op → q.slots[i]? = p.slots[i]?)
    ∧ (∀ i ∈ code, ∀ d, IR.writes i = some d → p.allocator.inuse d = false ∨ own = some d)
    ∧ ∀ reg, pre reg →
        ∃ reg1, run_lines mem code reg = some reg1 ∧ operand_value reg1 mem o = v

/-- A production that fills the operand slot it is given compiles what the
evaluator `V` evaluates: whenever the production returns true from a record
in which the slot is in scope, `V` gives the expression at the head of the
token stream the value `v`, and no spill has been emitted, the production
has consumed the tokens `V` has consumed and its code computes `v`. -/
def fills_value (mem : String → Int) (x : expr_type → Nat → M (Bool × expr_type))
    (V : Token × List Token → Option (Int × (Token × List Token))) : Prop :=
  ∀ (t : expr_type) (op : Nat) (p : Parser) (ty : expr_type) (q : Parser) (v : Int)
    (st : Token × List Token),
    x t op p = .ok (true, ty) q → V (p.word, p.lex) = some (v, st) → in_scope p op →
    spill_free p.e.out.length q.e.out →
    st = (q.word, q.lex) ∧ computes mem op none (fun _ => True) v p q

/-- A production that goes on from the operand `ol` in the slot it is given
compiles what the evaluator `V` evaluates for the value `vl` of that operand:
its code computes the value `V vl` gives, when it is run from registers in
which `ol` denotes `vl`. -/
def continues_value (mem : String → Int) (x : expr_type → Nat → M (Bool × expr_type))
    (V : Int → Token × List Token → Option (Int × (Token × List Token))) : Prop :=
  ∀ (t : expr_type) (op : Nat) (p : Parser) (ty : expr_type) (q : Parser) (ol : Operand)
    (vl v : Int) (st : Token × List Token),
    x t op p = .ok (true, ty) q →
    p.slots[op]? = some { op := some ol, deleted := false, live := true } →
    (∀ r, ol = .OPTYPE_REGISTER r → p.allocator.inuse r = true) →
    V vl (p.word, p.lex) = some (v, st) →
    spill_free p.e.out.length q.e.out →
    st = (q.word, q.lex)
      ∧ computes mem op ol.register (fun reg => operand_value reg mem ol = vl) v p q

/-- The line stores a register to memory (`MOVE S, R`). -/
def IR.is_store : IR → Bool
  | .move_mem_reg _ _ => true
  | _ => false

/-- A parser in the program `p`, where `a` and `b` are declared as `int`
variables of the program, with one operand slot and the input
`( a + 7 ) / - b ;`. -/
def example_int_expression : Parser :=
  (new_operand_slot none
    { Parser.init false [.TOKEN_PUNC .PUNC_OPEN, .TOKEN_ID "a", .TOKEN_ADDOP .ADDOP_ADD,
        .TOKEN_NUM 7, .TOKEN_PUNC .PUNC_CLOSE, .TOKEN_MULOP .MULOP_DIV, .TOKEN_ADDOP .ADDOP_SUB,
        .TOKEN_ID "b", .TOKEN_PUNC .PUNC_SEMI] with
      stab := { entries := [{ id := "p", env := "_EXTERNAL", type := .PROGRAM_T, position := none },
                            { id := "a", env := "p", type := .INT_T, position := none },
                            { id := "b", env := "p", type := .INT_T, position := none }] }
      current_env := "p"
      main_env := "p" }).parser

/-- A memory in which `a` is 5, `b` is -3 and every other cell is 0. -/
def example_memory : String → Int :=
  fun x => if x = "a" then 5 else if x = "b" then -3 else 0

/-! ## The blocks of a program -/

/-- The record after `parse_program` has matched the program name `x` in the
record `p`: the name is installed, the label of the program is emitted and
the name is consumed. -/
def program_named (x : String) (p : Parser) : Parser :=
  ((do
    enter_program x
    emit (.label ("_" ++ x))
    advance) p).parser

/-- The record `pD` in which `parse_program`, started in the record `p`,
enters the declarations: `program`, the name of the program and `;` have
been matched. -/
def declarations_entered (p pD : Parser) : Prop :=
  ∃ x : String, p.word = .TOKEN_KEYWORD .KW_PROGRAM ∧ p.advanced.word = .TOKEN_ID x
    ∧ (program_named x p.advanced).word = .TOKEN_PUNC .PUNC_SEMI
    ∧ pD = (program_named x p.advanced).advanced

/-- The record `pB` in which `parse_program (fuel + 1)`, started in the
record `p`, enters the main block of the program: the declarations have
returned true. -/
def main_block_entered (fuel : Nat) (p pB : Parser) : Prop :=
  ∃ pD, declarations_entered p pD ∧ parse_decl_list fuel pD = .ok true pB

/-- The record `pB` in which `parse_procedure_decl (fuel + 1)`, started in
the record `p`, enters the block of the procedure: `procedure`, the name,
the formal parameters between `(` and `)` and the local declarations have
been matched. -/
def procedure_block_entered (fuel : Nat) (p pB : Parser) : Prop :=
  ∃ (x : String) (p1 pA : Parser),
    p.word = .TOKEN_KEYWORD .KW_PROCEDURE ∧ p.advanced.word = .TOKEN_ID x
    ∧ declare x (enter_procedure x) p.advanced = .ok () p1
    ∧ p1.advanced.word = .TOKEN_PUNC .PUNC_OPEN
    ∧ parse_procedure_args fuel p1.advanced.advanced = .ok true pA
    ∧ pA.word = .TOKEN_PUNC .PUNC_CLOSE
    ∧ parse_variable_decl_list fuel pA.advanced = .ok true pB

/-- The procedure declarations of a list: `parse_procedure_decl_list fuel`,
started in the record `p`, calls `parse_procedure_decl k` in the record `r`,
the procedure declarations before it having returned true and each having
been followed by `;`. -/
inductive procedure_reached : Nat → Parser → Nat → Parser → Prop
  | first (fuel : Nat) (p : Parser) :
      p.word = .TOKEN_KEYWORD .KW_PROCEDURE → procedure_reached (fuel + 1) p fuel p
  | later (fuel : Nat) (p p1 : Parser) (k : Nat) (r : Parser) :
      p.word = .TOKEN_KEYWORD .KW_PROCEDURE →
      parse_procedure_decl fuel p = .ok true p1 →
      p1.word = .TOKEN_PUNC .PUNC_SEMI →
      procedure_reached fuel p1.advanced k r →
      procedure_reached (fuel + 1) p k r

/-- The procedure declarations of a program: `parse_program (fuel + 2)`,
started in the record `p`, calls `parse_procedure_decl k` in the record `r`,
the variable declarations of the program having returned true. -/
def program_procedure_reached (fuel : Nat) (p : Parser) (k : Nat) (r : Parser) : Prop :=
  ∃ pD pV, declarations_entered p pD ∧ parse_variable_decl_list fuel pD = .ok true pV
    ∧ procedure_reached fuel pV k r

/-- The record in which the main block of `program p; begin end;` is
entered. -/
def example_empty_main_block : Parser :=
  (parse_decl_list 3
    (program_named "p" (Parser.init false prog_empty_block).advanced).advanced).parser

/-- The record in which the declarations of `program p; procedure q() begin
end; begin ; end;` are entered: the lookahead is `procedure`. -/
def example_empty_procedure : Parser :=
  (program_named "p" (Parser.init false prog_empty_procedure_block).advanced).advanced

/-- The record after the name `q` of that procedure has been declared. -/
def example_empty_procedure_named : Parser :=
  (declare "q" (enter_procedure "q") example_empty_procedure.advanced).parser

/-- The record after the empty formal parameter list of `q`. -/
def example_empty_procedure_args : Parser :=
  (parse_procedure_args 3 example_empty_procedure_named.advanced.advanced).parser

/-- The record in which the block `begin end` of the procedure `q` is
entered. -/
def example_empty_procedure_block : Parser :=
  (parse_variable_decl_list 3 example_empty_procedure_args.advanced).parser

/-! ## Theorems -/

/-! ### Every production maintains what the basic blocks maintain -/

section
variable {I : Parser → Prop} {H : Halt → Parser → Prop}

theorem bind_apply {α β : Type} (x : M α) (f : α → M β) (p : Parser) :
    (x >>= f) p = match x p with
      | .ok a p1 => f a p1
      | .halt h p1 => .halt h p1 := rfl

theorem pure_apply {α : Type} (a : α) (p : Parser) : (pure a : M α) p = .ok a p := rfl

theorem get_word_apply (p : Parser) : get_word p = .ok p.word p := rfl

theorem getp_apply (p : Parser) : getp p = .ok p p := rfl

theorem modifyp_apply (f : Parser → Parser) (p : Parser) : modifyp f p = .ok () (f p) := rfl

theorem halt_with_apply {α : Type} (h : Halt) (p : Parser) :
    (halt_with h : M α) p = .halt h p := rfl

theorem advance_apply (p : Parser) : advance p = .ok () p.advanced := rfl

theorem preserves_pure {α : Type} (a : α) : preserves I H (pure a : M α) := by
  intro p hp; exact hp

theorem preserves_bind {α β : Type} {x : M α} {f : α → M β}
    (hx : preserves I H x) (hf : ∀ a, preserves I H (f a)) : preserves I H (x >>= f) := by
  intro p hp
  have h1 := hx p hp
  rw [bind_apply]
  cases hxp : x p with
  | ok a p1 =>
    rw [hxp] at h1
    exact hf a p1 h1
  | halt h p1 =>
    rw [hxp] at h1
    exact h1

theorem preserves_ite {α : Type} {c : Prop} [Decidable c] {x y : M α}
    (hx : preserves I H x) (hy : preserves I H y) : preserves I H (if c then x else y) := by
  split <;> assumption

theorem preserves_getp : preserves I H getp := by
  intro p hp; exact hp

theorem preserves_get_word : preserves I H get_word := by
  intro p hp; exact hp

theorem preserves_halt_out_of_fuel {α : Type} (h : ExprBlockInvariant I H) :
    preserves I H (halt_with .out_of_fuel : M α) := by
  intro p hp; exact h.out_of_fuel p hp

theorem preserves_from_of_preserves {α : Type} {G : Parser → Prop} {x : M α}
    (hx : preserves I H x) : preserves_from G I H x :=
  fun p hp _ => hx p hp

theorem preserves_from_bind {α β : Type} {G : Parser → Prop} {x : M α} {f : α → M β}
    (hx : preserves_from G I H x) (hf : ∀ a, preserves I H (f a)) :
    preserves_from G I H (x >>= f) := by
  intro p hp hg
  have h1 := hx p hp hg
  rw [bind_apply]
  cases hxp : x p with
  | ok a p1 =>
    rw [hxp] at h1
    exact hf a p1 h1
  | halt h p1 =>
    rw [hxp] at h1
    exact h1

/-- After `getp` the code runs from the record it was given. -/
theorem preserves_getp_bind {β : Type} {f : Parser → M β}
    (hf : ∀ p0, preserves_from (fun p => p = p0) I H (f p0)) : preserves I H (getp >>= f) := by
  intro p hp
  rw [bind_apply, getp_apply]
  exact hf p p hp rfl

/-- A guarded block may be entered from the record on which the guard was
evaluated. -/
theorem preserves_from_of_guard {α : Type} (g : Parser → Bool) {p0 : Parser} {x : M α}
    (hg : ¬ g p0 = true) (hx : preserves_from (fun p => g p = false) I H x) :
    preserves_from (fun p => p = p0) I H x := by
  intro p hp he
  subst he
  exact hx p hp (Bool.eq_false_iff.2 hg)

/-- Every predicate the basic blocks maintain is maintained by `parse_standard_type`. -/
theorem preserves_parse_standard_type (h : ExprBlockInvariant I H) (t : expr_type) :
    preserves I H (parse_standard_type t) := by
  unfold parse_standard_type
  repeat (with_reducible first
    | exact preserves_pure _ | exact preserves_get_word | exact preserves_halt_out_of_fuel h
    | exact h.advance | exact h.parse_error _ _ | exact h.undeclared_identifier _
    | exact h.type_error _ _ | exact h.type_error2 _ _ _ | exact h.new_operand_slot_null
    | exact h.end_of_scope _ | exact h.assign_memory _ _ | exact h.assign_immediate _ _
    | exact h.relop_codegen _ _ _ | exact h.addop_codegen _ _ _ | exact h.mulop_codegen _ _ _
    | exact h.sign_codegen _ _ | refine preserves_getp_bind (fun _ => ?_)
    | refine preserves_bind ?_ (fun _ => ?_) | refine preserves_ite ?_ ?_
    | refine preserves_from_bind ?_ (fun _ => ?_) | split | refine preserves_from_of_preserves ?_)

/-- Every predicate the basic blocks maintain is maintained by `parse_identifier_list_prm`. -/
theorem preserves_parse_identifier_list_prm (h : DeclBlockInvariant I H) (fuel : Nat) :
    preserves I H (parse_identifier_list_prm fuel) := by
  induction fuel with
  | zero => rw [parse_identifier_list_prm]; exact preserves_halt_out_of_fuel h.toStmtBlockInvariant.toExprBlockInvariant
  | succ fuel ih =>
    rw [parse_identifier_list_prm]
    repeat (with_reducible first
      | exact preserves_pure _ | exact preserves_get_word
      | exact preserves_halt_out_of_fuel h.toStmtBlockInvariant.toExprBlockInvariant
      | exact h.advance | exact h.parse_error _ _ | exact h.undeclared_identifier _
      | exact h.type_error _ _ | exact h.type_error2 _ _ _ | exact h.new_operand_slot_null
      | exact h.end_of_scope _ | exact h.assign_memory _ _ | exact h.assign_immediate _ _
      | exact h.relop_codegen _ _ _ | exact h.addop_codegen _ _ _ | exact h.mulop_codegen _ _ _
      | exact h.sign_codegen _ _ | exact h.set_procedure_name _
      | exact h.reset_actual_parm_position | exact h.increment_actual_parm_position
      | exact h.emit _ | exact h.get_new_label _ | exact h.new_operand_slot_memory _
      | exact h.print_codegen _ | exact h.assignment_codegen _ _ | exact h.if_condition_codegen _
      | exact h.while_condition_codegen _ _ | exact h.multiply_defined_identifier _
      | exact h.reserve_program_label _ | exact h.stab_update_type _
      | exact h.set_parsing_formal_parm_list _
      | exact preserves_from_of_guard _ (by assumption) (h.stab_install _ _)
      | exact preserves_from_of_guard _ (by assumption) (h.stab_install_formal _) | exact ih
      | refine preserves_getp_bind (fun _ => ?_) | refine preserves_bind ?_ (fun _ => ?_)
      | refine preserves_ite ?_ ?_ | refine preserves_from_bind ?_ (fun _ => ?_) | split
      | refine preserves_from_of_preserves ?_)

/-- Every predicate the basic blocks maintain is maintained by `parse_identifier_list`. -/
theorem preserves_parse_identifier_list (h : DeclBlockInvariant I H) (fuel : Nat)  :
    preserves I H (parse_identifier_list fuel) := by
  cases fuel with
  | zero => rw [parse_identifier_list]; exact preserves_halt_out_of_fuel h.toStmtBlockInvariant.toExprBlockInvariant
  | succ fuel =>
    rw [parse_identifier_list]
    repeat (with_reducible first
      | exact preserves_pure _ | exact preserves_get_word
      | exact preserves_halt_out_of_fuel h.toStmtBlockInvariant.toExprBlockInvariant
      | exact h.advance | exact h.parse_error _ _ | exact h.undeclared_identifier _
      | exact h.type_error _ _ | exact h.type_error2 _ _ _ | exact h.new_operand_slot_null
      | exact h.end_of_scope _ | exact h.assign_memory _ _ | exact h.assign_immediate _ _
      | exact h.relop_codegen _ _ _ | exact h.addop_codegen _ _ _ | exact h.mulop_codegen _ _ _
      | exact h.sign_codegen _ _ | exact h.set_procedure_name _
      | exact h.reset_actual_parm_position | exact h.increment_actual_parm_position
      | exact h.emit _ | exact h.get_new_label _ | exact h.new_operand_slot_memory _
      | exact h.print_codegen _ | exact h.assignment_codegen _ _ | exact h.if_condition_codegen _
      | exact h.while_condition_codegen _ _ | exact h.multiply_defined_identifier _
      | exact h.reserve_program_label _ | exact h.stab_update_type _
      | exact h.set_parsing_formal_parm_list _
      | exact preserves_from_of_guard _ (by assumption) (h.stab_install _ _)
      | exact preserves_from_of_guard _ (by assumption) (h.stab_install_formal _)
      | exact preserves_parse_identifier_list_prm h _ | refine preserves_getp_bind (fun _ => ?_)
      | refine preserves_bind ?_ (fun _ => ?_) | refine preserves_ite ?_ ?_
      | refine preserves_from_bind ?_ (fun _ => ?_) | split
      | refine preserves_from_of_preserves ?_)

/-- Every predicate the basic blocks maintain is maintained by `parse_variable_decl`. -/
theorem preserves_parse_variable_decl (h : DeclBlockInvariant I H) (fuel : Nat)  :
    preserves I H (parse_variable_decl fuel) := by
  cases fuel with
  | zero => rw [parse_variable_decl]; exact preserves_halt_out_of_fuel h.toStmtBlockInvariant.toExprBlockInvariant
  | succ fuel =>
    rw [parse_variable_decl]
    repeat (with_reducible first
      | exact preserves_pure _ | exact preserves_get_word
      | exact preserves_halt_out_of_fuel h.toStmtBlockInvariant.toExprBlockInvariant
      | exact h.advance | exact h.parse_error _ _ | exact h.undeclared_identifier _
      | exact h.type_error _ _ | exact h.type_error2 _ _ _ | exact h.new_operand_slot_null
      | exact h.end_of_scope _ | exact h.assign_memory _ _ | exact h.assign_immediate _ _
      | exact h.relop_codegen _ _ _ | exact h.addop_codegen _ _ _ | exact h.mulop_codegen _ _ _
      | exact h.sign_codegen _ _ | exact h.set_procedure_name _
      | exact h.reset_actual_parm_position | exact h.increment_actual_parm_position
      | exact h.emit _ | exact h.get_new_label _ | exact h.new_operand_slot_memory _
      | exact h.print_codegen _ | exact h.assignment_codegen _ _ | exact h.if_condition_codegen _
      | exact h.while_condition_codegen _ _ | exact h.multiply_defined_identifier _
      | exact h.reserve_program_label _ | exact h.stab_update_type _
      | exact h.set_parsing_formal_parm_list _
      | exact preserves_from_of_guard _ (by assumption) (h.stab_install _ _)
      | exact preserves_from_of_guard _ (by assumption) (h.stab_install_formal _)
      | exact preserves_parse_identifier_list h _
      | exact preserves_parse_standard_type h.toStmtBlockInvariant.toExprBlockInvariant _
      | refine preserves_getp_bind (fun _ => ?_) | refine preserves_bind ?_ (fun _ => ?_)
      | refine preserves_ite ?_ ?_ | refine preserves_from_bind ?_ (fun _ => ?_) | split
      | refine preserves_from_of_preserves ?_)

/-- Every predicate the basic blocks maintain is maintained by `parse_variable_decl_list`. -/
theorem preserves_parse_variable_decl_list (h : DeclBlockInvariant I H) (fuel : Nat) :
    preserves I H (parse_variable_decl_list fuel) := by
  induction fuel with
  | zero => rw [parse_variable_decl_list]; exact preserves_halt_out_of_fuel h.toStmtBlockInvariant.toExprBlockInvariant
  | succ fuel ih =>
    rw [parse_variable_decl_list]
    repeat (with_reducible first
      | exact preserves_pure _ | exact preserves_get_word
      | exact preserves_halt_out_of_fuel h.toStmtBlockInvariant.toExprBlockInvariant
      | exact h.advance | exact h.parse_error _ _ | exact h.undeclared_identifier _
      | exact h.type_error _ _ | exact h.type_error2 _ _ _ | exact h.new_operand_slot_null
      | exact h.end_of_scope _ | exact h.assign_memory _ _ | exact h.assign_immediate _ _
      | exact h.relop_codegen _ _ _ | exact h.addop_codegen _ _ _ | exact h.mulop_codegen _ _ _
      | exact h.sign_codegen _ _ | exact h.set_procedure_name _
      | exact h.reset_actual_parm_position | exact h.increment_actual_parm_position
      | exact h.emit _ | exact h.get_new_label _ | exact h.new_operand_slot_memory _
      | exact h.print_codegen _ | exact h.assignment_codegen _ _ | exact h.if_condition_codegen _
      | exact h.while_condition_codegen _ _ | exact h.multiply_defined_identifier _
      | exact h.reserve_program_label _ | exact h.stab_update_type _
      | exact h.set_parsing_formal_parm_list _
      | exact preserves_from_of_guard _ (by assumption) (h.stab_install _ _)
      | exact preserves_from_of_guard _ (by assumption) (h.stab_install_formal _) | exact ih
      | exact preserves_parse_variable_decl h _ | refine preserves_getp_bind (fun _ => ?_)
      | refine preserves_bind ?_ (fun _ => ?_) | refine preserves_ite ?_ ?_
      | refine preserves_from_bind ?_ (fun _ => ?_) | split
      | refine preserves_from_of_preserves ?_)

/-- Every predicate the basic blocks maintain is maintained by `parse_formal_parm_list` and `parse_formal_parm_list_hat`. -/
theorem preserves_formal_parm_productions (h : DeclBlockInvariant I H) (fuel : Nat) :
    preserves I H (parse_formal_parm_list fuel) ∧
    preserves I H (parse_formal_parm_list_hat fuel) := by
  induction fuel with
  | zero =>
    refine ⟨?_, ?_⟩
    · rw [parse_formal_parm_list]; exact preserves_halt_out_of_fuel h.toStmtBlockInvariant.toExprBlockInvariant
    · rw [parse_formal_parm_list_hat]; exact preserves_halt_out_of_fuel h.toStmtBlockInvariant.toExprBlockInvariant
  | succ fuel ih =>
    obtain ⟨ih0, ih1⟩ := ih
    refine ⟨?_, ?_⟩
    · rw [parse_formal_parm_list]
      repeat (with_reducible first
        | exact preserves_pure _ | exact preserves_get_word
        | exact preserves_halt_out_of_fuel h.toStmtBlockInvariant.toExprBlockInvariant
        | exact h.advance | exact h.parse_error _ _ | exact h.undeclared_identifier _
        | exact h.type_error _ _ | exact h.type_error2 _ _ _ | exact h.new_operand_slot_null
        | exact h.end_of_scope _ | exact h.assign_memory _ _ | exact h.assign_immediate _ _
        | exact h.relop_codegen _ _ _ | exact h.addop_codegen _ _ _ | exact h.mulop_codegen _ _ _
        | exact h.sign_codegen _ _ | exact h.set_procedure_name _
        | exact h.reset_actual_parm_position | exact h.increment_actual_parm_position
        | exact h.emit _ | exact h.get_new_label _ | exact h.new_operand_slot_memory _
        | exact h.print_codegen _ | exact h.assignment_codegen _ _
        | exact h.if_condition_codegen _ | exact h.while_condition_codegen _ _
        | exact h.multiply_defined_identifier _ | exact h.reserve_program_label _
        | exact h.stab_update_type _ | exact h.set_parsing_formal_parm_list _
        | exact preserves_from_of_guard _ (by assumption) (h.stab_install _ _)
        | exact preserves_from_of_guard _ (by assumption) (h.stab_install_formal _) | exact ih0
        | exact ih1 | exact preserves_parse_identifier_list_prm h _
        | exact preserves_parse_standard_type h.toStmtBlockInvariant.toExprBlockInvariant _
        | refine preserves_getp_bind (fun _ => ?_) | refine preserves_bind ?_ (fun _ => ?_)
        | refine preserves_ite ?_ ?_ | refine preserves_from_bind ?_ (fun _ => ?_) | split
        | refine preserves_from_of_preserves ?_)
    · rw [parse_formal_parm_list_hat]
      repeat (with_reducible first
        | exact preserves_pure _ | exact preserves_get_word
        | exact preserves_halt_out_of_fuel h.toStmtBlockInvariant.toExprBlockInvariant
        | exact h.advance | exact h.parse_error _ _ | exact h.undeclared_identifier _
        | exact h.type_error _ _ | exact h.type_error2 _ _ _ | exact h.new_operand_slot_null
        | exact h.end_of_scope _ | exact h.assign_memory _ _ | exact h.assign_immediate _ _
        | exact h.relop_codegen _ _ _ | exact h.addop_codegen _ _ _ | exact h.mulop_codegen _ _ _
        | exact h.sign_codegen _ _ | exact h.set_procedure_name _
        | exact h.reset_actual_parm_position | exact h.increment_actual_parm_position
        | exact h.emit _ | exact h.get_new_label _ | exact h.new_operand_slot_memory _
        | exact h.print_codegen _ | exact h.assignment_codegen _ _
        | exact h.if_condition_codegen _ | exact h.while_condition_codegen _ _
        | exact h.multiply_defined_identifier _ | exact h.reserve_program_label _
        | exact h.stab_update_type _ | exact h.set_parsing_formal_parm_list _
        | exact preserves_from_of_guard _ (by assumption) (h.stab_install _ _)
        | exact preserves_from_of_guard _ (by assumption) (h.stab_install_formal _) | exact ih0
        | exact ih1 | exact preserves_parse_identifier_list_prm h _
        | exact preserves_parse_standard_type h.toStmtBlockInvariant.toExprBlockInvariant _
        | refine preserves_getp_bind (fun _ => ?_) | refine preserves_bind ?_ (fun _ => ?_)
        | refine preserves_ite ?_ ?_ | refine preserves_from_bind ?_ (fun _ => ?_) | split
        | refine preserves_from_of_preserves ?_)

/-- Every predicate the basic blocks maintain is maintained by `parse_procedure_args`. -/
theorem preserves_parse_procedure_args (h : DeclBlockInvariant I H) (fuel : Nat)  :
    preserves I H (parse_procedure_args fuel) := by
  cases fuel with
  | zero => rw [parse_procedure_args]; exact preserves_halt_out_of_fuel h.toStmtBlockInvariant.toExprBlockInvariant
  | succ fuel =>
    rw [parse_procedure_args]
    repeat (with_reducible first
      | exact preserves_pure _ | exact preserves_get_word
      | exact preserves_halt_out_of_fuel h.toStmtBlockInvariant.toExprBlockInvariant
      | exact h.advance | exact h.parse_error _ _ | exact h.undeclared_identifier _
      | exact h.type_error _ _ | exact h.type_error2 _ _ _ | exact h.new_operand_slot_null
      | exact h.end_of_scope _ | exact h.assign_memory _ _ | exact h.assign_immediate _ _
      | exact h.relop_codegen _ _ _ | exact h.addop_codegen _ _ _ | exact h.mulop_codegen _ _ _
      | exact h.sign_codegen _ _ | exact h.set_procedure_name _
      | exact h.reset_actual_parm_position | exact h.increment_actual_parm_position
      | exact h.emit _ | exact h.get_new_label _ | exact h.new_operand_slot_memory _
      | exact h.print_codegen _ | exact h.assignment_codegen _ _ | exact h.if_condition_codegen _
      | exact h.while_condition_codegen _ _ | exact h.multiply_defined_identifier _
      | exact h.reserve_program_label _ | exact h.stab_update_type _
      | exact h.set_parsing_formal_parm_list _
      | exact preserves_from_of_guard _ (by assumption) (h.stab_install _ _)
      | exact preserves_from_of_guard _ (by assumption) (h.stab_install_formal _)
      | exact (preserves_formal_parm_productions h _).1
      | refine preserves_getp_bind (fun _ => ?_) | refine preserves_bind ?_ (fun _ => ?_)
      | refine preserves_ite ?_ ?_ | refine preserves_from_bind ?_ (fun _ => ?_) | split
      | refine preserves_from_of_preserves ?_)

/-- Every predicate the basic blocks maintain is maintained by `parse_sign`. -/
theorem preserves_parse_sign (h : ExprBlockInvariant I H) (t : expr_type) :
    preserves I H (parse_sign t) := by
  unfold parse_sign
  repeat (with_reducible first
    | exact preserves_pure _ | exact preserves_get_word | exact preserves_halt_out_of_fuel h
    | exact h.advance | exact h.parse_error _ _ | exact h.undeclared_identifier _
    | exact h.type_error _ _ | exact h.type_error2 _ _ _ | exact h.new_operand_slot_null
    | exact h.end_of_scope _ | exact h.assign_memory _ _ | exact h.assign_immediate _ _
    | exact h.relop_codegen _ _ _ | exact h.addop_codegen _ _ _ | exact h.mulop_codegen _ _ _
    | exact h.sign_codegen _ _ | refine preserves_getp_bind (fun _ => ?_)
    | refine preserves_bind ?_ (fun _ => ?_) | refine preserves_ite ?_ ?_
    | refine preserves_from_bind ?_ (fun _ => ?_) | split | refine preserves_from_of_preserves ?_)

/-- Every predicate the basic blocks maintain is maintained by `expr_semantics`. -/
theorem preserves_expr_semantics (h : ExprBlockInvariant I H) (a b c : expr_type) :
    preserves I H (expr_semantics a b c) := by
  unfold expr_semantics
  repeat (with_reducible first
    | exact preserves_pure _ | exact preserves_get_word | exact preserves_halt_out_of_fuel h
    | exact h.advance | exact h.parse_error _ _ | exact h.undeclared_identifier _
    | exact h.type_error _ _ | exact h.type_error2 _ _ _ | exact h.new_operand_slot_null
    | exact h.end_of_scope _ | exact h.assign_memory _ _ | exact h.assign_immediate _ _
    | exact h.relop_codegen _ _ _ | exact h.addop_codegen _ _ _ | exact h.mulop_codegen _ _ _
    | exact h.sign_codegen _ _ | refine preserves_getp_bind (fun _ => ?_)
    | refine preserves_bind ?_ (fun _ => ?_) | refine preserves_ite ?_ ?_
    | refine preserves_from_bind ?_ (fun _ => ?_) | split | refine preserves_from_of_preserves ?_)

/-- Every predicate the basic blocks maintain is maintained by `simple_expr_semantics`. -/
theorem preserves_simple_expr_semantics (h : ExprBlockInvariant I H) (a b c : expr_type) :
    preserves I H (simple_expr_semantics a b c) := by
  unfold simple_expr_semantics
  repeat (with_reducible first
    | exact preserves_pure _ | exact preserves_get_word | exact preserves_halt_out_of_fuel h
    | exact h.advance | exact h.parse_error _ _ | exact h.undeclared_identifier _
    | exact h.type_error _ _ | exact h.type_error2 _ _ _ | exact h.new_operand_slot_null
    | exact h.end_of_scope _ | exact h.assign_memory _ _ | exact h.assign_immediate _ _
    | exact h.relop_codegen _ _ _ | exact h.addop_codegen _ _ _ | exact h.mulop_codegen _ _ _
    | exact h.sign_codegen _ _ | refine preserves_getp_bind (fun _ => ?_)
    | refine preserves_bind ?_ (fun _ => ?_) | refine preserves_ite ?_ ?_
    | refine preserves_from_bind ?_ (fun _ => ?_) | split | refine preserves_from_of_preserves ?_)

/-- Every predicate the basic blocks maintain is maintained by `simple_expr_prm_semantics`. -/
theorem preserves_simple_expr_prm_semantics (h : ExprBlockInvariant I H) (a b c d : expr_type) :
    preserves I H (simple_expr_prm_semantics a b c d) := by
  unfold simple_expr_prm_semantics
  repeat (with_reducible first
    | exact preserves_pure _ | exact preserves_get_word | exact preserves_halt_out_of_fuel h
    | exact h.advance | exact h.parse_error _ _ | exact h.undeclared_identifier _
    | exact h.type_error _ _ | exact h.type_error2 _ _ _ | exact h.new_operand_slot_null
    | exact h.end_of_scope _ | exact h.assign_memory _ _ | exact h.assign_immediate _ _
    | exact h.relop_codegen _ _ _ | exact h.addop_codegen _ _ _ | exact h.mulop_codegen _ _ _
    | exact h.sign_codegen _ _ | refine preserves_getp_bind (fun _ => ?_)
    | refine preserves_bind ?_ (fun _ => ?_) | refine preserves_ite ?_ ?_
    | refine preserves_from_bind ?_ (fun _ => ?_) | split | refine preserves_from_of_preserves ?_)

/-- Every predicate the basic blocks maintain is maintained by `term_semantics`. -/
theorem preserves_term_semantics (h : ExprBlockInvariant I H) (a b c : expr_type) :
    preserves I H (term_semantics a b c) := by
  unfold term_semantics
  repeat (with_reducible first
    | exact preserves_pure _ | exact preserves_get_word | exact preserves_halt_out_of_fuel h
    | exact h.advance | exact h.parse_error _ _ | exact h.undeclared_identifier _
    | exact h.type_error _ _ | exact h.type_error2 _ _ _ | exact h.new_operand_slot_null
    | exact h.end_of_scope _ | exact h.assign_memory _ _ | exact h.assign_immediate _ _
    | exact h.relop_codegen _ _ _ | exact h.addop_codegen _ _ _ | exact h.mulop_codegen _ _ _
    | exact h.sign_codegen _ _ | refine preserves_getp_bind (fun _ => ?_)
    | refine preserves_bind ?_ (fun _ => ?_) | refine preserves_ite ?_ ?_
    | refine preserves_from_bind ?_ (fun _ => ?_) | split | refine preserves_from_of_preserves ?_)

/-- Every predicate the basic blocks maintain is maintained by `term_prm_semantics`. -/
theorem preserves_term_prm_semantics (h : ExprBlockInvariant I H) (a b c d : expr_type) :
    preserves I H (term_prm_semantics a b c d) := by
  unfold term_prm_semantics
  repeat (with_reducible first
    | exact preserves_pure _ | exact preserves_get_word | exact preserves_halt_out_of_fuel h
    | exact h.advance | exact h.parse_error _ _ | exact h.undeclared_identifier _
    | exact h.type_error _ _ | exact h.type_error2 _ _ _ | exact h.new_operand_slot_null
    | exact h.end_of_scope _ | exact h.assign_memory _ _ | exact h.assign_immediate _ _
    | exact h.relop_codegen _ _ _ | exact h.addop_codegen _ _ _ | exact h.mulop_codegen _ _ _
    | exact h.sign_codegen _ _ | refine preserves_getp_bind (fun _ => ?_)
    | refine preserves_bind ?_ (fun _ => ?_) | refine preserves_ite ?_ ?_
    | refine preserves_from_bind ?_ (fun _ => ?_) | split | refine preserves_from_of_preserves ?_)

/-- Every predicate the basic blocks maintain is maintained by the seven expression productions. -/
theorem preserves_expression_productions (h : ExprBlockInvariant I H) (fuel : Nat) :
    (∀ t op, preserves I H (parse_expr fuel t op)) ∧
    (∀ t op, preserves I H (parse_expr_hat fuel t op)) ∧
    (∀ t op, preserves I H (parse_simple_expr fuel t op)) ∧
    (∀ t op, preserves I H (parse_simple_expr_prm fuel t op)) ∧
    (∀ t op, preserves I H (parse_term fuel t op)) ∧
    (∀ t op, preserves I H (parse_term_prm fuel t op)) ∧
    (∀ t op, preserves I H (parse_factor fuel t op)) := by
  induction fuel with
  | zero =>
    refine ⟨?_, ?_, ?_, ?_, ?_, ?_, ?_⟩
    · intro t op; rw [parse_expr]; exact preserves_halt_out_of_fuel h
    · intro t op; rw [parse_expr_hat]; exact preserves_halt_out_of_fuel h
    · intro t op; rw [parse_simple_expr]; exact preserves_halt_out_of_fuel h
    · intro t op; rw [parse_simple_expr_prm]; exact preserves_halt_out_of_fuel h
    · intro t op; rw [parse_term]; exact preserves_halt_out_of_fuel h
    · intro t op; rw [parse_term_prm]; exact preserves_halt_out_of_fuel h
    · intro t op; rw [parse_factor]; exact preserves_halt_out_of_fuel h
  | succ fuel ih =>
    obtain ⟨ih0, ih1, ih2, ih3, ih4, ih5, ih6⟩ := ih
    refine ⟨?_, ?_, ?_, ?_, ?_, ?_, ?_⟩
    · intro t op; rw [parse_expr]
      repeat (with_reducible first
        | exact preserves_pure _ | exact preserves_get_word | exact preserves_halt_out_of_fuel h
        | exact h.advance | exact h.parse_error _ _ | exact h.undeclared_identifier _
        | exact h.type_error _ _ | exact h.type_error2 _ _ _ | exact h.new_operand_slot_null
        | exact h.end_of_scope _ | exact h.assign_memory _ _ | exact h.assign_immediate _ _
        | exact h.relop_codegen _ _ _ | exact h.addop_codegen _ _ _ | exact h.mulop_codegen _ _ _
        | exact h.sign_codegen _ _ | exact ih0 _ _ | exact ih1 _ _ | exact ih2 _ _
        | exact ih3 _ _ | exact ih4 _ _ | exact ih5 _ _ | exact ih6 _ _
        | exact preserves_parse_sign h _ | exact preserves_expr_semantics h _ _ _
        | exact preserves_simple_expr_semantics h _ _ _
        | exact preserves_simple_expr_prm_semantics h _ _ _ _
        | exact preserves_term_semantics h _ _ _ | exact preserves_term_prm_semantics h _ _ _ _
        | refine preserves_getp_bind (fun _ => ?_) | refine preserves_bind ?_ (fun _ => ?_)
        | refine preserves_ite ?_ ?_ | refine preserves_from_bind ?_ (fun _ => ?_) | split
        | refine preserves_from_of_preserves ?_)
    · intro t op; rw [parse_expr_hat]
      repeat (with_reducible first
        | exact preserves_pure _ | exact preserves_get_word | exact preserves_halt_out_of_fuel h
        | exact h.advance | exact h.parse_error _ _ | exact h.undeclared_identifier _
        | exact h.type_error _ _ | exact h.type_error2 _ _ _ | exact h.new_operand_slot_null
        | exact h.end_of_scope _ | exact h.assign_memory _ _ | exact h.assign_immediate _ _
        | exact h.relop_codegen _ _ _ | exact h.addop_codegen _ _ _ | exact h.mulop_codegen _ _ _
        | exact h.sign_codegen _ _ | exact ih0 _ _ | exact ih1 _ _ | exact ih2 _ _
        | exact ih3 _ _ | exact ih4 _ _ | exact ih5 _ _ | exact ih6 _ _
        | exact preserves_parse_sign h _ | exact preserves_expr_semantics h _ _ _
        | exact preserves_simple_expr_semantics h _ _ _
        | exact preserves_simple_expr_prm_semantics h _ _ _ _
        | exact preserves_term_semantics h _ _ _ | exact preserves_term_prm_semantics h _ _ _ _
        | refine preserves_getp_bind (fun _ => ?_) | refine preserves_bind ?_ (fun _ => ?_)
        | refine preserves_ite ?_ ?_ | refine preserves_from_bind ?_ (fun _ => ?_) | split
        | refine preserves_from_of_preserves ?_)
    · intro t op; rw [parse_simple_expr]
      repeat (with_reducible first
        | exact preserves_pure _ | exact preserves_get_word | exact preserves_halt_out_of_fuel h
        | exact h.advance | exact h.parse_error _ _ | exact h.undeclared_identifier _
        | exact h.type_error _ _ | exact h.type_error2 _ _ _ | exact h.new_operand_slot_null
        | exact h.end_of_scope _ | exact h.assign_memory _ _ | exact h.assign_immediate _ _
        | exact h.relop_codegen _ _ _ | exact h.addop_codegen _ _ _ | exact h.mulop_codegen _ _ _
        | exact h.sign_codegen _ _ | exact ih0 _ _ | exact ih1 _ _ | exact ih2 _ _
        | exact ih3 _ _ | exact ih4 _ _ | exact ih5 _ _ | exact ih6 _ _
        | exact preserves_parse_sign h _ | exact preserves_expr_semantics h _ _ _
        | exact preserves_simple_expr_semantics h _ _ _
        | exact preserves_simple_expr_prm_semantics h _ _ _ _
        | exact preserves_term_semantics h _ _ _ | exact preserves_term_prm_semantics h _ _ _ _
        | refine preserves_getp_bind (fun _ => ?_) | refine preserves_bind ?_ (fun _ => ?_)
        | refine preserves_ite ?_ ?_ | refine preserves_from_bind ?_ (fun _ => ?_) | split
        | refine preserves_from_of_preserves ?_)
    · intro t op; rw [parse_simple_expr_prm]
      repeat (with_reducible first
        | exact preserves_pure _ | exact preserves_get_word | exact preserves_halt_out_of_fuel h
        | exact h.advance | exact h.parse_error _ _ | exact h.undeclared_identifier _
        | exact h.type_error _ _ | exact h.type_error2 _ _ _ | exact h.new_operand_slot_null
        | exact h.end_of_scope _ | exact h.assign_memory _ _ | exact h.assign_immediate _ _
        | exact h.relop_codegen _ _ _ | exact h.addop_codegen _ _ _ | exact h.mulop_codegen _ _ _
        | exact h.sign_codegen _ _ | exact ih0 _ _ | exact ih1 _ _ | exact ih2 _ _
        | exact ih3 _ _ | exact ih4 _ _ | exact ih5 _ _ | exact ih6 _ _
        | exact preserves_parse_sign h _ | exact preserves_expr_semantics h _ _ _
        | exact preserves_simple_expr_semantics h _ _ _
        | exact preserves_simple_expr_prm_semantics h _ _ _ _
        | exact preserves_term_semantics h _ _ _ | exact preserves_term_prm_semantics h _ _ _ _
        | refine preserves_getp_bind (fun _ => ?_) | refine preserves_bind ?_ (fun _ => ?_)
        | refine preserves_ite ?_ ?_ | refine preserves_from_bind ?_ (fun _ => ?_) | split
        | refine preserves_from_of_preserves ?_)
    · intro t op; rw [parse_term]
      repeat (with_reducible first
        | exact preserves_pure _ | exact preserves_get_word | exact preserves_halt_out_of_fuel h
        | exact h.advance | exact h.parse_error _ _ | exact h.undeclared_identifier _
        | exact h.type_error _ _ | exact h.type_error2 _ _ _ | exact h.new_operand_slot_null
        | exact h.end_of_scope _ | exact h.assign_memory _ _ | exact h.assign_immediate _ _
        | exact h.relop_codegen _ _ _ | exact h.addop_codegen _ _ _ | exact h.mulop_codegen _ _ _
        | exact h.sign_codegen _ _ | exact ih0 _ _ | exact ih1 _ _ | exact ih2 _ _
        | exact ih3 _ _ | exact ih4 _ _ | exact ih5 _ _ | exact ih6 _ _
        | exact preserves_parse_sign h _ | exact preserves_expr_semantics h _ _ _
        | exact preserves_simple_expr_semantics h _ _ _
        | exact preserves_simple_expr_prm_semantics h _ _ _ _
        | exact preserves_term_semantics h _ _ _ | exact preserves_term_prm_semantics h _ _ _ _
        | refine preserves_getp_bind (fun _ => ?_) | refine preserves_bind ?_ (fun _ => ?_)
        | refine preserves_ite ?_ ?_ | refine preserves_from_bind ?_ (fun _ => ?_) | split
        | refine preserves_from_of_preserves ?_)
    · intro t op; rw [parse_term_prm]
      repeat (with_reducible first
        | exact preserves_pure _ | exact preserves_get_word | exact preserves_halt_out_of_fuel h
        | exact h.advance | exact h.parse_error _ _ | exact h.undeclared_identifier _
        | exact h.type_error _ _ | exact h.type_error2 _ _ _ | exact h.new_operand_slot_null
        | exact h.end_of_scope _ | exact h.assign_memory _ _ | exact h.assign_immediate _ _
        | exact h.relop_codegen _ _ _ | exact h.addop_codegen _ _ _ | exact h.mulop_codegen _ _ _
        | exact h.sign_codegen _ _ | exact ih0 _ _ | exact ih1 _ _ | exact ih2 _ _
        | exact ih3 _ _ | exact ih4 _ _ | exact ih5 _ _ | exact ih6 _ _
        | exact preserves_parse_sign h _ | exact preserves_expr_semantics h _ _ _
        | exact preserves_simple_expr_semantics h _ _ _
        | exact preserves_simple_expr_prm_semantics h _ _ _ _
        | exact preserves_term_semantics h _ _ _ | exact preserves_term_prm_semantics h _ _ _ _
        | refine preserves_getp_bind (fun _ => ?_) | refine preserves_bind ?_ (fun _ => ?_)
        | refine preserves_ite ?_ ?_ | refine preserves_from_bind ?_ (fun _ => ?_) | split
        | refine preserves_from_of_preserves ?_)
    · intro t op; rw [parse_factor]
      repeat (with_reducible first
        | exact preserves_pure _ | exact preserves_get_word | exact preserves_halt_out_of_fuel h
        | exact h.advance | exact h.parse_error _ _ | exact h.undeclared_identifier _
        | exact h.type_error _ _ | exact h.type_error2 _ _ _ | exact h.new_operand_slot_null
        | exact h.end_of_scope _ | exact h.assign_memory _ _ | exact h.assign_immediate _ _
        | exact h.relop_codegen _ _ _ | exact h.addop_codegen _ _ _ | exact h.mulop_codegen _ _ _
        | exact h.sign_codegen _ _ | exact ih0 _ _ | exact ih1 _ _ | exact ih2 _ _
        | exact ih3 _ _ | exact ih4 _ _ | exact ih5 _ _ | exact ih6 _ _
        | exact preserves_parse_sign h _ | exact preserves_expr_semantics h _ _ _
        | exact preserves_simple_expr_semantics h _ _ _
        | exact preserves_simple_expr_prm_semantics h _ _ _ _
        | exact preserves_term_semantics h _ _ _ | exact preserves_term_prm_semantics h _ _ _ _
        | refine preserves_getp_bind (fun _ => ?_) | refine preserves_bind ?_ (fun _ => ?_)
        | refine preserves_ite ?_ ?_ | refine preserves_from_bind ?_ (fun _ => ?_) | split
        | refine preserves_from_of_preserves ?_)

/-- Every predicate the basic blocks maintain is maintained by `parse_actual_parm_list` and `parse_actual_parm_list_hat`. -/
theorem preserves_actual_parm_productions (h : StmtBlockInvariant I H) (fuel : Nat) :
    preserves I H (parse_actual_parm_list fuel) ∧
    preserves I H (parse_actual_parm_list_hat fuel) := by
  induction fuel with
  | zero =>
    refine ⟨?_, ?_⟩
    · rw [parse_actual_parm_list]; exact preserves_halt_out_of_fuel h.toExprBlockInvariant
    · rw [parse_actual_parm_list_hat]; exact preserves_halt_out_of_fuel h.toExprBlockInvariant
  | succ fuel ih =>
    obtain ⟨ih0, ih1⟩ := ih
    refine ⟨?_, ?_⟩
    · rw [parse_actual_parm_list]
      repeat (with_reducible first
        | exact preserves_pure _ | exact preserves_get_word
        | exact preserves_halt_out_of_fuel h.toExprBlockInvariant | exact h.advance
        | exact h.parse_error _ _ | exact h.undeclared_identifier _ | exact h.type_error _ _
        | exact h.type_error2 _ _ _ | exact h.new_operand_slot_null | exact h.end_of_scope _
        | exact h.assign_memory _ _ | exact h.assign_immediate _ _ | exact h.relop_codegen _ _ _
        | exact h.addop_codegen _ _ _ | exact h.mulop_codegen _ _ _ | exact h.sign_codegen _ _
        | exact h.set_procedure_name _ | exact h.reset_actual_parm_position
        | exact h.increment_actual_parm_position | exact h.emit _ | exact h.get_new_label _
        | exact h.new_operand_slot_memory _ | exact h.print_codegen _
        | exact h.assignment_codegen _ _ | exact h.if_condition_codegen _
        | exact h.while_condition_codegen _ _ | exact ih0 | exact ih1
        | exact (preserves_expression_productions h.toExprBlockInvariant _).1 _ _
        | refine preserves_getp_bind (fun _ => ?_) | refine preserves_bind ?_ (fun _ => ?_)
        | refine preserves_ite ?_ ?_ | refine preserves_from_bind ?_ (fun _ => ?_) | split
        | refine preserves_from_of_preserves ?_)
    · rw [parse_actual_parm_list_hat]
      repeat (with_reducible first
        | exact preserves_pure _ | exact preserves_get_word
        | exact preserves_halt_out_of_fuel h.toExprBlockInvariant | exact h.advance
        | exact h.parse_error _ _ | exact h.undeclared_identifier _ | exact h.type_error _ _
        | exact h.type_error2 _ _ _ | exact h.new_operand_slot_null | exact h.end_of_scope _
        | exact h.assign_memory _ _ | exact h.assign_immediate _ _ | exact h.relop_codegen _ _ _
        | exact h.addop_codegen _ _ _ | exact h.mulop_codegen _ _ _ | exact h.sign_codegen _ _
        | exact h.set_procedure_name _ | exact h.reset_actual_parm_position
        | exact h.increment_actual_parm_position | exact h.emit _ | exact h.get_new_label _
        | exact h.new_operand_slot_memory _ | exact h.print_codegen _
        | exact h.assignment_codegen _ _ | exact h.if_condition_codegen _
        | exact h.while_condition_codegen _ _ | exact ih0 | exact ih1
        | exact (preserves_expression_productions h.toExprBlockInvariant _).1 _ _
        | refine preserves_getp_bind (fun _ => ?_) | refine preserves_bind ?_ (fun _ => ?_)
        | refine preserves_ite ?_ ?_ | refine preserves_from_bind ?_ (fun _ => ?_) | split
        | refine preserves_from_of_preserves ?_)

/-- Every predicate the basic blocks maintain is maintained by `parse_expr_list`. -/
theorem preserves_parse_expr_list (h : StmtBlockInvariant I H) (fuel : Nat)  :
    preserves I H (parse_expr_list fuel) := by
  cases fuel with
  | zero => rw [parse_expr_list]; exact preserves_halt_out_of_fuel h.toExprBlockInvariant
  | succ fuel =>
    rw [parse_expr_list]
    repeat (with_reducible first
      | exact preserves_pure _ | exact preserves_get_word
      | exact preserves_halt_out_of_fuel h.toExprBlockInvariant | exact h.advance
      | exact h.parse_error _ _ | exact h.undeclared_identifier _ | exact h.type_error _ _
      | exact h.type_error2 _ _ _ | exact h.new_operand_slot_null | exact h.end_of_scope _
      | exact h.assign_memory _ _ | exact h.assign_immediate _ _ | exact h.relop_codegen _ _ _
      | exact h.addop_codegen _ _ _ | exact h.mulop_codegen _ _ _ | exact h.sign_codegen _ _
      | exact h.set_procedure_name _ | exact h.reset_actual_parm_position
      | exact h.increment_actual_parm_position | exact h.emit _ | exact h.get_new_label _
      | exact h.new_operand_slot_memory _ | exact h.print_codegen _
      | exact h.assignment_codegen _ _ | exact h.if_condition_codegen _
      | exact h.while_condition_codegen _ _ | exact (preserves_actual_parm_productions h _).1
      | refine preserves_getp_bind (fun _ => ?_) | refine preserves_bind ?_ (fun _ => ?_)
      | refine preserves_ite ?_ ?_ | refine preserves_from_bind ?_ (fun _ => ?_) | split
      | refine preserves_from_of_preserves ?_)

/-- Every predicate the basic blocks maintain is maintained by `parse_adhoc_as_pc_tail`. -/
theorem preserves_parse_adhoc_as_pc_tail (h : StmtBlockInvariant I H) (fuel : Nat) (t : expr_type) (expression : Nat) :
    preserves I H (parse_adhoc_as_pc_tail fuel t expression) := by
  cases fuel with
  | zero => rw [parse_adhoc_as_pc_tail]; exact preserves_halt_out_of_fuel h.toExprBlockInvariant
  | succ fuel =>
    rw [parse_adhoc_as_pc_tail]
    repeat (with_reducible first
      | exact preserves_pure _ | exact preserves_get_word
      | exact preserves_halt_out_of_fuel h.toExprBlockInvariant | exact h.advance
      | exact h.parse_error _ _ | exact h.undeclared_identifier _ | exact h.type_error _ _
      | exact h.type_error2 _ _ _ | exact h.new_operand_slot_null | exact h.end_of_scope _
      | exact h.assign_memory _ _ | exact h.assign_immediate _ _ | exact h.relop_codegen _ _ _
      | exact h.addop_codegen _ _ _ | exact h.mulop_codegen _ _ _ | exact h.sign_codegen _ _
      | exact h.set_procedure_name _ | exact h.reset_actual_parm_position
      | exact h.increment_actual_parm_position | exact h.emit _ | exact h.get_new_label _
      | exact h.new_operand_slot_memory _ | exact h.print_codegen _
      | exact h.assignment_codegen _ _ | exact h.if_condition_codegen _
      | exact h.while_condition_codegen _ _
      | exact (preserves_expression_productions h.toExprBlockInvariant _).1 _ _
      | exact preserves_parse_expr_list h _ | refine preserves_getp_bind (fun _ => ?_)
      | refine preserves_bind ?_ (fun _ => ?_) | refine preserves_ite ?_ ?_
      | refine preserves_from_bind ?_ (fun _ => ?_) | split
      | refine preserves_from_of_preserves ?_)

/-- Every predicate the basic blocks maintain is maintained by `parse_print_stmt`. -/
theorem preserves_parse_print_stmt (h : StmtBlockInvariant I H) (fuel : Nat)  :
    preserves I H (parse_print_stmt fuel) := by
  cases fuel with
  | zero => rw [parse_print_stmt]; exact preserves_halt_out_of_fuel h.toExprBlockInvariant
  | succ fuel =>
    rw [parse_print_stmt]
    repeat (with_reducible first
      | exact preserves_pure _ | exact preserves_get_word
      | exact preserves_halt_out_of_fuel h.toExprBlockInvariant | exact h.advance
      | exact h.parse_error _ _ | exact h.undeclared_identifier _ | exact h.type_error _ _
      | exact h.type_error2 _ _ _ | exact h.new_operand_slot_null | exact h.end_of_scope _
      | exact h.assign_memory _ _ | exact h.assign_immediate _ _ | exact h.relop_codegen _ _ _
      | exact h.addop_codegen _ _ _ | exact h.mulop_codegen _ _ _ | exact h.sign_codegen _ _
      | exact h.set_procedure_name _ | exact h.reset_actual_parm_position
      | exact h.increment_actual_parm_position | exact h.emit _ | exact h.get_new_label _
      | exact h.new_operand_slot_memory _ | exact h.print_codegen _
      | exact h.assignment_codegen _ _ | exact h.if_condition_codegen _
      | exact h.while_condition_codegen _ _
      | exact (preserves_expression_productions h.toExprBlockInvariant _).1 _ _
      | refine preserves_getp_bind (fun _ => ?_) | refine preserves_bind ?_ (fun _ => ?_)
      | refine preserves_ite ?_ ?_ | refine preserves_from_bind ?_ (fun _ => ?_) | split
      | refine preserves_from_of_preserves ?_)

/-- Every predicate the basic blocks maintain is maintained by `parse_stmt_identifier`. -/
theorem preserves_parse_stmt_identifier (h : StmtBlockInvariant I H) (fuel : Nat) (id : String) :
    preserves I H (parse_stmt_identifier fuel id) := by
  unfold parse_stmt_identifier
  repeat (with_reducible first
    | exact preserves_pure _ | exact preserves_get_word
    | exact preserves_halt_out_of_fuel h.toExprBlockInvariant | exact h.advance
    | exact h.parse_error _ _ | exact h.undeclared_identifier _ | exact h.type_error _ _
    | exact h.type_error2 _ _ _ | exact h.new_operand_slot_null | exact h.end_of_scope _
    | exact h.assign_memory _ _ | exact h.assign_immediate _ _ | exact h.relop_codegen _ _ _
    | exact h.addop_codegen _ _ _ | exact h.mulop_codegen _ _ _ | exact h.sign_codegen _ _
    | exact h.set_procedure_name _ | exact h.reset_actual_parm_position
    | exact h.increment_actual_parm_position | exact h.emit _ | exact h.get_new_label _
    | exact h.new_operand_slot_memory _ | exact h.print_codegen _
    | exact h.assignment_codegen _ _ | exact h.if_condition_codegen _
    | exact h.while_condition_codegen _ _ | exact preserves_parse_adhoc_as_pc_tail h _ _ _
    | refine preserves_getp_bind (fun _ => ?_) | refine preserves_bind ?_ (fun _ => ?_)
    | refine preserves_ite ?_ ?_ | refine preserves_from_bind ?_ (fun _ => ?_) | split
    | refine preserves_from_of_preserves ?_)

/-- Every predicate the basic blocks maintain is maintained by `if_stmt_tail`
when the two productions it calls maintain it. -/
theorem preserves_if_stmt_tail (h : StmtBlockInvariant I H) {block if_stmt_hat : M Bool}
    (hb : preserves I H block) (hh : preserves I H if_stmt_hat) (expression : Nat) :
    preserves I H (if_stmt_tail block if_stmt_hat expression) := by
  unfold if_stmt_tail
  repeat (with_reducible first
    | exact preserves_pure _ | exact preserves_get_word
    | exact preserves_halt_out_of_fuel h.toExprBlockInvariant | exact h.advance
    | exact h.parse_error _ _ | exact h.undeclared_identifier _ | exact h.type_error _ _
    | exact h.type_error2 _ _ _ | exact h.new_operand_slot_null | exact h.end_of_scope _
    | exact h.assign_memory _ _ | exact h.assign_immediate _ _ | exact h.relop_codegen _ _ _
    | exact h.addop_codegen _ _ _ | exact h.mulop_codegen _ _ _ | exact h.sign_codegen _ _
    | exact h.set_procedure_name _ | exact h.reset_actual_parm_position
    | exact h.increment_actual_parm_position | exact h.emit _ | exact h.get_new_label _
    | exact h.new_operand_slot_memory _ | exact h.print_codegen _
    | exact h.assignment_codegen _ _ | exact h.if_condition_codegen _
    | exact h.while_condition_codegen _ _ | exact hb | exact hh
    | refine preserves_getp_bind (fun _ => ?_) | refine preserves_bind ?_ (fun _ => ?_)
    | refine preserves_ite ?_ ?_ | refine preserves_from_bind ?_ (fun _ => ?_) | split
    | refine preserves_from_of_preserves ?_)

/-- Every predicate the basic blocks maintain is maintained by
`while_stmt_tail` when the production it calls maintains it. -/
theorem preserves_while_stmt_tail (h : StmtBlockInvariant I H) {block : M Bool}
    (hb : preserves I H block) (while_cond while_done : String) (expression : Nat) :
    preserves I H (while_stmt_tail block while_cond while_done expression) := by
  unfold while_stmt_tail
  repeat (with_reducible first
    | exact preserves_pure _ | exact preserves_get_word
    | exact preserves_halt_out_of_fuel h.toExprBlockInvariant | exact h.advance
    | exact h.parse_error _ _ | exact h.undeclared_identifier _ | exact h.type_error _ _
    | exact h.type_error2 _ _ _ | exact h.new_operand_slot_null | exact h.end_of_scope _
    | exact h.assign_memory _ _ | exact h.assign_immediate _ _ | exact h.relop_codegen _ _ _
    | exact h.addop_codegen _ _ _ | exact h.mulop_codegen _ _ _ | exact h.sign_codegen _ _
    | exact h.set_procedure_name _ | exact h.reset_actual_parm_position
    | exact h.increment_actual_parm_position | exact h.emit _ | exact h.get_new_label _
    | exact h.new_operand_slot_memory _ | exact h.print_codegen _
    | exact h.assignment_codegen _ _ | exact h.if_condition_codegen _
    | exact h.while_condition_codegen _ _ | exact hb | refine preserves_getp_bind (fun _ => ?_)
    | refine preserves_bind ?_ (fun _ => ?_) | refine preserves_ite ?_ ?_
    | refine preserves_from_bind ?_ (fun _ => ?_) | split | refine preserves_from_of_preserves ?_)

/-- Every predicate the basic blocks maintain is maintained by the seven statement productions. -/
theorem preserves_statement_productions (h : StmtBlockInvariant I H) (fuel : Nat) :
    preserves I H (parse_block fuel) ∧
    preserves I H (parse_stmt_list fuel) ∧
    preserves I H (parse_stmt_list_prm fuel) ∧
    preserves I H (parse_stmt fuel) ∧
    preserves I H (parse_if_stmt fuel) ∧
    preserves I H (parse_if_stmt_hat fuel) ∧
    preserves I H (parse_while_stmt fuel) := by
  induction fuel with
  | zero =>
    refine ⟨?_, ?_, ?_, ?_, ?_, ?_, ?_⟩
    · rw [parse_block]; exact preserves_halt_out_of_fuel h.toExprBlockInvariant
    · rw [parse_stmt_list]; exact preserves_halt_out_of_fuel h.toExprBlockInvariant
    · rw [parse_stmt_list_prm]; exact preserves_halt_out_of_fuel h.toExprBlockInvariant
    · rw [parse_stmt]; exact preserves_halt_out_of_fuel h.toExprBlockInvariant
    · rw [parse_if_stmt]; exact preserves_halt_out_of_fuel h.toExprBlockInvariant
    · rw [parse_if_stmt_hat]; exact preserves_halt_out_of_fuel h.toExprBlockInvariant
    · rw [parse_while_stmt]; exact preserves_halt_out_of_fuel h.toExprBlockInvariant
  | succ fuel ih =>
    obtain ⟨ih0, ih1, ih2, ih3, ih4, ih5, ih6⟩ := ih
    refine ⟨?_, ?_, ?_, ?_, ?_, ?_, ?_⟩
    · rw [parse_block]
      repeat (with_reducible first
        | exact preserves_pure _ | exact preserves_get_word
        | exact preserves_halt_out_of_fuel h.toExprBlockInvariant | exact h.advance
        | exact h.parse_error _ _ | exact h.undeclared_identifier _ | exact h.type_error _ _
        | exact h.type_error2 _ _ _ | exact h.new_operand_slot_null | exact h.end_of_scope _
        | exact h.assign_memory _ _ | exact h.assign_immediate _ _ | exact h.relop_codegen _ _ _
        | exact h.addop_codegen _ _ _ | exact h.mulop_codegen _ _ _ | exact h.sign_codegen _ _
        | exact h.set_procedure_name _ | exact h.reset_actual_parm_position
        | exact h.increment_actual_parm_position | exact h.emit _ | exact h.get_new_label _
        | exact h.new_operand_slot_memory _ | exact h.print_codegen _
        | exact h.assignment_codegen _ _ | exact h.if_condition_codegen _
        | exact h.while_condition_codegen _ _ | exact ih0 | exact ih1 | exact ih2 | exact ih3
        | exact ih4 | exact ih5 | exact ih6
        | exact (preserves_expression_productions h.toExprBlockInvariant _).1 _ _
        | exact preserves_parse_stmt_identifier h _ _ | exact preserves_parse_print_stmt h _
        | refine preserves_if_stmt_tail h ?_ ?_ _ | refine preserves_while_stmt_tail h ?_ _ _ _
        | refine preserves_getp_bind (fun _ => ?_) | refine preserves_bind ?_ (fun _ => ?_)
        | refine preserves_ite ?_ ?_ | refine preserves_from_bind ?_ (fun _ => ?_) | split
        | refine preserves_from_of_preserves ?_)
    · rw [parse_stmt_list]
      repeat (with_reducible first
        | exact preserves_pure _ | exact preserves_get_word
        | exact preserves_halt_out_of_fuel h.toExprBlockInvariant | exact h.advance
        | exact h.parse_error _ _ | exact h.undeclared_identifier _ | exact h.type_error _ _
        | exact h.type_error2 _ _ _ | exact h.new_operand_slot_null | exact h.end_of_scope _
        | exact h.assign_memory _ _ | exact h.assign_immediate _ _ | exact h.relop_codegen _ _ _
        | exact h.addop_codegen _ _ _ | exact h.mulop_codegen _ _ _ | exact h.sign_codegen _ _
        | exact h.set_procedure_name _ | exact h.reset_actual_parm_position
        | exact h.increment_actual_parm_position | exact h.emit _ | exact h.get_new_label _
        | exact h.new_operand_slot_memory _ | exact h.print_codegen _
        | exact h.assignment_codegen _ _ | exact h.if_condition_codegen _
        | exact h.while_condition_codegen _ _ | exact ih0 | exact ih1 | exact ih2 | exact ih3
        | exact ih4 | exact ih5 | exact ih6
        | exact (preserves_expression_productions h.toExprBlockInvariant _).1 _ _
        | exact preserves_parse_stmt_identifier h _ _ | exact preserves_parse_print_stmt h _
        | refine preserves_if_stmt_tail h ?_ ?_ _ | refine preserves_while_stmt_tail h ?_ _ _ _
        | refine preserves_getp_bind (fun _ => ?_) | refine preserves_bind ?_ (fun _ => ?_)
        | refine preserves_ite ?_ ?_ | refine preserves_from_bind ?_ (fun _ => ?_) | split
        | refine preserves_from_of_preserves ?_)
    · rw [parse_stmt_list_prm]
      repeat (with_reducible first
        | exact preserves_pure _ | exact preserves_get_word
        | exact preserves_halt_out_of_fuel h.toExprBlockInvariant | exact h.advance
        | exact h.parse_error _ _ | exact h.undeclared_identifier _ | exact h.type_error _ _
        | exact h.type_error2 _ _ _ | exact h.new_operand_slot_null | exact h.end_of_scope _
        | exact h.assign_memory _ _ | exact h.assign_immediate _ _ | exact h.relop_codegen _ _ _
        | exact h.addop_codegen _ _ _ | exact h.mulop_codegen _ _ _ | exact h.sign_codegen _ _
        | exact h.set_procedure_name _ | exact h.reset_actual_parm_position
        | exact h.increment_actual_parm_position | exact h.emit _ | exact h.get_new_label _
        | exact h.new_operand_slot_memory _ | exact h.print_codegen _
        | exact h.assignment_codegen _ _ | exact h.if_condition_codegen _
        | exact h.while_condition_codegen _ _ | exact ih0 | exact ih1 | exact ih2 | exact ih3
        | exact ih4 | exact ih5 | exact ih6
        | exact (preserves_expression_productions h.toExprBlockInvariant _).1 _ _
        | exact preserves_parse_stmt_identifier h _ _ | exact preserves_parse_print_stmt h _
        | refine preserves_if_stmt_tail h ?_ ?_ _ | refine preserves_while_stmt_tail h ?_ _ _ _
        | refine preserves_getp_bind (fun _ => ?_) | refine preserves_bind ?_ (fun _ => ?_)
        | refine preserves_ite ?_ ?_ | refine preserves_from_bind ?_ (fun _ => ?_) | split
        | refine preserves_from_of_preserves ?_)
    · rw [parse_stmt]
      repeat (with_reducible first
        | exact preserves_pure _ | exact preserves_get_word
        | exact preserves_halt_out_of_fuel h.toExprBlockInvariant | exact h.advance
        | exact h.parse_error _ _ | exact h.undeclared_identifier _ | exact h.type_error _ _
        | exact h.type_error2 _ _ _ | exact h.new_operand_slot_null | exact h.end_of_scope _
        | exact h.assign_memory _ _ | exact h.assign_immediate _ _ | exact h.relop_codegen _ _ _
        | exact h.addop_codegen _ _ _ | exact h.mulop_codegen _ _ _ | exact h.sign_codegen _ _
        | exact h.set_procedure_name _ | exact h.reset_actual_parm_position
        | exact h.increment_actual_parm_position | exact h.emit _ | exact h.get_new_label _
        | exact h.new_operand_slot_memory _ | exact h.print_codegen _
        | exact h.assignment_codegen _ _ | exact h.if_condition_codegen _
        | exact h.while_condition_codegen _ _ | exact ih0 | exact ih1 | exact ih2 | exact ih3
        | exact ih4 | exact ih5 | exact ih6
        | exact (preserves_expression_productions h.toExprBlockInvariant _).1 _ _
        | exact preserves_parse_stmt_identifier h _ _ | exact preserves_parse_print_stmt h _
        | refine preserves_if_stmt_tail h ?_ ?_ _ | refine preserves_while_stmt_tail h ?_ _ _ _
        | refine preserves_getp_bind (fun _ => ?_) | refine preserves_bind ?_ (fun _ => ?_)
        | refine preserves_ite ?_ ?_ | refine preserves_from_bind ?_ (fun _ => ?_) | split
        | refine preserves_from_of_preserves ?_)
    · rw [parse_if_stmt]
      repeat (with_reducible first
        | exact preserves_pure _ | exact preserves_get_word
        | exact preserves_halt_out_of_fuel h.toExprBlockInvariant | exact h.advance
        | exact h.parse_error _ _ | exact h.undeclared_identifier _ | exact h.type_error _ _
        | exact h.type_error2 _ _ _ | exact h.new_operand_slot_null | exact h.end_of_scope _
        | exact h.assign_memory _ _ | exact h.assign_immediate _ _ | exact h.relop_codegen _ _ _
        | exact h.addop_codegen _ _ _ | exact h.mulop_codegen _ _ _ | exact h.sign_codegen _ _
        | exact h.set_procedure_name _ | exact h.reset_actual_parm_position
        | exact h.increment_actual_parm_position | exact h.emit _ | exact h.get_new_label _
        | exact h.new_operand_slot_memory _ | exact h.print_codegen _
        | exact h.assignment_codegen _ _ | exact h.if_condition_codegen _
        | exact h.while_condition_codegen _ _ | exact ih0 | exact ih1 | exact ih2 | exact ih3
        | exact ih4 | exact ih5 | exact ih6
        | exact (preserves_expression_productions h.toExprBlockInvariant _).1 _ _
        | exact preserves_parse_stmt_identifier h _ _ | exact preserves_parse_print_stmt h _
        | refine preserves_if_stmt_tail h ?_ ?_ _ | refine preserves_while_stmt_tail h ?_ _ _ _
        | refine preserves_getp_bind (fun _ => ?_) | refine preserves_bind ?_ (fun _ => ?_)
        | refine preserves_ite ?_ ?_ | refine preserves_from_bind ?_ (fun _ => ?_) | split
        | refine preserves_from_of_preserves ?_)
    · rw [parse_if_stmt_hat]
      repeat (with_reducible first
        | exact preserves_pure _ | exact preserves_get_word
        | exact preserves_halt_out_of_fuel h.toExprBlockInvariant | exact h.advance
        | exact h.parse_error _ _ | exact h.undeclared_identifier _ | exact h.type_error _ _
        | exact h.type_error2 _ _ _ | exact h.new_operand_slot_null | exact h.end_of_scope _
        | exact h.assign_memory _ _ | exact h.assign_immediate _ _ | exact h.relop_codegen _ _ _
        | exact h.addop_codegen _ _ _ | exact h.mulop_codegen _ _ _ | exact h.sign_codegen _ _
        | exact h.set_procedure_name _ | exact h.reset_actual_parm_position
        | exact h.increment_actual_parm_position | exact h.emit _ | exact h.get_new_label _
        | exact h.new_operand_slot_memory _ | exact h.print_codegen _
        | exact h.assignment_codegen _ _ | exact h.if_condition_codegen _
        | exact h.while_condition_codegen _ _ | exact ih0 | exact ih1 | exact ih2 | exact ih3
        | exact ih4 | exact ih5 | exact ih6
        | exact (preserves_expression_productions h.toExprBlockInvariant _).1 _ _
        | exact preserves_parse_stmt_identifier h _ _ | exact preserves_parse_print_stmt h _
        | refine preserves_if_stmt_tail h ?_ ?_ _ | refine preserves_while_stmt_tail h ?_ _ _ _
        | refine preserves_getp_bind (fun _ => ?_) | refine preserves_bind ?_ (fun _ => ?_)
        | refine preserves_ite ?_ ?_ | refine preserves_from_bind ?_ (fun _ => ?_) | split
        | refine preserves_from_of_preserves ?_)
    · rw [parse_while_stmt]
      repeat (with_reducible first
        | exact preserves_pure _ | exact preserves_get_word
        | exact preserves_halt_out_of_fuel h.toExprBlockInvariant | exact h.advance
        | exact h.parse_error _ _ | exact h.undeclared_identifier _ | exact h.type_error _ _
        | exact h.type_error2 _ _ _ | exact h.new_operand_slot_null | exact h.end_of_scope _
        | exact h.assign_memory _ _ | exact h.assign_immediate _ _ | exact h.relop_codegen _ _ _
        | exact h.addop_codegen _ _ _ | exact h.mulop_codegen _ _ _ | exact h.sign_codegen _ _
        | exact h.set_procedure_name _ | exact h.reset_actual_parm_position
        | exact h.increment_actual_parm_position | exact h.emit _ | exact h.get_new_label _
        | exact h.new_operand_slot_memory _ | exact h.print_codegen _
        | exact h.assignment_codegen _ _ | exact h.if_condition_codegen _
        | exact h.while_condition_codegen _ _ | exact ih0 | exact ih1 | exact ih2 | exact ih3
        | exact ih4 | exact ih5 | exact ih6
        | exact (preserves_expression_productions h.toExprBlockInvariant _).1 _ _
        | exact preserves_parse_stmt_identifier h _ _ | exact preserves_parse_print_stmt h _
        | refine preserves_if_stmt_tail h ?_ ?_ _ | refine preserves_while_stmt_tail h ?_ _ _ _
        | refine preserves_getp_bind (fun _ => ?_) | refine preserves_bind ?_ (fun _ => ?_)
        | refine preserves_ite ?_ ?_ | refine preserves_from_bind ?_ (fun _ => ?_) | split
        | refine preserves_from_of_preserves ?_)

/-- Every predicate the basic blocks maintain is maintained by `parse_procedure_decl`. -/
theorem preserves_parse_procedure_decl (h : ProcBlockInvariant I H) (fuel : Nat)  :
    preserves I H (parse_procedure_decl fuel) := by
  cases fuel with
  | zero => rw [parse_procedure_decl]; exact preserves_halt_out_of_fuel h.toDeclBlockInvariant.toStmtBlockInvariant.toExprBlockInvariant
  | succ fuel =>
    rw [parse_procedure_decl]
    repeat (with_reducible first
      | exact preserves_pure _ | exact preserves_get_word
      | exact preserves_halt_out_of_fuel h.toDeclBlockInvariant.toStmtBlockInvariant.toExprBlockInvariant
      | exact h.advance | exact h.parse_error _ _ | exact h.undeclared_identifier _
      | exact h.type_error _ _ | exact h.type_error2 _ _ _ | exact h.new_operand_slot_null
      | exact h.end_of_scope _ | exact h.assign_memory _ _ | exact h.assign_immediate _ _
      | exact h.relop_codegen _ _ _ | exact h.addop_codegen _ _ _ | exact h.mulop_codegen _ _ _
      | exact h.sign_codegen _ _ | exact h.set_procedure_name _
      | exact h.reset_actual_parm_position | exact h.increment_actual_parm_position
      | exact h.emit _ | exact h.get_new_label _ | exact h.new_operand_slot_memory _
      | exact h.print_codegen _ | exact h.assignment_codegen _ _ | exact h.if_condition_codegen _
      | exact h.while_condition_codegen _ _ | exact h.multiply_defined_identifier _
      | exact h.reserve_program_label _ | exact h.stab_update_type _
      | exact h.set_parsing_formal_parm_list _ | exact h.leave_procedure
      | exact preserves_from_of_guard _ (by assumption) (h.stab_install _ _)
      | exact preserves_from_of_guard _ (by assumption) (h.stab_install_formal _)
      | exact preserves_from_of_guard _ (by assumption) (h.enter_procedure _)
      | exact preserves_parse_procedure_args h.toDeclBlockInvariant _
      | exact preserves_parse_variable_decl_list h.toDeclBlockInvariant _
      | exact (preserves_statement_productions h.toDeclBlockInvariant.toStmtBlockInvariant _).1
      | refine preserves_getp_bind (fun _ => ?_) | refine preserves_bind ?_ (fun _ => ?_)
      | refine preserves_ite ?_ ?_ | refine preserves_from_bind ?_ (fun _ => ?_) | split
      | refine preserves_from_of_preserves ?_)

/-- Every predicate the basic blocks maintain is maintained by `parse_procedure_decl_list`. -/
theorem preserves_parse_procedure_decl_list (h : ProcBlockInvariant I H) (fuel : Nat) :
    preserves I H (parse_procedure_decl_list fuel) := by
  induction fuel with
  | zero => rw [parse_procedure_decl_list]; exact preserves_halt_out_of_fuel h.toDeclBlockInvariant.toStmtBlockInvariant.toExprBlockInvariant
  | succ fuel ih =>
    rw [parse_procedure_decl_list]
    repeat (with_reducible first
      | exact preserves_pure _ | exact preserves_get_word
      | exact preserves_halt_out_of_fuel h.toDeclBlockInvariant.toStmtBlockInvariant.toExprBlockInvariant
      | exact h.advance | exact h.parse_error _ _ | exact h.undeclared_identifier _
      | exact h.type_error _ _ | exact h.type_error2 _ _ _ | exact h.new_operand_slot_null
      | exact h.end_of_scope _ | exact h.assign_memory _ _ | exact h.assign_immediate _ _
      | exact h.relop_codegen _ _ _ | exact h.addop_codegen _ _ _ | exact h.mulop_codegen _ _ _
      | exact h.sign_codegen _ _ | exact h.set_procedure_name _
      | exact h.reset_actual_parm_position | exact h.increment_actual_parm_position
      | exact h.emit _ | exact h.get_new_label _ | exact h.new_operand_slot_memory _
      | exact h.print_codegen _ | exact h.assignment_codegen _ _ | exact h.if_condition_codegen _
      | exact h.while_condition_codegen _ _ | exact h.multiply_defined_identifier _
      | exact h.reserve_program_label _ | exact h.stab_update_type _
      | exact h.set_parsing_formal_parm_list _ | exact h.leave_procedure
      | exact preserves_from_of_guard _ (by assumption) (h.stab_install _ _)
      | exact preserves_from_of_guard _ (by assumption) (h.stab_install_formal _)
      | exact preserves_from_of_guard _ (by assumption) (h.enter_procedure _) | exact ih
      | exact preserves_parse_procedure_decl h _ | refine preserves_getp_bind (fun _ => ?_)
      | refine preserves_bind ?_ (fun _ => ?_) | refine preserves_ite ?_ ?_
      | refine preserves_from_bind ?_ (fun _ => ?_) | split
      | refine preserves_from_of_preserves ?_)

/-- Every predicate the basic blocks maintain is maintained by `parse_decl_list`. -/
theorem preserves_parse_decl_list (h : ProcBlockInvariant I H) (fuel : Nat)  :
    preserves I H (parse_decl_list fuel) := by
  cases fuel with
  | zero => rw [parse_decl_list]; exact preserves_halt_out_of_fuel h.toDeclBlockInvariant.toStmtBlockInvariant.toExprBlockInvariant
  | succ fuel =>
    rw [parse_decl_list]
    repeat (with_reducible first
      | exact preserves_pure _ | exact preserves_get_word
      | exact preserves_halt_out_of_fuel h.toDeclBlockInvariant.toStmtBlockInvariant.toExprBlockInvariant
      | exact h.advance | exact h.parse_error _ _ | exact h.undeclared_identifier _
      | exact h.type_error _ _ | exact h.type_error2 _ _ _ | exact h.new_operand_slot_null
      | exact h.end_of_scope _ | exact h.assign_memory _ _ | exact h.assign_immediate _ _
      | exact h.relop_codegen _ _ _ | exact h.addop_codegen _ _ _ | exact h.mulop_codegen _ _ _
      | exact h.sign_codegen _ _ | exact h.set_procedure_name _
      | exact h.reset_actual_parm_position | exact h.increment_actual_parm_position
      | exact h.emit _ | exact h.get_new_label _ | exact h.new_operand_slot_memory _
      | exact h.print_codegen _ | exact h.assignment_codegen _ _ | exact h.if_condition_codegen _
      | exact h.while_condition_codegen _ _ | exact h.multiply_defined_identifier _
      | exact h.reserve_program_label _ | exact h.stab_update_type _
      | exact h.set_parsing_formal_parm_list _ | exact h.leave_procedure
      | exact preserves_from_of_guard _ (by assumption) (h.stab_install _ _)
      | exact preserves_from_of_guard _ (by assumption) (h.stab_install_formal _)
      | exact preserves_from_of_guard _ (by assumption) (h.enter_procedure _)
      | exact preserves_parse_variable_decl_list h.toDeclBlockInvariant _
      | exact preserves_parse_procedure_decl_list h _ | refine preserves_getp_bind (fun _ => ?_)
      | refine preserves_bind ?_ (fun _ => ?_) | refine preserves_ite ?_ ?_
      | refine preserves_from_bind ?_ (fun _ => ?_) | split
      | refine preserves_from_of_preserves ?_)

/-- Every predicate the basic blocks maintain is maintained by `parse_program`. -/
theorem preserves_parse_program (h : BlockInvariant I H) (fuel : Nat)  :
    preserves I H (parse_program fuel) := by
  cases fuel with
  | zero => rw [parse_program]; exact preserves_halt_out_of_fuel h.toProcBlockInvariant.toDeclBlockInvariant.toStmtBlockInvariant.toExprBlockInvariant
  | succ fuel =>
    rw [parse_program]
    repeat (with_reducible first
      | exact preserves_pure _ | exact preserves_get_word
      | exact preserves_halt_out_of_fuel h.toProcBlockInvariant.toDeclBlockInvariant.toStmtBlockInvariant.toExprBlockInvariant
      | exact h.advance | exact h.parse_error _ _ | exact h.undeclared_identifier _
      | exact h.type_error _ _ | exact h.type_error2 _ _ _ | exact h.new_operand_slot_null
      | exact h.end_of_scope _ | exact h.assign_memory _ _ | exact h.assign_immediate _ _
      | exact h.relop_codegen _ _ _ | exact h.addop_codegen _ _ _ | exact h.mulop_codegen _ _ _
      | exact h.sign_codegen _ _ | exact h.set_procedure_name _
      | exact h.reset_actual_parm_position | exact h.increment_actual_parm_position
      | exact h.emit _ | exact h.get_new_label _ | exact h.new_operand_slot_memory _
      | exact h.print_codegen _ | exact h.assignment_codegen _ _ | exact h.if_condition_codegen _
      | exact h.while_condition_codegen _ _ | exact h.multiply_defined_identifier _
      | exact h.reserve_program_label _ | exact h.stab_update_type _
      | exact h.set_parsing_formal_parm_list _ | exact h.leave_procedure
      | exact h.enter_program _ | exact h.emit_epilogue
      | exact preserves_from_of_guard _ (by assumption) (h.stab_install _ _)
      | exact preserves_from_of_guard _ (by assumption) (h.stab_install_formal _)
      | exact preserves_from_of_guard _ (by assumption) (h.enter_procedure _)
      | exact preserves_parse_decl_list h.toProcBlockInvariant _
      | exact (preserves_statement_productions h.toProcBlockInvariant.toDeclBlockInvariant.toStmtBlockInvariant _).1
      | refine preserves_getp_bind (fun _ => ?_) | refine preserves_bind ?_ (fun _ => ?_)
      | refine preserves_ite ?_ ?_ | refine preserves_from_bind ?_ (fun _ => ?_) | split
      | refine preserves_from_of_preserves ?_)

end

/-! ### Register ownership is consistent throughout a run -/

section
variable {H : Halt → Parser → Prop}

theorem triple_bind {α β : Type} {P : Parser → Prop} {Q : α → Parser → Prop}
    {R : β → Parser → Prop} {x : M α} {f : α → M β}
    (hx : triple H P x Q) (hf : ∀ a, triple H (Q a) (f a) R) : triple H P (x >>= f) R := by
  intro p hp
  have h1 := hx p hp
  rw [bind_apply]
  cases hxp : x p with
  | ok a p1 =>
    rw [hxp] at h1
    exact hf a p1 h1
  | halt h p1 =>
    rw [hxp] at h1
    exact h1

theorem triple_pure {α : Type} {P : Parser → Prop} {Q : α → Parser → Prop} (a : α)
    (h : ∀ p, P p → Q a p) : triple H P (pure a : M α) Q := by
  intro p hp; exact h p hp

theorem triple_weaken {α : Type} {P P1 : Parser → Prop} {Q Q1 : α → Parser → Prop} {x : M α}
    (hx : triple H P1 x Q1) (hP : ∀ p, P p → P1 p) (hQ : ∀ a p, Q1 a p → Q a p) :
    triple H P x Q := by
  intro p hp
  have h1 := hx p (hP p hp)
  cases hxp : x p with
  | ok a p1 => rw [hxp] at h1; exact hQ a p1 h1
  | halt h p1 => rw [hxp] at h1; exact h1

theorem triple_ite {α : Type} {P : Parser → Prop} {Q : α → Parser → Prop} {c : Prop}
    [Decidable c] {x y : M α} (hx : triple H P x Q) (hy : triple H P y Q) :
    triple H P (if c then x else y) Q := by
  split <;> assumption

end

theorem no_double_free_exit : no_double_free .exit_failure := by intro r; simp
theorem no_double_free_fuel : no_double_free .out_of_fuel := by intro r; simp
theorem no_double_free_alloc : no_double_free (.contract .allocate_on_empty_pool) := by
  intro r; simp
theorem no_double_free_last : no_double_free (.contract .invalid_last_register_op) := by
  intro r; simp
theorem no_double_free_operand : no_double_free (.contract .invalid_operand) := by
  intro r; simp

/-! frame_only -/

theorem frame_only_bind {α β : Type} {x : M α} {f : α → M β} (hx : frame_only x)
    (hf : ∀ a, frame_only (f a)) : frame_only (x >>= f) := by
  intro p
  have h1 := hx p
  rw [bind_apply]
  cases hxp : x p with
  | ok a p1 =>
    rw [hxp] at h1
    have h2 := hf a p1
    show match f a p1 with
      | .ok _ p2 => p2.slots = p.slots ∧ p2.allocator = p.allocator ∧
          p2.last_register_op = p.last_register_op
      | .halt h _ => h = .exit_failure
    cases hfp : f a p1 with
    | ok b p2 =>
      rw [hfp] at h2
      exact ⟨h2.1.trans h1.1, h2.2.1.trans h1.2.1, h2.2.2.trans h1.2.2⟩
    | halt h p2 =>
      rw [hfp] at h2
      exact h2
  | halt h p1 =>
    rw [hxp] at h1
    exact h1

theorem frame_only_pure {α : Type} (a : α) : frame_only (pure a : M α) := by
  intro p; simp [pure_apply]

theorem frame_only_ite {α : Type} {c : Prop} [Decidable c] {x y : M α}
    (hx : frame_only x) (hy : frame_only y) : frame_only (if c then x else y) := by
  split <;> assumption

theorem frame_only_modifyp (f : Parser → Parser) (hs : ∀ p, (f p).slots = p.slots)
    (ha : ∀ p, (f p).allocator = p.allocator)
    (hl : ∀ p, (f p).last_register_op = p.last_register_op) : frame_only (modifyp f) := by
  intro p; simp [modifyp, hs, ha, hl]

theorem frame_only_getp : frame_only getp := by
  intro p; simp [getp]

theorem frame_only_get_word : frame_only get_word := by
  intro p; simp [get_word]

theorem frame_only_has_free_register : frame_only has_free_register := by
  intro p; simp [has_free_register]

theorem frame_only_advance : frame_only advance := by
  intro p; simp only [advance, modifyp, Parser.advanced]; split <;> simp

theorem frame_only_report (d : Diagnostic) : frame_only (report d) := by
  intro p; simp [report, modifyp]

theorem frame_only_exit : frame_only exit_unless_test_mode := by
  intro p
  by_cases h : p.test_mode = true <;> simp [exit_unless_test_mode, h]

theorem frame_only_emit (i : IR) : frame_only (emit i) := by
  intro p; simp [emit, modifyp]

theorem frame_only_get_new_label (stem : String) : frame_only (get_new_label stem) := by
  intro p; simp [get_new_label]

theorem frame_only_parse_error (a : String) (b : Token) : frame_only (parse_error a b) :=
  frame_only_report _

theorem frame_only_type_error (a b : expr_type) : frame_only (type_error a b) := by
  unfold type_error
  exact frame_only_bind (frame_only_report _) (fun _ => frame_only_exit)

theorem frame_only_type_error2 (a b c : expr_type) : frame_only (type_error2 a b c) := by
  unfold type_error2
  exact frame_only_bind (frame_only_report _) (fun _ => frame_only_exit)

theorem frame_only_multiply_defined_identifier (id : String) :
    frame_only (multiply_defined_identifier id) := by
  unfold multiply_defined_identifier
  exact frame_only_bind (frame_only_report _) (fun _ => frame_only_exit)

theorem frame_only_undeclared_identifier (id : String) :
    frame_only (undeclared_identifier id) := by
  unfold undeclared_identifier
  exact frame_only_bind (frame_only_report _) (fun _ => frame_only_exit)

theorem frame_only_emit_data_directives (l : List String) :
    frame_only (emit_data_directives l) := by
  unfold emit_data_directives
  exact frame_only_modifyp _ (fun _ => rfl) (fun _ => rfl) (fun _ => rfl)

theorem frame_only_emit_epilogue : frame_only emit_epilogue := by
  unfold emit_epilogue
  repeat (with_reducible first
    | exact frame_only_pure _ | exact frame_only_getp | exact frame_only_emit _
    | exact frame_only_emit_data_directives _
    | refine frame_only_bind ?_ (fun _ => ?_) | refine frame_only_ite ?_ ?_)

theorem frame_only_allocate_spill_memory : frame_only allocate_spill_memory := by
  intro p
  unfold allocate_spill_memory
  cases h : p.spilled_labels.find? (fun entry => !entry.2) <;> simp

theorem frame_only_deallocate_spill_memory (l : String) :
    frame_only (deallocate_spill_memory l) := by
  unfold deallocate_spill_memory
  exact frame_only_modifyp _ (fun _ => rfl) (fun _ => rfl) (fun _ => rfl)

theorem frame_only_emit_compare_branches (c : relop_attr) (r : Register) (l : String) :
    frame_only (emit_compare_branches c r l) := by
  cases c <;> unfold emit_compare_branches <;>
    first
      | exact frame_only_emit _
      | exact frame_only_bind (frame_only_emit _) (fun _ => frame_only_emit _)

theorem triple_of_frame_only {α : Type} {x : M α} (hx : frame_only x) {P : Parser → Prop}
    (hP : framed P) : triple NDF P x (fun _ => P) := by
  intro p hp
  have h1 := hx p
  cases hxp : x p with
  | ok a p1 =>
    rw [hxp] at h1
    exact hP p p1 h1.1 h1.2.1 h1.2.2 hp
  | halt h p1 =>
    rw [hxp] at h1
    have h2 : h = Halt.exit_failure := h1
    subst h2
    exact no_double_free_exit

/-! framed predicates -/

theorem framed_owner_invariant_except (x : Option Nat) : framed (owner_invariant_except x) := by
  intro p q hs ha hl hp
  unfold owner_invariant_except at *
  rw [hs, ha]; exact hp

theorem framed_owner_invariant : framed owner_invariant :=
  framed_owner_invariant_except none

theorem framed_register_held (x : Option Nat) (r : Register) : framed (register_held x r) := by
  intro p q hs ha hl hp
  unfold register_held at *
  refine ⟨framed_owner_invariant p q hs ha hl hp.1, ?_⟩
  rw [hs, ha]; exact hp.2

theorem inuse_allocate {a b : Register_Allocator} {r : Register}
    (h : a.allocate_register = some (r, b)) :
    a.inuse r = false ∧ b.inuse r = true ∧ ∀ r1, a.inuse r1 = true → b.inuse r1 = true := by
  unfold Register_Allocator.allocate_register at h
  cases h1 : a.inuse1 <;> cases h2 : a.inuse2 <;> cases h3 : a.inuse3 <;>
    simp [h1, h2, h3] at h <;> obtain ⟨rfl, rfl⟩ := h <;>
    refine ⟨by simp [Register_Allocator.inuse, h1, h2, h3], by simp [Register_Allocator.inuse], ?_⟩ <;>
    intro r1 <;> cases r1 <;> simp [Register_Allocator.inuse, h1, h2, h3]

theorem inuse_deallocate {a b : Register_Allocator} {r : Register}
    (h : a.deallocate_register r = some b) :
    a.inuse r = true ∧ ∀ r1, r1 ≠ r → b.inuse r1 = a.inuse r1 := by
  unfold Register_Allocator.deallocate_register at h
  by_cases hr : a.inuse r = true
  · simp [hr] at h
    subst h
    refine ⟨hr, ?_⟩
    intro r1 hne
    cases r <;> cases r1 <;> simp_all [Register_Allocator.inuse]
  · simp [hr] at h

theorem getElem?_modify_slots (l : List Slot) (f : Slot → Slot) (n i : Nat) :
    (l.modify f n)[i]? = (l[i]?).map (fun s => if n = i then f s else s) := by
  rw [List.getElem?_modify]
  rfl

theorem owner_invariant_except_of_fewer_owners {x : Option Nat} {p q : Parser}
    (hp : owner_invariant_except x p)
    (ha : ∀ r, p.allocator.inuse r = true → q.allocator.inuse r = true)
    (hs : ∀ (i : Nat) (t : Slot) (r : Register), some i ≠ x → q.slots[i]? = some t → t.owns r →
      ∃ s : Slot, p.slots[i]? = some s ∧ s.owns r) :
    owner_invariant_except x q := by
  intro i t r hix hi ht
  obtain ⟨s, hs1, hs2⟩ := hs i t r hix hi ht
  obtain ⟨h1, h2⟩ := hp i s r hix hs1 hs2
  refine ⟨ha r h1, ?_⟩
  intro j t2 hjx hj ht2
  obtain ⟨s2, hs3, hs4⟩ := hs j t2 r hjx hj ht2
  exact h2 j s2 hjx hs3 hs4

theorem owner_invariant_except_of_owner_invariant {x : Option Nat} {p : Parser}
    (hp : owner_invariant p) : owner_invariant_except x p := by
  intro i s r _ hi hs
  obtain ⟨h1, h2⟩ := hp i s r (by simp) hi hs
  exact ⟨h1, fun j t _ hj ht => h2 j t (by simp) hj ht⟩

/-- making the excepted slot a non-owner restores the invariant -/
theorem owner_invariant_of_except {x : Nat} {p : Parser} (f : Slot → Slot)
    (hf : ∀ s r, ¬ (f s).owns r) (hp : owner_invariant_except (some x) p) :
    owner_invariant { p with slots := p.slots.modify f x } := by
  intro i t r _ hi ht
  simp only [getElem?_modify_slots, Option.map_eq_some'] at hi
  obtain ⟨s, hs, rfl⟩ := hi
  by_cases hxi : x = i
  · simp only [hxi, if_true] at ht
    exact absurd ht (hf s r)
  · simp only [hxi, if_false] at ht
    have hne : some i ≠ some x := by simpa using fun h => hxi h.symm
    obtain ⟨h1, h2⟩ := hp i s r hne hs ht
    refine ⟨h1, ?_⟩
    intro j t2 _ hj ht2
    simp only [getElem?_modify_slots, Option.map_eq_some'] at hj
    obtain ⟨s2, hs2, rfl⟩ := hj
    by_cases hxj : x = j
    · simp only [hxj, if_true] at ht2
      exact absurd ht2 (hf s2 r)
    · simp only [hxj, if_false] at ht2
      have hne2 : some j ≠ some x := by simpa using fun h => hxj h.symm
      exact h2 j s2 hne2 hs2 ht2

/-- releasing a register held by at most the slot `x` -/
theorem owner_invariant_except_deallocate {x : Option Nat} {r : Register} {p : Parser}
    {b : Register_Allocator} (hp : register_held x r p)
    (hb : p.allocator.deallocate_register r = some b) :
    owner_invariant_except x { p with allocator := b } := by
  obtain ⟨hI, _, hown⟩ := hp
  obtain ⟨_, hother⟩ := inuse_deallocate hb
  intro i s r1 hix hi hs
  obtain ⟨h1, h2⟩ := hI i s r1 (by simp) hi hs
  have hne : r1 ≠ r := by
    intro h
    subst h
    exact hix (hown i s hi hs)
  refine ⟨by simp only [hother r1 hne]; exact h1, ?_⟩
  intro j t _ hj ht
  exact h2 j t (by simp) hj ht

/-- giving a register nobody owns to the slot `x` -/
theorem owner_invariant_assign_register {x : Nat} {r : Register} {p : Parser}
    (hp : register_held none r p) :
    owner_invariant (assign_operand x (.OPTYPE_REGISTER r) p).parser := by
  simp only [assign_operand, modifyp, Res.parser]
  obtain ⟨hI, hr, hnone⟩ := hp
  have hno : ∀ (i : Nat) (s : Slot), p.slots[i]? = some s → ¬ s.owns r := by
    intro i s hi hs
    simpa using hnone i s hi hs
  intro i t r1 _ hi ht
  simp only [getElem?_modify_slots, Option.map_eq_some'] at hi
  obtain ⟨s, hs, rfl⟩ := hi
  by_cases hxi : x = i
  · simp only [hxi, if_true, Slot.owns] at ht
    have hr1 : r1 = r := by
      have := ht.1
      simp at this
      exact this.symm
    subst hr1
    refine ⟨hr, ?_⟩
    intro j t2 _ hj ht2
    simp only [getElem?_modify_slots, Option.map_eq_some'] at hj
    obtain ⟨s2, hs2, rfl⟩ := hj
    by_cases hxj : x = j
    · rw [← hxi, hxj]
    · simp only [hxj, if_false] at ht2
      exact absurd ht2 (hno j s2 hs2)
  · simp only [hxi, if_false] at ht
    obtain ⟨h1, h2⟩ := hI i s r1 (by simp) hs ht
    refine ⟨h1, ?_⟩
    intro j t2 _ hj ht2
    simp only [getElem?_modify_slots, Option.map_eq_some'] at hj
    obtain ⟨s2, hs2, rfl⟩ := hj
    by_cases hxj : x = j
    · simp only [hxj, if_true, Slot.owns] at ht2
      have hr1 : r1 = r := by
        have := ht2.1
        simp at this
        exact this.symm
      subst hr1
      exact absurd ht (hno i s hs)
    · simp only [hxj, if_false] at ht2
      exact h2 j s2 (by simp) hs2 ht2

theorem triple_intro {α : Type} {H : Halt → Parser → Prop} {P : Parser → Prop} {x : M α}
    {Q : α → Parser → Prop}
    (hok : ∀ p a q, P p → x p = .ok a q → Q a q)
    (hhalt : ∀ p h q, P p → x p = .halt h q → H h q) : triple H P x Q := by
  intro p hp
  cases hx : x p with
  | ok a q => exact hok p a q hp hx
  | halt h q => exact hhalt p h q hp hx

theorem operand_at_ok {x : Nat} {p q : Parser} {o : Operand} (h : operand_at x p = .ok o q) :
    q = p ∧ ∃ s : Slot, p.slots[x]? = some s ∧ s.op = some o ∧ s.deleted = false := by
  unfold operand_at at h
  split at h
  · rename_i o1 h1
    simp only [Res.ok.injEq] at h
    obtain ⟨rfl, rfl⟩ := h
    exact ⟨rfl, _, h1, rfl, rfl⟩
  · simp at h

theorem operand_at_halt {x : Nat} {p q : Parser} {h : Halt} (hx : operand_at x p = .halt h q) :
    h = .contract .invalid_operand := by
  unfold operand_at at hx
  split at hx
  · simp at hx
  · simp only [Res.halt.injEq] at hx
    exact hx.1.symm

theorem triple_operand_at (P : Parser → Prop) (x : Nat) :
    triple NDF P (operand_at x)
      (fun o p => P p ∧ ∃ s : Slot, p.slots[x]? = some s ∧ s.op = some o ∧ s.deleted = false) := by
  apply triple_intro
  · intro p o q hp h
    obtain ⟨rfl, hs⟩ := operand_at_ok h
    exact ⟨hp, hs⟩
  · intro p h q hp hx
    rw [operand_at_halt hx]
    exact no_double_free_operand

theorem triple_allocate_register :
    triple NDF owner_invariant allocate_register (fun r => register_held none r) := by
  apply triple_intro
  · intro p r q hp h
    unfold allocate_register at h
    split at h
    · rename_i r1 a h0
      simp only [Res.ok.injEq] at h
      obtain ⟨rfl, rfl⟩ := h
      obtain ⟨h1, h2, h3⟩ := inuse_allocate h0
      refine ⟨?_, h2, ?_⟩
      · exact owner_invariant_except_of_fewer_owners hp h3 (fun i t r _ hi ht => ⟨t, hi, ht⟩)
      · intro i s hi hs
        have := (hp i s r1 (by simp) hi hs).1
        rw [h1] at this
        exact absurd this (by simp)
    · simp at h
  · intro p h q hp hx
    unfold allocate_register at hx
    split at hx
    · simp at hx
    · simp only [Res.halt.injEq] at hx
      rw [← hx.1]
      exact no_double_free_alloc

theorem triple_deallocate_register (x : Option Nat) (r : Register) :
    triple NDF (register_held x r) (deallocate_register r)
      (fun _ => owner_invariant_except x) := by
  apply triple_intro
  · intro p a q hp h
    unfold deallocate_register at h
    split at h
    · rename_i b h0
      simp only [Res.ok.injEq] at h
      obtain ⟨_, rfl⟩ := h
      exact owner_invariant_except_deallocate hp h0
    · simp at h
  · intro p h q hp hx
    unfold deallocate_register at hx
    split at hx
    · simp at hx
    · rename_i h0
      have h1 := hp.2.1
      unfold Register_Allocator.deallocate_register at h0
      simp [h1] at h0

theorem triple_delete_operand (x : Nat) :
    triple NDF (owner_invariant_except (some x)) (delete_operand x)
      (fun _ => owner_invariant) := by
  intro p hp
  exact owner_invariant_of_except _ (fun s r h => by simp [Slot.owns] at h) hp

theorem triple_assign_memory (x : Nat) (m : String) :
    triple NDF (owner_invariant_except (some x)) (assign_operand x (.OPTYPE_MEMORY m))
      (fun _ => owner_invariant) := by
  intro p hp
  exact owner_invariant_of_except _ (fun s r h => by simp [Slot.owns] at h) hp

theorem triple_assign_immediate (x : Nat) (i : Int) :
    triple NDF (owner_invariant_except (some x)) (assign_operand x (.OPTYPE_IMMEDIATE i))
      (fun _ => owner_invariant) := by
  intro p hp
  exact owner_invariant_of_except _ (fun s r h => by simp [Slot.owns] at h) hp

theorem triple_assign_register (x : Nat) (r : Register) :
    triple NDF (register_held none r) (assign_operand x (.OPTYPE_REGISTER r))
      (fun _ => owner_invariant) := by
  intro p hp
  exact owner_invariant_assign_register hp

theorem register_held_delete_operand (x : Nat) (r : Register) :
    triple NDF (register_held none r) (delete_operand x) (fun _ => register_held none r) := by
  intro p hp
  obtain ⟨hI, hr, hnone⟩ := hp
  have key : ∀ (i : Nat) (t : Slot) (r1 : Register),
      (p.slots.modify (fun s => { s with deleted := true }) x)[i]? = some t → t.owns r1 →
      ∃ s : Slot, p.slots[i]? = some s ∧ s.owns r1 := by
    intro i t r1 hi ht
    simp only [getElem?_modify_slots, Option.map_eq_some'] at hi
    obtain ⟨s, hs, rfl⟩ := hi
    by_cases hxi : x = i
    · simp [hxi, Slot.owns] at ht
    · simp only [hxi, if_false] at ht
      exact ⟨s, hs, ht⟩
  refine ⟨?_, hr, ?_⟩
  · exact owner_invariant_except_of_fewer_owners hI (fun _ h => h)
      (fun i t r1 _ hi ht => key i t r1 hi ht)
  · intro i t hi ht
    obtain ⟨s, hs1, hs2⟩ := key i t r hi ht
    exact hnone i s hs1 hs2

theorem triple_new_operand_slot_null :
    triple NDF owner_invariant (new_operand_slot none) (fun _ => owner_invariant) := by
  intro p hp
  refine owner_invariant_except_of_fewer_owners hp (fun _ h => h) ?_
  intro i t r _ hi ht
  simp only [new_operand_slot] at hi
  by_cases hlt : i < p.slots.length
  · rw [List.getElem?_append_left hlt] at hi
    exact ⟨t, hi, ht⟩
  · rw [List.getElem?_append_right (by omega)] at hi
    by_cases h0 : i - p.slots.length = 0
    · simp [h0] at hi
      subst hi
      simp [Slot.owns] at ht
    · have : ([{ op := none, deleted := false, live := true }] : List Slot)[i - p.slots.length]?
          = none := by
        apply List.getElem?_eq_none
        simp; omega
      rw [this] at hi
      simp at hi

theorem triple_new_operand_slot_memory (m : String) :
    triple NDF owner_invariant (new_operand_slot (some (.OPTYPE_MEMORY m)))
      (fun _ => owner_invariant) := by
  intro p hp
  refine owner_invariant_except_of_fewer_owners hp (fun _ h => h) ?_
  intro i t r _ hi ht
  simp only [new_operand_slot] at hi
  by_cases hlt : i < p.slots.length
  · rw [List.getElem?_append_left hlt] at hi
    exact ⟨t, hi, ht⟩
  · rw [List.getElem?_append_right (by omega)] at hi
    by_cases h0 : i - p.slots.length = 0
    · simp [h0] at hi
      subst hi
      simp [Slot.owns] at ht
    · have : ([{ op := some (.OPTYPE_MEMORY m), deleted := false, live := true }] :
          List Slot)[i - p.slots.length]? = none := by
        apply List.getElem?_eq_none
        simp; omega
      rw [this] at hi
      simp at hi

theorem triple_end_of_scope (x : Nat) :
    triple NDF owner_invariant (end_of_scope x) (fun _ => owner_invariant) := by
  intro p hp
  refine owner_invariant_except_of_fewer_owners hp (fun _ h => h) ?_
  intro i t r _ hi ht
  simp only [end_of_scope, modifyp, getElem?_modify_slots, Option.map_eq_some'] at hi
  obtain ⟨s, hs, rfl⟩ := hi
  refine ⟨s, hs, ?_⟩
  by_cases hxi : x = i
  · simpa [hxi, Slot.owns] using ht
  · simpa [hxi] using ht

theorem triple_set_last_register_op (P : Parser → Prop)
    (hP : ∀ p q : Parser, q.slots = p.slots → q.allocator = p.allocator → P p → P q)
    (x : Nat) : triple NDF P (set_last_register_op x) (fun _ => P) := by
  intro p hp
  exact hP p _ rfl rfl hp

/-- What is known after `(*last_register_op)->get_r_value()` returned `r`. -/
theorem last_register_op_r_value_ok {p q : Parser} {r : Register}
    (h : last_register_op_r_value p = .ok r q) :
    q = p ∧ ∃ (x : Nat) (s : Slot), p.last_register_op = some x ∧ p.slots[x]? = some s ∧
      s.owns r := by
  unfold last_register_op_r_value at h
  split at h
  · simp at h
  · rename_i x hx
    split at h
    · rename_i r1 h1
      simp only [Res.ok.injEq] at h
      obtain ⟨rfl, rfl⟩ := h
      exact ⟨rfl, x, _, hx, h1, rfl, rfl⟩
    · simp at h

theorem last_register_op_r_value_halt {p q : Parser} {h : Halt}
    (hx : last_register_op_r_value p = .halt h q) :
    h = .contract .invalid_last_register_op := by
  unfold last_register_op_r_value at hx
  split at hx
  · simp only [Res.halt.injEq] at hx; exact hx.1.symm
  · split at hx
    · simp at hx
    · simp only [Res.halt.injEq] at hx; exact hx.1.symm

/-- The tail of the spill block after the register has been read. -/
theorem triple_spill_tail (l : String) (r : Register) (x : Nat) :
    triple NDF (fun p => register_held (some x) r p ∧ p.last_register_op = some x)
      (do emit (.move_mem_reg l r)
          deallocate_register r
          assign_last_register_op (.OPTYPE_MEMORY l))
      (fun _ => owner_invariant) := by
  apply triple_intro
  · intro p a q hp h
    obtain ⟨hheld, hlast⟩ := hp
    simp only [bind_apply, emit, modifyp, deallocate_register] at h
    have hin := hheld.2.1
    obtain ⟨b, hb⟩ : ∃ b, p.allocator.deallocate_register r = some b := by
      unfold Register_Allocator.deallocate_register; simp [hin]
    simp only [hb, assign_last_register_op, hlast, assign_operand, modifyp, Res.ok.injEq] at h
    obtain ⟨_, rfl⟩ := h
    have h1 : owner_invariant_except (some x) { p with allocator := b } :=
      owner_invariant_except_deallocate hheld hb
    have h2 := owner_invariant_of_except (x := x)
      (fun s => { s with op := some (.OPTYPE_MEMORY l), deleted := false })
      (fun s r h => by simp [Slot.owns] at h) h1
    exact framed_owner_invariant _ _ rfl rfl rfl h2
  · intro p h q hp hx
    obtain ⟨hheld, hlast⟩ := hp
    simp only [bind_apply, emit, modifyp, deallocate_register] at hx
    have hin := hheld.2.1
    obtain ⟨b, hb⟩ : ∃ b, p.allocator.deallocate_register r = some b := by
      unfold Register_Allocator.deallocate_register; simp [hin]
    simp [hb, assign_last_register_op, hlast, assign_operand, modifyp] at hx

theorem triple_spill_last_register_op :
    triple NDF owner_invariant spill_last_register_op (fun _ => owner_invariant) := by
  unfold spill_last_register_op
  refine triple_bind (triple_of_frame_only frame_only_allocate_spill_memory
    framed_owner_invariant) (fun l => ?_)
  refine triple_bind (triple_of_frame_only (frame_only_emit _) framed_owner_invariant)
    (fun _ => ?_)
  refine triple_bind (Q := fun r p => ∃ x, register_held (some x) r p ∧
    p.last_register_op = some x) ?_ (fun r => ?_)
  · apply triple_intro
    · intro p r q hp h
      obtain ⟨rfl, x, s, hx, hs, hown⟩ := last_register_op_r_value_ok h
      refine ⟨x, ⟨hp, (hp x s r (by simp) hs hown).1, ?_⟩, hx⟩
      intro i t hi ht
      rw [(hp x s r (by simp) hs hown).2 i t (by simp) hi ht]
    · intro p h q hp hx
      rw [last_register_op_r_value_halt hx]
      exact no_double_free_last
  · intro p hp
    obtain ⟨x, hx⟩ := hp
    exact triple_spill_tail l r x p hx

theorem triple_emit_move_operand (b : Bool) (r : Register) (o : Operand) {P : Parser → Prop}
    (hP : framed P) : triple NDF P (emit_move_operand b r o) (fun _ => P) := by
  cases o with
  | OPTYPE_IMMEDIATE i => exact triple_of_frame_only (frame_only_emit _) hP
  | OPTYPE_MEMORY m => exact triple_of_frame_only (frame_only_emit _) hP
  | OPTYPE_REGISTER r1 =>
    unfold emit_move_operand
    cases b
    · exact triple_pure _ (fun _ h => h)
    · intro p _
      exact no_double_free_operand

/-- The part of the materialization blocks that follows the query
`has_free_register()`: the spill when the pool is empty, then the allocation. -/
theorem triple_spill_then_allocate {α : Type} (free : Bool) (f : Register → M α)
    (Q : α → Parser → Prop) (hf : ∀ r, triple NDF (register_held none r) (f r) Q) :
    triple NDF owner_invariant
      (do
        if (!free) = true then spill_last_register_op
        let r ← allocate_register
        f r) Q := by
  split <;> refine triple_bind (Q := fun _ => owner_invariant) ?_
    (fun _ => triple_bind triple_allocate_register hf)
  · exact triple_spill_last_register_op
  · exact triple_pure _ (fun _ h => h)

theorem triple_left_op_into_register (b : Bool) (x : Nat) :
    triple NDF owner_invariant (left_op_into_register b x) (fun _ => owner_invariant) := by
  unfold left_op_into_register
  refine triple_bind (triple_operand_at _ x) (fun o => ?_)
  split
  · exact triple_pure _ (fun _ h => h.1)
  · refine triple_bind (Q := fun _ => owner_invariant)
      (triple_weaken (triple_of_frame_only frame_only_has_free_register framed_owner_invariant)
        (fun _ h => h.1) (fun _ _ h => h)) (fun free => ?_)
    refine triple_spill_then_allocate free _ _ (fun r => ?_)
    refine triple_bind (triple_operand_at _ x) (fun o1 => ?_)
    refine triple_bind (Q := fun _ => register_held none r)
      (triple_weaken (triple_emit_move_operand b r o1 (framed_register_held none r))
        (fun _ h => h.1) (fun _ _ h => h)) (fun _ => ?_)
    refine triple_bind (register_held_delete_operand x r) (fun _ => ?_)
    refine triple_bind (triple_assign_register x r) (fun _ => ?_)
    exact triple_pure _ (fun _ h => h)

theorem register_held_of_owner {p : Parser} {x : Nat} {s : Slot} {r : Register}
    (hp : owner_invariant p) (hs : p.slots[x]? = some s) (hown : s.owns r) :
    register_held (some x) r p := by
  refine ⟨hp, (hp x s r (by simp) hs hown).1, ?_⟩
  intro i t hi ht
  rw [(hp x s r (by simp) hs hown).2 i t (by simp) hi ht]

theorem register_held_of_none {p : Parser} {x : Option Nat} {r : Register}
    (hp : register_held none r p) : register_held x r p := by
  refine ⟨hp.1, hp.2.1, ?_⟩
  intro i t hi ht
  exact absurd (hp.2.2 i t hi ht) (by simp)

theorem triple_expression_into_register (x : Nat) :
    triple NDF owner_invariant (expression_into_register x)
      (fun r => register_held (some x) r) := by
  unfold expression_into_register
  refine triple_bind (triple_operand_at _ x) (fun o => ?_)
  split
  · rename_i r
    refine triple_pure _ ?_
    intro p hp
    obtain ⟨hI, s, hs, hop, hdel⟩ := hp
    exact register_held_of_owner hI hs ⟨hop, hdel⟩
  · refine triple_bind (Q := fun _ => owner_invariant)
      (triple_weaken (triple_of_frame_only frame_only_has_free_register framed_owner_invariant)
        (fun _ h => h.1) (fun _ _ h => h)) (fun free => ?_)
    refine triple_spill_then_allocate free _ _ (fun r => ?_)
    refine triple_bind (triple_operand_at _ x) (fun o1 => ?_)
    refine triple_bind (Q := fun _ => register_held none r)
      (triple_weaken (triple_emit_move_operand false r o1 (framed_register_held none r))
        (fun _ h => h.1) (fun _ _ h => h)) (fun _ => ?_)
    exact triple_pure _ (fun _ h => register_held_of_none h)

/-- The release of the register and of the operand at the end of a statement. -/
theorem triple_release_expression (x : Nat) (r : Register) :
    triple NDF (register_held (some x) r)
      (do deallocate_register r
          delete_operand x)
      (fun _ => owner_invariant) :=
  triple_bind (triple_deallocate_register (some x) r) (fun _ => triple_delete_operand x)

theorem triple_release_right_op (x : Nat) :
    triple NDF owner_invariant (release_right_op x) (fun _ => owner_invariant) := by
  unfold release_right_op
  refine triple_bind (triple_operand_at _ x) (fun o => ?_)
  split <;> refine triple_bind (Q := fun _ => owner_invariant_except (some x)) ?_
    (fun _ => triple_delete_operand x)
  · rename_i r
    refine triple_weaken (triple_deallocate_register (some x) r) ?_ (fun _ _ h => h)
    intro p hp
    obtain ⟨hI, s, hs, hop, hdel⟩ := hp
    exact register_held_of_owner hI hs ⟨hop, hdel⟩
  · refine triple_weaken (triple_of_frame_only (frame_only_deallocate_spill_memory _)
      (framed_owner_invariant_except (some x)))
      (fun _ h => owner_invariant_except_of_owner_invariant h.1) (fun _ _ h => h)
  · exact triple_pure _ (fun _ h => owner_invariant_except_of_owner_invariant h.1)

theorem owner_frame_only {α : Type} {x : M α} (hx : frame_only x) :
    preserves owner_invariant NDF x :=
  triple_of_frame_only hx framed_owner_invariant

theorem owner_set_last_register_op (x : Nat) :
    preserves owner_invariant NDF (set_last_register_op x) := by
  intro p hp
  exact hp

theorem frame_only_reserve_program_label (id : String) :
    frame_only (reserve_program_label id) := by
  intro p
  simp only [reserve_program_label, modifyp]
  split <;> simp

theorem owner_operand_at (x : Nat) : preserves owner_invariant NDF (operand_at x) :=
  triple_weaken (triple_operand_at owner_invariant x) (fun _ h => h) (fun _ _ h => h.1)

theorem owner_left_op_into_register (b : Bool) (x : Nat) :
    preserves owner_invariant NDF (left_op_into_register b x) :=
  triple_left_op_into_register b x

theorem owner_release_right_op (x : Nat) :
    preserves owner_invariant NDF (release_right_op x) :=
  triple_release_right_op x

theorem owner_emit_2addr_operand (i : inst_type) (r : Register) (x : Nat) :
    preserves owner_invariant NDF (emit_2addr_operand i r x) := by
  unfold emit_2addr_operand
  repeat (with_reducible first
    | exact preserves_pure _ | exact preserves_getp | exact preserves_get_word
    | exact owner_frame_only frame_only_has_free_register
    | exact owner_frame_only (frame_only_emit _)
    | exact owner_frame_only (frame_only_get_new_label _)
    | exact owner_frame_only (frame_only_emit_compare_branches _ _ _)
    | exact owner_left_op_into_register _ _ | exact owner_release_right_op _
    | exact owner_set_last_register_op _ | exact owner_operand_at _
    | refine preserves_bind ?_ (fun _ => ?_) | refine preserves_ite ?_ ?_ | split)

theorem owner_relop_codegen (c : relop_attr) (l r : Nat) :
    preserves owner_invariant NDF (relop_codegen c l r) := by
  unfold relop_codegen
  repeat (with_reducible first
    | exact preserves_pure _ | exact preserves_getp | exact preserves_get_word
    | exact owner_frame_only frame_only_has_free_register
    | exact owner_frame_only (frame_only_emit _)
    | exact owner_frame_only (frame_only_get_new_label _)
    | exact owner_frame_only (frame_only_emit_compare_branches _ _ _)
    | exact owner_left_op_into_register _ _ | exact owner_release_right_op _
    | exact owner_set_last_register_op _ | exact owner_operand_at _ | exact owner_emit_2addr_operand _ _ _
    | refine preserves_bind ?_ (fun _ => ?_) | refine preserves_ite ?_ ?_ | split)

theorem owner_addop_codegen (a : addop_attr) (l r : Nat) :
    preserves owner_invariant NDF (addop_codegen a l r) := by
  unfold addop_codegen
  repeat (with_reducible first
    | exact preserves_pure _ | exact preserves_getp | exact preserves_get_word
    | exact owner_frame_only frame_only_has_free_register
    | exact owner_frame_only (frame_only_emit _)
    | exact owner_frame_only (frame_only_get_new_label _)
    | exact owner_frame_only (frame_only_emit_compare_branches _ _ _)
    | exact owner_left_op_into_register _ _ | exact owner_release_right_op _
    | exact owner_set_last_register_op _ | exact owner_operand_at _ | exact owner_emit_2addr_operand _ _ _
    | refine preserves_bind ?_ (fun _ => ?_) | refine preserves_ite ?_ ?_ | split)

theorem owner_mulop_codegen (m : mulop_attr) (l r : Nat) :
    preserves owner_invariant NDF (mulop_codegen m l r) := by
  unfold mulop_codegen
  repeat (with_reducible first
    | exact preserves_pure _ | exact preserves_getp | exact preserves_get_word
    | exact owner_frame_only frame_only_has_free_register
    | exact owner_frame_only (frame_only_emit _)
    | exact owner_frame_only (frame_only_get_new_label _)
    | exact owner_frame_only (frame_only_emit_compare_branches _ _ _)
    | exact owner_left_op_into_register _ _ | exact owner_release_right_op _
    | exact owner_set_last_register_op _ | exact owner_operand_at _ | exact owner_emit_2addr_operand _ _ _
    | refine preserves_bind ?_ (fun _ => ?_) | refine preserves_ite ?_ ?_ | split)

theorem owner_sign_codegen (s : Int) (op : Nat) :
    preserves owner_invariant NDF (sign_codegen s op) := by
  unfold sign_codegen
  repeat (with_reducible first
    | exact preserves_pure _ | exact preserves_getp | exact preserves_get_word
    | exact owner_frame_only frame_only_has_free_register
    | exact owner_frame_only (frame_only_emit _)
    | exact owner_frame_only (frame_only_get_new_label _)
    | exact owner_frame_only (frame_only_emit_compare_branches _ _ _)
    | exact owner_left_op_into_register _ _ | exact owner_release_right_op _
    | exact owner_set_last_register_op _ | exact owner_operand_at _ | exact owner_emit_2addr_operand _ _ _
    | refine preserves_bind ?_ (fun _ => ?_) | refine preserves_ite ?_ ?_ | split)

theorem owner_print_codegen (x : Nat) : preserves owner_invariant NDF (print_codegen x) := by
  unfold print_codegen
  refine triple_bind (triple_expression_into_register x) (fun r => ?_)
  refine triple_bind (triple_of_frame_only (frame_only_emit _) (framed_register_held _ r))
    (fun _ => ?_)
  exact triple_release_expression x r

theorem owner_assignment_codegen (id : String) (x : Nat) :
    preserves owner_invariant NDF (assignment_codegen id x) := by
  unfold assignment_codegen
  refine triple_bind (triple_expression_into_register x) (fun r => ?_)
  refine triple_bind (triple_of_frame_only (frame_only_emit _) (framed_register_held _ r))
    (fun _ => ?_)
  exact triple_release_expression x r

theorem owner_while_condition_codegen (l : String) (x : Nat) :
    preserves owner_invariant NDF (while_condition_codegen l x) := by
  unfold while_condition_codegen
  refine triple_bind (triple_expression_into_register x) (fun r => ?_)
  refine triple_bind (triple_of_frame_only (frame_only_emit _) (framed_register_held _ r))
    (fun _ => ?_)
  exact triple_release_expression x r

theorem owner_if_condition_codegen (x : Nat) :
    preserves owner_invariant NDF (if_condition_codegen x) := by
  unfold if_condition_codegen
  refine triple_bind (triple_expression_into_register x) (fun r => ?_)
  refine triple_bind (triple_of_frame_only (frame_only_get_new_label _)
    (framed_register_held _ r)) (fun _ => ?_)
  refine triple_bind (triple_of_frame_only (frame_only_get_new_label _)
    (framed_register_held _ r)) (fun _ => ?_)
  refine triple_bind (triple_of_frame_only (frame_only_emit _) (framed_register_held _ r))
    (fun _ => ?_)
  refine triple_bind (triple_deallocate_register (some x) r) (fun _ => ?_)
  refine triple_bind (triple_delete_operand x) (fun _ => ?_)
  exact triple_pure _ (fun _ h => h)

/-- The basic blocks of the parser maintain the consistency of register
ownership, and none of them releases a register that is not allocated. -/
theorem owner_block_invariant : BlockInvariant owner_invariant NDF where
  out_of_fuel := fun _ _ => no_double_free_fuel
  advance := owner_frame_only frame_only_advance
  parse_error := fun _ _ => owner_frame_only (frame_only_parse_error _ _)
  multiply_defined_identifier := fun _ => owner_frame_only (frame_only_multiply_defined_identifier _)
  undeclared_identifier := fun _ => owner_frame_only (frame_only_undeclared_identifier _)
  type_error := fun _ _ => owner_frame_only (frame_only_type_error _ _)
  type_error2 := fun _ _ _ => owner_frame_only (frame_only_type_error2 _ _ _)
  stab_install := fun _ _ =>
    preserves_from_of_preserves
      (owner_frame_only (frame_only_modifyp _ (fun _ => rfl) (fun _ => rfl) (fun _ => rfl)))
  stab_install_formal := fun _ =>
    preserves_from_of_preserves
      (owner_frame_only (frame_only_modifyp _ (fun _ => rfl) (fun _ => rfl) (fun _ => rfl)))
  reserve_program_label := fun _ => owner_frame_only (frame_only_reserve_program_label _)
  stab_update_type := fun _ =>
    owner_frame_only (frame_only_modifyp _ (fun _ => rfl) (fun _ => rfl) (fun _ => rfl))
  set_parsing_formal_parm_list := fun _ =>
    owner_frame_only (frame_only_modifyp _ (fun _ => rfl) (fun _ => rfl) (fun _ => rfl))
  set_procedure_name := fun _ =>
    owner_frame_only (frame_only_modifyp _ (fun _ => rfl) (fun _ => rfl) (fun _ => rfl))
  reset_actual_parm_position :=
    owner_frame_only (frame_only_modifyp _ (fun _ => rfl) (fun _ => rfl) (fun _ => rfl))
  increment_actual_parm_position :=
    owner_frame_only (frame_only_modifyp _ (fun _ => rfl) (fun _ => rfl) (fun _ => rfl))
  enter_procedure := fun _ =>
    preserves_from_of_preserves
      (owner_frame_only (frame_only_modifyp _ (fun _ => rfl) (fun _ => rfl) (fun _ => rfl)))
  leave_procedure :=
    owner_frame_only (frame_only_modifyp _ (fun _ => rfl) (fun _ => rfl) (fun _ => rfl))
  enter_program := fun _ =>
    owner_frame_only (frame_only_modifyp _ (fun _ => rfl) (fun _ => rfl) (fun _ => rfl))
  emit := fun _ => owner_frame_only (frame_only_emit _)
  get_new_label := fun _ => owner_frame_only (frame_only_get_new_label _)
  emit_epilogue := owner_frame_only frame_only_emit_epilogue
  new_operand_slot_null := triple_new_operand_slot_null
  new_operand_slot_memory := triple_new_operand_slot_memory
  end_of_scope := triple_end_of_scope
  assign_memory := fun x m =>
    triple_weaken (triple_assign_memory x m)
      (fun _ h => owner_invariant_except_of_owner_invariant h) (fun _ _ h => h)
  assign_immediate := fun x i =>
    triple_weaken (triple_assign_immediate x i)
      (fun _ h => owner_invariant_except_of_owner_invariant h) (fun _ _ h => h)
  relop_codegen := owner_relop_codegen
  addop_codegen := owner_addop_codegen
  mulop_codegen := owner_mulop_codegen
  sign_codegen := owner_sign_codegen
  print_codegen := owner_print_codegen
  assignment_codegen := owner_assignment_codegen
  if_condition_codegen := owner_if_condition_codegen
  while_condition_codegen := owner_while_condition_codegen

theorem owner_invariant_init (test_mode : Bool) (tokens : List Token) :
    owner_invariant (Parser.init test_mode tokens) := by
  intro i s r _ hi _
  simp [Parser.init] at hi

/-! ### The semantic checks as typing rules -/

theorem report_apply (d : Diagnostic) (p : Parser) : report d p = .ok () (report_all [d] p) := rfl

theorem type_error_apply (a b : expr_type) (p : Parser) :
    type_error a b p = checked [.type_error a b] () p := by
  cases htm : p.test_mode <;>
    simp [type_error, bind_apply, report_apply, exit_unless_test_mode, checked, htm, report_all]

theorem type_error2_apply (a b c : expr_type) (p : Parser) :
    type_error2 a b c p = checked [.type_error2 a b c] () p := by
  cases htm : p.test_mode <;>
    simp [type_error2, bind_apply, report_apply, exit_unless_test_mode, checked, htm, report_all]

theorem checked_nil {α : Type} (a : α) (p : Parser) : checked [] a p = .ok a p := rfl

theorem expr_semantics_apply (t0 t1 hat : expr_type) (p : Parser) :
    expr_semantics t0 t1 hat p = checked (expr_errors t1 hat) (expr_result t0 t1 hat) p := by
  unfold expr_semantics expr_errors expr_result
  by_cases h1 : hat = .NO_T
  · simp [h1, checked, pure_apply]
  · by_cases h2 : t1 = .INT_T ∧ hat = .INT_T
    · simp [h1, h2, checked, pure_apply]
    · cases htm : p.test_mode <;>
   simp [h1, h2, if_false, bind_apply, type_error2_apply, checked, pure_apply, htm]

theorem expr_hat_semantics_apply (t_in t2 : expr_type) (p : Parser) :
    (if t2 = .INT_T then (pure expr_type.INT_T : M expr_type)
      else do type_error .INT_T t2; pure t_in) p
      = checked (expr_hat_errors t2) (expr_hat_result t_in t2) p := by
  unfold expr_hat_errors expr_hat_result
  by_cases h : t2 = .INT_T
  · simp [h, checked, pure_apply]
  · cases htm : p.test_mode <;>
   simp [h, if_false, bind_apply, type_error_apply, checked, pure_apply, htm]

theorem simple_expr_semantics_apply (t0 t1 prm : expr_type) (p : Parser) :
    simple_expr_semantics t0 t1 prm p
      = checked (chain_head_errors t1 prm) (chain_head_result t0 t1 prm) p := by
  unfold simple_expr_semantics chain_head_errors chain_head_result
  by_cases h1 : prm = .NO_T
  · simp [h1, checked, pure_apply]
  · by_cases h2 : t1 = prm
    · simp [h1, h2, checked, pure_apply]
    · cases htm : p.test_mode <;>
   simp [h1, h2, if_false, bind_apply, type_error_apply, checked, pure_apply, htm]

theorem term_semantics_apply (t0 t1 prm : expr_type) (p : Parser) :
    term_semantics t0 t1 prm p
      = checked (chain_head_errors t1 prm) (chain_head_result t0 t1 prm) p := by
  unfold term_semantics chain_head_errors chain_head_result
  by_cases h1 : prm = .NO_T
  · simp [h1, checked, pure_apply]
  · by_cases h2 : t1 = prm
    · simp [h1, h2, checked, pure_apply]
    · cases htm : p.test_mode <;>
   simp [h1, h2, if_false, bind_apply, type_error_apply, checked, pure_apply, htm]

theorem simple_expr_prm_semantics_apply (t0 a t prm : expr_type) (p : Parser) :
    simple_expr_prm_semantics t0 a t prm p
      = checked (chain_link_errors a t prm) (chain_link_result t0 a t prm) p := by
  unfold simple_expr_prm_semantics chain_link_errors chain_link_result
  by_cases h1 : prm = .NO_T
  · by_cases h2 : a = t
    · simp [h1, h2, checked, pure_apply]
    · cases htm : p.test_mode <;>
   simp [h1, h2, if_true, if_false, bind_apply, type_error_apply, checked, pure_apply, htm]
  · by_cases h2 : a = t ∧ t = prm
    · simp [h1, h2, checked, pure_apply]
    · cases htm : p.test_mode <;>
   simp [h1, h2, if_false, bind_apply, type_error2_apply, checked, pure_apply, htm]

theorem term_prm_semantics_apply (t0 m f prm : expr_type) (p : Parser) :
    term_prm_semantics t0 m f prm p
      = checked (chain_link_errors m f prm) (chain_link_result t0 m f prm) p := by
  unfold term_prm_semantics chain_link_errors chain_link_result
  by_cases h1 : prm = .NO_T
  · by_cases h2 : m = f
    · simp [h1, h2, checked, pure_apply]
    · have h3 : ¬ (m = f ∧ f = .NO_T) := fun h => h2 h.1
      cases htm : p.test_mode <;>
        simp [h1, h2, h3, and_false, and_true, if_true, if_false, bind_apply, type_error_apply,
        checked, pure_apply, htm]
  · by_cases h2 : m = f ∧ f = prm
    · simp [h1, h2, checked, pure_apply]
    · cases htm : p.test_mode <;>
   simp [h1, h2, false_and, if_false, bind_apply, type_error2_apply, checked, pure_apply, htm]

theorem report_all_nil (p : Parser) : report_all [] p = p := by
  simp [report_all]

theorem checked_ok {α : Type} (errs : List Diagnostic) (a : α) (p : Parser)
    (h : p.test_mode = true ∨ errs = []) (hlen : errs.length ≤ 1) :
    checked errs a p = .ok a (report_all errs p) := by
  unfold checked
  cases errs with
  | nil => simp [report_all_nil]
  | cons d ds =>
    have hds : ds = [] := by
      cases ds with
      | nil => rfl
      | cons x xs => simp at hlen
    have htm : p.test_mode = true := by
      rcases h with h | h
      · exact h
      · simp at h
    simp [htm, hds]

theorem checked_exit {α : Type} (d : Diagnostic) (ds : List Diagnostic) (a : α) (p : Parser)
    (h : p.test_mode = false) :
    checked (d :: ds) a p = .halt .exit_failure (report_all [d] p) := by
  simp [checked, h]

/-- The results of a block that ends the run or returns agree with its
record on the mode and the diagnostics when the block keeps them. -/
theorem keeps_of_ok {α : Type} {x : M α} (hx : keeps_semantic_state x) {p q : Parser} {a : α}
    (h : x p = .ok a q) : q.diagnostics = p.diagnostics ∧ q.test_mode = p.test_mode := by
  have h1 := hx p
  rw [h] at h1
  exact ⟨h1.1, congrArg (fun e => e.1) h1.2⟩

/-! ### Code generation writes no diagnostic and keeps the environment -/

theorem keeps_bind {α β : Type} {x : M α} {f : α → M β} (hx : keeps_semantic_state x)
    (hf : ∀ a, keeps_semantic_state (f a)) : keeps_semantic_state (x >>= f) := by
  intro p
  have h1 := hx p
  rw [bind_apply]
  cases hxp : x p with
  | ok a p1 =>
    rw [hxp] at h1
    exact ⟨(hf a p1).1.trans h1.1, (hf a p1).2.trans h1.2⟩
  | halt h p1 =>
    rw [hxp] at h1
    exact h1

theorem keeps_pure {α : Type} (a : α) : keeps_semantic_state (pure a : M α) := fun _ => ⟨rfl, rfl⟩

theorem keeps_ite {α : Type} {c : Prop} [Decidable c] {x y : M α}
    (hx : keeps_semantic_state x) (hy : keeps_semantic_state y) :
    keeps_semantic_state (if c then x else y) := by
  split <;> assumption

theorem keeps_halt_with {α : Type} (h : Halt) : keeps_semantic_state (halt_with h : M α) :=
  fun _ => ⟨rfl, rfl⟩

theorem keeps_getp : keeps_semantic_state getp := fun _ => ⟨rfl, rfl⟩

theorem keeps_get_word : keeps_semantic_state get_word := fun _ => ⟨rfl, rfl⟩

theorem keeps_has_free_register : keeps_semantic_state has_free_register := fun _ => ⟨rfl, rfl⟩

theorem keeps_emit (i : IR) : keeps_semantic_state (emit i) := fun _ => ⟨rfl, rfl⟩

theorem keeps_get_new_label (stem : String) : keeps_semantic_state (get_new_label stem) :=
  fun _ => ⟨rfl, rfl⟩

theorem keeps_advance : keeps_semantic_state advance := by
  intro p
  simp only [advance, modifyp, Parser.advanced]
  cases p.lex <;> exact ⟨rfl, rfl⟩

theorem keeps_operand_at (x : Nat) : keeps_semantic_state (operand_at x) := by
  intro p
  unfold operand_at
  split <;> exact ⟨rfl, rfl⟩

theorem keeps_allocate_register : keeps_semantic_state allocate_register := by
  intro p
  unfold allocate_register
  split <;> exact ⟨rfl, rfl⟩

theorem keeps_deallocate_register (r : Register) : keeps_semantic_state (deallocate_register r) := by
  intro p
  unfold deallocate_register
  split <;> exact ⟨rfl, rfl⟩

theorem keeps_allocate_spill_memory : keeps_semantic_state allocate_spill_memory := by
  intro p
  unfold allocate_spill_memory
  split <;> exact ⟨rfl, rfl⟩

theorem keeps_deallocate_spill_memory (l : String) :
    keeps_semantic_state (deallocate_spill_memory l) := fun _ => ⟨rfl, rfl⟩

theorem keeps_last_register_op_r_value : keeps_semantic_state last_register_op_r_value := by
  intro p
  unfold last_register_op_r_value
  split
  · exact ⟨rfl, rfl⟩
  · split <;> exact ⟨rfl, rfl⟩

theorem keeps_assign_operand (x : Nat) (o : Operand) : keeps_semantic_state (assign_operand x o) :=
  fun _ => ⟨rfl, rfl⟩

theorem keeps_assign_last_register_op (o : Operand) :
    keeps_semantic_state (assign_last_register_op o) := by
  intro p
  unfold assign_last_register_op
  split <;> exact ⟨rfl, rfl⟩

theorem keeps_delete_operand (x : Nat) : keeps_semantic_state (delete_operand x) := fun _ => ⟨rfl, rfl⟩

theorem keeps_set_last_register_op (x : Nat) : keeps_semantic_state (set_last_register_op x) :=
  fun _ => ⟨rfl, rfl⟩

theorem keeps_end_of_scope (x : Nat) : keeps_semantic_state (end_of_scope x) := fun _ => ⟨rfl, rfl⟩

theorem keeps_new_operand_slot (o : Option Operand) : keeps_semantic_state (new_operand_slot o) :=
  fun _ => ⟨rfl, rfl⟩

theorem keeps_emit_compare_branches (c : relop_attr) (r : Register) (l : String) :
    keeps_semantic_state (emit_compare_branches c r l) := by
  cases c <;> unfold emit_compare_branches <;>
    first
      | exact keeps_emit _
      | exact keeps_bind (keeps_emit _) (fun _ => keeps_emit _)

theorem keeps_emit_move_operand (b : Bool) (r : Register) (o : Operand) :
    keeps_semantic_state (emit_move_operand b r o) := by
  cases o <;> unfold emit_move_operand
  repeat (with_reducible first
    | exact keeps_pure _ | exact keeps_getp | exact keeps_get_word
    | exact keeps_has_free_register | exact keeps_emit _ | exact keeps_get_new_label _
    | exact keeps_operand_at _ | exact keeps_allocate_register
    | exact keeps_deallocate_register _ | exact keeps_allocate_spill_memory
    | exact keeps_deallocate_spill_memory _ | exact keeps_last_register_op_r_value
    | exact keeps_assign_last_register_op _ | exact keeps_assign_operand _ _
    | exact keeps_delete_operand _ | exact keeps_set_last_register_op _
    | exact keeps_end_of_scope _ | exact keeps_new_operand_slot _ | exact keeps_halt_with _
    | refine keeps_bind ?_ (fun _ => ?_) | refine keeps_ite ?_ ?_ | split)

theorem keeps_spill_last_register_op  :
    keeps_semantic_state (spill_last_register_op) := by
  unfold spill_last_register_op
  repeat (with_reducible first
    | exact keeps_pure _ | exact keeps_getp | exact keeps_get_word
    | exact keeps_has_free_register | exact keeps_emit _ | exact keeps_get_new_label _
    | exact keeps_operand_at _ | exact keeps_allocate_register
    | exact keeps_deallocate_register _ | exact keeps_allocate_spill_memory
    | exact keeps_deallocate_spill_memory _ | exact keeps_last_register_op_r_value
    | exact keeps_assign_last_register_op _ | exact keeps_assign_operand _ _
    | exact keeps_delete_operand _ | exact keeps_set_last_register_op _
    | exact keeps_end_of_scope _ | exact keeps_new_operand_slot _ | exact keeps_halt_with _
    | refine keeps_bind ?_ (fun _ => ?_) | refine keeps_ite ?_ ?_ | split)

theorem keeps_left_op_into_register (b : Bool) (x : Nat) :
    keeps_semantic_state (left_op_into_register b x) := by
  unfold left_op_into_register
  repeat (with_reducible first
    | exact keeps_pure _ | exact keeps_getp | exact keeps_get_word
    | exact keeps_has_free_register | exact keeps_emit _ | exact keeps_get_new_label _
    | exact keeps_operand_at _ | exact keeps_allocate_register
    | exact keeps_deallocate_register _ | exact keeps_allocate_spill_memory
    | exact keeps_deallocate_spill_memory _ | exact keeps_last_register_op_r_value
    | exact keeps_assign_last_register_op _ | exact keeps_assign_operand _ _
    | exact keeps_delete_operand _ | exact keeps_set_last_register_op _
    | exact keeps_end_of_scope _ | exact keeps_new_operand_slot _ | exact keeps_halt_with _
    | exact keeps_spill_last_register_op | exact keeps_emit_move_operand _ _ _
    | refine keeps_bind ?_ (fun _ => ?_) | refine keeps_ite ?_ ?_ | split)

theorem keeps_expression_into_register (x : Nat) :
    keeps_semantic_state (expression_into_register x) := by
  unfold expression_into_register
  repeat (with_reducible first
    | exact keeps_pure _ | exact keeps_getp | exact keeps_get_word
    | exact keeps_has_free_register | exact keeps_emit _ | exact keeps_get_new_label _
    | exact keeps_operand_at _ | exact keeps_allocate_register
    | exact keeps_deallocate_register _ | exact keeps_allocate_spill_memory
    | exact keeps_deallocate_spill_memory _ | exact keeps_last_register_op_r_value
    | exact keeps_assign_last_register_op _ | exact keeps_assign_operand _ _
    | exact keeps_delete_operand _ | exact keeps_set_last_register_op _
    | exact keeps_end_of_scope _ | exact keeps_new_operand_slot _ | exact keeps_halt_with _
    | exact keeps_spill_last_register_op | exact keeps_emit_move_operand _ _ _
    | refine keeps_bind ?_ (fun _ => ?_) | refine keeps_ite ?_ ?_ | split)

theorem keeps_emit_2addr_operand (i : inst_type) (r : Register) (x : Nat) :
    keeps_semantic_state (emit_2addr_operand i r x) := by
  unfold emit_2addr_operand
  repeat (with_reducible first
    | exact keeps_pure _ | exact keeps_getp | exact keeps_get_word
    | exact keeps_has_free_register | exact keeps_emit _ | exact keeps_get_new_label _
    | exact keeps_operand_at _ | exact keeps_allocate_register
    | exact keeps_deallocate_register _ | exact keeps_allocate_spill_memory
    | exact keeps_deallocate_spill_memory _ | exact keeps_last_register_op_r_value
    | exact keeps_assign_last_register_op _ | exact keeps_assign_operand _ _
    | exact keeps_delete_operand _ | exact keeps_set_last_register_op _
    | exact keeps_end_of_scope _ | exact keeps_new_operand_slot _ | exact keeps_halt_with _
    | refine keeps_bind ?_ (fun _ => ?_) | refine keeps_ite ?_ ?_ | split)

theorem keeps_release_right_op (x : Nat) :
    keeps_semantic_state (release_right_op x) := by
  unfold release_right_op
  repeat (with_reducible first
    | exact keeps_pure _ | exact keeps_getp | exact keeps_get_word
    | exact keeps_has_free_register | exact keeps_emit _ | exact keeps_get_new_label _
    | exact keeps_operand_at _ | exact keeps_allocate_register
    | exact keeps_deallocate_register _ | exact keeps_allocate_spill_memory
    | exact keeps_deallocate_spill_memory _ | exact keeps_last_register_op_r_value
    | exact keeps_assign_last_register_op _ | exact keeps_assign_operand _ _
    | exact keeps_delete_operand _ | exact keeps_set_last_register_op _
    | exact keeps_end_of_scope _ | exact keeps_new_operand_slot _ | exact keeps_halt_with _
    | refine keeps_bind ?_ (fun _ => ?_) | refine keeps_ite ?_ ?_ | split)

theorem keeps_relop_codegen (c : relop_attr) (l r : Nat) :
    keeps_semantic_state (relop_codegen c l r) := by
  unfold relop_codegen
  repeat (with_reducible first
    | exact keeps_pure _ | exact keeps_getp | exact keeps_get_word
    | exact keeps_has_free_register | exact keeps_emit _ | exact keeps_get_new_label _
    | exact keeps_operand_at _ | exact keeps_allocate_register
    | exact keeps_deallocate_register _ | exact keeps_allocate_spill_memory
    | exact keeps_deallocate_spill_memory _ | exact keeps_last_register_op_r_value
    | exact keeps_assign_last_register_op _ | exact keeps_assign_operand _ _
    | exact keeps_delete_operand _ | exact keeps_set_last_register_op _
    | exact keeps_end_of_scope _ | exact keeps_new_operand_slot _ | exact keeps_halt_with _
    | exact keeps_left_op_into_register _ _ | exact keeps_expression_into_register _
    | exact keeps_emit_2addr_operand _ _ _ | exact keeps_release_right_op _
    | exact keeps_emit_compare_branches _ _ _ | refine keeps_bind ?_ (fun _ => ?_)
    | refine keeps_ite ?_ ?_ | split)

theorem keeps_addop_codegen (a : addop_attr) (l r : Nat) :
    keeps_semantic_state (addop_codegen a l r) := by
  unfold addop_codegen
  repeat (with_reducible first
    | exact keeps_pure _ | exact keeps_getp | exact keeps_get_word
    | exact keeps_has_free_register | exact keeps_emit _ | exact keeps_get_new_label _
    | exact keeps_operand_at _ | exact keeps_allocate_register
    | exact keeps_deallocate_register _ | exact keeps_allocate_spill_memory
    | exact keeps_deallocate_spill_memory _ | exact keeps_last_register_op_r_value
    | exact keeps_assign_last_register_op _ | exact keeps_assign_operand _ _
    | exact keeps_delete_operand _ | exact keeps_set_last_register_op _
    | exact keeps_end_of_scope _ | exact keeps_new_operand_slot _ | exact keeps_halt_with _
    | exact keeps_left_op_into_register _ _ | exact keeps_expression_into_register _
    | exact keeps_emit_2addr_operand _ _ _ | exact keeps_release_right_op _
    | exact keeps_emit_compare_branches _ _ _ | refine keeps_bind ?_ (fun _ => ?_)
    | refine keeps_ite ?_ ?_ | split)

theorem keeps_mulop_codegen (m : mulop_attr) (l r : Nat) :
    keeps_semantic_state (mulop_codegen m l r) := by
  unfold mulop_codegen
  repeat (with_reducible first
    | exact keeps_pure _ | exact keeps_getp | exact keeps_get_word
    | exact keeps_has_free_register | exact keeps_emit _ | exact keeps_get_new_label _
    | exact keeps_operand_at _ | exact keeps_allocate_register
    | exact keeps_deallocate_register _ | exact keeps_allocate_spill_memory
    | exact keeps_deallocate_spill_memory _ | exact keeps_last_register_op_r_value
    | exact keeps_assign_last_register_op _ | exact keeps_assign_operand _ _
    | exact keeps_delete_operand _ | exact keeps_set_last_register_op _
    | exact keeps_end_of_scope _ | exact keeps_new_operand_slot _ | exact keeps_halt_with _
    | exact keeps_left_op_into_register _ _ | exact keeps_expression_into_register _
    | exact keeps_emit_2addr_operand _ _ _ | exact keeps_release_right_op _
    | exact keeps_emit_compare_branches _ _ _ | refine keeps_bind ?_ (fun _ => ?_)
    | refine keeps_ite ?_ ?_ | split)

theorem keeps_sign_codegen (s : Int) (op : Nat) :
    keeps_semantic_state (sign_codegen s op) := by
  unfold sign_codegen
  repeat (with_reducible first
    | exact keeps_pure _ | exact keeps_getp | exact keeps_get_word
    | exact keeps_has_free_register | exact keeps_emit _ | exact keeps_get_new_label _
    | exact keeps_operand_at _ | exact keeps_allocate_register
    | exact keeps_deallocate_register _ | exact keeps_allocate_spill_memory
    | exact keeps_deallocate_spill_memory _ | exact keeps_last_register_op_r_value
    | exact keeps_assign_last_register_op _ | exact keeps_assign_operand _ _
    | exact keeps_delete_operand _ | exact keeps_set_last_register_op _
    | exact keeps_end_of_scope _ | exact keeps_new_operand_slot _ | exact keeps_halt_with _
    | exact keeps_left_op_into_register _ _ | exact keeps_expression_into_register _
    | exact keeps_emit_2addr_operand _ _ _ | exact keeps_release_right_op _
    | exact keeps_emit_compare_branches _ _ _ | refine keeps_bind ?_ (fun _ => ?_)
    | refine keeps_ite ?_ ?_ | split)

theorem keeps_print_codegen (x : Nat) :
    keeps_semantic_state (print_codegen x) := by
  unfold print_codegen
  repeat (with_reducible first
    | exact keeps_pure _ | exact keeps_getp | exact keeps_get_word
    | exact keeps_has_free_register | exact keeps_emit _ | exact keeps_get_new_label _
    | exact keeps_operand_at _ | exact keeps_allocate_register
    | exact keeps_deallocate_register _ | exact keeps_allocate_spill_memory
    | exact keeps_deallocate_spill_memory _ | exact keeps_last_register_op_r_value
    | exact keeps_assign_last_register_op _ | exact keeps_assign_operand _ _
    | exact keeps_delete_operand _ | exact keeps_set_last_register_op _
    | exact keeps_end_of_scope _ | exact keeps_new_operand_slot _ | exact keeps_halt_with _
    | exact keeps_left_op_into_register _ _ | exact keeps_expression_into_register _
    | exact keeps_emit_2addr_operand _ _ _ | exact keeps_release_right_op _
    | exact keeps_emit_compare_branches _ _ _ | refine keeps_bind ?_ (fun _ => ?_)
    | refine keeps_ite ?_ ?_ | split)

theorem keeps_assignment_codegen (id : String) (x : Nat) :
    keeps_semantic_state (assignment_codegen id x) := by
  unfold assignment_codegen
  repeat (with_reducible first
    | exact keeps_pure _ | exact keeps_getp | exact keeps_get_word
    | exact keeps_has_free_register | exact keeps_emit _ | exact keeps_get_new_label _
    | exact keeps_operand_at _ | exact keeps_allocate_register
    | exact keeps_deallocate_register _ | exact keeps_allocate_spill_memory
    | exact keeps_deallocate_spill_memory _ | exact keeps_last_register_op_r_value
    | exact keeps_assign_last_register_op _ | exact keeps_assign_operand _ _
    | exact keeps_delete_operand _ | exact keeps_set_last_register_op _
    | exact keeps_end_of_scope _ | exact keeps_new_operand_slot _ | exact keeps_halt_with _
    | exact keeps_left_op_into_register _ _ | exact keeps_expression_into_register _
    | exact keeps_emit_2addr_operand _ _ _ | exact keeps_release_right_op _
    | exact keeps_emit_compare_branches _ _ _ | refine keeps_bind ?_ (fun _ => ?_)
    | refine keeps_ite ?_ ?_ | split)

theorem keeps_if_condition_codegen (x : Nat) :
    keeps_semantic_state (if_condition_codegen x) := by
  unfold if_condition_codegen
  repeat (with_reducible first
    | exact keeps_pure _ | exact keeps_getp | exact keeps_get_word
    | exact keeps_has_free_register | exact keeps_emit _ | exact keeps_get_new_label _
    | exact keeps_operand_at _ | exact keeps_allocate_register
    | exact keeps_deallocate_register _ | exact keeps_allocate_spill_memory
    | exact keeps_deallocate_spill_memory _ | exact keeps_last_register_op_r_value
    | exact keeps_assign_last_register_op _ | exact keeps_assign_operand _ _
    | exact keeps_delete_operand _ | exact keeps_set_last_register_op _
    | exact keeps_end_of_scope _ | exact keeps_new_operand_slot _ | exact keeps_halt_with _
    | exact keeps_left_op_into_register _ _ | exact keeps_expression_into_register _
    | exact keeps_emit_2addr_operand _ _ _ | exact keeps_release_right_op _
    | exact keeps_emit_compare_branches _ _ _ | refine keeps_bind ?_ (fun _ => ?_)
    | refine keeps_ite ?_ ?_ | split)

theorem keeps_while_condition_codegen (l : String) (x : Nat) :
    keeps_semantic_state (while_condition_codegen l x) := by
  unfold while_condition_codegen
  repeat (with_reducible first
    | exact keeps_pure _ | exact keeps_getp | exact keeps_get_word
    | exact keeps_has_free_register | exact keeps_emit _ | exact keeps_get_new_label _
    | exact keeps_operand_at _ | exact keeps_allocate_register
    | exact keeps_deallocate_register _ | exact keeps_allocate_spill_memory
    | exact keeps_deallocate_spill_memory _ | exact keeps_last_register_op_r_value
    | exact keeps_assign_last_register_op _ | exact keeps_assign_operand _ _
    | exact keeps_delete_operand _ | exact keeps_set_last_register_op _
    | exact keeps_end_of_scope _ | exact keeps_new_operand_slot _ | exact keeps_halt_with _
    | exact keeps_left_op_into_register _ _ | exact keeps_expression_into_register _
    | exact keeps_emit_2addr_operand _ _ _ | exact keeps_release_right_op _
    | exact keeps_emit_compare_branches _ _ _ | refine keeps_bind ?_ (fun _ => ?_)
    | refine keeps_ite ?_ ?_ | split)

theorem keeps_report (d : Diagnostic) (p : Parser) :
    environment (report d p).parser = environment p := rfl

theorem environment_checked {α : Type} (errs : List Diagnostic) (a : α) (p : Parser) :
    environment (checked errs a p).parser = environment p := by
  unfold checked
  cases errs with
  | nil => rfl
  | cons d ds => cases p.test_mode <;> rfl

theorem environment_preserves_of_keeps {α : Type} {x : M α} (hx : keeps_semantic_state x)
    (e : Bool × Symbol_Table × String × String) :
    preserves (fun p => environment p = e) (fun _ p => environment p = e) x := by
  intro p hp
  have h1 := (hx p).2
  cases hxp : x p with
  | ok a q => rw [hxp] at h1; exact h1.trans hp
  | halt h q => rw [hxp] at h1; exact h1.trans hp

theorem environment_preserves_of_eq {α : Type} {x : M α}
    (hx : ∀ p, environment (x p).parser = environment p)
    (e : Bool × Symbol_Table × String × String) :
    preserves (fun p => environment p = e) (fun _ p => environment p = e) x := by
  intro p hp
  have h1 := hx p
  cases hxp : x p with
  | ok a q => rw [hxp] at h1; exact h1.trans hp
  | halt h q => rw [hxp] at h1; exact h1.trans hp

/-- The basic blocks of the expression productions leave the mode, the symbol
table and the environments as they are. -/
theorem environment_block_invariant (e : Bool × Symbol_Table × String × String) :
    ExprBlockInvariant (fun p => environment p = e) (fun _ p => environment p = e) where
  out_of_fuel := fun _ h => h
  advance := environment_preserves_of_keeps keeps_advance e
  parse_error := fun a b => environment_preserves_of_eq (x := parse_error a b) (fun _ => rfl) e
  undeclared_identifier := fun id => environment_preserves_of_eq (fun p => by
    simp only [undeclared_identifier, bind_apply, report_apply, exit_unless_test_mode]
    cases h : p.test_mode <;> simp [report_all, h, environment, Res.parser]) e
  type_error := fun a b => environment_preserves_of_eq (fun p => by
    rw [type_error_apply]; exact environment_checked _ _ _) e
  type_error2 := fun a b c => environment_preserves_of_eq (fun p => by
    rw [type_error2_apply]; exact environment_checked _ _ _) e
  new_operand_slot_null := environment_preserves_of_keeps (keeps_new_operand_slot _) e
  end_of_scope := fun _ => environment_preserves_of_keeps (keeps_end_of_scope _) e
  assign_memory := fun _ _ => environment_preserves_of_keeps (keeps_assign_operand _ _) e
  assign_immediate := fun _ _ => environment_preserves_of_keeps (keeps_assign_operand _ _) e
  relop_codegen := fun _ _ _ => environment_preserves_of_keeps (keeps_relop_codegen _ _ _) e
  addop_codegen := fun _ _ _ => environment_preserves_of_keeps (keeps_addop_codegen _ _ _) e
  mulop_codegen := fun _ _ _ => environment_preserves_of_keeps (keeps_mulop_codegen _ _ _) e
  sign_codegen := fun _ _ => environment_preserves_of_keeps (keeps_sign_codegen _ _) e

/-- Parsing an expression leaves the mode, the symbol table and the
environments as they are, whether it returns or the run is ended. -/
theorem parse_expr_environment (fuel : Nat) (t : expr_type) (op : Nat) (p : Parser) :
    environment (parse_expr fuel t op p).parser = environment p := by
  have h := (preserves_expression_productions (environment_block_invariant (environment p))
    fuel).1 t op p rfl
  cases hx : parse_expr fuel t op p with
  | ok a q => rw [hx] at h; exact h
  | halt hh q => rw [hx] at h; exact h

/-! ### Typing of chains of binary operators -/

theorem relop_errors_nil_iff (t1 t2 : expr_type) :
    expr_hat_errors t2 ++ expr_errors t1 (expr_hat_result .GARBAGE_T t2) = []
      ↔ (t1 = .INT_T ∧ t2 = .INT_T) := by
  cases t1 <;> cases t2 <;> simp [expr_hat_errors, expr_errors, expr_hat_result]

/-- The alternative `EXPR -> SIMPLE_EXPR relop SIMPLE_EXPR` of `parse_expr`,
with the two semantic checks written as `checked`. -/
theorem parse_expr_relop (fuel : Nat) (t0 : expr_type) (op r : Nat) (c : relop_attr)
    (p p1 pa p2 : Parser) (t1 t2 : expr_type)
    (hS1 : parse_simple_expr (fuel + 1) .GARBAGE_T op p = .ok (true, t1) p1)
    (hword : p1.word = .TOKEN_RELOP c)
    (hpre : (do advance; new_operand_slot none) p1 = .ok r pa)
    (hS2 : parse_simple_expr fuel .GARBAGE_T r pa = .ok (true, t2) p2) :
    parse_expr (fuel + 2) t0 op p
      = (do
          checked (expr_hat_errors t2) ()
          relop_codegen c op r
          end_of_scope r
          checked (expr_errors t1 (expr_hat_result .GARBAGE_T t2)) ()
          pure (true, expr_result t0 t1 (expr_hat_result .GARBAGE_T t2))) p2 := by
  have hpre1 : new_operand_slot none p1.advanced = .ok r pa := by
    simpa [bind_apply, advance_apply] using hpre
  rw [parse_expr]
  simp only [bind_apply, hS1, if_true]
  rw [parse_expr_hat]
  simp only [bind_apply, get_word_apply, hword, advance_apply, hpre1, hS2, if_true]
  have hfin : ∀ (hat : expr_type) (q : Parser),
      ((expr_semantics t0 t1 hat >>= fun result => pure (true, result)) :
          M (Bool × expr_type)) q
      = ((checked (expr_errors t1 hat) () >>= fun _ => pure (true, expr_result t0 t1 hat)) :
          M (Bool × expr_type)) q := by
    intro hat q
    rw [bind_apply, bind_apply, expr_semantics_apply]
    unfold checked
    cases expr_errors t1 hat with
    | nil => rfl
    | cons d ds => cases q.test_mode <;> rfl
  by_cases h2 : t2 = .INT_T
  · simp only [h2, if_true, bind_apply, pure_apply, expr_hat_errors, expr_hat_result, checked_nil]
    cases hc : relop_codegen c op r p2 with
    | halt h q => rfl
    | ok u q =>
      simp only [end_of_scope, modifyp_apply, if_true]
      rw [hfin]
      simp only [bind_apply, pure_apply]
  · have he : expr_hat_errors t2 = [.type_error .INT_T t2] := by simp [expr_hat_errors, h2]
    simp only [h2, if_false, bind_apply, pure_apply, type_error_apply, expr_hat_result, he]
    cases hk : checked [Diagnostic.type_error .INT_T t2] () p2 with
    | halt h q => rfl
    | ok u0 q0 =>
      simp only []
      cases hc : relop_codegen c op r q0 with
      | halt h q => rfl
      | ok u q =>
        simp only [end_of_scope, modifyp_apply, if_true]
        rw [hfin]
        simp only [bind_apply, pure_apply]

theorem expr_hat_errors_length (t : expr_type) : (expr_hat_errors t).length ≤ 1 := by
  unfold expr_hat_errors; split <;> simp

theorem expr_errors_length (t1 hat : expr_type) : (expr_errors t1 hat).length ≤ 1 := by
  unfold expr_errors; split
  · simp
  · split <;> simp

theorem parse_sign_of_is_sign (t : expr_type) (p : Parser) (h : is_sign p.word = true) :
    parse_sign t p = (do advance; pure (true, sign_type_of p.word)) p := by
  unfold is_sign at h
  unfold parse_sign sign_type_of
  cases h1 : is_addop_attr p.word .ADDOP_ADD
  · cases h2 : is_addop_attr p.word .ADDOP_SUB
    · have h3 : is_keyword p.word .KW_NOT = true := by simpa [h1, h2] using h
      simp [bind_apply, get_word_apply, h1, h2, h3]
    · simp [bind_apply, get_word_apply, h1, h2]
  · simp [bind_apply, get_word_apply, h1]

theorem is_sign_not_id {w : Token} (h : is_sign w = true) :
    (∀ id, w ≠ .TOKEN_ID id) ∧ (∀ n, w ≠ .TOKEN_NUM n) ∧ is_punctuation w .PUNC_OPEN = false := by
  cases w <;> simp_all [is_sign, is_addop_attr, is_keyword, is_punctuation]

/-- The signed-factor alternative of `parse_factor`, unfolded. -/
theorem parse_factor_sign (fuel : Nat) (factor0_type : expr_type) (op : Nat) (p : Parser)
    (hsign : is_sign p.word = true) :
    parse_factor (fuel + 1) factor0_type op p
      = (do
          advance
          let factor1 ← parse_factor fuel .GARBAGE_T op
          if factor1.1 then
            if sign_type_of p.word ≠ factor1.2 then
              type_error (sign_type_of p.word) factor1.2
            sign_codegen (sign_operation_of p.word) op
            pure (true, factor1.2)
          else
            pure (false, factor0_type)) p := by
  obtain ⟨h1, h2, h3⟩ := is_sign_not_id hsign
  have hs : (is_addop_attr p.word .ADDOP_ADD || is_addop_attr p.word .ADDOP_SUB
      || is_keyword p.word .KW_NOT) = true := hsign
  rw [parse_factor]
  simp only [bind_apply, get_word_apply]
  split
  · rename_i h
    rw [h3] at h
    exact absurd h (by simp)
  · simp only [parse_sign_of_is_sign _ _ hsign, bind_apply, pure_apply, advance_apply, if_true]

/-! ### Code generation touches nothing but its own state -/

theorem only_codegen_bind {α β : Type} {x : M α} {f : α → M β} (hx : only_codegen x)
    (hf : ∀ a, only_codegen (f a)) : only_codegen (x >>= f) := by
  intro p
  have h1 := hx p
  rw [bind_apply]
  cases hxp : x p with
  | ok a p1 =>
    rw [hxp] at h1
    exact (hf a p1).trans h1
  | halt h p1 =>
    rw [hxp] at h1
    exact h1

theorem only_codegen_pure {α : Type} (a : α) : only_codegen (pure a : M α) := fun _ => rfl

theorem only_codegen_ite {α : Type} {c : Prop} [Decidable c] {x y : M α}
    (hx : only_codegen x) (hy : only_codegen y) :
    only_codegen (if c then x else y) := by
  split <;> assumption

theorem only_codegen_halt_with {α : Type} (h : Halt) : only_codegen (halt_with h : M α) :=
  fun _ => rfl

theorem only_codegen_getp : only_codegen getp := fun _ => rfl

theorem only_codegen_get_word : only_codegen get_word := fun _ => rfl

theorem only_codegen_has_free_register : only_codegen has_free_register := fun _ => rfl

theorem only_codegen_emit (i : IR) : only_codegen (emit i) := fun _ => rfl

theorem only_codegen_get_new_label (stem : String) : only_codegen (get_new_label stem) :=
  fun _ => rfl

theorem only_codegen_operand_at (x : Nat) : only_codegen (operand_at x) := by
  intro p
  unfold operand_at
  split <;> exact rfl

theorem only_codegen_allocate_register : only_codegen allocate_register := by
  intro p
  unfold allocate_register
  split <;> exact rfl

theorem only_codegen_deallocate_register (r : Register) : only_codegen (deallocate_register r) := by
  intro p
  unfold deallocate_register
  split <;> exact rfl

theorem only_codegen_allocate_spill_memory : only_codegen allocate_spill_memory := by
  intro p
  unfold allocate_spill_memory
  split <;> exact rfl

theorem only_codegen_deallocate_spill_memory (l : String) :
    only_codegen (deallocate_spill_memory l) := fun _ => rfl

theorem only_codegen_last_register_op_r_value : only_codegen last_register_op_r_value := by
  intro p
  unfold last_register_op_r_value
  split
  · exact rfl
  · split <;> exact rfl

theorem only_codegen_assign_operand (x : Nat) (o : Operand) : only_codegen (assign_operand x o) :=
  fun _ => rfl

theorem only_codegen_assign_last_register_op (o : Operand) :
    only_codegen (assign_last_register_op o) := by
  intro p
  unfold assign_last_register_op
  split <;> exact rfl

theorem only_codegen_delete_operand (x : Nat) : only_codegen (delete_operand x) := fun _ => rfl

theorem only_codegen_set_last_register_op (x : Nat) : only_codegen (set_last_register_op x) :=
  fun _ => rfl

theorem only_codegen_end_of_scope (x : Nat) : only_codegen (end_of_scope x) := fun _ => rfl

theorem only_codegen_new_operand_slot (o : Option Operand) : only_codegen (new_operand_slot o) :=
  fun _ => rfl

theorem only_codegen_emit_compare_branches (c : relop_attr) (r : Register) (l : String) :
    only_codegen (emit_compare_branches c r l) := by
  cases c <;> unfold emit_compare_branches <;>
    first
      | exact only_codegen_emit _
      | exact only_codegen_bind (only_codegen_emit _) (fun _ => only_codegen_emit _)

theorem only_codegen_emit_move_operand (b : Bool) (r : Register) (o : Operand) :
    only_codegen (emit_move_operand b r o) := by
  cases o <;> unfold emit_move_operand
  repeat (with_reducible first
    | exact only_codegen_pure _ | exact only_codegen_getp | exact only_codegen_get_word
    | exact only_codegen_has_free_register | exact only_codegen_emit _
    | exact only_codegen_get_new_label _ | exact only_codegen_operand_at _
    | exact only_codegen_allocate_register | exact only_codegen_deallocate_register _
    | exact only_codegen_allocate_spill_memory | exact only_codegen_deallocate_spill_memory _
    | exact only_codegen_last_register_op_r_value | exact only_codegen_assign_last_register_op _
    | exact only_codegen_assign_operand _ _ | exact only_codegen_delete_operand _
    | exact only_codegen_set_last_register_op _ | exact only_codegen_end_of_scope _
    | exact only_codegen_new_operand_slot _ | exact only_codegen_halt_with _
    | refine only_codegen_bind ?_ (fun _ => ?_) | refine only_codegen_ite ?_ ?_ | split)

theorem only_codegen_spill_last_register_op  :
    only_codegen (spill_last_register_op) := by
  unfold spill_last_register_op
  repeat (with_reducible first
    | exact only_codegen_pure _ | exact only_codegen_getp | exact only_codegen_get_word
    | exact only_codegen_has_free_register | exact only_codegen_emit _
    | exact only_codegen_get_new_label _ | exact only_codegen_operand_at _
    | exact only_codegen_allocate_register | exact only_codegen_deallocate_register _
    | exact only_codegen_allocate_spill_memory | exact only_codegen_deallocate_spill_memory _
    | exact only_codegen_last_register_op_r_value | exact only_codegen_assign_last_register_op _
    | exact only_codegen_assign_operand _ _ | exact only_codegen_delete_operand _
    | exact only_codegen_set_last_register_op _ | exact only_codegen_end_of_scope _
    | exact only_codegen_new_operand_slot _ | exact only_codegen_halt_with _
    | refine only_codegen_bind ?_ (fun _ => ?_) | refine only_codegen_ite ?_ ?_ | split)

theorem only_codegen_left_op_into_register (b : Bool) (x : Nat) :
    only_codegen (left_op_into_register b x) := by
  unfold left_op_into_register
  repeat (with_reducible first
    | exact only_codegen_pure _ | exact only_codegen_getp | exact only_codegen_get_word
    | exact only_codegen_has_free_register | exact only_codegen_emit _
    | exact only_codegen_get_new_label _ | exact only_codegen_operand_at _
    | exact only_codegen_allocate_register | exact only_codegen_deallocate_register _
    | exact only_codegen_allocate_spill_memory | exact only_codegen_deallocate_spill_memory _
    | exact only_codegen_last_register_op_r_value | exact only_codegen_assign_last_register_op _
    | exact only_codegen_assign_operand _ _ | exact only_codegen_delete_operand _
    | exact only_codegen_set_last_register_op _ | exact only_codegen_end_of_scope _
    | exact only_codegen_new_operand_slot _ | exact only_codegen_halt_with _
    | exact only_codegen_spill_last_register_op | exact only_codegen_emit_move_operand _ _ _
    | refine only_codegen_bind ?_ (fun _ => ?_) | refine only_codegen_ite ?_ ?_ | split)

theorem only_codegen_expression_into_register (x : Nat) :
    only_codegen (expression_into_register x) := by
  unfold expression_into_register
  repeat (with_reducible first
    | exact only_codegen_pure _ | exact only_codegen_getp | exact only_codegen_get_word
    | exact only_codegen_has_free_register | exact only_codegen_emit _
    | exact only_codegen_get_new_label _ | exact only_codegen_operand_at _
    | exact only_codegen_allocate_register | exact only_codegen_deallocate_register _
    | exact only_codegen_allocate_spill_memory | exact only_codegen_deallocate_spill_memory _
    | exact only_codegen_last_register_op_r_value | exact only_codegen_assign_last_register_op _
    | exact only_codegen_assign_operand _ _ | exact only_codegen_delete_operand _
    | exact only_codegen_set_last_register_op _ | exact only_codegen_end_of_scope _
    | exact only_codegen_new_operand_slot _ | exact only_codegen_halt_with _
    | exact only_codegen_spill_last_register_op | exact only_codegen_emit_move_operand _ _ _
    | refine only_codegen_bind ?_ (fun _ => ?_) | refine only_codegen_ite ?_ ?_ | split)

theorem only_codegen_emit_2addr_operand (i : inst_type) (r : Register) (x : Nat) :
    only_codegen (emit_2addr_operand i r x) := by
  unfold emit_2addr_operand
  repeat (with_reducible first
    | exact only_codegen_pure _ | exact only_codegen_getp | exact only_codegen_get_word
    | exact only_codegen_has_free_register | exact only_codegen_emit _
    | exact only_codegen_get_new_label _ | exact only_codegen_operand_at _
    | exact only_codegen_allocate_register | exact only_codegen_deallocate_register _
    | exact only_codegen_allocate_spill_memory | exact only_codegen_deallocate_spill_memory _
    | exact only_codegen_last_register_op_r_value | exact only_codegen_assign_last_register_op _
    | exact only_codegen_assign_operand _ _ | exact only_codegen_delete_operand _
    | exact only_codegen_set_last_register_op _ | exact only_codegen_end_of_scope _
    | exact only_codegen_new_operand_slot _ | exact only_codegen_halt_with _
    | refine only_codegen_bind ?_ (fun _ => ?_) | refine only_codegen_ite ?_ ?_ | split)

theorem only_codegen_release_right_op (x : Nat) :
    only_codegen (release_right_op x) := by
  unfold release_right_op
  repeat (with_reducible first
    | exact only_codegen_pure _ | exact only_codegen_getp | exact only_codegen_get_word
    | exact only_codegen_has_free_register | exact only_codegen_emit _
    | exact only_codegen_get_new_label _ | exact only_codegen_operand_at _
    | exact only_codegen_allocate_register | exact only_codegen_deallocate_register _
    | exact only_codegen_allocate_spill_memory | exact only_codegen_deallocate_spill_memory _
    | exact only_codegen_last_register_op_r_value | exact only_codegen_assign_last_register_op _
    | exact only_codegen_assign_operand _ _ | exact only_codegen_delete_operand _
    | exact only_codegen_set_last_register_op _ | exact only_codegen_end_of_scope _
    | exact only_codegen_new_operand_slot _ | exact only_codegen_halt_with _
    | refine only_codegen_bind ?_ (fun _ => ?_) | refine only_codegen_ite ?_ ?_ | split)

theorem only_codegen_relop_codegen (c : relop_attr) (l r : Nat) :
    only_codegen (relop_codegen c l r) := by
  unfold relop_codegen
  repeat (with_reducible first
    | exact only_codegen_pure _ | exact only_codegen_getp | exact only_codegen_get_word
    | exact only_codegen_has_free_register | exact only_codegen_emit _
    | exact only_codegen_get_new_label _ | exact only_codegen_operand_at _
    | exact only_codegen_allocate_register | exact only_codegen_deallocate_register _
    | exact only_codegen_allocate_spill_memory | exact only_codegen_deallocate_spill_memory _
    | exact only_codegen_last_register_op_r_value | exact only_codegen_assign_last_register_op _
    | exact only_codegen_assign_operand _ _ | exact only_codegen_delete_operand _
    | exact only_codegen_set_last_register_op _ | exact only_codegen_end_of_scope _
    | exact only_codegen_new_operand_slot _ | exact only_codegen_halt_with _
    | exact only_codegen_left_op_into_register _ _
    | exact only_codegen_expression_into_register _ | exact only_codegen_emit_2addr_operand _ _ _
    | exact only_codegen_release_right_op _ | exact only_codegen_emit_compare_branches _ _ _
    | refine only_codegen_bind ?_ (fun _ => ?_) | refine only_codegen_ite ?_ ?_ | split)

theorem only_codegen_addop_codegen (a : addop_attr) (l r : Nat) :
    only_codegen (addop_codegen a l r) := by
  unfold addop_codegen
  repeat (with_reducible first
    | exact only_codegen_pure _ | exact only_codegen_getp | exact only_codegen_get_word
    | exact only_codegen_has_free_register | exact only_codegen_emit _
    | exact only_codegen_get_new_label _ | exact only_codegen_operand_at _
    | exact only_codegen_allocate_register | exact only_codegen_deallocate_register _
    | exact only_codegen_allocate_spill_memory | exact only_codegen_deallocate_spill_memory _
    | exact only_codegen_last_register_op_r_value | exact only_codegen_assign_last_register_op _
    | exact only_codegen_assign_operand _ _ | exact only_codegen_delete_operand _
    | exact only_codegen_set_last_register_op _ | exact only_codegen_end_of_scope _
    | exact only_codegen_new_operand_slot _ | exact only_codegen_halt_with _
    | exact only_codegen_left_op_into_register _ _
    | exact only_codegen_expression_into_register _ | exact only_codegen_emit_2addr_operand _ _ _
    | exact only_codegen_release_right_op _ | exact only_codegen_emit_compare_branches _ _ _
    | refine only_codegen_bind ?_ (fun _ => ?_) | refine only_codegen_ite ?_ ?_ | split)

theorem only_codegen_mulop_codegen (m : mulop_attr) (l r : Nat) :
    only_codegen (mulop_codegen m l r) := by
  unfold mulop_codegen
  repeat (with_reducible first
    | exact only_codegen_pure _ | exact only_codegen_getp | exact only_codegen_get_word
    | exact only_codegen_has_free_register | exact only_codegen_emit _
    | exact only_codegen_get_new_label _ | exact only_codegen_operand_at _
    | exact only_codegen_allocate_register | exact only_codegen_deallocate_register _
    | exact only_codegen_allocate_spill_memory | exact only_codegen_deallocate_spill_memory _
    | exact only_codegen_last_register_op_r_value | exact only_codegen_assign_last_register_op _
    | exact only_codegen_assign_operand _ _ | exact only_codegen_delete_operand _
    | exact only_codegen_set_last_register_op _ | exact only_codegen_end_of_scope _
    | exact only_codegen_new_operand_slot _ | exact only_codegen_halt_with _
    | exact only_codegen_left_op_into_register _ _
    | exact only_codegen_expression_into_register _ | exact only_codegen_emit_2addr_operand _ _ _
    | exact only_codegen_release_right_op _ | exact only_codegen_emit_compare_branches _ _ _
    | refine only_codegen_bind ?_ (fun _ => ?_) | refine only_codegen_ite ?_ ?_ | split)

theorem only_codegen_sign_codegen (s : Int) (op : Nat) :
    only_codegen (sign_codegen s op) := by
  unfold sign_codegen
  repeat (with_reducible first
    | exact only_codegen_pure _ | exact only_codegen_getp | exact only_codegen_get_word
    | exact only_codegen_has_free_register | exact only_codegen_emit _
    | exact only_codegen_get_new_label _ | exact only_codegen_operand_at _
    | exact only_codegen_allocate_register | exact only_codegen_deallocate_register _
    | exact only_codegen_allocate_spill_memory | exact only_codegen_deallocate_spill_memory _
    | exact only_codegen_last_register_op_r_value | exact only_codegen_assign_last_register_op _
    | exact only_codegen_assign_operand _ _ | exact only_codegen_delete_operand _
    | exact only_codegen_set_last_register_op _ | exact only_codegen_end_of_scope _
    | exact only_codegen_new_operand_slot _ | exact only_codegen_halt_with _
    | exact only_codegen_left_op_into_register _ _
    | exact only_codegen_expression_into_register _ | exact only_codegen_emit_2addr_operand _ _ _
    | exact only_codegen_release_right_op _ | exact only_codegen_emit_compare_branches _ _ _
    | refine only_codegen_bind ?_ (fun _ => ?_) | refine only_codegen_ite ?_ ?_ | split)

theorem only_codegen_print_codegen (x : Nat) :
    only_codegen (print_codegen x) := by
  unfold print_codegen
  repeat (with_reducible first
    | exact only_codegen_pure _ | exact only_codegen_getp | exact only_codegen_get_word
    | exact only_codegen_has_free_register | exact only_codegen_emit _
    | exact only_codegen_get_new_label _ | exact only_codegen_operand_at _
    | exact only_codegen_allocate_register | exact only_codegen_deallocate_register _
    | exact only_codegen_allocate_spill_memory | exact only_codegen_deallocate_spill_memory _
    | exact only_codegen_last_register_op_r_value | exact only_codegen_assign_last_register_op _
    | exact only_codegen_assign_operand _ _ | exact only_codegen_delete_operand _
    | exact only_codegen_set_last_register_op _ | exact only_codegen_end_of_scope _
    | exact only_codegen_new_operand_slot _ | exact only_codegen_halt_with _
    | exact only_codegen_left_op_into_register _ _
    | exact only_codegen_expression_into_register _ | exact only_codegen_emit_2addr_operand _ _ _
    | exact only_codegen_release_right_op _ | exact only_codegen_emit_compare_branches _ _ _
    | refine only_codegen_bind ?_ (fun _ => ?_) | refine only_codegen_ite ?_ ?_ | split)

theorem only_codegen_assignment_codegen (id : String) (x : Nat) :
    only_codegen (assignment_codegen id x) := by
  unfold assignment_codegen
  repeat (with_reducible first
    | exact only_codegen_pure _ | exact only_codegen_getp | exact only_codegen_get_word
    | exact only_codegen_has_free_register | exact only_codegen_emit _
    | exact only_codegen_get_new_label _ | exact only_codegen_operand_at _
    | exact only_codegen_allocate_register | exact only_codegen_deallocate_register _
    | exact only_codegen_allocate_spill_memory | exact only_codegen_deallocate_spill_memory _
    | exact only_codegen_last_register_op_r_value | exact only_codegen_assign_last_register_op _
    | exact only_codegen_assign_operand _ _ | exact only_codegen_delete_operand _
    | exact only_codegen_set_last_register_op _ | exact only_codegen_end_of_scope _
    | exact only_codegen_new_operand_slot _ | exact only_codegen_halt_with _
    | exact only_codegen_left_op_into_register _ _
    | exact only_codegen_expression_into_register _ | exact only_codegen_emit_2addr_operand _ _ _
    | exact only_codegen_release_right_op _ | exact only_codegen_emit_compare_branches _ _ _
    | refine only_codegen_bind ?_ (fun _ => ?_) | refine only_codegen_ite ?_ ?_ | split)

theorem only_codegen_if_condition_codegen (x : Nat) :
    only_codegen (if_condition_codegen x) := by
  unfold if_condition_codegen
  repeat (with_reducible first
    | exact only_codegen_pure _ | exact only_codegen_getp | exact only_codegen_get_word
    | exact only_codegen_has_free_register | exact only_codegen_emit _
    | exact only_codegen_get_new_label _ | exact only_codegen_operand_at _
    | exact only_codegen_allocate_register | exact only_codegen_deallocate_register _
    | exact only_codegen_allocate_spill_memory | exact only_codegen_deallocate_spill_memory _
    | exact only_codegen_last_register_op_r_value | exact only_codegen_assign_last_register_op _
    | exact only_codegen_assign_operand _ _ | exact only_codegen_delete_operand _
    | exact only_codegen_set_last_register_op _ | exact only_codegen_end_of_scope _
    | exact only_codegen_new_operand_slot _ | exact only_codegen_halt_with _
    | exact only_codegen_left_op_into_register _ _
    | exact only_codegen_expression_into_register _ | exact only_codegen_emit_2addr_operand _ _ _
    | exact only_codegen_release_right_op _ | exact only_codegen_emit_compare_branches _ _ _
    | refine only_codegen_bind ?_ (fun _ => ?_) | refine only_codegen_ite ?_ ?_ | split)

theorem only_codegen_while_condition_codegen (l : String) (x : Nat) :
    only_codegen (while_condition_codegen l x) := by
  unfold while_condition_codegen
  repeat (with_reducible first
    | exact only_codegen_pure _ | exact only_codegen_getp | exact only_codegen_get_word
    | exact only_codegen_has_free_register | exact only_codegen_emit _
    | exact only_codegen_get_new_label _ | exact only_codegen_operand_at _
    | exact only_codegen_allocate_register | exact only_codegen_deallocate_register _
    | exact only_codegen_allocate_spill_memory | exact only_codegen_deallocate_spill_memory _
    | exact only_codegen_last_register_op_r_value | exact only_codegen_assign_last_register_op _
    | exact only_codegen_assign_operand _ _ | exact only_codegen_delete_operand _
    | exact only_codegen_set_last_register_op _ | exact only_codegen_end_of_scope _
    | exact only_codegen_new_operand_slot _ | exact only_codegen_halt_with _
    | exact only_codegen_left_op_into_register _ _
    | exact only_codegen_expression_into_register _ | exact only_codegen_emit_2addr_operand _ _ _
    | exact only_codegen_release_right_op _ | exact only_codegen_emit_compare_branches _ _ _
    | refine only_codegen_bind ?_ (fun _ => ?_) | refine only_codegen_ite ?_ ?_ | split)

/-! ### Expressions keep the declarations, statements keep the scope -/

theorem declarations_of_context {p q : Parser} (h : q.context = p.context) :
    q.declarations = p.declarations := by
  simp only [Parser.context, Prod.mk.injEq] at h
  simp only [Parser.declarations, Prod.mk.injEq]
  obtain ⟨h1, _, _, h4, h5, h6, h7, h8, h9, h10, h11, _⟩ := h
  exact ⟨h1, h4, h5, h6, h7, h8, h9, h10, h11⟩

theorem scope_of_declarations {p q : Parser} (h : q.declarations = p.declarations) :
    q.scope = p.scope := by
  simp only [Parser.declarations, Prod.mk.injEq] at h
  simp only [Parser.scope, Prod.mk.injEq]
  obtain ⟨h1, h2, h3, h4, _, _, h7, h8, h9⟩ := h
  exact ⟨h1, h2, h3, h4, h7, h8, h9⟩

/-- A block whose result always agrees with the record it was entered from
on a view of the record maintains every value of the view. -/
theorem preserves_view {α β : Type} {x : M α} (view : Parser → β)
    (hx : ∀ p, view (x p).parser = view p) (c : β) :
    preserves (fun p => view p = c) (fun _ p => view p = c) x := by
  intro p hp
  have h1 := hx p
  cases hxp : x p with
  | ok a q => rw [hxp] at h1; exact h1.trans hp
  | halt h q => rw [hxp] at h1; exact h1.trans hp

theorem declarations_only_codegen {α : Type} {x : M α} (hx : only_codegen x) (p : Parser) :
    (x p).parser.declarations = p.declarations :=
  declarations_of_context (hx p)

theorem declarations_advance (p : Parser) : (advance p).parser.declarations = p.declarations := by
  simp only [advance, modifyp, Parser.advanced]
  cases p.lex <;> rfl

theorem declarations_checked {α : Type} (errs : List Diagnostic) (a : α) (p : Parser) :
    (checked errs a p).parser.declarations = p.declarations := by
  unfold checked
  cases errs with
  | nil => rfl
  | cons d ds => cases p.test_mode <;> rfl

theorem declarations_exit_unless_test_mode (d : Diagnostic) (p : Parser) :
    ((do report d; exit_unless_test_mode) p).parser.declarations = p.declarations := by
  simp only [bind_apply, report_apply, exit_unless_test_mode]
  cases h : p.test_mode <;> simp [report_all, h, Parser.declarations, Res.parser]

/-- The basic blocks of the expression productions leave the declarations as
they are. -/
theorem declarations_block_invariant
    (c : Bool × Symbol_Table × String × String × String × Int × Int × Bool × List String) :
    ExprBlockInvariant (fun p => p.declarations = c) (fun _ p => p.declarations = c) where
  out_of_fuel := fun _ h => h
  advance := preserves_view _ declarations_advance c
  parse_error := fun a b => preserves_view (x := parse_error a b) Parser.declarations (fun _ => rfl) c
  undeclared_identifier := fun id =>
    preserves_view _ (declarations_exit_unless_test_mode (.undeclared_identifier id)) c
  type_error := fun a b =>
    preserves_view _ (declarations_exit_unless_test_mode (.type_error a b)) c
  type_error2 := fun a b d =>
    preserves_view _ (declarations_exit_unless_test_mode (.type_error2 a b d)) c
  new_operand_slot_null :=
    preserves_view _ (declarations_only_codegen (only_codegen_new_operand_slot _)) c
  end_of_scope := fun _ =>
    preserves_view _ (declarations_only_codegen (only_codegen_end_of_scope _)) c
  assign_memory := fun _ _ =>
    preserves_view _ (declarations_only_codegen (only_codegen_assign_operand _ _)) c
  assign_immediate := fun _ _ =>
    preserves_view _ (declarations_only_codegen (only_codegen_assign_operand _ _)) c
  relop_codegen := fun _ _ _ =>
    preserves_view _ (declarations_only_codegen (only_codegen_relop_codegen _ _ _)) c
  addop_codegen := fun _ _ _ =>
    preserves_view _ (declarations_only_codegen (only_codegen_addop_codegen _ _ _)) c
  mulop_codegen := fun _ _ _ =>
    preserves_view _ (declarations_only_codegen (only_codegen_mulop_codegen _ _ _)) c
  sign_codegen := fun _ _ =>
    preserves_view _ (declarations_only_codegen (only_codegen_sign_codegen _ _)) c

/-- Parsing an expression leaves the declarations as they are, whether it
returns or the run is ended. -/
theorem parse_expr_declarations (fuel : Nat) (t : expr_type) (op : Nat) (p : Parser) :
    (parse_expr fuel t op p).parser.declarations = p.declarations := by
  have h := (preserves_expression_productions (declarations_block_invariant p.declarations)
    fuel).1 t op p rfl
  cases hx : parse_expr fuel t op p with
  | ok a q => rw [hx] at h; exact h
  | halt hh q => rw [hx] at h; exact h

/-- The basic blocks of the statement productions leave the scope as it is. -/
theorem scope_block_invariant
    (c : Bool × Symbol_Table × String × String × Int × Bool × List String) :
    StmtBlockInvariant (fun p => p.scope = c) (fun _ p => p.scope = c) where
  out_of_fuel := fun _ h => h
  advance := preserves_view _ (fun p => scope_of_declarations (declarations_advance p)) c
  parse_error := fun a b => preserves_view (x := parse_error a b) Parser.scope (fun _ => rfl) c
  undeclared_identifier := fun id => preserves_view _ (fun p => scope_of_declarations
    (declarations_exit_unless_test_mode (.undeclared_identifier id) p)) c
  type_error := fun a b => preserves_view _ (fun p => scope_of_declarations
    (declarations_exit_unless_test_mode (.type_error a b) p)) c
  type_error2 := fun a b d => preserves_view _ (fun p => scope_of_declarations
    (declarations_exit_unless_test_mode (.type_error2 a b d) p)) c
  new_operand_slot_null := preserves_view _ (fun p => scope_of_declarations
    (declarations_only_codegen (only_codegen_new_operand_slot _) p)) c
  end_of_scope := fun _ => preserves_view _ (fun p => scope_of_declarations
    (declarations_only_codegen (only_codegen_end_of_scope _) p)) c
  assign_memory := fun _ _ => preserves_view _ (fun p => scope_of_declarations
    (declarations_only_codegen (only_codegen_assign_operand _ _) p)) c
  assign_immediate := fun _ _ => preserves_view _ (fun p => scope_of_declarations
    (declarations_only_codegen (only_codegen_assign_operand _ _) p)) c
  relop_codegen := fun _ _ _ => preserves_view _ (fun p => scope_of_declarations
    (declarations_only_codegen (only_codegen_relop_codegen _ _ _) p)) c
  addop_codegen := fun _ _ _ => preserves_view _ (fun p => scope_of_declarations
    (declarations_only_codegen (only_codegen_addop_codegen _ _ _) p)) c
  mulop_codegen := fun _ _ _ => preserves_view _ (fun p => scope_of_declarations
    (declarations_only_codegen (only_codegen_mulop_codegen _ _ _) p)) c
  sign_codegen := fun _ _ => preserves_view _ (fun p => scope_of_declarations
    (declarations_only_codegen (only_codegen_sign_codegen _ _) p)) c
  set_procedure_name := fun id =>
    preserves_view (x := set_procedure_name id) Parser.scope (fun _ => rfl) c
  reset_actual_parm_position :=
    preserves_view (x := reset_actual_parm_position) Parser.scope (fun _ => rfl) c
  increment_actual_parm_position :=
    preserves_view (x := increment_actual_parm_position) Parser.scope (fun _ => rfl) c
  emit := fun i => preserves_view (x := emit i) Parser.scope (fun _ => rfl) c
  get_new_label := fun s => preserves_view (x := get_new_label s) Parser.scope (fun _ => rfl) c
  new_operand_slot_memory := fun _ => preserves_view _ (fun p => scope_of_declarations
    (declarations_only_codegen (only_codegen_new_operand_slot _) p)) c
  print_codegen := fun _ => preserves_view _ (fun p => scope_of_declarations
    (declarations_only_codegen (only_codegen_print_codegen _) p)) c
  assignment_codegen := fun _ _ => preserves_view _ (fun p => scope_of_declarations
    (declarations_only_codegen (only_codegen_assignment_codegen _ _) p)) c
  if_condition_codegen := fun _ => preserves_view _ (fun p => scope_of_declarations
    (declarations_only_codegen (only_codegen_if_condition_codegen _) p)) c
  while_condition_codegen := fun _ _ => preserves_view _ (fun p => scope_of_declarations
    (declarations_only_codegen (only_codegen_while_condition_codegen _ _) p)) c

/-- Parsing a block leaves the scope as it is, whether it returns or the run
is ended. -/
theorem parse_block_scope (fuel : Nat) (p : Parser) :
    (parse_block fuel p).parser.scope = p.scope := by
  have h := (preserves_statement_productions (scope_block_invariant p.scope) fuel).1 p rfl
  cases hx : parse_block fuel p with
  | ok a q => rw [hx] at h; exact h
  | halt hh q => rw [hx] at h; exact h

/-! ### Typing of calls -/

theorem actual_parm_check_apply (t : expr_type) (p : Parser) :
    actual_parm_check t p
      = (do
          checked (actual_errors p.stab p.procedure_name p.actual_parm_position t) ()
          increment_actual_parm_position) p := by
  unfold actual_parm_check actual_errors
  simp only [bind_apply, getp_apply]
  by_cases h : t = p.stab.get_type_pos p.procedure_name p.actual_parm_position
  · simp [h, checked, bind_apply, pure_apply]
  · simp [h, bind_apply, type_error_apply]

theorem actual_errors_length (stab : Symbol_Table) (proc : String) (pos : Int) (t : expr_type) :
    (actual_errors stab proc pos t).length ≤ 1 := by
  unfold actual_errors; split <;> simp

/-- The check of an actual parameter that returns has written exactly the
diagnostics of the check and has incremented the position. -/
theorem actual_parm_check_ok {t : expr_type} {p1 p2 : Parser}
    (h : actual_parm_check t p1 = .ok () p2) :
    p2.diagnostics
        = p1.diagnostics ++ actual_errors p1.stab p1.procedure_name p1.actual_parm_position t
    ∧ p2.stab = p1.stab ∧ p2.procedure_name = p1.procedure_name
    ∧ p2.actual_parm_position = p1.actual_parm_position + 1
    ∧ p2.test_mode = p1.test_mode := by
  rw [actual_parm_check_apply, bind_apply] at h
  unfold checked at h
  cases he : actual_errors p1.stab p1.procedure_name p1.actual_parm_position t with
  | nil =>
    simp only [he, increment_actual_parm_position, modifyp_apply, Res.ok.injEq,
      true_and] at h
    subst h
    simp
  | cons d ds =>
    have hlen := actual_errors_length p1.stab p1.procedure_name p1.actual_parm_position t
    have hds : ds = [] := by
      cases ds with
      | nil => rfl
      | cons x xs => rw [he] at hlen; simp at hlen
    subst hds
    simp only [he] at h
    cases htm : p1.test_mode
    · simp [htm] at h
    · simp only [htm, if_true, increment_actual_parm_position, modifyp_apply, Res.ok.injEq,
        true_and] at h
      subst h
      simp [report_all, htm]

/-- `parse_actual_parm_list` from the check of the actual parameter on. -/
theorem parse_actual_parm_list_step (fuel e : Nat) (p p1 : Parser) (t : expr_type)
    (hE : (do
        let expression ← new_operand_slot none
        let expr ← parse_expr fuel .GARBAGE_T expression
        pure (expression, expr)) p = .ok (e, (true, t)) p1) :
    parse_actual_parm_list (fuel + 1) p
      = (do
          actual_parm_check t
          let result ← parse_actual_parm_list_hat fuel
          end_of_scope e
          pure result) p1 := by
  rw [parse_actual_parm_list]
  simp only [bind_apply] at hE ⊢
  cases hs : new_operand_slot none p with
  | halt h q => simp [hs] at hE
  | ok e1 q1 =>
    simp only [hs] at hE ⊢
    cases hx : parse_expr fuel .GARBAGE_T e1 q1 with
    | halt h q => simp [hx] at hE
    | ok r q2 =>
      simp only [hx, pure_apply, Res.ok.injEq, Prod.mk.injEq] at hE ⊢
      obtain ⟨⟨rfl, rfl⟩, rfl⟩ := hE
      simp only [if_true, getp_apply, actual_parm_check, bind_apply]
      split
      · simp only [bind_apply]
        cases type_error (q2.stab.get_type_pos q2.procedure_name q2.actual_parm_position) t q2 <;>
          rfl
      · rfl

theorem actual_parm_expr_declarations {fuel e : Nat} {p p1 : Parser} {r : Bool × expr_type}
    (hE : (do
        let expression ← new_operand_slot none
        let expr ← parse_expr fuel .GARBAGE_T expression
        pure (expression, expr)) p = .ok (e, r) p1) :
    p1.declarations = p.declarations := by
  simp only [bind_apply, new_operand_slot] at hE
  have h := parse_expr_declarations fuel .GARBAGE_T p.slots.length
    { p with slots := p.slots ++ [{ op := none, deleted := false, live := true }] }
  cases hx : parse_expr fuel .GARBAGE_T p.slots.length
      { p with slots := p.slots ++ [{ op := none, deleted := false, live := true }] } with
  | halt hh q => simp [hx] at hE
  | ok r1 q =>
    simp only [hx, pure_apply, Res.ok.injEq] at hE
    rw [hx] at h
    rw [← hE.2]
    exact h

theorem declarations_fields {p q : Parser} (h : q.declarations = p.declarations) :
    q.test_mode = p.test_mode ∧ q.stab = p.stab ∧ q.current_env = p.current_env
    ∧ q.main_env = p.main_env ∧ q.procedure_name = p.procedure_name
    ∧ q.actual_parm_position = p.actual_parm_position := by
  simp only [Parser.declarations, Prod.mk.injEq] at h
  exact ⟨h.1, h.2.1, h.2.2.1, h.2.2.2.1, h.2.2.2.2.1, h.2.2.2.2.2.1⟩

theorem parse_actual_parm_list_hat_done (fuel : Nat) (p : Parser)
    (h : is_punctuation p.word .PUNC_COMMA = false) :
    parse_actual_parm_list_hat (fuel + 1) p = .ok true p := by
  rw [parse_actual_parm_list_hat]
  simp [bind_apply, get_word_apply, h, pure_apply]

theorem parse_actual_parm_list_hat_more (fuel : Nat) (p : Parser)
    (h : is_punctuation p.word .PUNC_COMMA = true) :
    parse_actual_parm_list_hat (fuel + 1) p = parse_actual_parm_list fuel p.advanced := by
  rw [parse_actual_parm_list_hat]
  simp [bind_apply, get_word_apply, h, advance_apply]

/-- Along a list of actual parameters `parse_actual_parm_list` returns true,
and the check of the actual parameter with index `i` has written a type error
exactly when the type of the expression differs from the type of the formal
parameter with ordinal `actual_parm_position + i` of `procedure_name`. -/
theorem actual_parms_typing {fuel : Nat} {p q : Parser}
    {acts : List (expr_type × Parser × Parser)} (h : actual_parms fuel p acts q) :
    (∃ qf, parse_actual_parm_list fuel p = .ok true qf ∧ qf.diagnostics = q.diagnostics)
    ∧ ∀ (i : Nat) (t : expr_type) (p1 p2 : Parser), acts[i]? = some (t, p1, p2) →
        p2.diagnostics = p1.diagnostics
          ++ actual_errors p.stab p.procedure_name (p.actual_parm_position + i) t := by
  induction h with
  | last fuel e p p1 p2 t hE hcheck hcomma =>
    obtain ⟨_, hs, _, _, hn, hpos⟩ := declarations_fields (actual_parm_expr_declarations hE)
    obtain ⟨hd, _, _, _, _⟩ := actual_parm_check_ok hcheck
    constructor
    · refine ⟨(end_of_scope e p2).parser, ?_, rfl⟩
      rw [parse_actual_parm_list_step (fuel + 1) e p p1 t hE, bind_apply, hcheck]
      simp only [bind_apply, parse_actual_parm_list_hat_done fuel p2 hcomma]
      rfl
    · intro i t1 q1 q2 hi
      cases i with
      | zero =>
        simp only [List.getElem?_cons_zero, Option.some.injEq, Prod.mk.injEq] at hi
        obtain ⟨rfl, rfl, rfl⟩ := hi
        rw [hd, hs, hn, hpos]
        simp
      | succ i => simp at hi
  | more fuel e p p1 p2 q t acts hE hcheck hcomma _ ih =>
    obtain ⟨_, hs, _, _, hn, hpos⟩ := declarations_fields (actual_parm_expr_declarations hE)
    obtain ⟨hd, hs2, hn2, hpos2, _⟩ := actual_parm_check_ok hcheck
    obtain ⟨⟨qf, hqf, hdf⟩, ih2⟩ := ih
    have ha : p2.advanced.stab = p2.stab ∧ p2.advanced.procedure_name = p2.procedure_name
        ∧ p2.advanced.actual_parm_position = p2.actual_parm_position := by
      unfold Parser.advanced
      cases p2.lex <;> exact ⟨rfl, rfl, rfl⟩
    constructor
    · refine ⟨(end_of_scope e qf).parser, ?_, hdf⟩
      rw [parse_actual_parm_list_step (fuel + 1) e p p1 t hE, bind_apply, hcheck]
      simp only [bind_apply, parse_actual_parm_list_hat_more fuel p2 hcomma, hqf]
      rfl
    · intro i t1 q1 q2 hi
      cases i with
      | zero =>
        simp only [List.getElem?_cons_zero, Option.some.injEq, Prod.mk.injEq] at hi
        obtain ⟨rfl, rfl, rfl⟩ := hi
        rw [hd, hs, hn, hpos]
        simp
      | succ i =>
        simp only [List.getElem?_cons_succ] at hi
        have h3 := ih2 i t1 q1 q2 hi
        rw [h3, ha.1, ha.2.1, ha.2.2, hs2, hn2, hpos2, hs, hn, hpos]
        congr 2
        push_cast
        ring

/-- In production mode an actual parameter whose type differs from the type
of the formal parameter ends the run with `exit`. -/
theorem parse_actual_parm_list_exit (fuel e : Nat) (p p1 : Parser) (t : expr_type)
    (hE : (do
        let expression ← new_operand_slot none
        let expr ← parse_expr fuel .GARBAGE_T expression
        pure (expression, expr)) p = .ok (e, (true, t)) p1)
    (htm : p1.test_mode = false)
    (hne : t ≠ p.stab.get_type_pos p.procedure_name p.actual_parm_position) :
    parse_actual_parm_list (fuel + 1) p
      = .halt .exit_failure
          (report_all [.type_error
            (p.stab.get_type_pos p.procedure_name p.actual_parm_position) t] p1) := by
  obtain ⟨_, hs, _, _, hn, hpos⟩ := declarations_fields (actual_parm_expr_declarations hE)
  rw [parse_actual_parm_list_step fuel e p p1 t hE, bind_apply, actual_parm_check_apply,
    bind_apply, hs, hn, hpos]
  have he : actual_errors p.stab p.procedure_name p.actual_parm_position t
      = [.type_error (p.stab.get_type_pos p.procedure_name p.actual_parm_position) t] := by
    simp [actual_errors, hne]
  rw [he, checked_exit _ _ _ _ htm]

theorem is_punctuation_open_not_assign {w : Token} (h : is_punctuation w .PUNC_OPEN = true) :
    is_punctuation w .PUNC_ASSIGN = false := by
  cases w <;> simp_all [is_punctuation]

theorem callee_errors_length (stab : Symbol_Table) (id m : String) :
    (callee_errors stab id m).length ≤ 1 := by
  unfold callee_errors; split <;> simp

/-- `parse_stmt` at a call of a declared identifier, from the check of the
callee on. -/
theorem parse_stmt_call (fuel : Nat) (p pa : Parser) (id : String) (e : Nat)
    (hw : p.word = .TOKEN_ID id)
    (hdecl : p.stab.is_decl id p.current_env = true)
    (hpre : (do
      set_procedure_name id
      advance
      new_operand_slot (some (.OPTYPE_MEMORY id))) p = .ok e pa)
    (hopen : is_punctuation pa.word .PUNC_OPEN = true) :
    parse_stmt (fuel + 2) p
      = (do
          checked (callee_errors p.stab id p.main_env) ()
          reset_actual_parm_position
          advance
          let expr_list ← parse_expr_list fuel
          let adhoc_as_pc_tail ← expr_list_tail .GARBAGE_T expr_list
          adhoc_as_pc_tail_semantics id e adhoc_as_pc_tail) pa := by
  have hpa : pa.stab = p.stab ∧ pa.main_env = p.main_env ∧ pa.procedure_name = id := by
    simp only [bind_apply, set_procedure_name, modifyp_apply, advance_apply, new_operand_slot,
      Res.ok.injEq] at hpre
    rw [← hpre.2]
    simp only [Parser.advanced]
    split <;> exact ⟨rfl, rfl, rfl⟩
  rw [parse_stmt]
  simp only [bind_apply, get_word_apply, hw]
  rw [parse_stmt_identifier]
  simp only [bind_apply, getp_apply, hdecl, Bool.not_true, Bool.false_eq_true, if_false]
  simp only [bind_apply] at hpre
  cases h1 : set_procedure_name id p with
  | halt h q => simp [h1] at hpre
  | ok u q1 =>
    simp only [h1] at hpre ⊢
    cases h2 : advance q1 with
    | halt h q => simp [h2] at hpre
    | ok u2 q2 =>
      simp only [h2] at hpre ⊢
      rw [hpre]
      simp only []
      rw [parse_adhoc_as_pc_tail]
      simp only [bind_apply, get_word_apply, is_punctuation_open_not_assign hopen, hopen,
        if_true, getp_apply, hpa.1, hpa.2.1, hpa.2.2, Bool.false_eq_true, if_false]
      by_cases hT : p.stab.get_type id p.main_env = .PROCEDURE_T
      · simp only [hT, ne_eq, not_true_eq_false, if_false, callee_errors, if_true, checked_nil,
          bind_apply, pure_apply, reset_actual_parm_position, modifyp_apply, advance_apply]
        cases parse_expr_list fuel _ with
        | halt h q => rfl
        | ok b q =>
          cases b <;> simp only [expr_list_tail, adhoc_as_pc_tail_semantics, bind_apply,
            pure_apply, get_word_apply, getp_apply, if_true, if_false, Bool.false_eq_true]
      · have he : callee_errors p.stab id p.main_env
            = [.type_error .PROCEDURE_T (p.stab.get_type id p.main_env)] := by
          simp [callee_errors, hT]
        simp only [hT, ne_eq, not_false_eq_true, if_true, he, bind_apply, type_error_apply]
        cases checked [Diagnostic.type_error .PROCEDURE_T (p.stab.get_type id p.main_env)] () pa with
        | halt h q => rfl
        | ok u3 q3 =>
          simp only [reset_actual_parm_position, modifyp_apply, advance_apply, bind_apply]
          cases parse_expr_list fuel _ with
          | halt h q => rfl
          | ok b q =>
            cases b <;> simp only [expr_list_tail, adhoc_as_pc_tail_semantics, bind_apply,
              pure_apply, get_word_apply, getp_apply, if_true, if_false, Bool.false_eq_true]

theorem call_entered_fields (errs : List Diagnostic) (p : Parser) :
    (call_entered errs p).stab = p.stab
    ∧ (call_entered errs p).procedure_name = p.procedure_name
    ∧ (call_entered errs p).actual_parm_position = 0
    ∧ (call_entered errs p).diagnostics = p.diagnostics ++ errs := by
  simp only [call_entered, bind_apply, reset_actual_parm_position, modifyp_apply, advance_apply,
    Res.parser, Parser.advanced, report_all]
  split <;> exact ⟨rfl, rfl, rfl, rfl⟩

/-! ### Undeclared identifiers -/

theorem undeclared_identifier_apply (id : String) (p : Parser) :
    undeclared_identifier id p = checked [.undeclared_identifier id] () p := by
  cases htm : p.test_mode <;>
    simp [undeclared_identifier, bind_apply, report_apply, exit_unless_test_mode, checked, htm,
      report_all]

/-- `parse_stmt_identifier` with the part after `parse_adhoc_as_pc_tail`
named. -/
theorem parse_stmt_identifier_eq (fuel : Nat) (id : String) :
    parse_stmt_identifier fuel id
      = (do
          let p ← getp
          if !p.stab.is_decl id p.current_env then
            undeclared_identifier id
          else
            set_procedure_name id
          advance
          let expression ← new_operand_slot (some (.OPTYPE_MEMORY id))
          let adhoc_as_pc_tail ← parse_adhoc_as_pc_tail fuel .GARBAGE_T expression
          adhoc_as_pc_tail_semantics id expression adhoc_as_pc_tail) := by
  unfold parse_stmt_identifier adhoc_as_pc_tail_semantics
  rfl

/-! ### Uniqueness of declarations -/

section
variable {I : Parser → Prop} {H : Halt → Parser → Prop}

/-- `parse_program` with the part after the program name named. -/
theorem parse_program_eq (fuel : Nat) :
    parse_program (fuel + 1)
      = (do
          if is_keyword (← get_word) .KW_PROGRAM then
            advance
            match (← get_word) with
            | .TOKEN_ID id_name =>
              enter_program id_name
              emit (.label ("_" ++ id_name))
              advance
              program_rest fuel
            | word =>
              parse_error "identifier" word
              pure false
          else
            parse_error "keyword program" (← get_word)
            pure false) := by
  rw [parse_program]
  unfold program_rest
  rfl

/-- Every predicate the basic blocks of the declarations and the epilogue
maintain is maintained by `program_rest`. -/
theorem preserves_program_rest (h : ProcBlockInvariant I H) (hep : preserves I H emit_epilogue)
    (fuel : Nat) : preserves I H (program_rest fuel) := by
  unfold program_rest
  repeat (with_reducible first
    | exact preserves_pure _ | exact preserves_get_word
    | exact preserves_halt_out_of_fuel h.toDeclBlockInvariant.toStmtBlockInvariant.toExprBlockInvariant
    | exact h.advance | exact h.parse_error _ _ | exact h.undeclared_identifier _
    | exact h.type_error _ _ | exact h.type_error2 _ _ _ | exact h.new_operand_slot_null
    | exact h.end_of_scope _ | exact h.assign_memory _ _ | exact h.assign_immediate _ _
    | exact h.relop_codegen _ _ _ | exact h.addop_codegen _ _ _ | exact h.mulop_codegen _ _ _
    | exact h.sign_codegen _ _ | exact h.set_procedure_name _
    | exact h.reset_actual_parm_position | exact h.increment_actual_parm_position
    | exact h.emit _ | exact h.get_new_label _ | exact h.new_operand_slot_memory _
    | exact h.print_codegen _ | exact h.assignment_codegen _ _ | exact h.if_condition_codegen _
    | exact h.while_condition_codegen _ _ | exact h.multiply_defined_identifier _
    | exact h.reserve_program_label _ | exact h.stab_update_type _
    | exact h.set_parsing_formal_parm_list _ | exact h.leave_procedure
    | exact preserves_from_of_guard _ (by assumption) (h.stab_install _ _)
    | exact preserves_from_of_guard _ (by assumption) (h.stab_install_formal _)
    | exact preserves_from_of_guard _ (by assumption) (h.enter_procedure _) | exact hep
    | exact preserves_parse_decl_list h _
    | exact (preserves_statement_productions h.toDeclBlockInvariant.toStmtBlockInvariant _).1
    | refine preserves_getp_bind (fun _ => ?_) | refine preserves_bind ?_ (fun _ => ?_)
    | refine preserves_ite ?_ ?_ | refine preserves_from_bind ?_ (fun _ => ?_) | split
    | refine preserves_from_of_preserves ?_)

end

/-- A block that maintains every value of a view of the record maintains
every predicate of the view. -/
theorem preserves_pred_of_view {α β : Type} {x : M α} (view : Parser → β)
    (h : ∀ c, preserves (fun p => view p = c) (fun _ p => view p = c) x) (J : β → Prop) :
    preserves (fun p => J (view p)) (fun _ p => J (view p)) x := by
  intro p hp
  have h1 := h (view p) p rfl
  cases hx : x p with
  | ok a q =>
    rw [hx] at h1
    simp only at h1 ⊢
    rw [h1]
    exact hp
  | halt hh q =>
    rw [hx] at h1
    simp only at h1 ⊢
    rw [h1]
    exact hp

/-- The basic blocks of the statement productions maintain every predicate of
the scope. -/
theorem scope_pred_block_invariant
    (J : Bool × Symbol_Table × String × String × Int × Bool × List String → Prop) :
    StmtBlockInvariant (fun p => J p.scope) (fun _ p => J p.scope) where
  out_of_fuel := fun _ h => h
  advance := 
    preserves_pred_of_view Parser.scope (fun c => (scope_block_invariant c).advance) J
  parse_error := fun a b =>
    preserves_pred_of_view Parser.scope (fun c => (scope_block_invariant c).parse_error a b) J
  undeclared_identifier := fun a =>
    preserves_pred_of_view Parser.scope (fun c => (scope_block_invariant c).undeclared_identifier a) J
  type_error := fun a b =>
    preserves_pred_of_view Parser.scope (fun c => (scope_block_invariant c).type_error a b) J
  type_error2 := fun a b d =>
    preserves_pred_of_view Parser.scope (fun c => (scope_block_invariant c).type_error2 a b d) J
  new_operand_slot_null := 
    preserves_pred_of_view Parser.scope (fun c => (scope_block_invariant c).new_operand_slot_null) J
  end_of_scope := fun a =>
    preserves_pred_of_view Parser.scope (fun c => (scope_block_invariant c).end_of_scope a) J
  assign_memory := fun a b =>
    preserves_pred_of_view Parser.scope (fun c => (scope_block_invariant c).assign_memory a b) J
  assign_immediate := fun a b =>
    preserves_pred_of_view Parser.scope (fun c => (scope_block_invariant c).assign_immediate a b) J
  relop_codegen := fun a b d =>
    preserves_pred_of_view Parser.scope (fun c => (scope_block_invariant c).relop_codegen a b d) J
  addop_codegen := fun a b d =>
    preserves_pred_of_view Parser.scope (fun c => (scope_block_invariant c).addop_codegen a b d) J
  mulop_codegen := fun a b d =>
    preserves_pred_of_view Parser.scope (fun c => (scope_block_invariant c).mulop_codegen a b d) J
  sign_codegen := fun a b =>
    preserves_pred_of_view Parser.scope (fun c => (scope_block_invariant c).sign_codegen a b) J
  set_procedure_name := fun a =>
    preserves_pred_of_view Parser.scope (fun c => (scope_block_invariant c).set_procedure_name a) J
  reset_actual_parm_position := 
    preserves_pred_of_view Parser.scope (fun c => (scope_block_invariant c).reset_actual_parm_position) J
  increment_actual_parm_position := 
    preserves_pred_of_view Parser.scope (fun c => (scope_block_invariant c).increment_actual_parm_position) J
  emit := fun a =>
    preserves_pred_of_view Parser.scope (fun c => (scope_block_invariant c).emit a) J
  get_new_label := fun a =>
    preserves_pred_of_view Parser.scope (fun c => (scope_block_invariant c).get_new_label a) J
  new_operand_slot_memory := fun a =>
    preserves_pred_of_view Parser.scope (fun c => (scope_block_invariant c).new_operand_slot_memory a) J
  print_codegen := fun a =>
    preserves_pred_of_view Parser.scope (fun c => (scope_block_invariant c).print_codegen a) J
  assignment_codegen := fun a b =>
    preserves_pred_of_view Parser.scope (fun c => (scope_block_invariant c).assignment_codegen a b) J
  if_condition_codegen := fun a =>
    preserves_pred_of_view Parser.scope (fun c => (scope_block_invariant c).if_condition_codegen a) J
  while_condition_codegen := fun a b =>
    preserves_pred_of_view Parser.scope (fun c => (scope_block_invariant c).while_condition_codegen a b) J

theorem lookup_eq_none_iff (t : Symbol_Table) (id env : String) :
    t.lookup id env = none ↔ (id, env) ∉ t.keys := by
  simp only [Symbol_Table.lookup, Symbol_Table.keys, List.find?_eq_none, List.mem_map,
    Bool.and_eq_true, decide_eq_true_eq, Prod.mk.injEq, not_exists, not_and]

/-- When `is_decl` answers false there is no entry with that name in that
environment. -/
theorem not_mem_keys_of_is_decl {t : Symbol_Table} {id env : String}
    (h : t.is_decl id env = false) : (id, env) ∉ t.keys := by
  rw [← lookup_eq_none_iff]
  unfold Symbol_Table.is_decl Symbol_Table.lookup_scoped at h
  cases hl : t.lookup id env with
  | none => rfl
  | some x => simp [hl] at h

theorem keys_install (t : Symbol_Table) (id env : String) (ty : expr_type) :
    (t.install id env ty).keys = t.keys ++ [(id, env)] := by
  simp [Symbol_Table.install, Symbol_Table.keys]

theorem keys_install_pos (t : Symbol_Table) (id env : String) (ty : expr_type) (pos : Int) :
    (t.install_pos id env ty pos).keys = t.keys ++ [(id, env)] := by
  simp [Symbol_Table.install_pos, Symbol_Table.keys]

theorem keys_update_type (t : Symbol_Table) (ty : expr_type) :
    (t.update_type ty).keys = t.keys := by
  simp only [Symbol_Table.update_type, Symbol_Table.keys, List.map_map]
  congr 1
  funext x
  simp only [Function.comp]
  split <;> rfl

theorem nodup_append_key {l : List (String × String)} {k : String × String}
    (h : l.Nodup) (hk : k ∉ l) : (l ++ [k]).Nodup := by
  rw [List.nodup_append]
  refine ⟨h, List.nodup_singleton k, ?_⟩
  intro a ha hb
  simp only [List.mem_singleton] at hb
  subst hb
  exact hk ha

theorem preserves_modifyp_pred {I : Parser → Prop} (f : Parser → Parser)
    (h : ∀ p, I p → I (f p)) : preserves I (fun _ p => I p) (modifyp f) :=
  fun p hp => h p hp

/-- The basic blocks of the declarations keep the names of the symbol table
distinct within every environment. -/
theorem unique_block_invariant :
    ProcBlockInvariant (fun p => p.stab.keys.Nodup) (fun _ p => p.stab.keys.Nodup) where
  toStmtBlockInvariant := scope_pred_block_invariant (fun s => s.2.1.keys.Nodup)
  multiply_defined_identifier := fun id => by
    intro p hp
    simp only [multiply_defined_identifier, bind_apply, report_apply, exit_unless_test_mode]
    cases h : p.test_mode <;> simpa [report_all, h] using hp
  reserve_program_label := fun id => by
    intro p hp
    simp only [reserve_program_label, modifyp_apply]
    split <;> exact hp
  stab_update_type := fun ty => by
    intro p hp
    simp only [stab_update_type, modifyp_apply, keys_update_type]
    exact hp
  set_parsing_formal_parm_list := fun b => fun p hp => hp
  stab_install := fun id ty => by
    intro p hp hg
    simp only [stab_install, modifyp_apply, keys_install]
    exact nodup_append_key hp (not_mem_keys_of_is_decl hg)
  stab_install_formal := fun id => by
    intro p hp hg
    simp only [stab_install_formal, modifyp_apply, keys_install_pos]
    exact nodup_append_key hp (not_mem_keys_of_is_decl hg)
  leave_procedure := fun p hp => hp
  enter_procedure := fun id => by
    intro p hp hg
    simp only [enter_procedure, modifyp_apply, keys_install]
    exact nodup_append_key hp (not_mem_keys_of_is_decl hg)

theorem emit_epilogue_scope (p : Parser) : (emit_epilogue p).parser.scope = p.scope := by
  unfold emit_epilogue
  simp only [bind_apply, emit, modifyp_apply, getp_apply, emit_data_directives]
  split <;> split <;> rfl

/-- From an empty symbol table `parse_program` ends with a table whose names
are distinct within every environment. -/
theorem parse_program_unique (fuel : Nat) (p : Parser) (h0 : p.stab.entries = []) :
    (parse_program fuel p).parser.stab.keys.Nodup := by
  have hp : p.stab.keys.Nodup := by simp [Symbol_Table.keys, h0]
  cases fuel with
  | zero => rw [parse_program]; exact hp
  | succ fuel =>
    have hrest := preserves_program_rest unique_block_invariant
      (preserves_pred_of_view Parser.scope
        (fun c => preserves_view Parser.scope emit_epilogue_scope c)
        (fun s => s.2.1.keys.Nodup)) fuel
    rw [parse_program_eq]
    simp only [bind_apply, get_word_apply, advance_apply]
    split
    · simp only [bind_apply, get_word_apply, advance_apply]
      have ha : p.advanced.stab = p.stab := by
        unfold Parser.advanced; split <;> rfl
      have hother : ∀ w, ((do parse_error "identifier" w; pure false : M Bool)
          p.advanced).parser.stab.keys.Nodup := by
        intro w
        simp only [parse_error, bind_apply, report_apply, pure_apply, Res.parser, report_all, ha]
        exact hp
      cases hw : p.advanced.word with
      | TOKEN_ID id =>
        simp only [bind_apply, enter_program, modifyp_apply, emit, advance_apply]
        have h1 := hrest
          ({ ({ p.advanced with
                stab := p.advanced.stab.install id "_EXTERNAL" expr_type.PROGRAM_T,
                current_env := id, main_env := id } : Parser) with
              e := p.advanced.e.emit (.label ("_" ++ id)) } : Parser).advanced
          (by
            have : ∀ q : Parser, q.advanced.stab = q.stab := by
              intro q; unfold Parser.advanced; split <;> rfl
            simp [this, ha, Symbol_Table.install, Symbol_Table.keys, h0])
        cases hx : program_rest fuel _ with
        | ok a q => rw [hx] at h1; exact h1
        | halt hh q => rw [hx] at h1; exact h1
      | _ => exact hother _
    · simp only [parse_error, bind_apply, report_apply, pure_apply, Res.parser, report_all]
      exact hp

theorem multiply_defined_identifier_apply (id : String) (p : Parser) :
    multiply_defined_identifier id p = checked [.multiply_defined_identifier id] () p := by
  cases htm : p.test_mode <;>
    simp [multiply_defined_identifier, bind_apply, report_apply, exit_unless_test_mode, checked,
      htm, report_all]

theorem stab_checked {α : Type} (errs : List Diagnostic) (a : α) (p : Parser) :
    (checked errs a p).parser.stab = p.stab := by
  unfold checked
  cases errs with
  | nil => rfl
  | cons d ds => cases p.test_mode <;> rfl

/-- The declaration site of `parse_identifier_list`, written with the guard `declare`. -/
theorem parse_identifier_list_site (fuel : Nat) :
    parse_identifier_list (fuel + 1)
    = (do
        match (← get_word) with
        | .TOKEN_ID identifier_attr =>
          declare identifier_attr (stab_install identifier_attr .UNKNOWN_T)
          reserve_program_label identifier_attr
          advance
          parse_identifier_list_prm fuel
        | word =>
          parse_error "identifier" word
          pure false) := by
  rw [parse_identifier_list]
  funext p
  simp only [bind_apply, get_word_apply, declare]
  cases p.word <;> first
    | rfl
    | (simp only [bind_apply, getp_apply]; split <;> rfl)

/-- The declaration site of `parse_identifier_list_prm`, written with the guard `declare`. -/
theorem parse_identifier_list_prm_site (fuel : Nat) :
    parse_identifier_list_prm (fuel + 1)
    = (do
        if is_punctuation (← get_word) .PUNC_COMMA then
          advance
          match (← get_word) with
          | .TOKEN_ID identifier_attr =>
            declare identifier_attr (do
              if (← getp).parsing_formal_parm_list then
                stab_install_formal identifier_attr
              else
                stab_install identifier_attr .UNKNOWN_T)
            reserve_program_label identifier_attr
            advance
            parse_identifier_list_prm fuel
          | word =>
            parse_error "identifier" word
            pure false
        else
          pure true) := by
  rw [parse_identifier_list_prm]
  funext p
  simp only [bind_apply, get_word_apply, declare]
  split
  · simp only [bind_apply, get_word_apply, advance_apply]
    cases p.advanced.word <;> first
      | rfl
      | (simp only [bind_apply, getp_apply]
         split <;> first | rfl | (split <;> simp [bind_apply, getp_apply, *]))
  · rfl

/-- The declaration site of `parse_formal_parm_list`, written with the guard `declare`. -/
theorem parse_formal_parm_list_site (fuel : Nat) :
    parse_formal_parm_list (fuel + 1)
    = (do
        match (← get_word) with
        | .TOKEN_ID identifier_attr =>
          declare identifier_attr (stab_install_formal identifier_attr)
          advance
          if (← parse_identifier_list_prm fuel) then
            if is_punctuation (← get_word) .PUNC_COLON then
              advance
              let standard_type ← parse_standard_type .GARBAGE_T
              if standard_type.1 then
                stab_update_type standard_type.2
                parse_formal_parm_list_hat fuel
              else
                pure false
            else
              parse_error "':'" (← get_word)
              pure false
          else
            pure false
        | word =>
          parse_error "identifier" word
          pure false) := by
  rw [parse_formal_parm_list]
  funext p
  simp only [bind_apply, get_word_apply, declare]
  cases p.word <;> first
    | rfl
    | (simp only [bind_apply, getp_apply]; split <;> rfl)

/-- The declaration site of `parse_procedure_decl`, written with the guard `declare`. -/
theorem parse_procedure_decl_site (fuel : Nat) :
    parse_procedure_decl (fuel + 1)
    = (do
        if is_keyword (← get_word) .KW_PROCEDURE then
          advance
          match (← get_word) with
          | .TOKEN_ID identifier_attr =>
            declare identifier_attr (enter_procedure identifier_attr)
            advance
            if is_punctuation (← get_word) .PUNC_OPEN then
              advance
              if (← parse_procedure_args fuel) then
                if is_punctuation (← get_word) .PUNC_CLOSE then
                  advance
                  if (← parse_variable_decl_list fuel) then
                    if (← parse_block fuel) then
                      leave_procedure
                      pure true
                    else
                      pure false
                  else
                    pure false
                else
                  parse_error "')'" (← get_word)
                  pure false
              else
                pure false
            else
              parse_error "'('" (← get_word)
              pure false
          | word =>
            parse_error "identifier" word
            pure false
        else
          parse_error "procedure" (← get_word)
          pure false) := by
  rw [parse_procedure_decl]
  funext p
  simp only [bind_apply, get_word_apply, declare]
  split
  · simp only [bind_apply, get_word_apply, advance_apply]
    cases p.advanced.word <;> first
      | rfl
      | (simp only [bind_apply, getp_apply]; split <;> rfl)
  · rfl

theorem declare_of_decl (id : String) (install : M Unit) (p : Parser)
    (h : p.stab.is_decl id p.current_env = true) :
    declare id install p = checked [.multiply_defined_identifier id] () p := by
  simp only [declare, bind_apply, getp_apply, h, if_true, multiply_defined_identifier_apply]

theorem declare_of_not_decl (id : String) (install : M Unit) (p : Parser)
    (h : p.stab.is_decl id p.current_env = false) :
    declare id install p = install p := by
  simp only [declare, bind_apply, getp_apply, h, Bool.false_eq_true, if_false]

/-! ### Formal parameters and local variables -/

theorem ordinals_install (t : Symbol_Table) (id env : String) (ty : expr_type) :
    (t.install id env ty).ordinals = t.ordinals ++ [(id, env, none)] := by
  simp [Symbol_Table.install, Symbol_Table.ordinals]

theorem ordinals_install_pos (t : Symbol_Table) (id env : String) (ty : expr_type) (pos : Int) :
    (t.install_pos id env ty pos).ordinals = t.ordinals ++ [(id, env, some pos)] := by
  simp [Symbol_Table.install_pos, Symbol_Table.ordinals]

theorem ordinals_update_type (t : Symbol_Table) (ty : expr_type) :
    (t.update_type ty).ordinals = t.ordinals := by
  simp only [Symbol_Table.update_type, Symbol_Table.ordinals, List.map_map]
  apply List.map_congr_left
  intro x _
  simp only [Function.comp]
  split <;> rfl

theorem advanced_header (p : Parser) : p.advanced.header = p.header := by
  unfold Parser.advanced
  split <;> rfl

theorem more_declared_ok (x : String) (p : Parser) :
    more_declared x p = .ok () (more_declared x p).parser := by
  unfold more_declared
  simp only [bind_apply, getp_apply]
  cases p.parsing_formal_parm_list <;> rfl

theorem more_declared_header (x : String) (p : Parser) :
    (more_declared x p).parser.header
      = if p.parsing_formal_parm_list then
          (p.stab.install_pos x p.current_env .UNKNOWN_T p.formal_parm_position,
            p.current_env, true, p.formal_parm_position + 1)
        else
          (p.stab.install x p.current_env .UNKNOWN_T, p.current_env, false,
            p.formal_parm_position) := by
  unfold more_declared
  simp only [bind_apply, getp_apply]
  cases h : p.parsing_formal_parm_list <;>
    simp only [stab_install, stab_install_formal, reserve_program_label, modifyp_apply,
      bind_apply, advance_apply, Res.parser, advanced_header, Bool.false_eq_true, if_false,
      if_true] <;>
    split <;> simp [Parser.header, h]

theorem first_declared_ok (x : String) (p : Parser) :
    first_declared x p = .ok () (first_declared x p).parser := rfl

theorem first_declared_header (x : String) (p : Parser) :
    (first_declared x p).parser.header
      = (p.stab.install x p.current_env .UNKNOWN_T, p.current_env,
          p.parsing_formal_parm_list, p.formal_parm_position) := by
  unfold first_declared
  simp only [bind_apply, stab_install, reserve_program_label, modifyp_apply,
      advance_apply, Res.parser, advanced_header]
  split <;> simp [Parser.header]

theorem formal_declared_ok (x : String) (p : Parser) :
    formal_declared x p = .ok () (formal_declared x p).parser := rfl

theorem formal_declared_header (x : String) (p : Parser) :
    (formal_declared x p).parser.header
      = (p.stab.install_pos x p.current_env .UNKNOWN_T p.formal_parm_position,
          p.current_env, p.parsing_formal_parm_list, p.formal_parm_position + 1) := by
  unfold formal_declared
  simp only [bind_apply, stab_install_formal, modifyp_apply,
      advance_apply, Res.parser, advanced_header]
  simp [Parser.header]

theorem procedure_entered_ok (x : String) (p : Parser) :
    procedure_entered x p = .ok () (procedure_entered x p).parser := rfl

theorem procedure_entered_header (x : String) (p : Parser) :
    (procedure_entered x p).parser.header
      = (p.stab.install x p.current_env .PROCEDURE_T, x, p.parsing_formal_parm_list, 0) := by
  unfold procedure_entered
  simp only [bind_apply, enter_procedure, modifyp_apply,
      advance_apply, Res.parser, advanced_header]
  have h := advanced_header p
  simp only [Parser.header, Prod.mk.injEq] at h ⊢
  simp [h]

theorem declare_type_header (p q : Parser) (h : declare_type p = .ok true q) :
    ∃ ty, q.header = (p.stab.update_type ty, p.current_env, p.parsing_formal_parm_list,
      p.formal_parm_position) := by
  have ha := advanced_header p
  have hb := advanced_header p.advanced
  simp only [Parser.header, Prod.mk.injEq] at ha hb
  unfold declare_type at h
  cases hc : is_punctuation p.word .PUNC_COLON
  · simp [bind_apply, get_word_apply, hc, parse_error, report_apply, pure_apply] at h
  · cases hi : is_keyword p.advanced.word .KW_INT
    · cases hk : is_keyword p.advanced.word .KW_BOOL
      · simp [bind_apply, get_word_apply, advance_apply, parse_standard_type, hc, hi, hk,
          pure_apply] at h
      · simp only [bind_apply, get_word_apply, advance_apply, parse_standard_type, hc, hi, hk,
          pure_apply, stab_update_type, modifyp_apply, if_true, Bool.false_eq_true,
          if_false] at h
        injection h with _ h
        subst h
        exact ⟨.BOOL_T, by simp [Parser.header, ha, hb]⟩
    · simp only [bind_apply, get_word_apply, advance_apply, parse_standard_type, hc, hi,
        pure_apply, stab_update_type, modifyp_apply, if_true] at h
      injection h with _ h
      subst h
      exact ⟨.INT_T, by simp [Parser.header, ha, hb]⟩

theorem parse_identifier_list_prm_next (fuel : Nat) (p : Parser) (x : String)
    (hc : is_punctuation p.word .PUNC_COMMA = true)
    (hw : p.advanced.word = .TOKEN_ID x)
    (hd : p.advanced.stab.is_decl x p.advanced.current_env = false) :
    parse_identifier_list_prm (fuel + 1) p
      = parse_identifier_list_prm fuel (more_declared x p.advanced).parser := by
  rw [parse_identifier_list_prm_site]
  simp only [bind_apply, get_word_apply, hc, if_true, advance_apply, hw,
    declare_of_not_decl _ _ _ hd]
  cases hf : p.advanced.parsing_formal_parm_list <;>
    simp only [more_declared, bind_apply, getp_apply, hf, stab_install, stab_install_formal,
      reserve_program_label, modifyp_apply, advance_apply, Res.parser, if_true,
      Bool.false_eq_true, if_false]

theorem parse_identifier_list_prm_done (fuel : Nat) (p : Parser)
    (hc : is_punctuation p.word .PUNC_COMMA = false) :
    parse_identifier_list_prm (fuel + 1) p = .ok true p := by
  rw [parse_identifier_list_prm]
  simp only [bind_apply, get_word_apply, hc, Bool.false_eq_true, if_false, pure_apply]

theorem with_ordinals_length (env : String) (start : Int) (names : List String) :
    (with_ordinals env start names).length = names.length := by
  induction names generalizing start with
  | nil => rfl
  | cons x names ih => simp [with_ordinals, ih]

theorem with_ordinals_append (env : String) (start : Int) (names others : List String) :
    with_ordinals env start (names ++ others)
      = with_ordinals env start names ++ with_ordinals env (start + names.length) others := by
  induction names generalizing start with
  | nil => simp [with_ordinals]
  | cons x names ih =>
    have e : start + 1 + (names.length : Int) = start + ((names.length : Int) + 1) := by omega
    show (x, env, some start) :: with_ordinals env (start + 1) (names ++ others) = _
    rw [ih, e]
    simp only [with_ordinals, List.cons_append, List.length_cons, Nat.cast_add, Nat.cast_one]

/-- What a run of `parse_identifier_list_prm` over undeclared names does to
the header fields: while a formal parameter list is parsed the names are
appended with consecutive ordinals, otherwise without an ordinal. -/
theorem more_identifiers_run (fuel : Nat) (p q : Parser) (names : List String)
    (h : more_identifiers fuel p names q) :
    parse_identifier_list_prm fuel p = .ok true q
    ∧ q.current_env = p.current_env
    ∧ q.parsing_formal_parm_list = p.parsing_formal_parm_list
    ∧ (p.parsing_formal_parm_list = true →
        q.stab.ordinals
          = p.stab.ordinals ++ with_ordinals p.current_env p.formal_parm_position names
        ∧ q.formal_parm_position = p.formal_parm_position + names.length)
    ∧ (p.parsing_formal_parm_list = false →
        q.stab.ordinals = p.stab.ordinals ++ without_ordinals p.current_env names
        ∧ q.formal_parm_position = p.formal_parm_position) := by
  induction h with
  | done fuel p hc =>
    exact ⟨parse_identifier_list_prm_done fuel p hc, rfl, rfl,
      fun _ => by simp [with_ordinals], fun _ => by simp [without_ordinals]⟩
  | next fuel p q x names hc hw hd _ ih =>
    obtain ⟨hrun, henv, hflag, hformal, hlocal⟩ := ih
    have hh := more_declared_header x p.advanced
    have ha := advanced_header p
    simp only [Parser.header, Prod.mk.injEq] at ha
    obtain ⟨ha1, ha2, ha3, ha4⟩ := ha
    rw [ha1, ha2, ha3, ha4] at hh
    refine ⟨by rw [parse_identifier_list_prm_next fuel p x hc hw hd]; exact hrun, ?_, ?_, ?_, ?_⟩
    · cases hf : p.parsing_formal_parm_list <;>
        simp [hf, Parser.header] at hh <;> rw [henv, hh.2.1]
    · cases hf : p.parsing_formal_parm_list <;>
        simp [hf, Parser.header] at hh <;> rw [hflag, hh.2.2.1]
    · intro hf
      simp only [hf, if_true, Parser.header, Prod.mk.injEq] at hh
      obtain ⟨h1, h2, h3, h4⟩ := hh
      obtain ⟨hs, hp⟩ := hformal h3
      rw [hs, hp, h1, h2, h4, ordinals_install_pos]
      simp only [with_ordinals, List.append_assoc, List.singleton_append, List.length_cons,
        Nat.cast_add, Nat.cast_one, true_and]
      omega
    · intro hf
      simp only [hf, Bool.false_eq_true, if_false, Parser.header, Prod.mk.injEq] at hh
      obtain ⟨h1, h2, h3, h4⟩ := hh
      obtain ⟨hs, hp⟩ := hlocal h3
      rw [hs, hp, h1, h2, h4, ordinals_install]
      simp [without_ordinals]

theorem declare_type_tail (K : M Bool) (p q : Parser) (h : declare_type p = .ok true q) :
    (do
      if is_punctuation (← get_word) .PUNC_COLON then
        advance
        let standard_type ← parse_standard_type .GARBAGE_T
        if standard_type.1 then
          stab_update_type standard_type.2
          K
        else
          pure false
      else
        parse_error "':'" (← get_word)
        pure false) p = K q := by
  unfold declare_type at h
  cases hc : is_punctuation p.word .PUNC_COLON
  · simp [bind_apply, get_word_apply, hc, parse_error, report_apply, pure_apply] at h
  · cases hi : is_keyword p.advanced.word .KW_INT
    · cases hk : is_keyword p.advanced.word .KW_BOOL
      · simp [bind_apply, get_word_apply, advance_apply, parse_standard_type, hc, hi, hk,
          pure_apply] at h
      · simp only [bind_apply, get_word_apply, advance_apply, parse_standard_type, hc, hi, hk,
          pure_apply, stab_update_type, modifyp_apply, if_true, Bool.false_eq_true,
          if_false] at h ⊢
        injection h with _ h
        rw [h]
    · simp only [bind_apply, get_word_apply, advance_apply, parse_standard_type, hc, hi,
        pure_apply, stab_update_type, modifyp_apply, if_true] at h ⊢
      injection h with _ h
      rw [h]

theorem parse_formal_parm_list_first (fuel : Nat) (p : Parser) (x : String)
    (hw : p.word = .TOKEN_ID x) (hd : p.stab.is_decl x p.current_env = false) :
    parse_formal_parm_list (fuel + 1) p
      = (do
          if (← parse_identifier_list_prm fuel) then
            if is_punctuation (← get_word) .PUNC_COLON then
              advance
              let standard_type ← parse_standard_type .GARBAGE_T
              if standard_type.1 then
                stab_update_type standard_type.2
                parse_formal_parm_list_hat fuel
              else
                pure false
            else
              parse_error "':'" (← get_word)
              pure false
          else
            pure false) (formal_declared x p).parser := by
  rw [parse_formal_parm_list_site]
  simp only [bind_apply, get_word_apply, hw, declare_of_not_decl _ _ _ hd]
  rfl

theorem parse_formal_parm_list_group (fuel : Nat) (p p1 p2 : Parser) (x : String)
    (hw : p.word = .TOKEN_ID x) (hd : p.stab.is_decl x p.current_env = false)
    (hrun : parse_identifier_list_prm fuel (formal_declared x p).parser = .ok true p1)
    (hty : declare_type p1 = .ok true p2) :
    parse_formal_parm_list (fuel + 1) p = parse_formal_parm_list_hat fuel p2 := by
  rw [parse_formal_parm_list_first fuel p x hw hd, bind_apply, hrun]
  exact declare_type_tail _ _ _ hty

theorem parse_formal_parm_list_hat_done (fuel : Nat) (p : Parser)
    (h : is_punctuation p.word .PUNC_SEMI = false) :
    parse_formal_parm_list_hat (fuel + 1) p = .ok true p := by
  rw [parse_formal_parm_list_hat]
  simp only [bind_apply, get_word_apply, h, Bool.false_eq_true, if_false, pure_apply]

theorem parse_formal_parm_list_hat_more (fuel : Nat) (p : Parser)
    (h : is_punctuation p.word .PUNC_SEMI = true) :
    parse_formal_parm_list_hat (fuel + 1) p = parse_formal_parm_list fuel p.advanced := by
  rw [parse_formal_parm_list_hat]
  simp only [bind_apply, get_word_apply, h, if_true, advance_apply]

/-- What one group `x , names : T` of a formal parameter list does to the
header fields. -/
theorem formal_group_header (fuel : Nat) (p p1 p2 : Parser) (x : String) (names : List String)
    (hf : p.parsing_formal_parm_list = true)
    (hmore : more_identifiers fuel (formal_declared x p).parser names p1)
    (hty : declare_type p1 = .ok true p2) :
    parse_identifier_list_prm fuel (formal_declared x p).parser = .ok true p1
    ∧ p2.current_env = p.current_env
    ∧ p2.parsing_formal_parm_list = true
    ∧ p2.stab.ordinals
        = p.stab.ordinals ++ with_ordinals p.current_env p.formal_parm_position (x :: names)
    ∧ p2.formal_parm_position = p.formal_parm_position + (x :: names).length := by
  obtain ⟨hrun, henv, hflag, hformal, -⟩ := more_identifiers_run _ _ _ _ hmore
  have hh := formal_declared_header x p
  simp only [Parser.header, Prod.mk.injEq] at hh
  obtain ⟨h1, h2, h3, h4⟩ := hh
  obtain ⟨hs, hp⟩ := hformal (by rw [h3, hf])
  obtain ⟨ty, ht⟩ := declare_type_header p1 p2 hty
  simp only [Parser.header, Prod.mk.injEq] at ht
  obtain ⟨t1, t2, t3, t4⟩ := ht
  refine ⟨hrun, by rw [t2, henv, h2], by rw [t3, hflag, h3, hf], ?_, ?_⟩
  · rw [t1, ordinals_update_type, hs, h1, h2, h4, ordinals_install_pos]
    simp [with_ordinals]
  · rw [t4, hp, h4]
    simp only [List.length_cons, Nat.cast_add, Nat.cast_one]
    omega

/-- What a run of `parse_formal_parm_list` over undeclared names does: it
returns true and the names are appended to the symbol table with consecutive
ordinals, in the current environment. -/
theorem formal_groups_run (fuel : Nat) (p q : Parser) (names : List String)
    (h : formal_groups fuel p names q) (hf : p.parsing_formal_parm_list = true) :
    parse_formal_parm_list fuel p = .ok true q
    ∧ q.current_env = p.current_env
    ∧ q.parsing_formal_parm_list = true
    ∧ q.stab.ordinals
        = p.stab.ordinals ++ with_ordinals p.current_env p.formal_parm_position names
    ∧ q.formal_parm_position = p.formal_parm_position + names.length := by
  induction h with
  | last fuel p p1 q x names hw hd hmore hty hsemi =>
    obtain ⟨hrun, h1, h2, h3, h4⟩ := formal_group_header _ p p1 q x names hf hmore hty
    refine ⟨?_, h1, h2, h3, h4⟩
    rw [parse_formal_parm_list_group (fuel + 1) p p1 q x hw hd hrun hty]
    exact parse_formal_parm_list_hat_done fuel q hsemi
  | more fuel p p1 p2 q x names others hw hd hmore hty hsemi _ ih =>
    obtain ⟨hrun, h1, h2, h3, h4⟩ := formal_group_header _ p p1 p2 x names hf hmore hty
    have ha := advanced_header p2
    simp only [Parser.header, Prod.mk.injEq] at ha
    obtain ⟨a1, a2, a3, a4⟩ := ha
    obtain ⟨irun, i1, i2, i3, i4⟩ := ih (by rw [a3, h2])
    refine ⟨?_, by rw [i1, a2, h1], i2, ?_, ?_⟩
    · rw [parse_formal_parm_list_group (fuel + 1) p p1 p2 x hw hd hrun hty,
        parse_formal_parm_list_hat_more fuel p2 hsemi]
      exact irun
    · rw [i3, a1, a2, a4, h3, h1, h4]
      show _ = p.stab.ordinals ++ with_ordinals _ _ ((x :: names) ++ others)
      rw [with_ordinals_append, List.append_assoc]
    · rw [i4, a4, h4]
      simp only [List.length_cons, List.length_append, Nat.cast_add, Nat.cast_one]
      omega

/-- What a run of `parse_procedure_args` over undeclared names does. -/
theorem formal_args_run (fuel : Nat) (p q : Parser) (names : List String)
    (h : formal_args fuel p names q) (hf : p.parsing_formal_parm_list = false) :
    parse_procedure_args fuel p = .ok true q
    ∧ q.current_env = p.current_env
    ∧ q.parsing_formal_parm_list = false
    ∧ q.stab.ordinals
        = p.stab.ordinals ++ with_ordinals p.current_env p.formal_parm_position names := by
  cases h with
  | none fuel _ hw =>
    refine ⟨?_, rfl, hf, by simp [with_ordinals]⟩
    rw [parse_procedure_args]
    simp only [bind_apply, get_word_apply, hw, Bool.false_eq_true, if_false, pure_apply]
  | some fuel _ q names hw hg =>
    obtain ⟨hrun, h1, h2, h3, h4⟩ := formal_groups_run _ _ _ _ hg rfl
    refine ⟨?_, h1, rfl, h3⟩
    rw [parse_procedure_args]
    simp only [bind_apply, get_word_apply, hw, if_true]
    have e : set_parsing_formal_parm_list true p
        = .ok () (set_parsing_formal_parm_list true p).parser := rfl
    rw [e]
    dsimp only
    rw [hrun]
    rfl

theorem parse_identifier_list_first (fuel : Nat) (p : Parser) (x : String)
    (hw : p.word = .TOKEN_ID x) (hd : p.stab.is_decl x p.current_env = false) :
    parse_identifier_list (fuel + 1) p
      = parse_identifier_list_prm fuel (first_declared x p).parser := by
  rw [parse_identifier_list_site]
  simp only [bind_apply, get_word_apply, hw, declare_of_not_decl _ _ _ hd]
  rfl

theorem parse_variable_decl_first (fuel : Nat) (p : Parser) (x : String)
    (hw : p.word = .TOKEN_ID x) (hd : p.stab.is_decl x p.current_env = false) :
    parse_variable_decl (fuel + 2) p
      = (do
          if (← parse_identifier_list_prm fuel) then
            declare_type
          else
            pure false) (first_declared x p).parser := by
  rw [parse_variable_decl]
  simp only [bind_apply, get_word_apply, hw, is_identifier, if_true,
    parse_identifier_list_first fuel p x hw hd]
  rfl

theorem parse_variable_decl_list_group (fuel : Nat) (p p1 p2 : Parser) (x : String)
    (hw : p.word = .TOKEN_ID x) (hd : p.stab.is_decl x p.current_env = false)
    (hrun : parse_identifier_list_prm fuel (first_declared x p).parser = .ok true p1)
    (hty : declare_type p1 = .ok true p2)
    (hsemi : is_punctuation p2.word .PUNC_SEMI = true) :
    parse_variable_decl_list (fuel + 3) p = parse_variable_decl_list (fuel + 2) p2.advanced := by
  have hgroup : parse_variable_decl (fuel + 2) p = .ok true p2 := by
    rw [parse_variable_decl_first fuel p x hw hd, bind_apply, hrun]
    exact hty
  rw [parse_variable_decl_list]
  simp only [bind_apply, get_word_apply, hw, is_identifier, if_true, hgroup, hsemi,
    advance_apply]

/-- What a run of `parse_variable_decl_list` over undeclared names does
outside a formal parameter list: it returns true and the names are appended
to the symbol table without an ordinal, in the current environment. -/
theorem variable_groups_run (fuel : Nat) (p q : Parser) (names : List String)
    (h : variable_groups fuel p names q) (hf : p.parsing_formal_parm_list = false) :
    parse_variable_decl_list fuel p = .ok true q
    ∧ q.current_env = p.current_env
    ∧ q.parsing_formal_parm_list = false
    ∧ q.stab.ordinals = p.stab.ordinals ++ without_ordinals p.current_env names := by
  induction h with
  | done fuel p hw =>
    refine ⟨?_, rfl, hf, by simp [without_ordinals]⟩
    rw [parse_variable_decl_list]
    simp only [bind_apply, get_word_apply, hw, Bool.false_eq_true, if_false, pure_apply]
  | group fuel p p1 p2 q x names others hw hd hmore hty hsemi _ ih =>
    obtain ⟨hrun, henv, hflag, -, hlocal⟩ := more_identifiers_run _ _ _ _ hmore
    have hh := first_declared_header x p
    simp only [Parser.header, Prod.mk.injEq] at hh
    obtain ⟨h1, h2, h3, h4⟩ := hh
    obtain ⟨hs, -⟩ := hlocal (by rw [h3, hf])
    obtain ⟨ty, ht⟩ := declare_type_header p1 p2 hty
    simp only [Parser.header, Prod.mk.injEq] at ht
    obtain ⟨t1, t2, t3, t4⟩ := ht
    have ha := advanced_header p2
    simp only [Parser.header, Prod.mk.injEq] at ha
    obtain ⟨a1, a2, a3, a4⟩ := ha
    obtain ⟨irun, i1, i2, i3⟩ := ih (by rw [a3, t3, hflag, h3, hf])
    refine ⟨?_, by rw [i1, a2, t2, henv, h2], i2, ?_⟩
    · rw [parse_variable_decl_list_group fuel p p1 p2 x hw hd hrun hty hsemi]
      exact irun
    · rw [i3, a1, a2, t1, t2, ordinals_update_type, hs, h1, h2, henv, h2, ordinals_install]
      simp [without_ordinals]

theorem parse_procedure_decl_first (fuel : Nat) (p : Parser) (x : String)
    (hkw : is_keyword p.word .KW_PROCEDURE = true)
    (hw : p.advanced.word = .TOKEN_ID x)
    (hd : p.advanced.stab.is_decl x p.advanced.current_env = false) :
    parse_procedure_decl (fuel + 1) p
      = (do
          if is_punctuation (← get_word) .PUNC_OPEN then
            advance
            if (← parse_procedure_args fuel) then
              if is_punctuation (← get_word) .PUNC_CLOSE then
                advance
                if (← parse_variable_decl_list fuel) then
                  if (← parse_block fuel) then
                    leave_procedure
                    pure true
                  else
                    pure false
                else
                  pure false
              else
                parse_error "')'" (← get_word)
                pure false
            else
              pure false
          else
            parse_error "'('" (← get_word)
            pure false) (procedure_entered x p).parser := by
  rw [parse_procedure_decl_site]
  simp only [bind_apply, get_word_apply, hkw, if_true, advance_apply, hw,
    declare_of_not_decl _ _ _ hd]
  rfl

theorem with_ordinals_mem (env : String) (start : Int) (names : List String) (i : Nat)
    (x : String) (h : names[i]? = some x) :
    (x, env, some (start + i)) ∈ with_ordinals env start names := by
  induction names generalizing start i with
  | nil => simp at h
  | cons y names ih =>
    cases i with
    | zero =>
      simp only [List.getElem?_cons_zero, Option.some.injEq] at h
      subst h
      simp [with_ordinals]
    | succ i =>
      simp only [List.getElem?_cons_succ] at h
      have := ih (start + 1) i h
      simp only [with_ordinals, List.mem_cons]
      right
      have e : start + ((i + 1 : Nat) : Int) = start + 1 + (i : Int) := by
        simp only [Nat.cast_add, Nat.cast_one]; omega
      rw [e]
      exact this

/-! ### Environment switching -/

/-- The basic blocks of the declarations maintain every property of the
current and the program environment. -/
theorem environments_block_invariant (J : String → String → Prop) :
    DeclBlockInvariant (fun p => J p.current_env p.main_env)
      (fun _ p => J p.current_env p.main_env) where
  toStmtBlockInvariant := scope_pred_block_invariant (fun s => J s.2.2.1 s.2.2.2.1)
  multiply_defined_identifier := fun id => by
    intro p hp
    simp only [multiply_defined_identifier, bind_apply, report_apply, exit_unless_test_mode]
    cases h : p.test_mode <;> simpa [report_all, h] using hp
  reserve_program_label := fun id => by
    intro p hp
    simp only [reserve_program_label, modifyp_apply]
    split <;> exact hp
  stab_update_type := fun _ => fun _ hp => hp
  set_parsing_formal_parm_list := fun _ => fun _ hp => hp
  stab_install := fun _ _ => fun _ hp _ => hp
  stab_install_formal := fun _ => fun _ hp _ => hp

/-- The basic blocks of the procedure declarations maintain every property of
the program environment. -/
theorem main_env_block_invariant (J : String → Prop) :
    ProcBlockInvariant (fun p => J p.main_env) (fun _ p => J p.main_env) where
  toDeclBlockInvariant := environments_block_invariant (fun _ m => J m)
  leave_procedure := fun _ hp => hp
  enter_procedure := fun _ => fun _ hp _ => hp

theorem preserves_final_record {α : Type} {I : Parser → Prop} {x : M α}
    (h : preserves I (fun _ p => I p) x) (p : Parser) (hp : I p) : I (x p).parser := by
  have h1 := h p hp
  cases hx : x p with
  | ok a q => rw [hx] at h1; exact h1
  | halt hh q => rw [hx] at h1; exact h1

theorem advanced_main_env (p : Parser) : p.advanced.main_env = p.main_env := by
  unfold Parser.advanced
  split <;> rfl

theorem parse_procedure_args_environments (fuel : Nat) (p : Parser) :
    (parse_procedure_args fuel p).parser.current_env = p.current_env
    ∧ (parse_procedure_args fuel p).parser.main_env = p.main_env :=
  preserves_final_record (I := fun q => q.current_env = p.current_env ∧ q.main_env = p.main_env)
    (preserves_parse_procedure_args
      (environments_block_invariant (fun c m => c = p.current_env ∧ m = p.main_env)) fuel)
    p ⟨rfl, rfl⟩

theorem parse_variable_decl_list_environments (fuel : Nat) (p : Parser) :
    (parse_variable_decl_list fuel p).parser.current_env = p.current_env
    ∧ (parse_variable_decl_list fuel p).parser.main_env = p.main_env :=
  preserves_final_record (I := fun q => q.current_env = p.current_env ∧ q.main_env = p.main_env)
    (preserves_parse_variable_decl_list
      (environments_block_invariant (fun c m => c = p.current_env ∧ m = p.main_env)) fuel)
    p ⟨rfl, rfl⟩

theorem parse_block_environments (fuel : Nat) (p : Parser) :
    (parse_block fuel p).parser.current_env = p.current_env
    ∧ (parse_block fuel p).parser.main_env = p.main_env := by
  have h := parse_block_scope fuel p
  simp only [Parser.scope, Prod.mk.injEq] at h
  exact ⟨h.2.2.1, h.2.2.2.1⟩

theorem parse_procedure_decl_main_env (fuel : Nat) (p : Parser) :
    (parse_procedure_decl fuel p).parser.main_env = p.main_env :=
  preserves_final_record (I := fun q => q.main_env = p.main_env)
    (preserves_parse_procedure_decl (main_env_block_invariant (fun m => m = p.main_env)) fuel)
    p rfl

theorem returns_true_with_pure_false (Q : Parser → Prop) :
    returns_true_with Q (pure false) := by
  intro p q h
  simp only [pure_apply] at h
  injection h with h1 _
  cases h1

theorem returns_true_with_bind {α : Type} {Q : Parser → Prop} {x : M α} {f : α → M Bool}
    (hf : ∀ a, returns_true_with Q (f a)) : returns_true_with Q (x >>= f) := by
  intro p q h
  rw [bind_apply] at h
  cases hx : x p with
  | ok a p1 => rw [hx] at h; exact hf a p1 q h
  | halt hh p1 => rw [hx] at h; cases h

theorem returns_true_with_ite {Q : Parser → Prop} {c : Prop} [Decidable c] {x y : M Bool}
    (hx : returns_true_with Q x) (hy : returns_true_with Q y) :
    returns_true_with Q (if c then x else y) := by
  split <;> assumption

theorem returns_true_with_leave_procedure :
    returns_true_with (fun q => q.current_env = q.main_env)
      (do leave_procedure; pure true) := by
  intro p q h
  simp only [bind_apply, leave_procedure, modifyp_apply, pure_apply] at h
  injection h with _ h
  subst h
  rfl

/-- When `parse_procedure_decl` returns true the current environment is the
program environment. -/
theorem parse_procedure_decl_returns_true (fuel : Nat) :
    returns_true_with (fun q => q.current_env = q.main_env) (parse_procedure_decl fuel) := by
  cases fuel with
  | zero => intro p q h; rw [parse_procedure_decl] at h; cases h
  | succ fuel =>
    rw [parse_procedure_decl]
    repeat (with_reducible first
      | exact returns_true_with_pure_false _
      | exact returns_true_with_leave_procedure
      | refine returns_true_with_ite ?_ ?_
      | refine returns_true_with_bind (fun _ => ?_)
      | split)

theorem parse_procedure_decl_rest (fuel : Nat) (p : Parser) (x : String)
    (hkw : is_keyword p.word .KW_PROCEDURE = true)
    (hw : p.advanced.word = .TOKEN_ID x)
    (hd : p.advanced.stab.is_decl x p.advanced.current_env = false) :
    parse_procedure_decl (fuel + 1) p = procedure_rest fuel (procedure_entered x p).parser :=
  parse_procedure_decl_first fuel p x hkw hw hd

/-! ### The program epilogue -/

theorem out_emit (e : Emitter) (i : IR) : (e.emit i).out = e.out ++ [i] := rfl

theorem out_foldl_data_directives (labels : List String) (e : Emitter) :
    (labels.foldl (fun e l => e.emit (.data_directive l 1)) e).out
      = e.out ++ labels.map (fun l => .data_directive l 1) := by
  induction labels generalizing e with
  | nil => simp
  | cons l labels ih =>
    simp only [List.foldl_cons, List.map_cons]
    rw [ih, out_emit]
    simp

/-- What `emit_epilogue` does: it returns, the labels and the spill table are
left as they are, and the IR grows by the epilogue. -/
theorem emit_epilogue_run (p : Parser) :
    ∃ q, emit_epilogue p = .ok () q
      ∧ q.program_labels = p.program_labels
      ∧ q.spilled_labels = p.spilled_labels
      ∧ q.e.out = p.e.out ++ epilogue p := by
  refine ⟨(emit_epilogue p).parser, ?_, ?_, ?_, ?_⟩
  · unfold emit_epilogue
    simp only [bind_apply, emit, modifyp_apply, getp_apply, emit_data_directives]
    split <;> split <;> rfl
  · unfold emit_epilogue
    simp only [bind_apply, emit, modifyp_apply, getp_apply, emit_data_directives]
    split <;> split <;> rfl
  · unfold emit_epilogue
    simp only [bind_apply, emit, modifyp_apply, getp_apply, emit_data_directives]
    split <;> split <;> rfl
  · unfold emit_epilogue epilogue data_section
    simp only [bind_apply, emit, modifyp_apply, getp_apply, emit_data_directives]
    cases h1 : p.program_labels <;> cases h2 : p.spilled_labels <;>
      simp [bind_apply, pure_apply, modifyp_apply, Res.parser, out_foldl_data_directives,
        out_emit]

theorem returns_true_with_emit_epilogue :
    returns_true_with ends_with_epilogue (do emit_epilogue; pure true) := by
  intro p q h
  obtain ⟨q1, hrun, hl, hs, hout⟩ := emit_epilogue_run p
  simp only [bind_apply, hrun, pure_apply] at h
  injection h with _ h
  subst h
  refine ⟨p.e.out, ?_⟩
  rw [hout]
  simp only [epilogue, hl, hs]

theorem parse_program_ends_with_epilogue (fuel : Nat) :
    returns_true_with ends_with_epilogue (parse_program fuel) := by
  cases fuel with
  | zero => intro p q h; rw [parse_program] at h; cases h
  | succ fuel =>
    rw [parse_program]
    repeat (with_reducible first
      | exact returns_true_with_pure_false _
      | exact returns_true_with_emit_epilogue
      | refine returns_true_with_ite ?_ ?_
      | refine returns_true_with_bind (fun _ => ?_)
      | split)

theorem num_value_of_le (m : Nat) (h : m ≤ 2147483647) : num_value m = (m : Int) := by
  simp [num_value, h]

/-! ### Labels are only appended -/

theorem labels_extend_refl (a : List String × List String) : labels_extend a a :=
  ⟨List.prefix_refl _, List.prefix_refl _⟩

theorem labels_extend_trans {a b c : List String × List String}
    (h1 : labels_extend a b) (h2 : labels_extend b c) : labels_extend a c :=
  ⟨List.IsPrefix.trans h1.1 h2.1, List.IsPrefix.trans h1.2 h2.2⟩

theorem extends_labels_of_eq {α : Type} {x : M α}
    (h : ∀ p, (x p).parser.labels = p.labels) : extends_labels x := by
  intro p
  rw [h p]
  exact labels_extend_refl _

theorem extends_labels_bind {α β : Type} {x : M α} {f : α → M β} (hx : extends_labels x)
    (hf : ∀ a, extends_labels (f a)) : extends_labels (x >>= f) := by
  intro p
  have h1 := hx p
  rw [bind_apply]
  cases hxp : x p with
  | ok a p1 =>
    rw [hxp] at h1
    exact labels_extend_trans h1 (hf a p1)
  | halt h p1 =>
    rw [hxp] at h1
    exact h1

theorem extends_labels_pure {α : Type} (a : α) : extends_labels (pure a : M α) :=
  extends_labels_of_eq (fun _ => rfl)

theorem extends_labels_ite {α : Type} {c : Prop} [Decidable c] {x y : M α}
    (hx : extends_labels x) (hy : extends_labels y) :
    extends_labels (if c then x else y) := by
  split <;> assumption

theorem extends_labels_halt_with {α : Type} (h : Halt) :
    extends_labels (halt_with h : M α) :=
  extends_labels_of_eq (fun _ => rfl)

theorem extends_labels_getp : extends_labels getp :=
  extends_labels_of_eq (fun _ => rfl)

theorem extends_labels_get_word : extends_labels get_word :=
  extends_labels_of_eq (fun _ => rfl)

theorem extends_labels_has_free_register : extends_labels has_free_register :=
  extends_labels_of_eq (fun _ => rfl)

theorem extends_labels_emit (i : IR) : extends_labels (emit i) :=
  extends_labels_of_eq (fun _ => rfl)

theorem extends_labels_get_new_label (stem : String) : extends_labels (get_new_label stem) :=
  extends_labels_of_eq (fun _ => rfl)

theorem extends_labels_operand_at (x : Nat) : extends_labels (operand_at x) := by
  refine extends_labels_of_eq (fun p => ?_)
  unfold operand_at
  split <;> rfl

theorem extends_labels_allocate_register : extends_labels allocate_register := by
  refine extends_labels_of_eq (fun p => ?_)
  unfold allocate_register
  split <;> rfl

theorem extends_labels_deallocate_register (r : Register) : extends_labels (deallocate_register r) := by
  refine extends_labels_of_eq (fun p => ?_)
  unfold deallocate_register
  split <;> rfl

theorem extends_labels_allocate_spill_memory : extends_labels allocate_spill_memory := by
  intro p
  unfold allocate_spill_memory
  split
  · exact labels_extend_refl _
  · exact ⟨List.prefix_refl _, by simp [Parser.labels, Res.parser]⟩

theorem extends_labels_deallocate_spill_memory (l : String) :
    extends_labels (deallocate_spill_memory l) := by
  refine extends_labels_of_eq (fun p => ?_)
  simp only [deallocate_spill_memory, modifyp_apply, Res.parser, Parser.labels, List.map_map,
    Prod.mk.injEq, true_and]
  apply List.map_congr_left
  intro entry _
  simp only [Function.comp]
  split <;> rfl

theorem extends_labels_last_register_op_r_value : extends_labels last_register_op_r_value := by
  refine extends_labels_of_eq (fun p => ?_)
  unfold last_register_op_r_value
  split
  · rfl
  · split <;> rfl

theorem extends_labels_assign_operand (x : Nat) (o : Operand) : extends_labels (assign_operand x o) :=
  extends_labels_of_eq (fun _ => rfl)

theorem extends_labels_assign_last_register_op (o : Operand) :
    extends_labels (assign_last_register_op o) := by
  refine extends_labels_of_eq (fun p => ?_)
  unfold assign_last_register_op
  split <;> rfl

theorem extends_labels_delete_operand (x : Nat) : extends_labels (delete_operand x) :=
  extends_labels_of_eq (fun _ => rfl)

theorem extends_labels_set_last_register_op (x : Nat) : extends_labels (set_last_register_op x) :=
  extends_labels_of_eq (fun _ => rfl)

theorem extends_labels_end_of_scope (x : Nat) : extends_labels (end_of_scope x) :=
  extends_labels_of_eq (fun _ => rfl)

theorem extends_labels_new_operand_slot (o : Option Operand) : extends_labels (new_operand_slot o) :=
  extends_labels_of_eq (fun _ => rfl)

theorem extends_labels_emit_compare_branches (c : relop_attr) (r : Register) (l : String) :
    extends_labels (emit_compare_branches c r l) := by
  cases c <;> unfold emit_compare_branches <;>
    first
      | exact extends_labels_emit _
      | exact extends_labels_bind (extends_labels_emit _) (fun _ => extends_labels_emit _)

theorem extends_labels_emit_move_operand (b : Bool) (r : Register) (o : Operand) :
    extends_labels (emit_move_operand b r o) := by
  cases o <;> unfold emit_move_operand
  repeat (with_reducible first
    | exact extends_labels_pure _ | exact extends_labels_getp | exact extends_labels_get_word
    | exact extends_labels_has_free_register | exact extends_labels_emit _
    | exact extends_labels_get_new_label _ | exact extends_labels_operand_at _
    | exact extends_labels_allocate_register | exact extends_labels_deallocate_register _
    | exact extends_labels_allocate_spill_memory | exact extends_labels_deallocate_spill_memory _
    | exact extends_labels_last_register_op_r_value | exact extends_labels_assign_last_register_op _
    | exact extends_labels_assign_operand _ _ | exact extends_labels_delete_operand _
    | exact extends_labels_set_last_register_op _ | exact extends_labels_end_of_scope _
    | exact extends_labels_new_operand_slot _ | exact extends_labels_halt_with _
    | refine extends_labels_bind ?_ (fun _ => ?_) | refine extends_labels_ite ?_ ?_ | split)

theorem extends_labels_spill_last_register_op  :
    extends_labels (spill_last_register_op) := by
  unfold spill_last_register_op
  repeat (with_reducible first
    | exact extends_labels_pure _ | exact extends_labels_getp | exact extends_labels_get_word
    | exact extends_labels_has_free_register | exact extends_labels_emit _
    | exact extends_labels_get_new_label _ | exact extends_labels_operand_at _
    | exact extends_labels_allocate_register | exact extends_labels_deallocate_register _
    | exact extends_labels_allocate_spill_memory | exact extends_labels_deallocate_spill_memory _
    | exact extends_labels_last_register_op_r_value | exact extends_labels_assign_last_register_op _
    | exact extends_labels_assign_operand _ _ | exact extends_labels_delete_operand _
    | exact extends_labels_set_last_register_op _ | exact extends_labels_end_of_scope _
    | exact extends_labels_new_operand_slot _ | exact extends_labels_halt_with _
    | refine extends_labels_bind ?_ (fun _ => ?_) | refine extends_labels_ite ?_ ?_ | split)

theorem extends_labels_left_op_into_register (b : Bool) (x : Nat) :
    extends_labels (left_op_into_register b x) := by
  unfold left_op_into_register
  repeat (with_reducible first
    | exact extends_labels_pure _ | exact extends_labels_getp | exact extends_labels_get_word
    | exact extends_labels_has_free_register | exact extends_labels_emit _
    | exact extends_labels_get_new_label _ | exact extends_labels_operand_at _
    | exact extends_labels_allocate_register | exact extends_labels_deallocate_register _
    | exact extends_labels_allocate_spill_memory | exact extends_labels_deallocate_spill_memory _
    | exact extends_labels_last_register_op_r_value | exact extends_labels_assign_last_register_op _
    | exact extends_labels_assign_operand _ _ | exact extends_labels_delete_operand _
    | exact extends_labels_set_last_register_op _ | exact extends_labels_end_of_scope _
    | exact extends_labels_new_operand_slot _ | exact extends_labels_halt_with _
    | exact extends_labels_spill_last_register_op | exact extends_labels_emit_move_operand _ _ _
    | refine extends_labels_bind ?_ (fun _ => ?_) | refine extends_labels_ite ?_ ?_ | split)

theorem extends_labels_expression_into_register (x : Nat) :
    extends_labels (expression_into_register x) := by
  unfold expression_into_register
  repeat (with_reducible first
    | exact extends_labels_pure _ | exact extends_labels_getp | exact extends_labels_get_word
    | exact extends_labels_has_free_register | exact extends_labels_emit _
    | exact extends_labels_get_new_label _ | exact extends_labels_operand_at _
    | exact extends_labels_allocate_register | exact extends_labels_deallocate_register _
    | exact extends_labels_allocate_spill_memory | exact extends_labels_deallocate_spill_memory _
    | exact extends_labels_last_register_op_r_value | exact extends_labels_assign_last_register_op _
    | exact extends_labels_assign_operand _ _ | exact extends_labels_delete_operand _
    | exact extends_labels_set_last_register_op _ | exact extends_labels_end_of_scope _
    | exact extends_labels_new_operand_slot _ | exact extends_labels_halt_with _
    | exact extends_labels_spill_last_register_op | exact extends_labels_emit_move_operand _ _ _
    | refine extends_labels_bind ?_ (fun _ => ?_) | refine extends_labels_ite ?_ ?_ | split)

theorem extends_labels_emit_2addr_operand (i : inst_type) (r : Register) (x : Nat) :
    extends_labels (emit_2addr_operand i r x) := by
  unfold emit_2addr_operand
  repeat (with_reducible first
    | exact extends_labels_pure _ | exact extends_labels_getp | exact extends_labels_get_word
    | exact extends_labels_has_free_register | exact extends_labels_emit _
    | exact extends_labels_get_new_label _ | exact extends_labels_operand_at _
    | exact extends_labels_allocate_register | exact extends_labels_deallocate_register _
    | exact extends_labels_allocate_spill_memory | exact extends_labels_deallocate_spill_memory _
    | exact extends_labels_last_register_op_r_value | exact extends_labels_assign_last_register_op _
    | exact extends_labels_assign_operand _ _ | exact extends_labels_delete_operand _
    | exact extends_labels_set_last_register_op _ | exact extends_labels_end_of_scope _
    | exact extends_labels_new_operand_slot _ | exact extends_labels_halt_with _
    | refine extends_labels_bind ?_ (fun _ => ?_) | refine extends_labels_ite ?_ ?_ | split)

theorem extends_labels_release_right_op (x : Nat) :
    extends_labels (release_right_op x) := by
  unfold release_right_op
  repeat (with_reducible first
    | exact extends_labels_pure _ | exact extends_labels_getp | exact extends_labels_get_word
    | exact extends_labels_has_free_register | exact extends_labels_emit _
    | exact extends_labels_get_new_label _ | exact extends_labels_operand_at _
    | exact extends_labels_allocate_register | exact extends_labels_deallocate_register _
    | exact extends_labels_allocate_spill_memory | exact extends_labels_deallocate_spill_memory _
    | exact extends_labels_last_register_op_r_value | exact extends_labels_assign_last_register_op _
    | exact extends_labels_assign_operand _ _ | exact extends_labels_delete_operand _
    | exact extends_labels_set_last_register_op _ | exact extends_labels_end_of_scope _
    | exact extends_labels_new_operand_slot _ | exact extends_labels_halt_with _
    | refine extends_labels_bind ?_ (fun _ => ?_) | refine extends_labels_ite ?_ ?_ | split)

theorem extends_labels_relop_codegen (c : relop_attr) (l r : Nat) :
    extends_labels (relop_codegen c l r) := by
  unfold relop_codegen
  repeat (with_reducible first
    | exact extends_labels_pure _ | exact extends_labels_getp | exact extends_labels_get_word
    | exact extends_labels_has_free_register | exact extends_labels_emit _
    | exact extends_labels_get_new_label _ | exact extends_labels_operand_at _
    | exact extends_labels_allocate_register | exact extends_labels_deallocate_register _
    | exact extends_labels_allocate_spill_memory | exact extends_labels_deallocate_spill_memory _
    | exact extends_labels_last_register_op_r_value | exact extends_labels_assign_last_register_op _
    | exact extends_labels_assign_operand _ _ | exact extends_labels_delete_operand _
    | exact extends_labels_set_last_register_op _ | exact extends_labels_end_of_scope _
    | exact extends_labels_new_operand_slot _ | exact extends_labels_halt_with _
    | exact extends_labels_left_op_into_register _ _
    | exact extends_labels_expression_into_register _ | exact extends_labels_emit_2addr_operand _ _ _
    | exact extends_labels_release_right_op _ | exact extends_labels_emit_compare_branches _ _ _
    | refine extends_labels_bind ?_ (fun _ => ?_) | refine extends_labels_ite ?_ ?_ | split)

theorem extends_labels_addop_codegen (a : addop_attr) (l r : Nat) :
    extends_labels (addop_codegen a l r) := by
  unfold addop_codegen
  repeat (with_reducible first
    | exact extends_labels_pure _ | exact extends_labels_getp | exact extends_labels_get_word
    | exact extends_labels_has_free_register | exact extends_labels_emit _
    | exact extends_labels_get_new_label _ | exact extends_labels_operand_at _
    | exact extends_labels_allocate_register | exact extends_labels_deallocate_register _
    | exact extends_labels_allocate_spill_memory | exact extends_labels_deallocate_spill_memory _
    | exact extends_labels_last_register_op_r_value | exact extends_labels_assign_last_register_op _
    | exact extends_labels_assign_operand _ _ | exact extends_labels_delete_operand _
    | exact extends_labels_set_last_register_op _ | exact extends_labels_end_of_scope _
    | exact extends_labels_new_operand_slot _ | exact extends_labels_halt_with _
    | exact extends_labels_left_op_into_register _ _
    | exact extends_labels_expression_into_register _ | exact extends_labels_emit_2addr_operand _ _ _
    | exact extends_labels_release_right_op _ | exact extends_labels_emit_compare_branches _ _ _
    | refine extends_labels_bind ?_ (fun _ => ?_) | refine extends_labels_ite ?_ ?_ | split)

theorem extends_labels_mulop_codegen (m : mulop_attr) (l r : Nat) :
    extends_labels (mulop_codegen m l r) := by
  unfold mulop_codegen
  repeat (with_reducible first
    | exact extends_labels_pure _ | exact extends_labels_getp | exact extends_labels_get_word
    | exact extends_labels_has_free_register | exact extends_labels_emit _
    | exact extends_labels_get_new_label _ | exact extends_labels_operand_at _
    | exact extends_labels_allocate_register | exact extends_labels_deallocate_register _
    | exact extends_labels_allocate_spill_memory | exact extends_labels_deallocate_spill_memory _
    | exact extends_labels_last_register_op_r_value | exact extends_labels_assign_last_register_op _
    | exact extends_labels_assign_operand _ _ | exact extends_labels_delete_operand _
    | exact extends_labels_set_last_register_op _ | exact extends_labels_end_of_scope _
    | exact extends_labels_new_operand_slot _ | exact extends_labels_halt_with _
    | exact extends_labels_left_op_into_register _ _
    | exact extends_labels_expression_into_register _ | exact extends_labels_emit_2addr_operand _ _ _
    | exact extends_labels_release_right_op _ | exact extends_labels_emit_compare_branches _ _ _
    | refine extends_labels_bind ?_ (fun _ => ?_) | refine extends_labels_ite ?_ ?_ | split)

theorem extends_labels_sign_codegen (s : Int) (op : Nat) :
    extends_labels (sign_codegen s op) := by
  unfold sign_codegen
  repeat (with_reducible first
    | exact extends_labels_pure _ | exact extends_labels_getp | exact extends_labels_get_word
    | exact extends_labels_has_free_register | exact extends_labels_emit _
    | exact extends_labels_get_new_label _ | exact extends_labels_operand_at _
    | exact extends_labels_allocate_register | exact extends_labels_deallocate_register _
    | exact extends_labels_allocate_spill_memory | exact extends_labels_deallocate_spill_memory _
    | exact extends_labels_last_register_op_r_value | exact extends_labels_assign_last_register_op _
    | exact extends_labels_assign_operand _ _ | exact extends_labels_delete_operand _
    | exact extends_labels_set_last_register_op _ | exact extends_labels_end_of_scope _
    | exact extends_labels_new_operand_slot _ | exact extends_labels_halt_with _
    | exact extends_labels_left_op_into_register _ _
    | exact extends_labels_expression_into_register _ | exact extends_labels_emit_2addr_operand _ _ _
    | exact extends_labels_release_right_op _ | exact extends_labels_emit_compare_branches _ _ _
    | refine extends_labels_bind ?_ (fun _ => ?_) | refine extends_labels_ite ?_ ?_ | split)

theorem extends_labels_print_codegen (x : Nat) :
    extends_labels (print_codegen x) := by
  unfold print_codegen
  repeat (with_reducible first
    | exact extends_labels_pure _ | exact extends_labels_getp | exact extends_labels_get_word
    | exact extends_labels_has_free_register | exact extends_labels_emit _
    | exact extends_labels_get_new_label _ | exact extends_labels_operand_at _
    | exact extends_labels_allocate_register | exact extends_labels_deallocate_register _
    | exact extends_labels_allocate_spill_memory | exact extends_labels_deallocate_spill_memory _
    | exact extends_labels_last_register_op_r_value | exact extends_labels_assign_last_register_op _
    | exact extends_labels_assign_operand _ _ | exact extends_labels_delete_operand _
    | exact extends_labels_set_last_register_op _ | exact extends_labels_end_of_scope _
    | exact extends_labels_new_operand_slot _ | exact extends_labels_halt_with _
    | exact extends_labels_left_op_into_register _ _
    | exact extends_labels_expression_into_register _ | exact extends_labels_emit_2addr_operand _ _ _
    | exact extends_labels_release_right_op _ | exact extends_labels_emit_compare_branches _ _ _
    | refine extends_labels_bind ?_ (fun _ => ?_) | refine extends_labels_ite ?_ ?_ | split)

theorem extends_labels_assignment_codegen (id : String) (x : Nat) :
    extends_labels (assignment_codegen id x) := by
  unfold assignment_codegen
  repeat (with_reducible first
    | exact extends_labels_pure _ | exact extends_labels_getp | exact extends_labels_get_word
    | exact extends_labels_has_free_register | exact extends_labels_emit _
    | exact extends_labels_get_new_label _ | exact extends_labels_operand_at _
    | exact extends_labels_allocate_register | exact extends_labels_deallocate_register _
    | exact extends_labels_allocate_spill_memory | exact extends_labels_deallocate_spill_memory _
    | exact extends_labels_last_register_op_r_value | exact extends_labels_assign_last_register_op _
    | exact extends_labels_assign_operand _ _ | exact extends_labels_delete_operand _
    | exact extends_labels_set_last_register_op _ | exact extends_labels_end_of_scope _
    | exact extends_labels_new_operand_slot _ | exact extends_labels_halt_with _
    | exact extends_labels_left_op_into_register _ _
    | exact extends_labels_expression_into_register _ | exact extends_labels_emit_2addr_operand _ _ _
    | exact extends_labels_release_right_op _ | exact extends_labels_emit_compare_branches _ _ _
    | refine extends_labels_bind ?_ (fun _ => ?_) | refine extends_labels_ite ?_ ?_ | split)

theorem extends_labels_if_condition_codegen (x : Nat) :
    extends_labels (if_condition_codegen x) := by
  unfold if_condition_codegen
  repeat (with_reducible first
    | exact extends_labels_pure _ | exact extends_labels_getp | exact extends_labels_get_word
    | exact extends_labels_has_free_register | exact extends_labels_emit _
    | exact extends_labels_get_new_label _ | exact extends_labels_operand_at _
    | exact extends_labels_allocate_register | exact extends_labels_deallocate_register _
    | exact extends_labels_allocate_spill_memory | exact extends_labels_deallocate_spill_memory _
    | exact extends_labels_last_register_op_r_value | exact extends_labels_assign_last_register_op _
    | exact extends_labels_assign_operand _ _ | exact extends_labels_delete_operand _
    | exact extends_labels_set_last_register_op _ | exact extends_labels_end_of_scope _
    | exact extends_labels_new_operand_slot _ | exact extends_labels_halt_with _
    | exact extends_labels_left_op_into_register _ _
    | exact extends_labels_expression_into_register _ | exact extends_labels_emit_2addr_operand _ _ _
    | exact extends_labels_release_right_op _ | exact extends_labels_emit_compare_branches _ _ _
    | refine extends_labels_bind ?_ (fun _ => ?_) | refine extends_labels_ite ?_ ?_ | split)

theorem extends_labels_while_condition_codegen (l : String) (x : Nat) :
    extends_labels (while_condition_codegen l x) := by
  unfold while_condition_codegen
  repeat (with_reducible first
    | exact extends_labels_pure _ | exact extends_labels_getp | exact extends_labels_get_word
    | exact extends_labels_has_free_register | exact extends_labels_emit _
    | exact extends_labels_get_new_label _ | exact extends_labels_operand_at _
    | exact extends_labels_allocate_register | exact extends_labels_deallocate_register _
    | exact extends_labels_allocate_spill_memory | exact extends_labels_deallocate_spill_memory _
    | exact extends_labels_last_register_op_r_value | exact extends_labels_assign_last_register_op _
    | exact extends_labels_assign_operand _ _ | exact extends_labels_delete_operand _
    | exact extends_labels_set_last_register_op _ | exact extends_labels_end_of_scope _
    | exact extends_labels_new_operand_slot _ | exact extends_labels_halt_with _
    | exact extends_labels_left_op_into_register _ _
    | exact extends_labels_expression_into_register _ | exact extends_labels_emit_2addr_operand _ _ _
    | exact extends_labels_release_right_op _ | exact extends_labels_emit_compare_branches _ _ _
    | refine extends_labels_bind ?_ (fun _ => ?_) | refine extends_labels_ite ?_ ?_ | split)

theorem extends_labels_modifyp (f : Parser → Parser) (h : ∀ p, (f p).labels = p.labels) :
    extends_labels (modifyp f) :=
  extends_labels_of_eq h

theorem extends_labels_advance : extends_labels advance := by
  refine extends_labels_of_eq (fun p => ?_)
  simp only [advance_apply, Res.parser]
  unfold Parser.advanced
  split <;> rfl

theorem extends_labels_report (d : Diagnostic) : extends_labels (report d) :=
  extends_labels_of_eq (fun _ => rfl)

theorem extends_labels_exit_unless_test_mode : extends_labels exit_unless_test_mode := by
  refine extends_labels_of_eq (fun p => ?_)
  unfold exit_unless_test_mode
  split <;> rfl

theorem extends_labels_reserve_program_label (id : String) :
    extends_labels (reserve_program_label id) := by
  intro p
  simp only [reserve_program_label, modifyp_apply, Res.parser]
  split
  · exact ⟨by simp [Parser.labels], List.prefix_refl _⟩
  · exact labels_extend_refl _

theorem extends_labels_emit_epilogue : extends_labels emit_epilogue := by
  refine extends_labels_of_eq (fun p => ?_)
  obtain ⟨q, hrun, h1, h2, -⟩ := emit_epilogue_run p
  rw [hrun]
  simp only [Res.parser, Parser.labels, h1, h2]

theorem preserves_of_extends_labels {α : Type} {x : M α} (l : List String × List String)
    (h : extends_labels x) :
    preserves (fun q => labels_extend l q.labels) (fun _ q => labels_extend l q.labels) x := by
  intro p hp
  have h1 := h p
  cases hx : x p with
  | ok a q => rw [hx] at h1; exact labels_extend_trans hp h1
  | halt hh q => rw [hx] at h1; exact labels_extend_trans hp h1

/-- The basic blocks of the parser remove no label and change no label and
no order of the program-variable labels and of the spill table. -/
theorem labels_block_invariant (l : List String × List String) :
    BlockInvariant (fun q => labels_extend l q.labels) (fun _ q => labels_extend l q.labels) where
  out_of_fuel := fun _ h => h
  advance := preserves_of_extends_labels l extends_labels_advance
  parse_error := fun _ _ => preserves_of_extends_labels l (extends_labels_report _)
  undeclared_identifier := fun _ => preserves_of_extends_labels l
    (extends_labels_bind (extends_labels_report _) (fun _ => extends_labels_exit_unless_test_mode))
  type_error := fun _ _ => preserves_of_extends_labels l
    (extends_labels_bind (extends_labels_report _) (fun _ => extends_labels_exit_unless_test_mode))
  type_error2 := fun _ _ _ => preserves_of_extends_labels l
    (extends_labels_bind (extends_labels_report _) (fun _ => extends_labels_exit_unless_test_mode))
  new_operand_slot_null := preserves_of_extends_labels l (extends_labels_new_operand_slot _)
  end_of_scope := fun _ => preserves_of_extends_labels l (extends_labels_end_of_scope _)
  assign_memory := fun _ _ => preserves_of_extends_labels l (extends_labels_assign_operand _ _)
  assign_immediate := fun _ _ => preserves_of_extends_labels l (extends_labels_assign_operand _ _)
  relop_codegen := fun _ _ _ => preserves_of_extends_labels l (extends_labels_relop_codegen _ _ _)
  addop_codegen := fun _ _ _ => preserves_of_extends_labels l (extends_labels_addop_codegen _ _ _)
  mulop_codegen := fun _ _ _ => preserves_of_extends_labels l (extends_labels_mulop_codegen _ _ _)
  sign_codegen := fun _ _ => preserves_of_extends_labels l (extends_labels_sign_codegen _ _)
  set_procedure_name := fun _ =>
    preserves_of_extends_labels l (extends_labels_modifyp _ (fun _ => rfl))
  reset_actual_parm_position :=
    preserves_of_extends_labels l (extends_labels_modifyp _ (fun _ => rfl))
  increment_actual_parm_position :=
    preserves_of_extends_labels l (extends_labels_modifyp _ (fun _ => rfl))
  emit := fun _ => preserves_of_extends_labels l (extends_labels_emit _)
  get_new_label := fun _ => preserves_of_extends_labels l (extends_labels_get_new_label _)
  new_operand_slot_memory := fun _ =>
    preserves_of_extends_labels l (extends_labels_new_operand_slot _)
  print_codegen := fun _ => preserves_of_extends_labels l (extends_labels_print_codegen _)
  assignment_codegen := fun _ _ =>
    preserves_of_extends_labels l (extends_labels_assignment_codegen _ _)
  if_condition_codegen := fun _ =>
    preserves_of_extends_labels l (extends_labels_if_condition_codegen _)
  while_condition_codegen := fun _ _ =>
    preserves_of_extends_labels l (extends_labels_while_condition_codegen _ _)
  multiply_defined_identifier := fun _ => preserves_of_extends_labels l
    (extends_labels_bind (extends_labels_report _) (fun _ => extends_labels_exit_unless_test_mode))
  reserve_program_label := fun _ =>
    preserves_of_extends_labels l (extends_labels_reserve_program_label _)
  stab_update_type := fun _ =>
    preserves_of_extends_labels l (extends_labels_modifyp _ (fun _ => rfl))
  set_parsing_formal_parm_list := fun _ =>
    preserves_of_extends_labels l (extends_labels_modifyp _ (fun _ => rfl))
  stab_install := fun _ _ => preserves_from_of_preserves
    (preserves_of_extends_labels l (extends_labels_modifyp _ (fun _ => rfl)))
  stab_install_formal := fun _ => preserves_from_of_preserves
    (preserves_of_extends_labels l (extends_labels_modifyp _ (fun _ => rfl)))
  leave_procedure := preserves_of_extends_labels l (extends_labels_modifyp _ (fun _ => rfl))
  enter_procedure := fun _ => preserves_from_of_preserves
    (preserves_of_extends_labels l (extends_labels_modifyp _ (fun _ => rfl)))
  enter_program := fun _ =>
    preserves_of_extends_labels l (extends_labels_modifyp _ (fun _ => rfl))
  emit_epilogue := preserves_of_extends_labels l extends_labels_emit_epilogue

theorem extends_labels_of_preserves {α : Type} {x : M α}
    (h : ∀ l, preserves (fun q => labels_extend l q.labels)
      (fun _ q => labels_extend l q.labels) x) : extends_labels x := by
  intro p
  have h1 := h p.labels p (labels_extend_refl _)
  cases hx : x p with
  | ok a q => rw [hx] at h1; exact h1
  | halt hh q => rw [hx] at h1; exact h1

/-- No production removes a label or changes a label or the order of the
program-variable labels and of the spill table, however it ends. -/
theorem extends_labels_productions (fuel : Nat) :
    extends_labels (parse_program fuel)
    ∧ extends_labels (parse_decl_list fuel)
    ∧ extends_labels (parse_block fuel)
    ∧ extends_labels (parse_stmt fuel)
    ∧ (∀ t op, extends_labels (parse_expr fuel t op)) :=
  ⟨extends_labels_of_preserves (fun l => preserves_parse_program (labels_block_invariant l) fuel),
   extends_labels_of_preserves (fun l =>
     preserves_parse_decl_list (labels_block_invariant l).toProcBlockInvariant fuel),
   extends_labels_of_preserves (fun l => (preserves_statement_productions
     (labels_block_invariant l).toStmtBlockInvariant fuel).1),
   extends_labels_of_preserves (fun l => (preserves_statement_productions
     (labels_block_invariant l).toStmtBlockInvariant fuel).2.2.2.1),
   fun t op => extends_labels_of_preserves (fun l => (preserves_expression_productions
     (labels_block_invariant l).toExprBlockInvariant fuel).1 t op)⟩

/-! ### What the codegen blocks do when they return -/

theorem bind_eq_ok {α β : Type} {x : M α} {f : α → M β} {p q : Parser} {b : β}
    (h : (x >>= f) p = .ok b q) : ∃ a p1, x p = .ok a p1 ∧ f a p1 = .ok b q := by
  rw [bind_apply] at h
  cases hx : x p with
  | ok a p1 => rw [hx] at h; exact ⟨a, p1, rfl, h⟩
  | halt hh p1 => rw [hx] at h; cases h

theorem bind_eq_of_ok {α β : Type} {x : M α} {f : α → M β} {p p1 : Parser} {a : α}
    (hx : x p = .ok a p1) : (x >>= f) p = f a p1 := by
  rw [bind_apply, hx]

theorem operand_at_iff (x : Nat) (p q : Parser) (o : Operand) :
    operand_at x p = .ok o q
      ↔ q = p ∧ p.slots[x]? = some { op := some o, deleted := false, live := true } := by
  unfold operand_at
  constructor
  · intro h
    split at h
    · rename_i o1 h1
      simp only [Res.ok.injEq] at h
      obtain ⟨rfl, rfl⟩ := h
      exact ⟨rfl, h1⟩
    · simp at h
  · rintro ⟨rfl, h⟩
    rw [h]

theorem allocate_spill_memory_frame {p p1 : Parser} {S : String}
    (h : allocate_spill_memory p = .ok S p1) :
    p1.slots = p.slots ∧ p1.allocator = p.allocator
      ∧ p1.last_register_op = p.last_register_op ∧ p1.e.out = p.e.out := by
  unfold allocate_spill_memory at h
  split at h
  · simp only [Res.ok.injEq] at h
    obtain ⟨-, rfl⟩ := h
    exact ⟨rfl, rfl, rfl, rfl⟩
  · simp only [Res.ok.injEq] at h
    obtain ⟨-, rfl⟩ := h
    exact ⟨rfl, rfl, rfl, rfl⟩

theorem allocate_spill_memory_total (p : Parser) :
    ∃ S p1, allocate_spill_memory p = .ok S p1 := by
  unfold allocate_spill_memory
  split
  · exact ⟨_, _, rfl⟩
  · exact ⟨_, _, rfl⟩

theorem last_register_op_r_value_iff (p q : Parser) (r : Register) :
    last_register_op_r_value p = .ok r q
      ↔ q = p ∧ ∃ x, p.last_register_op = some x
          ∧ p.slots[x]?
            = some { op := some (.OPTYPE_REGISTER r), deleted := false, live := true } := by
  unfold last_register_op_r_value
  constructor
  · intro h
    split at h
    · simp at h
    · rename_i x hx
      split at h
      · rename_i r1 h1
        simp only [Res.ok.injEq] at h
        obtain ⟨rfl, rfl⟩ := h
        exact ⟨rfl, x, hx, h1⟩
      · simp at h
  · rintro ⟨rfl, x, hx, hs⟩
    simp only [hx, hs]

theorem deallocate_register_iff (r : Register) (p q : Parser) :
    deallocate_register r p = .ok () q
      ↔ ∃ a, p.allocator.deallocate_register r = some a ∧ q = { p with allocator := a } := by
  unfold deallocate_register
  constructor
  · intro h
    split at h
    · rename_i a ha
      simp only [Res.ok.injEq, true_and] at h
      exact ⟨a, ha, h.symm⟩
    · simp at h
  · rintro ⟨a, ha, rfl⟩
    simp only [ha]

theorem allocate_register_iff (r : Register) (p q : Parser) :
    allocate_register p = .ok r q
      ↔ ∃ a, p.allocator.allocate_register = some (r, a) ∧ q = { p with allocator := a } := by
  unfold allocate_register
  constructor
  · intro h
    split at h
    · rename_i r1 a ha
      simp only [Res.ok.injEq] at h
      obtain ⟨rfl, rfl⟩ := h
      exact ⟨a, ha, rfl⟩
    · simp at h
  · rintro ⟨a, ha, rfl⟩
    simp only [ha]

/-- The block guarded by `if (!allocator->has_free_register())` returns
exactly when the spill step can be taken, with the record of that step. -/
theorem spill_last_register_op_iff (p q : Parser) :
    spill_last_register_op p = .ok () q ↔ spill_step p q := by
  unfold spill_last_register_op spill_step
  constructor
  · intro h
    obtain ⟨S, p1, h1, h⟩ := bind_eq_ok h
    obtain ⟨hs, ha, hl, -⟩ := allocate_spill_memory_frame h1
    obtain ⟨_, p2, h2, h⟩ := bind_eq_ok h
    simp only [emit, modifyp_apply, Res.ok.injEq, true_and] at h2
    subst h2
    obtain ⟨r, p3, h3, h⟩ := bind_eq_ok h
    obtain ⟨rfl, x, hx, hsx⟩ := (last_register_op_r_value_iff _ _ _).1 h3
    obtain ⟨_, p4, h4, h⟩ := bind_eq_ok h
    simp only [emit, modifyp_apply, Res.ok.injEq, true_and] at h4
    subst h4
    obtain ⟨_, p5, h5, h⟩ := bind_eq_ok h
    obtain ⟨a, ha5, rfl⟩ := (deallocate_register_iff _ _ _).1 h5
    simp only [assign_last_register_op, assign_operand, modifyp_apply] at h
    simp only at hx
    have hx1 := hx
    rw [hx] at h
    simp only [Res.ok.injEq, true_and] at h
    refine ⟨S, p1, x, r, a, h1, ?_, ?_, ?_, ?_⟩
    · rw [← hl]; exact hx1
    · rw [← hs]; exact hsx
    · rw [← ha]; exact ha5
    · rw [← h, hx1]
  · rintro ⟨S, p1, x, r, a, h1, hx, hsx, ha5, rfl⟩
    obtain ⟨hs, ha, hl, -⟩ := allocate_spill_memory_frame h1
    rw [bind_eq_of_ok h1]
    simp only [bind_apply, emit, modifyp_apply]
    have h3 : ∀ e1 : Emitter, last_register_op_r_value { p1 with e := e1 }
        = .ok r { p1 with e := e1 } := fun e1 =>
      (last_register_op_r_value_iff _ _ _).2 ⟨rfl, x, by rw [← hx, ← hl], by rw [← hsx, ← hs]⟩
    rw [h3]
    simp only [deallocate_register, ha, ha5, assign_last_register_op, assign_operand,
      modifyp_apply, hl, hx]

theorem spill_step_frame {p p1 : Parser} (h : spill_step p p1) :
    p1.context = p.context ∧ p1.last_register_op = p.last_register_op := by
  obtain ⟨S, p0, x, r, a, h1, hx, hsx, ha, rfl⟩ := h
  have hc := only_codegen_allocate_spill_memory p
  rw [h1] at hc
  obtain ⟨-, -, hl, -⟩ := allocate_spill_memory_frame h1
  exact ⟨hc, hl⟩

/-- The spill step leaves every slot as it is whose operand is no register
operand. -/
theorem spill_step_slot {p p1 : Parser} (h : spill_step p p1) (x : Nat) (o : Operand)
    (hx : p.slots[x]? = some { op := some o, deleted := false, live := true })
    (ho : o.is_register = false) :
    p1.slots[x]? = some { op := some o, deleted := false, live := true } := by
  obtain ⟨S, p0, y, r, a, h1, hy, hsy, ha, rfl⟩ := h
  obtain ⟨hs, -, -, -⟩ := allocate_spill_memory_frame h1
  have hne : y ≠ x := by
    rintro rfl
    rw [hsy] at hx
    simp only [Option.some.injEq, Slot.mk.injEq, and_true] at hx
    subst hx
    simp [Operand.is_register] at ho
  simp only [getElem?_modify_slots, hs, hx, Option.map_some', hne, if_false]

theorem emit_move_operand_load (b : Bool) (r : Register) (o : Operand) (p : Parser)
    (ho : o.is_register = false) :
    emit_move_operand b r o p = .ok () { p with e := { p.e with out := p.e.out ++ load_code r o } } := by
  cases o with
  | OPTYPE_REGISTER r1 => simp [Operand.is_register] at ho
  | OPTYPE_IMMEDIATE i => rfl
  | OPTYPE_MEMORY m => rfl

theorem modify_delete_assign (l : List Slot) (x : Nat) (o : Operand) :
    (l.modify (fun s => { s with deleted := true }) x).modify
        (fun s => { s with op := some o, deleted := false }) x
      = l.modify (fun s => { s with op := some o, deleted := false }) x := by
  apply List.ext_getElem?
  intro i
  simp only [getElem?_modify_slots, Option.map_map]
  cases l[i]? with
  | none => rfl
  | some s =>
    simp only [Option.map_some', Function.comp]
    split <;> rfl

theorem room_made_iff (p p1 : Parser) :
    (do
      if !(← has_free_register) then
        spill_last_register_op) p = .ok () p1 ↔ room_made p p1 := by
  simp only [bind_apply, has_free_register, room_made]
  cases hf : p.allocator.has_free_register
  · simp only [Bool.not_false, if_true, spill_last_register_op_iff, Bool.false_eq_true,
      false_and, true_and, false_or]
  · simp only [Bool.not_true, Bool.false_eq_true, if_false, pure_apply, Res.ok.injEq,
      true_and, false_and, or_false, Bool.true_eq_false]
    exact eq_comm

theorem left_op_into_register_eq (b : Bool) (x : Nat) :
    left_op_into_register b x
      = (do
          match (← operand_at x) with
          | .OPTYPE_REGISTER r => pure r
          | _ => load_left_op b x) := by
  unfold left_op_into_register load_left_op
  rfl

theorem expression_into_register_eq (x : Nat) :
    expression_into_register x
      = (do
          match (← operand_at x) with
          | .OPTYPE_REGISTER r => pure r
          | _ => load_expression x) := by
  unfold expression_into_register load_expression
  rfl

theorem room_made_slot {p p1 : Parser} (h : room_made p p1) (x : Nat) (o : Operand)
    (hx : p.slots[x]? = some { op := some o, deleted := false, live := true })
    (ho : o.is_register = false) :
    p1.slots[x]? = some { op := some o, deleted := false, live := true } := by
  rcases h with ⟨-, rfl⟩ | ⟨-, h⟩
  · exact hx
  · exact spill_step_slot h x o hx ho

theorem room_made_run {α : Type} (f : M α) (p : Parser) (a : α) (q : Parser) :
    (do
      if !(← has_free_register) then
        spill_last_register_op
      f) p = .ok a q ↔ ∃ p1, room_made p p1 ∧ f p1 = .ok a q := by
  unfold room_made
  cases hf : p.allocator.has_free_register
  · have e : (do
        if !(← has_free_register) then
          spill_last_register_op
        f) p = (spill_last_register_op >>= fun _ => f) p := by
      simp only [bind_apply, has_free_register, hf, Bool.not_false, if_true]
    rw [e]
    simp only [Bool.false_eq_true, false_and, true_and, false_or]
    constructor
    · intro h
      obtain ⟨u, p1, hs, h⟩ := bind_eq_ok h
      exact ⟨p1, (spill_last_register_op_iff p p1).1 hs, h⟩
    · rintro ⟨p1, hs, h⟩
      rw [bind_eq_of_ok ((spill_last_register_op_iff p p1).2 hs)]
      exact h
  · have e : (do
        if !(← has_free_register) then
          spill_last_register_op
        f) p = f p := by
      simp only [bind_apply, has_free_register, hf, Bool.not_true, Bool.false_eq_true, if_false,
        pure_apply]
    rw [e]
    simp only [true_and, false_and, or_false, Bool.true_eq_false]
    constructor
    · intro h; exact ⟨p, rfl, h⟩
    · rintro ⟨p1, rfl, h⟩; exact h

theorem load_left_op_iff (b : Bool) (x : Nat) (p q : Parser) (r : Register) (o : Operand)
    (hx : p.slots[x]? = some { op := some o, deleted := false, live := true })
    (ho : o.is_register = false) :
    load_left_op b x p = .ok r q
      ↔ ∃ (p1 : Parser) (a : Register_Allocator),
          room_made p p1
          ∧ p1.allocator.allocate_register = some (r, a)
          ∧ q = { p1 with
              allocator := a,
              e := { p1.e with out := p1.e.out ++ load_code r o },
              slots := p1.slots.modify
                (fun s => { s with op := some (.OPTYPE_REGISTER r), deleted := false }) x } := by
  unfold load_left_op
  rw [room_made_run]
  constructor
  · rintro ⟨p1, hroom, h⟩
    have hx1 := room_made_slot hroom x o hx ho
    obtain ⟨r1, p2, h2, h⟩ := bind_eq_ok h
    obtain ⟨a, ha, rfl⟩ := (allocate_register_iff _ _ _).1 h2
    have h3 : operand_at x { p1 with allocator := a } = .ok o { p1 with allocator := a } :=
      (operand_at_iff _ _ _ _).2 ⟨rfl, hx1⟩
    rw [bind_eq_of_ok h3, bind_eq_of_ok (emit_move_operand_load b r1 o _ ho)] at h
    simp only [bind_apply, delete_operand, assign_operand, modifyp_apply, pure_apply,
      Res.ok.injEq, modify_delete_assign] at h
    obtain ⟨rfl, rfl⟩ := h
    exact ⟨p1, a, hroom, ha, rfl⟩
  · rintro ⟨p1, a, hroom, ha, rfl⟩
    have hx1 := room_made_slot hroom x o hx ho
    refine ⟨p1, hroom, ?_⟩
    rw [bind_eq_of_ok ((allocate_register_iff r p1 _).2 ⟨a, ha, rfl⟩)]
    have h3 : operand_at x { p1 with allocator := a } = .ok o { p1 with allocator := a } :=
      (operand_at_iff _ _ _ _).2 ⟨rfl, hx1⟩
    rw [bind_eq_of_ok h3, bind_eq_of_ok (emit_move_operand_load b r o _ ho)]
    simp only [bind_apply, delete_operand, assign_operand, modifyp_apply, pure_apply,
      modify_delete_assign]

theorem load_expression_iff (x : Nat) (p q : Parser) (r : Register) (o : Operand)
    (hx : p.slots[x]? = some { op := some o, deleted := false, live := true })
    (ho : o.is_register = false) :
    load_expression x p = .ok r q
      ↔ ∃ (p1 : Parser) (a : Register_Allocator),
          room_made p p1
          ∧ p1.allocator.allocate_register = some (r, a)
          ∧ q = { p1 with
              allocator := a,
              e := { p1.e with out := p1.e.out ++ load_code r o } } := by
  unfold load_expression
  rw [room_made_run]
  constructor
  · rintro ⟨p1, hroom, h⟩
    have hx1 := room_made_slot hroom x o hx ho
    obtain ⟨r1, p2, h2, h⟩ := bind_eq_ok h
    obtain ⟨a, ha, rfl⟩ := (allocate_register_iff _ _ _).1 h2
    have h3 : operand_at x { p1 with allocator := a } = .ok o { p1 with allocator := a } :=
      (operand_at_iff _ _ _ _).2 ⟨rfl, hx1⟩
    rw [bind_eq_of_ok h3, bind_eq_of_ok (emit_move_operand_load false r1 o _ ho)] at h
    simp only [pure_apply, Res.ok.injEq] at h
    obtain ⟨rfl, rfl⟩ := h
    exact ⟨p1, a, hroom, ha, rfl⟩
  · rintro ⟨p1, a, hroom, ha, rfl⟩
    have hx1 := room_made_slot hroom x o hx ho
    refine ⟨p1, hroom, ?_⟩
    rw [bind_eq_of_ok ((allocate_register_iff r p1 _).2 ⟨a, ha, rfl⟩)]
    have h3 : operand_at x { p1 with allocator := a } = .ok o { p1 with allocator := a } :=
      (operand_at_iff _ _ _ _).2 ⟨rfl, hx1⟩
    rw [bind_eq_of_ok h3, bind_eq_of_ok (emit_move_operand_load false r o _ ho)]
    rfl

/-- The block "make sure that the left operand is stored in a register"
returns exactly when the operand can be materialized, with the register and
the record of the materialization. -/
theorem left_op_into_register_iff (b : Bool) (x : Nat) (p q : Parser) (r : Register) :
    left_op_into_register b x p = .ok r q ↔ materialized true x p r q := by
  rw [left_op_into_register_eq]
  unfold materialized
  constructor
  · intro h
    obtain ⟨o, p0, h0, h⟩ := bind_eq_ok h
    obtain ⟨rfl, hx⟩ := (operand_at_iff _ _ _ _).1 h0
    refine ⟨o, hx, ?_⟩
    cases o with
    | OPTYPE_REGISTER r1 =>
      simp only [pure_apply, Res.ok.injEq] at h
      obtain ⟨rfl, rfl⟩ := h
      exact Or.inl ⟨rfl, rfl⟩
    | OPTYPE_IMMEDIATE i =>
      exact Or.inr ⟨rfl, by simpa using (load_left_op_iff b x _ q r _ hx rfl).1 h⟩
    | OPTYPE_MEMORY m =>
      exact Or.inr ⟨rfl, by simpa using (load_left_op_iff b x _ q r _ hx rfl).1 h⟩
  · rintro ⟨o, hx, h⟩
    rw [bind_eq_of_ok ((operand_at_iff x p p o).2 ⟨rfl, hx⟩)]
    rcases h with ⟨rfl, rfl⟩ | ⟨ho, h⟩
    · rfl
    · cases o with
      | OPTYPE_REGISTER r1 => simp [Operand.is_register] at ho
      | OPTYPE_IMMEDIATE i => exact (load_left_op_iff b x _ q r _ hx rfl).2 (by simpa using h)
      | OPTYPE_MEMORY m => exact (load_left_op_iff b x _ q r _ hx rfl).2 (by simpa using h)

/-- The block "make sure that the operand holding the expression value is in
a register" returns exactly when the operand can be materialized, with the
register and the record of the materialization; the slot is left as it is. -/
theorem expression_into_register_iff (x : Nat) (p q : Parser) (r : Register) :
    expression_into_register x p = .ok r q ↔ materialized false x p r q := by
  rw [expression_into_register_eq]
  unfold materialized
  constructor
  · intro h
    obtain ⟨o, p0, h0, h⟩ := bind_eq_ok h
    obtain ⟨rfl, hx⟩ := (operand_at_iff _ _ _ _).1 h0
    refine ⟨o, hx, ?_⟩
    cases o with
    | OPTYPE_REGISTER r1 =>
      simp only [pure_apply, Res.ok.injEq] at h
      obtain ⟨rfl, rfl⟩ := h
      exact Or.inl ⟨rfl, rfl⟩
    | OPTYPE_IMMEDIATE i =>
      exact Or.inr ⟨rfl, by simpa using (load_expression_iff x _ q r _ hx rfl).1 h⟩
    | OPTYPE_MEMORY m =>
      exact Or.inr ⟨rfl, by simpa using (load_expression_iff x _ q r _ hx rfl).1 h⟩
  · rintro ⟨o, hx, h⟩
    rw [bind_eq_of_ok ((operand_at_iff x p p o).2 ⟨rfl, hx⟩)]
    rcases h with ⟨rfl, rfl⟩ | ⟨ho, h⟩
    · rfl
    · cases o with
      | OPTYPE_REGISTER r1 => simp [Operand.is_register] at ho
      | OPTYPE_IMMEDIATE i => exact (load_expression_iff x _ q r _ hx rfl).2 (by simpa using h)
      | OPTYPE_MEMORY m => exact (load_expression_iff x _ q r _ hx rfl).2 (by simpa using h)

theorem all_inuse_of_no_free {a : Register_Allocator} (h : a.has_free_register = false)
    (r : Register) : a.inuse r = true := by
  unfold Register_Allocator.has_free_register at h
  cases r <;> cases h1 : a.inuse1 <;> cases h2 : a.inuse2 <;> cases h3 : a.inuse3 <;>
    simp_all [Register_Allocator.inuse]

theorem deallocate_of_inuse {a : Register_Allocator} {r : Register} (h : a.inuse r = true) :
    ∃ b, a.deallocate_register r = some b := by
  unfold Register_Allocator.deallocate_register
  simp only [h, if_true]
  exact ⟨_, rfl⟩

theorem spill_step_out {p q : Parser} (h : spill_step p q) :
    ∃ S r, q.e.out = p.e.out
      ++ [.comment "Spill register to memory since all registers are live.",
          .move_mem_reg S r] := by
  obtain ⟨S, p1, x, r, a, h1, -, -, -, rfl⟩ := h
  obtain ⟨-, -, -, ho⟩ := allocate_spill_memory_frame h1
  exact ⟨S, r, by simp [Emitter.emit, ho]⟩

theorem release_right_op_ok {r : Nat} {p q : Parser} (h : release_right_op r p = .ok () q) :
    released_right r p q := by
  unfold release_right_op at h
  obtain ⟨src, p0, h0, h⟩ := bind_eq_ok h
  obtain ⟨rfl, hs⟩ := (operand_at_iff _ _ _ _).1 h0
  refine ⟨src, hs, ?_⟩
  cases src with
  | OPTYPE_REGISTER r1 =>
    obtain ⟨_, p1, h1, h⟩ := bind_eq_ok h
    obtain ⟨a, ha, rfl⟩ := (deallocate_register_iff _ _ _).1 h1
    simp only [delete_operand, modifyp_apply, Res.ok.injEq, true_and] at h
    subst h
    exact ⟨rfl, rfl, rfl, rfl, ha, rfl⟩
  | OPTYPE_MEMORY m =>
    simp only [bind_apply, deallocate_spill_memory, delete_operand, modifyp_apply, Res.ok.injEq,
      true_and] at h
    subst h
    exact ⟨rfl, rfl, rfl, rfl, rfl, rfl⟩
  | OPTYPE_IMMEDIATE i =>
    simp only [bind_apply, pure_apply, delete_operand, modifyp_apply, Res.ok.injEq,
      true_and] at h
    subst h
    exact ⟨rfl, rfl, rfl, rfl, rfl, rfl⟩

theorem materialized_slot {p q : Parser} {x : Nat} {r : Register}
    (h : materialized true x p r q) :
    q.slots[x]? = some { op := some (.OPTYPE_REGISTER r), deleted := false, live := true } := by
  obtain ⟨o, hx, h⟩ := h
  rcases h with ⟨rfl, rfl⟩ | ⟨ho, p1, a, hroom, -, rfl⟩
  · exact hx
  · have hx1 := room_made_slot hroom x o hx ho
    simp only [if_true, getElem?_modify_slots, hx1, Option.map_some']

theorem released_right_slot {r : Nat} {p q : Parser} (h : released_right r p q) (x : Nat)
    (hx : x ≠ r) : q.slots[x]? = p.slots[x]? := by
  obtain ⟨src, -, hs, -⟩ := h
  rw [hs, getElem?_modify_slots]
  cases p.slots[x]? with
  | none => rfl
  | some s => simp only [Option.map_some', Ne.symm hx, if_false]

theorem emit_2addr_operand_ok {i : inst_type} {reg : Register} {r : Nat} {p q : Parser}
    (h : emit_2addr_operand i reg r p = .ok () q) :
    ∃ src, p.slots[r]? = some { op := some src, deleted := false, live := true }
      ∧ q = { p with e := p.e.emit (.inst_2addr i reg src) } := by
  unfold emit_2addr_operand at h
  obtain ⟨src, p0, h0, h2⟩ := bind_eq_ok h
  obtain ⟨rfl, hs⟩ := (operand_at_iff _ _ _ _).1 h0
  simp only [emit, modifyp_apply, Res.ok.injEq, true_and] at h2
  exact ⟨src, hs, h2.symm⟩

/-- The lines a materialization appends: none for a register operand,
otherwise the two lines of the spill step when no register was free, and the
load. -/
theorem materialized_out {b : Bool} {x : Nat} {p q : Parser} {r : Register}
    (h : materialized b x p r q) :
    ∃ (o : Operand) (pre : List IR),
      p.slots[x]? = some { op := some o, deleted := false, live := true }
      ∧ (pre = [] ∨ ∃ S r1, pre
          = [.comment "Spill register to memory since all registers are live.",
             .move_mem_reg S r1])
      ∧ q.e.out = p.e.out ++ (pre ++ load_code r o) := by
  obtain ⟨o, hx, h⟩ := h
  rcases h with ⟨rfl, rfl⟩ | ⟨ho, p1, a, hroom, -, rfl⟩
  · exact ⟨_, [], hx, Or.inl rfl, by simp [load_code]⟩
  · rcases hroom with ⟨-, rfl⟩ | ⟨-, hsp⟩
    · exact ⟨o, [], hx, Or.inl rfl, rfl⟩
    · obtain ⟨S, r1, hout⟩ := spill_step_out hsp
      refine ⟨o, _, hx, Or.inr ⟨S, r1, rfl⟩, ?_⟩
      show p1.e.out ++ load_code r o = _
      rw [hout, List.append_assoc]

theorem load_code_filter (r : Register) (o : Operand) :
    (load_code r o).filter IR.is_2addr = [] := by
  cases o <;> rfl

/-- The 2-address instructions among the lines emitted from a
materialization on are those of the lines that follow it. -/
theorem emitted_filter_of_materialized {b : Bool} {x : Nat} {p p1 q : Parser} {r : Register}
    (hm : materialized b x p r p1) {tail : List IR} (h : q.e.out = p1.e.out ++ tail) :
    (emitted p q).filter IR.is_2addr = tail.filter IR.is_2addr := by
  obtain ⟨o, pre, -, hpre, hout⟩ := materialized_out hm
  unfold emitted
  rw [h, hout, List.append_assoc, List.drop_left, List.filter_append, List.filter_append,
    load_code_filter]
  rcases hpre with rfl | ⟨S, r1, rfl⟩ <;> rfl

/-- The emission of a binary operator, put together from the release of the
right operand and the record `p2` it starts from. -/
theorem binary_emitted_of_release {i : inst_type} {post : Register → Nat → List IR}
    {l r : Nat} {p q p1 p2 : Parser} {reg : Register} {src : Operand}
    (h : release_right_op r p2 = .ok () q)
    (hm : materialized true l p reg p1)
    (hs : p1.slots[r]? = some { op := some src, deleted := false, live := true })
    (hout : p2.e.out = p1.e.out
      ++ .inst_2addr i reg src :: post reg (p1.e.count "or_done"))
    (h1 : p2.slots = p1.slots) (h2 : p2.allocator = p1.allocator)
    (h3 : p2.spilled_labels = p1.spilled_labels) (h4 : p2.last_register_op = some l) :
    binary_emitted i post l r p q := by
  have hrel := release_right_op_ok h
  refine ⟨reg, p1, p2, src, hm, hs, hout, h1, h2, h3, h4, hrel, ?_, ?_⟩
  · intro hne
    rw [released_right_slot hrel l hne, h1]
    exact materialized_slot hm
  · obtain ⟨-, -, -, he, -⟩ := hrel
    rw [emitted_filter_of_materialized hm (by rw [he]; exact hout)]
    rfl

/-- What `addop_codegen` does when it returns. -/
theorem addop_codegen_ok {a : addop_attr} {l r : Nat} {p q : Parser}
    (h : addop_codegen a l r p = .ok () q) :
    binary_emitted (addop_instruction a)
      (fun reg n => if a = .ADDOP_OR then or_code reg n else []) l r p q := by
  unfold addop_codegen at h
  obtain ⟨reg, p1, h1, h⟩ := bind_eq_ok h
  have hm := (left_op_into_register_iff _ _ _ _ _).1 h1
  obtain ⟨_, p2, h2, h⟩ := bind_eq_ok h
  simp only [set_last_register_op, modifyp_apply, Res.ok.injEq, true_and] at h2
  subst h2
  obtain ⟨_, p3, h3, h⟩ := bind_eq_ok h
  obtain ⟨src, hs, rfl⟩ := emit_2addr_operand_ok h3
  cases a with
  | ADDOP_ADD =>
    simp only [reduceCtorEq, if_false, bind_apply, pure_apply] at h
    exact binary_emitted_of_release h hm hs (by simp [Emitter.emit]) rfl rfl rfl rfl
  | ADDOP_SUB =>
    simp only [reduceCtorEq, if_false, bind_apply, pure_apply] at h
    exact binary_emitted_of_release h hm hs (by simp [Emitter.emit]) rfl rfl rfl rfl
  | ADDOP_OR =>
    simp only [if_true, bind_apply, emit, modifyp_apply, get_new_label] at h
    exact binary_emitted_of_release h hm hs
      (by simp [Emitter.emit, Emitter.get_new_label, Emitter.count, or_code]) rfl rfl rfl rfl

/-- What `mulop_codegen` does when it returns. -/
theorem mulop_codegen_ok {m : mulop_attr} {l r : Nat} {p q : Parser}
    (h : mulop_codegen m l r p = .ok () q) :
    binary_emitted (mulop_instruction m) (fun _ _ => []) l r p q := by
  unfold mulop_codegen at h
  obtain ⟨reg, p1, h1, h⟩ := bind_eq_ok h
  have hm := (left_op_into_register_iff _ _ _ _ _).1 h1
  obtain ⟨_, p2, h2, h⟩ := bind_eq_ok h
  simp only [set_last_register_op, modifyp_apply, Res.ok.injEq, true_and] at h2
  subst h2
  obtain ⟨_, p3, h3, h⟩ := bind_eq_ok h
  obtain ⟨src, hs, rfl⟩ := emit_2addr_operand_ok h3
  exact binary_emitted_of_release h hm hs (by simp [Emitter.emit]) rfl rfl rfl rfl

/-- The release of the right operand returns when the operand is there and,
for a register operand, its register is allocated. -/
theorem release_right_op_total {r : Nat} {p : Parser} {src : Operand}
    (hs : p.slots[r]? = some { op := some src, deleted := false, live := true })
    (hr : ∀ r1, src = .OPTYPE_REGISTER r1 → p.allocator.inuse r1 = true) :
    ∃ q, release_right_op r p = .ok () q := by
  have h0 : operand_at r p = .ok src p := (operand_at_iff r p p src).2 ⟨rfl, hs⟩
  unfold release_right_op
  rw [bind_eq_of_ok h0]
  cases src with
  | OPTYPE_REGISTER r1 =>
    obtain ⟨b, hb⟩ := deallocate_of_inuse (hr r1 rfl)
    have h1 : deallocate_register r1 p = .ok () { p with allocator := b } :=
      (deallocate_register_iff r1 p _).2 ⟨b, hb, rfl⟩
    exact ⟨_, by dsimp only; rw [bind_eq_of_ok h1]; rfl⟩
  | OPTYPE_MEMORY m => exact ⟨_, rfl⟩
  | OPTYPE_IMMEDIATE i => exact ⟨_, rfl⟩

theorem emit_2addr_operand_run (i : inst_type) (reg : Register) {r : Nat} {p : Parser}
    {src : Operand}
    (hs : p.slots[r]? = some { op := some src, deleted := false, live := true }) :
    emit_2addr_operand i reg r p = .ok () { p with e := p.e.emit (.inst_2addr i reg src) } := by
  have h0 : operand_at r p = .ok src p := (operand_at_iff r p p src).2 ⟨rfl, hs⟩
  unfold emit_2addr_operand
  rw [bind_eq_of_ok h0]
  rfl

/-- The block of `parse_simple_expr_prm` returns when the left operand can be
materialized, the right operand is there and, for a register operand, its
register is allocated. -/
theorem addop_codegen_total (a : addop_attr) {l r : Nat} {p p1 : Parser} {reg : Register}
    {src : Operand} (hm : materialized true l p reg p1)
    (hs : p1.slots[r]? = some { op := some src, deleted := false, live := true })
    (hr : ∀ r1, src = .OPTYPE_REGISTER r1 → p1.allocator.inuse r1 = true) :
    ∃ q, addop_codegen a l r p = .ok () q := by
  have h1 := (left_op_into_register_iff true l p p1 reg).2 hm
  have h2 : set_last_register_op l p1 = .ok () { p1 with last_register_op := some l } := rfl
  have h3 := emit_2addr_operand_run (addop_instruction a) reg
    (p := { p1 with last_register_op := some l }) hs
  unfold addop_codegen
  rw [bind_eq_of_ok h1, bind_eq_of_ok h2, bind_eq_of_ok h3]
  cases a with
  | ADDOP_ADD =>
    simp only [reduceCtorEq, if_false, bind_apply, pure_apply]
    exact release_right_op_total hs hr
  | ADDOP_SUB =>
    simp only [reduceCtorEq, if_false, bind_apply, pure_apply]
    exact release_right_op_total hs hr
  | ADDOP_OR =>
    simp only [if_true, bind_apply, emit, modifyp_apply, get_new_label]
    exact release_right_op_total hs hr

/-- The block of `parse_term_prm` returns under the same conditions. -/
theorem mulop_codegen_total (m : mulop_attr) {l r : Nat} {p p1 : Parser} {reg : Register}
    {src : Operand} (hm : materialized true l p reg p1)
    (hs : p1.slots[r]? = some { op := some src, deleted := false, live := true })
    (hr : ∀ r1, src = .OPTYPE_REGISTER r1 → p1.allocator.inuse r1 = true) :
    ∃ q, mulop_codegen m l r p = .ok () q := by
  have h1 := (left_op_into_register_iff true l p p1 reg).2 hm
  have h2 : set_last_register_op l p1 = .ok () { p1 with last_register_op := some l } := rfl
  have h3 := emit_2addr_operand_run (mulop_instruction m) reg
    (p := { p1 with last_register_op := some l }) hs
  unfold mulop_codegen
  rw [bind_eq_of_ok h1, bind_eq_of_ok h2, bind_eq_of_ok h3]
  exact release_right_op_total hs hr

theorem count_get_new_label (e : Emitter) (stem : String) :
    (e.get_new_label stem).2.count stem = e.count stem + 1 := by
  simp [Emitter.get_new_label, Emitter.count]

/-! ### Relational operators and factors -/

theorem count_get_new_label_ne (e : Emitter) {stem other : String} (h : stem ≠ other) :
    (e.get_new_label stem).2.count other = e.count other := by
  unfold Emitter.get_new_label Emitter.count
  have h1 : decide (stem = other) = false := decide_eq_false h
  simp only [List.find?_cons, h1]
  have h2 : ∀ l : List (String × Nat),
      (l.filter (fun x => !decide (x.1 = stem))).find? (fun x => decide (x.1 = other))
        = l.find? (fun x => decide (x.1 = other)) := by
    intro l
    induction l with
    | nil => rfl
    | cons x l ih =>
      by_cases hx : x.1 = stem
      · have hx2 : x.1 ≠ other := fun h3 => h (hx.symm.trans h3)
        simp only [List.filter_cons, hx, decide_True, Bool.not_true, Bool.false_eq_true,
          if_false, List.find?_cons, decide_eq_false hx2, ih]
        rw [← hx, decide_eq_false hx2]
      · simp only [List.filter_cons, decide_eq_false hx, Bool.not_false, if_true,
          List.find?_cons, ih]
  rw [h2]

theorem count_emit (e : Emitter) (i : IR) (stem : String) : (e.emit i).count stem = e.count stem :=
  rfl

/-- What the block of `parse_expr_hat` does when it returns. -/
theorem relop_codegen_ok {c : relop_attr} {l r : Nat} {p q : Parser}
    (h : relop_codegen c l r p = .ok () q) :
    ∃ (reg : Register) (p1 p2 : Parser) (src : Operand),
      materialized true l p reg p1
      ∧ p1.slots[r]? = some { op := some src, deleted := false, live := true }
      ∧ p2.e.out = p1.e.out ++ relational_code c reg src
          ("compare_false" ++ toString (p1.e.count "compare_false" + 1))
          ("compare_done" ++ toString (p1.e.count "compare_done" + 1))
      ∧ p2.e.count "compare_false" = p1.e.count "compare_false" + 1
      ∧ p2.e.count "compare_done" = p1.e.count "compare_done" + 1
      ∧ p2.slots = p1.slots ∧ p2.allocator = p1.allocator
      ∧ p2.spilled_labels = p1.spilled_labels
      ∧ p2.last_register_op = some l
      ∧ release_right_op r p2 = .ok () q := by
  unfold relop_codegen at h
  obtain ⟨reg, p1, h1, h⟩ := bind_eq_ok h
  have hm := (left_op_into_register_iff _ _ _ _ _).1 h1
  obtain ⟨_, p2, h2, h⟩ := bind_eq_ok h
  simp only [set_last_register_op, modifyp_apply, Res.ok.injEq, true_and] at h2
  subst h2
  obtain ⟨_, p3, h3, h⟩ := bind_eq_ok h
  simp only [emit, modifyp_apply, Res.ok.injEq, true_and] at h3
  subst h3
  obtain ⟨_, p4, h4, h⟩ := bind_eq_ok h
  obtain ⟨src, hs, rfl⟩ := emit_2addr_operand_ok h4
  have hne : ("compare_false" : String) ≠ "compare_done" := by decide
  have hcf : ∀ e : Emitter, ((e.get_new_label "compare_false").2.get_new_label
      "compare_done").2.count "compare_false" = e.count "compare_false" + 1 := by
    intro e
    rw [count_get_new_label_ne _ (Ne.symm hne), count_get_new_label]
  have hcd : ∀ e : Emitter, ((e.get_new_label "compare_false").2.get_new_label
      "compare_done").2.count "compare_done" = e.count "compare_done" + 1 := by
    intro e
    rw [count_get_new_label, count_get_new_label_ne _ hne]
  have hd : ∀ e : Emitter, ((e.get_new_label "compare_false").2.get_new_label "compare_done").1
      = "compare_done" ++ toString (e.count "compare_done" + 1) := by
    intro e
    show "compare_done" ++ toString ((e.get_new_label "compare_false").2.count "compare_done" + 1)
      = _
    rw [count_get_new_label_ne _ hne]
  cases c <;>
  · simp only [bind_apply, emit, modifyp_apply, get_new_label, emit_compare_branches] at h
    refine ⟨reg, p1, _, src, hm, hs, ?_, ?_, ?_, ?_, ?_, ?_, ?_, h⟩
    · simp only [Emitter.emit, hd]
      simp [relational_code, compare_branches, Emitter.get_new_label, Emitter.count]
    · exact hcf _
    · exact hcd _
    all_goals rfl

/-- The block of `parse_expr_hat` returns when the left operand can be
materialized, the right operand is there and, for a register operand, its
register is allocated. -/
theorem relop_codegen_total (c : relop_attr) {l r : Nat} {p p1 : Parser} {reg : Register}
    {src : Operand} (hm : materialized true l p reg p1)
    (hs : p1.slots[r]? = some { op := some src, deleted := false, live := true })
    (hr : ∀ r1, src = .OPTYPE_REGISTER r1 → p1.allocator.inuse r1 = true) :
    ∃ q, relop_codegen c l r p = .ok () q := by
  have h1 := (left_op_into_register_iff true l p p1 reg).2 hm
  have h2 : set_last_register_op l p1 = .ok () { p1 with last_register_op := some l } := rfl
  have h3 : emit (.comment "Compare two values by examining their difference.")
      { p1 with last_register_op := some l }
      = .ok () { p1 with last_register_op := some l,
                         e := p1.e.emit
                           (.comment "Compare two values by examining their difference.") } :=
    rfl
  have h4 := emit_2addr_operand_run .INST_SUB reg
    (p := { p1 with last_register_op := some l,
                    e := p1.e.emit
                      (.comment "Compare two values by examining their difference.") }) hs
  unfold relop_codegen
  rw [bind_eq_of_ok h1, bind_eq_of_ok h2, bind_eq_of_ok h3, bind_eq_of_ok h4]
  cases c <;>
  · simp only [bind_apply, emit, modifyp_apply, get_new_label, emit_compare_branches]
    exact release_right_op_total hs hr

theorem advanced_codegen (p : Parser) :
    p.advanced.e = p.e ∧ p.advanced.slots = p.slots ∧ p.advanced.allocator = p.allocator
    ∧ p.advanced.spilled_labels = p.spilled_labels
    ∧ p.advanced.last_register_op = p.last_register_op := by
  unfold Parser.advanced
  split <;> exact ⟨rfl, rfl, rfl, rfl, rfl⟩

theorem checked_eq_ok {α : Type} {d : Diagnostic} {c : Prop} [Decidable c] {a b : α}
    {p q : Parser} (h : checked (if c then [] else [d]) a p = .ok b q) :
    b = a ∧ q = report_all (if c then [] else [d]) p := by
  by_cases hc : c
  · simp only [hc, if_true, checked_nil, Res.ok.injEq] at h
    simp only [hc, if_true]
    exact ⟨h.1.symm, h.2.symm.trans (by simp [report_all])⟩
  · simp only [hc, if_false, checked] at h
    simp only [hc, if_false]
    cases htm : p.test_mode
    · simp [htm] at h
    · simp only [htm, if_true, Res.ok.injEq] at h
      exact ⟨h.1.symm, h.2.symm⟩

/-- The signed factor after the inner factor has been parsed: the semantic
check, the code of the sign and the result. -/
theorem parse_factor_signed {fuel : Nat} {t : expr_type} {op : Nat} {p p2 : Parser}
    {tF : expr_type} (hsign : is_sign p.word = true)
    (hF : parse_factor fuel .GARBAGE_T op p.advanced = .ok (true, tF) p2) :
    parse_factor (fuel + 1) t op p
      = (do
          checked (if tF = sign_type_of p.word then []
            else [.type_error (sign_type_of p.word) tF]) ()
          sign_codegen (sign_operation_of p.word) op
          pure (true, tF)) p2 := by
  rw [parse_factor_sign fuel t op p hsign]
  simp only [bind_apply, advance_apply, hF, if_true]
  by_cases hne : tF = sign_type_of p.word
  · simp [hne, bind_apply, pure_apply, checked]
  · have hne1 : sign_type_of p.word ≠ tF := fun h => hne h.symm
    simp [hne, hne1, bind_apply, type_error_apply]

/-- A signed factor that returns true has parsed its inner factor
successfully, with the same type. -/
theorem parse_factor_sign_inner {fuel : Nat} {t : expr_type} {op : Nat} {p q : Parser}
    {ty : expr_type} (hsign : is_sign p.word = true)
    (h : parse_factor (fuel + 1) t op p = .ok (true, ty) q) :
    ∃ p2, parse_factor fuel .GARBAGE_T op p.advanced = .ok (true, ty) p2 := by
  have h0 := h
  rw [parse_factor_sign fuel t op p hsign, bind_apply, advance_apply] at h0
  obtain ⟨f1, p2, h1, h2⟩ := bind_eq_ok h0
  obtain ⟨b, tF⟩ := f1
  cases b with
  | false => simp [pure_apply] at h2
  | true =>
    have h3 := h
    rw [parse_factor_signed hsign h1] at h3
    obtain ⟨_, q1, -, h4⟩ := bind_eq_ok h3
    obtain ⟨_, q2, -, h5⟩ := bind_eq_ok h4
    simp only [pure_apply, Res.ok.injEq, Prod.mk.injEq, true_and] at h5
    rw [← h5.1]
    exact ⟨p2, h1⟩

theorem parse_factor_identifier (fuel : Nat) (t : expr_type) (op : Nat) (p : Parser) (x : String)
    (hw : p.word = .TOKEN_ID x) (hd : p.stab.is_decl x p.current_env = true) :
    parse_factor (fuel + 1) t op p
      = .ok (true, p.stab.get_type x p.current_env)
          (assign_operand op (.OPTYPE_MEMORY x) p).parser.advanced := by
  rw [parse_factor]
  simp only [bind_apply, get_word_apply, hw, getp_apply, hd, Bool.not_true, Bool.false_eq_true,
    if_false, pure_apply, assign_operand, modifyp_apply, advance_apply, Res.parser]

theorem parse_factor_number (fuel : Nat) (t : expr_type) (op : Nat) (p : Parser) (n : Nat)
    (hw : p.word = .TOKEN_NUM n) :
    parse_factor (fuel + 1) t op p
      = .ok (true, .INT_T)
          (assign_operand op (.OPTYPE_IMMEDIATE (num_value n)) p).parser.advanced := by
  rw [parse_factor]
  simp only [bind_apply, get_word_apply, hw, pure_apply, assign_operand, modifyp_apply,
    advance_apply, Res.parser]

theorem is_punctuation_iff (w : Token) (a : punc_attr) :
    is_punctuation w a = true ↔ w = .TOKEN_PUNC a := by
  cases w <;> simp [is_punctuation]

theorem parse_factor_parenthesized (fuel : Nat) (t : expr_type) (op : Nat) (p : Parser)
    (hw : p.word = .TOKEN_PUNC .PUNC_OPEN) (ty : expr_type) (q : Parser) :
    parse_factor (fuel + 1) t op p = .ok (true, ty) q
      ↔ ∃ q1, parse_expr fuel .GARBAGE_T op p.advanced = .ok (true, ty) q1
          ∧ q1.word = .TOKEN_PUNC .PUNC_CLOSE ∧ q = q1.advanced := by
  have hopen : is_punctuation (.TOKEN_PUNC .PUNC_OPEN) .PUNC_OPEN = true := rfl
  rw [parse_factor]
  simp only [bind_apply, get_word_apply, hw, hopen, if_true, advance_apply]
  cases he : parse_expr fuel .GARBAGE_T op p.advanced with
  | halt hh p1 => simp
  | ok expr q1 =>
    obtain ⟨b, te⟩ := expr
    cases b with
    | false => simp [pure_apply]
    | true =>
      simp only [if_true]
      by_cases hc : q1.word = .TOKEN_PUNC .PUNC_CLOSE
      · have hc1 : is_punctuation q1.word .PUNC_CLOSE = true := (is_punctuation_iff _ _).2 hc
        simp only [bind_apply, get_word_apply, advance_apply, hc1, if_true, pure_apply,
          Res.ok.injEq, Prod.mk.injEq, true_and]
        constructor
        · rintro ⟨rfl, rfl⟩
          exact ⟨q1, ⟨rfl, rfl⟩, hc, rfl⟩
        · rintro ⟨q2, ⟨rfl, rfl⟩, -, rfl⟩
          exact ⟨rfl, rfl⟩
      · have hc1 : is_punctuation q1.word .PUNC_CLOSE = false := by
          cases hq : is_punctuation q1.word .PUNC_CLOSE
          · rfl
          · exact absurd ((is_punctuation_iff _ _).1 hq) hc
        simp only [bind_apply, get_word_apply, hc1, Bool.false_eq_true, if_false, parse_error,
          report_apply, pure_apply, Res.ok.injEq, Prod.mk.injEq, false_and, false_iff, not_exists,
          not_and, true_and]
        rintro q2 ⟨-, rfl⟩ h
        exact absurd h hc

theorem checked_ok_iff {α : Type} (d : Diagnostic) (c : Prop) [Decidable c] (a b : α)
    (p q : Parser) :
    checked (if c then [] else [d]) a p = .ok b q
      ↔ (p.test_mode = true ∨ c) ∧ b = a ∧ q = report_all (if c then [] else [d]) p := by
  constructor
  · intro h
    refine ⟨?_, checked_eq_ok h⟩
    by_cases hc : c
    · exact Or.inr hc
    · left
      simp only [hc, if_false, checked] at h
      cases htm : p.test_mode
      · simp [htm] at h
      · rfl
  · rintro ⟨hm, rfl, rfl⟩
    by_cases hc : c
    · simp [hc, checked, report_all]
    · rcases hm with hm | hm
      · simp [hc, checked, hm]
      · exact absurd hm hc

/-- The code of a sign for the instruction `i` of `-` (flag 1) or `not`
(flag 2): the operand is materialized, `last_register_op` is set and the
instruction is emitted. -/
theorem sign_codegen_iff (s : Int) (i : inst_type)
    (hs : (s = 1 ∧ i = .INST_NEG) ∨ (s = 2 ∧ i = .INST_NOT)) (op : Nat) (p q : Parser) :
    sign_codegen s op p = .ok () q
      ↔ ∃ (reg : Register) (p1 : Parser), materialized true op p reg p1
          ∧ q = { p1 with last_register_op := some op, e := p1.e.emit (.inst_1addr i reg) } := by
  have e : sign_codegen s op = (do
      let op_register ← left_op_into_register false op
      set_last_register_op op
      emit (.inst_1addr i op_register)) := by
    rcases hs with ⟨rfl, rfl⟩ | ⟨rfl, rfl⟩ <;> simp [sign_codegen]
  rw [e]
  constructor
  · intro h
    obtain ⟨reg, p1, h1, h2⟩ := bind_eq_ok h
    refine ⟨reg, p1, (left_op_into_register_iff _ _ _ _ _).1 h1, ?_⟩
    simp only [bind_apply, set_last_register_op, emit, modifyp_apply, Res.ok.injEq, true_and] at h2
    exact h2.symm
  · rintro ⟨reg, p1, hm, rfl⟩
    rw [bind_eq_of_ok ((left_op_into_register_iff false _ _ _ _).2 hm)]
    rfl

theorem is_sign_of_word {w : Token}
    (h : w = .TOKEN_ADDOP .ADDOP_ADD ∨ w = .TOKEN_ADDOP .ADDOP_SUB ∨ w = .TOKEN_KEYWORD .KW_NOT) :
    is_sign w = true := by
  rcases h with rfl | rfl | rfl <;> rfl

/-- The factor `+F`: it returns true exactly when `F` does and the semantic
check lets the run go on; the record is the one after `F`, with the
diagnostic of the check if there is one. -/
theorem parse_factor_plus (fuel : Nat) (t : expr_type) (op : Nat) (p : Parser)
    (hw : p.word = .TOKEN_ADDOP .ADDOP_ADD) (ty : expr_type) (q : Parser) :
    parse_factor (fuel + 1) t op p = .ok (true, ty) q
      ↔ ∃ q1, parse_factor fuel .GARBAGE_T op p.advanced = .ok (true, ty) q1
          ∧ (q1.test_mode = true ∨ ty = .INT_T)
          ∧ q = report_all (if ty = .INT_T then [] else [.type_error .INT_T ty]) q1 := by
  have hsign : is_sign p.word = true := is_sign_of_word (Or.inl hw)
  have hst : sign_type_of p.word = .INT_T := by rw [hw]; rfl
  have hso : sign_codegen (sign_operation_of p.word) op = pure () := by rw [hw]; rfl
  constructor
  · intro h
    obtain ⟨q1, hF⟩ := parse_factor_sign_inner hsign h
    rw [parse_factor_signed hsign hF, hst, hso] at h
    obtain ⟨_, q2, h1, h2⟩ := bind_eq_ok h
    obtain ⟨hm, -, rfl⟩ := (checked_ok_iff _ _ _ _ _ _).1 h1
    simp only [bind_apply, pure_apply, Res.ok.injEq, true_and] at h2
    exact ⟨q1, hF, hm, h2.symm⟩
  · rintro ⟨q1, hF, hm, rfl⟩
    rw [parse_factor_signed hsign hF, hst, hso,
      bind_eq_of_ok ((checked_ok_iff _ _ _ _ _ _).2 ⟨hm, rfl, rfl⟩)]
    rfl

/-- The factors `-F` and `not F`: they return true exactly when `F` does, the
semantic check lets the run go on and the operand can be materialized; the
instruction of the sign is emitted on the register of the operand. -/
theorem parse_factor_negated (fuel : Nat) (t : expr_type) (op : Nat) (p : Parser)
    (i : inst_type)
    (hw : (p.word = .TOKEN_ADDOP .ADDOP_SUB ∧ i = .INST_NEG)
      ∨ (p.word = .TOKEN_KEYWORD .KW_NOT ∧ i = .INST_NOT)) (ty : expr_type) (q : Parser) :
    parse_factor (fuel + 1) t op p = .ok (true, ty) q
      ↔ ∃ (q1 q3 : Parser) (reg : Register),
          parse_factor fuel .GARBAGE_T op p.advanced = .ok (true, ty) q1
          ∧ (q1.test_mode = true ∨ ty = sign_type_of p.word)
          ∧ materialized true op
              (report_all (if ty = sign_type_of p.word then []
                else [.type_error (sign_type_of p.word) ty]) q1) reg q3
          ∧ q = { q3 with last_register_op := some op, e := q3.e.emit (.inst_1addr i reg) } := by
  have hsign : is_sign p.word = true :=
    is_sign_of_word (hw.elim (fun h => Or.inr (Or.inl h.1)) (fun h => Or.inr (Or.inr h.1)))
  have hso : (sign_operation_of p.word = 1 ∧ i = .INST_NEG)
      ∨ (sign_operation_of p.word = 2 ∧ i = .INST_NOT) := by
    rcases hw with ⟨h, rfl⟩ | ⟨h, rfl⟩
    · left; rw [h]; exact ⟨rfl, rfl⟩
    · right; rw [h]; exact ⟨rfl, rfl⟩
  constructor
  · intro h
    obtain ⟨q1, hF⟩ := parse_factor_sign_inner hsign h
    rw [parse_factor_signed hsign hF] at h
    obtain ⟨_, q2, h1, h2⟩ := bind_eq_ok h
    obtain ⟨hm, -, rfl⟩ := (checked_ok_iff _ _ _ _ _ _).1 h1
    obtain ⟨_, q4, h3, h4⟩ := bind_eq_ok h2
    obtain ⟨reg, q3, hmat, rfl⟩ := (sign_codegen_iff _ i hso op _ _).1 h3
    simp only [pure_apply, Res.ok.injEq, true_and] at h4
    exact ⟨q1, q3, reg, hF, hm, hmat, h4.symm⟩
  · rintro ⟨q1, q3, reg, hF, hm, hmat, rfl⟩
    rw [parse_factor_signed hsign hF,
      bind_eq_of_ok ((checked_ok_iff _ _ _ _ _ _).2 ⟨hm, rfl, rfl⟩),
      bind_eq_of_ok ((sign_codegen_iff _ i hso op _ _).2 ⟨reg, q3, hmat, rfl⟩)]
    rfl

/-! ### Assignments -/

theorem advanced_word_congr {P p : Parser} (h : P.lex = p.lex) :
    P.advanced.word = p.advanced.word := by
  unfold Parser.advanced
  rw [h]
  cases p.lex <;> rfl

/-- `parse_stmt_identifier` is the entry of the statement followed by
`parse_adhoc_as_pc_tail` and the part after it. -/
theorem parse_stmt_identifier_entered (fuel : Nat) (id : String) (p : Parser) :
    parse_stmt_identifier fuel id p
      = (do
          let expression ← statement_entered id
          let adhoc_as_pc_tail ← parse_adhoc_as_pc_tail fuel .GARBAGE_T expression
          adhoc_as_pc_tail_semantics id expression adhoc_as_pc_tail) p := by
  rw [parse_stmt_identifier_eq]
  unfold statement_entered
  cases hd : p.stab.is_decl id p.current_env
  · simp only [bind_apply, getp_apply, hd, Bool.not_false, if_true]
    cases hu : undeclared_identifier id p <;> rfl
  · simp only [bind_apply, getp_apply, hd, Bool.not_true, Bool.false_eq_true, if_false]
    rfl

/-- What the entry of a statement leaves as it is. -/
theorem statement_entered_ok {id : String} {p p1 : Parser} {e : Nat}
    (h : statement_entered id p = .ok e p1) :
    e = p.slots.length
    ∧ p1.word = p.advanced.word
    ∧ p1.stab = p.stab ∧ p1.current_env = p.current_env
    ∧ p1.e = p.e ∧ p1.allocator = p.allocator ∧ p1.spilled_labels = p.spilled_labels
    ∧ p1.slots = p.slots ++ [{ op := some (.OPTYPE_MEMORY id), deleted := false, live := true }] := by
  unfold statement_entered at h
  have key : ∀ P : Parser, P.lex = p.lex → P.stab = p.stab → P.current_env = p.current_env →
      P.e = p.e → P.allocator = p.allocator → P.spilled_labels = p.spilled_labels →
      P.slots = p.slots →
      (do advance; new_operand_slot (some (.OPTYPE_MEMORY id))) P = .ok e p1 →
      e = p.slots.length ∧ p1.word = p.advanced.word
      ∧ p1.stab = p.stab ∧ p1.current_env = p.current_env
      ∧ p1.e = p.e ∧ p1.allocator = p.allocator ∧ p1.spilled_labels = p.spilled_labels
      ∧ p1.slots
        = p.slots ++ [{ op := some (.OPTYPE_MEMORY id), deleted := false, live := true }] := by
    intro P h1 h2 h3 h4 h5 h6 h7 hP
    simp only [bind_apply, advance_apply, new_operand_slot, Res.ok.injEq] at hP
    obtain ⟨he, hp⟩ := hP
    obtain ⟨a1, a2, a3, a4, a5⟩ := advanced_codegen P
    have hd := declarations_fields (declarations_advance P)
    simp only [advance_apply, Res.parser] at hd
    subst hp
    refine ⟨?_, advanced_word_congr h1, hd.2.1.trans h2, hd.2.2.1.trans h3, a1.trans h4,
      a3.trans h5, a4.trans h6, ?_⟩
    · rw [← he, a2, h7]
    · show P.advanced.slots ++ _ = _
      rw [a2, h7]
  cases hd : p.stab.is_decl id p.current_env
  · simp only [bind_apply, getp_apply, hd, Bool.not_false, if_true,
      undeclared_identifier_apply] at h
    cases htm : p.test_mode
    · simp [checked, htm] at h
    · simp only [checked, htm, if_true] at h
      exact key (report_all [.undeclared_identifier id] p) rfl rfl rfl rfl rfl rfl rfl
        (by rw [bind_apply]; exact h)
  · simp only [bind_apply, getp_apply, hd, Bool.not_true, Bool.false_eq_true, if_false,
      set_procedure_name, modifyp_apply] at h
    exact key { p with procedure_name := id } rfl rfl rfl rfl rfl rfl rfl
      (by rw [bind_apply]; exact h)

/-- The alternative `:= E` of `parse_adhoc_as_pc_tail`. -/
theorem parse_adhoc_as_pc_tail_assign (fuel : Nat) (t : expr_type) (e : Nat) (p : Parser)
    (hw : p.word = .TOKEN_PUNC .PUNC_ASSIGN) :
    parse_adhoc_as_pc_tail (fuel + 1) t e p
      = (do
          let expr ← parse_expr fuel .GARBAGE_T e
          if expr.1 then pure (true, expr.2) else pure (false, t)) p.advanced := by
  have ha : is_punctuation (.TOKEN_PUNC .PUNC_ASSIGN) .PUNC_ASSIGN = true := rfl
  rw [parse_adhoc_as_pc_tail]
  simp only [bind_apply, get_word_apply, hw, ha, if_true, advance_apply]

/-- The part of `parse_stmt` after a tail that was parsed successfully: the
type check, the code of the assignment unless the identifier is a procedure,
and the end of the operand's scope. -/
theorem adhoc_as_pc_tail_semantics_true (id : String) (e : Nat) (ty : expr_type) (p : Parser) :
    adhoc_as_pc_tail_semantics id e (true, ty) p
      = (do
          checked (if ty = p.stab.get_type id p.current_env then []
            else [.type_error (p.stab.get_type id p.current_env) ty]) ()
          if p.stab.get_type id p.current_env ≠ .PROCEDURE_T then
            assignment_codegen id e
          else
            pure ()
          end_of_scope e
          pure true) p := by
  unfold adhoc_as_pc_tail_semantics
  simp only [if_true, bind_apply, getp_apply]
  by_cases h1 : ty = p.stab.get_type id p.current_env
  · by_cases h2 : p.stab.get_type id p.current_env = .PROCEDURE_T
    · simp [h1, h2, checked, bind_apply, pure_apply]
    · simp [h1, h2, checked, bind_apply, pure_apply]
  · by_cases h2 : p.stab.get_type id p.current_env = .PROCEDURE_T
    · have h3 : ¬ ty = .PROCEDURE_T := fun h => h1 (h.trans h2.symm)
      simp [h3, h2, bind_apply, pure_apply, type_error_apply]
    · simp [h1, h2, bind_apply, pure_apply, type_error_apply]

/-- The block of the assignment returns exactly with the materialization of
the expression, the move to the identifier, the release of the register and
the destruction of the operand. -/
theorem assignment_codegen_iff (id : String) (e : Nat) (p q : Parser) :
    assignment_codegen id e p = .ok () q
      ↔ ∃ (R : Register) (p1 : Parser) (a : Register_Allocator),
          materialized false e p R p1
          ∧ p1.allocator.deallocate_register R = some a
          ∧ q = { p1 with e := p1.e.emit (.move_mem_reg id R), allocator := a,
                          slots := p1.slots.modify (fun s => { s with deleted := true }) e } := by
  unfold assignment_codegen
  constructor
  · intro h
    obtain ⟨R, p1, h1, h⟩ := bind_eq_ok h
    have hm := (expression_into_register_iff _ _ _ _).1 h1
    obtain ⟨_, p2, h2, h⟩ := bind_eq_ok h
    simp only [emit, modifyp_apply, Res.ok.injEq, true_and] at h2
    subst h2
    obtain ⟨_, p3, h3, h⟩ := bind_eq_ok h
    obtain ⟨a, ha, rfl⟩ := (deallocate_register_iff _ _ _).1 h3
    simp only [delete_operand, modifyp_apply, Res.ok.injEq, true_and] at h
    exact ⟨R, p1, a, hm, ha, h.symm⟩
  · rintro ⟨R, p1, a, hm, ha, rfl⟩
    have h1 := (expression_into_register_iff e p p1 R).2 hm
    have h2 : emit (.move_mem_reg id R) p1
        = .ok () { p1 with e := p1.e.emit (.move_mem_reg id R) } := rfl
    have h3 : deallocate_register R { p1 with e := p1.e.emit (.move_mem_reg id R) }
        = .ok () { p1 with e := p1.e.emit (.move_mem_reg id R), allocator := a } :=
      (deallocate_register_iff R _ _).2 ⟨a, ha, rfl⟩
    rw [bind_eq_of_ok h1, bind_eq_of_ok h2, bind_eq_of_ok h3]
    rfl

/-! ### The IR is only appended to -/

theorem appends_out_of_eq {α : Type} {x : M α}
    (h : ∀ p, (x p).parser.e.out = p.e.out) : appends_out x := by
  intro p
  rw [h p]

theorem appends_out_bind {α β : Type} {x : M α} {f : α → M β} (hx : appends_out x)
    (hf : ∀ a, appends_out (f a)) : appends_out (x >>= f) := by
  intro p
  have h1 := hx p
  rw [bind_apply]
  cases hxp : x p with
  | ok a p1 =>
    rw [hxp] at h1
    exact List.IsPrefix.trans h1 (hf a p1)
  | halt h p1 =>
    rw [hxp] at h1
    exact h1

theorem appends_out_pure {α : Type} (a : α) : appends_out (pure a : M α) :=
  appends_out_of_eq (fun _ => rfl)

theorem appends_out_ite {α : Type} {c : Prop} [Decidable c] {x y : M α}
    (hx : appends_out x) (hy : appends_out y) :
    appends_out (if c then x else y) := by
  split <;> assumption

theorem appends_out_halt_with {α : Type} (h : Halt) :
    appends_out (halt_with h : M α) :=
  appends_out_of_eq (fun _ => rfl)

theorem appends_out_getp : appends_out getp :=
  appends_out_of_eq (fun _ => rfl)

theorem appends_out_get_word : appends_out get_word :=
  appends_out_of_eq (fun _ => rfl)

theorem appends_out_has_free_register : appends_out has_free_register :=
  appends_out_of_eq (fun _ => rfl)

theorem appends_out_emit (i : IR) : appends_out (emit i) :=
  fun p => List.prefix_append p.e.out [i]

theorem appends_out_get_new_label (stem : String) : appends_out (get_new_label stem) :=
  appends_out_of_eq (fun _ => rfl)

theorem appends_out_operand_at (x : Nat) : appends_out (operand_at x) := by
  refine appends_out_of_eq (fun p => ?_)
  unfold operand_at
  split <;> rfl

theorem appends_out_allocate_register : appends_out allocate_register := by
  refine appends_out_of_eq (fun p => ?_)
  unfold allocate_register
  split <;> rfl

theorem appends_out_deallocate_register (r : Register) : appends_out (deallocate_register r) := by
  refine appends_out_of_eq (fun p => ?_)
  unfold deallocate_register
  split <;> rfl

theorem appends_out_allocate_spill_memory : appends_out allocate_spill_memory := by
  refine appends_out_of_eq (fun p => ?_)
  unfold allocate_spill_memory
  split <;> rfl

theorem appends_out_deallocate_spill_memory (l : String) :
    appends_out (deallocate_spill_memory l) :=
  appends_out_of_eq (fun _ => rfl)

theorem appends_out_last_register_op_r_value : appends_out last_register_op_r_value := by
  refine appends_out_of_eq (fun p => ?_)
  unfold last_register_op_r_value
  split
  · rfl
  · split <;> rfl

theorem appends_out_assign_operand (x : Nat) (o : Operand) : appends_out (assign_operand x o) :=
  appends_out_of_eq (fun _ => rfl)

theorem appends_out_assign_last_register_op (o : Operand) :
    appends_out (assign_last_register_op o) := by
  refine appends_out_of_eq (fun p => ?_)
  unfold assign_last_register_op
  split <;> rfl

theorem appends_out_delete_operand (x : Nat) : appends_out (delete_operand x) :=
  appends_out_of_eq (fun _ => rfl)

theorem appends_out_set_last_register_op (x : Nat) : appends_out (set_last_register_op x) :=
  appends_out_of_eq (fun _ => rfl)

theorem appends_out_end_of_scope (x : Nat) : appends_out (end_of_scope x) :=
  appends_out_of_eq (fun _ => rfl)

theorem appends_out_new_operand_slot (o : Option Operand) : appends_out (new_operand_slot o) :=
  appends_out_of_eq (fun _ => rfl)

theorem appends_out_emit_compare_branches (c : relop_attr) (r : Register) (l : String) :
    appends_out (emit_compare_branches c r l) := by
  cases c <;> unfold emit_compare_branches <;>
    first
      | exact appends_out_emit _
      | exact appends_out_bind (appends_out_emit _) (fun _ => appends_out_emit _)

theorem appends_out_emit_move_operand (b : Bool) (r : Register) (o : Operand) :
    appends_out (emit_move_operand b r o) := by
  cases o <;> unfold emit_move_operand
  repeat (with_reducible first
    | exact appends_out_pure _ | exact appends_out_getp | exact appends_out_get_word
    | exact appends_out_has_free_register | exact appends_out_emit _
    | exact appends_out_get_new_label _ | exact appends_out_operand_at _
    | exact appends_out_allocate_register | exact appends_out_deallocate_register _
    | exact appends_out_allocate_spill_memory | exact appends_out_deallocate_spill_memory _
    | exact appends_out_last_register_op_r_value | exact appends_out_assign_last_register_op _
    | exact appends_out_assign_operand _ _ | exact appends_out_delete_operand _
    | exact appends_out_set_last_register_op _ | exact appends_out_end_of_scope _
    | exact appends_out_new_operand_slot _ | exact appends_out_halt_with _
    | refine appends_out_bind ?_ (fun _ => ?_) | refine appends_out_ite ?_ ?_ | split)

theorem appends_out_spill_last_register_op  :
    appends_out (spill_last_register_op) := by
  unfold spill_last_register_op
  repeat (with_reducible first
    | exact appends_out_pure _ | exact appends_out_getp | exact appends_out_get_word
    | exact appends_out_has_free_register | exact appends_out_emit _
    | exact appends_out_get_new_label _ | exact appends_out_operand_at _
    | exact appends_out_allocate_register | exact appends_out_deallocate_register _
    | exact appends_out_allocate_spill_memory | exact appends_out_deallocate_spill_memory _
    | exact appends_out_last_register_op_r_value | exact appends_out_assign_last_register_op _
    | exact appends_out_assign_operand _ _ | exact appends_out_delete_operand _
    | exact appends_out_set_last_register_op _ | exact appends_out_end_of_scope _
    | exact appends_out_new_operand_slot _ | exact appends_out_halt_with _
    | refine appends_out_bind ?_ (fun _ => ?_) | refine appends_out_ite ?_ ?_ | split)

theorem appends_out_left_op_into_register (b : Bool) (x : Nat) :
    appends_out (left_op_into_register b x) := by
  unfold left_op_into_register
  repeat (with_reducible first
    | exact appends_out_pure _ | exact appends_out_getp | exact appends_out_get_word
    | exact appends_out_has_free_register | exact appends_out_emit _
    | exact appends_out_get_new_label _ | exact appends_out_operand_at _
    | exact appends_out_allocate_register | exact appends_out_deallocate_register _
    | exact appends_out_allocate_spill_memory | exact appends_out_deallocate_spill_memory _
    | exact appends_out_last_register_op_r_value | exact appends_out_assign_last_register_op _
    | exact appends_out_assign_operand _ _ | exact appends_out_delete_operand _
    | exact appends_out_set_last_register_op _ | exact appends_out_end_of_scope _
    | exact appends_out_new_operand_slot _ | exact appends_out_halt_with _
    | exact appends_out_spill_last_register_op | exact appends_out_emit_move_operand _ _ _
    | refine appends_out_bind ?_ (fun _ => ?_) | refine appends_out_ite ?_ ?_ | split)

theorem appends_out_expression_into_register (x : Nat) :
    appends_out (expression_into_register x) := by
  unfold expression_into_register
  repeat (with_reducible first
    | exact appends_out_pure _ | exact appends_out_getp | exact appends_out_get_word
    | exact appends_out_has_free_register | exact appends_out_emit _
    | exact appends_out_get_new_label _ | exact appends_out_operand_at _
    | exact appends_out_allocate_register | exact appends_out_deallocate_register _
    | exact appends_out_allocate_spill_memory | exact appends_out_deallocate_spill_memory _
    | exact appends_out_last_register_op_r_value | exact appends_out_assign_last_register_op _
    | exact appends_out_assign_operand _ _ | exact appends_out_delete_operand _
    | exact appends_out_set_last_register_op _ | exact appends_out_end_of_scope _
    | exact appends_out_new_operand_slot _ | exact appends_out_halt_with _
    | exact appends_out_spill_last_register_op | exact appends_out_emit_move_operand _ _ _
    | refine appends_out_bind ?_ (fun _ => ?_) | refine appends_out_ite ?_ ?_ | split)

theorem appends_out_emit_2addr_operand (i : inst_type) (r : Register) (x : Nat) :
    appends_out (emit_2addr_operand i r x) := by
  unfold emit_2addr_operand
  repeat (with_reducible first
    | exact appends_out_pure _ | exact appends_out_getp | exact appends_out_get_word
    | exact appends_out_has_free_register | exact appends_out_emit _
    | exact appends_out_get_new_label _ | exact appends_out_operand_at _
    | exact appends_out_allocate_register | exact appends_out_deallocate_register _
    | exact appends_out_allocate_spill_memory | exact appends_out_deallocate_spill_memory _
    | exact appends_out_last_register_op_r_value | exact appends_out_assign_last_register_op _
    | exact appends_out_assign_operand _ _ | exact appends_out_delete_operand _
    | exact appends_out_set_last_register_op _ | exact appends_out_end_of_scope _
    | exact appends_out_new_operand_slot _ | exact appends_out_halt_with _
    | refine appends_out_bind ?_ (fun _ => ?_) | refine appends_out_ite ?_ ?_ | split)

theorem appends_out_release_right_op (x : Nat) :
    appends_out (release_right_op x) := by
  unfold release_right_op
  repeat (with_reducible first
    | exact appends_out_pure _ | exact appends_out_getp | exact appends_out_get_word
    | exact appends_out_has_free_register | exact appends_out_emit _
    | exact appends_out_get_new_label _ | exact appends_out_operand_at _
    | exact appends_out_allocate_register | exact appends_out_deallocate_register _
    | exact appends_out_allocate_spill_memory | exact appends_out_deallocate_spill_memory _
    | exact appends_out_last_register_op_r_value | exact appends_out_assign_last_register_op _
    | exact appends_out_assign_operand _ _ | exact appends_out_delete_operand _
    | exact appends_out_set_last_register_op _ | exact appends_out_end_of_scope _
    | exact appends_out_new_operand_slot _ | exact appends_out_halt_with _
    | refine appends_out_bind ?_ (fun _ => ?_) | refine appends_out_ite ?_ ?_ | split)

theorem appends_out_relop_codegen (c : relop_attr) (l r : Nat) :
    appends_out (relop_codegen c l r) := by
  unfold relop_codegen
  repeat (with_reducible first
    | exact appends_out_pure _ | exact appends_out_getp | exact appends_out_get_word
    | exact appends_out_has_free_register | exact appends_out_emit _
    | exact appends_out_get_new_label _ | exact appends_out_operand_at _
    | exact appends_out_allocate_register | exact appends_out_deallocate_register _
    | exact appends_out_allocate_spill_memory | exact appends_out_deallocate_spill_memory _
    | exact appends_out_last_register_op_r_value | exact appends_out_assign_last_register_op _
    | exact appends_out_assign_operand _ _ | exact appends_out_delete_operand _
    | exact appends_out_set_last_register_op _ | exact appends_out_end_of_scope _
    | exact appends_out_new_operand_slot _ | exact appends_out_halt_with _
    | exact appends_out_left_op_into_register _ _
    | exact appends_out_expression_into_register _ | exact appends_out_emit_2addr_operand _ _ _
    | exact appends_out_release_right_op _ | exact appends_out_emit_compare_branches _ _ _
    | refine appends_out_bind ?_ (fun _ => ?_) | refine appends_out_ite ?_ ?_ | split)

theorem appends_out_addop_codegen (a : addop_attr) (l r : Nat) :
    appends_out (addop_codegen a l r) := by
  unfold addop_codegen
  repeat (with_reducible first
    | exact appends_out_pure _ | exact appends_out_getp | exact appends_out_get_word
    | exact appends_out_has_free_register | exact appends_out_emit _
    | exact appends_out_get_new_label _ | exact appends_out_operand_at _
    | exact appends_out_allocate_register | exact appends_out_deallocate_register _
    | exact appends_out_allocate_spill_memory | exact appends_out_deallocate_spill_memory _
    | exact appends_out_last_register_op_r_value | exact appends_out_assign_last_register_op _
    | exact appends_out_assign_operand _ _ | exact appends_out_delete_operand _
    | exact appends_out_set_last_register_op _ | exact appends_out_end_of_scope _
    | exact appends_out_new_operand_slot _ | exact appends_out_halt_with _
    | exact appends_out_left_op_into_register _ _
    | exact appends_out_expression_into_register _ | exact appends_out_emit_2addr_operand _ _ _
    | exact appends_out_release_right_op _ | exact appends_out_emit_compare_branches _ _ _
    | refine appends_out_bind ?_ (fun _ => ?_) | refine appends_out_ite ?_ ?_ | split)

theorem appends_out_mulop_codegen (m : mulop_attr) (l r : Nat) :
    appends_out (mulop_codegen m l r) := by
  unfold mulop_codegen
  repeat (with_reducible first
    | exact appends_out_pure _ | exact appends_out_getp | exact appends_out_get_word
    | exact appends_out_has_free_register | exact appends_out_emit _
    | exact appends_out_get_new_label _ | exact appends_out_operand_at _
    | exact appends_out_allocate_register | exact appends_out_deallocate_register _
    | exact appends_out_allocate_spill_memory | exact appends_out_deallocate_spill_memory _
    | exact appends_out_last_register_op_r_value | exact appends_out_assign_last_register_op _
    | exact appends_out_assign_operand _ _ | exact appends_out_delete_operand _
    | exact appends_out_set_last_register_op _ | exact appends_out_end_of_scope _
    | exact appends_out_new_operand_slot _ | exact appends_out_halt_with _
    | exact appends_out_left_op_into_register _ _
    | exact appends_out_expression_into_register _ | exact appends_out_emit_2addr_operand _ _ _
    | exact appends_out_release_right_op _ | exact appends_out_emit_compare_branches _ _ _
    | refine appends_out_bind ?_ (fun _ => ?_) | refine appends_out_ite ?_ ?_ | split)

theorem appends_out_sign_codegen (s : Int) (op : Nat) :
    appends_out (sign_codegen s op) := by
  unfold sign_codegen
  repeat (with_reducible first
    | exact appends_out_pure _ | exact appends_out_getp | exact appends_out_get_word
    | exact appends_out_has_free_register | exact appends_out_emit _
    | exact appends_out_get_new_label _ | exact appends_out_operand_at _
    | exact appends_out_allocate_register | exact appends_out_deallocate_register _
    | exact appends_out_allocate_spill_memory | exact appends_out_deallocate_spill_memory _
    | exact appends_out_last_register_op_r_value | exact appends_out_assign_last_register_op _
    | exact appends_out_assign_operand _ _ | exact appends_out_delete_operand _
    | exact appends_out_set_last_register_op _ | exact appends_out_end_of_scope _
    | exact appends_out_new_operand_slot _ | exact appends_out_halt_with _
    | exact appends_out_left_op_into_register _ _
    | exact appends_out_expression_into_register _ | exact appends_out_emit_2addr_operand _ _ _
    | exact appends_out_release_right_op _ | exact appends_out_emit_compare_branches _ _ _
    | refine appends_out_bind ?_ (fun _ => ?_) | refine appends_out_ite ?_ ?_ | split)

theorem appends_out_print_codegen (x : Nat) :
    appends_out (print_codegen x) := by
  unfold print_codegen
  repeat (with_reducible first
    | exact appends_out_pure _ | exact appends_out_getp | exact appends_out_get_word
    | exact appends_out_has_free_register | exact appends_out_emit _
    | exact appends_out_get_new_label _ | exact appends_out_operand_at _
    | exact appends_out_allocate_register | exact appends_out_deallocate_register _
    | exact appends_out_allocate_spill_memory | exact appends_out_deallocate_spill_memory _
    | exact appends_out_last_register_op_r_value | exact appends_out_assign_last_register_op _
    | exact appends_out_assign_operand _ _ | exact appends_out_delete_operand _
    | exact appends_out_set_last_register_op _ | exact appends_out_end_of_scope _
    | exact appends_out_new_operand_slot _ | exact appends_out_halt_with _
    | exact appends_out_left_op_into_register _ _
    | exact appends_out_expression_into_register _ | exact appends_out_emit_2addr_operand _ _ _
    | exact appends_out_release_right_op _ | exact appends_out_emit_compare_branches _ _ _
    | refine appends_out_bind ?_ (fun _ => ?_) | refine appends_out_ite ?_ ?_ | split)

theorem appends_out_assignment_codegen (id : String) (x : Nat) :
    appends_out (assignment_codegen id x) := by
  unfold assignment_codegen
  repeat (with_reducible first
    | exact appends_out_pure _ | exact appends_out_getp | exact appends_out_get_word
    | exact appends_out_has_free_register | exact appends_out_emit _
    | exact appends_out_get_new_label _ | exact appends_out_operand_at _
    | exact appends_out_allocate_register | exact appends_out_deallocate_register _
    | exact appends_out_allocate_spill_memory | exact appends_out_deallocate_spill_memory _
    | exact appends_out_last_register_op_r_value | exact appends_out_assign_last_register_op _
    | exact appends_out_assign_operand _ _ | exact appends_out_delete_operand _
    | exact appends_out_set_last_register_op _ | exact appends_out_end_of_scope _
    | exact appends_out_new_operand_slot _ | exact appends_out_halt_with _
    | exact appends_out_left_op_into_register _ _
    | exact appends_out_expression_into_register _ | exact appends_out_emit_2addr_operand _ _ _
    | exact appends_out_release_right_op _ | exact appends_out_emit_compare_branches _ _ _
    | refine appends_out_bind ?_ (fun _ => ?_) | refine appends_out_ite ?_ ?_ | split)

theorem appends_out_if_condition_codegen (x : Nat) :
    appends_out (if_condition_codegen x) := by
  unfold if_condition_codegen
  repeat (with_reducible first
    | exact appends_out_pure _ | exact appends_out_getp | exact appends_out_get_word
    | exact appends_out_has_free_register | exact appends_out_emit _
    | exact appends_out_get_new_label _ | exact appends_out_operand_at _
    | exact appends_out_allocate_register | exact appends_out_deallocate_register _
    | exact appends_out_allocate_spill_memory | exact appends_out_deallocate_spill_memory _
    | exact appends_out_last_register_op_r_value | exact appends_out_assign_last_register_op _
    | exact appends_out_assign_operand _ _ | exact appends_out_delete_operand _
    | exact appends_out_set_last_register_op _ | exact appends_out_end_of_scope _
    | exact appends_out_new_operand_slot _ | exact appends_out_halt_with _
    | exact appends_out_left_op_into_register _ _
    | exact appends_out_expression_into_register _ | exact appends_out_emit_2addr_operand _ _ _
    | exact appends_out_release_right_op _ | exact appends_out_emit_compare_branches _ _ _
    | refine appends_out_bind ?_ (fun _ => ?_) | refine appends_out_ite ?_ ?_ | split)

theorem appends_out_while_condition_codegen (l : String) (x : Nat) :
    appends_out (while_condition_codegen l x) := by
  unfold while_condition_codegen
  repeat (with_reducible first
    | exact appends_out_pure _ | exact appends_out_getp | exact appends_out_get_word
    | exact appends_out_has_free_register | exact appends_out_emit _
    | exact appends_out_get_new_label _ | exact appends_out_operand_at _
    | exact appends_out_allocate_register | exact appends_out_deallocate_register _
    | exact appends_out_allocate_spill_memory | exact appends_out_deallocate_spill_memory _
    | exact appends_out_last_register_op_r_value | exact appends_out_assign_last_register_op _
    | exact appends_out_assign_operand _ _ | exact appends_out_delete_operand _
    | exact appends_out_set_last_register_op _ | exact appends_out_end_of_scope _
    | exact appends_out_new_operand_slot _ | exact appends_out_halt_with _
    | exact appends_out_left_op_into_register _ _
    | exact appends_out_expression_into_register _ | exact appends_out_emit_2addr_operand _ _ _
    | exact appends_out_release_right_op _ | exact appends_out_emit_compare_branches _ _ _
    | refine appends_out_bind ?_ (fun _ => ?_) | refine appends_out_ite ?_ ?_ | split)

theorem appends_out_modifyp (f : Parser → Parser) (h : ∀ p, (f p).e.out = p.e.out) :
    appends_out (modifyp f) :=
  appends_out_of_eq h

theorem appends_out_advance : appends_out advance := by
  refine appends_out_of_eq (fun p => ?_)
  simp only [advance_apply, Res.parser]
  unfold Parser.advanced
  split <;> rfl

theorem appends_out_report (d : Diagnostic) : appends_out (report d) :=
  appends_out_of_eq (fun _ => rfl)

theorem appends_out_exit_unless_test_mode : appends_out exit_unless_test_mode := by
  refine appends_out_of_eq (fun p => ?_)
  unfold exit_unless_test_mode
  split <;> rfl

theorem preserves_of_appends_out {α : Type} {x : M α} (l : List IR) (h : appends_out x) :
    preserves (fun q => l <+: q.e.out) (fun _ q => l <+: q.e.out) x := by
  intro p hp
  have h1 := h p
  cases hx : x p with
  | ok a q => rw [hx] at h1; exact List.IsPrefix.trans hp h1
  | halt hh q => rw [hx] at h1; exact List.IsPrefix.trans hp h1

theorem out_block_invariant (l : List IR) :
    StmtBlockInvariant (fun q => l <+: q.e.out) (fun _ q => l <+: q.e.out) where
  out_of_fuel := fun _ h => h
  advance := preserves_of_appends_out l appends_out_advance
  parse_error := fun _ _ => preserves_of_appends_out l (appends_out_report _)
  undeclared_identifier := fun _ => preserves_of_appends_out l
    (appends_out_bind (appends_out_report _) (fun _ => appends_out_exit_unless_test_mode))
  type_error := fun _ _ => preserves_of_appends_out l
    (appends_out_bind (appends_out_report _) (fun _ => appends_out_exit_unless_test_mode))
  type_error2 := fun _ _ _ => preserves_of_appends_out l
    (appends_out_bind (appends_out_report _) (fun _ => appends_out_exit_unless_test_mode))
  new_operand_slot_null := preserves_of_appends_out l (appends_out_new_operand_slot _)
  end_of_scope := fun _ => preserves_of_appends_out l (appends_out_end_of_scope _)
  assign_memory := fun _ _ => preserves_of_appends_out l (appends_out_assign_operand _ _)
  assign_immediate := fun _ _ => preserves_of_appends_out l (appends_out_assign_operand _ _)
  relop_codegen := fun _ _ _ => preserves_of_appends_out l (appends_out_relop_codegen _ _ _)
  addop_codegen := fun _ _ _ => preserves_of_appends_out l (appends_out_addop_codegen _ _ _)
  mulop_codegen := fun _ _ _ => preserves_of_appends_out l (appends_out_mulop_codegen _ _ _)
  sign_codegen := fun _ _ => preserves_of_appends_out l (appends_out_sign_codegen _ _)
  set_procedure_name := fun _ =>
    preserves_of_appends_out l (appends_out_modifyp _ (fun _ => rfl))
  reset_actual_parm_position :=
    preserves_of_appends_out l (appends_out_modifyp _ (fun _ => rfl))
  increment_actual_parm_position :=
    preserves_of_appends_out l (appends_out_modifyp _ (fun _ => rfl))
  emit := fun _ => preserves_of_appends_out l (appends_out_emit _)
  get_new_label := fun _ => preserves_of_appends_out l (appends_out_get_new_label _)
  new_operand_slot_memory := fun _ =>
    preserves_of_appends_out l (appends_out_new_operand_slot _)
  print_codegen := fun _ => preserves_of_appends_out l (appends_out_print_codegen _)
  assignment_codegen := fun _ _ =>
    preserves_of_appends_out l (appends_out_assignment_codegen _ _)
  if_condition_codegen := fun _ =>
    preserves_of_appends_out l (appends_out_if_condition_codegen _)
  while_condition_codegen := fun _ _ =>
    preserves_of_appends_out l (appends_out_while_condition_codegen _ _)

theorem appends_out_of_preserves {α : Type} {x : M α}
    (h : ∀ l, preserves (fun q => l <+: q.e.out) (fun _ q => l <+: q.e.out) x) :
    appends_out x := by
  intro p
  have h1 := h p.e.out p (List.prefix_refl _)
  cases hx : x p with
  | ok a q => rw [hx] at h1; exact h1
  | halt hh q => rw [hx] at h1; exact h1

/-- The statement and expression productions only append to the IR, however
they end. -/
theorem appends_out_productions (fuel : Nat) :
    appends_out (parse_block fuel)
    ∧ appends_out (parse_stmt fuel)
    ∧ appends_out (parse_if_stmt_hat fuel)
    ∧ appends_out (parse_expr_list fuel)
    ∧ appends_out (parse_actual_parm_list fuel)
    ∧ (∀ t op, appends_out (parse_expr fuel t op)) :=
  ⟨appends_out_of_preserves (fun l => (preserves_statement_productions
     (out_block_invariant l) fuel).1),
   appends_out_of_preserves (fun l => (preserves_statement_productions
     (out_block_invariant l) fuel).2.2.2.1),
   appends_out_of_preserves (fun l => (preserves_statement_productions
     (out_block_invariant l) fuel).2.2.2.2.2.1),
   appends_out_of_preserves (fun l => preserves_parse_expr_list (out_block_invariant l) fuel),
   appends_out_of_preserves (fun l => (preserves_actual_parm_productions
     (out_block_invariant l) fuel).1),
   fun t op => appends_out_of_preserves (fun l => (preserves_expression_productions
     (out_block_invariant l).toExprBlockInvariant fuel).1 t op)⟩

/-- What an append-only run has emitted is what its output has more than the
output it started from. -/
theorem out_eq_append_emitted {α : Type} {x : M α} (h : appends_out x) {p q : Parser} {a : α}
    (hx : x p = .ok a q) : q.e.out = p.e.out ++ emitted p q := by
  have h1 := h p
  rw [hx] at h1
  obtain ⟨t, ht⟩ := h1
  have ht1 : q.e.out = p.e.out ++ t := ht.symm
  unfold emitted
  rw [ht1, List.drop_left]

/-! ### Calls -/

theorem is_decl_of_get_type {t : Symbol_Table} {id env : String}
    (h : t.get_type id env ≠ .GARBAGE_T) : t.is_decl id env = true := by
  unfold Symbol_Table.get_type at h
  unfold Symbol_Table.is_decl
  cases hl : t.lookup_scoped id env with
  | none => rw [hl] at h; exact absurd rfl h
  | some x => rfl

theorem parse_expr_list_scope (fuel : Nat) (p : Parser) :
    (parse_expr_list fuel p).parser.scope = p.scope := by
  have h := preserves_parse_expr_list (scope_block_invariant p.scope) fuel p rfl
  cases hx : parse_expr_list fuel p with
  | ok a q => rw [hx] at h; exact h
  | halt hh q => rw [hx] at h; exact h

theorem scope_fields {p q : Parser} (h : q.scope = p.scope) :
    q.stab = p.stab ∧ q.current_env = p.current_env := by
  simp only [Parser.scope, Prod.mk.injEq] at h
  exact ⟨h.2.1, h.2.2.1⟩

theorem slot_kept_refl (p : Parser) (i : Nat) : slot_kept p p i := Or.inl rfl

theorem slot_kept_of_eq {p q : Parser} (h : q.slots = p.slots) (i : Nat) : slot_kept p q i :=
  Or.inl (by rw [h])

theorem slot_kept_trans {p q r : Parser} {i : Nat} (h1 : slot_kept p q i)
    (h2 : slot_kept q r i) : slot_kept p r i := by
  rcases h1 with h1 | ⟨r1, S1, h1, h1q⟩
  · rcases h2 with h2 | ⟨r2, S2, h2, h2r⟩
    · exact Or.inl (h2.trans h1)
    · exact Or.inr ⟨r2, S2, h1 ▸ h2, h2r⟩
  · rcases h2 with h2 | ⟨r2, S2, h2, h2r⟩
    · exact Or.inr ⟨r1, S1, h1, h2.trans h1q⟩
    · rw [h1q] at h2
      simp at h2

theorem slot_kept_valid {p q : Parser} {i : Nat} (h : slot_kept p q i)
    (hv : valid_operand p i) : valid_operand q i := by
  rcases h with h | ⟨r, S, -, hq⟩
  · obtain ⟨o, ho⟩ := hv
    exact ⟨o, h.trans ho⟩
  · exact ⟨_, hq⟩

theorem slot_kept_owns_nothing {p q : Parser} {i : Nat} (h : slot_kept p q i)
    (hn : owns_nothing p i) : q.slots[i]? = p.slots[i]? := by
  rcases h with h | ⟨r, S, hp, -⟩
  · exact h
  · exact absurd ⟨rfl, rfl⟩ (hn _ r hp)

theorem owns_nothing_of_eq {p q : Parser} {i : Nat} (h : q.slots[i]? = p.slots[i]?)
    (hn : owns_nothing p i) : owns_nothing q i := by
  intro s r hs
  exact hn s r (h ▸ hs)

theorem owns_nothing_kept {p q : Parser} {i : Nat} (h : slot_kept p q i)
    (hn : owns_nothing p i) : owns_nothing q i :=
  owns_nothing_of_eq (slot_kept_owns_nothing h hn) hn

theorem same_registers_refl (p : Parser) : same_registers p p := ⟨rfl, rfl⟩

theorem same_registers_symm {p q : Parser} (h : same_registers p q) : same_registers q p :=
  ⟨h.1.symm, h.2.symm⟩

theorem same_registers_trans {p q r : Parser} (h1 : same_registers p q)
    (h2 : same_registers q r) : same_registers p r :=
  ⟨h2.1.trans h1.1, h2.2.trans h1.2⟩

theorem leaked_congr {p q : Parser} (h : same_registers p q) (r : Register) :
    leaked q r ↔ leaked p r := by
  unfold leaked
  rw [h.1, h.2]

theorem owner_invariant_congr {p q : Parser} (h : same_registers p q)
    (hp : owner_invariant p) : owner_invariant q := by
  intro i s r hx hi hs
  rw [h.1] at hi
  obtain ⟨h1, h2⟩ := hp i s r hx hi hs
  refine ⟨by rw [h.2]; exact h1, ?_⟩
  intro j t hj hjs ht
  rw [h.1] at hjs
  exact h2 j t hj hjs ht

theorem valid_operand_lt {p : Parser} {i : Nat} (h : valid_operand p i) :
    i < p.slots.length := by
  obtain ⟨o, ho⟩ := h
  by_contra hlt
  rw [List.getElem?_eq_none (by omega)] at ho
  cases ho

theorem fillable_lt {p : Parser} {i : Nat} (h : fillable p i) : i < p.slots.length := by
  obtain ⟨s, hs, -⟩ := h
  by_contra hlt
  rw [List.getElem?_eq_none (by omega)] at hs
  cases hs

theorem balanced_refl {op : Nat} {p : Parser} (hv : valid_operand p op)
    (ho : owner_invariant p) : balanced op p p :=
  ⟨valid_operand_lt hv, Nat.le_refl _, fun i _ _ => slot_kept_refl p i,
   (fun i hi s r hs => by rw [List.getElem?_eq_none hi] at hs; cases hs),
   hv, ho, fun _ => Iff.rfl⟩

theorem balanced_trans {op : Nat} {p q r : Parser} (h1 : balanced op p q)
    (h2 : balanced op q r) : balanced op p r := by
  obtain ⟨a1, a2, a3, a4, a5, a6, a7⟩ := h1
  obtain ⟨b1, b2, b3, b4, b5, b6, b7⟩ := h2
  refine ⟨a1, Nat.le_trans a2 b2, ?_, ?_, b5, b6, fun x => (b7 x).trans (a7 x)⟩
  · intro i hi hne
    exact slot_kept_trans (a3 i hi hne) (b3 i (by omega) hne)
  · intro i hi
    by_cases hq : i < q.slots.length
    · exact owns_nothing_kept (b3 i hq (by omega)) (a4 i hi)
    · exact b4 i (by omega)

/-- The balance does not depend on anything but the slots and the pool. -/
theorem balanced_congr {op : Nat} {p p1 q q1 : Parser} (hp : same_registers p p1)
    (hq : same_registers q q1) (h : balanced op p q) : balanced op p1 q1 := by
  obtain ⟨a1, a2, a3, a4, a5, a6, a7⟩ := h
  unfold balanced slot_kept owns_nothing valid_operand
  rw [hp.1, hq.1]
  exact ⟨a1, a2, a3, a4, a5, owner_invariant_congr hq a6,
    fun r => ((leaked_congr hq r).trans (a7 r)).trans (leaked_congr hp r).symm⟩

theorem preserves_ok {α : Type} {I : Parser → Prop} {H : Halt → Parser → Prop} {x : M α}
    (hx : preserves I H x) {p q : Parser} {a : α} (h : x p = .ok a q) (hp : I p) : I q := by
  have h1 := hx p hp
  rw [h] at h1
  exact h1

theorem frame_only_ok {α : Type} {x : M α} (hx : frame_only x) {p q : Parser} {a : α}
    (h : x p = .ok a q) : same_registers p q := by
  have h1 := hx p
  rw [h] at h1
  exact ⟨h1.1, h1.2.1⟩

theorem inuse_after_deallocate {a b : Register_Allocator} {r : Register}
    (h : a.deallocate_register r = some b) :
    a.inuse r = true ∧ b.inuse r = false ∧ ∀ r1, r1 ≠ r → b.inuse r1 = a.inuse r1 := by
  unfold Register_Allocator.deallocate_register at h
  by_cases hr : a.inuse r = true
  · simp [hr] at h
    subst h
    refine ⟨hr, ?_, ?_⟩
    · cases r <;> simp [Register_Allocator.inuse]
    · intro r1 hne
      cases r <;> cases r1 <;> simp_all [Register_Allocator.inuse]
  · simp [hr] at h

theorem inuse_after_allocate {a b : Register_Allocator} {r : Register}
    (h : a.allocate_register = some (r, b)) :
    a.inuse r = false ∧ b.inuse r = true ∧ ∀ r1, r1 ≠ r → b.inuse r1 = a.inuse r1 := by
  unfold Register_Allocator.allocate_register at h
  cases h1 : a.inuse1 <;> cases h2 : a.inuse2 <;> cases h3 : a.inuse3 <;>
    simp [h1, h2, h3] at h <;> obtain ⟨rfl, rfl⟩ := h <;>
    refine ⟨by simp [Register_Allocator.inuse, h1, h2, h3], by simp [Register_Allocator.inuse], ?_⟩ <;>
    intro r1 hne <;> cases r1 <;> simp_all [Register_Allocator.inuse]

theorem allocator_ext {a b : Register_Allocator} (h : ∀ r, a.inuse r = b.inuse r) : a = b := by
  have h1 := h .R1
  have h2 := h .R2
  have h3 := h .R3
  simp only [Register_Allocator.inuse] at h1 h2 h3
  cases a; cases b
  simp_all

theorem leaked_iff (p : Parser) (r : Register) :
    leaked p r ↔ p.allocator.inuse r = true ∧ ∀ i, ¬ slot_owns p i r := by
  unfold leaked slot_owns
  constructor
  · rintro ⟨h1, h2⟩
    exact ⟨h1, fun i ⟨s, hs, ho⟩ => h2 i s hs ho⟩
  · rintro ⟨h1, h2⟩
    exact ⟨h1, fun i s hs ho => h2 i ⟨s, hs, ho⟩⟩

theorem owns_nothing_iff (p : Parser) (i : Nat) :
    owns_nothing p i ↔ ∀ r, ¬ slot_owns p i r := by
  unfold owns_nothing slot_owns
  constructor
  · intro h r ⟨s, hs, ho⟩
    exact h s r hs ho
  · intro h s r hs ho
    exact h r ⟨s, hs, ho⟩

theorem slot_owns_unique {r r1 : Register} {p : Parser} {i : Nat} (h : slot_owns p i r)
    (h1 : slot_owns p i r1) : r = r1 := by
  obtain ⟨s, hs, ho, -⟩ := h
  obtain ⟨s1, hs1, ho1, -⟩ := h1
  rw [hs] at hs1
  cases hs1
  rw [ho] at ho1
  cases ho1
  rfl

/-- Neither the pool nor the ownership of any slot has changed. -/
theorem leaked_of_same {p q : Parser} (hin : ∀ r, q.allocator.inuse r = p.allocator.inuse r)
    (hown : ∀ i r, slot_owns q i r ↔ slot_owns p i r) (r : Register) :
    leaked q r ↔ leaked p r := by
  rw [leaked_iff, leaked_iff, hin r]
  constructor
  · rintro ⟨h1, h2⟩
    exact ⟨h1, fun i h => h2 i ((hown i r).2 h)⟩
  · rintro ⟨h1, h2⟩
    exact ⟨h1, fun i h => h2 i ((hown i r).1 h)⟩

/-- The slot `x`, which owned nothing, has been given the register `reg`,
which was free. -/
theorem leaked_of_acquire {p q : Parser} (x : Nat) (reg : Register)
    (hfree : p.allocator.inuse reg = false)
    (hin : ∀ r, r ≠ reg → q.allocator.inuse r = p.allocator.inuse r)
    (hx : ∀ r, ¬ slot_owns p x r) (hxq : slot_owns q x reg)
    (hown : ∀ i r, i ≠ x → (slot_owns q i r ↔ slot_owns p i r)) (r : Register) :
    leaked q r ↔ leaked p r := by
  rw [leaked_iff, leaked_iff]
  by_cases hr : r = reg
  · subst hr
    constructor
    · rintro ⟨-, h2⟩
      exact absurd hxq (h2 x)
    · rintro ⟨h1, -⟩
      rw [hfree] at h1
      cases h1
  · rw [hin r hr]
    constructor
    · rintro ⟨h1, h2⟩
      refine ⟨h1, fun i h => ?_⟩
      by_cases hi : i = x
      · subst hi; exact hx r h
      · exact h2 i ((hown i r hi).2 h)
    · rintro ⟨h1, h2⟩
      refine ⟨h1, fun i h => ?_⟩
      by_cases hi : i = x
      · subst hi; exact hr (slot_owns_unique h hxq)
      · exact h2 i ((hown i r hi).1 h)

/-- The slot `x`, which owned the register `reg`, owns nothing any more, and
the register has been given back. -/
theorem leaked_of_release {p q : Parser} (x : Nat) (reg : Register)
    (hfree : q.allocator.inuse reg = false)
    (hin : ∀ r, r ≠ reg → q.allocator.inuse r = p.allocator.inuse r)
    (hx : slot_owns p x reg) (hxq : ∀ r, ¬ slot_owns q x r)
    (hown : ∀ i r, i ≠ x → (slot_owns q i r ↔ slot_owns p i r)) (r : Register) :
    leaked q r ↔ leaked p r := by
  rw [leaked_iff, leaked_iff]
  by_cases hr : r = reg
  · subst hr
    constructor
    · rintro ⟨h1, -⟩
      rw [hfree] at h1
      cases h1
    · rintro ⟨-, h2⟩
      exact absurd hx (h2 x)
  · rw [hin r hr]
    constructor
    · rintro ⟨h1, h2⟩
      refine ⟨h1, fun i h => ?_⟩
      by_cases hi : i = x
      · subst hi; exact hr (slot_owns_unique h hx)
      · exact h2 i ((hown i r hi).2 h)
    · rintro ⟨h1, h2⟩
      refine ⟨h1, fun i h => ?_⟩
      by_cases hi : i = x
      · subst hi; exact hxq r h
      · exact h2 i ((hown i r hi).1 h)

/-- Ownership in a list of slots of which the slot `x` has been changed. -/
theorem slot_owns_modify (p q : Parser) (f : Slot → Slot) (x : Nat)
    (hq : q.slots = p.slots.modify f x) (i : Nat) (r : Register) :
    slot_owns q i r
      ↔ if x = i then ∃ s, p.slots[x]? = some s ∧ (f s).owns r else slot_owns p i r := by
  unfold slot_owns
  rw [hq, getElem?_modify_slots]
  by_cases hxi : x = i
  · subst hxi
    simp only [if_true, Option.map_eq_some']
    constructor
    · rintro ⟨s, ⟨s0, hs0, rfl⟩, ho⟩
      exact ⟨s0, hs0, ho⟩
    · rintro ⟨s0, hs0, ho⟩
      exact ⟨_, ⟨s0, hs0, rfl⟩, ho⟩
  · simp only [hxi, if_false, Option.map_eq_some']
    constructor
    · rintro ⟨s, ⟨s0, hs0, rfl⟩, ho⟩
      exact ⟨s0, hs0, ho⟩
    · rintro ⟨s0, hs0, ho⟩
      exact ⟨_, ⟨s0, hs0, rfl⟩, ho⟩

theorem slot_owns_of_slot {p : Parser} {i : Nat} {r : Register}
    (h : p.slots[i]? = some { op := some (.OPTYPE_REGISTER r), deleted := false, live := true }) :
    slot_owns p i r :=
  ⟨_, h, rfl, rfl⟩

theorem not_slot_owns_of_slot {p : Parser} {i : Nat} {o : Operand} {d l : Bool}
    (h : p.slots[i]? = some { op := some o, deleted := d, live := l })
    (ho : o.is_register = false) (r : Register) : ¬ slot_owns p i r := by
  rintro ⟨s, hs, h1, -⟩
  rw [h] at hs
  cases hs
  simp only [Option.some.injEq] at h1
  subst h1
  simp [Operand.is_register] at ho

theorem getElem?_modify_ne (l : List Slot) (f : Slot → Slot) {x i : Nat} (h : x ≠ i) :
    (l.modify f x)[i]? = l[i]? := by
  rw [getElem?_modify_slots]
  cases l[i]? with
  | none => rfl
  | some s => simp only [Option.map_some', h, if_false]

theorem getElem?_modify_eq (l : List Slot) (f : Slot → Slot) {x : Nat} {s : Slot}
    (h : l[x]? = some s) : (l.modify f x)[x]? = some (f s) := by
  rw [getElem?_modify_slots, h]
  simp only [Option.map_some', if_true]

theorem slot_owns_modify_ne {p q : Parser} {f : Slot → Slot} {x : Nat}
    (hq : q.slots = p.slots.modify f x) (i : Nat) (r : Register) (h : i ≠ x) :
    slot_owns q i r ↔ slot_owns p i r := by
  rw [slot_owns_modify p q f x hq i r]
  simp only [Ne.symm h, if_false]

/-- The spill step: the slot of the victim goes from its register operand to
the memory operand, every other slot is as it was, and the same registers
are leaked. -/
theorem spill_step_account {p q : Parser} (h : spill_step p q) :
    q.slots.length = p.slots.length ∧ (∀ i, slot_kept p q i)
    ∧ (∀ r, leaked q r ↔ leaked p r) := by
  obtain ⟨S, p0, x, r, a, h1, hx, hsx, ha, hq0⟩ := h
  obtain ⟨hs0, ha0, -, -⟩ := allocate_spill_memory_frame h1
  obtain ⟨-, hfree, hin⟩ := inuse_after_deallocate ha
  have hq : q.slots
      = p.slots.modify (fun s => { s with op := some (.OPTYPE_MEMORY S), deleted := false }) x := by
    rw [hq0, ← hs0]
  have hqa : q.allocator = a := by rw [hq0]
  refine ⟨?_, ?_, ?_⟩
  · rw [hq, List.length_modify]
  · intro i
    by_cases hxi : x = i
    · subst hxi
      exact Or.inr ⟨r, S, hsx, by rw [hq, getElem?_modify_eq _ _ hsx]⟩
    · exact Or.inl (by rw [hq, getElem?_modify_ne _ _ hxi])
  · intro r1
    refine leaked_of_release x r (by rw [hqa]; exact hfree)
      (by rw [hqa]; exact hin) (slot_owns_of_slot hsx) ?_ ?_ r1
    · intro r2 h2
      rw [slot_owns_modify p _ _ x hq x r2] at h2
      simp only [if_true] at h2
      obtain ⟨s, -, ho, -⟩ := h2
      simp at ho
    · intro i r2 hi
      exact slot_owns_modify_ne hq i r2 hi

theorem room_made_account {p q : Parser} (h : room_made p q) :
    q.slots.length = p.slots.length ∧ (∀ i, slot_kept p q i)
    ∧ (∀ r, leaked q r ↔ leaked p r) := by
  rcases h with ⟨-, rfl⟩ | ⟨-, h⟩
  · exact ⟨rfl, fun i => slot_kept_refl _ i, fun _ => Iff.rfl⟩
  · exact spill_step_account h

/-- The materialization of the operand in the slot `x` with the slot
rewritten: the slot holds the register operand afterwards, every other slot
is as it was or has been spilled, and the same registers are leaked. -/
theorem materialized_account {x : Nat} {p q : Parser} {reg : Register}
    (h : materialized true x p reg q) :
    q.slots.length = p.slots.length ∧ (∀ i, i ≠ x → slot_kept p q i)
    ∧ q.slots[x]? = some { op := some (.OPTYPE_REGISTER reg), deleted := false, live := true }
    ∧ (∀ r, leaked q r ↔ leaked p r) := by
  have hsl := materialized_slot h
  obtain ⟨o, hx, h⟩ := h
  rcases h with ⟨rfl, rfl⟩ | ⟨ho, p1, a, hroom, ha, hq0⟩
  · exact ⟨rfl, fun i _ => slot_kept_refl _ i, hx, fun _ => Iff.rfl⟩
  · obtain ⟨hlen, hkept, hleak⟩ := room_made_account hroom
    have hx1 := room_made_slot hroom x o hx ho
    obtain ⟨hfree, -, hin⟩ := inuse_after_allocate ha
    have hq : q.slots = p1.slots.modify
        (fun s => { s with op := some (.OPTYPE_REGISTER reg), deleted := false }) x := by
      rw [hq0]; rfl
    have hqa : q.allocator = a := by rw [hq0]
    refine ⟨?_, ?_, hsl, ?_⟩
    · rw [hq, List.length_modify, hlen]
    · intro i hi
      refine slot_kept_trans (hkept i) (Or.inl ?_)
      rw [hq, getElem?_modify_ne _ _ (Ne.symm hi)]
    · intro r
      refine Iff.trans ?_ (hleak r)
      refine leaked_of_acquire x reg hfree (by rw [hqa]; exact hin)
        (not_slot_owns_of_slot hx1 ho) (slot_owns_of_slot hsl) ?_ r
      intro i r2 hi
      exact slot_owns_modify_ne hq i r2 hi

/-- The release of the right operand: the slot owns nothing afterwards,
every other slot is as it was, and the same registers are leaked. -/
theorem released_right_account {x : Nat} {p q : Parser} (h : released_right x p q) :
    q.slots.length = p.slots.length ∧ (∀ i, i ≠ x → q.slots[i]? = p.slots[i]?)
    ∧ owns_nothing q x
    ∧ (∀ r, leaked q r ↔ leaked p r) := by
  obtain ⟨src, hs, hq, -, -, -, hsrc⟩ := h
  have hnone : ∀ r, ¬ slot_owns q x r := by
    intro r h2
    rw [slot_owns_modify p q _ x hq x r] at h2
    simp only [if_true] at h2
    obtain ⟨s, -, -, hd⟩ := h2
    simp at hd
  refine ⟨by rw [hq, List.length_modify],
    fun i hi => by rw [hq, getElem?_modify_ne _ _ (Ne.symm hi)],
    (owns_nothing_iff q x).2 hnone, ?_⟩
  intro r
  cases src with
  | OPTYPE_REGISTER r1 =>
    obtain ⟨-, hfree, hin⟩ := inuse_after_deallocate hsrc.1
    exact leaked_of_release x r1 hfree hin (slot_owns_of_slot hs) hnone
      (fun i r2 hi => slot_owns_modify_ne hq i r2 hi) r
  | OPTYPE_MEMORY m =>
    refine leaked_of_same (fun r2 => by rw [hsrc.1]) ?_ r
    intro i r2
    by_cases hi : i = x
    · subst hi
      exact ⟨fun h2 => absurd h2 (hnone r2),
        fun h2 => absurd h2 (not_slot_owns_of_slot hs rfl r2)⟩
    · exact slot_owns_modify_ne hq i r2 hi
  | OPTYPE_IMMEDIATE n =>
    refine leaked_of_same (fun r2 => by rw [hsrc.1]) ?_ r
    intro i r2
    by_cases hi : i = x
    · subst hi
      exact ⟨fun h2 => absurd h2 (hnone r2),
        fun h2 => absurd h2 (not_slot_owns_of_slot hs rfl r2)⟩
    · exact slot_owns_modify_ne hq i r2 hi

/-- The code of a binary operator, from the materialization of the left
operand to the release of the right operand. -/
theorem binary_account {l r : Nat} {p p1 p2 q : Parser} {reg : Register}
    (hm : materialized true l p reg p1)
    (h2 : p2.slots = p1.slots ∧ p2.allocator = p1.allocator)
    (hrel : released_right r p2 q) (hne : l ≠ r) :
    q.slots.length = p.slots.length ∧ (∀ i, i ≠ l → i ≠ r → slot_kept p q i)
    ∧ valid_operand q l ∧ owns_nothing q r
    ∧ (∀ r1, leaked q r1 ↔ leaked p r1) := by
  obtain ⟨a1, a2, a3, a4⟩ := materialized_account hm
  obtain ⟨b1, b2, b3, b4⟩ := released_right_account hrel
  refine ⟨by rw [b1, h2.1, a1], ?_, ?_, b3, ?_⟩
  · intro i hl hr
    refine slot_kept_trans (a2 i hl) (Or.inl ?_)
    rw [b2 i hr, h2.1]
  · exact ⟨_, by rw [b2 l hne, h2.1]; exact a3⟩
  · intro r1
    exact ((b4 r1).trans (leaked_congr ⟨h2.1, h2.2⟩ r1)).trans (a4 r1)

theorem checked_same_registers {α : Type} {errs : List Diagnostic} {a b : α} {p q : Parser}
    (h : checked errs a p = .ok b q) : same_registers p q := by
  unfold checked at h
  cases errs with
  | nil =>
    simp only [Res.ok.injEq] at h
    rw [← h.2]
    exact ⟨rfl, rfl⟩
  | cons d ds =>
    cases htm : p.test_mode
    · simp [htm] at h
    · simp only [htm, if_true, Res.ok.injEq] at h
      rw [← h.2]
      exact ⟨rfl, rfl⟩

theorem advanced_same_registers (p : Parser) : same_registers p p.advanced :=
  ⟨(advanced_codegen p).2.1, (advanced_codegen p).2.2.1⟩

theorem getElem?_append_slot_lt (l : List Slot) (s : Slot) {i : Nat} (h : i < l.length) :
    (l ++ [s])[i]? = l[i]? :=
  List.getElem?_append_left h

theorem getElem?_append_slot_length (l : List Slot) (s : Slot) :
    (l ++ [s])[l.length]? = some s := by
  simp

/-- A slot has been appended that owns nothing: the same registers are
leaked. -/
theorem leaked_of_new_slot {p q : Parser} {s : Slot} (hs : q.slots = p.slots ++ [s])
    (ha : q.allocator = p.allocator) (hn : ∀ r, ¬ s.owns r) (r : Register) :
    leaked q r ↔ leaked p r := by
  refine leaked_of_same (fun r1 => by rw [ha]) ?_ r
  intro i r1
  unfold slot_owns
  rw [hs]
  by_cases hi : i < p.slots.length
  · rw [getElem?_append_slot_lt _ _ hi]
  · by_cases hi2 : i = p.slots.length
    · subst hi2
      rw [getElem?_append_slot_length, List.getElem?_eq_none (Nat.le_refl _)]
      constructor
      · rintro ⟨s1, h1, h2⟩
        cases h1
        exact absurd h2 (hn r1)
      · rintro ⟨s1, h1, -⟩
        cases h1
    · rw [List.getElem?_eq_none (by simp; omega), List.getElem?_eq_none (by omega)]

/-- A variable has gone out of scope: ownership is as it was. -/
theorem slot_owns_end_of_scope {p q : Parser} {x : Nat}
    (hq : q.slots = p.slots.modify (fun s => { s with live := false }) x) (i : Nat)
    (r : Register) : slot_owns q i r ↔ slot_owns p i r := by
  rw [slot_owns_modify p q _ x hq i r]
  by_cases hxi : x = i
  · subst hxi
    simp only [if_true]
    rfl
  · simp only [hxi, if_false]

theorem owns_nothing_end_of_scope {p q : Parser} {x : Nat}
    (hq : q.slots = p.slots.modify (fun s => { s with live := false }) x) (i : Nat)
    (h : owns_nothing p i) : owns_nothing q i := by
  rw [owns_nothing_iff] at h ⊢
  intro r h1
  exact h r ((slot_owns_end_of_scope hq i r).1 h1)

/-- The shape all three operator productions have: the right operand slot is
created, the right operand is parsed into it, the code of the operator is
generated, the rest of the chain is parsed for the left operand, and the
right operand slot goes out of scope. -/
theorem balanced_binary {left right : Nat} {p p2 p3 p4 p5 q : Parser}
    (hv : valid_operand p left)
    (h2 : p2.slots = p.slots ++ [{ op := none, deleted := false, live := true }]
      ∧ p2.allocator = p.allocator)
    (hr : right = p.slots.length)
    (h23 : balanced right p2 p3)
    (h34 : p4.slots.length = p3.slots.length
      ∧ (∀ i, i ≠ left → i ≠ right → slot_kept p3 p4 i)
      ∧ valid_operand p4 left ∧ owns_nothing p4 right
      ∧ (∀ r1, leaked p4 r1 ↔ leaked p3 r1))
    (h45 : balanced left p4 p5)
    (hq : q.slots = p5.slots.modify (fun s => { s with live := false }) right
      ∧ q.allocator = p5.allocator)
    (hoq : owner_invariant q) :
    balanced left p q := by
  have hl := valid_operand_lt hv
  obtain ⟨a1, a2, a3, a4, a5, a6, a7⟩ := h23
  obtain ⟨b1, b2, b3, b4, b5⟩ := h34
  obtain ⟨c1, c2, c3, c4, c5, c6, c7⟩ := h45
  have hp2 : p2.slots.length = p.slots.length + 1 := by rw [h2.1]; simp
  have hqlen : q.slots.length = p5.slots.length := by rw [hq.1, List.length_modify]
  have hqslot : ∀ i, i ≠ right → q.slots[i]? = p5.slots[i]? := by
    intro i hi
    rw [hq.1, getElem?_modify_ne _ _ (Ne.symm hi)]
  refine ⟨hl, by omega, ?_, ?_, ?_, hoq, ?_⟩
  · intro i hi hne
    have hir : i ≠ right := by omega
    have k1 : slot_kept p p2 i := Or.inl (by rw [h2.1, getElem?_append_slot_lt _ _ hi])
    have k2 := a3 i (by omega) hir
    have k3 := b2 i hne hir
    have k4 := c3 i (by omega) hne
    have k5 : slot_kept p5 q i := Or.inl (hqslot i hir)
    exact slot_kept_trans (slot_kept_trans (slot_kept_trans (slot_kept_trans k1 k2) k3) k4) k5
  · intro i hi
    refine owns_nothing_end_of_scope hq.1 i ?_
    by_cases hir : i = right
    · subst hir
      exact owns_nothing_kept (c3 i (by omega) (by omega)) b4
    · by_cases hi3 : i < p3.slots.length
      · have n3 := a4 i (by omega)
        have n4 := owns_nothing_kept (b2 i (by omega) hir) n3
        exact owns_nothing_kept (c3 i (by omega) (by omega)) n4
      · exact c4 i (by omega)
  · obtain ⟨o, ho⟩ := c5
    exact ⟨o, by rw [hqslot left (by omega)]; exact ho⟩
  · intro r
    have e1 : leaked q r ↔ leaked p5 r :=
      leaked_of_same (fun r1 => by rw [hq.2]) (fun i r1 => slot_owns_end_of_scope hq.1 i r1) r
    have e5 : leaked p2 r ↔ leaked p r :=
      leaked_of_new_slot h2.1 h2.2 (fun r1 h => by cases h.1) r
    exact (((e1.trans (c7 r)).trans (b5 r)).trans (a7 r)).trans e5

/-- The operand slot is given an operand that is no register operand. -/
theorem balanced_assign {op : Nat} {p q : Parser} {o : Operand} (hf : fillable p op)
    (ho : o.is_register = false)
    (hq : q.slots = p.slots.modify (fun s => { s with op := some o, deleted := false }) op
      ∧ q.allocator = p.allocator)
    (hoq : owner_invariant q) : balanced op p q := by
  obtain ⟨s, hs, hlive, hn⟩ := hf
  have hl : op < p.slots.length := fillable_lt ⟨s, hs, hlive, hn⟩
  have hqop : q.slots[op]? = some { op := some o, deleted := false, live := true } := by
    rw [hq.1, getElem?_modify_eq _ _ hs]
    cases s
    simp only at hlive
    subst hlive
    rfl
  refine ⟨hl, by rw [hq.1, List.length_modify], ?_, ?_, ⟨o, hqop⟩, hoq, ?_⟩
  · intro i _ hne
    exact Or.inl (by rw [hq.1, getElem?_modify_ne _ _ (Ne.symm hne)])
  · intro i hi s1 r hs1
    rw [hq.1, List.getElem?_eq_none (by rw [List.length_modify]; exact hi)] at hs1
    cases hs1
  · intro r
    refine leaked_of_same (fun r1 => by rw [hq.2]) ?_ r
    intro i r1
    by_cases hi : i = op
    · subst hi
      exact ⟨fun h => absurd h (not_slot_owns_of_slot hqop ho r1),
        fun ⟨s1, h1, h2⟩ => by rw [hs] at h1; cases h1; exact absurd h2 (hn r1)⟩
    · exact slot_owns_modify_ne hq.1 i r1 hi

/-- The materialization of the operand in the slot `x` keeps the balance. -/
theorem balanced_materialized {x : Nat} {p q : Parser} {reg : Register}
    (h : materialized true x p reg q) (hoq : owner_invariant q) : balanced x p q := by
  obtain ⟨a1, a2, a3, a4⟩ := materialized_account h
  have hv : valid_operand p x := by
    obtain ⟨o, ho, -⟩ := h
    exact ⟨o, ho⟩
  refine ⟨valid_operand_lt hv, by omega, fun i _ hne => a2 i hne, ?_, ⟨_, a3⟩, hoq, a4⟩
  intro i hi s r hs
  rw [List.getElem?_eq_none (by omega)] at hs
  cases hs

/-- The shape `parse_expr`, `parse_simple_expr` and `parse_term` have: the
operand is parsed into the slot, the rest of the chain goes on from it, and
the semantic check follows. -/
theorem balanced_head {a b : M (Bool × expr_type)} {sem : expr_type → expr_type → M expr_type}
    {t ty : expr_type} {op : Nat} {p q : Parser}
    (h : (do
      let first ← a
      if first.1 then
        let rest ← b
        if rest.1 then
          let result ← sem first.2 rest.2
          pure (true, result)
        else
          pure (false, t)
      else
        pure (false, t)) p = .ok (true, ty) q)
    (ha : ∀ p ty q, a p = .ok (true, ty) q → owner_invariant p → fillable p op → balanced op p q)
    (hb : ∀ p ty q, b p = .ok (true, ty) q → owner_invariant p → valid_operand p op →
      balanced op p q)
    (hsem : ∀ t1 t2 p r q, sem t1 t2 p = .ok r q → same_registers p q)
    (ho : owner_invariant p) (hf : fillable p op) : balanced op p q := by
  obtain ⟨first, p1, h1, h⟩ := bind_eq_ok h
  obtain ⟨b1, t1⟩ := first
  cases b1 with
  | false => simp [pure_apply] at h
  | true =>
    simp only [if_true] at h
    obtain ⟨rest, p2, h2, h⟩ := bind_eq_ok h
    obtain ⟨b2, t2⟩ := rest
    cases b2 with
    | false => simp [pure_apply] at h
    | true =>
      simp only [if_true] at h
      obtain ⟨res, p3, h3, h⟩ := bind_eq_ok h
      simp only [pure_apply, Res.ok.injEq] at h
      obtain ⟨-, rfl⟩ := h
      have B1 := ha p t1 p1 h1 ho hf
      have B2 := hb p1 t2 p2 h2 B1.2.2.2.2.2.1 B1.2.2.2.2.1
      exact balanced_congr (same_registers_refl p) (hsem _ _ _ _ _ h3) (balanced_trans B1 B2)

theorem expr_semantics_same_registers (t0 t1 t2 : expr_type) (p : Parser) (r : expr_type)
    (q : Parser) (h : expr_semantics t0 t1 t2 p = .ok r q) : same_registers p q := by
  rw [expr_semantics_apply] at h
  exact checked_same_registers h

theorem simple_expr_semantics_same_registers (t0 t1 t2 : expr_type) (p : Parser)
    (r : expr_type) (q : Parser) (h : simple_expr_semantics t0 t1 t2 p = .ok r q) :
    same_registers p q := by
  rw [simple_expr_semantics_apply] at h
  exact checked_same_registers h

theorem term_semantics_same_registers (t0 t1 t2 : expr_type) (p : Parser) (r : expr_type)
    (q : Parser) (h : term_semantics t0 t1 t2 p = .ok r q) : same_registers p q := by
  rw [term_semantics_apply] at h
  exact checked_same_registers h

theorem fills_parse_expr (fuel : Nat) (h1 : fills_operand (parse_simple_expr fuel))
    (h2 : continues_operand (parse_expr_hat fuel)) : fills_operand (parse_expr (fuel + 1)) := by
  intro t op p ty q h ho hf
  rw [parse_expr] at h
  exact balanced_head h (fun p ty q h => h1 _ op p ty q h) (fun p ty q h => h2 _ op p ty q h)
    (expr_semantics_same_registers t) ho hf

theorem fills_parse_simple_expr (fuel : Nat) (h1 : fills_operand (parse_term fuel))
    (h2 : continues_operand (parse_simple_expr_prm fuel)) :
    fills_operand (parse_simple_expr (fuel + 1)) := by
  intro t op p ty q h ho hf
  rw [parse_simple_expr] at h
  exact balanced_head h (fun p ty q h => h1 _ op p ty q h) (fun p ty q h => h2 _ op p ty q h)
    (simple_expr_semantics_same_registers t) ho hf

theorem fills_parse_term (fuel : Nat) (h1 : fills_operand (parse_factor fuel))
    (h2 : continues_operand (parse_term_prm fuel)) : fills_operand (parse_term (fuel + 1)) := by
  intro t op p ty q h ho hf
  rw [parse_term] at h
  exact balanced_head h (fun p ty q h => h1 _ op p ty q h) (fun p ty q h => h2 _ op p ty q h)
    (term_semantics_same_registers t) ho hf

theorem addop_codegen_account {a : addop_attr} {l r : Nat} {p q : Parser}
    (h : addop_codegen a l r p = .ok () q) (ho : owner_invariant p) (hne : l ≠ r) :
    (q.slots.length = p.slots.length ∧ (∀ i, i ≠ l → i ≠ r → slot_kept p q i)
      ∧ valid_operand q l ∧ owns_nothing q r ∧ (∀ r1, leaked q r1 ↔ leaked p r1))
    ∧ owner_invariant q := by
  obtain ⟨reg, p1, p2, src, hm, -, -, hsl, hal, -, -, hrel, -, -⟩ := addop_codegen_ok h
  exact ⟨binary_account hm ⟨hsl, hal⟩ hrel hne, preserves_ok (owner_addop_codegen a l r) h ho⟩

theorem mulop_codegen_account {m : mulop_attr} {l r : Nat} {p q : Parser}
    (h : mulop_codegen m l r p = .ok () q) (ho : owner_invariant p) (hne : l ≠ r) :
    (q.slots.length = p.slots.length ∧ (∀ i, i ≠ l → i ≠ r → slot_kept p q i)
      ∧ valid_operand q l ∧ owns_nothing q r ∧ (∀ r1, leaked q r1 ↔ leaked p r1))
    ∧ owner_invariant q := by
  obtain ⟨reg, p1, p2, src, hm, -, -, hsl, hal, -, -, hrel, -, -⟩ := mulop_codegen_ok h
  exact ⟨binary_account hm ⟨hsl, hal⟩ hrel hne, preserves_ok (owner_mulop_codegen m l r) h ho⟩

theorem relop_codegen_account {c : relop_attr} {l r : Nat} {p q : Parser}
    (h : relop_codegen c l r p = .ok () q) (ho : owner_invariant p) (hne : l ≠ r) :
    (q.slots.length = p.slots.length ∧ (∀ i, i ≠ l → i ≠ r → slot_kept p q i)
      ∧ valid_operand q l ∧ owns_nothing q r ∧ (∀ r1, leaked q r1 ↔ leaked p r1))
    ∧ owner_invariant q := by
  obtain ⟨reg, p1, p2, src, hm, -, -, -, -, hsl, hal, -, -, hrel⟩ := relop_codegen_ok h
  exact ⟨binary_account hm ⟨hsl, hal⟩ (release_right_op_ok hrel) hne,
    preserves_ok (owner_relop_codegen c l r) h ho⟩

/-- The record after the lookahead has been consumed and the right operand
slot has been created, in either order. -/
theorem right_operand_slot {p p1 p2 : Parser} {right : Nat} (h1 : same_registers p p1)
    (h2 : new_operand_slot none p1 = .ok right p2) (ho : owner_invariant p) :
    right = p.slots.length
    ∧ (p2.slots = p.slots ++ [{ op := none, deleted := false, live := true }]
      ∧ p2.allocator = p.allocator)
    ∧ fillable p2 right ∧ owner_invariant p2 := by
  have ho2 : owner_invariant p2 :=
    preserves_ok owner_block_invariant.new_operand_slot_null h2 (owner_invariant_congr h1 ho)
  simp only [new_operand_slot, Res.ok.injEq] at h2
  obtain ⟨rfl, rfl⟩ := h2
  refine ⟨by rw [h1.1], ⟨by rw [← h1.1], h1.2⟩, ?_, ho2⟩
  exact ⟨_, getElem?_append_slot_length _ _, rfl, fun r h => by cases h.1⟩

/-- The record after the semantic check and the end of the scope of the
right operand slot. -/
theorem right_operand_scope {p5 p6 q : Parser} {right : Nat} (h1 : same_registers p5 p6)
    (h2 : end_of_scope right p6 = .ok () q) (ho : owner_invariant p5) :
    (q.slots = p5.slots.modify (fun s => { s with live := false }) right
      ∧ q.allocator = p5.allocator)
    ∧ owner_invariant q := by
  have hoq : owner_invariant q :=
    preserves_ok (owner_block_invariant.end_of_scope right) h2 (owner_invariant_congr h1 ho)
  simp only [end_of_scope, modifyp_apply, Res.ok.injEq, true_and] at h2
  subst h2
  exact ⟨⟨by rw [← h1.1], h1.2⟩, hoq⟩

theorem continues_parse_simple_expr_prm (fuel : Nat) (h1 : fills_operand (parse_term fuel))
    (h2 : continues_operand (parse_simple_expr_prm fuel)) :
    continues_operand (parse_simple_expr_prm (fuel + 1)) := by
  intro t left p ty q h ho hv
  have hl := valid_operand_lt hv
  rw [parse_simple_expr_prm] at h
  obtain ⟨w, p0, hw, h⟩ := bind_eq_ok h
  simp only [get_word_apply, Res.ok.injEq] at hw
  obtain ⟨-, rfl⟩ := hw
  cases w with
  | TOKEN_ADDOP a =>
    obtain ⟨_, p1, ha, h⟩ := bind_eq_ok h
    simp only [advance_apply, Res.ok.injEq, true_and] at ha
    subst ha
    obtain ⟨right, p2, hn, h⟩ := bind_eq_ok h
    obtain ⟨hr, h2s, hfill, ho2⟩ := right_operand_slot (advanced_same_registers p) hn ho
    obtain ⟨term, p3, hT, h⟩ := bind_eq_ok h
    obtain ⟨b, tT⟩ := term
    cases b with
    | false => simp [bind_apply, end_of_scope, modifyp_apply, pure_apply] at h
    | true =>
      simp only [if_true] at h
      have B23 := h1 _ right p2 tT p3 hT ho2 hfill
      obtain ⟨_, p4, hcg, h⟩ := bind_eq_ok h
      obtain ⟨acct, ho4⟩ := addop_codegen_account hcg B23.2.2.2.2.2.1 (by omega)
      obtain ⟨prm1, p5, hrec, h⟩ := bind_eq_ok h
      obtain ⟨b1, t1⟩ := prm1
      cases b1 with
      | false => simp [bind_apply, end_of_scope, modifyp_apply, pure_apply] at h
      | true =>
        simp only [if_true] at h
        have B45 := h2 _ left p4 t1 p5 hrec ho4 acct.2.2.1
        obtain ⟨res, p6, hsem, h⟩ := bind_eq_ok h
        rw [simple_expr_prm_semantics_apply] at hsem
        obtain ⟨_, p7, hend, h⟩ := bind_eq_ok h
        simp only [pure_apply, Res.ok.injEq] at h
        obtain ⟨-, rfl⟩ := h
        obtain ⟨hq, hoq⟩ := right_operand_scope (checked_same_registers hsem) hend
          B45.2.2.2.2.2.1
        exact balanced_binary hv h2s hr B23 acct B45 hq hoq
  | _ =>
    simp only [pure_apply, Res.ok.injEq] at h
    obtain ⟨-, rfl⟩ := h
    exact balanced_refl hv ho

theorem fillable_congr {p q : Parser} {i : Nat} (h : q.slots = p.slots) (hf : fillable p i) :
    fillable q i := by
  unfold fillable
  rw [h]
  exact hf

theorem continues_parse_expr_hat (fuel : Nat) (h1 : fills_operand (parse_simple_expr fuel)) :
    continues_operand (parse_expr_hat (fuel + 1)) := by
  intro t left p ty q h ho hv
  have hl := valid_operand_lt hv
  rw [parse_expr_hat] at h
  obtain ⟨w, p0, hw, h⟩ := bind_eq_ok h
  simp only [get_word_apply, Res.ok.injEq] at hw
  obtain ⟨-, rfl⟩ := hw
  cases w with
  | TOKEN_RELOP c =>
    obtain ⟨_, p1, ha, h⟩ := bind_eq_ok h
    simp only [advance_apply, Res.ok.injEq, true_and] at ha
    subst ha
    obtain ⟨right, p2, hn, h⟩ := bind_eq_ok h
    obtain ⟨hr, h2s, hfill, ho2⟩ := right_operand_slot (advanced_same_registers p) hn ho
    obtain ⟨se, p3, hS, h⟩ := bind_eq_ok h
    obtain ⟨b, tS⟩ := se
    cases b with
    | false => simp [bind_apply, end_of_scope, modifyp_apply, pure_apply] at h
    | true =>
      simp only [if_true] at h
      have B23 := h1 _ right p2 tS p3 hS ho2 hfill
      have key : ∀ (p3c : Parser) (t1 : expr_type), same_registers p3 p3c →
          (do
            relop_codegen c left right
            end_of_scope right
            pure (true, t1)) p3c = .ok (true, ty) q → balanced left p q := by
        intro p3c t1 hsame h
        have B23c := balanced_congr (same_registers_refl p2) hsame B23
        obtain ⟨_, p4, hcg, h⟩ := bind_eq_ok h
        obtain ⟨acct, ho4⟩ := relop_codegen_account hcg B23c.2.2.2.2.2.1 (by omega)
        obtain ⟨_, p7, hend, h⟩ := bind_eq_ok h
        simp only [pure_apply, Res.ok.injEq] at h
        obtain ⟨-, rfl⟩ := h
        obtain ⟨hq, hoq⟩ := right_operand_scope (same_registers_refl p4) hend ho4
        exact balanced_binary hv h2s hr B23c acct (balanced_refl acct.2.2.1 ho4) hq hoq
      by_cases hint : tS = .INT_T
      · simp only [hint, if_true] at h
        exact key p3 .INT_T (same_registers_refl p3) h
      · simp only [hint, if_false] at h
        obtain ⟨_, p3c, hchk, h⟩ := bind_eq_ok h
        rw [type_error_apply] at hchk
        exact key p3c t (checked_same_registers hchk) h
  | _ =>
    simp only [pure_apply, Res.ok.injEq] at h
    obtain ⟨-, rfl⟩ := h
    exact balanced_refl hv ho

/-- A slot has been created and has gone out of scope without being used. -/
theorem balanced_unused_slot {left : Nat} {p p1 q : Parser} (hv : valid_operand p left)
    (h1 : p1.slots = p.slots ++ [{ op := none, deleted := false, live := true }]
      ∧ p1.allocator = p.allocator)
    (hq : q.slots = p1.slots.modify (fun s => { s with live := false }) p.slots.length
      ∧ q.allocator = p1.allocator)
    (hoq : owner_invariant q) : balanced left p q := by
  have hl := valid_operand_lt hv
  have hqlen : q.slots.length = p.slots.length + 1 := by
    rw [hq.1, List.length_modify, h1.1]; simp
  have hslot : ∀ i, i < p.slots.length → q.slots[i]? = p.slots[i]? := by
    intro i hi
    rw [hq.1, getElem?_modify_ne _ _ (by omega), h1.1, getElem?_append_slot_lt _ _ hi]
  have e1 : ∀ r, leaked p1 r ↔ leaked p r :=
    leaked_of_new_slot h1.1 h1.2 (fun r1 h => by cases h.1)
  refine ⟨hl, by omega, fun i hi _ => Or.inl (hslot i hi), ?_, ?_, hoq, ?_⟩
  · intro i hi
    refine owns_nothing_end_of_scope hq.1 i ?_
    intro s r hs
    rw [h1.1] at hs
    by_cases hi2 : i = p.slots.length
    · subst hi2
      rw [getElem?_append_slot_length] at hs
      cases hs
      exact fun h => by cases h.1
    · rw [List.getElem?_eq_none (by simp; omega)] at hs
      cases hs
  · obtain ⟨o, ho⟩ := hv
    exact ⟨o, by rw [hslot left hl]; exact ho⟩
  · intro r
    exact (leaked_of_same (fun r1 => by rw [hq.2])
      (fun i r1 => slot_owns_end_of_scope hq.1 i r1) r).trans (e1 r)

theorem continues_parse_term_prm (fuel : Nat) (h1 : fills_operand (parse_factor fuel))
    (h2 : continues_operand (parse_term_prm fuel)) :
    continues_operand (parse_term_prm (fuel + 1)) := by
  intro t left p ty q h ho hv
  have hl := valid_operand_lt hv
  rw [parse_term_prm] at h
  obtain ⟨right, p1, hn, h⟩ := bind_eq_ok h
  obtain ⟨hr, h1s, hfill1, ho1⟩ := right_operand_slot (same_registers_refl p) hn ho
  obtain ⟨w, p0, hw, h⟩ := bind_eq_ok h
  simp only [get_word_apply, Res.ok.injEq] at hw
  obtain ⟨-, rfl⟩ := hw
  cases w with
  | TOKEN_MULOP m =>
    obtain ⟨_, p2, ha, h⟩ := bind_eq_ok h
    simp only [advance_apply, Res.ok.injEq, true_and] at ha
    subst ha
    have hs2 := advanced_same_registers p1
    have h2s : p1.advanced.slots = p.slots ++ [{ op := none, deleted := false, live := true }]
        ∧ p1.advanced.allocator = p.allocator := ⟨hs2.1.trans h1s.1, hs2.2.trans h1s.2⟩
    obtain ⟨factor, p3, hF, h⟩ := bind_eq_ok h
    obtain ⟨b, tF⟩ := factor
    cases b with
    | false => simp [bind_apply, end_of_scope, modifyp_apply, pure_apply] at h
    | true =>
      simp only [if_true] at h
      have B23 := h1 _ right p1.advanced tF p3 hF (owner_invariant_congr hs2 ho1)
        (fillable_congr hs2.1 hfill1)
      obtain ⟨_, p4, hcg, h⟩ := bind_eq_ok h
      obtain ⟨acct, ho4⟩ := mulop_codegen_account hcg B23.2.2.2.2.2.1 (by omega)
      obtain ⟨prm1, p5, hrec, h⟩ := bind_eq_ok h
      obtain ⟨b1, t1⟩ := prm1
      cases b1 with
      | false => simp [bind_apply, end_of_scope, modifyp_apply, pure_apply] at h
      | true =>
        simp only [if_true] at h
        have B45 := h2 _ left p4 t1 p5 hrec ho4 acct.2.2.1
        obtain ⟨res, p6, hsem, h⟩ := bind_eq_ok h
        rw [term_prm_semantics_apply] at hsem
        obtain ⟨_, p7, hend, h⟩ := bind_eq_ok h
        simp only [pure_apply, Res.ok.injEq] at h
        obtain ⟨-, rfl⟩ := h
        obtain ⟨hq, hoq⟩ := right_operand_scope (checked_same_registers hsem) hend
          B45.2.2.2.2.2.1
        exact balanced_binary hv h2s hr B23 acct B45 hq hoq
  | _ =>
    obtain ⟨_, p7, hend, h⟩ := bind_eq_ok h
    simp only [pure_apply, Res.ok.injEq] at h
    obtain ⟨-, rfl⟩ := h
    obtain ⟨hq, hoq⟩ := right_operand_scope (same_registers_refl p1) hend ho1
    rw [hr] at hq
    exact balanced_unused_slot hv h1s hq hoq

/-- A lookahead that starts no factor: `parse_factor` returns false. -/
theorem parse_factor_other (fuel : Nat) (t : expr_type) (op : Nat) (p : Parser)
    (h1 : ∀ x, p.word ≠ .TOKEN_ID x) (h2 : ∀ n, p.word ≠ .TOKEN_NUM n)
    (h3 : is_punctuation p.word .PUNC_OPEN = false) (h4 : is_sign p.word = false) :
    parse_factor (fuel + 1) t op p = .ok (false, t) p := by
  have h5 : (is_addop_attr p.word .ADDOP_ADD || is_addop_attr p.word .ADDOP_SUB
      || is_keyword p.word .KW_NOT) = false := h4
  rw [parse_factor]
  simp only [bind_apply, get_word_apply]
  cases hw : p.word with
  | TOKEN_ID x => exact absurd hw (h1 x)
  | TOKEN_NUM n => exact absurd hw (h2 n)
  | _ =>
    rw [hw] at h3 h5
    simp only [h3, h5, Bool.false_eq_true, if_false, pure_apply]

/-- The code of a sign keeps the balance of the operand it is applied to. -/
theorem sign_codegen_balanced {s : Int} {op : Nat} {p q : Parser}
    (h : sign_codegen s op p = .ok () q) (ho : owner_invariant p) (hv : valid_operand p op) :
    balanced op p q := by
  have hoq := preserves_ok (owner_sign_codegen s op) h ho
  unfold sign_codegen at h
  by_cases h0 : s = 0
  · simp only [h0, if_true, pure_apply, Res.ok.injEq, true_and] at h
    subst h
    exact balanced_refl hv ho
  · simp only [h0, if_false] at h
    obtain ⟨reg, p1, hm, h⟩ := bind_eq_ok h
    have hmat := (left_op_into_register_iff _ _ _ _ _).1 hm
    obtain ⟨_, p2, hsl, h⟩ := bind_eq_ok h
    simp only [set_last_register_op, modifyp_apply, Res.ok.injEq, true_and] at hsl
    subst hsl
    have hsame : same_registers p1 q := by
      by_cases hs1 : s = 1
      · subst hs1
        simp [emit, modifyp_apply] at h
        subst h
        exact ⟨rfl, rfl⟩
      · by_cases hs2 : s = 2
        · subst hs2
          simp [emit, modifyp_apply] at h
          subst h
          exact ⟨rfl, rfl⟩
        · simp only [hs1, hs2, if_false, pure_apply, Res.ok.injEq, true_and] at h
          subst h
          exact ⟨rfl, rfl⟩
    have ho1 := preserves_ok (owner_left_op_into_register false op) hm ho
    exact balanced_congr (same_registers_refl p) hsame (balanced_materialized hmat ho1)

/-- The operand slot is given a memory or an immediate operand and the
lookahead is consumed. -/
theorem balanced_assign_advanced {op : Nat} {p pc : Parser} {o : Operand}
    (hsame : same_registers p pc) (_ : owner_invariant p) (hf : fillable p op)
    (hreg : o.is_register = false)
    (hown : owner_invariant (assign_operand op o pc).parser) :
    balanced op p (assign_operand op o pc).parser.advanced := by
  have h1 := advanced_same_registers (assign_operand op o pc).parser
  refine balanced_assign hf hreg ⟨?_, ?_⟩ (owner_invariant_congr h1 hown)
  · rw [h1.1]
    show pc.slots.modify _ op = _
    rw [hsame.1]
  · rw [h1.2]
    exact hsame.2

theorem fills_parse_factor (fuel : Nat) (h1 : fills_operand (parse_expr fuel))
    (h2 : fills_operand (parse_factor fuel)) : fills_operand (parse_factor (fuel + 1)) := by
  intro t op p ty q h ho hf
  cases hw : p.word with
  | TOKEN_ID x =>
    cases hd : p.stab.is_decl x p.current_env with
    | true =>
      rw [parse_factor_identifier fuel t op p x hw hd] at h
      simp only [Res.ok.injEq] at h
      rw [← h.2]
      exact balanced_assign_advanced (same_registers_refl p) ho hf rfl
        (preserves_ok (owner_block_invariant.assign_memory op x) rfl ho)
    | false =>
      rw [parse_factor] at h
      simp only [bind_apply, get_word_apply, hw, getp_apply, hd, Bool.not_false, if_true,
        undeclared_identifier_apply] at h
      cases htm : p.test_mode with
      | false => simp [checked, htm] at h
      | true =>
        simp only [checked, htm, if_true, pure_apply, assign_operand, modifyp_apply,
          advance_apply, Res.ok.injEq] at h
        rw [← h.2]
        have hs : same_registers p (report_all [.undeclared_identifier x] p) := ⟨rfl, rfl⟩
        exact balanced_assign_advanced (o := .OPTYPE_MEMORY x) hs ho hf rfl
          (preserves_ok (owner_block_invariant.assign_memory op x) rfl
            (owner_invariant_congr hs ho))
  | TOKEN_NUM n =>
    rw [parse_factor_number fuel t op p n hw] at h
    simp only [Res.ok.injEq] at h
    rw [← h.2]
    exact balanced_assign_advanced (same_registers_refl p) ho hf rfl
      (preserves_ok (owner_block_invariant.assign_immediate op (num_value n)) rfl ho)
  | _ =>
    cases hopen : is_punctuation p.word .PUNC_OPEN with
    | true =>
      obtain ⟨q1, hE, -, rfl⟩ := (parse_factor_parenthesized fuel t op p
        ((is_punctuation_iff _ _).1 hopen) ty q).1 h
      have hs := advanced_same_registers p
      have B := h1 _ op p.advanced ty q1 hE (owner_invariant_congr hs ho)
        (fillable_congr hs.1 hf)
      exact balanced_congr (same_registers_symm hs) (advanced_same_registers q1) B
    | false =>
      cases hsign : is_sign p.word with
      | true =>
        obtain ⟨p2, hF⟩ := parse_factor_sign_inner hsign h
        have hs := advanced_same_registers p
        have B := h2 _ op p.advanced ty p2 hF (owner_invariant_congr hs ho)
          (fillable_congr hs.1 hf)
        rw [parse_factor_signed hsign hF] at h
        obtain ⟨_, p3, hchk, h⟩ := bind_eq_ok h
        have hs3 := checked_same_registers hchk
        obtain ⟨_, p4, hcg, h⟩ := bind_eq_ok h
        simp only [pure_apply, Res.ok.injEq] at h
        obtain ⟨-, rfl⟩ := h
        have B3 := balanced_congr (same_registers_symm hs) hs3 B
        exact balanced_trans B3 (sign_codegen_balanced hcg B3.2.2.2.2.2.1 B3.2.2.2.2.1)
      | false =>
        rw [parse_factor_other fuel t op p (fun x hx => by rw [hw] at hx; cases hx)
          (fun n hn => by rw [hw] at hn; cases hn) hopen hsign] at h
        simp at h

/-- All the expression productions keep the register balance, at every fuel. -/
theorem balanced_productions (fuel : Nat) :
    fills_operand (parse_expr fuel) ∧ continues_operand (parse_expr_hat fuel)
    ∧ fills_operand (parse_simple_expr fuel) ∧ continues_operand (parse_simple_expr_prm fuel)
    ∧ fills_operand (parse_term fuel) ∧ continues_operand (parse_term_prm fuel)
    ∧ fills_operand (parse_factor fuel) := by
  induction fuel with
  | zero =>
    refine ⟨?_, ?_, ?_, ?_, ?_, ?_, ?_⟩ <;> intro t op p ty q h <;>
      first
      | (rw [parse_expr] at h; cases h)
      | (rw [parse_expr_hat] at h; cases h)
      | (rw [parse_simple_expr] at h; cases h)
      | (rw [parse_simple_expr_prm] at h; cases h)
      | (rw [parse_term] at h; cases h)
      | (rw [parse_term_prm] at h; cases h)
      | (rw [parse_factor] at h; cases h)
  | succ n ih =>
    obtain ⟨i1, i2, i3, i4, i5, i6, i7⟩ := ih
    exact ⟨fills_parse_expr n i3 i2, continues_parse_expr_hat n i3,
      fills_parse_simple_expr n i5 i4, continues_parse_simple_expr_prm n i5 i4,
      fills_parse_term n i7 i6, continues_parse_term_prm n i7 i6,
      fills_parse_factor n i1 i7⟩

/-! ### The conditions of the statements -/

theorem inuse_iff_leaked_or_owned {p : Parser} (ho : owner_invariant p) (r : Register) :
    p.allocator.inuse r = true ↔ leaked p r ∨ ∃ i, slot_owns p i r := by
  constructor
  · intro h
    by_cases hx : ∃ i, slot_owns p i r
    · exact Or.inr hx
    · exact Or.inl ((leaked_iff p r).2 ⟨h, fun i hi => hx ⟨i, hi⟩⟩)
  · rintro (h | ⟨i, s, hs, hown⟩)
    · exact h.1
    · exact (ho i s r (by simp) hs hown).1

theorem allocator_eq_of_account {p q : Parser} (hp : owner_invariant p)
    (hq : owner_invariant q) (hl : ∀ r, leaked q r ↔ leaked p r)
    (hown : ∀ i r, slot_owns q i r ↔ slot_owns p i r) : q.allocator = p.allocator := by
  apply allocator_ext
  intro r
  rw [Bool.eq_iff_iff, inuse_iff_leaked_or_owned hq, inuse_iff_leaked_or_owned hp, hl]
  constructor
  · rintro (h | ⟨i, h⟩)
    · exact Or.inl h
    · exact Or.inr ⟨i, (hown i r).1 h⟩
  · rintro (h | ⟨i, h⟩)
    · exact Or.inl h
    · exact Or.inr ⟨i, (hown i r).2 h⟩

theorem statement_boundary_of_no_slots {p : Parser} (h : p.slots = []) : statement_boundary p := by
  refine ⟨?_, ?_⟩
  · intro i s r _ hs
    rw [h] at hs
    simp at hs
  · intro i s r hs
    rw [h] at hs
    simp at hs

theorem statement_boundary_congr {p q : Parser} (h : same_registers p q)
    (hp : statement_boundary p) : statement_boundary q := by
  refine ⟨owner_invariant_congr h hp.1, ?_⟩
  intro i s r hs
  rw [h.1] at hs
  exact hp.2 i s r hs

/-- After the condition of a statement entered at a statement boundary, the
slot of the condition is the only one that can own a register. -/
theorem condition_owner {p p1 pE : Parser} {e : Nat} (hb : statement_boundary p)
    (he : e = p.slots.length)
    (h1 : p1.slots = p.slots ++ [{ op := none, deleted := false, live := true }])
    (hbal : balanced e p1 pE) :
    (∀ i r, i ≠ e → (slot_owns pE i r ↔ slot_owns p i r))
    ∧ (∀ (i : Nat) (s : Slot) (r : Register), i ≠ e → pE.slots[i]? = some s →
        s.live = true → ¬ s.owns r) := by
  obtain ⟨-, -, hkept, hnew, -, -, -⟩ := hbal
  have hlen : p1.slots.length = e + 1 := by rw [h1, he]; simp
  have hcase : ∀ i, i ≠ e → (pE.slots[i]? = p.slots[i]? ∨ (owns_nothing pE i ∧ p.slots[i]? = none)) := by
    intro i hi
    by_cases hlt : i < e
    · have hp1 : p1.slots[i]? = p.slots[i]? := by
        rw [h1]; exact getElem?_append_slot_lt _ _ (he ▸ hlt)
      rcases hkept i (by omega) hi with hk | ⟨r, S, hk, -⟩
      · exact Or.inl (hk.trans hp1)
      · rw [hp1] at hk
        exact absurd ⟨rfl, rfl⟩ (hb.2 i _ r hk rfl)
    · refine Or.inr ⟨hnew i (by omega), ?_⟩
      exact List.getElem?_eq_none (by omega)
  refine ⟨?_, ?_⟩
  · intro i r hi
    rcases hcase i hi with hk | ⟨hn, hnone⟩
    · unfold slot_owns
      rw [hk]
    · constructor
      · rintro ⟨s, hs, hown⟩
        exact absurd hown (hn s r hs)
      · rintro ⟨s, hs, -⟩
        rw [hnone] at hs
        cases hs
  · intro i s r hi hs hlive
    rcases hcase i hi with hk | ⟨hn, -⟩
    · rw [hk] at hs
      exact hb.2 i s r hs hlive
    · exact hn s r hs

/-- With the slot of the condition as the only possible owner of a register,
the value of the condition is brought into a register without a spill. -/
theorem condition_loaded_of_materialized {p q : Parser} {e : Nat} {R : Register}
    (hlive : ∀ (i : Nat) (s : Slot) (r : Register), i ≠ e → p.slots[i]? = some s →
        s.live = true → ¬ s.owns r)
    (hm : materialized false e p R q) : condition_loaded e p R q := by
  obtain ⟨o, hs, hcase⟩ := hm
  refine ⟨o, hs, ?_⟩
  rcases hcase with h | ⟨hreg, p1, a, hroom, hal, hq⟩
  · exact Or.inl h
  · right
    have hp1 : p1 = p := by
      rcases hroom with ⟨-, h⟩ | ⟨-, S, p2, x, r, a2, -, -, hx, -⟩
      · exact h
      · exfalso
        by_cases hxe : x = e
        · rw [hxe, hs] at hx
          simp only [Option.some.injEq, Slot.mk.injEq, and_true] at hx
          rw [hx] at hreg
          cases hreg
        · exact hlive x _ r hxe hx rfl ⟨rfl, rfl⟩
    subst hp1
    refine ⟨hreg, (inuse_after_allocate hal).1, a, hal, ?_⟩
    rw [hq]
    simp

/-- The register of the condition is given back and the operand destroyed:
the pool and the owners are those of the record the statement was entered
in. -/
theorem condition_released {p p1 pE pEc pM q : Parser} {e : Nat} {R : Register}
    {a : Register_Allocator}
    (hb : statement_boundary p) (he : e = p.slots.length)
    (h1 : p1.slots = p.slots ++ [{ op := none, deleted := false, live := true }]
      ∧ p1.allocator = p.allocator)
    (hbal : balanced e p1 pE) (hc : same_registers pE pEc)
    (hm : materialized false e pEc R pM)
    (hd : pM.allocator.deallocate_register R = some a)
    (hqa : q.allocator = a)
    (hqs : q.slots = pM.slots.modify (fun s => { s with deleted := true }) e)
    (hoq : owner_invariant q) :
    condition_loaded e pEc R pM ∧ q.allocator = p.allocator ∧ statement_boundary q
    ∧ q.allocator.inuse R = false := by
  obtain ⟨hown, hlive⟩ := condition_owner hb he h1.1 hbal
  have hlivec : ∀ (i : Nat) (s : Slot) (r : Register), i ≠ e → pEc.slots[i]? = some s →
      s.live = true → ¬ s.owns r := by
    intro i s r hi hs
    rw [hc.1] at hs
    exact hlive i s r hi hs
  have hl := condition_loaded_of_materialized hlivec hm
  obtain ⟨hdin, hdfree, hdother⟩ := inuse_after_deallocate hd
  have hRfree : q.allocator.inuse R = false := by rw [hqa]; exact hdfree
  have hqe : ∀ r, ¬ slot_owns q e r := by
    intro r hr
    rw [slot_owns_modify pM q _ e hqs e r] at hr
    simp only [if_true] at hr
    obtain ⟨s, -, hs⟩ := hr
    cases hs.2
  have hpe : ∀ r, ¬ slot_owns p e r := by
    rintro r ⟨s, hs, -⟩
    rw [List.getElem?_eq_none (by omega)] at hs
    cases hs
  obtain ⟨o, hso, hcase⟩ := hl
  have hslots : pM.slots = pEc.slots := by
    rcases hcase with ⟨-, h⟩ | ⟨-, -, a1, -, h⟩
    · rw [h]
    · rw [h]
  have hqM : ∀ i r, i ≠ e → (slot_owns q i r ↔ slot_owns pEc i r) := by
    intro i r hi
    rw [slot_owns_modify_ne hqs i r hi]
    unfold slot_owns
    rw [hslots]
  have hleakc : ∀ r, leaked q r ↔ leaked pEc r := by
    rcases hcase with ⟨ho, h⟩ | ⟨hreg, hfree, a1, hal, h⟩
    · subst h
      subst ho
      exact leaked_of_release e R hRfree (fun r hr => by rw [hqa]; exact hdother r hr)
        (slot_owns_of_slot hso) hqe hqM
    · have hMa : pM.allocator = a1 := by rw [h]
      obtain ⟨-, -, haother⟩ := inuse_after_allocate hal
      refine leaked_of_same ?_ ?_
      · intro r
        by_cases hr : r = R
        · rw [hr, hRfree, hfree]
        · rw [hqa, hdother r hr, hMa, haother r hr]
      · intro i r
        by_cases hi : i = e
        · rw [hi]
          exact ⟨fun hx => absurd hx (hqe r),
            fun hx => absurd hx (not_slot_owns_of_slot hso hreg r)⟩
        · exact hqM i r hi
  have hleak : ∀ r, leaked q r ↔ leaked p r := by
    intro r
    rw [hleakc r, leaked_congr hc r, hbal.2.2.2.2.2.2 r]
    exact leaked_of_new_slot h1.1 h1.2 (fun r h => by cases h.1) r
  have hownq : ∀ i r, slot_owns q i r ↔ slot_owns p i r := by
    intro i r
    by_cases hi : i = e
    · rw [hi]
      exact ⟨fun hx => absurd hx (hqe r), fun hx => absurd hx (hpe r)⟩
    · rw [hqM i r hi, ← hown i r hi]
      unfold slot_owns
      rw [hc.1]
  refine ⟨⟨o, hso, hcase⟩, allocator_eq_of_account hb.1 hoq hleak hownq, ⟨hoq, ?_⟩, hRfree⟩
  intro i s r hs hlv hown1
  by_cases hi : i = e
  · exact hqe r (hi ▸ ⟨s, hs, hown1⟩)
  · rw [hqs, getElem?_modify_ne _ _ (Ne.symm hi), hslots] at hs
    exact hlivec i s r hi hs hlv hown1

/-- What the block for the condition of `parse_if_stmt` does when it returns. -/
theorem if_condition_codegen_ok {e : Nat} {p q : Parser} {labels : String × String}
    (h : if_condition_codegen e p = .ok labels q) :
    ∃ (R : Register) (pM : Parser),
      materialized false e p R pM
      ∧ labels = ("else" ++ toString (pM.e.count "else" + 1),
          "if_done" ++ toString (pM.e.count "if_done" + 1))
      ∧ pM.allocator.deallocate_register R = some q.allocator
      ∧ q.slots = pM.slots.modify (fun s => { s with deleted := true }) e
      ∧ q.e.out = pM.e.out ++ [.branch_cond .INST_BREZ R labels.1]
      ∧ q.e.count "else" = pM.e.count "else" + 1
      ∧ q.e.count "if_done" = pM.e.count "if_done" + 1 := by
  unfold if_condition_codegen at h
  obtain ⟨R, pM, hm, h⟩ := bind_eq_ok h
  rw [expression_into_register_iff] at hm
  obtain ⟨l1, q1, h1, h⟩ := bind_eq_ok h
  simp only [get_new_label, Res.ok.injEq] at h1
  obtain ⟨rfl, rfl⟩ := h1
  obtain ⟨l2, q2, h2, h⟩ := bind_eq_ok h
  simp only [get_new_label, Res.ok.injEq] at h2
  obtain ⟨rfl, rfl⟩ := h2
  obtain ⟨_, q3, h3, h⟩ := bind_eq_ok h
  simp only [emit, modifyp_apply, Res.ok.injEq, true_and] at h3
  subst h3
  obtain ⟨_, q4, h4, h⟩ := bind_eq_ok h
  obtain ⟨a, ha, rfl⟩ := (deallocate_register_iff _ _ _).1 h4
  obtain ⟨_, q5, h5, h⟩ := bind_eq_ok h
  simp only [delete_operand, modifyp_apply, Res.ok.injEq, true_and] at h5
  subst h5
  simp only [pure_apply, Res.ok.injEq] at h
  obtain ⟨rfl, rfl⟩ := h
  have hne : ("else" : String) ≠ "if_done" := by decide
  refine ⟨R, pM, hm, ?_, ha, rfl, ?_, ?_, ?_⟩
  · simp only [Emitter.get_new_label]
    rw [show ({ pM.e with counters := ("else", pM.e.count "else" + 1)
        :: pM.e.counters.filter (fun x => !decide (x.1 = "else")) } : Emitter)
        = (pM.e.get_new_label "else").2 from rfl, count_get_new_label_ne _ hne]
  · simp [Emitter.emit, Emitter.get_new_label]
  · show (((pM.e.get_new_label "else").2.get_new_label "if_done").2.emit _).count "else" = _
    rw [count_emit, count_get_new_label_ne _ hne.symm, count_get_new_label]
  · show (((pM.e.get_new_label "else").2.get_new_label "if_done").2.emit _).count "if_done" = _
    rw [count_emit, count_get_new_label, count_get_new_label_ne _ hne]

/-- What the block for the condition of `parse_while_stmt` does when it
returns. -/
theorem while_condition_codegen_ok {e : Nat} {p q : Parser} {while_done : String}
    (h : while_condition_codegen while_done e p = .ok () q) :
    ∃ (R : Register) (pM : Parser),
      materialized false e p R pM
      ∧ pM.allocator.deallocate_register R = some q.allocator
      ∧ q.slots = pM.slots.modify (fun s => { s with deleted := true }) e
      ∧ q.e.out = pM.e.out ++ [.branch_cond .INST_BREZ R while_done]
      ∧ q.e.counters = pM.e.counters := by
  unfold while_condition_codegen at h
  obtain ⟨R, pM, hm, h⟩ := bind_eq_ok h
  rw [expression_into_register_iff] at hm
  obtain ⟨_, q3, h3, h⟩ := bind_eq_ok h
  simp only [emit, modifyp_apply, Res.ok.injEq, true_and] at h3
  subst h3
  obtain ⟨_, q4, h4, h⟩ := bind_eq_ok h
  obtain ⟨a, ha, rfl⟩ := (deallocate_register_iff _ _ _).1 h4
  simp only [delete_operand, modifyp_apply, Res.ok.injEq, true_and] at h
  subst h
  exact ⟨R, pM, hm, ha, rfl, by simp [Emitter.emit], rfl⟩

/-- The steps of a successful run of the part of `parse_if_stmt` after the
condition. -/
theorem if_stmt_tail_ok {block hat : M Bool} {e : Nat} {p q : Parser}
    (h : if_stmt_tail block hat e p = .ok true q) :
    ∃ (labels : String × String) (pC pB pJ pH : Parser),
      if_condition_codegen e p = .ok labels pC
      ∧ is_keyword pC.word .KW_THEN = true
      ∧ block pC.advanced = .ok true pB
      ∧ (do emit (.branch labels.2); emit (.label labels.1)) pB = .ok () pJ
      ∧ hat pJ = .ok true pH
      ∧ (do emit (.label labels.2); end_of_scope e) pH = .ok () q := by
  unfold if_stmt_tail at h
  obtain ⟨labels, pC, hc, h⟩ := bind_eq_ok h
  obtain ⟨w, p0, hw, h⟩ := bind_eq_ok h
  simp only [get_word_apply, Res.ok.injEq] at hw
  obtain ⟨rfl, rfl⟩ := hw
  cases hk : is_keyword pC.word .KW_THEN with
  | false =>
    simp [hk, bind_apply, get_word_apply, parse_error, report, modifyp_apply, end_of_scope,
      pure_apply] at h
  | true =>
    simp only [hk, if_true] at h
    obtain ⟨_, p1, ha, h⟩ := bind_eq_ok h
    simp only [advance_apply, Res.ok.injEq, true_and] at ha
    subst ha
    obtain ⟨b, pB, hb, h⟩ := bind_eq_ok h
    cases b with
    | false =>
      simp [bind_apply, end_of_scope, modifyp_apply, pure_apply] at h
    | true =>
      simp only [if_true] at h
      obtain ⟨_, p2, h2, h⟩ := bind_eq_ok h
      obtain ⟨_, p3, h3, h⟩ := bind_eq_ok h
      obtain ⟨b2, pH, hh, h⟩ := bind_eq_ok h
      cases b2 with
      | false =>
        simp [bind_apply, end_of_scope, modifyp_apply, pure_apply] at h
      | true =>
        simp only [if_true] at h
        obtain ⟨_, p4, h4, h⟩ := bind_eq_ok h
        obtain ⟨_, p5, h5, h⟩ := bind_eq_ok h
        simp only [pure_apply, Res.ok.injEq, true_and] at h
        subst h
        refine ⟨labels, pC, pB, p3, pH, hc, hk, hb, ?_, hh, ?_⟩
        · rw [bind_eq_of_ok h2]; exact h3
        · rw [bind_eq_of_ok h4]; exact h5

/-- The steps of a successful run of the part of `parse_while_stmt` after the
condition. -/
theorem while_stmt_tail_ok {block : M Bool} {wc wd : String} {e : Nat} {p q : Parser}
    (h : while_stmt_tail block wc wd e p = .ok true q) :
    ∃ (pC pB : Parser),
      while_condition_codegen wd e p = .ok () pC
      ∧ is_keyword pC.word .KW_LOOP = true
      ∧ block pC.advanced = .ok true pB
      ∧ (do emit (.branch wc); emit (.label wd); end_of_scope e) pB = .ok () q := by
  unfold while_stmt_tail at h
  obtain ⟨_, pC, hc, h⟩ := bind_eq_ok h
  obtain ⟨w, p0, hw, h⟩ := bind_eq_ok h
  simp only [get_word_apply, Res.ok.injEq] at hw
  obtain ⟨rfl, rfl⟩ := hw
  cases hk : is_keyword pC.word .KW_LOOP with
  | false =>
    simp [hk, bind_apply, get_word_apply, parse_error, report, modifyp_apply, end_of_scope,
      pure_apply] at h
  | true =>
    simp only [hk, if_true] at h
    obtain ⟨_, p1, ha, h⟩ := bind_eq_ok h
    simp only [advance_apply, Res.ok.injEq, true_and] at ha
    subst ha
    obtain ⟨b, pB, hb, h⟩ := bind_eq_ok h
    cases b with
    | false =>
      simp [bind_apply, end_of_scope, modifyp_apply, pure_apply] at h
    | true =>
      simp only [if_true] at h
      obtain ⟨_, p2, h2, h⟩ := bind_eq_ok h
      obtain ⟨_, p3, h3, h⟩ := bind_eq_ok h
      obtain ⟨_, p4, h4, h⟩ := bind_eq_ok h
      simp only [pure_apply, Res.ok.injEq, true_and] at h
      subst h
      refine ⟨pC, pB, hc, hk, hb, ?_⟩
      rw [bind_eq_of_ok h2, bind_eq_of_ok h3]; exact h4

/-- The steps of a successful run of `parse_if_stmt` up to the part after the
condition. -/
theorem parse_if_stmt_ok {fuel : Nat} {p q : Parser}
    (h : parse_if_stmt (fuel + 1) p = .ok true q) :
    ∃ (e : Nat) (p1 pE : Parser) (ty : expr_type),
      is_keyword p.word .KW_IF = true
      ∧ new_operand_slot none p.advanced = .ok e p1
      ∧ parse_expr fuel .GARBAGE_T e p1 = .ok (true, ty) pE
      ∧ if_stmt_tail (parse_block fuel) (parse_if_stmt_hat fuel) e
          (report_all (if ty = .BOOL_T then [] else [.type_error .BOOL_T ty]) pE) = .ok true q := by
  rw [parse_if_stmt] at h
  obtain ⟨w, p0, hw, h⟩ := bind_eq_ok h
  simp only [get_word_apply, Res.ok.injEq] at hw
  obtain ⟨rfl, rfl⟩ := hw
  cases hk : is_keyword p.word .KW_IF with
  | false =>
    simp [hk, bind_apply, get_word_apply, parse_error, report, modifyp_apply, pure_apply] at h
  | true =>
    simp only [hk, if_true] at h
    obtain ⟨_, pa, ha, h⟩ := bind_eq_ok h
    simp only [advance_apply, Res.ok.injEq, true_and] at ha
    subst ha
    obtain ⟨e, p1, h1, h⟩ := bind_eq_ok h
    obtain ⟨expr, pE, hE, h⟩ := bind_eq_ok h
    obtain ⟨b, ty⟩ := expr
    cases b with
    | false =>
      simp [bind_apply, end_of_scope, modifyp_apply, pure_apply] at h
    | true =>
      refine ⟨e, p1, pE, ty, rfl, h1, hE, ?_⟩
      by_cases hty : ty = .BOOL_T
      · simp only [hty, if_true, ne_eq, not_true_eq_false, if_false, bind_apply, pure_apply]
          at h
        rw [if_pos hty]
        simp only [report_all, List.append_nil]
        exact h
      · simp only [if_true, ne_eq, hty, not_false_eq_true, bind_apply, type_error_apply] at h
        simp only [hty, if_false]
        cases htm : pE.test_mode
        · simp [checked, htm] at h
        · simp only [checked, htm, if_true] at h
          exact h

/-- The steps of a successful run of `parse_while_stmt` up to the part after
the condition. -/
theorem parse_while_stmt_ok {fuel : Nat} {p q : Parser}
    (h : parse_while_stmt (fuel + 1) p = .ok true q) :
    ∃ (e : Nat) (p1 p2 pE : Parser) (ty : expr_type),
      is_keyword p.word .KW_WHILE = true
      ∧ new_operand_slot none p.advanced = .ok e p1
      ∧ p2 = { p1 with e := (((p1.e.get_new_label "while_cond").2.get_new_label
            "while_done").2.emit (.label (p1.e.get_new_label "while_cond").1)) }
      ∧ parse_expr fuel .GARBAGE_T e p2 = .ok (true, ty) pE
      ∧ while_stmt_tail (parse_block fuel) (p1.e.get_new_label "while_cond").1
          ((p1.e.get_new_label "while_cond").2.get_new_label "while_done").1 e
          (report_all (if ty = .BOOL_T then [] else [.type_error .BOOL_T ty]) pE) = .ok true q := by
  rw [parse_while_stmt] at h
  obtain ⟨w, p0, hw, h⟩ := bind_eq_ok h
  simp only [get_word_apply, Res.ok.injEq] at hw
  obtain ⟨rfl, rfl⟩ := hw
  cases hk : is_keyword p.word .KW_WHILE with
  | false =>
    simp [hk, bind_apply, get_word_apply, parse_error, report, modifyp_apply, pure_apply] at h
  | true =>
    simp only [hk, if_true] at h
    obtain ⟨_, pa, ha, h⟩ := bind_eq_ok h
    simp only [advance_apply, Res.ok.injEq, true_and] at ha
    subst ha
    obtain ⟨e, p1, h1, h⟩ := bind_eq_ok h
    obtain ⟨l1, q1, hl1, h⟩ := bind_eq_ok h
    simp only [get_new_label, Res.ok.injEq] at hl1
    obtain ⟨rfl, rfl⟩ := hl1
    obtain ⟨l2, q2, hl2, h⟩ := bind_eq_ok h
    simp only [get_new_label, Res.ok.injEq] at hl2
    obtain ⟨rfl, rfl⟩ := hl2
    obtain ⟨_, q3, h3, h⟩ := bind_eq_ok h
    simp only [emit, modifyp_apply, Res.ok.injEq, true_and] at h3
    subst h3
    obtain ⟨expr, pE, hE, h⟩ := bind_eq_ok h
    obtain ⟨b, ty⟩ := expr
    cases b with
    | false =>
      simp [bind_apply, end_of_scope, modifyp_apply, pure_apply] at h
    | true =>
      refine ⟨e, p1, _, pE, ty, rfl, h1, rfl, hE, ?_⟩
      by_cases hty : ty = .BOOL_T
      · simp only [hty, if_true, ne_eq, not_true_eq_false, if_false, bind_apply, pure_apply]
          at h
        rw [if_pos hty]
        simp only [report_all, List.append_nil]
        exact h
      · simp only [if_true, ne_eq, hty, not_false_eq_true, bind_apply, type_error_apply] at h
        simp only [hty, if_false]
        cases htm : pE.test_mode
        · simp [checked, htm] at h
        · simp only [checked, htm, if_true] at h
          exact h

theorem count_congr {e1 e2 : Emitter} (h : e1.counters = e2.counters) (stem : String) :
    e1.count stem = e2.count stem := by
  unfold Emitter.count
  rw [h]

/-- What loading the condition appends: the move of the operand, or nothing
for a register operand; the label counters are left as they are. -/
theorem condition_loaded_out {e : Nat} {p q : Parser} {R : Register} {o : Operand}
    (hso : p.slots[e]? = some { op := some o, deleted := false, live := true })
    (h : condition_loaded e p R q) :
    q.e.out = p.e.out ++ load_code R o ∧ q.e.counters = p.e.counters
    ∧ (o = .OPTYPE_REGISTER R ∨ (o.is_register = false ∧ p.allocator.inuse R = false)) := by
  obtain ⟨o1, hs1, hcase⟩ := h
  rw [hso] at hs1
  simp only [Option.some.injEq, Slot.mk.injEq, and_true] at hs1
  subst hs1
  rcases hcase with ⟨ho, hq⟩ | ⟨hreg, hfree, a, -, hq⟩
  · subst hq
    subst ho
    exact ⟨by simp [load_code], rfl, Or.inl rfl⟩
  · subst hq
    exact ⟨rfl, rfl, Or.inr ⟨hreg, hfree⟩⟩

/-- The optional `else` part: nothing is parsed when the next token is not
`else`; otherwise `else` is consumed and the block is parsed. -/
theorem parse_if_stmt_hat_ok {fuel : Nat} {p q : Parser}
    (h : parse_if_stmt_hat fuel p = .ok true q) :
    (is_keyword p.word .KW_ELSE = false → q = p)
    ∧ (is_keyword p.word .KW_ELSE = true →
        ∃ n, fuel = n + 1 ∧ parse_block n p.advanced = .ok true q) := by
  cases fuel with
  | zero => rw [parse_if_stmt_hat] at h; cases h
  | succ n =>
    rw [parse_if_stmt_hat] at h
    simp only [bind_apply, get_word_apply] at h
    cases hk : is_keyword p.word .KW_ELSE with
    | false =>
      simp only [hk, Bool.false_eq_true, if_false, pure_apply, Res.ok.injEq, true_and] at h
      exact ⟨fun _ => h.symm, fun hc => by cases hc⟩
    | true =>
      simp only [hk, if_true, advance_apply] at h
      exact ⟨(fun hc => by cases hc), fun _ => ⟨n, rfl, h⟩⟩

/-! ### Statement boundaries -/

theorem slots_kept_of_eq {p q : Parser} (h : q.slots = p.slots) (x : Option Nat) :
    slots_kept x p q := by
  refine ⟨by rw [h], fun i _ _ => slot_kept_of_eq h i, ?_⟩
  intro i s r hi hs
  rw [h, List.getElem?_eq_none hi] at hs
  cases hs

theorem slots_kept_weaken {p q : Parser} (x : Option Nat) (h : slots_kept none p q) :
    slots_kept x p q :=
  ⟨h.1, fun i hi _ => h.2.1 i hi (by simp), h.2.2⟩

theorem slots_kept_trans {x : Option Nat} {p q r : Parser}
    (hx : ∀ e, x = some e → e < p.slots.length)
    (h1 : slots_kept x p q) (h2 : slots_kept x q r) : slots_kept x p r := by
  refine ⟨le_trans h1.1 h2.1, ?_, ?_⟩
  · intro i hi hne
    exact slot_kept_trans (h1.2.1 i hi hne) (h2.2.1 i (lt_of_lt_of_le hi h1.1) hne)
  · intro i s r hi hs hlive
    by_cases hq : i < q.slots.length
    · have hne : some i ≠ x := by
        intro hxe
        have := hx i hxe.symm
        omega
      rcases h2.2.1 i hq hne with hk | ⟨r1, S, hk, -⟩
      · rw [hk] at hs
        exact h1.2.2 i s r hi hs hlive
      · exact absurd ⟨rfl, rfl⟩ (h1.2.2 i _ r1 hi hk rfl)
    · exact h2.2.2 i s r (by omega) hs hlive

theorem slots_kept_of_balanced {e : Nat} {p q : Parser} (h : balanced e p q) :
    slots_kept (some e) p q := by
  obtain ⟨-, hlen, hkept, hnew, -, -, -⟩ := h
  refine ⟨hlen, ?_, ?_⟩
  · intro i hi hne
    exact hkept i hi (fun h => hne (by rw [h]))
  · intro i s r hi hs _
    exact hnew i hi s r hs

theorem slots_kept_modify {p q : Parser} (f : Slot → Slot) {e : Nat}
    (h : q.slots = p.slots.modify f e) : slots_kept (some e) p q := by
  refine ⟨by rw [h]; simp, ?_, ?_⟩
  · intro i _ hne
    left
    rw [h]
    exact getElem?_modify_ne _ _ (fun h => hne (by rw [h]))
  · intro i s r hi hs
    rw [h, List.getElem?_eq_none (by simpa using hi)] at hs
    cases hs

theorem slots_kept_of_materialized {x : Nat} {p q : Parser} {R : Register}
    (h : materialized false x p R q) : slots_kept none p q := by
  obtain ⟨o, -, hcase⟩ := h
  rcases hcase with ⟨-, rfl⟩ | ⟨-, p1, a, hroom, -, rfl⟩
  · exact slots_kept_of_eq rfl none
  · obtain ⟨hlen, hkept, -⟩ := room_made_account hroom
    refine ⟨by simp [hlen], fun i _ _ => ?_, ?_⟩
    · rcases hkept i with hk | hk
      · exact Or.inl hk
      · exact Or.inr hk
    · intro i s r hi hs
      have hs1 : p1.slots[i]? = some s := hs
      rw [List.getElem?_eq_none (by omega)] at hs1
      cases hs1

/-- A block that brings the value of the slot `e` into a register and then
destroys the operand keeps all the other slots. -/
theorem slots_kept_of_release {e : Nat} {p pM q : Parser} {R : Register}
    (he : e < p.slots.length) (hm : materialized false e p R pM)
    (hs : q.slots = pM.slots.modify (fun s => { s with deleted := true }) e) :
    slots_kept (some e) p q :=
  slots_kept_trans (fun _ h => by cases h; exact he)
    (slots_kept_weaken _ (slots_kept_of_materialized hm)) (slots_kept_modify _ hs)

/-- The slot of a statement goes out of scope: the slots of the record the
statement was entered in are kept. -/
theorem scope_closed {p p1 pX q : Parser} {e : Nat} {s0 : Slot} (he : e = p.slots.length)
    (h1 : p1.slots = p.slots ++ [s0]) (hX : slots_kept (some e) p1 pX)
    (hq : q.slots = pX.slots.modify (fun s => { s with live := false }) e) :
    scope_kept p q := by
  have hlen : p1.slots.length = e + 1 := by rw [h1, he]; simp
  have hqlen : q.slots.length = pX.slots.length := by rw [hq]; simp
  refine ⟨by have := hX.1; omega, ?_, ?_⟩
  · intro i hi _
    have hne : i ≠ e := by omega
    have hq1 : q.slots[i]? = pX.slots[i]? := by
      rw [hq]; exact getElem?_modify_ne _ _ (Ne.symm hne)
    have hp1 : p1.slots[i]? = p.slots[i]? := by
      rw [h1]; exact getElem?_append_slot_lt _ _ hi
    rcases hX.2.1 i (by omega) (fun h => hne (by simpa using h)) with hk | ⟨r, S, hk, hk2⟩
    · exact Or.inl (by rw [hq1, hk, hp1])
    · exact Or.inr ⟨r, S, by rw [← hp1]; exact hk, by rw [hq1]; exact hk2⟩
  · intro i s r hi hs hlive
    by_cases hie : i = e
    · subst hie
      rw [hq] at hs
      cases hx : pX.slots[i]? with
      | none =>
        rw [List.getElem?_eq_none (by
          have := List.getElem?_eq_none_iff.1 hx
          simpa using this)] at hs
        cases hs
      | some s1 =>
        rw [getElem?_modify_eq _ _ hx] at hs
        simp only [Option.some.injEq] at hs
        rw [← hs] at hlive
        cases hlive
    · have hq1 : q.slots[i]? = pX.slots[i]? := by
        rw [hq]; exact getElem?_modify_ne _ _ (Ne.symm hie)
      rw [hq1] at hs
      exact hX.2.2 i s r (by omega) hs hlive

theorem statement_boundary_of_scope_kept {p q : Parser} (hb : statement_boundary p)
    (hoq : owner_invariant q) (h : scope_kept p q) : statement_boundary q := by
  refine ⟨hoq, ?_⟩
  intro i s r hs hlive
  by_cases hi : i < p.slots.length
  · rcases h.2.1 i hi (by simp) with hk | ⟨r1, S, hk, -⟩
    · rw [hk] at hs
      exact hb.2 i s r hs hlive
    · exact absurd ⟨rfl, rfl⟩ (hb.2 i _ r1 hk rfl)
  · exact h.2.2 i s r (by omega) hs hlive

theorem scope_kept_refl (p : Parser) : scope_kept p p :=
  slots_kept_of_eq rfl none

theorem scope_kept_trans {p q r : Parser} (h1 : scope_kept p q) (h2 : scope_kept q r) :
    scope_kept p r :=
  slots_kept_trans (fun _ h => by cases h) h1 h2

theorem scope_kept_of_same {p q : Parser} (h : same_registers p q) : scope_kept p q :=
  slots_kept_of_eq h.1 none

theorem owner_stmt_invariant : StmtBlockInvariant owner_invariant NDF :=
  owner_block_invariant.toProcBlockInvariant.toDeclBlockInvariant.toStmtBlockInvariant

theorem owner_parse_expr {fuel : Nat} {t : expr_type} {e : Nat} {p q : Parser}
    {r : Bool × expr_type} (h : parse_expr fuel t e p = .ok r q) (ho : owner_invariant p) :
    owner_invariant q :=
  preserves_ok ((preserves_expression_productions owner_stmt_invariant.toExprBlockInvariant
    fuel).1 t e) h ho

theorem owner_parse_block {fuel : Nat} {p q : Parser} {b : Bool}
    (h : parse_block fuel p = .ok b q) (ho : owner_invariant p) : owner_invariant q :=
  preserves_ok (preserves_statement_productions owner_stmt_invariant fuel).1 h ho

theorem actual_parm_check_same_registers {t : expr_type} {p q : Parser}
    (h : actual_parm_check t p = .ok () q) : same_registers p q := by
  rw [actual_parm_check_apply] at h
  obtain ⟨_, p1, h1, h⟩ := bind_eq_ok h
  have hs := checked_same_registers h1
  simp only [increment_actual_parm_position, modifyp_apply, Res.ok.injEq, true_and] at h
  subst h
  exact hs

/-- The slot of a statement or of an actual parameter: it is added, the
expression is parsed into it, the rest keeps the other slots, and the slot
goes out of scope. -/
theorem scope_kept_of_expression {fuel : Nat} {t ty : expr_type} {p pa p1 p2 pE pX q : Parser}
    {e : Nat} (ho : owner_invariant p) (ha : same_registers p pa)
    (h1 : new_operand_slot none pa = .ok e p1) (h12 : same_registers p1 p2)
    (hE : parse_expr fuel t e p2 = .ok (true, ty) pE)
    (hX : slots_kept (some e) pE pX)
    (hq : q.slots = pX.slots.modify (fun s => { s with live := false }) e) :
    scope_kept p q := by
  obtain ⟨hel, h1s, hfill, ho1⟩ := right_operand_slot ha h1 ho
  have hbal := (balanced_productions fuel).1 t e p2 ty pE hE
    (owner_invariant_congr h12 ho1) (fillable_congr h12.1 hfill)
  have he2 : e < p2.slots.length := hbal.1
  exact scope_closed hel (h12.1.trans h1s.1)
    (slots_kept_trans (fun _ h => by cases h; exact he2) (slots_kept_of_balanced hbal) hX) hq

theorem keeps_scope_parse_actual_parm_list (fuel : Nat) :
    keeps_scope (parse_actual_parm_list fuel) := by
  induction fuel using Nat.strong_induction_on with
  | _ fuel ih =>
    intro p q h ho
    match fuel, ih, h with
    | 0, _, h => rw [parse_actual_parm_list] at h; cases h
    | 1, _, h =>
      rw [parse_actual_parm_list] at h
      obtain ⟨e, p0, -, h⟩ := bind_eq_ok h
      rw [parse_expr] at h
      cases h
    | fuel + 2, ih, h =>
      rw [parse_actual_parm_list] at h
      obtain ⟨e, p0, h0, h⟩ := bind_eq_ok h
      obtain ⟨r, p1, hE, h⟩ := bind_eq_ok h
      obtain ⟨b, t⟩ := r
      cases b with
      | false =>
        simp only [Bool.false_eq_true, if_false, bind_apply, end_of_scope, modifyp_apply,
          pure_apply, Res.ok.injEq, false_and] at h
      | true =>
        have hstep := parse_actual_parm_list_step (fuel + 1) e p p1 t
          (by rw [bind_eq_of_ok h0, bind_eq_of_ok hE]; rfl)
        have h2 : (do
            actual_parm_check t
            let result ← parse_actual_parm_list_hat (fuel + 1)
            end_of_scope e
            pure result) p1 = .ok true q := by
          rw [← hstep, parse_actual_parm_list, bind_eq_of_ok h0, bind_eq_of_ok hE]
          exact h
        obtain ⟨_, p2, hcheck, h2⟩ := bind_eq_ok h2
        obtain ⟨result, q1, hhat, h2⟩ := bind_eq_ok h2
        simp only [bind_apply, end_of_scope, modifyp_apply, pure_apply, Res.ok.injEq] at h2
        obtain ⟨rfl, rfl⟩ := h2
        have hs2 := actual_parm_check_same_registers hcheck
        have ho1 := owner_parse_expr hE
          (right_operand_slot (same_registers_refl p) h0 ho).2.2.2
        have hX : slots_kept (some e) p1 q1 := by
          cases hcomma : is_punctuation p2.word .PUNC_COMMA with
          | false =>
            rw [parse_actual_parm_list_hat_done fuel p2 hcomma] at hhat
            simp only [Res.ok.injEq, true_and] at hhat
            subst hhat
            exact slots_kept_of_eq hs2.1 _
          | true =>
            rw [parse_actual_parm_list_hat_more fuel p2 hcomma] at hhat
            have hk := ih fuel (by omega) p2.advanced q1 hhat
              (owner_invariant_congr (same_registers_trans hs2 (advanced_same_registers p2))
                ho1)
            have h12 : slots_kept none p1 p2.advanced :=
              slots_kept_of_eq (same_registers_trans hs2 (advanced_same_registers p2)).1 _
            exact slots_kept_weaken _ (scope_kept_trans h12 hk)
        exact scope_kept_of_expression ho (same_registers_refl p) h0 (same_registers_refl p0)
          hE hX rfl

theorem keeps_scope_parse_expr_list (fuel : Nat) : keeps_scope (parse_expr_list fuel) := by
  intro p q h ho
  cases fuel with
  | zero => rw [parse_expr_list] at h; cases h
  | succ n =>
    rw [parse_expr_list] at h
    simp only [bind_apply, get_word_apply] at h
    split at h
    · exact keeps_scope_parse_actual_parm_list n p q h ho
    · simp only [pure_apply, Res.ok.injEq, true_and] at h
      subst h
      exact scope_kept_refl p

/-- What the block of `parse_print_stmt` does to the slots when it returns. -/
theorem print_codegen_ok {e : Nat} {p q : Parser} (h : print_codegen e p = .ok () q) :
    ∃ (R : Register) (pM : Parser),
      materialized false e p R pM
      ∧ q.slots = pM.slots.modify (fun s => { s with deleted := true }) e := by
  unfold print_codegen at h
  obtain ⟨R, pM, hm, h⟩ := bind_eq_ok h
  rw [expression_into_register_iff] at hm
  obtain ⟨_, q3, h3, h⟩ := bind_eq_ok h
  simp only [emit, modifyp_apply, Res.ok.injEq, true_and] at h3
  subst h3
  obtain ⟨_, q4, h4, h⟩ := bind_eq_ok h
  obtain ⟨a, ha, rfl⟩ := (deallocate_register_iff _ _ _).1 h4
  simp only [delete_operand, modifyp_apply, Res.ok.injEq, true_and] at h
  subst h
  exact ⟨R, pM, hm, rfl⟩

theorem materialized_lt {b : Bool} {e : Nat} {p q : Parser} {R : Register}
    (h : materialized b e p R q) : e < p.slots.length := by
  obtain ⟨o, hs, -⟩ := h
  exact valid_operand_lt ⟨o, hs⟩

theorem keeps_scope_parse_print_stmt (fuel : Nat) : keeps_scope (parse_print_stmt fuel) := by
  intro p q h ho
  cases fuel with
  | zero => rw [parse_print_stmt] at h; cases h
  | succ n =>
    rw [parse_print_stmt] at h
    obtain ⟨w, p0, hw, h⟩ := bind_eq_ok h
    simp only [get_word_apply, Res.ok.injEq] at hw
    obtain ⟨rfl, rfl⟩ := hw
    cases hk : is_keyword p.word .KW_PRINT with
    | false =>
      simp [hk, bind_apply, get_word_apply, parse_error, report, modifyp_apply, pure_apply] at h
    | true =>
      simp only [hk, if_true] at h
      obtain ⟨_, pa, ha, h⟩ := bind_eq_ok h
      simp only [advance_apply, Res.ok.injEq, true_and] at ha
      subst ha
      obtain ⟨e, p1, h1, h⟩ := bind_eq_ok h
      obtain ⟨expr, pE, hE, h⟩ := bind_eq_ok h
      obtain ⟨b, ty⟩ := expr
      cases b with
      | false =>
        simp [bind_apply, end_of_scope, modifyp_apply, pure_apply] at h
      | true =>
        have key : ∀ pc : Parser, same_registers pE pc →
            (do print_codegen e; end_of_scope e; pure true) pc = .ok true q →
            scope_kept p q := by
          intro pc hc hrun
          obtain ⟨_, pC, hcg, hrun⟩ := bind_eq_ok hrun
          obtain ⟨R, pM, hm, hs⟩ := print_codegen_ok hcg
          simp only [bind_apply, end_of_scope, modifyp_apply, pure_apply, Res.ok.injEq,
            true_and] at hrun
          subst hrun
          have hX : slots_kept (some e) pE pC :=
            slots_kept_trans
              (fun _ h => by cases h; rw [← hc.1]; exact materialized_lt hm)
              (slots_kept_of_eq hc.1 _) (slots_kept_of_release (materialized_lt hm) hm hs)
          exact scope_kept_of_expression ho (advanced_same_registers p) h1
            (same_registers_refl p1) hE hX rfl
        by_cases hty : ty ≠ .INT_T ∧ ty ≠ .BOOL_T
        · simp only [if_true, hty, ne_eq, not_false_eq_true, and_self, bind_apply,
            type_error2_apply] at h
          cases htm : pE.test_mode
          · simp [checked, htm] at h
          · simp only [checked, htm, if_true] at h
            exact key (report_all [.type_error2 .INT_T .BOOL_T ty] pE) ⟨rfl, rfl⟩
              (by simp only [bind_apply]; exact h)
        · simp only [if_true, hty, if_false, bind_apply, pure_apply] at h
          exact key pE (same_registers_refl pE) (by simp only [bind_apply]; exact h)

/-- The tail of a statement that begins with an identifier keeps all the
slots but the slot of the statement. -/
theorem slots_kept_parse_adhoc_as_pc_tail {fuel : Nat} {t ty : expr_type} {e : Nat}
    {p q : Parser} (h : parse_adhoc_as_pc_tail fuel t e p = .ok (true, ty) q)
    (ho : owner_invariant p) (hf : fillable p e) : slots_kept (some e) p q := by
  have he := fillable_lt hf
  cases fuel with
  | zero => rw [parse_adhoc_as_pc_tail] at h; cases h
  | succ n =>
    rw [parse_adhoc_as_pc_tail] at h
    obtain ⟨w, p0, hw, h⟩ := bind_eq_ok h
    simp only [get_word_apply, Res.ok.injEq] at hw
    obtain ⟨rfl, rfl⟩ := hw
    cases hassign : is_punctuation p.word .PUNC_ASSIGN with
    | true =>
      simp only [hassign, if_true] at h
      obtain ⟨_, pa, ha, h⟩ := bind_eq_ok h
      simp only [advance_apply, Res.ok.injEq, true_and] at ha
      subst ha
      obtain ⟨expr, pE, hE, h⟩ := bind_eq_ok h
      obtain ⟨b, tE⟩ := expr
      cases b with
      | false => simp [pure_apply] at h
      | true =>
        simp only [if_true, pure_apply, Res.ok.injEq, Prod.mk.injEq, true_and] at h
        obtain ⟨-, rfl⟩ := h
        have hs := advanced_same_registers p
        have hbal := (balanced_productions n).1 .GARBAGE_T e p.advanced tE pE hE
          (owner_invariant_congr hs ho) (fillable_congr hs.1 hf)
        exact slots_kept_trans (fun _ h => by cases h; exact he)
          (slots_kept_of_eq hs.1 _) (slots_kept_of_balanced hbal)
    | false =>
      simp only [hassign, Bool.false_eq_true, if_false] at h
      obtain ⟨w, p0, hw, h⟩ := bind_eq_ok h
      simp only [get_word_apply, Res.ok.injEq] at hw
      obtain ⟨rfl, rfl⟩ := hw
      cases hopen : is_punctuation p.word .PUNC_OPEN with
      | false => simp [hopen, pure_apply] at h
      | true =>
        simp only [hopen, if_true] at h
        have key : ∀ pc : Parser, same_registers p pc →
            (do
              reset_actual_parm_position
              advance
              if (← parse_expr_list n) then
                if is_punctuation (← get_word) .PUNC_CLOSE then
                  advance
                  pure (true, expr_type.PROCEDURE_T)
                else
                  parse_error "')'" (← get_word)
                  pure (false, t)
              else
                pure (false, t)) pc = .ok (true, ty) q →
            slots_kept (some e) p q := by
          intro pc hc hrun
          obtain ⟨_, p1, h1, hrun⟩ := bind_eq_ok hrun
          simp only [reset_actual_parm_position, modifyp_apply, Res.ok.injEq, true_and] at h1
          subst h1
          obtain ⟨_, p2, h2, hrun⟩ := bind_eq_ok hrun
          simp only [advance_apply, Res.ok.injEq, true_and] at h2
          obtain ⟨b, pL, hL, hrun⟩ := bind_eq_ok hrun
          have hs2 : same_registers p p2 := by
            rw [← h2]
            exact same_registers_trans hc (same_registers_trans ⟨rfl, rfl⟩
              (advanced_same_registers _))
          cases b with
          | false => simp [pure_apply] at hrun
          | true =>
            simp only [if_true, bind_apply, get_word_apply] at hrun
            cases hclose : is_punctuation pL.word .PUNC_CLOSE with
            | false =>
              simp [hclose, bind_apply, get_word_apply, parse_error, report, modifyp_apply,
                pure_apply] at hrun
            | true =>
              simp only [hclose, if_true, bind_apply, advance_apply, pure_apply, Res.ok.injEq,
                Prod.mk.injEq, true_and] at hrun
              have hk := keeps_scope_parse_expr_list n p2 pL hL
                (owner_invariant_congr hs2 ho)
              have hq : scope_kept pL q := by
                rw [← hrun.2]
                exact scope_kept_of_same (advanced_same_registers pL)
              exact slots_kept_weaken _
                (scope_kept_trans (scope_kept_of_same hs2) (scope_kept_trans hk hq))
        obtain ⟨p0, pg, hg, h⟩ := bind_eq_ok h
        simp only [getp_apply, Res.ok.injEq] at hg
        obtain ⟨rfl, rfl⟩ := hg
        by_cases hty : p.stab.get_type p.procedure_name p.main_env ≠ .PROCEDURE_T
        · simp only [hty, ne_eq, not_false_eq_true, if_true, bind_apply, type_error_apply] at h
          cases htm : p.test_mode
          · simp [checked, htm] at h
          · simp only [checked, htm, if_true] at h
            exact key (report_all [.type_error .PROCEDURE_T
              (p.stab.get_type p.procedure_name p.main_env)] p) ⟨rfl, rfl⟩
              (by simp only [bind_apply, get_word_apply]; exact h)
        · simp only [hty, if_false, bind_apply, pure_apply] at h
          exact key p (same_registers_refl p)
            (by simp only [bind_apply, get_word_apply]; exact h)

theorem keeps_scope_parse_stmt_identifier (fuel : Nat) (id : String) :
    keeps_scope (parse_stmt_identifier fuel id) := by
  intro p q h ho
  rw [parse_stmt_identifier_entered] at h
  obtain ⟨e, p1, h1, h⟩ := bind_eq_ok h
  obtain ⟨he, -, -, -, -, ha1, -, hs1⟩ := statement_entered_ok h1
  have ho1 : owner_invariant p1 := by
    have h0 : new_operand_slot (some (.OPTYPE_MEMORY id)) p
        = .ok p.slots.length (new_operand_slot (some (.OPTYPE_MEMORY id)) p).parser := rfl
    have hsame : same_registers (new_operand_slot (some (.OPTYPE_MEMORY id)) p).parser p1 :=
      ⟨hs1, ha1⟩
    exact owner_invariant_congr hsame
      (preserves_ok (owner_stmt_invariant.new_operand_slot_memory id) h0 ho)
  have hf1 : fillable p1 e :=
    ⟨_, by rw [hs1, he]; exact getElem?_append_slot_length _ _, rfl, fun r h => by cases h.1⟩
  obtain ⟨tail, p2, h2, h⟩ := bind_eq_ok h
  obtain ⟨b, ty⟩ := tail
  cases b with
  | false =>
    simp [adhoc_as_pc_tail_semantics, bind_apply, end_of_scope, modifyp_apply, pure_apply] at h
  | true =>
    have hk := slots_kept_parse_adhoc_as_pc_tail h2 ho1 hf1
    have he1 : e < p1.slots.length := fillable_lt hf1
    have he2 : e < p2.slots.length := lt_of_lt_of_le he1 hk.1
    rw [adhoc_as_pc_tail_semantics_true] at h
    obtain ⟨_, p2c, hc, h⟩ := bind_eq_ok h
    have hsc := checked_same_registers hc
    have h23 : ∃ p3, slots_kept (some e) p2c p3
        ∧ q.slots = p3.slots.modify (fun s => { s with live := false }) e := by
      by_cases hty : p2.stab.get_type id p2.current_env ≠ .PROCEDURE_T
      · simp only [ne_eq] at hty
        simp only [ne_eq, hty, not_false_eq_true, if_true] at h
        obtain ⟨_, p3, h3, h⟩ := bind_eq_ok h
        simp only [bind_apply, end_of_scope, modifyp_apply, pure_apply, Res.ok.injEq,
          true_and] at h
        obtain ⟨R, pM, a, hm, -, rfl⟩ := (assignment_codegen_iff _ _ _ _).1 h3
        exact ⟨_, slots_kept_of_release (materialized_lt hm) hm rfl, by rw [← h]⟩
      · simp only [ne_eq, not_not] at hty
        simp only [ne_eq, hty, not_true_eq_false, if_false, bind_apply, pure_apply,
          end_of_scope, modifyp_apply, Res.ok.injEq, true_and] at h
        exact ⟨p2c, slots_kept_of_eq rfl _, by rw [← h]⟩
    obtain ⟨p3, h23, hq⟩ := h23
    have h13 : slots_kept (some e) p1 p3 :=
      slots_kept_trans (fun _ h => by cases h; exact he1) hk
        (slots_kept_trans (fun _ h => by cases h; exact he2) (slots_kept_of_eq hsc.1 _) h23)
    exact scope_closed he hs1 h13 hq

/-- The statement productions keep the operand variables of the record they
are entered in. -/
theorem keeps_scope_statement_productions (fuel : Nat) :
    keeps_scope (parse_block fuel)
    ∧ keeps_scope (parse_stmt_list fuel)
    ∧ keeps_scope (parse_stmt_list_prm fuel)
    ∧ keeps_scope (parse_stmt fuel)
    ∧ keeps_scope (parse_if_stmt fuel)
    ∧ keeps_scope (parse_if_stmt_hat fuel)
    ∧ keeps_scope (parse_while_stmt fuel) := by
  induction fuel with
  | zero =>
    refine ⟨?_, ?_, ?_, ?_, ?_, ?_, ?_⟩ <;> intro p q h <;>
      first
      | (rw [parse_block] at h; cases h)
      | (rw [parse_stmt_list] at h; cases h)
      | (rw [parse_stmt_list_prm] at h; cases h)
      | (rw [parse_stmt] at h; cases h)
      | (rw [parse_if_stmt] at h; cases h)
      | (rw [parse_if_stmt_hat] at h; cases h)
      | (rw [parse_while_stmt] at h; cases h)
  | succ n ih =>
    obtain ⟨iblock, ilist, iprm, istmt, iif, ihat, iwhile⟩ := ih
    have ostmt := preserves_statement_productions owner_stmt_invariant n
    have hprm_step : ∀ p q : Parser, owner_invariant p →
        (do
          if (← parse_stmt n) then
            if is_punctuation (← get_word) .PUNC_SEMI then
              advance
              parse_stmt_list_prm n
            else
              parse_error "';'" (← get_word)
              pure false
          else
            pure false) p = .ok true q → scope_kept p q := by
      intro p q ho h
      obtain ⟨b, p1, h1, h⟩ := bind_eq_ok h
      cases b with
      | false => simp [pure_apply] at h
      | true =>
        simp only [if_true, bind_apply, get_word_apply] at h
        cases hsemi : is_punctuation p1.word .PUNC_SEMI with
        | false =>
          simp [hsemi, bind_apply, get_word_apply, parse_error, report, modifyp_apply,
            pure_apply] at h
        | true =>
          simp only [hsemi, if_true, advance_apply] at h
          have ho1 := preserves_ok ostmt.2.2.2.1 h1 ho
          exact scope_kept_trans (istmt p p1 h1 ho)
            (scope_kept_trans (scope_kept_of_same (advanced_same_registers p1))
              (iprm _ q h (owner_invariant_congr (advanced_same_registers p1) ho1)))
    refine ⟨?_, ?_, ?_, ?_, ?_, ?_, ?_⟩
    · intro p q h ho
      rw [parse_block] at h
      obtain ⟨w, p0, hw, h⟩ := bind_eq_ok h
      simp only [get_word_apply, Res.ok.injEq] at hw
      obtain ⟨rfl, rfl⟩ := hw
      cases hk : is_keyword p.word .KW_BEGIN with
      | false =>
        simp [hk, bind_apply, get_word_apply, parse_error, report, modifyp_apply, pure_apply]
          at h
      | true =>
        simp only [hk, if_true] at h
        obtain ⟨_, pa, ha, h⟩ := bind_eq_ok h
        simp only [advance_apply, Res.ok.injEq, true_and] at ha
        subst ha
        obtain ⟨b, p1, hl, h⟩ := bind_eq_ok h
        cases b with
        | false => simp [pure_apply] at h
        | true =>
          simp only [if_true, bind_apply, get_word_apply] at h
          cases hend : is_keyword p1.word .KW_END with
          | false =>
            simp [hend, bind_apply, get_word_apply, parse_error, report, modifyp_apply,
              pure_apply] at h
          | true =>
            simp only [hend, if_true, bind_apply, advance_apply, pure_apply, Res.ok.injEq,
              true_and] at h
            subst h
            exact scope_kept_trans (scope_kept_of_same (advanced_same_registers p))
              (scope_kept_trans
                (ilist _ p1 hl (owner_invariant_congr (advanced_same_registers p) ho))
                (scope_kept_of_same (advanced_same_registers p1)))
    · intro p q h ho
      rw [parse_stmt_list] at h
      obtain ⟨w, p0, hw, h⟩ := bind_eq_ok h
      simp only [get_word_apply, Res.ok.injEq] at hw
      obtain ⟨rfl, rfl⟩ := hw
      split at h
      · exact hprm_step p q ho h
      · split at h
        · simp only [bind_apply, advance_apply] at h
          exact scope_kept_trans (scope_kept_of_same (advanced_same_registers p))
            (iprm _ q h (owner_invariant_congr (advanced_same_registers p) ho))
        · simp [pure_apply] at h
    · intro p q h ho
      rw [parse_stmt_list_prm] at h
      obtain ⟨w, p0, hw, h⟩ := bind_eq_ok h
      simp only [get_word_apply, Res.ok.injEq] at hw
      obtain ⟨rfl, rfl⟩ := hw
      split at h
      · exact hprm_step p q ho h
      · simp only [pure_apply, Res.ok.injEq, true_and] at h
        subst h
        exact scope_kept_refl p
    · intro p q h ho
      rw [parse_stmt] at h
      obtain ⟨w, p0, hw, h⟩ := bind_eq_ok h
      simp only [get_word_apply, Res.ok.injEq] at hw
      obtain ⟨-, rfl⟩ := hw
      cases w with
      | TOKEN_ID id => exact keeps_scope_parse_stmt_identifier n id p q h ho
      | _ =>
        simp only at h
        split at h
        · exact iif p q h ho
        · split at h
          · exact iwhile p q h ho
          · split at h
            · exact keeps_scope_parse_print_stmt n p q h ho
            · simp [pure_apply] at h
    · intro p q h ho
      obtain ⟨e, p1, pE, ty, -, h1, hE, ht⟩ := parse_if_stmt_ok h
      obtain ⟨labels, pC, pB, pJ, pH, hc, -, hblock, hj, hhat, hq⟩ := if_stmt_tail_ok ht
      obtain ⟨R, pM, hm, -, -, hs, -, -, -⟩ := if_condition_codegen_ok hc
      have hoE := owner_parse_expr hE
        (right_operand_slot (advanced_same_registers p) h1 ho).2.2.2
      have hoC : owner_invariant pC :=
        preserves_ok (owner_if_condition_codegen e) hc (owner_invariant_congr ⟨rfl, rfl⟩ hoE)
      have hoT := owner_invariant_congr (advanced_same_registers pC) hoC
      have hoB := owner_parse_block hblock hoT
      simp only [bind_apply, emit, modifyp_apply, Res.ok.injEq, true_and] at hj
      have hoJ : owner_invariant pJ := by
        rw [← hj]; exact owner_invariant_congr ⟨rfl, rfl⟩ hoB
      simp only [bind_apply, emit, end_of_scope, modifyp_apply, Res.ok.injEq, true_and] at hq
      have hlt := materialized_lt hm
      have hEC : slots_kept (some e) pE pC :=
        slots_kept_trans (fun _ h => by cases h; exact hlt)
          (slots_kept_of_eq (show (report_all (if ty = .BOOL_T then []
            else [.type_error .BOOL_T ty]) pE).slots = pE.slots from rfl) _)
          (slots_kept_of_release hlt hm hs)
      have hCH : scope_kept pC pH :=
        scope_kept_trans (scope_kept_of_same (advanced_same_registers pC))
          (scope_kept_trans (iblock _ pB hblock hoT)
            (scope_kept_trans (scope_kept_of_same (by rw [← hj]; exact ⟨rfl, rfl⟩))
              (ihat pJ pH hhat hoJ)))
      exact scope_kept_of_expression ho (advanced_same_registers p) h1
        (same_registers_refl p1) hE
        (slots_kept_trans (fun _ h => by cases h; exact hlt) hEC (slots_kept_weaken _ hCH))
        (by rw [← hq])
    · intro p q h ho
      obtain ⟨h1, h2⟩ := parse_if_stmt_hat_ok h
      cases hk : is_keyword p.word .KW_ELSE with
      | false =>
        rw [h1 hk]
        exact scope_kept_refl p
      | true =>
        obtain ⟨m, hm, hb⟩ := h2 hk
        have hm1 : m = n := by omega
        subst hm1
        exact scope_kept_trans (scope_kept_of_same (advanced_same_registers p))
          (iblock _ q hb (owner_invariant_congr (advanced_same_registers p) ho))
    · intro p q h ho
      obtain ⟨e, p1, p2, pE, ty, -, h1, h2, hE, ht⟩ := parse_while_stmt_ok h
      obtain ⟨pC, pB, hc, -, hblock, hq⟩ := while_stmt_tail_ok ht
      obtain ⟨R, pM, hm, -, hs, -, -⟩ := while_condition_codegen_ok hc
      have h12 : same_registers p1 p2 := by rw [h2]; exact ⟨rfl, rfl⟩
      have hoE := owner_parse_expr hE (owner_invariant_congr h12
        (right_operand_slot (advanced_same_registers p) h1 ho).2.2.2)
      have hoC : owner_invariant pC :=
        preserves_ok (owner_while_condition_codegen _ e) hc
          (owner_invariant_congr ⟨rfl, rfl⟩ hoE)
      have hoT := owner_invariant_congr (advanced_same_registers pC) hoC
      simp only [bind_apply, emit, end_of_scope, modifyp_apply, Res.ok.injEq, true_and] at hq
      have hlt := materialized_lt hm
      have hEC : slots_kept (some e) pE pC :=
        slots_kept_trans (fun _ h => by cases h; exact hlt)
          (slots_kept_of_eq (show (report_all (if ty = .BOOL_T then []
            else [.type_error .BOOL_T ty]) pE).slots = pE.slots from rfl) _)
          (slots_kept_of_release hlt hm hs)
      have hCB : scope_kept pC pB :=
        scope_kept_trans (scope_kept_of_same (advanced_same_registers pC))
          (iblock _ pB hblock hoT)
      exact scope_kept_of_expression ho (advanced_same_registers p) h1 h12 hE
        (slots_kept_trans (fun _ h => by cases h; exact hlt) hEC (slots_kept_weaken _ hCB))
        (by rw [← hq])

theorem keeps_boundary_of_keeps_scope {x : M Bool} (hx : keeps_scope x)
    (ho : preserves owner_invariant NDF x) : keeps_boundary x :=
  fun p q h hb =>
    statement_boundary_of_scope_kept hb (preserves_ok ho h hb.1) (hx p q h hb.1)

/-- The statement productions return at a statement boundary when they are
entered at one: every statement of a block, and every block nested in a
statement, is entered at a statement boundary if the enclosing block is. -/
theorem statement_boundary_productions (fuel : Nat) :
    keeps_boundary (parse_block fuel)
    ∧ keeps_boundary (parse_stmt_list fuel)
    ∧ keeps_boundary (parse_stmt_list_prm fuel)
    ∧ keeps_boundary (parse_stmt fuel)
    ∧ keeps_boundary (parse_if_stmt fuel)
    ∧ keeps_boundary (parse_if_stmt_hat fuel)
    ∧ keeps_boundary (parse_while_stmt fuel) := by
  obtain ⟨k1, k2, k3, k4, k5, k6, k7⟩ := keeps_scope_statement_productions fuel
  obtain ⟨o1, o2, o3, o4, o5, o6, o7⟩ :=
    preserves_statement_productions owner_stmt_invariant fuel
  exact ⟨keeps_boundary_of_keeps_scope k1 o1, keeps_boundary_of_keeps_scope k2 o2,
    keeps_boundary_of_keeps_scope k3 o3, keeps_boundary_of_keeps_scope k4 o4,
    keeps_boundary_of_keeps_scope k5 o5, keeps_boundary_of_keeps_scope k6 o6,
    keeps_boundary_of_keeps_scope k7 o7⟩

/-- The record a parser is started with is at a statement boundary. -/
theorem statement_boundary_init (test_mode : Bool) (tokens : List Token) :
    statement_boundary (Parser.init test_mode tokens) :=
  statement_boundary_of_no_slots rfl

/-! ### Blocks and syntax failures -/

/-- The block `begin end`: the statement list is entered on `end`, which
starts neither a statement nor is `;`, and the block returns false. -/
theorem parse_block_empty (fuel : Nat) (p : Parser) (h : at_empty_block p) :
    parse_block (fuel + 2) p = .ok false p.advanced := by
  obtain ⟨hw, hl⟩ := h
  have hadv : p.advanced.word = .TOKEN_KEYWORD .KW_END := by
    unfold Parser.advanced
    cases hlex : p.lex with
    | nil => rw [hlex] at hl; cases hl
    | cons t rest =>
      rw [hlex] at hl
      simp only [List.head?_cons, Option.some.injEq] at hl
      simp [hl]
  rw [parse_block]
  simp only [bind_apply, get_word_apply, hw, advance_apply]
  have hb : is_keyword (.TOKEN_KEYWORD .KW_BEGIN) .KW_BEGIN = true := rfl
  simp only [hb, if_true, bind_apply, advance_apply]
  rw [parse_stmt_list]
  simp only [bind_apply, get_word_apply, hadv]
  rfl

/-- A block that returns true is not `begin end`. -/
theorem parse_block_not_empty {fuel : Nat} {p q : Parser}
    (h : parse_block fuel p = .ok true q) : ¬ at_empty_block p := by
  intro he
  match fuel, h with
  | 0, h => rw [parse_block] at h; cases h
  | 1, h =>
    rw [parse_block] at h
    simp only [bind_apply, get_word_apply, he.1, advance_apply] at h
    have hb : is_keyword (.TOKEN_KEYWORD .KW_BEGIN) .KW_BEGIN = true := rfl
    simp only [hb, if_true, bind_apply, advance_apply] at h
    rw [parse_stmt_list] at h
    cases h
  | fuel + 2, h =>
    rw [parse_block_empty fuel p he] at h
    cases h

/-- The block `begin ; end`: the leading `;` is taken as an empty first
statement. -/
theorem parse_block_empty_statement (fuel : Nat) (p : Parser) (rest : List Token)
    (hw : p.word = .TOKEN_KEYWORD .KW_BEGIN)
    (hl : p.lex = .TOKEN_PUNC .PUNC_SEMI :: .TOKEN_KEYWORD .KW_END :: rest) :
    parse_block (fuel + 3) p = .ok true p.advanced.advanced.advanced := by
  have h1 : p.advanced.word = .TOKEN_PUNC .PUNC_SEMI := by
    simp [Parser.advanced, hl]
  have h1l : p.advanced.lex = .TOKEN_KEYWORD .KW_END :: rest := by
    simp [Parser.advanced, hl]
  have h2 : p.advanced.advanced.word = .TOKEN_KEYWORD .KW_END := by
    rw [Parser.advanced, h1l]
  rw [parse_block]
  simp only [bind_apply, get_word_apply, hw, advance_apply]
  have hb : is_keyword (.TOKEN_KEYWORD .KW_BEGIN) .KW_BEGIN = true := rfl
  simp only [hb, if_true, bind_apply, advance_apply]
  rw [parse_stmt_list]
  simp only [bind_apply, get_word_apply, h1, advance_apply]
  have hs : (is_identifier (.TOKEN_PUNC .PUNC_SEMI)
      || is_keyword (.TOKEN_PUNC .PUNC_SEMI) .KW_IF
      || is_keyword (.TOKEN_PUNC .PUNC_SEMI) .KW_WHILE
      || is_keyword (.TOKEN_PUNC .PUNC_SEMI) .KW_PRINT) = false := rfl
  have hs2 : is_punctuation (.TOKEN_PUNC .PUNC_SEMI) .PUNC_SEMI = true := rfl
  simp only [hs, Bool.false_eq_true, if_false, hs2, if_true, bind_apply, advance_apply]
  rw [parse_stmt_list_prm]
  simp only [bind_apply, get_word_apply, h2]
  have he : (is_identifier (.TOKEN_KEYWORD .KW_END)
      || is_keyword (.TOKEN_KEYWORD .KW_END) .KW_IF
      || is_keyword (.TOKEN_KEYWORD .KW_END) .KW_WHILE
      || is_keyword (.TOKEN_KEYWORD .KW_END) .KW_PRINT) = false := rfl
  have he2 : is_keyword (.TOKEN_KEYWORD .KW_END) .KW_END = true := rfl
  simp only [he, Bool.false_eq_true, if_false, pure_apply, if_true, he2, bind_apply,
    get_word_apply, h2, advance_apply]

/-- The release of a label leaves the spill table as it is exactly when no
active entry bears that label. -/
theorem deallocate_spill_memory_unchanged_iff (x : String) (p : Parser) :
    (deallocate_spill_memory x p).parser.spilled_labels = p.spilled_labels
      ↔ ∀ entry ∈ p.spilled_labels, entry.1 = x → entry.2 = false := by
  simp only [deallocate_spill_memory, modifyp_apply, Res.parser]
  generalize p.spilled_labels = l
  induction l with
  | nil => simp
  | cons a l ih =>
    simp only [List.map_cons, List.cons.injEq, List.mem_cons, forall_eq_or_imp]
    rw [ih]
    refine and_congr_left (fun _ => ?_)
    obtain ⟨s, b⟩ := a
    by_cases hs : s = x
    · simp [hs]
    · simp [hs]

/-! ### Runs of the machine -/

theorem steps_zero (code : List IR) (m : Machine) : steps code 0 m = some m := rfl

theorem steps_succ (code : List IR) (n : Nat) (m : Machine) :
    steps code (n + 1) m = (step code m).bind (steps code n) := rfl

theorem steps_add (code : List IR) (a b : Nat) (m : Machine) :
    steps code (a + b) m = (steps code a m).bind (steps code b) := by
  induction a generalizing m with
  | zero => simp [steps_zero]
  | succ a ih =>
    rw [Nat.succ_add, steps_succ, steps_succ]
    cases step code m with
    | none => rfl
    | some m1 => exact ih m1

theorem reaches_refl (code : List IR) (m : Machine) : reaches code m m :=
  ⟨0, rfl⟩

theorem reaches_of_eq {code : List IR} {m m1 : Machine} (h : m = m1) : reaches code m m1 :=
  h ▸ reaches_refl code m

theorem reaches_step {code : List IR} {m m1 m2 : Machine} (h : step code m = some m1)
    (h2 : reaches code m1 m2) : reaches code m m2 := by
  obtain ⟨n, hn⟩ := h2
  exact ⟨n + 1, by rw [steps_succ, h]; exact hn⟩

theorem reaches_trans {code : List IR} {m m1 m2 : Machine} (h1 : reaches code m m1)
    (h2 : reaches code m1 m2) : reaches code m m2 := by
  obtain ⟨a, ha⟩ := h1
  obtain ⟨b, hb⟩ := h2
  exact ⟨a + b, by rw [steps_add, ha]; exact hb⟩

/-! ### One step, by the line the machine is at -/

theorem step_comment {code : List IR} {m : Machine} {s : String}
    (h : code[m.pc]? = some (.comment s)) : step code m = some m.next := by
  unfold step; rw [h]

theorem step_label {code : List IR} {m : Machine} {s : String}
    (h : code[m.pc]? = some (.label s)) : step code m = some m.next := by
  unfold step; rw [h]

theorem step_data_directive {code : List IR} {m : Machine} {s : String} {n : Nat}
    (h : code[m.pc]? = some (.data_directive s n)) : step code m = some m.next := by
  unfold step; rw [h]

theorem step_move_reg_imm {code : List IR} {m : Machine} {d : Register} {i : Int}
    (h : code[m.pc]? = some (.move_reg_imm d i)) :
    step code m = some (m.set_reg d i).next := by
  unfold step; rw [h]

theorem step_move_reg_mem {code : List IR} {m : Machine} {d : Register} {x : String}
    (h : code[m.pc]? = some (.move_reg_mem d x)) :
    step code m = some (m.set_reg d (m.mem x)).next := by
  unfold step; rw [h]

theorem step_move_mem_reg {code : List IR} {m : Machine} {s : Register} {x : String}
    (h : code[m.pc]? = some (.move_mem_reg x s)) :
    step code m = some (m.set_mem x (m.reg s)).next := by
  unfold step; rw [h]

theorem step_inst_2addr {code : List IR} {m : Machine} {op : inst_type} {d : Register}
    {src : Operand} {v : Int} (h : code[m.pc]? = some (.inst_2addr op d src))
    (hv : alu op (m.reg d) (m.value src) = some v) :
    step code m = some (m.set_reg d v).next := by
  unfold step; rw [h]; simp only [hv, Option.map_some']

theorem step_inst_1addr {code : List IR} {m : Machine} {op : inst_type} {r : Register}
    {v : Int} (h : code[m.pc]? = some (.inst_1addr op r))
    (hv : alu1 op (m.reg r) = some v) :
    step code m = some (m.set_reg r v).next := by
  unfold step; rw [h]; simp only [hv, Option.map_some']

theorem step_branch {code : List IR} {m : Machine} {l : String} {j : Nat}
    (h : code[m.pc]? = some (.branch l)) (hj : label_index code l = some j) :
    step code m = some { m with pc := j } := by
  unfold step; rw [h]; simp only [hj, Option.map_some']

theorem step_branch_taken {code : List IR} {m : Machine} {op : inst_type} {r : Register}
    {l : String} {j : Nat} (h : code[m.pc]? = some (.branch_cond op r l))
    (ht : branch_taken op (m.reg r) = true) (hj : label_index code l = some j) :
    step code m = some { m with pc := j } := by
  unfold step; rw [h]; simp only [ht, if_true, hj, Option.map_some']

theorem step_branch_not_taken {code : List IR} {m : Machine} {op : inst_type} {r : Register}
    {l : String} (h : code[m.pc]? = some (.branch_cond op r l))
    (ht : branch_taken op (m.reg r) = false) :
    step code m = some m.next := by
  unfold step; rw [h]; simp only [ht, Bool.false_eq_true, if_false]

/-! ### A piece of code inside a program -/

/-- The line `k` of a piece of code `body` is the line `before.length + k` of
a program that holds the piece after the lines `before`. -/
theorem getElem?_inside (before body after : List IR) (n k : Nat) (i : IR)
    (hn : n = before.length + k) (h : body[k]? = some i) :
    (before ++ (body ++ after))[n]? = some i := by
  subst hn
  rw [List.getElem?_append_right (Nat.le_add_right _ _), Nat.add_sub_cancel_left]
  have hk : k < body.length := by
    by_contra hc
    rw [List.getElem?_eq_none (Nat.le_of_not_lt hc)] at h
    cases h
  rw [List.getElem?_append_left hk]
  exact h

theorem label_index_cons (i : IR) (code : List IR) (l : String) :
    label_index (i :: code) l
      = if i = .label l then some 0 else (label_index code l).map (fun j => j + 1) := rfl

theorem label_index_append_of_not_mem (before rest : List IR) (l : String)
    (h : IR.label l ∉ before) :
    label_index (before ++ rest) l
      = (label_index rest l).map (fun j => before.length + j) := by
  induction before with
  | nil => simp
  | cons i before ih =>
    have h1 : i ≠ IR.label l := fun hc => h (hc ▸ List.mem_cons_self _ _)
    have h2 : IR.label l ∉ before := fun hc => h (List.mem_cons_of_mem _ hc)
    rw [List.cons_append, label_index_cons, if_neg h1, ih h2, List.length_cons]
    cases label_index rest l with
    | none => rfl
    | some j => simp only [Option.map_some', Option.some.injEq]; omega

theorem label_index_append_of_some (body after : List IR) (l : String) (k : Nat)
    (h : label_index body l = some k) : label_index (body ++ after) l = some k := by
  induction body generalizing k with
  | nil => cases h
  | cons i body ih =>
    rw [List.cons_append, label_index_cons]
    rw [label_index_cons] at h
    by_cases hi : i = IR.label l
    · simpa only [if_pos hi] using h
    · rw [if_neg hi] at h ⊢
      cases hb : label_index body l with
      | none => rw [hb] at h; cases h
      | some j => rw [hb] at h; rw [ih j hb]; exact h

/-- A label that is defined in a piece of code, and not before it, is found
at its line of the piece. -/
theorem label_index_inside (before body after : List IR) (l : String) (k : Nat)
    (hb : IR.label l ∉ before) (h : label_index body l = some k) :
    label_index (before ++ (body ++ after)) l = some (before.length + k) := by
  rw [label_index_append_of_not_mem _ _ _ hb, label_index_append_of_some _ _ _ _ h]
  rfl

theorem relational_code_label_false (c : relop_attr) (reg : Register) (src : Operand)
    (lf ld : String) :
    label_index (relational_code c reg src lf ld) lf
      = some (3 + (compare_branches c).length + 2) := by
  cases c <;> simp [relational_code, compare_branches, label_index]

theorem relational_code_label_done (c : relop_attr) (reg : Register) (src : Operand)
    (lf ld : String) (hne : lf ≠ ld) :
    label_index (relational_code c reg src lf ld) ld
      = some (3 + (compare_branches c).length + 4) := by
  cases c <;> simp [relational_code, compare_branches, label_index, hne]

theorem relational_code_run_eq_neg (before after : List IR) (reg : Register) (src : Operand)
    (lf ld : String) (_ : lf ≠ ld) (_ : IR.label lf ∉ before) (_ : IR.label ld ∉ before)
    (mreg : Register → Int) (mmem : String → Int)
    (h : mreg reg < operand_value mreg mmem src) :
    reaches (before ++ (relational_code .RELOP_EQ reg src lf ld ++ after))
      ⟨mreg, mmem, before.length⟩
      { reg := fun r1 => if r1 = reg then
          (if relop_holds .RELOP_EQ (mreg reg) (operand_value mreg mmem src) then 1 else 0)
          else mreg r1,
        mem := mmem,
        pc := before.length + (relational_code .RELOP_EQ reg src lf ld).length } := by
  rename_i hne hf hd
  have hv : (if relop_holds .RELOP_EQ (mreg reg) (operand_value mreg mmem src) = true
      then (1 : Int) else 0) = 0 := by
    simp only [relop_holds, decide_eq_true_eq]
    rw [if_neg (by omega)]
  rw [hv]
  refine reaches_step (step_comment (getElem?_inside before _ after _ 0 _ rfl rfl)) ?_
  refine reaches_step (step_inst_2addr (getElem?_inside before _ after _ 1 _ rfl rfl) rfl) ?_
  refine reaches_step (step_comment (getElem?_inside before _ after _ 2 _ rfl rfl)) ?_
  refine reaches_step (step_branch_taken (getElem?_inside before _ after _ 3 _ rfl rfl)
    (by simp [branch_taken, Machine.next, Machine.set_reg, Machine.value]; omega)
    (label_index_inside before _ after lf _ hf (relational_code_label_false _ _ _ _ _))) ?_
  refine reaches_step (step_label (getElem?_inside before _ after _ 7 _ rfl rfl)) ?_
  refine reaches_step (step_move_reg_imm (getElem?_inside before _ after _ 8 _ rfl rfl)) ?_
  refine reaches_step (step_label (getElem?_inside before _ after _ 9 _ rfl rfl)) ?_
  refine reaches_of_eq ?_
  simp only [Machine.next, Machine.set_reg, Machine.mk.injEq]
  refine ⟨?_, trivial, rfl⟩
  funext r1
  split_ifs <;> rfl

theorem relational_code_run_eq_zero (before after : List IR) (reg : Register) (src : Operand)
    (lf ld : String) (_ : lf ≠ ld) (_ : IR.label lf ∉ before) (_ : IR.label ld ∉ before)
    (mreg : Register → Int) (mmem : String → Int)
    (h : mreg reg = operand_value mreg mmem src) :
    reaches (before ++ (relational_code .RELOP_EQ reg src lf ld ++ after))
      ⟨mreg, mmem, before.length⟩
      { reg := fun r1 => if r1 = reg then
          (if relop_holds .RELOP_EQ (mreg reg) (operand_value mreg mmem src) then 1 else 0)
          else mreg r1,
        mem := mmem,
        pc := before.length + (relational_code .RELOP_EQ reg src lf ld).length } := by
  rename_i hne hf hd
  have hv : (if relop_holds .RELOP_EQ (mreg reg) (operand_value mreg mmem src) = true
      then (1 : Int) else 0) = 1 := by
    simp only [relop_holds, decide_eq_true_eq]
    rw [if_pos (by omega)]
  rw [hv]
  refine reaches_step (step_comment (getElem?_inside before _ after _ 0 _ rfl rfl)) ?_
  refine reaches_step (step_inst_2addr (getElem?_inside before _ after _ 1 _ rfl rfl) rfl) ?_
  refine reaches_step (step_comment (getElem?_inside before _ after _ 2 _ rfl rfl)) ?_
  refine reaches_step (step_branch_not_taken (getElem?_inside before _ after _ 3 _ rfl rfl)
    (by simp [branch_taken, Machine.next, Machine.set_reg, Machine.value]; omega)) ?_
  refine reaches_step (step_branch_not_taken (getElem?_inside before _ after _ 4 _ rfl rfl)
    (by simp [branch_taken, Machine.next, Machine.set_reg, Machine.value]; omega)) ?_
  refine reaches_step (step_move_reg_imm (getElem?_inside before _ after _ 5 _ rfl rfl)) ?_
  refine reaches_step (step_branch (getElem?_inside before _ after _ 6 _ rfl rfl)
    (label_index_inside before _ after ld _ hd (relational_code_label_done _ _ _ _ _ hne))) ?_
  refine reaches_step (step_label (getElem?_inside before _ after _ 9 _ rfl rfl)) ?_
  refine reaches_of_eq ?_
  simp only [Machine.next, Machine.set_reg, Machine.mk.injEq]
  refine ⟨?_, trivial, rfl⟩
  funext r1
  split_ifs <;> rfl

theorem relational_code_run_eq_pos (before after : List IR) (reg : Register) (src : Operand)
    (lf ld : String) (_ : lf ≠ ld) (_ : IR.label lf ∉ before) (_ : IR.label ld ∉ before)
    (mreg : Register → Int) (mmem : String → Int)
    (h : operand_value mreg mmem src < mreg reg) :
    reaches (before ++ (relational_code .RELOP_EQ reg src lf ld ++ after))
      ⟨mreg, mmem, before.length⟩
      { reg := fun r1 => if r1 = reg then
          (if relop_holds .RELOP_EQ (mreg reg) (operand_value mreg mmem src) then 1 else 0)
          else mreg r1,
        mem := mmem,
        pc := before.length + (relational_code .RELOP_EQ reg src lf ld).length } := by
  rename_i hne hf hd
  have hv : (if relop_holds .RELOP_EQ (mreg reg) (operand_value mreg mmem src) = true
      then (1 : Int) else 0) = 0 := by
    simp only [relop_holds, decide_eq_true_eq]
    rw [if_neg (by omega)]
  rw [hv]
  refine reaches_step (step_comment (getElem?_inside before _ after _ 0 _ rfl rfl)) ?_
  refine reaches_step (step_inst_2addr (getElem?_inside before _ after _ 1 _ rfl rfl) rfl) ?_
  refine reaches_step (step_comment (getElem?_inside before _ after _ 2 _ rfl rfl)) ?_
  refine reaches_step (step_branch_not_taken (getElem?_inside before _ after _ 3 _ rfl rfl)
    (by simp [branch_taken, Machine.next, Machine.set_reg, Machine.value]; omega)) ?_
  refine reaches_step (step_branch_taken (getElem?_inside before _ after _ 4 _ rfl rfl)
    (by simp [branch_taken, Machine.next, Machine.set_reg, Machine.value]; omega)
    (label_index_inside before _ after lf _ hf (relational_code_label_false _ _ _ _ _))) ?_
  refine reaches_step (step_label (getElem?_inside before _ after _ 7 _ rfl rfl)) ?_
  refine reaches_step (step_move_reg_imm (getElem?_inside before _ after _ 8 _ rfl rfl)) ?_
  refine reaches_step (step_label (getElem?_inside before _ after _ 9 _ rfl rfl)) ?_
  refine reaches_of_eq ?_
  simp only [Machine.next, Machine.set_reg, Machine.mk.injEq]
  refine ⟨?_, trivial, rfl⟩
  funext r1
  split_ifs <;> rfl

theorem relational_code_run_ne_neg (before after : List IR) (reg : Register) (src : Operand)
    (lf ld : String) (_ : lf ≠ ld) (_ : IR.label lf ∉ before) (_ : IR.label ld ∉ before)
    (mreg : Register → Int) (mmem : String → Int)
    (h : mreg reg < operand_value mreg mmem src) :
    reaches (before ++ (relational_code .RELOP_NE reg src lf ld ++ after))
      ⟨mreg, mmem, before.length⟩
      { reg := fun r1 => if r1 = reg then
          (if relop_holds .RELOP_NE (mreg reg) (operand_value mreg mmem src) then 1 else 0)
          else mreg r1,
        mem := mmem,
        pc := before.length + (relational_code .RELOP_NE reg src lf ld).length } := by
  rename_i hne hf hd
  have hv : (if relop_holds .RELOP_NE (mreg reg) (operand_value mreg mmem src) = true
      then (1 : Int) else 0) = 1 := by
    simp only [relop_holds, decide_eq_true_eq]
    rw [if_pos (by omega)]
  rw [hv]
  refine reaches_step (step_comment (getElem?_inside before _ after _ 0 _ rfl rfl)) ?_
  refine reaches_step (step_inst_2addr (getElem?_inside before _ after _ 1 _ rfl rfl) rfl) ?_
  refine reaches_step (step_comment (getElem?_inside before _ after _ 2 _ rfl rfl)) ?_
  refine reaches_step (step_branch_not_taken (getElem?_inside before _ after _ 3 _ rfl rfl)
    (by simp [branch_taken, Machine.next, Machine.set_reg, Machine.value]; omega)) ?_
  refine reaches_step (step_move_reg_imm (getElem?_inside before _ after _ 4 _ rfl rfl)) ?_
  refine reaches_step (step_branch (getElem?_inside before _ after _ 5 _ rfl rfl)
    (label_index_inside before _ after ld _ hd (relational_code_label_done _ _ _ _ _ hne))) ?_
  refine reaches_step (step_label (getElem?_inside before _ after _ 8 _ rfl rfl)) ?_
  refine reaches_of_eq ?_
  simp only [Machine.next, Machine.set_reg, Machine.mk.injEq]
  refine ⟨?_, trivial, rfl⟩
  funext r1
  split_ifs <;> rfl

theorem relational_code_run_ne_zero (before after : List IR) (reg : Register) (src : Operand)
    (lf ld : String) (_ : lf ≠ ld) (_ : IR.label lf ∉ before) (_ : IR.label ld ∉ before)
    (mreg : Register → Int) (mmem : String → Int)
    (h : mreg reg = operand_value mreg mmem src) :
    reaches (before ++ (relational_code .RELOP_NE reg src lf ld ++ after))
      ⟨mreg, mmem, before.length⟩
      { reg := fun r1 => if r1 = reg then
          (if relop_holds .RELOP_NE (mreg reg) (operand_value mreg mmem src) then 1 else 0)
          else mreg r1,
        mem := mmem,
        pc := before.length + (relational_code .RELOP_NE reg src lf ld).length } := by
  rename_i hne hf hd
  have hv : (if relop_holds .RELOP_NE (mreg reg) (operand_value mreg mmem src) = true
      then (1 : Int) else 0) = 0 := by
    simp only [relop_holds, decide_eq_true_eq]
    rw [if_neg (by omega)]
  rw [hv]
  refine reaches_step (step_comment (getElem?_inside before _ after _ 0 _ rfl rfl)) ?_
  refine reaches_step (step_inst_2addr (getElem?_inside before _ after _ 1 _ rfl rfl) rfl) ?_
  refine reaches_step (step_comment (getElem?_inside before _ after _ 2 _ rfl rfl)) ?_
  refine reaches_step (step_branch_taken (getElem?_inside before _ after _ 3 _ rfl rfl)
    (by simp [branch_taken, Machine.next, Machine.set_reg, Machine.value]; omega)
    (label_index_inside before _ after lf _ hf (relational_code_label_false _ _ _ _ _))) ?_
  refine reaches_step (step_label (getElem?_inside before _ after _ 6 _ rfl rfl)) ?_
  refine reaches_step (step_move_reg_imm (getElem?_inside before _ after _ 7 _ rfl rfl)) ?_
  refine reaches_step (step_label (getElem?_inside before _ after _ 8 _ rfl rfl)) ?_
  refine reaches_of_eq ?_
  simp only [Machine.next, Machine.set_reg, Machine.mk.injEq]
  refine ⟨?_, trivial, rfl⟩
  funext r1
  split_ifs <;> rfl

theorem relational_code_run_ne_pos (before after : List IR) (reg : Register) (src : Operand)
    (lf ld : String) (_ : lf ≠ ld) (_ : IR.label lf ∉ before) (_ : IR.label ld ∉ before)
    (mreg : Register → Int) (mmem : String → Int)
    (h : operand_value mreg mmem src < mreg reg) :
    reaches (before ++ (relational_code .RELOP_NE reg src lf ld ++ after))
      ⟨mreg, mmem, before.length⟩
      { reg := fun r1 => if r1 = reg then
          (if relop_holds .RELOP_NE (mreg reg) (operand_value mreg mmem src) then 1 else 0)
          else mreg r1,
        mem := mmem,
        pc := before.length + (relational_code .RELOP_NE reg src lf ld).length } := by
  rename_i hne hf hd
  have hv : (if relop_holds .RELOP_NE (mreg reg) (operand_value mreg mmem src) = true
      then (1 : Int) else 0) = 1 := by
    simp only [relop_holds, decide_eq_true_eq]
    rw [if_pos (by omega)]
  rw [hv]
  refine reaches_step (step_comment (getElem?_inside before _ after _ 0 _ rfl rfl)) ?_
  refine reaches_step (step_inst_2addr (getElem?_inside before _ after _ 1 _ rfl rfl) rfl) ?_
  refine reaches_step (step_comment (getElem?_inside before _ after _ 2 _ rfl rfl)) ?_
  refine reaches_step (step_branch_not_taken (getElem?_inside before _ after _ 3 _ rfl rfl)
    (by simp [branch_taken, Machine.next, Machine.set_reg, Machine.value]; omega)) ?_
  refine reaches_step (step_move_reg_imm (getElem?_inside before _ after _ 4 _ rfl rfl)) ?_
  refine reaches_step (step_branch (getElem?_inside before _ after _ 5 _ rfl rfl)
    (label_index_inside before _ after ld _ hd (relational_code_label_done _ _ _ _ _ hne))) ?_
  refine reaches_step (step_label (getElem?_inside before _ after _ 8 _ rfl rfl)) ?_
  refine reaches_of_eq ?_
  simp only [Machine.next, Machine.set_reg, Machine.mk.injEq]
  refine ⟨?_, trivial, rfl⟩
  funext r1
  split_ifs <;> rfl

theorem relational_code_run_gt_neg (before after : List IR) (reg : Register) (src : Operand)
    (lf ld : String) (_ : lf ≠ ld) (_ : IR.label lf ∉ before) (_ : IR.label ld ∉ before)
    (mreg : Register → Int) (mmem : String → Int)
    (h : mreg reg < operand_value mreg mmem src) :
    reaches (before ++ (relational_code .RELOP_GT reg src lf ld ++ after))
      ⟨mreg, mmem, before.length⟩
      { reg := fun r1 => if r1 = reg then
          (if relop_holds .RELOP_GT (mreg reg) (operand_value mreg mmem src) then 1 else 0)
          else mreg r1,
        mem := mmem,
        pc := before.length + (relational_code .RELOP_GT reg src lf ld).length } := by
  rename_i hne hf hd
  have hv : (if relop_holds .RELOP_GT (mreg reg) (operand_value mreg mmem src) = true
      then (1 : Int) else 0) = 0 := by
    simp only [relop_holds, decide_eq_true_eq]
    rw [if_neg (by omega)]
  rw [hv]
  refine reaches_step (step_comment (getElem?_inside before _ after _ 0 _ rfl rfl)) ?_
  refine reaches_step (step_inst_2addr (getElem?_inside before _ after _ 1 _ rfl rfl) rfl) ?_
  refine reaches_step (step_comment (getElem?_inside before _ after _ 2 _ rfl rfl)) ?_
  refine reaches_step (step_branch_taken (getElem?_inside before _ after _ 3 _ rfl rfl)
    (by simp [branch_taken, Machine.next, Machine.set_reg, Machine.value]; omega)
    (label_index_inside before _ after lf _ hf (relational_code_label_false _ _ _ _ _))) ?_
  refine reaches_step (step_label (getElem?_inside before _ after _ 7 _ rfl rfl)) ?_
  refine reaches_step (step_move_reg_imm (getElem?_inside before _ after _ 8 _ rfl rfl)) ?_
  refine reaches_step (step_label (getElem?_inside before _ after _ 9 _ rfl rfl)) ?_
  refine reaches_of_eq ?_
  simp only [Machine.next, Machine.set_reg, Machine.mk.injEq]
  refine ⟨?_, trivial, rfl⟩
  funext r1
  split_ifs <;> rfl

theorem relational_code_run_gt_zero (before after : List IR) (reg : Register) (src : Operand)
    (lf ld : String) (_ : lf ≠ ld) (_ : IR.label lf ∉ before) (_ : IR.label ld ∉ before)
    (mreg : Register → Int) (mmem : String → Int)
    (h : mreg reg = operand_value mreg mmem src) :
    reaches (before ++ (relational_code .RELOP_GT reg src lf ld ++ after))
      ⟨mreg, mmem, before.length⟩
      { reg := fun r1 => if r1 = reg then
          (if relop_holds .RELOP_GT (mreg reg) (operand_value mreg mmem src) then 1 else 0)
          else mreg r1,
        mem := mmem,
        pc := before.length + (relational_code .RELOP_GT reg src lf ld).length } := by
  rename_i hne hf hd
  have hv : (if relop_holds .RELOP_GT (mreg reg) (operand_value mreg mmem src) = true
      then (1 : Int) else 0) = 0 := by
    simp only [relop_holds, decide_eq_true_eq]
    rw [if_neg (by omega)]
  rw [hv]
  refine reaches_step (step_comment (getElem?_inside before _ after _ 0 _ rfl rfl)) ?_
  refine reaches_step (step_inst_2addr (getElem?_inside before _ after _ 1 _ rfl rfl) rfl) ?_
  refine reaches_step (step_comment (getElem?_inside before _ after _ 2 _ rfl rfl)) ?_
  refine reaches_step (step_branch_not_taken (getElem?_inside before _ after _ 3 _ rfl rfl)
    (by simp [branch_taken, Machine.next, Machine.set_reg, Machine.value]; omega)) ?_
  refine reaches_step (step_branch_taken (getElem?_inside before _ after _ 4 _ rfl rfl)
    (by simp [branch_taken, Machine.next, Machine.set_reg, Machine.value]; omega)
    (label_index_inside before _ after lf _ hf (relational_code_label_false _ _ _ _ _))) ?_
  refine reaches_step (step_label (getElem?_inside before _ after _ 7 _ rfl rfl)) ?_
  refine reaches_step (step_move_reg_imm (getElem?_inside before _ after _ 8 _ rfl rfl)) ?_
  refine reaches_step (step_label (getElem?_inside before _ after _ 9 _ rfl rfl)) ?_
  refine reaches_of_eq ?_
  simp only [Machine.next, Machine.set_reg, Machine.mk.injEq]
  refine ⟨?_, trivial, rfl⟩
  funext r1
  split_ifs <;> rfl

theorem relational_code_run_gt_pos (before after : List IR) (reg : Register) (src : Operand)
    (lf ld : String) (_ : lf ≠ ld) (_ : IR.label lf ∉ before) (_ : IR.label ld ∉ before)
    (mreg : Register → Int) (mmem : String → Int)
    (h : operand_value mreg mmem src < mreg reg) :
    reaches (before ++ (relational_code .RELOP_GT reg src lf ld ++ after))
      ⟨mreg, mmem, before.length⟩
      { reg := fun r1 => if r1 = reg then
          (if relop_holds .RELOP_GT (mreg reg) (operand_value mreg mmem src) then 1 else 0)
          else mreg r1,
        mem := mmem,
        pc := before.length + (relational_code .RELOP_GT reg src lf ld).length } := by
  rename_i hne hf hd
  have hv : (if relop_holds .RELOP_GT (mreg reg) (operand_value mreg mmem src) = true
      then (1 : Int) else 0) = 1 := by
    simp only [relop_holds, decide_eq_true_eq]
    rw [if_pos (by omega)]
  rw [hv]
  refine reaches_step (step_comment (getElem?_inside before _ after _ 0 _ rfl rfl)) ?_
  refine reaches_step (step_inst_2addr (getElem?_inside before _ after _ 1 _ rfl rfl) rfl) ?_
  refine reaches_step (step_comment (getElem?_inside before _ after _ 2 _ rfl rfl)) ?_
  refine reaches_step (step_branch_not_taken (getElem?_inside before _ after _ 3 _ rfl rfl)
    (by simp [branch_taken, Machine.next, Machine.set_reg, Machine.value]; omega)) ?_
  refine reaches_step (step_branch_not_taken (getElem?_inside before _ after _ 4 _ rfl rfl)
    (by simp [branch_taken, Machine.next, Machine.set_reg, Machine.value]; omega)) ?_
  refine reaches_step (step_move_reg_imm (getElem?_inside before _ after _ 5 _ rfl rfl)) ?_
  refine reaches_step (step_branch (getElem?_inside before _ after _ 6 _ rfl rfl)
    (label_index_inside before _ after ld _ hd (relational_code_label_done _ _ _ _ _ hne))) ?_
  refine reaches_step (step_label (getElem?_inside before _ after _ 9 _ rfl rfl)) ?_
  refine reaches_of_eq ?_
  simp only [Machine.next, Machine.set_reg, Machine.mk.injEq]
  refine ⟨?_, trivial, rfl⟩
  funext r1
  split_ifs <;> rfl

theorem relational_code_run_ge_neg (before after : List IR) (reg : Register) (src : Operand)
    (lf ld : String) (_ : lf ≠ ld) (_ : IR.label lf ∉ before) (_ : IR.label ld ∉ before)
    (mreg : Register → Int) (mmem : String → Int)
    (h : mreg reg < operand_value mreg mmem src) :
    reaches (before ++ (relational_code .RELOP_GE reg src lf ld ++ after))
      ⟨mreg, mmem, before.length⟩
      { reg := fun r1 => if r1 = reg then
          (if relop_holds .RELOP_GE (mreg reg) (operand_value mreg mmem src) then 1 else 0)
          else mreg r1,
        mem := mmem,
        pc := before.length + (relational_code .RELOP_GE reg src lf ld).length } := by
  rename_i hne hf hd
  have hv : (if relop_holds .RELOP_GE (mreg reg) (operand_value mreg mmem src) = true
      then (1 : Int) else 0) = 0 := by
    simp only [relop_holds, decide_eq_true_eq]
    rw [if_neg (by omega)]
  rw [hv]
  refine reaches_step (step_comment (getElem?_inside before _ after _ 0 _ rfl rfl)) ?_
  refine reaches_step (step_inst_2addr (getElem?_inside before _ after _ 1 _ rfl rfl) rfl) ?_
  refine reaches_step (step_comment (getElem?_inside before _ after _ 2 _ rfl rfl)) ?_
  refine reaches_step (step_branch_taken (getElem?_inside before _ after _ 3 _ rfl rfl)
    (by simp [branch_taken, Machine.next, Machine.set_reg, Machine.value]; omega)
    (label_index_inside before _ after lf _ hf (relational_code_label_false _ _ _ _ _))) ?_
  refine reaches_step (step_label (getElem?_inside before _ after _ 6 _ rfl rfl)) ?_
  refine reaches_step (step_move_reg_imm (getElem?_inside before _ after _ 7 _ rfl rfl)) ?_
  refine reaches_step (step_label (getElem?_inside before _ after _ 8 _ rfl rfl)) ?_
  refine reaches_of_eq ?_
  simp only [Machine.next, Machine.set_reg, Machine.mk.injEq]
  refine ⟨?_, trivial, rfl⟩
  funext r1
  split_ifs <;> rfl

theorem relational_code_run_ge_zero (before after : List IR) (reg : Register) (src : Operand)
    (lf ld : String) (_ : lf ≠ ld) (_ : IR.label lf ∉ before) (_ : IR.label ld ∉ before)
    (mreg : Register → Int) (mmem : String → Int)
    (h : mreg reg = operand_value mreg mmem src) :
    reaches (before ++ (relational_code .RELOP_GE reg src lf ld ++ after))
      ⟨mreg, mmem, before.length⟩
      { reg := fun r1 => if r1 = reg then
          (if relop_holds .RELOP_GE (mreg reg) (operand_value mreg mmem src) then 1 else 0)
          else mreg r1,
        mem := mmem,
        pc := before.length + (relational_code .RELOP_GE reg src lf ld).length } := by
  rename_i hne hf hd
  have hv : (if relop_holds .RELOP_GE (mreg reg) (operand_value mreg mmem src) = true
      then (1 : Int) else 0) = 1 := by
    simp only [relop_holds, decide_eq_true_eq]
    rw [if_pos (by omega)]
  rw [hv]
  refine reaches_step (step_comment (getElem?_inside before _ after _ 0 _ rfl rfl)) ?_
  refine reaches_step (step_inst_2addr (getElem?_inside before _ after _ 1 _ rfl rfl) rfl) ?_
  refine reaches_step (step_comment (getElem?_inside before _ after _ 2 _ rfl rfl)) ?_
  refine reaches_step (step_branch_not_taken (getElem?_inside before _ after _ 3 _ rfl rfl)
    (by simp [branch_taken, Machine.next, Machine.set_reg, Machine.value]; omega)) ?_
  refine reaches_step (step_move_reg_imm (getElem?_inside before _ after _ 4 _ rfl rfl)) ?_
  refine reaches_step (step_branch (getElem?_inside before _ after _ 5 _ rfl rfl)
    (label_index_inside before _ after ld _ hd (relational_code_label_done _ _ _ _ _ hne))) ?_
  refine reaches_step (step_label (getElem?_inside before _ after _ 8 _ rfl rfl)) ?_
  refine reaches_of_eq ?_
  simp only [Machine.next, Machine.set_reg, Machine.mk.injEq]
  refine ⟨?_, trivial, rfl⟩
  funext r1
  split_ifs <;> rfl

theorem relational_code_run_ge_pos (before after : List IR) (reg : Register) (src : Operand)
    (lf ld : String) (_ : lf ≠ ld) (_ : IR.label lf ∉ before) (_ : IR.label ld ∉ before)
    (mreg : Register → Int) (mmem : String → Int)
    (h : operand_value mreg mmem src < mreg reg) :
    reaches (before ++ (relational_code .RELOP_GE reg src lf ld ++ after))
      ⟨mreg, mmem, before.length⟩
      { reg := fun r1 => if r1 = reg then
          (if relop_holds .RELOP_GE (mreg reg) (operand_value mreg mmem src) then 1 else 0)
          else mreg r1,
        mem := mmem,
        pc := before.length + (relational_code .RELOP_GE reg src lf ld).length } := by
  rename_i hne hf hd
  have hv : (if relop_holds .RELOP_GE (mreg reg) (operand_value mreg mmem src) = true
      then (1 : Int) else 0) = 1 := by
    simp only [relop_holds, decide_eq_true_eq]
    rw [if_pos (by omega)]
  rw [hv]
  refine reaches_step (step_comment (getElem?_inside before _ after _ 0 _ rfl rfl)) ?_
  refine reaches_step (step_inst_2addr (getElem?_inside before _ after _ 1 _ rfl rfl) rfl) ?_
  refine reaches_step (step_comment (getElem?_inside before _ after _ 2 _ rfl rfl)) ?_
  refine reaches_step (step_branch_not_taken (getElem?_inside before _ after _ 3 _ rfl rfl)
    (by simp [branch_taken, Machine.next, Machine.set_reg, Machine.value]; omega)) ?_
  refine reaches_step (step_move_reg_imm (getElem?_inside before _ after _ 4 _ rfl rfl)) ?_
  refine reaches_step (step_branch (getElem?_inside before _ after _ 5 _ rfl rfl)
    (label_index_inside before _ after ld _ hd (relational_code_label_done _ _ _ _ _ hne))) ?_
  refine reaches_step (step_label (getElem?_inside before _ after _ 8 _ rfl rfl)) ?_
  refine reaches_of_eq ?_
  simp only [Machine.next, Machine.set_reg, Machine.mk.injEq]
  refine ⟨?_, trivial, rfl⟩
  funext r1
  split_ifs <;> rfl

theorem relational_code_run_lt_neg (before after : List IR) (reg : Register) (src : Operand)
    (lf ld : String) (_ : lf ≠ ld) (_ : IR.label lf ∉ before) (_ : IR.label ld ∉ before)
    (mreg : Register → Int) (mmem : String → Int)
    (h : mreg reg < operand_value mreg mmem src) :
    reaches (before ++ (relational_code .RELOP_LT reg src lf ld ++ after))
      ⟨mreg, mmem, before.length⟩
      { reg := fun r1 => if r1 = reg then
          (if relop_holds .RELOP_LT (mreg reg) (operand_value mreg mmem src) then 1 else 0)
          else mreg r1,
        mem := mmem,
        pc := before.length + (relational_code .RELOP_LT reg src lf ld).length } := by
  rename_i hne hf hd
  have hv : (if relop_holds .RELOP_LT (mreg reg) (operand_value mreg mmem src) = true
      then (1 : Int) else 0) = 1 := by
    simp only [relop_holds, decide_eq_true_eq]
    rw [if_pos (by omega)]
  rw [hv]
  refine reaches_step (step_comment (getElem?_inside before _ after _ 0 _ rfl rfl)) ?_
  refine reaches_step (step_inst_2addr (getElem?_inside before _ after _ 1 _ rfl rfl) rfl) ?_
  refine reaches_step (step_comment (getElem?_inside before _ after _ 2 _ rfl rfl)) ?_
  refine reaches_step (step_branch_not_taken (getElem?_inside before _ after _ 3 _ rfl rfl)
    (by simp [branch_taken, Machine.next, Machine.set_reg, Machine.value]; omega)) ?_
  refine reaches_step (step_branch_not_taken (getElem?_inside before _ after _ 4 _ rfl rfl)
    (by simp [branch_taken, Machine.next, Machine.set_reg, Machine.value]; omega)) ?_
  refine reaches_step (step_move_reg_imm (getElem?_inside before _ after _ 5 _ rfl rfl)) ?_
  refine reaches_step (step_branch (getElem?_inside before _ after _ 6 _ rfl rfl)
    (label_index_inside before _ after ld _ hd (relational_code_label_done _ _ _ _ _ hne))) ?_
  refine reaches_step (step_label (getElem?_inside before _ after _ 9 _ rfl rfl)) ?_
  refine reaches_of_eq ?_
  simp only [Machine.next, Machine.set_reg, Machine.mk.injEq]
  refine ⟨?_, trivial, rfl⟩
  funext r1
  split_ifs <;> rfl

theorem relational_code_run_lt_zero (before after : List IR) (reg : Register) (src : Operand)
    (lf ld : String) (_ : lf ≠ ld) (_ : IR.label lf ∉ before) (_ : IR.label ld ∉ before)
    (mreg : Register → Int) (mmem : String → Int)
    (h : mreg reg = operand_value mreg mmem src) :
    reaches (before ++ (relational_code .RELOP_LT reg src lf ld ++ after))
      ⟨mreg, mmem, before.length⟩
      { reg := fun r1 => if r1 = reg then
          (if relop_holds .RELOP_LT (mreg reg) (operand_value mreg mmem src) then 1 else 0)
          else mreg r1,
        mem := mmem,
        pc := before.length + (relational_code .RELOP_LT reg src lf ld).length } := by
  rename_i hne hf hd
  have hv : (if relop_holds .RELOP_LT (mreg reg) (operand_value mreg mmem src) = true
      then (1 : Int) else 0) = 0 := by
    simp only [relop_holds, decide_eq_true_eq]
    rw [if_neg (by omega)]
  rw [hv]
  refine reaches_step (step_comment (getElem?_inside before _ after _ 0 _ rfl rfl)) ?_
  refine reaches_step (step_inst_2addr (getElem?_inside before _ after _ 1 _ rfl rfl) rfl) ?_
  refine reaches_step (step_comment (getElem?_inside before _ after _ 2 _ rfl rfl)) ?_
  refine reaches_step (step_branch_taken (getElem?_inside before _ after _ 3 _ rfl rfl)
    (by simp [branch_taken, Machine.next, Machine.set_reg, Machine.value]; omega)
    (label_index_inside before _ after lf _ hf (relational_code_label_false _ _ _ _ _))) ?_
  refine reaches_step (step_label (getElem?_inside before _ after _ 7 _ rfl rfl)) ?_
  refine reaches_step (step_move_reg_imm (getElem?_inside before _ after _ 8 _ rfl rfl)) ?_
  refine reaches_step (step_label (getElem?_inside before _ after _ 9 _ rfl rfl)) ?_
  refine reaches_of_eq ?_
  simp only [Machine.next, Machine.set_reg, Machine.mk.injEq]
  refine ⟨?_, trivial, rfl⟩
  funext r1
  split_ifs <;> rfl

theorem relational_code_run_lt_pos (before after : List IR) (reg : Register) (src : Operand)
    (lf ld : String) (_ : lf ≠ ld) (_ : IR.label lf ∉ before) (_ : IR.label ld ∉ before)
    (mreg : Register → Int) (mmem : String → Int)
    (h : operand_value mreg mmem src < mreg reg) :
    reaches (before ++ (relational_code .RELOP_LT reg src lf ld ++ after))
      ⟨mreg, mmem, before.length⟩
      { reg := fun r1 => if r1 = reg then
          (if relop_holds .RELOP_LT (mreg reg) (operand_value mreg mmem src) then 1 else 0)
          else mreg r1,
        mem := mmem,
        pc := before.length + (relational_code .RELOP_LT reg src lf ld).length } := by
  rename_i hne hf hd
  have hv : (if relop_holds .RELOP_LT (mreg reg) (operand_value mreg mmem src) = true
      then (1 : Int) else 0) = 0 := by
    simp only [relop_holds, decide_eq_true_eq]
    rw [if_neg (by omega)]
  rw [hv]
  refine reaches_step (step_comment (getElem?_inside before _ after _ 0 _ rfl rfl)) ?_
  refine reaches_step (step_inst_2addr (getElem?_inside before _ after _ 1 _ rfl rfl) rfl) ?_
  refine reaches_step (step_comment (getElem?_inside before _ after _ 2 _ rfl rfl)) ?_
  refine reaches_step (step_branch_not_taken (getElem?_inside before _ after _ 3 _ rfl rfl)
    (by simp [branch_taken, Machine.next, Machine.set_reg, Machine.value]; omega)) ?_
  refine reaches_step (step_branch_taken (getElem?_inside before _ after _ 4 _ rfl rfl)
    (by simp [branch_taken, Machine.next, Machine.set_reg, Machine.value]; omega)
    (label_index_inside before _ after lf _ hf (relational_code_label_false _ _ _ _ _))) ?_
  refine reaches_step (step_label (getElem?_inside before _ after _ 7 _ rfl rfl)) ?_
  refine reaches_step (step_move_reg_imm (getElem?_inside before _ after _ 8 _ rfl rfl)) ?_
  refine reaches_step (step_label (getElem?_inside before _ after _ 9 _ rfl rfl)) ?_
  refine reaches_of_eq ?_
  simp only [Machine.next, Machine.set_reg, Machine.mk.injEq]
  refine ⟨?_, trivial, rfl⟩
  funext r1
  split_ifs <;> rfl

theorem relational_code_run_le_neg (before after : List IR) (reg : Register) (src : Operand)
    (lf ld : String) (_ : lf ≠ ld) (_ : IR.label lf ∉ before) (_ : IR.label ld ∉ before)
    (mreg : Register → Int) (mmem : String → Int)
    (h : mreg reg < operand_value mreg mmem src) :
    reaches (before ++ (relational_code .RELOP_LE reg src lf ld ++ after))
      ⟨mreg, mmem, before.length⟩
      { reg := fun r1 => if r1 = reg then
          (if relop_holds .RELOP_LE (mreg reg) (operand_value mreg mmem src) then 1 else 0)
          else mreg r1,
        mem := mmem,
        pc := before.length + (relational_code .RELOP_LE reg src lf ld).length } := by
  rename_i hne hf hd
  have hv : (if relop_holds .RELOP_LE (mreg reg) (operand_value mreg mmem src) = true
      then (1 : Int) else 0) = 1 := by
    simp only [relop_holds, decide_eq_true_eq]
    rw [if_pos (by omega)]
  rw [hv]
  refine reaches_step (step_comment (getElem?_inside before _ after _ 0 _ rfl rfl)) ?_
  refine reaches_step (step_inst_2addr (getElem?_inside before _ after _ 1 _ rfl rfl) rfl) ?_
  refine reaches_step (step_comment (getElem?_inside before _ after _ 2 _ rfl rfl)) ?_
  refine reaches_step (step_branch_not_taken (getElem?_inside before _ after _ 3 _ rfl rfl)
    (by simp [branch_taken, Machine.next, Machine.set_reg, Machine.value]; omega)) ?_
  refine reaches_step (step_move_reg_imm (getElem?_inside before _ after _ 4 _ rfl rfl)) ?_
  refine reaches_step (step_branch (getElem?_inside before _ after _ 5 _ rfl rfl)
    (label_index_inside before _ after ld _ hd (relational_code_label_done _ _ _ _ _ hne))) ?_
  refine reaches_step (step_label (getElem?_inside before _ after _ 8 _ rfl rfl)) ?_
  refine reaches_of_eq ?_
  simp only [Machine.next, Machine.set_reg, Machine.mk.injEq]
  refine ⟨?_, trivial, rfl⟩
  funext r1
  split_ifs <;> rfl

theorem relational_code_run_le_zero (before after : List IR) (reg : Register) (src : Operand)
    (lf ld : String) (_ : lf ≠ ld) (_ : IR.label lf ∉ before) (_ : IR.label ld ∉ before)
    (mreg : Register → Int) (mmem : String → Int)
    (h : mreg reg = operand_value mreg mmem src) :
    reaches (before ++ (relational_code .RELOP_LE reg src lf ld ++ after))
      ⟨mreg, mmem, before.length⟩
      { reg := fun r1 => if r1 = reg then
          (if relop_holds .RELOP_LE (mreg reg) (operand_value mreg mmem src) then 1 else 0)
          else mreg r1,
        mem := mmem,
        pc := before.length + (relational_code .RELOP_LE reg src lf ld).length } := by
  rename_i hne hf hd
  have hv : (if relop_holds .RELOP_LE (mreg reg) (operand_value mreg mmem src) = true
      then (1 : Int) else 0) = 1 := by
    simp only [relop_holds, decide_eq_true_eq]
    rw [if_pos (by omega)]
  rw [hv]
  refine reaches_step (step_comment (getElem?_inside before _ after _ 0 _ rfl rfl)) ?_
  refine reaches_step (step_inst_2addr (getElem?_inside before _ after _ 1 _ rfl rfl) rfl) ?_
  refine reaches_step (step_comment (getElem?_inside before _ after _ 2 _ rfl rfl)) ?_
  refine reaches_step (step_branch_not_taken (getElem?_inside before _ after _ 3 _ rfl rfl)
    (by simp [branch_taken, Machine.next, Machine.set_reg, Machine.value]; omega)) ?_
  refine reaches_step (step_move_reg_imm (getElem?_inside before _ after _ 4 _ rfl rfl)) ?_
  refine reaches_step (step_branch (getElem?_inside before _ after _ 5 _ rfl rfl)
    (label_index_inside before _ after ld _ hd (relational_code_label_done _ _ _ _ _ hne))) ?_
  refine reaches_step (step_label (getElem?_inside before _ after _ 8 _ rfl rfl)) ?_
  refine reaches_of_eq ?_
  simp only [Machine.next, Machine.set_reg, Machine.mk.injEq]
  refine ⟨?_, trivial, rfl⟩
  funext r1
  split_ifs <;> rfl

theorem relational_code_run_le_pos (before after : List IR) (reg : Register) (src : Operand)
    (lf ld : String) (_ : lf ≠ ld) (_ : IR.label lf ∉ before) (_ : IR.label ld ∉ before)
    (mreg : Register → Int) (mmem : String → Int)
    (h : operand_value mreg mmem src < mreg reg) :
    reaches (before ++ (relational_code .RELOP_LE reg src lf ld ++ after))
      ⟨mreg, mmem, before.length⟩
      { reg := fun r1 => if r1 = reg then
          (if relop_holds .RELOP_LE (mreg reg) (operand_value mreg mmem src) then 1 else 0)
          else mreg r1,
        mem := mmem,
        pc := before.length + (relational_code .RELOP_LE reg src lf ld).length } := by
  rename_i hne hf hd
  have hv : (if relop_holds .RELOP_LE (mreg reg) (operand_value mreg mmem src) = true
      then (1 : Int) else 0) = 0 := by
    simp only [relop_holds, decide_eq_true_eq]
    rw [if_neg (by omega)]
  rw [hv]
  refine reaches_step (step_comment (getElem?_inside before _ after _ 0 _ rfl rfl)) ?_
  refine reaches_step (step_inst_2addr (getElem?_inside before _ after _ 1 _ rfl rfl) rfl) ?_
  refine reaches_step (step_comment (getElem?_inside before _ after _ 2 _ rfl rfl)) ?_
  refine reaches_step (step_branch_taken (getElem?_inside before _ after _ 3 _ rfl rfl)
    (by simp [branch_taken, Machine.next, Machine.set_reg, Machine.value]; omega)
    (label_index_inside before _ after lf _ hf (relational_code_label_false _ _ _ _ _))) ?_
  refine reaches_step (step_label (getElem?_inside before _ after _ 6 _ rfl rfl)) ?_
  refine reaches_step (step_move_reg_imm (getElem?_inside before _ after _ 7 _ rfl rfl)) ?_
  refine reaches_step (step_label (getElem?_inside before _ after _ 8 _ rfl rfl)) ?_
  refine reaches_of_eq ?_
  simp only [Machine.next, Machine.set_reg, Machine.mk.injEq]
  refine ⟨?_, trivial, rfl⟩
  funext r1
  split_ifs <;> rfl

/-- The relational code run inside a program: from a state at its first line
in which the left register holds `l` and the right operand denotes `r`, the
machine reaches the line after the code, just behind the label
`compare_done`, with 1 in the left register if the relation holds and 0
otherwise; the other registers and the memory are left as they are.  The two
labels are different and not defined before the code. -/
theorem relational_code_run (c : relop_attr) (before after : List IR) (reg : Register)
    (src : Operand) (lf ld : String) (hne : lf ≠ ld) (hf : IR.label lf ∉ before)
    (hd : IR.label ld ∉ before) (m : Machine) (h0 : m.pc = before.length) :
    reaches (before ++ (relational_code c reg src lf ld ++ after)) m
      { reg := fun r1 => if r1 = reg then
          (if relop_holds c (m.reg reg) (m.value src) then 1 else 0) else m.reg r1,
        mem := m.mem,
        pc := before.length + (relational_code c reg src lf ld).length } := by
  obtain ⟨mreg, mmem, mpc⟩ := m
  simp only at h0
  subst h0
  rcases lt_trichotomy (mreg reg) (operand_value mreg mmem src) with h | h | h
  · cases c
    · exact relational_code_run_eq_neg before after reg src lf ld hne hf hd mreg mmem h
    · exact relational_code_run_ne_neg before after reg src lf ld hne hf hd mreg mmem h
    · exact relational_code_run_gt_neg before after reg src lf ld hne hf hd mreg mmem h
    · exact relational_code_run_ge_neg before after reg src lf ld hne hf hd mreg mmem h
    · exact relational_code_run_lt_neg before after reg src lf ld hne hf hd mreg mmem h
    · exact relational_code_run_le_neg before after reg src lf ld hne hf hd mreg mmem h
  · cases c
    · exact relational_code_run_eq_zero before after reg src lf ld hne hf hd mreg mmem h
    · exact relational_code_run_ne_zero before after reg src lf ld hne hf hd mreg mmem h
    · exact relational_code_run_gt_zero before after reg src lf ld hne hf hd mreg mmem h
    · exact relational_code_run_ge_zero before after reg src lf ld hne hf hd mreg mmem h
    · exact relational_code_run_lt_zero before after reg src lf ld hne hf hd mreg mmem h
    · exact relational_code_run_le_zero before after reg src lf ld hne hf hd mreg mmem h
  · cases c
    · exact relational_code_run_eq_pos before after reg src lf ld hne hf hd mreg mmem h
    · exact relational_code_run_ne_pos before after reg src lf ld hne hf hd mreg mmem h
    · exact relational_code_run_gt_pos before after reg src lf ld hne hf hd mreg mmem h
    · exact relational_code_run_ge_pos before after reg src lf ld hne hf hd mreg mmem h
    · exact relational_code_run_lt_pos before after reg src lf ld hne hf hd mreg mmem h
    · exact relational_code_run_le_pos before after reg src lf ld hne hf hd mreg mmem h

/-- The labels of the two stems of a relational operator are different,
whatever their numbers are. -/
theorem compare_false_ne_compare_done (a b : String) :
    "compare_false" ++ a ≠ "compare_done" ++ b := by
  intro h
  have h1 := congrArg String.data h
  simp only [String.data_append] at h1
  have h2 := congrArg (fun l => l[8]?) h1
  simp at h2

/-! ### Calls and names of the program level -/

/-! ### The lookahead of an expression that is parsed successfully -/

theorem parse_factor_starts {fuel : Nat} {t ty : expr_type} {op : Nat} {p q : Parser}
    (h : parse_factor fuel t op p = .ok (true, ty) q) : starts_expression p.word = true := by
  cases fuel with
  | zero => rw [parse_factor] at h; cases h
  | succ fuel =>
    by_contra hs
    rw [parse_factor] at h
    simp only [bind_apply, get_word_apply] at h
    cases hw : p.word with
    | TOKEN_ID x => simp [starts_expression, hw, is_identifier] at hs
    | TOKEN_NUM n => simp [starts_expression, hw, is_number] at hs
    | TOKEN_PUNC a =>
      rw [hw] at h hs
      have ha : is_punctuation (.TOKEN_PUNC a) .PUNC_OPEN = false := by
        cases hc : is_punctuation (.TOKEN_PUNC a) .PUNC_OPEN
        · rfl
        · simp [starts_expression, hc] at hs
      simp [ha, is_addop_attr, is_keyword, pure_apply] at h
    | TOKEN_ADDOP a =>
      rw [hw] at h hs
      cases a <;> simp [starts_expression, is_identifier, is_number, is_punctuation,
        is_addop_attr, is_keyword] at hs
      simp [is_punctuation, is_addop_attr, is_keyword, pure_apply] at h
    | TOKEN_KEYWORD a =>
      rw [hw] at h hs
      have ha : is_keyword (.TOKEN_KEYWORD a) .KW_NOT = false := by
        cases hc : is_keyword (.TOKEN_KEYWORD a) .KW_NOT
        · rfl
        · simp [starts_expression, hc] at hs
      simp [ha, is_addop_attr, is_punctuation, pure_apply] at h
    | TOKEN_RELOP a =>
      rw [hw] at h
      simp [is_punctuation, is_addop_attr, is_keyword, pure_apply] at h
    | TOKEN_MULOP a =>
      rw [hw] at h
      simp [is_punctuation, is_addop_attr, is_keyword, pure_apply] at h
    | TOKEN_EOF =>
      rw [hw] at h
      simp [is_punctuation, is_addop_attr, is_keyword, pure_apply] at h

theorem parse_term_starts {fuel : Nat} {t ty : expr_type} {op : Nat} {p q : Parser}
    (h : parse_term fuel t op p = .ok (true, ty) q) : starts_expression p.word = true := by
  cases fuel with
  | zero => rw [parse_term] at h; cases h
  | succ fuel =>
    rw [parse_term] at h
    obtain ⟨⟨b, t1⟩, p1, h1, h⟩ := bind_eq_ok h
    cases b with
    | true => exact parse_factor_starts h1
    | false => simp [pure_apply] at h

theorem parse_simple_expr_starts {fuel : Nat} {t ty : expr_type} {op : Nat} {p q : Parser}
    (h : parse_simple_expr fuel t op p = .ok (true, ty) q) :
    starts_expression p.word = true := by
  cases fuel with
  | zero => rw [parse_simple_expr] at h; cases h
  | succ fuel =>
    rw [parse_simple_expr] at h
    obtain ⟨⟨b, t1⟩, p1, h1, h⟩ := bind_eq_ok h
    cases b with
    | true => exact parse_term_starts h1
    | false => simp [pure_apply] at h

/-- An expression that is parsed successfully starts with an identifier, a
number, `(`, `+`, `-` or `not`. -/
theorem parse_expr_starts {fuel : Nat} {t ty : expr_type} {op : Nat} {p q : Parser}
    (h : parse_expr fuel t op p = .ok (true, ty) q) : starts_expression p.word = true := by
  cases fuel with
  | zero => rw [parse_expr] at h; cases h
  | succ fuel =>
    rw [parse_expr] at h
    obtain ⟨⟨b, t1⟩, p1, h1, h⟩ := bind_eq_ok h
    cases b with
    | true => exact parse_simple_expr_starts h1
    | false => simp [pure_apply] at h

theorem actual_parms_starts {fuel : Nat} {p q : Parser}
    {acts : List (expr_type × Parser × Parser)} (h : actual_parms fuel p acts q) :
    starts_expression p.word = true := by
  have key : ∀ (fuel e : Nat) (p p1 : Parser) (t : expr_type), (do
        let expression ← new_operand_slot none
        let expr ← parse_expr (fuel + 1) .GARBAGE_T expression
        pure (expression, expr)) p = .ok (e, (true, t)) p1 →
      starts_expression p.word = true := by
    intro fuel e p p1 t hE
    obtain ⟨e1, p0, h0, hE⟩ := bind_eq_ok hE
    obtain ⟨⟨b, t1⟩, p2, h2, hE⟩ := bind_eq_ok hE
    simp only [pure_apply, Res.ok.injEq, Prod.mk.injEq] at hE
    obtain ⟨⟨-, rfl, rfl⟩, -⟩ := hE
    have hw : p0.word = p.word := by
      simp only [new_operand_slot, Res.ok.injEq] at h0
      rw [← h0.2]
    rw [← hw]
    exact parse_expr_starts h2
  induction h with
  | last fuel e p p1 p2 t hE _ _ => exact key _ _ _ _ _ hE
  | more fuel e p p1 p2 q t acts hE _ _ _ _ => exact key _ _ _ _ _ hE

/-- Along a list of actual parameters `parse_actual_parm_list` returns true,
with the record at the end of the list in which the operand variables of the
parameters have gone out of scope. -/
theorem actual_parms_returns {fuel : Nat} {p q : Parser}
    {acts : List (expr_type × Parser × Parser)} (h : actual_parms fuel p acts q) :
    ∃ s, parse_actual_parm_list fuel p = .ok true { q with slots := s } := by
  induction h with
  | last fuel e p p1 p2 t hE hcheck hcomma =>
    refine ⟨p2.slots.modify (fun s => { s with live := false }) e, ?_⟩
    rw [parse_actual_parm_list_step (fuel + 1) e p p1 t hE, bind_apply, hcheck]
    simp only [bind_apply, parse_actual_parm_list_hat_done fuel p2 hcomma]
    rfl
  | more fuel e p p1 p2 q t acts hE hcheck hcomma _ ih =>
    obtain ⟨s, hs⟩ := ih
    refine ⟨s.modify (fun s => { s with live := false }) e, ?_⟩
    rw [parse_actual_parm_list_step (fuel + 1) e p p1 t hE, bind_apply, hcheck]
    simp only [bind_apply, parse_actual_parm_list_hat_more fuel p2 hcomma, hs]
    rfl

/-- The diagnostics at the end of a list of actual parameters in which no
expression has written a diagnostic and every expression has the type of the
formal parameter of its position: those at the start of the list. -/
theorem actual_parms_silent {fuel : Nat} {p q : Parser}
    {acts : List (expr_type × Parser × Parser)} (h : actual_parms fuel p acts q)
    (hs : actuals_silent p acts)
    (ht : ∀ (i : Nat) (t : expr_type) (p1 p2 : Parser), acts[i]? = some (t, p1, p2) →
      t = p.stab.get_type_pos p.procedure_name (p.actual_parm_position + i)) :
    q.diagnostics = p.diagnostics := by
  induction h with
  | last fuel e p p1 p2 t hE hcheck hcomma =>
    obtain ⟨_, hst, _, _, hn, hpos⟩ := declarations_fields (actual_parm_expr_declarations hE)
    obtain ⟨hd, _, _, _, _⟩ := actual_parm_check_ok hcheck
    have h0 := ht 0 t p1 p2 (List.getElem?_cons_zero)
    rw [hd, hst, hn, hpos, hs.1]
    simp only [actual_errors, Nat.cast_zero, add_zero] at h0 ⊢
    rw [if_pos h0, List.append_nil]
  | more fuel e p p1 p2 q t acts hE hcheck hcomma _ ih =>
    obtain ⟨_, hst, _, _, hn, hpos⟩ := declarations_fields (actual_parm_expr_declarations hE)
    obtain ⟨hd, hs2, hn2, hpos2, _⟩ := actual_parm_check_ok hcheck
    have ha : p2.advanced.stab = p2.stab ∧ p2.advanced.procedure_name = p2.procedure_name
        ∧ p2.advanced.actual_parm_position = p2.actual_parm_position
        ∧ p2.advanced.diagnostics = p2.diagnostics := by
      unfold Parser.advanced
      cases p2.lex <;> exact ⟨rfl, rfl, rfl, rfl⟩
    have h0 := ht 0 t p1 p2 (List.getElem?_cons_zero)
    have hp2 : p2.diagnostics = p.diagnostics := by
      rw [hd, hst, hn, hpos, hs.1]
      simp only [actual_errors, Nat.cast_zero, add_zero] at h0 ⊢
      rw [if_pos h0, List.append_nil]
    rw [ih hs.2, ha.2.2.2, hp2]
    intro i t1 q1 q2 hi
    have h1 := ht (i + 1) t1 q1 q2 (by simpa using hi)
    rw [h1, ha.1, ha.2.1, ha.2.2.1, hs2, hn2, hpos2, hst, hn, hpos]
    congr 1
    push_cast
    ring

/-- A call whose callee is a procedure and whose list of actual parameters
has been parsed up to the closing bracket is accepted, and nothing is written
after the list. -/
theorem parse_stmt_call_accepted (fuel : Nat) (p pa qL : Parser) (id : String) (e : Nat)
    (hw : p.word = .TOKEN_ID id)
    (hpre : (do
      set_procedure_name id
      advance
      new_operand_slot (some (.OPTYPE_MEMORY id))) p = .ok e pa)
    (hopen : is_punctuation pa.word .PUNC_OPEN = true)
    (hmain : p.stab.get_type id p.main_env = .PROCEDURE_T)
    (hcur : p.stab.get_type id p.current_env = .PROCEDURE_T)
    (hL : parse_expr_list fuel (call_entered [] pa) = .ok true qL)
    (hclose : is_punctuation qL.word .PUNC_CLOSE = true) :
    ∃ qf, parse_stmt (fuel + 2) p = .ok true qf ∧ qf.diagnostics = qL.diagnostics := by
  have hdecl : p.stab.is_decl id p.current_env = true :=
    is_decl_of_get_type (by rw [hcur]; decide)
  have hpa : pa.stab = p.stab ∧ pa.current_env = p.current_env := by
    simp only [bind_apply, set_procedure_name, modifyp_apply, advance_apply, new_operand_slot,
      Res.ok.injEq] at hpre
    rw [← hpre.2]
    simp only [Parser.advanced]
    split <;> exact ⟨rfl, rfl⟩
  have hce : (call_entered [] pa).stab = pa.stab
      ∧ (call_entered [] pa).current_env = pa.current_env := by
    simp only [call_entered, bind_apply, reset_actual_parm_position, modifyp_apply,
      advance_apply, Res.parser, Parser.advanced, report_all_nil]
    split <;> exact ⟨rfl, rfl⟩
  have hsc := scope_fields (parse_expr_list_scope fuel (call_entered [] pa))
  rw [hL] at hsc
  simp only [Res.parser] at hsc
  have hadv : qL.advanced.stab = qL.stab ∧ qL.advanced.current_env = qL.current_env
      ∧ qL.advanced.diagnostics = qL.diagnostics := by
    unfold Parser.advanced
    cases qL.lex <;> exact ⟨rfl, rfl, rfl⟩
  have hidty : qL.advanced.stab.get_type id qL.advanced.current_env = .PROCEDURE_T := by
    rw [hadv.1, hadv.2.1, hsc.1, hsc.2, hce.1, hce.2, hpa.1, hpa.2, hcur]
  have hentry : (do reset_actual_parm_position; advance) pa = .ok () (call_entered [] pa) := by
    simp only [call_entered, report_all_nil, bind_apply, reset_actual_parm_position,
      modifyp_apply, advance_apply, Res.parser]
  have htail : expr_list_tail .GARBAGE_T true qL = .ok (true, .PROCEDURE_T) qL.advanced := by
    simp [expr_list_tail, bind_apply, get_word_apply, hclose, advance_apply, pure_apply]
  refine ⟨(end_of_scope e qL.advanced).parser, ?_, hadv.2.2⟩
  rw [parse_stmt_call fuel p pa id e hw hdecl hpre hopen]
  have hcallee : callee_errors p.stab id p.main_env = [] := by
    simp [callee_errors, hmain]
  rw [hcallee, bind_apply, checked_nil]
  simp only [bind_apply, reset_actual_parm_position, modifyp_apply, advance_apply] at hentry ⊢
  simp only [Res.ok.injEq, true_and] at hentry
  rw [hentry, hL]
  simp only [htail, adhoc_as_pc_tail_semantics_true, hidty, if_true, checked_nil, ne_eq,
    not_true_eq_false, if_false, bind_apply, pure_apply, end_of_scope, modifyp_apply, Res.parser]

/-! ### Names of the program level are declared in every environment -/

/-- A name that has an entry in the program environment is declared in every
environment: the lookup falls back to the program environment. -/
theorem is_decl_of_program_level (t : Symbol_Table) (x m env : String)
    (hm : t.program_env = some m) (hx : (t.lookup x m).isSome = true) :
    t.is_decl x env = true := by
  unfold Symbol_Table.is_decl Symbol_Table.lookup_scoped
  cases hl : t.lookup x env with
  | some y => rfl
  | none =>
    simp only [hm]
    by_cases he : env = m
    · subst he
      rw [hl] at hx
      cases hx
    · rw [if_neg he]
      exact hx

theorem program_env_install (t : Symbol_Table) (x env m : String) (ty : expr_type)
    (hm : t.program_env = some m) : (t.install x env ty).program_env = some m := by
  unfold Symbol_Table.program_env Symbol_Table.install at *
  simp only [List.find?_append]
  cases hf : t.entries.find? (fun x => decide (x.type = expr_type.PROGRAM_T)) with
  | none => rw [hf] at hm; cases hm
  | some y => rw [hf] at hm; simpa using hm

theorem lookup_install_self (t : Symbol_Table) (x env : String) (ty : expr_type) :
    ((t.install x env ty).lookup x env).isSome = true := by
  unfold Symbol_Table.lookup Symbol_Table.install
  simp only [List.find?_append]
  cases t.entries.find? (fun y => decide (y.id = x) && decide (y.env = env)) with
  | some y => rfl
  | none => simp

/-- The guard of a declaration site at a name of the program level: the
multiply-defined-identifier error, and the record with this one diagnostic
appended and nothing else changed. -/
theorem declare_program_level (x m : String) (install : M Unit) (p : Parser)
    (hm : p.stab.program_env = some m) (hx : (p.stab.lookup x m).isSome = true) :
    declare x install p = checked [.multiply_defined_identifier x] () p
    ∧ (declare x install p).parser = report_all [.multiply_defined_identifier x] p := by
  have h := declare_of_decl x install p (is_decl_of_program_level _ _ _ _ hm hx)
  refine ⟨h, ?_⟩
  rw [h]
  unfold checked
  cases p.test_mode <;> rfl

/-! ### Derivations of the grammar -/

theorem derives_term_id (x : String) : derives .TERM [.TOKEN_ID x] :=
  derives.term [.TOKEN_ID x] [] (derives.factor_id x) derives.term_prm_nil

theorem derives_term_num (n : Nat) : derives .TERM [.TOKEN_NUM n] :=
  derives.term [.TOKEN_NUM n] [] (derives.factor_num n) derives.term_prm_nil

theorem derives_expr_num (n : Nat) : derives .EXPR [.TOKEN_NUM n] :=
  derives.expr [.TOKEN_NUM n] []
    (derives.simple_expr [.TOKEN_NUM n] [] (derives_term_num n) derives.simple_expr_prm_nil)
    derives.expr_hat_nil

theorem derives_expr_sum (x y : String) :
    derives .EXPR [.TOKEN_ID x, .TOKEN_ADDOP .ADDOP_ADD, .TOKEN_ID y] :=
  derives.expr [.TOKEN_ID x, .TOKEN_ADDOP .ADDOP_ADD, .TOKEN_ID y] []
    (derives.simple_expr [.TOKEN_ID x] [.TOKEN_ADDOP .ADDOP_ADD, .TOKEN_ID y] (derives_term_id x)
      (derives.simple_expr_prm_cons .ADDOP_ADD [.TOKEN_ID y] [] (derives_term_id y)
        derives.simple_expr_prm_nil))
    derives.expr_hat_nil

theorem derives_assign_num (x : String) (n : Nat) :
    derives .STMT [.TOKEN_ID x, .TOKEN_PUNC .PUNC_ASSIGN, .TOKEN_NUM n] :=
  derives.stmt_id x _ (derives.tail_assign _ (derives_expr_num n))

theorem derives_call_sum (q x y : String) :
    derives .STMT [.TOKEN_ID q, .TOKEN_PUNC .PUNC_OPEN, .TOKEN_ID x, .TOKEN_ADDOP .ADDOP_ADD,
      .TOKEN_ID y, .TOKEN_PUNC .PUNC_CLOSE] :=
  derives.stmt_id q _ (derives.tail_call [.TOKEN_ID x, .TOKEN_ADDOP .ADDOP_ADD, .TOKEN_ID y]
    (derives.expr_list_some _
      (derives.actual_parm_list [.TOKEN_ID x, .TOKEN_ADDOP .ADDOP_ADD, .TOKEN_ID y] []
        (derives_expr_sum x y) derives.actual_parm_list_hat_nil)))

/-- The program `prog_three_calls_then_assignment` is derivable from
`PROGRAM`. -/
theorem derives_three_calls_then_assignment :
    derives .PROGRAM prog_three_calls_then_assignment :=
  derives.program "p"
    [.TOKEN_ID "a", .TOKEN_PUNC .PUNC_COMMA, .TOKEN_ID "b", .TOKEN_PUNC .PUNC_COLON,
     .TOKEN_KEYWORD .KW_INT, .TOKEN_PUNC .PUNC_SEMI,
     .TOKEN_KEYWORD .KW_PROCEDURE, .TOKEN_ID "q", .TOKEN_PUNC .PUNC_OPEN, .TOKEN_ID "x",
     .TOKEN_PUNC .PUNC_COLON, .TOKEN_KEYWORD .KW_INT, .TOKEN_PUNC .PUNC_CLOSE,
     .TOKEN_KEYWORD .KW_BEGIN, .TOKEN_ID "x", .TOKEN_PUNC .PUNC_ASSIGN, .TOKEN_NUM 1,
     .TOKEN_PUNC .PUNC_SEMI, .TOKEN_KEYWORD .KW_END, .TOKEN_PUNC .PUNC_SEMI]
    [.TOKEN_KEYWORD .KW_BEGIN,
     .TOKEN_ID "q", .TOKEN_PUNC .PUNC_OPEN, .TOKEN_ID "a", .TOKEN_ADDOP .ADDOP_ADD, .TOKEN_ID "b",
     .TOKEN_PUNC .PUNC_CLOSE, .TOKEN_PUNC .PUNC_SEMI,
     .TOKEN_ID "q", .TOKEN_PUNC .PUNC_OPEN, .TOKEN_ID "a", .TOKEN_ADDOP .ADDOP_ADD, .TOKEN_ID "b",
     .TOKEN_PUNC .PUNC_CLOSE, .TOKEN_PUNC .PUNC_SEMI,
     .TOKEN_ID "q", .TOKEN_PUNC .PUNC_OPEN, .TOKEN_ID "a", .TOKEN_ADDOP .ADDOP_ADD, .TOKEN_ID "b",
     .TOKEN_PUNC .PUNC_CLOSE, .TOKEN_PUNC .PUNC_SEMI,
     .TOKEN_ID "a", .TOKEN_PUNC .PUNC_ASSIGN, .TOKEN_NUM 1, .TOKEN_PUNC .PUNC_SEMI,
     .TOKEN_KEYWORD .KW_END]
    (derives.decl_list
      [.TOKEN_ID "a", .TOKEN_PUNC .PUNC_COMMA, .TOKEN_ID "b", .TOKEN_PUNC .PUNC_COLON,
       .TOKEN_KEYWORD .KW_INT, .TOKEN_PUNC .PUNC_SEMI]
      [.TOKEN_KEYWORD .KW_PROCEDURE, .TOKEN_ID "q", .TOKEN_PUNC .PUNC_OPEN, .TOKEN_ID "x",
       .TOKEN_PUNC .PUNC_COLON, .TOKEN_KEYWORD .KW_INT, .TOKEN_PUNC .PUNC_CLOSE,
       .TOKEN_KEYWORD .KW_BEGIN, .TOKEN_ID "x", .TOKEN_PUNC .PUNC_ASSIGN, .TOKEN_NUM 1,
       .TOKEN_PUNC .PUNC_SEMI, .TOKEN_KEYWORD .KW_END, .TOKEN_PUNC .PUNC_SEMI]
      (derives.var_decl_list_cons
        [.TOKEN_ID "a", .TOKEN_PUNC .PUNC_COMMA, .TOKEN_ID "b", .TOKEN_PUNC .PUNC_COLON,
         .TOKEN_KEYWORD .KW_INT] []
        (derives.var_decl [.TOKEN_ID "a", .TOKEN_PUNC .PUNC_COMMA, .TOKEN_ID "b"]
          [.TOKEN_KEYWORD .KW_INT]
          (derives.id_list "a" _ (derives.id_list_prm_cons "b" [] derives.id_list_prm_nil))
          derives.standard_type_int)
        derives.var_decl_list_nil)
      (derives.proc_decl_list_cons
        [.TOKEN_KEYWORD .KW_PROCEDURE, .TOKEN_ID "q", .TOKEN_PUNC .PUNC_OPEN, .TOKEN_ID "x",
         .TOKEN_PUNC .PUNC_COLON, .TOKEN_KEYWORD .KW_INT, .TOKEN_PUNC .PUNC_CLOSE,
         .TOKEN_KEYWORD .KW_BEGIN, .TOKEN_ID "x", .TOKEN_PUNC .PUNC_ASSIGN, .TOKEN_NUM 1,
         .TOKEN_PUNC .PUNC_SEMI, .TOKEN_KEYWORD .KW_END] []
        (derives.proc_decl "q"
          [.TOKEN_ID "x", .TOKEN_PUNC .PUNC_COLON, .TOKEN_KEYWORD .KW_INT] []
          [.TOKEN_KEYWORD .KW_BEGIN, .TOKEN_ID "x", .TOKEN_PUNC .PUNC_ASSIGN, .TOKEN_NUM 1,
           .TOKEN_PUNC .PUNC_SEMI, .TOKEN_KEYWORD .KW_END]
          (derives.proc_args_some _
            (derives.formal_parm_list "x" [] [.TOKEN_KEYWORD .KW_INT] []
              derives.id_list_prm_nil derives.standard_type_int
              derives.formal_parm_list_hat_nil))
          derives.var_decl_list_nil
          (derives.block [.TOKEN_ID "x", .TOKEN_PUNC .PUNC_ASSIGN, .TOKEN_NUM 1,
              .TOKEN_PUNC .PUNC_SEMI]
            (derives.stmt_list_stmt [.TOKEN_ID "x", .TOKEN_PUNC .PUNC_ASSIGN, .TOKEN_NUM 1] []
              (derives_assign_num "x" 1) derives.stmt_list_prm_nil)))
        derives.proc_decl_list_nil))
    (derives.block
      [.TOKEN_ID "q", .TOKEN_PUNC .PUNC_OPEN, .TOKEN_ID "a", .TOKEN_ADDOP .ADDOP_ADD,
       .TOKEN_ID "b", .TOKEN_PUNC .PUNC_CLOSE, .TOKEN_PUNC .PUNC_SEMI,
       .TOKEN_ID "q", .TOKEN_PUNC .PUNC_OPEN, .TOKEN_ID "a", .TOKEN_ADDOP .ADDOP_ADD,
       .TOKEN_ID "b", .TOKEN_PUNC .PUNC_CLOSE, .TOKEN_PUNC .PUNC_SEMI,
       .TOKEN_ID "q", .TOKEN_PUNC .PUNC_OPEN, .TOKEN_ID "a", .TOKEN_ADDOP .ADDOP_ADD,
       .TOKEN_ID "b", .TOKEN_PUNC .PUNC_CLOSE, .TOKEN_PUNC .PUNC_SEMI,
       .TOKEN_ID "a", .TOKEN_PUNC .PUNC_ASSIGN, .TOKEN_NUM 1, .TOKEN_PUNC .PUNC_SEMI]
      (derives.stmt_list_stmt _
        [.TOKEN_ID "q", .TOKEN_PUNC .PUNC_OPEN, .TOKEN_ID "a", .TOKEN_ADDOP .ADDOP_ADD,
         .TOKEN_ID "b", .TOKEN_PUNC .PUNC_CLOSE, .TOKEN_PUNC .PUNC_SEMI,
         .TOKEN_ID "q", .TOKEN_PUNC .PUNC_OPEN, .TOKEN_ID "a", .TOKEN_ADDOP .ADDOP_ADD,
         .TOKEN_ID "b", .TOKEN_PUNC .PUNC_CLOSE, .TOKEN_PUNC .PUNC_SEMI,
         .TOKEN_ID "a", .TOKEN_PUNC .PUNC_ASSIGN, .TOKEN_NUM 1, .TOKEN_PUNC .PUNC_SEMI]
        (derives_call_sum "q" "a" "b")
        (derives.stmt_list_prm_cons _
          [.TOKEN_ID "q", .TOKEN_PUNC .PUNC_OPEN, .TOKEN_ID "a", .TOKEN_ADDOP .ADDOP_ADD,
           .TOKEN_ID "b", .TOKEN_PUNC .PUNC_CLOSE, .TOKEN_PUNC .PUNC_SEMI,
           .TOKEN_ID "a", .TOKEN_PUNC .PUNC_ASSIGN, .TOKEN_NUM 1, .TOKEN_PUNC .PUNC_SEMI]
          (derives_call_sum "q" "a" "b")
          (derives.stmt_list_prm_cons _
            [.TOKEN_ID "a", .TOKEN_PUNC .PUNC_ASSIGN, .TOKEN_NUM 1, .TOKEN_PUNC .PUNC_SEMI]
            (derives_call_sum "q" "a" "b")
            (derives.stmt_list_prm_cons _ [] (derives_assign_num "a" 1)
              derives.stmt_list_prm_nil)))))

/-! ### Straight-line code -/

theorem run_lines_nil (mem : String → Int) (reg : Register → Int) :
    run_lines mem [] reg = some reg := rfl

theorem run_lines_cons (mem : String → Int) (i : IR) (code : List IR) (reg : Register → Int) :
    run_lines mem (i :: code) reg = (line_effect mem i reg).bind (run_lines mem code) := rfl

theorem run_lines_append (mem : String → Int) (a b : List IR) (reg : Register → Int) :
    run_lines mem (a ++ b) reg = (run_lines mem a reg).bind (run_lines mem b) := by
  induction a generalizing reg with
  | nil => rfl
  | cons i a ih =>
    rw [List.cons_append, run_lines_cons, run_lines_cons]
    cases line_effect mem i reg with
    | none => rfl
    | some reg1 => exact ih reg1

theorem line_effect_frame {mem : String → Int} {i : IR} {reg reg1 : Register → Int}
    (h : line_effect mem i reg = some reg1) (r : Register) (hr : IR.writes i ≠ some r) :
    reg1 r = reg r := by
  cases i with
  | label l => simp only [line_effect, Option.some.injEq] at h; rw [← h]
  | comment l => simp only [line_effect, Option.some.injEq] at h; rw [← h]
  | data_directive l n => simp only [line_effect, Option.some.injEq] at h; rw [← h]
  | halt => simp [line_effect] at h
  | branch l => simp [line_effect] at h
  | branch_cond op r1 l => simp [line_effect] at h
  | move_mem_reg x s => simp [line_effect] at h
  | move_reg_imm d v =>
    simp only [line_effect, Option.some.injEq] at h
    have hd : r ≠ d := fun hc => hr (by rw [hc]; rfl)
    rw [← h]
    simp only [hd, if_false]
  | move_reg_mem d x =>
    simp only [line_effect, Option.some.injEq] at h
    have hd : r ≠ d := fun hc => hr (by rw [hc]; rfl)
    rw [← h]
    simp only [hd, if_false]
  | inst_1addr op d =>
    simp only [line_effect] at h
    have hd : r ≠ d := fun hc => hr (by rw [hc]; rfl)
    cases ha : alu1 op (reg d) with
    | none => rw [ha] at h; cases h
    | some v =>
      rw [ha] at h
      simp only [Option.map_some', Option.some.injEq] at h
      rw [← h]
      simp only [hd, if_false]
  | inst_2addr op d src =>
    simp only [line_effect] at h
    have hd : r ≠ d := fun hc => hr (by rw [hc]; rfl)
    cases ha : alu op (reg d) (operand_value reg mem src) with
    | none => rw [ha] at h; cases h
    | some v =>
      rw [ha] at h
      simp only [Option.map_some', Option.some.injEq] at h
      rw [← h]
      simp only [hd, if_false]

/-- Straight-line code leaves every register it does not write as it is. -/
theorem run_lines_frame {mem : String → Int} {code : List IR} {reg reg1 : Register → Int}
    (h : run_lines mem code reg = some reg1) (r : Register)
    (hr : ∀ i ∈ code, IR.writes i ≠ some r) : reg1 r = reg r := by
  induction code generalizing reg with
  | nil =>
    simp only [run_lines_nil, Option.some.injEq] at h
    rw [← h]
  | cons i code ih =>
    rw [run_lines_cons] at h
    cases he : line_effect mem i reg with
    | none => rw [he] at h; cases h
    | some reg2 =>
      rw [he] at h
      rw [ih h (fun j hj => hr j (List.mem_cons_of_mem _ hj)),
        line_effect_frame he r (hr i (List.mem_cons_self _ _))]

/-- One line of straight-line code is one step of the machine. -/
theorem step_of_line_effect {mem : String → Int} {i : IR} {reg reg1 : Register → Int}
    (h : line_effect mem i reg = some reg1) (code : List IR) (n : Nat)
    (hi : code[n]? = some i) :
    step code ⟨reg, mem, n⟩ = some ⟨reg1, mem, n + 1⟩ := by
  cases i with
  | label l =>
    simp only [line_effect, Option.some.injEq] at h
    rw [step_label hi, ← h]; rfl
  | comment l =>
    simp only [line_effect, Option.some.injEq] at h
    rw [step_comment hi, ← h]; rfl
  | data_directive l k =>
    simp only [line_effect, Option.some.injEq] at h
    rw [step_data_directive hi, ← h]; rfl
  | halt => simp [line_effect] at h
  | branch l => simp [line_effect] at h
  | branch_cond op r1 l => simp [line_effect] at h
  | move_mem_reg x s => simp [line_effect] at h
  | move_reg_imm d v =>
    simp only [line_effect, Option.some.injEq] at h
    rw [step_move_reg_imm hi, ← h]; rfl
  | move_reg_mem d x =>
    simp only [line_effect, Option.some.injEq] at h
    rw [step_move_reg_mem hi, ← h]; rfl
  | inst_1addr op d =>
    simp only [line_effect] at h
    cases ha : alu1 op (reg d) with
    | none => rw [ha] at h; cases h
    | some v =>
      rw [ha] at h
      simp only [Option.map_some', Option.some.injEq] at h
      rw [step_inst_1addr hi ha, ← h]; rfl
  | inst_2addr op d src =>
    simp only [line_effect] at h
    cases ha : alu op (reg d) (operand_value reg mem src) with
    | none => rw [ha] at h; cases h
    | some v =>
      rw [ha] at h
      simp only [Option.map_some', Option.some.injEq] at h
      rw [step_inst_2addr hi ha, ← h]; rfl

/-- Straight-line code inside a program: the machine runs through it line by
line, leaves the memory as it is, and stops behind its last line with the
registers `run_lines` computes. -/
theorem reaches_of_run_lines {mem : String → Int} {code : List IR}
    {reg reg1 : Register → Int} (h : run_lines mem code reg = some reg1)
    (before after : List IR) :
    reaches (before ++ (code ++ after)) ⟨reg, mem, before.length⟩
      ⟨reg1, mem, before.length + code.length⟩ := by
  induction code generalizing reg before with
  | nil =>
    simp only [run_lines_nil, Option.some.injEq] at h
    rw [← h]
    exact reaches_refl _ _
  | cons i code ih =>
    rw [run_lines_cons] at h
    cases he : line_effect mem i reg with
    | none => rw [he] at h; cases h
    | some reg2 =>
      rw [he] at h
      have hi : (before ++ (i :: code ++ after))[before.length]? = some i := by
        rw [List.getElem?_append_right (Nat.le_refl _), Nat.sub_self]
        simp
      refine reaches_step (step_of_line_effect he _ _ hi) ?_
      have h2 := ih h (before ++ [i])
      simp only [List.append_assoc, List.singleton_append, List.length_append,
        List.length_singleton] at h2
      have e : before.length + (i :: code).length = before.length + 1 + code.length := by
        rw [List.length_cons]; omega
      rw [e, List.cons_append]
      exact h2

/-! ### No spill -/

theorem spill_free_mono {n m : Nat} {out out1 : List IR} (h : spill_free n out1)
    (hnm : n ≤ m) (hp : out <+: out1) : spill_free m out := by
  intro x r hx
  apply h x r
  obtain ⟨t, rfl⟩ := hp
  have h1 : IR.move_mem_reg x r ∈ out := List.mem_of_mem_drop hx
  have h2 : IR.move_mem_reg x r ∈ List.drop n out := by
    obtain ⟨k, hk⟩ := Nat.exists_eq_add_of_le hnm
    subst hk
    rw [← List.drop_drop] at hx
    exact List.mem_of_mem_drop hx
  rw [List.drop_append_eq_append_drop]
  exact List.mem_append_left _ h2

theorem spill_free_append {n : Nat} {out code : List IR}
    (h : spill_free n (out ++ code)) (hn : n ≤ out.length) :
    ∀ (x : String) (r : Register), IR.move_mem_reg x r ∉ code := by
  intro x r hx
  apply h x r
  rw [List.drop_append_eq_append_drop]
  refine List.mem_append_right _ ?_
  rw [Nat.sub_eq_zero_of_le hn]
  exact hx

/-! ### Materialization without a spill -/

/-- Materialization when no spill is emitted: a register operand is left
where it is; any other operand is moved into a register that was free and is
allocated for it, and the slot is rewritten to that register. -/
theorem materialized_spill_free {x : Nat} {p q : Parser} {r : Register}
    (h : materialized true x p r q) (hs : spill_free p.e.out.length q.e.out) :
    ∃ o, p.slots[x]? = some { op := some o, deleted := false, live := true }
      ∧ ((o = .OPTYPE_REGISTER r ∧ q = p)
        ∨ (o.is_register = false
          ∧ ∃ a, p.allocator.allocate_register = some (r, a)
            ∧ q = { p with
                allocator := a,
                e := { p.e with out := p.e.out ++ load_code r o },
                slots := p.slots.modify
                  (fun s => { s with op := some (.OPTYPE_REGISTER r), deleted := false }) x })) := by
  obtain ⟨o, hx, h⟩ := h
  refine ⟨o, hx, ?_⟩
  rcases h with h | ⟨ho, p1, a, hroom, hal, hq⟩
  · exact Or.inl h
  · right
    refine ⟨ho, ?_⟩
    rcases hroom with ⟨-, rfl⟩ | ⟨-, hsp⟩
    · exact ⟨a, hal, by simpa using hq⟩
    · exfalso
      obtain ⟨S, r1, hout⟩ := spill_step_out hsp
      apply hs S r1
      rw [hq]
      simp only [if_true, hout, List.append_assoc, List.drop_left]
      simp

/-! ### What the code of an expression computes -/

theorem computes_trans {mem : String → Int} {op : Nat} {own : Option Register}
    {pre : (Register → Int) → Prop} {v1 v : Int} {p p1 q : Parser}
    (h1 : computes mem op own pre v1 p p1)
    (h2 : ∀ o1, p1.slots[op]? = some { op := some o1, deleted := false, live := true } →
      (∀ r, o1 = .OPTYPE_REGISTER r → p1.allocator.inuse r = true) →
      computes mem op o1.register (fun reg => operand_value reg mem o1 = v1) v p1 q) :
    computes mem op own pre v p q := by
  obtain ⟨o1, c1, a1, a2, a3, a4, a5, a6, a7, a8⟩ := h1
  obtain ⟨o2, c2, b1, b2, b3, b4, b5, b6, b7, b8⟩ := h2 o1 a1 (fun r hr => (a3 r hr).1)
  have hown : ∀ d, o1.register = some d → p.allocator.inuse d = false ∨ own = some d := by
    intro d hd
    cases o1 with
    | OPTYPE_REGISTER r =>
      simp only [Operand.register, Option.some.injEq] at hd
      subst hd
      exact (a3 r rfl).2
    | OPTYPE_IMMEDIATE i => cases hd
    | OPTYPE_MEMORY m => cases hd
  have hfree : ∀ d, p1.allocator.inuse d = false → p.allocator.inuse d = false := by
    intro d hd
    cases hp : p.allocator.inuse d
    · rfl
    · rw [a4 d hp] at hd; cases hd
  refine ⟨o2, c1 ++ c2, b1, by rw [b2, a2, List.append_assoc], ?_, ?_, ?_, ?_, ?_, ?_⟩
  · intro r hr
    refine ⟨(b3 r hr).1, ?_⟩
    rcases (b3 r hr).2 with h | h
    · exact Or.inl (hfree r h)
    · exact hown r h
  · exact fun r hr => b4 r (a4 r hr)
  · exact Nat.le_trans a5 b5
  · intro i hi hne
    rw [b6 i (Nat.lt_of_lt_of_le hi a5) hne, a6 i hi hne]
  · intro i hi d hd
    rcases List.mem_append.1 hi with hi | hi
    · exact a7 i hi d hd
    · rcases b7 i hi d hd with h | h
      · exact Or.inl (hfree d h)
      · exact hown d h
  · intro reg hreg
    obtain ⟨reg1, hr1, hv1⟩ := a8 reg hreg
    obtain ⟨reg2, hr2, hv2⟩ := b8 reg1 hv1
    exact ⟨reg2, by rw [run_lines_append, hr1]; exact hr2, hv2⟩

/-- The record in which a production is entered may be replaced by one with
the same slots, register pool and output. -/
theorem computes_congr_left {mem : String → Int} {op : Nat} {own : Option Register}
    {pre : (Register → Int) → Prop} {v : Int} {p p0 q : Parser}
    (hs : p.slots = p0.slots) (ha : p.allocator = p0.allocator) (he : p.e.out = p0.e.out)
    (h : computes mem op own pre v p q) : computes mem op own pre v p0 q := by
  unfold computes at h ⊢
  rw [hs, ha, he] at h
  exact h

/-- The record in which a production returns may be replaced by one with the
same register pool and output whose slots differ at most in a slot `x`
created since the production was entered. -/
theorem computes_congr_right {mem : String → Int} {op : Nat} {own : Option Register}
    {pre : (Register → Int) → Prop} {v : Int} {p q q0 : Parser} (x : Nat)
    (hx : p.slots.length ≤ x) (hop : op < p.slots.length)
    (hl : q0.slots.length = q.slots.length)
    (hs : ∀ i, i ≠ x → q0.slots[i]? = q.slots[i]?)
    (ha : q0.allocator = q.allocator) (he : q0.e.out = q.e.out)
    (h : computes mem op own pre v p q) : computes mem op own pre v p q0 := by
  obtain ⟨o, c, a1, a2, a3, a4, a5, a6, a7, a8⟩ := h
  refine ⟨o, c, ?_, by rw [he, a2], ?_, ?_, by rw [hl]; exact a5, ?_, a7, a8⟩
  · rw [hs op (by omega)]; exact a1
  · intro r hr; rw [ha]; exact a3 r hr
  · intro r hr; rw [ha]; exact a4 r hr
  · intro i hi hne
    rw [hs i (by omega)]
    exact a6 i hi hne

theorem released_right_inuse {x : Nat} {p q : Parser} {src : Operand}
    (h : released_right x p q)
    (hs : p.slots[x]? = some { op := some src, deleted := false, live := true })
    (r : Register) (hr : p.allocator.inuse r = true) (hne : src ≠ .OPTYPE_REGISTER r) :
    q.allocator.inuse r = true := by
  obtain ⟨src1, hs1, -, -, -, -, hm⟩ := h
  rw [hs] at hs1
  simp only [Option.some.injEq, Slot.mk.injEq, and_true] at hs1
  subst hs1
  cases src with
  | OPTYPE_REGISTER r2 =>
    simp only at hm
    have hd := inuse_deallocate hm.1
    rw [hd.2 r (fun hc => hne (by rw [hc])), hr]
  | OPTYPE_MEMORY m =>
    simp only at hm
    rw [hm.1, hr]
  | OPTYPE_IMMEDIATE i =>
    simp only at hm
    rw [hm.1, hr]

theorem getElem?_lt_of_eq_some {α : Type} {l : List α} {i : Nat} {a : α}
    (h : l[i]? = some a) : i < l.length := by
  by_contra hc
  rw [List.getElem?_eq_none (Nat.le_of_not_lt hc)] at h
  cases h

theorem operand_value_eq_of_not_register {o : Operand} (ho : o.is_register = false)
    (mem : String → Int) (reg reg1 : Register → Int) :
    operand_value reg mem o = operand_value reg1 mem o := by
  cases o with
  | OPTYPE_REGISTER r => cases ho
  | OPTYPE_IMMEDIATE i => rfl
  | OPTYPE_MEMORY m => rfl

theorem run_lines_load_code (mem : String → Int) (R : Register) (o : Operand)
    (ho : o.is_register = false) (reg : Register → Int) :
    run_lines mem (load_code R o) reg
      = some (fun r1 => if r1 = R then operand_value reg mem o else reg r1) := by
  cases o with
  | OPTYPE_REGISTER r => cases ho
  | OPTYPE_IMMEDIATE i => rfl
  | OPTYPE_MEMORY m => rfl

theorem writes_load_code {R : Register} {o : Operand} {i : IR} (hi : i ∈ load_code R o)
    {d : Register} (hd : IR.writes i = some d) : d = R := by
  cases o with
  | OPTYPE_REGISTER r => simp [load_code] at hi
  | OPTYPE_IMMEDIATE v =>
    simp only [load_code, List.mem_singleton] at hi
    subst hi
    simp only [IR.writes, Option.some.injEq] at hd
    exact hd.symm
  | OPTYPE_MEMORY m =>
    simp only [load_code, List.mem_singleton] at hi
    subst hi
    simp only [IR.writes, Option.some.injEq] at hd
    exact hd.symm

/-- One binary operator: the right operand is parsed into a new slot, the
left operand is materialized without a spill, the instruction is emitted and
the right operand is released.  The left slot then holds the register with
the result of the operation. -/
theorem computes_binary {mem : String → Int} {left : Nat} {instr : inst_type}
    {ol src : Operand} {vl v2 v3 : Int} {p p1 p2 pa pb p3 : Parser} {R : Register}
    (hleft : p.slots[left]? = some { op := some ol, deleted := false, live := true })
    (hin : ∀ r, ol = .OPTYPE_REGISTER r → p.allocator.inuse r = true)
    (hs1 : p1.slots = p.slots ++ [{ op := none, deleted := false, live := true }])
    (ha1 : p1.allocator = p.allocator) (he1 : p1.e.out = p.e.out)
    (hright : computes mem p.slots.length none (fun _ => True) v2 p1 p2)
    (hm : materialized true left p2 R pa)
    (hsrc : pa.slots[p.slots.length]? = some { op := some src, deleted := false, live := true })
    (hout : pb.e.out = pa.e.out ++ [.inst_2addr instr R src])
    (hsb : pb.slots = pa.slots) (hab : pb.allocator = pa.allocator)
    (hrel : released_right p.slots.length pb p3)
    (hfree : spill_free p2.e.out.length pa.e.out)
    (halu : alu instr vl v2 = some v3) :
    computes mem left ol.register (fun reg => operand_value reg mem ol = vl) v3 p p3 := by
  have hlt : left < p.slots.length := getElem?_lt_of_eq_some hleft
  have hne : left ≠ p.slots.length := Nat.ne_of_lt hlt
  obtain ⟨o2, c2, r1, r2, r3, r4, r5, r6, r7, r8⟩ := hright
  have hl1 : p1.slots.length = p.slots.length + 1 := by rw [hs1]; simp
  have hold1 : ∀ i, i < p.slots.length → p1.slots[i]? = p.slots[i]? := by
    intro i hi
    rw [hs1, List.getElem?_append_left hi]
  have hleft2 : p2.slots[left]? = some { op := some ol, deleted := false, live := true } := by
    rw [r6 left (by omega) hne, hold1 left hlt, hleft]
  have hr2free : ∀ r2, o2 = .OPTYPE_REGISTER r2 → p.allocator.inuse r2 = false := by
    intro r2 h2
    rcases (r3 r2 h2).2 with h | h
    · rw [← ha1]; exact h
    · cases h
  have hmono2 : ∀ r, p.allocator.inuse r = true → p2.allocator.inuse r = true :=
    fun r hr => r4 r (by rw [ha1]; exact hr)
  have hc2 : ∀ i ∈ c2, ∀ d, IR.writes i = some d → p.allocator.inuse d = false := by
    intro i hi d hd
    rcases r7 i hi d hd with h | h
    · rw [← ha1]; exact h
    · cases h
  obtain ⟨srcb, hsrcb, hslots3, he3, -, -, -⟩ := id hrel
  have hold3 : ∀ i, i ≠ p.slots.length → p3.slots[i]? = pa.slots[i]? := by
    intro i hi
    rw [hslots3, getElem?_modify_ne _ _ (Ne.symm hi), hsb]
  have hsrcb1 : pb.slots[p.slots.length]?
      = some { op := some src, deleted := false, live := true } := by rw [hsb]; exact hsrc
  obtain ⟨o, hxo, hcase⟩ := materialized_spill_free hm hfree
  rw [hleft2] at hxo
  simp only [Option.some.injEq, Slot.mk.injEq, and_true] at hxo
  subst hxo
  rcases hcase with ⟨rfl, rfl⟩ | ⟨hol, a, hal, rfl⟩
  · -- the left operand is the register `R` already
    have hsrc2 : src = o2 := by
      rw [r1] at hsrc
      simp only [Option.some.injEq, Slot.mk.injEq, and_true] at hsrc
      exact hsrc.symm
    subst hsrc2
    have hRin : p.allocator.inuse R = true := hin R rfl
    have hRne : src ≠ .OPTYPE_REGISTER R := by
      intro hc
      rw [hr2free R hc] at hRin
      cases hRin
    refine ⟨.OPTYPE_REGISTER R, c2 ++ [.inst_2addr instr R src], ?_, ?_, ?_, ?_, ?_, ?_, ?_, ?_⟩
    · rw [hold3 left hne]; exact hleft2
    · rw [he3, hout, r2, he1, List.append_assoc]
    · intro r hr
      simp only [Operand.OPTYPE_REGISTER.injEq] at hr
      subst hr
      exact ⟨released_right_inuse hrel hsrcb1 _ (by rw [hab]; exact hmono2 _ hRin) hRne,
        Or.inr rfl⟩
    · intro r hr
      refine released_right_inuse hrel hsrcb1 r (by rw [hab]; exact hmono2 r hr) ?_
      intro hc
      rw [hr2free r hc] at hr
      cases hr
    · rw [hslots3, List.length_modify, hsb]
      omega
    · intro i hi hnel
      rw [hold3 i (by omega), r6 i (by omega) (by omega), hold1 i hi]
    · intro i hi d hd
      rcases List.mem_append.1 hi with hi | hi
      · exact Or.inl (hc2 i hi d hd)
      · simp only [List.mem_singleton] at hi
        subst hi
        simp only [IR.writes, Option.some.injEq] at hd
        subst hd
        exact Or.inr rfl
    · intro reg hreg
      obtain ⟨reg1, hrun, hv2⟩ := r8 reg trivial
      have hR : reg1 R = vl := by
        rw [run_lines_frame hrun R (fun i hi hc => by
          rw [hc2 i hi R hc] at hRin; cases hRin)]
        exact hreg
      refine ⟨fun r1 => if r1 = R then v3 else reg1 r1, ?_, by simp [operand_value]⟩
      rw [run_lines_append, hrun]
      simp only [Option.some_bind, run_lines_cons, line_effect, hR, hv2, halu, Option.map_some',
        run_lines_nil]
  · -- the left operand is moved into the register `R`, which was free
    obtain ⟨hRfree, hRa, hmonoa⟩ := inuse_allocate hal
    have hsrc2 : src = o2 := by
      simp only [getElem?_modify_ne _ _ hne] at hsrc
      rw [r1] at hsrc
      simp only [Option.some.injEq, Slot.mk.injEq, and_true] at hsrc
      exact hsrc.symm
    subst hsrc2
    have hRne : src ≠ .OPTYPE_REGISTER R := by
      intro hc
      rw [(r3 R hc).1] at hRfree
      cases hRfree
    have hRp : p.allocator.inuse R = false := by
      cases hp : p.allocator.inuse R
      · rfl
      · rw [hmono2 R hp] at hRfree; cases hRfree
    refine ⟨.OPTYPE_REGISTER R, c2 ++ (load_code R ol ++ [.inst_2addr instr R src]),
      ?_, ?_, ?_, ?_, ?_, ?_, ?_, ?_⟩
    · rw [hold3 left hne]
      exact getElem?_modify_eq _ _ hleft2
    · rw [he3, hout]
      simp only [r2, he1, List.append_assoc]
    · intro r hr
      simp only [Operand.OPTYPE_REGISTER.injEq] at hr
      subst hr
      exact ⟨released_right_inuse hrel hsrcb1 _ (by rw [hab]; exact hRa) hRne, Or.inl hRp⟩
    · intro r hr
      refine released_right_inuse hrel hsrcb1 r (by rw [hab]; exact hmonoa r (hmono2 r hr)) ?_
      intro hc
      rw [hr2free r hc] at hr
      cases hr
    · rw [hslots3, List.length_modify, hsb]
      simp only [List.length_modify]
      omega
    · intro i hi hnel
      rw [hold3 i (by omega)]
      simp only [getElem?_modify_ne _ _ (Ne.symm hnel)]
      rw [r6 i (by omega) (by omega), hold1 i hi]
    · intro i hi d hd
      rcases List.mem_append.1 hi with hi | hi
      · exact Or.inl (hc2 i hi d hd)
      · rcases List.mem_append.1 hi with hi | hi
        · rw [writes_load_code hi hd]; exact Or.inl hRp
        · simp only [List.mem_singleton] at hi
          subst hi
          simp only [IR.writes, Option.some.injEq] at hd
          subst hd
          exact Or.inl hRp
    · intro reg hreg
      obtain ⟨reg1, hrun, hv2⟩ := r8 reg trivial
      have hvl : operand_value reg1 mem ol = vl := by
        rw [operand_value_eq_of_not_register hol mem reg1 reg]; exact hreg
      have hsrcv : operand_value (fun r1 => if r1 = R then vl else reg1 r1) mem src = v2 := by
        rw [← hv2]
        cases src with
        | OPTYPE_REGISTER r2 =>
          have h2 : r2 ≠ R := fun hc => hRne (by rw [hc])
          simp [operand_value, h2]
        | OPTYPE_IMMEDIATE i => rfl
        | OPTYPE_MEMORY m => rfl
      refine ⟨fun r1 => if r1 = R then v3 else reg1 r1, ?_, by simp [operand_value]⟩
      rw [run_lines_append, hrun]
      simp only [Option.some_bind, run_lines_append, run_lines_load_code mem R ol hol, hvl,
        run_lines_cons, line_effect, if_true, hsrcv, halu, Option.map_some', run_lines_nil]
      congr 1
      funext r1
      by_cases h1 : r1 = R
      · simp [h1]
      · simp [h1]

/-! ### Between the productions -/

theorem same_code_refl (p : Parser) : same_code p p := ⟨rfl, rfl, rfl, rfl, rfl⟩

theorem same_code_trans {p q r : Parser} (h1 : same_code p q) (h2 : same_code q r) :
    same_code p r :=
  ⟨h2.1.trans h1.1, h2.2.1.trans h1.2.1, h2.2.2.1.trans h1.2.2.1, h2.2.2.2.1.trans h1.2.2.2.1,
    h2.2.2.2.2.trans h1.2.2.2.2⟩

theorem checked_same_code {α : Type} {errs : List Diagnostic} {a b : α} {p q : Parser}
    (h : checked errs a p = .ok b q) : same_code p q := by
  unfold checked at h
  cases errs with
  | nil =>
    simp only [Res.ok.injEq] at h
    rw [← h.2]
    exact same_code_refl p
  | cons d ds =>
    cases htm : p.test_mode
    · simp [htm] at h
    · simp only [htm, if_true, Res.ok.injEq] at h
      rw [← h.2]
      exact ⟨rfl, rfl, rfl, rfl, rfl⟩

theorem advanced_code (p : Parser) :
    p.advanced.slots = p.slots ∧ p.advanced.allocator = p.allocator ∧ p.advanced.e = p.e
      ∧ (p.advanced.word, p.advanced.lex) = next_token (p.word, p.lex) := by
  unfold Parser.advanced next_token
  cases p.lex <;> exact ⟨rfl, rfl, rfl, rfl⟩

theorem stream_of_only_codegen {α : Type} {x : M α} (hx : only_codegen x) {p q : Parser} {a : α}
    (h : x p = .ok a q) : q.word = p.word ∧ q.lex = p.lex := by
  have hc := hx p
  rw [h] at hc
  simp only [Res.parser, Parser.context, Prod.mk.injEq] at hc
  exact ⟨hc.2.2.1, hc.2.1⟩

theorem prefix_of_ok {α : Type} {x : M α} (hx : appends_out x) {p q : Parser} {a : α}
    (h : x p = .ok a q) : p.e.out <+: q.e.out := by
  have h1 := hx p
  rw [h] at h1
  exact h1

/-- The expression productions only append to the IR. -/
theorem appends_out_expression_productions (fuel : Nat) :
    (∀ t op, appends_out (parse_expr fuel t op))
    ∧ (∀ t op, appends_out (parse_expr_hat fuel t op))
    ∧ (∀ t op, appends_out (parse_simple_expr fuel t op))
    ∧ (∀ t op, appends_out (parse_simple_expr_prm fuel t op))
    ∧ (∀ t op, appends_out (parse_term fuel t op))
    ∧ (∀ t op, appends_out (parse_term_prm fuel t op))
    ∧ (∀ t op, appends_out (parse_factor fuel t op)) :=
  ⟨fun t op => appends_out_of_preserves (fun l => (preserves_expression_productions
      (out_block_invariant l).toExprBlockInvariant fuel).1 t op),
   fun t op => appends_out_of_preserves (fun l => (preserves_expression_productions
      (out_block_invariant l).toExprBlockInvariant fuel).2.1 t op),
   fun t op => appends_out_of_preserves (fun l => (preserves_expression_productions
      (out_block_invariant l).toExprBlockInvariant fuel).2.2.1 t op),
   fun t op => appends_out_of_preserves (fun l => (preserves_expression_productions
      (out_block_invariant l).toExprBlockInvariant fuel).2.2.2.1 t op),
   fun t op => appends_out_of_preserves (fun l => (preserves_expression_productions
      (out_block_invariant l).toExprBlockInvariant fuel).2.2.2.2.1 t op),
   fun t op => appends_out_of_preserves (fun l => (preserves_expression_productions
      (out_block_invariant l).toExprBlockInvariant fuel).2.2.2.2.2.1 t op),
   fun t op => appends_out_of_preserves (fun l => (preserves_expression_productions
      (out_block_invariant l).toExprBlockInvariant fuel).2.2.2.2.2.2 t op)⟩

theorem spill_free_sub {p p1 p2 q : Parser} (h : spill_free p.e.out.length q.e.out)
    (h1 : p.e.out <+: p1.e.out) (h2 : p2.e.out <+: q.e.out) :
    spill_free p1.e.out.length p2.e.out :=
  spill_free_mono h h1.length_le h2

/-! ### The simplest pieces of code -/

/-- Nothing is emitted and the operand is left as it is: the result is the
value the operand had. -/
theorem computes_same {mem : String → Int} {op : Nat} {ol : Operand} {vl : Int}
    {p q : Parser}
    (hol : p.slots[op]? = some { op := some ol, deleted := false, live := true })
    (hin : ∀ r, ol = .OPTYPE_REGISTER r → p.allocator.inuse r = true)
    (hl : p.slots.length ≤ q.slots.length)
    (hs : ∀ i, i < p.slots.length → q.slots[i]? = p.slots[i]?)
    (ha : q.allocator = p.allocator) (he : q.e.out = p.e.out) :
    computes mem op ol.register (fun reg => operand_value reg mem ol = vl) vl p q := by
  refine ⟨ol, [], ?_, by rw [he, List.append_nil], ?_, ?_, hl, fun i hi _ => hs i hi, ?_, ?_⟩
  · rw [hs op (getElem?_lt_of_eq_some hol)]; exact hol
  · intro r hr
    subst hr
    exact ⟨by rw [ha]; exact hin r rfl, Or.inr rfl⟩
  · intro r hr; rw [ha]; exact hr
  · intro i hi; cases hi
  · intro reg hreg
    exact ⟨reg, rfl, hreg⟩

/-- A factor that is an identifier or a literal: nothing is emitted and the
slot is given an operand that is no register. -/
theorem computes_assign {mem : String → Int} {op : Nat} {o : Operand} {p q : Parser}
    (hsc : in_scope p op) (ho : o.is_register = false)
    (hs : q.slots = p.slots.modify (fun s => { s with op := some o, deleted := false }) op)
    (ha : q.allocator = p.allocator) (he : q.e.out = p.e.out) (reg0 : Register → Int) :
    computes mem op none (fun _ => True) (operand_value reg0 mem o) p q := by
  obtain ⟨s, hs0, hlive⟩ := hsc
  refine ⟨o, [], ?_, by rw [he, List.append_nil], ?_, ?_, ?_, ?_, ?_, ?_⟩
  · rw [hs, getElem?_modify_eq _ _ hs0]
    simp only [hlive]
  · intro r hr
    subst hr
    cases ho
  · intro r hr; rw [ha]; exact hr
  · rw [hs, List.length_modify]
  · intro i _ hne
    rw [hs, getElem?_modify_ne _ _ (Ne.symm hne)]
  · intro i hi; cases hi
  · intro reg _
    exact ⟨reg, rfl, operand_value_eq_of_not_register ho mem reg reg0⟩

/-! ### Factors -/

theorem parse_factor_identifier_ok {fuel : Nat} {t ty : expr_type} {op : Nat} {p q : Parser}
    {x : String} (hw : p.word = .TOKEN_ID x)
    (h : parse_factor (fuel + 1) t op p = .ok (true, ty) q) :
    same_code (assign_operand op (.OPTYPE_MEMORY x) p).parser.advanced q := by
  rw [parse_factor] at h
  simp only [bind_apply, get_word_apply, hw, getp_apply] at h
  cases hd : p.stab.is_decl x p.current_env with
  | true =>
    simp only [hd, Bool.not_true, Bool.false_eq_true, if_false, bind_apply, pure_apply,
      assign_operand, modifyp_apply, advance_apply, Res.ok.injEq] at h
    rw [← h.2]
    exact same_code_refl _
  | false =>
    simp only [hd, Bool.not_false, if_true, bind_apply, undeclared_identifier_apply] at h
    cases hc : checked [.undeclared_identifier x] () p with
    | halt hh p1 => simp [hc] at h
    | ok u p1 =>
      have hsame := checked_same_code hc
      simp only [hc, pure_apply, assign_operand, modifyp_apply, advance_apply,
        Res.ok.injEq] at h
      rw [← h.2]
      obtain ⟨h1, h2, h3, h4, h5⟩ := hsame
      refine ⟨?_, ?_, ?_, ?_, ?_⟩ <;>
        simp only [assign_operand, modifyp_apply, Res.parser, Parser.advanced, h1, h2, h3, h4,
          h5] <;>
        cases p.lex <;> rfl

theorem in_scope_congr {p q : Parser} {op : Nat} (h : q.slots = p.slots) (hs : in_scope p op) :
    in_scope q op := by
  unfold in_scope
  rw [h]
  exact hs

theorem computes_of_eq {mem : String → Int} {op : Nat} {own : Option Register}
    {pre : (Register → Int) → Prop} {v : Int} {p p0 q q0 : Parser}
    (hs : p.slots = p0.slots) (ha : p.allocator = p0.allocator) (he : p.e = p0.e)
    (hqs : q0.slots = q.slots) (hqa : q0.allocator = q.allocator) (hqe : q0.e = q.e)
    (h : computes mem op own pre v p q) : computes mem op own pre v p0 q0 := by
  have h1 := computes_congr_left hs ha (by rw [he]) h
  unfold computes at h1 ⊢
  rw [hqs, hqa, hqe]
  exact h1

/-- The code of a sign `-`: the operand is materialized without a spill and
negated in its register. -/
theorem computes_negate {mem : String → Int} {op : Nat} {o1 : Operand} {v : Int}
    (p1 : Parser) {p3 q : Parser} {R : Register}
    (ho1 : p1.slots[op]? = some { op := some o1, deleted := false, live := true })
    (hin : ∀ r, o1 = .OPTYPE_REGISTER r → p1.allocator.inuse r = true)
    (hm : materialized true op p1 R p3) (hfree : spill_free p1.e.out.length p3.e.out)
    (hqs : q.slots = p3.slots) (hqa : q.allocator = p3.allocator)
    (hqe : q.e.out = p3.e.out ++ [.inst_1addr .INST_NEG R]) :
    computes mem op o1.register (fun reg => operand_value reg mem o1 = v) (-v) p1 q := by
  obtain ⟨o, hxo, hcase⟩ := materialized_spill_free hm hfree
  rw [ho1] at hxo
  simp only [Option.some.injEq, Slot.mk.injEq, and_true] at hxo
  subst hxo
  rcases hcase with ⟨rfl, rfl⟩ | ⟨hol, a, hal, rfl⟩
  · refine ⟨.OPTYPE_REGISTER R, [.inst_1addr .INST_NEG R], by rw [hqs]; exact ho1, hqe, ?_, ?_,
      by rw [hqs], fun i _ _ => by rw [hqs], ?_, ?_⟩
    · intro r hr
      simp only [Operand.OPTYPE_REGISTER.injEq] at hr
      subst hr
      exact ⟨by rw [hqa]; exact hin _ rfl, Or.inr rfl⟩
    · intro r hr; rw [hqa]; exact hr
    · intro i hi d hd
      simp only [List.mem_singleton] at hi
      subst hi
      simp only [IR.writes, Option.some.injEq] at hd
      subst hd
      exact Or.inr rfl
    · intro reg hreg
      simp only [operand_value] at hreg
      refine ⟨fun r1 => if r1 = R then -v else reg r1, ?_, by simp [operand_value]⟩
      simp only [run_lines_cons, line_effect, alu1, hreg, Option.map_some', Option.some_bind,
        run_lines_nil]
  · obtain ⟨hRfree, hRa, hmonoa⟩ := inuse_allocate hal
    refine ⟨.OPTYPE_REGISTER R, load_code R o1 ++ [.inst_1addr .INST_NEG R], ?_, ?_, ?_, ?_, ?_,
      ?_, ?_, ?_⟩
    · rw [hqs]
      exact getElem?_modify_eq _ _ ho1
    · rw [hqe, List.append_assoc]
    · intro r hr
      simp only [Operand.OPTYPE_REGISTER.injEq] at hr
      subst hr
      exact ⟨by rw [hqa]; exact hRa, Or.inl hRfree⟩
    · intro r hr; rw [hqa]; exact hmonoa r hr
    · rw [hqs]
      simp only [List.length_modify]
      exact Nat.le_refl _
    · intro i _ hne
      rw [hqs]
      exact getElem?_modify_ne _ _ (Ne.symm hne)
    · intro i hi d hd
      rcases List.mem_append.1 hi with hi | hi
      · rw [writes_load_code hi hd]; exact Or.inl hRfree
      · simp only [List.mem_singleton] at hi
        subst hi
        simp only [IR.writes, Option.some.injEq] at hd
        subst hd
        exact Or.inl hRfree
    · intro reg hreg
      refine ⟨fun r1 => if r1 = R then -v else reg r1, ?_, by simp [operand_value]⟩
      simp only [run_lines_append, run_lines_load_code mem R o1 hol, hreg, Option.some_bind,
        run_lines_cons, line_effect, alu1, if_true, Option.map_some', run_lines_nil]
      congr 1
      funext r1
      by_cases h1 : r1 = R
      · simp [h1]
      · simp [h1]

theorem value_parse_factor (mem : String → Int) (n : Nat)
    (hE : ∀ m, fills_value mem (parse_expr n) (value_expr mem m))
    (hF : ∀ m, fills_value mem (parse_factor n) (value_factor mem m)) :
    ∀ m, fills_value mem (parse_factor (n + 1)) (value_factor mem m) := by
  intro m t op p ty q v st h hval hsc hsf
  cases m with
  | zero => rw [value_factor] at hval; cases hval
  | succ m =>
    rw [value_factor] at hval
    obtain ⟨hadv1, hadv2, hadv3, hadv4⟩ := advanced_code p
    cases hw : p.word with
    | TOKEN_ID x =>
      simp only [hw, Option.some.injEq, Prod.mk.injEq] at hval
      obtain ⟨rfl, rfl⟩ := hval
      obtain ⟨h1, h2, h3, h4, h5⟩ := parse_factor_identifier_ok hw h
      obtain ⟨b1, b2, b3, b4⟩ := advanced_code (assign_operand op (.OPTYPE_MEMORY x) p).parser
      refine ⟨?_, ?_⟩
      · rw [h4, h5, b4, ← hw]; rfl
      · exact computes_assign (o := .OPTYPE_MEMORY x) hsc rfl (h1.trans b1) (h2.trans b2) (by rw [h3, b3]; rfl)
          (fun _ => 0)
    | TOKEN_NUM k =>
      simp only [hw, Option.some.injEq, Prod.mk.injEq] at hval
      obtain ⟨rfl, rfl⟩ := hval
      rw [parse_factor_number n t op p k hw] at h
      simp only [Res.ok.injEq, Prod.mk.injEq, true_and] at h
      obtain ⟨-, rfl⟩ := h
      obtain ⟨b1, b2, b3, b4⟩ :=
        advanced_code (assign_operand op (.OPTYPE_IMMEDIATE (num_value k)) p).parser
      refine ⟨?_, ?_⟩
      · rw [b4, ← hw]; rfl
      · exact computes_assign (o := .OPTYPE_IMMEDIATE (num_value k)) hsc rfl b1 b2
          (by rw [b3]; rfl) (fun _ => 0)
    | TOKEN_PUNC c =>
      cases c with
      | PUNC_OPEN =>
        simp only [hw] at hval
        obtain ⟨q1, hq1, hclose, rfl⟩ := (parse_factor_parenthesized n t op p hw ty q).1 h
        cases hv : value_expr mem m (next_token (p.word, p.lex)) with
        | none => rw [hw] at hv; rw [hv] at hval; cases hval
        | some r =>
          obtain ⟨v1, s1⟩ := r
          rw [hw] at hv
          rw [hv] at hval
          obtain ⟨c1, c2, c3, c4⟩ := advanced_code q1
          have hpre : p.advanced.e.out <+: q1.e.out :=
            prefix_of_ok ((appends_out_expression_productions n).1 _ _) hq1
          obtain ⟨hst, hcomp⟩ := hE m _ op p.advanced ty q1 v1 s1 hq1
            (by rw [hadv4, hw]; exact hv) (in_scope_congr hadv1 hsc)
            (spill_free_sub hsf (by rw [hadv3]) (by rw [c3]))
          subst hst
          simp only [hclose, Option.some.injEq, Prod.mk.injEq] at hval
          obtain ⟨rfl, rfl⟩ := hval
          exact ⟨c4.symm, computes_of_eq hadv1 hadv2 hadv3 c1 c2 c3 hcomp⟩
      | PUNC_SEMI => simp only [hw] at hval; cases hval
      | PUNC_COLON => simp only [hw] at hval; cases hval
      | PUNC_COMMA => simp only [hw] at hval; cases hval
      | PUNC_ASSIGN => simp only [hw] at hval; cases hval
      | PUNC_CLOSE => simp only [hw] at hval; cases hval
    | TOKEN_ADDOP a =>
      cases a with
      | ADDOP_ADD =>
        simp only [hw] at hval
        obtain ⟨q1, hq1, -, rfl⟩ := (parse_factor_plus n t op p hw ty q).1 h
        obtain ⟨hst, hcomp⟩ := hF m _ op p.advanced ty q1 v st hq1
          (by rw [hadv4, hw]; exact hval) (in_scope_congr hadv1 hsc)
          (spill_free_sub hsf (by rw [hadv3]) (List.prefix_refl _))
        exact ⟨hst, computes_of_eq hadv1 hadv2 hadv3 rfl rfl rfl hcomp⟩
      | ADDOP_SUB =>
        simp only [hw] at hval
        obtain ⟨q1, q3, R, hq1, -, hm, rfl⟩ :=
          (parse_factor_negated n t op p .INST_NEG (Or.inl ⟨hw, rfl⟩) ty q).1 h
        cases hv : value_factor mem m (next_token (p.word, p.lex)) with
        | none => rw [hw] at hv; rw [hv] at hval; cases hval
        | some r =>
          obtain ⟨v1, s1⟩ := r
          rw [hw] at hv
          rw [hv] at hval
          simp only [Option.some.injEq, Prod.mk.injEq] at hval
          obtain ⟨rfl, rfl⟩ := hval
          have hpre1 : p.advanced.e.out <+: q1.e.out :=
            prefix_of_ok ((appends_out_expression_productions n).2.2.2.2.2.2 _ _) hq1
          have hpre3 : q3.e.out <+: (q3.e.emit (.inst_1addr .INST_NEG R)).out :=
            ⟨[.inst_1addr .INST_NEG R], rfl⟩
          obtain ⟨hst, hcomp⟩ := hF m _ op p.advanced ty q1 v1 s1 hq1
            (by rw [hadv4, hw]; exact hv) (in_scope_congr hadv1 hsc)
            (spill_free_sub hsf (by rw [hadv3]) (by
              obtain ⟨o, pre, -, -, ho⟩ := materialized_out hm
              exact List.IsPrefix.trans ⟨_, ho.symm⟩ hpre3))
          have hword3 := stream_of_only_codegen (only_codegen_left_op_into_register false op)
            ((left_op_into_register_iff false op _ q3 R).2 hm)
          refine ⟨?_, ?_⟩
          · rw [hst]
            simp only [report_all] at hword3
            rw [Prod.mk.injEq]
            exact ⟨hword3.1.symm, hword3.2.symm⟩
          · refine computes_congr_left hadv1 hadv2 (by rw [hadv3]) ?_
            refine computes_trans hcomp ?_
            intro o1 ho1 hin1
            exact computes_negate (report_all _ q1) ho1 hin1 hm
              (spill_free_sub hsf (hadv3 ▸ hpre1) hpre3) rfl rfl rfl
      | ADDOP_OR => simp only [hw] at hval; cases hval
    | TOKEN_KEYWORD a => simp only [hw] at hval; cases hval
    | TOKEN_RELOP a => simp only [hw] at hval; cases hval
    | TOKEN_MULOP a => simp only [hw] at hval; cases hval
    | TOKEN_EOF => simp only [hw] at hval; cases hval

/-! ### One link of a chain of binary operators -/

/-- One link `op X Y` of a chain: the right operand is compiled by `X` into
the new slot, the operator is emitted, the rest `Y` of the chain goes on from
the left slot, and the new slot goes out of scope. -/
theorem computes_link {mem : String → Int} {left : Nat} {instr : inst_type}
    (post : Register → Nat → List IR) (hpost : ∀ r n, post r n = []) (p1 q : Parser)
    {ol : Operand} {vl v2 v3 v : Int} {p p2 p4 p5 : Parser} {s1 st : Token × List Token}
    (hol : p.slots[left]? = some { op := some ol, deleted := false, live := true })
    (hin : ∀ r, ol = .OPTYPE_REGISTER r → p.allocator.inuse r = true)
    (h1s : p1.slots = p.slots ++ [{ op := none, deleted := false, live := true }])
    (h1a : p1.allocator = p.allocator) (h1e : p1.e = p.e)
    (hpre12 : p1.e.out <+: p2.e.out)
    (hX : spill_free p1.e.out.length p2.e.out →
      s1 = (p2.word, p2.lex) ∧ computes mem p.slots.length none (fun _ => True) v2 p1 p2)
    (hbin : binary_emitted instr post left p.slots.length p2 p4)
    (hw4 : p4.word = p2.word ∧ p4.lex = p2.lex)
    (hpre24 : p2.e.out <+: p4.e.out)
    (halu : alu instr vl v2 = some v3)
    (hpre45 : p4.e.out <+: p5.e.out)
    (hY : ∀ o3, p4.slots[left]? = some { op := some o3, deleted := false, live := true } →
      (∀ r, o3 = .OPTYPE_REGISTER r → p4.allocator.inuse r = true) →
      s1 = (p4.word, p4.lex) → spill_free p4.e.out.length p5.e.out →
      st = (p5.word, p5.lex)
        ∧ computes mem left o3.register (fun reg => operand_value reg mem o3 = v3) v p4 p5)
    (hql : q.slots.length = p5.slots.length)
    (hqs : ∀ i, i ≠ p.slots.length → q.slots[i]? = p5.slots[i]?)
    (hqa : q.allocator = p5.allocator) (hqe : q.e.out = p5.e.out)
    (hqw : q.word = p5.word ∧ q.lex = p5.lex)
    (hsf : spill_free p.e.out.length q.e.out) :
    st = (q.word, q.lex)
      ∧ computes mem left ol.register (fun reg => operand_value reg mem ol = vl) v p q := by
  have e01 : p.e.out <+: p1.e.out := by rw [h1e]
  have e5q : p5.e.out <+: q.e.out := by rw [hqe]
  obtain ⟨hs1, hright⟩ :=
    hX (spill_free_mono hsf e01.length_le (hpre24.trans (hpre45.trans e5q)))
  obtain ⟨reg, pa, pb, src, hm, hsrc, hout, hsb, hab, -, -, hrel, -, -⟩ := hbin
  rw [hpost] at hout
  have he4 : p4.e = pb.e := by
    obtain ⟨_, -, -, he, -⟩ := hrel
    exact he
  have hpa4 : pa.e.out <+: p4.e.out := by
    rw [he4, hout]
    exact List.prefix_append _ _
  have hbinc := computes_binary hol hin h1s h1a (by rw [h1e]) hright hm hsrc hout hsb hab hrel
    (spill_free_mono hsf (e01.trans hpre12).length_le (hpa4.trans (hpre45.trans e5q))) halu
  have hbinc2 := hbinc
  obtain ⟨o3, c3, a1, -, a3, -⟩ := hbinc2
  have hs4 : s1 = (p4.word, p4.lex) := by rw [hs1, hw4.1, hw4.2]
  have hsf45 := spill_free_mono hsf ((e01.trans hpre12).trans hpre24).length_le e5q
  obtain ⟨hst, -⟩ := hY o3 a1 (fun r hr => (a3 r hr).1) hs4 hsf45
  refine ⟨by rw [hst, hqw.1, hqw.2], ?_⟩
  refine computes_congr_right p.slots.length (Nat.le_refl _) (getElem?_lt_of_eq_some hol) hql hqs
    hqa hqe ?_
  exact computes_trans hbinc (fun o1 ho1 hin1 => (hY o1 ho1 hin1 hs4 hsf45).2)

/-! ### Terms -/

theorem value_parse_term_prm (mem : String → Int) (n : Nat)
    (hF : ∀ m, fills_value mem (parse_factor n) (value_factor mem m))
    (hT : ∀ m, continues_value mem (parse_term_prm n) (value_term_prm mem m)) :
    ∀ m, continues_value mem (parse_term_prm (n + 1)) (value_term_prm mem m) := by
  intro m t left p ty q ol vl v st h hol hin hval hsf
  cases m with
  | zero => rw [value_term_prm] at hval; cases hval
  | succ m =>
    rw [value_term_prm] at hval
    rw [parse_term_prm] at h
    obtain ⟨right, pn, hn, h⟩ := bind_eq_ok h
    simp only [new_operand_slot, Res.ok.injEq] at hn
    obtain ⟨rfl, rfl⟩ := hn
    obtain ⟨w, p0, hw, h⟩ := bind_eq_ok h
    simp only [get_word_apply, Res.ok.injEq] at hw
    obtain ⟨hw, rfl⟩ := hw
    change p.word = w at hw
    cases w with
    | TOKEN_MULOP a =>
      obtain ⟨_, p1, ha, h⟩ := bind_eq_ok h
      simp only [advance_apply, Res.ok.injEq, true_and] at ha
      subst ha
      obtain ⟨factor, p2, hX, h⟩ := bind_eq_ok h
      obtain ⟨b, tF⟩ := factor
      cases b with
      | false => simp [bind_apply, end_of_scope, modifyp_apply, pure_apply] at h
      | true =>
        simp only [if_true] at h
        obtain ⟨_, p4, hcg, h⟩ := bind_eq_ok h
        obtain ⟨prm1, p5, hrec, h⟩ := bind_eq_ok h
        obtain ⟨b1, t1⟩ := prm1
        cases b1 with
        | false => simp [bind_apply, end_of_scope, modifyp_apply, pure_apply] at h
        | true =>
          simp only [if_true] at h
          obtain ⟨res, p6, hsem, h⟩ := bind_eq_ok h
          rw [term_prm_semantics_apply] at hsem
          obtain ⟨_, p7, hend, h⟩ := bind_eq_ok h
          simp only [pure_apply, Res.ok.injEq] at h
          obtain ⟨-, rfl⟩ := h
          simp only [end_of_scope, modifyp_apply, Res.ok.injEq, true_and] at hend
          subst hend
          obtain ⟨c1, c2, c3, c4, c5⟩ := checked_same_code hsem
          obtain ⟨d1, d2, d3, d4⟩ := advanced_code
            { p with slots := p.slots ++ [{ op := none, deleted := false, live := true }] }
          have key : ∀ (instr : inst_type) (v2 v3 : Int) (s1 : Token × List Token),
              mulop_instruction a = instr →
              value_factor mem m (next_token (p.word, p.lex)) = some (v2, s1) →
              value_term_prm mem m v3 s1 = some (v, st) →
              alu instr vl v2 = some v3 →
              st = (p6.word, p6.lex)
                ∧ computes mem left ol.register (fun reg => operand_value reg mem ol = vl) v p
                  { p6 with
                    slots := (p6.slots.modify (fun s => { s with live := false }) p.slots.length) }
                  := by
            intro instr v2 v3 s1 hi hv2 hv3 halu
            refine computes_link (fun _ _ => []) (fun _ _ => rfl) _
              { p6 with
                slots := (p6.slots.modify (fun s => { s with live := false }) p.slots.length) }
              hol hin d1 d2 d3
              (prefix_of_ok ((appends_out_expression_productions n).2.2.2.2.2.2 _ _) hX)
              (fun hf => hF m _ _ _ tF p2 v2 s1 hX (by rw [d4]; exact hv2)
                ⟨_, by rw [d1]; exact getElem?_append_slot_length _ _, rfl⟩ hf)
              (hi ▸ mulop_codegen_ok hcg)
              (stream_of_only_codegen (only_codegen_mulop_codegen a left p.slots.length) hcg)
              (prefix_of_ok (appends_out_mulop_codegen a left p.slots.length) hcg)
              halu
              (prefix_of_ok ((appends_out_expression_productions n).2.2.2.2.2.1 _ _) hrec)
              (fun o3 ho3 hin3 hs4 hf => hT m _ left p4 t1 p5 o3 v3 v st hrec ho3 hin3
                (by rw [← hs4]; exact hv3) hf)
              (by show (List.modify _ _ _).length = _; rw [List.length_modify, c1])
              (fun i hi => by
                show (List.modify _ _ _)[i]? = _
                rw [getElem?_modify_ne _ _ (Ne.symm hi), c1])
              c2 (by rw [c3]) ⟨c4, c5⟩ hsf
          cases a with
          | MULOP_MUL =>
            simp only [hw] at hval
            cases hv : value_factor mem m (next_token (p.word, p.lex)) with
            | none => rw [hw] at hv; rw [hv] at hval; cases hval
            | some r =>
              obtain ⟨v2, s1⟩ := r
              have hv1 := hv
              rw [hw] at hv1
              rw [hv1] at hval
              exact key .INST_MUL v2 (vl * v2) s1 rfl hv hval rfl
          | MULOP_DIV =>
            simp only [hw] at hval
            cases hv : value_factor mem m (next_token (p.word, p.lex)) with
            | none => rw [hw] at hv; rw [hv] at hval; cases hval
            | some r =>
              obtain ⟨v2, s1⟩ := r
              have hv1 := hv
              rw [hw] at hv1
              rw [hv1] at hval
              by_cases h0 : v2 = 0
              · simp only [h0, if_true] at hval; cases hval
              · simp only [h0, if_false] at hval
                exact key .INST_DIV v2 (Int.tdiv vl v2) s1 rfl hv hval rfl
          | MULOP_AND =>
            simp only [hw] at hval
            cases hval
    | _ =>
      simp only [hw, Option.some.injEq, Prod.mk.injEq] at hval
      obtain ⟨rfl, rfl⟩ := hval
      simp only [bind_apply, end_of_scope, modifyp_apply, pure_apply, Res.ok.injEq, Prod.mk.injEq,
        true_and] at h
      obtain ⟨-, rfl⟩ := h
      refine ⟨by show (_, p.lex) = (p.word, p.lex); rw [hw], ?_⟩
      refine computes_same hol hin (by simp) ?_ rfl rfl
      intro i hi
      simp only
      rw [getElem?_modify_ne _ _ (Nat.ne_of_gt hi), List.getElem?_append_left hi]

/-! ### Heads of chains, sums and expressions -/

/-- The head `X Y` of a chain: `X` fills the slot and `Y` goes on from it. -/
theorem computes_head {mem : String → Int} {op : Nat} {v1 v : Int} {p p2 p3 q : Parser}
    {s1 st : Token × List Token}
    (hpre12 : p.e.out <+: p2.e.out) (hpre23 : p2.e.out <+: p3.e.out)
    (hX : spill_free p.e.out.length p2.e.out →
      s1 = (p2.word, p2.lex) ∧ computes mem op none (fun _ => True) v1 p p2)
    (hY : ∀ o1, p2.slots[op]? = some { op := some o1, deleted := false, live := true } →
      (∀ r, o1 = .OPTYPE_REGISTER r → p2.allocator.inuse r = true) →
      s1 = (p2.word, p2.lex) → spill_free p2.e.out.length p3.e.out →
      st = (p3.word, p3.lex)
        ∧ computes mem op o1.register (fun reg => operand_value reg mem o1 = v1) v p2 p3)
    (hq : same_code p3 q) (hsf : spill_free p.e.out.length q.e.out) :
    st = (q.word, q.lex) ∧ computes mem op none (fun _ => True) v p q := by
  obtain ⟨c1, c2, c3, c4, c5⟩ := hq
  have e3q : p3.e.out <+: q.e.out := by rw [c3]
  obtain ⟨hs1, hhead⟩ := hX (spill_free_mono hsf (Nat.le_refl _) (hpre23.trans e3q))
  have hhead2 := hhead
  obtain ⟨o1, k1, a1, -, a3, -⟩ := hhead2
  have hsf23 := spill_free_mono hsf hpre12.length_le e3q
  obtain ⟨hst, -⟩ := hY o1 a1 (fun r hr => (a3 r hr).1) hs1 hsf23
  refine ⟨by rw [hst, c4, c5], ?_⟩
  refine computes_of_eq rfl rfl rfl c1 c2 c3 ?_
  exact computes_trans hhead (fun o2 ho2 hin2 => (hY o2 ho2 hin2 hs1 hsf23).2)

theorem value_parse_term (mem : String → Int) (n : Nat)
    (hF : ∀ m, fills_value mem (parse_factor n) (value_factor mem m))
    (hT : ∀ m, continues_value mem (parse_term_prm n) (value_term_prm mem m)) :
    ∀ m, fills_value mem (parse_term (n + 1)) (value_term mem m) := by
  intro m t op p ty q v st h hval hsc hsf
  cases m with
  | zero => rw [value_term] at hval; cases hval
  | succ m =>
    rw [value_term] at hval
    rw [parse_term] at h
    obtain ⟨factor, p2, hX, h⟩ := bind_eq_ok h
    obtain ⟨b, tF⟩ := factor
    cases b with
    | false => simp [pure_apply] at h
    | true =>
      simp only [if_true] at h
      obtain ⟨prm, p3, hY, h⟩ := bind_eq_ok h
      obtain ⟨b1, tP⟩ := prm
      cases b1 with
      | false => simp [pure_apply] at h
      | true =>
        simp only [if_true] at h
        obtain ⟨res, p4, hsem, h⟩ := bind_eq_ok h
        rw [term_semantics_apply] at hsem
        simp only [pure_apply, Res.ok.injEq] at h
        obtain ⟨-, rfl⟩ := h
        cases hv : value_factor mem m (p.word, p.lex) with
        | none => rw [hv] at hval; cases hval
        | some r =>
          obtain ⟨v1, s1⟩ := r
          rw [hv] at hval
          exact computes_head
            (prefix_of_ok ((appends_out_expression_productions n).2.2.2.2.2.2 _ _) hX)
            (prefix_of_ok ((appends_out_expression_productions n).2.2.2.2.2.1 _ _) hY)
            (fun hf => hF m _ op p tF p2 v1 s1 hX hv hsc hf)
            (fun o1 ho1 hin1 hs1 hf => hT m _ op p2 tP p3 o1 v1 v st hY ho1 hin1
              (by rw [← hs1]; exact hval) hf)
            (checked_same_code hsem) hsf

theorem value_parse_simple_expr_prm (mem : String → Int) (n : Nat)
    (hT : ∀ m, fills_value mem (parse_term n) (value_term mem m))
    (hS : ∀ m, continues_value mem (parse_simple_expr_prm n) (value_simple_expr_prm mem m)) :
    ∀ m, continues_value mem (parse_simple_expr_prm (n + 1)) (value_simple_expr_prm mem m) := by
  intro m t left p ty q ol vl v st h hol hin hval hsf
  cases m with
  | zero => rw [value_simple_expr_prm] at hval; cases hval
  | succ m =>
    rw [value_simple_expr_prm] at hval
    rw [parse_simple_expr_prm] at h
    obtain ⟨w, p0, hw, h⟩ := bind_eq_ok h
    simp only [get_word_apply, Res.ok.injEq] at hw
    obtain ⟨hw, rfl⟩ := hw
    cases w with
    | TOKEN_ADDOP a =>
      obtain ⟨_, p1, ha, h⟩ := bind_eq_ok h
      simp only [advance_apply, Res.ok.injEq, true_and] at ha
      subst ha
      obtain ⟨right, pn, hn, h⟩ := bind_eq_ok h
      simp only [new_operand_slot, Res.ok.injEq] at hn
      obtain ⟨rfl, rfl⟩ := hn
      obtain ⟨term, p2, hX, h⟩ := bind_eq_ok h
      obtain ⟨b, tF⟩ := term
      cases b with
      | false => simp [bind_apply, end_of_scope, modifyp_apply, pure_apply] at h
      | true =>
        simp only [if_true] at h
        obtain ⟨_, p4, hcg, h⟩ := bind_eq_ok h
        obtain ⟨prm1, p5, hrec, h⟩ := bind_eq_ok h
        obtain ⟨b1, t1⟩ := prm1
        cases b1 with
        | false => simp [bind_apply, end_of_scope, modifyp_apply, pure_apply] at h
        | true =>
          simp only [if_true] at h
          obtain ⟨res, p6, hsem, h⟩ := bind_eq_ok h
          rw [simple_expr_prm_semantics_apply] at hsem
          obtain ⟨_, p7, hend, h⟩ := bind_eq_ok h
          simp only [pure_apply, Res.ok.injEq] at h
          obtain ⟨-, rfl⟩ := h
          simp only [end_of_scope, modifyp_apply, Res.ok.injEq, true_and] at hend
          subst hend
          obtain ⟨c1, c2, c3, c4, c5⟩ := checked_same_code hsem
          obtain ⟨d1, d2, d3, d4⟩ := advanced_code p
          rw [d1] at hX hcg ⊢
          have key : ∀ (instr : inst_type) (v2 v3 : Int) (s1 : Token × List Token),
              a ≠ .ADDOP_OR → addop_instruction a = instr →
              value_term mem m (next_token (p.word, p.lex)) = some (v2, s1) →
              value_simple_expr_prm mem m v3 s1 = some (v, st) →
              alu instr vl v2 = some v3 →
              st = (p6.word, p6.lex)
                ∧ computes mem left ol.register (fun reg => operand_value reg mem ol = vl) v p
                  { p6 with
                    slots := (p6.slots.modify (fun s => { s with live := false })
                      p.slots.length) }
                  := by
            intro instr v2 v3 s1 hor hi hv2 hv3 halu
            have hcg1 := addop_codegen_ok hcg
            rw [hi] at hcg1
            refine computes_link
              (fun reg n => if a = .ADDOP_OR then or_code reg n else [])
              (fun _ _ => if_neg hor)
              { p.advanced with
                slots := p.slots ++ [{ op := none, deleted := false, live := true }] }
              { p6 with
                slots := (p6.slots.modify (fun s => { s with live := false }) p.slots.length) }
              hol hin rfl d2 d3
              (prefix_of_ok ((appends_out_expression_productions n).2.2.2.2.1 _ _) hX)
              (fun hf => hT m _ _ _ tF p2 v2 s1 hX
                (by show value_term mem m (p.advanced.word, p.advanced.lex) = _
                    rw [d4]; exact hv2)
                ⟨{ op := none, deleted := false, live := true },
                  getElem?_append_slot_length _ _, rfl⟩ hf)
              hcg1
              (stream_of_only_codegen (only_codegen_addop_codegen a left _) hcg)
              (prefix_of_ok (appends_out_addop_codegen a left _) hcg)
              halu
              (prefix_of_ok ((appends_out_expression_productions n).2.2.2.1 _ _) hrec)
              (fun o3 ho3 hin3 hs4 hf => hS m _ left p4 t1 p5 o3 v3 v st hrec ho3 hin3
                (by rw [← hs4]; exact hv3) hf)
              (by show (List.modify _ _ _).length = _; rw [List.length_modify, c1])
              (fun i hi => by
                show (List.modify _ _ _)[i]? = _
                rw [getElem?_modify_ne _ _ (Ne.symm hi), c1])
              c2 (by rw [c3]) ⟨c4, c5⟩ hsf
          cases a with
          | ADDOP_ADD =>
            simp only [hw] at hval
            cases hv : value_term mem m (next_token (p.word, p.lex)) with
            | none => rw [hw] at hv; rw [hv] at hval; cases hval
            | some r =>
              obtain ⟨v2, s1⟩ := r
              have hv1 := hv
              rw [hw] at hv1
              rw [hv1] at hval
              exact key .INST_ADD v2 (vl + v2) s1 (by decide) rfl hv hval rfl
          | ADDOP_SUB =>
            simp only [hw] at hval
            cases hv : value_term mem m (next_token (p.word, p.lex)) with
            | none => rw [hw] at hv; rw [hv] at hval; cases hval
            | some r =>
              obtain ⟨v2, s1⟩ := r
              have hv1 := hv
              rw [hw] at hv1
              rw [hv1] at hval
              exact key .INST_SUB v2 (vl - v2) s1 (by decide) rfl hv hval rfl
          | ADDOP_OR =>
            simp only [hw] at hval
            cases hval
    | _ =>
      simp only [hw, Option.some.injEq, Prod.mk.injEq] at hval
      obtain ⟨rfl, rfl⟩ := hval
      simp only [pure_apply, Res.ok.injEq, Prod.mk.injEq, true_and] at h
      obtain ⟨-, rfl⟩ := h
      refine ⟨by rw [hw], ?_⟩
      exact computes_same hol hin (Nat.le_refl _) (fun _ _ => rfl) rfl rfl

theorem value_parse_simple_expr (mem : String → Int) (n : Nat)
    (hT : ∀ m, fills_value mem (parse_term n) (value_term mem m))
    (hS : ∀ m, continues_value mem (parse_simple_expr_prm n) (value_simple_expr_prm mem m)) :
    ∀ m, fills_value mem (parse_simple_expr (n + 1)) (value_simple_expr mem m) := by
  intro m t op p ty q v st h hval hsc hsf
  cases m with
  | zero => rw [value_simple_expr] at hval; cases hval
  | succ m =>
    rw [value_simple_expr] at hval
    rw [parse_simple_expr] at h
    obtain ⟨term, p2, hX, h⟩ := bind_eq_ok h
    obtain ⟨b, tF⟩ := term
    cases b with
    | false => simp [pure_apply] at h
    | true =>
      simp only [if_true] at h
      obtain ⟨prm, p3, hY, h⟩ := bind_eq_ok h
      obtain ⟨b1, tP⟩ := prm
      cases b1 with
      | false => simp [pure_apply] at h
      | true =>
        simp only [if_true] at h
        obtain ⟨res, p4, hsem, h⟩ := bind_eq_ok h
        rw [simple_expr_semantics_apply] at hsem
        simp only [pure_apply, Res.ok.injEq] at h
        obtain ⟨-, rfl⟩ := h
        cases hv : value_term mem m (p.word, p.lex) with
        | none => rw [hv] at hval; cases hval
        | some r =>
          obtain ⟨v1, s1⟩ := r
          rw [hv] at hval
          exact computes_head
            (prefix_of_ok ((appends_out_expression_productions n).2.2.2.2.1 _ _) hX)
            (prefix_of_ok ((appends_out_expression_productions n).2.2.2.1 _ _) hY)
            (fun hf => hT m _ op p tF p2 v1 s1 hX hv hsc hf)
            (fun o1 ho1 hin1 hs1 hf => hS m _ op p2 tP p3 o1 v1 v st hY ho1 hin1
              (by rw [← hs1]; exact hval) hf)
            (checked_same_code hsem) hsf

/-! ### Expressions -/

theorem parse_expr_hat_no_relop {fuel : Nat} {t th : expr_type} {op : Nat} {p q : Parser}
    {b : Bool} (h : parse_expr_hat fuel t op p = .ok (b, th) q)
    (hw : ∀ c, p.word ≠ .TOKEN_RELOP c) : q = p := by
  cases fuel with
  | zero => rw [parse_expr_hat] at h; cases h
  | succ fuel =>
    rw [parse_expr_hat] at h
    obtain ⟨w, p0, hw0, h⟩ := bind_eq_ok h
    simp only [get_word_apply, Res.ok.injEq] at hw0
    obtain ⟨hw0, rfl⟩ := hw0
    cases w with
    | TOKEN_RELOP c => exact absurd hw0 (hw c)
    | _ =>
      simp only [pure_apply, Res.ok.injEq] at h
      exact h.2.symm

theorem value_parse_expr (mem : String → Int) (n : Nat)
    (hS : ∀ m, fills_value mem (parse_simple_expr n) (value_simple_expr mem m)) :
    ∀ m, fills_value mem (parse_expr (n + 1)) (value_expr mem m) := by
  intro m t op p ty q v st h hval hsc hsf
  cases m with
  | zero => rw [value_expr] at hval; cases hval
  | succ m =>
    rw [value_expr] at hval
    rw [parse_expr] at h
    obtain ⟨se, p2, hX, h⟩ := bind_eq_ok h
    obtain ⟨b, tS⟩ := se
    cases b with
    | false => simp [pure_apply] at h
    | true =>
      simp only [if_true] at h
      obtain ⟨hat, p3, hY, h⟩ := bind_eq_ok h
      obtain ⟨b1, tH⟩ := hat
      cases b1 with
      | false => simp [pure_apply] at h
      | true =>
        simp only [if_true] at h
        obtain ⟨res, p4, hsem, h⟩ := bind_eq_ok h
        rw [expr_semantics_apply] at hsem
        simp only [pure_apply, Res.ok.injEq] at h
        obtain ⟨-, rfl⟩ := h
        obtain ⟨c1, c2, c3, c4, c5⟩ := checked_same_code hsem
        have e23 : p2.e.out <+: p3.e.out :=
          prefix_of_ok ((appends_out_expression_productions n).2.1 _ _) hY
        have e3q : p3.e.out <+: p4.e.out := by rw [c3]
        cases hv : value_simple_expr mem m (p.word, p.lex) with
        | none => rw [hv] at hval; cases hval
        | some r =>
          obtain ⟨v1, s1⟩ := r
          rw [hv] at hval
          obtain ⟨hs1, hcomp⟩ := hS m _ op p tS p2 v1 s1 hX hv hsc
            (spill_free_mono hsf (Nat.le_refl _) (e23.trans e3q))
          subst hs1
          have hno : ∀ c, p2.word ≠ .TOKEN_RELOP c := by
            intro c hc
            simp only [hc] at hval
            cases hval
          have h32 : p3 = p2 := parse_expr_hat_no_relop hY hno
          subst h32
          have hvst : v1 = v ∧ (p3.word, p3.lex) = st := by
            cases hw : p3.word with
            | TOKEN_RELOP c => exact absurd hw (hno c)
            | _ =>
              simp only [hw, Option.some.injEq, Prod.mk.injEq] at hval
              exact ⟨hval.1, hval.2⟩
          obtain ⟨rfl, rfl⟩ := hvst
          exact ⟨by rw [c4, c5], computes_of_eq rfl rfl rfl c1 c2 c3 hcomp⟩

/-- The expression productions compile what the evaluator evaluates, as long
as no spill is emitted. -/
theorem value_expression_productions (mem : String → Int) (n : Nat) :
    (∀ m, fills_value mem (parse_expr n) (value_expr mem m))
    ∧ (∀ m, fills_value mem (parse_simple_expr n) (value_simple_expr mem m))
    ∧ (∀ m, continues_value mem (parse_simple_expr_prm n) (value_simple_expr_prm mem m))
    ∧ (∀ m, fills_value mem (parse_term n) (value_term mem m))
    ∧ (∀ m, continues_value mem (parse_term_prm n) (value_term_prm mem m))
    ∧ (∀ m, fills_value mem (parse_factor n) (value_factor mem m)) := by
  induction n with
  | zero =>
    refine ⟨?_, ?_, ?_, ?_, ?_, ?_⟩
    · intro m t op p ty q v st h; rw [parse_expr] at h; cases h
    · intro m t op p ty q v st h; rw [parse_simple_expr] at h; cases h
    · intro m t op p ty q ol vl v st h; rw [parse_simple_expr_prm] at h; cases h
    · intro m t op p ty q v st h; rw [parse_term] at h; cases h
    · intro m t op p ty q ol vl v st h; rw [parse_term_prm] at h; cases h
    · intro m t op p ty q v st h; rw [parse_factor] at h; cases h
  | succ n ih =>
    obtain ⟨hE, hS, hSP, hT, hTP, hF⟩ := ih
    exact ⟨value_parse_expr mem n hS, value_parse_simple_expr mem n hT hSP,
      value_parse_simple_expr_prm mem n hT hSP, value_parse_term mem n hF hTP,
      value_parse_term_prm mem n hF hTP, value_parse_factor mem n hE hF⟩

theorem spill_free_of_all {n : Nat} {out : List IR}
    (h : (out.drop n).all (fun i => !i.is_store) = true) : spill_free n out := by
  intro x r hmem
  have h1 := List.all_eq_true.1 h _ hmem
  simp [IR.is_store] at h1

/-! ### The blocks of a program -/

theorem parse_program_named {fuel : Nat} {p : Parser} {x : String}
    (hw : p.word = .TOKEN_KEYWORD .KW_PROGRAM) (hid : p.advanced.word = .TOKEN_ID x) :
    parse_program (fuel + 1) p = program_rest fuel (program_named x p.advanced) := by
  have hk : is_keyword (.TOKEN_KEYWORD .KW_PROGRAM) .KW_PROGRAM = true := rfl
  rw [parse_program_eq]
  simp only [bind_apply, get_word_apply, hw, hk, if_true, advance_apply, hid]
  rfl

theorem program_rest_decl_false {fuel : Nat} {pH r : Parser}
    (hs : pH.word = .TOKEN_PUNC .PUNC_SEMI)
    (hd : parse_decl_list fuel pH.advanced = .ok false r) :
    program_rest fuel pH = .ok false r := by
  have hk : is_punctuation (.TOKEN_PUNC .PUNC_SEMI) .PUNC_SEMI = true := rfl
  unfold program_rest
  simp only [bind_apply, get_word_apply, hs, hk, if_true, advance_apply, hd, Bool.false_eq_true,
    if_false, pure_apply]

theorem program_rest_block_false {fuel : Nat} {pH pB r : Parser}
    (hs : pH.word = .TOKEN_PUNC .PUNC_SEMI)
    (hd : parse_decl_list fuel pH.advanced = .ok true pB)
    (hb : parse_block fuel pB = .ok false r) :
    program_rest fuel pH = .ok false r := by
  have hk : is_punctuation (.TOKEN_PUNC .PUNC_SEMI) .PUNC_SEMI = true := rfl
  unfold program_rest
  simp only [bind_apply, get_word_apply, hs, hk, if_true, advance_apply, hd, hb,
    Bool.false_eq_true, if_false, pure_apply]

/-- The declarations return only with a fuel of at least 2. -/
theorem parse_decl_list_fuel {fuel : Nat} {p q : Parser} {b : Bool}
    (h : parse_decl_list fuel p = .ok b q) : 2 ≤ fuel := by
  match fuel, h with
  | 0, h => rw [parse_decl_list] at h; cases h
  | 1, h =>
    rw [parse_decl_list] at h
    simp only [bind_apply, parse_variable_decl_list, halt_with_apply] at h
    cases h
  | fuel + 2, _ => exact Nat.le_add_left 2 fuel

/-- A program whose main block returns false is rejected. -/
theorem parse_program_block_false {fuel : Nat} {p pB r : Parser}
    (hm : main_block_entered fuel p pB) (hb : parse_block fuel pB = .ok false r) :
    parse_program (fuel + 1) p = .ok false r := by
  obtain ⟨pD, ⟨x, hw, hid, hs, rfl⟩, hd⟩ := hm
  rw [parse_program_named hw hid]
  exact program_rest_block_false hs hd hb

theorem parse_decl_list_procedure_false {fuel : Nat} {pD pV r : Parser}
    (hv : parse_variable_decl_list fuel pD = .ok true pV)
    (hp : parse_procedure_decl_list fuel pV = .ok false r) :
    parse_decl_list (fuel + 1) pD = .ok false r := by
  rw [parse_decl_list]
  simp only [bind_apply, hv, if_true, hp]

/-- A list of procedure declarations one of which returns false returns
false. -/
theorem parse_procedure_decl_list_false {fuel k : Nat} {p r r1 : Parser}
    (he : procedure_reached fuel p k r) (hf : parse_procedure_decl k r = .ok false r1) :
    parse_procedure_decl_list fuel p = .ok false r1 := by
  have hk : is_keyword (.TOKEN_KEYWORD .KW_PROCEDURE) .KW_PROCEDURE = true := rfl
  have hs : is_punctuation (.TOKEN_PUNC .PUNC_SEMI) .PUNC_SEMI = true := rfl
  induction he with
  | first fuel p hw =>
    rw [parse_procedure_decl_list]
    simp only [bind_apply, get_word_apply, hw, hk, if_true, hf, Bool.false_eq_true, if_false,
      pure_apply]
  | later fuel p p1 k r hw hd hsemi _ ih =>
    rw [parse_procedure_decl_list]
    simp only [bind_apply, get_word_apply, hw, hk, if_true, hd, hsemi, hs, advance_apply]
    exact ih hf

/-- A procedure declaration whose block returns false returns false. -/
theorem parse_procedure_decl_block_false {fuel : Nat} {p pB r : Parser}
    (hm : procedure_block_entered fuel p pB) (hb : parse_block fuel pB = .ok false r) :
    parse_procedure_decl (fuel + 1) p = .ok false r := by
  obtain ⟨x, p1, pA, hw, hid, hdecl, hopen, hargs, hclose, hv⟩ := hm
  have hk : is_keyword (.TOKEN_KEYWORD .KW_PROCEDURE) .KW_PROCEDURE = true := rfl
  have ho : is_punctuation (.TOKEN_PUNC .PUNC_OPEN) .PUNC_OPEN = true := rfl
  have hc : is_punctuation (.TOKEN_PUNC .PUNC_CLOSE) .PUNC_CLOSE = true := rfl
  rw [parse_procedure_decl_site]
  simp only [bind_apply, get_word_apply, hw, hk, if_true, advance_apply, hid, hdecl, hopen, ho,
    hargs, hclose, hc, hv, hb, Bool.false_eq_true, if_false, pure_apply]

/-- A program one of whose procedure declarations returns false is
rejected. -/
theorem parse_program_procedure_false {fuel k : Nat} {p r r1 : Parser}
    (he : program_procedure_reached fuel p k r)
    (hf : parse_procedure_decl k r = .ok false r1) :
    parse_program (fuel + 2) p = .ok false r1 := by
  obtain ⟨pD, pV, ⟨x, hw, hid, hs, rfl⟩, hv, hpe⟩ := he
  rw [parse_program_named hw hid]
  exact program_rest_decl_false hs
    (parse_decl_list_procedure_false hv (parse_procedure_decl_list_false hpe hf))

/-! ### The claims -/

/-- C1 (code defect): the program `prog_call_compound_actual`, whose main block
is the single call `q(a + b)`, compiles successfully in production mode
(`parse_program` returns true, nothing is written to standard error), and yet
the register allocated for `a + b` is still in use afterwards: the register
free set is not full. -/
theorem C1_call_with_compound_actual_leaks_register :
    (compile false 30 prog_call_compound_actual).value = some true
    ∧ (compile false 30 prog_call_compound_actual).parser.diagnostics = []
    ∧ (compile false 30 prog_call_compound_actual).parser.allocator.all_free = false
    ∧ (compile false 30 prog_call_compound_actual).parser.allocator.inuse .R1 = true := by
  decide!

/-- C2 (code defect): `prog_nested_products` compiles successfully in
production mode with no diagnostic.  The value of `e + f` is spilled to
`spill1` and later reloaded into a register as the left operand of `*`; the
slot is not deallocated at the reload, so the spill table still holds the
active entry `spill1` after the compilation. -/
theorem C2_reloaded_spill_slot_stays_active :
    (compile false 40 prog_nested_products).value = some true
    ∧ (compile false 40 prog_nested_products).parser.diagnostics = []
    ∧ (compile false 40 prog_nested_products).parser.spilled_labels
        = [("spill1", true), ("spill2", false)]
    ∧ IR.move_reg_mem .R3 "spill1" ∈ (compile false 40 prog_nested_products).parser.e.out := by
  decide!

/-- C3 (code defect): in the parser record left by compiling
`prog_nested_products` the spill table is `[(spill1, active), (spill2,
inactive)]`; `allocate_spill_memory` returns the label `spill2` of the first
inactive entry and leaves the record as it is, so the entry it has just
handed out is still inactive. -/
theorem C3_allocate_spill_memory_leaves_reused_entry_inactive :
    allocate_spill_memory (compile false 40 prog_nested_products).parser
      = .ok "spill2" (compile false 40 prog_nested_products).parser
    ∧ (compile false 40 prog_nested_products).parser.spilled_labels
        = [("spill1", true), ("spill2", false)] := by
  decide!

/-- C4 (code defect): `prog_three_calls_then_assignment` reports no
diagnostic; after the three calls `q(a + b)` every register is in use, and at
the materialization site of the assignment `a := 1` the slot
`last_register_op` refers to is the local `expression` of the third
`parse_actual_parm_list` call, which has returned: the variable is out of
scope, and the spill cannot free a register through it. -/
theorem C4_empty_pool_with_dangling_last_register_op :
    (compile false 30 prog_three_calls_then_assignment).halted
      = some (.contract .invalid_last_register_op)
    ∧ (compile false 30 prog_three_calls_then_assignment).parser.diagnostics = []
    ∧ (compile false 30 prog_three_calls_then_assignment).parser.allocator.has_free_register
        = false
    ∧ (compile false 30 prog_three_calls_then_assignment).parser.last_register_slot
        = some { op := some (.OPTYPE_REGISTER .R3), deleted := false, live := false } := by
  decide!

/-- C5: on every run of `parse_program` from a freshly constructed parser, in
production mode and in test mode, whatever the token sequence and the fuel,
the run is never ended by a `deallocate_register` call on a register that is
not allocated: every release (of a right operand, of a statement's
expression register, of a spilled register) is applied to a register that is
in use at that moment. -/
theorem C5_no_release_of_a_free_register (test_mode : Bool) (fuel : Nat) (tokens : List Token)
    (r : Register) :
    (compile test_mode fuel tokens).halted ≠ some (.contract (.deallocate_free_register r)) := by
  have h := preserves_parse_program owner_block_invariant fuel (Parser.init test_mode tokens)
    (owner_invariant_init test_mode tokens)
  unfold compile
  cases hrun : parse_program fuel (Parser.init test_mode tokens) with
  | ok a p => simp [Res.halted]
  | halt hh p =>
    rw [hrun] at h
    have h1 : no_double_free hh := h
    simp only [Res.halted, ne_eq, Option.some.injEq]
    exact h1 r

/-- C7: typing of relational operators.  Let `S1` be parsed successfully with
type `t1`, let a relop follow, let `S2` be parsed successfully with type `t2`
leaving the record `p2`, and let the code of the comparison be generated,
leaving `p3`.  The two semantic checks of `parse_expr_hat` and `parse_expr`
report nothing exactly when `t1` and `t2` are both `INT_T`.  In test mode, or
when both are `INT_T`, `parse_expr` returns true, the synthesized type is
`BOOL_T` when both are `INT_T` and the incoming attribute otherwise, and its
diagnostics are those of `p2` followed by what the two checks report; in
production mode an ill-typed comparison ends the run with `exit` after an
error has been written.  When no relop follows `S1`, `parse_expr` returns
true with the type of `S1` and the record `S1` left. -/
theorem C7_relop_typing :
    (∀ (fuel : Nat) (t0 : expr_type) (op r : Nat) (c : relop_attr) (p p1 pa p2 p3 : Parser)
        (t1 t2 : expr_type),
      parse_simple_expr (fuel + 1) .GARBAGE_T op p = .ok (true, t1) p1 →
      p1.word = .TOKEN_RELOP c →
      (do advance; new_operand_slot none) p1 = .ok r pa →
      parse_simple_expr fuel .GARBAGE_T r pa = .ok (true, t2) p2 →
      (do relop_codegen c op r; end_of_scope r) (report_all (expr_hat_errors t2) p2)
        = .ok () p3 →
      (expr_hat_errors t2 ++ expr_errors t1 (expr_hat_result .GARBAGE_T t2) = []
          ↔ (t1 = .INT_T ∧ t2 = .INT_T))
      ∧ ((p2.test_mode = true ∨ (t1 = .INT_T ∧ t2 = .INT_T)) →
          parse_expr (fuel + 2) t0 op p
            = .ok (true, if t1 = .INT_T ∧ t2 = .INT_T then .BOOL_T else t0)
                (report_all (expr_errors t1 (expr_hat_result .GARBAGE_T t2)) p3)
          ∧ (parse_expr (fuel + 2) t0 op p).parser.diagnostics
            = p2.diagnostics
              ++ (expr_hat_errors t2 ++ expr_errors t1 (expr_hat_result .GARBAGE_T t2)))
      ∧ (p2.test_mode = false → ¬ (t1 = .INT_T ∧ t2 = .INT_T) →
          (parse_expr (fuel + 2) t0 op p).halted = some .exit_failure
          ∧ (parse_expr (fuel + 2) t0 op p).parser.diagnostics ≠ p2.diagnostics))
    ∧ (∀ (fuel : Nat) (t0 : expr_type) (op : Nat) (p p1 : Parser) (t1 : expr_type),
      parse_simple_expr (fuel + 1) .GARBAGE_T op p = .ok (true, t1) p1 →
      is_relop p1.word = false →
      parse_expr (fuel + 2) t0 op p = .ok (true, t1) p1) := by
  refine ⟨?_, ?_⟩
  · intro fuel t0 op r c p p1 pa p2 p3 t1 t2 hS1 hword hpre hS2 hcg
    have hmain := parse_expr_relop fuel t0 op r c p p1 pa p2 t1 t2 hS1 hword hpre hS2
    have hk : keeps_semantic_state (do relop_codegen c op r; end_of_scope r) :=
      keeps_bind (keeps_relop_codegen c op r) (fun _ => keeps_end_of_scope r)
    obtain ⟨hd3, hm3⟩ := keeps_of_ok hk hcg
    have hres : expr_result t0 t1 (expr_hat_result .GARBAGE_T t2)
        = if t1 = .INT_T ∧ t2 = .INT_T then .BOOL_T else t0 := by
      cases t1 <;> cases t2 <;> simp [expr_result, expr_hat_result]
    have hcg2 : ∀ {β : Type} (f : M β),
        (do relop_codegen c op r; end_of_scope r; f) (report_all (expr_hat_errors t2) p2)
          = f p3 := by
      intro β f
      simp only [bind_apply] at hcg ⊢
      cases hc : relop_codegen c op r (report_all (expr_hat_errors t2) p2) with
      | halt h q => simp [hc] at hcg
      | ok u q =>
        simp only [hc] at hcg ⊢
        rw [hcg]
    refine ⟨relop_errors_nil_iff t1 t2, ?_, ?_⟩
    · intro h
      have h1 : p2.test_mode = true ∨ expr_hat_errors t2 = [] := by
        rcases h with h | h
        · exact Or.inl h
        · exact Or.inr (by simp [expr_hat_errors, h.2])
      have h2 : p3.test_mode = true
          ∨ expr_errors t1 (expr_hat_result .GARBAGE_T t2) = [] := by
        rcases h with h | h
        · exact Or.inl (by rw [hm3]; exact h)
        · exact Or.inr (by simp [expr_errors, expr_hat_result, h.1, h.2])
      have heq : parse_expr (fuel + 2) t0 op p
          = .ok (true, if t1 = .INT_T ∧ t2 = .INT_T then .BOOL_T else t0)
              (report_all (expr_errors t1 (expr_hat_result .GARBAGE_T t2)) p3) := by
        rw [hmain, bind_apply, checked_ok _ _ _ h1 (expr_hat_errors_length t2)]
        simp only []
        rw [hcg2, bind_apply, checked_ok _ _ _ h2 (expr_errors_length _ _)]
        simp only [pure_apply, hres]
      refine ⟨heq, ?_⟩
      rw [heq]
      simp [Res.parser, report_all, hd3, List.append_assoc]
    · intro htm hne
      by_cases ht2 : t2 = .INT_T
      · have ht1 : t1 ≠ .INT_T := fun h => hne ⟨h, ht2⟩
        have he1 : expr_hat_errors t2 = [] := by simp [expr_hat_errors, ht2]
        have he2 : expr_errors t1 (expr_hat_result .GARBAGE_T t2)
            = [.type_error2 .INT_T t1 .INT_T] := by
          simp [expr_errors, expr_hat_result, ht2, ht1]
        have hm3f : p3.test_mode = false := by rw [hm3]; exact htm
        have heq : parse_expr (fuel + 2) t0 op p
            = .halt .exit_failure (report_all [.type_error2 .INT_T t1 .INT_T] p3) := by
          rw [hmain, bind_apply, checked_ok _ _ _ (Or.inr he1) (expr_hat_errors_length t2)]
          simp only []
          rw [hcg2, bind_apply, he2, checked_exit _ _ _ _ hm3f]
        rw [heq]
        refine ⟨rfl, ?_⟩
        simp [Res.parser, report_all, hd3, he1]
      · have he1 : expr_hat_errors t2 = [.type_error .INT_T t2] := by
          simp [expr_hat_errors, ht2]
        have heq : parse_expr (fuel + 2) t0 op p
            = .halt .exit_failure (report_all [.type_error .INT_T t2] p2) := by
          rw [hmain, bind_apply, he1, checked_exit _ _ _ _ htm]
        rw [heq]
        refine ⟨rfl, ?_⟩
        simp [Res.parser, report_all]
  · intro fuel t0 op p p1 t1 hS1 hw
    rw [parse_expr]
    simp only [bind_apply, hS1, if_true]
    rw [parse_expr_hat]
    simp only [bind_apply, get_word_apply]
    cases hword : p1.word <;> simp_all [is_relop, pure_apply, expr_semantics, bind_apply]

theorem C7_relop_typing_witness :
    (parse_expr 5 .GARBAGE_T 0 example_one_less_a).value = some (true, .GARBAGE_T)
    ∧ (parse_expr 5 .GARBAGE_T 0 example_one_less_a).parser.diagnostics
        = [.type_error .INT_T .BOOL_T, .type_error2 .INT_T .INT_T .GARBAGE_T] :=
  ⟨by decide!,
   ((C7_relop_typing.1 3 .GARBAGE_T 0 2 .RELOP_LT example_one_less_a
      (parse_simple_expr 4 .GARBAGE_T 0 example_one_less_a).parser
      (advanced_with_slot (parse_simple_expr 4 .GARBAGE_T 0 example_one_less_a).parser)
      (parse_simple_expr 3 .GARBAGE_T 2
        (advanced_with_slot (parse_simple_expr 4 .GARBAGE_T 0 example_one_less_a).parser)).parser
      ((do relop_codegen .RELOP_LT 0 2; end_of_scope 2)
        (report_all (expr_hat_errors .BOOL_T)
          (parse_simple_expr 3 .GARBAGE_T 2
            (advanced_with_slot
              (parse_simple_expr 4 .GARBAGE_T 0 example_one_less_a).parser)).parser)).parser
      .INT_T .BOOL_T (by decide!) (by decide!) (by decide!) (by decide!) (by decide!)).2.1
        (Or.inl (by decide!))).2.trans (by decide!)⟩

/-- C8: typing of unary signs.  Let the lookahead be a sign (`+`, `-` or
`not`) and let the factor `F` after the sign be parsed successfully with
type `tF`, leaving the record `p2`.  Then the diagnostics of `parse_factor`
are those of `p2` followed by `type_error(sign type, tF)` exactly when `tF`
differs from the sign type (`INT_T` for `+` and `-`, `BOOL_T` for `not`), and
by nothing otherwise; whenever `parse_factor` returns, it returns true with
the synthesized type `tF`; it does return when the sign code can be
generated (in test mode, or when there is no error), and in production mode
an ill-typed signed factor ends the run with `exit`. -/
theorem C8_sign_typing (fuel : Nat) (factor0_type : expr_type) (op : Nat) (p p2 : Parser)
    (tF : expr_type) (hsign : is_sign p.word = true)
    (hF : (do advance; parse_factor fuel .GARBAGE_T op) p = .ok (true, tF) p2) :
    (parse_factor (fuel + 1) factor0_type op p).parser.diagnostics
        = p2.diagnostics ++
          (if tF = sign_type_of p.word then [] else [.type_error (sign_type_of p.word) tF])
    ∧ (∀ b ty q, parse_factor (fuel + 1) factor0_type op p = .ok (b, ty) q → b = true ∧ ty = tF)
    ∧ (∀ q, (p2.test_mode = true ∨ tF = sign_type_of p.word) →
        sign_codegen (sign_operation_of p.word) op
          (report_all (if tF = sign_type_of p.word then []
            else [.type_error (sign_type_of p.word) tF]) p2) = .ok () q →
        parse_factor (fuel + 1) factor0_type op p = .ok (true, tF) q)
    ∧ (p2.test_mode = false → tF ≠ sign_type_of p.word →
        (parse_factor (fuel + 1) factor0_type op p).halted = some .exit_failure) := by
  have hF1 : parse_factor fuel .GARBAGE_T op p.advanced = .ok (true, tF) p2 := by
    simpa [bind_apply, advance_apply] using hF
  have hmain : parse_factor (fuel + 1) factor0_type op p
      = (do
          checked (if tF = sign_type_of p.word then []
            else [.type_error (sign_type_of p.word) tF]) ()
          sign_codegen (sign_operation_of p.word) op
          pure (true, tF)) p2 := by
    rw [parse_factor_sign fuel factor0_type op p hsign]
    simp only [bind_apply, advance_apply, hF1, if_true]
    by_cases hne : tF = sign_type_of p.word
    · simp [hne, bind_apply, pure_apply, checked]
    · have hne1 : sign_type_of p.word ≠ tF := fun h => hne h.symm
      simp [hne, hne1, bind_apply, type_error_apply]
  have hk := keeps_sign_codegen (sign_operation_of p.word) op
  rw [hmain]
  by_cases hne : tF = sign_type_of p.word
  · simp only [hne, if_true, checked_nil, bind_apply, List.append_nil, report_all]
    refine ⟨?_, ?_, ?_, ?_⟩
    · have := (hk p2).1
      cases hc : sign_codegen (sign_operation_of p.word) op p2 with
      | ok u q => rw [hc] at this; simpa [Res.parser, pure_apply] using this
      | halt h q => rw [hc] at this; simpa [Res.parser] using this
    · intro b ty q
      cases hc : sign_codegen (sign_operation_of p.word) op p2 with
      | ok u q1 => simp only [pure_apply, Res.ok.injEq, Prod.mk.injEq]; intro h; exact ⟨h.1.1.symm, h.1.2.symm⟩
      | halt h q1 => simp
    · intro q _ hq
      have hq1 : sign_codegen (sign_operation_of p.word) op p2 = .ok () q := by
        simpa using hq
      simp [hq1, pure_apply]
    · intro _ h; exact absurd rfl h
  · simp only [hne, if_false, checked, bind_apply]
    cases htm : p2.test_mode
    · simp only [Bool.false_eq_true, if_false]
      refine ⟨by simp [Res.parser, report_all], by simp, ?_, by simp [Res.halted]⟩
      intro q h
      simp at h
    · simp only [if_true]
      refine ⟨?_, ?_, ?_, by simp⟩
      · have := (hk (report_all [.type_error (sign_type_of p.word) tF] p2)).1
        cases hc : sign_codegen (sign_operation_of p.word) op
            (report_all [.type_error (sign_type_of p.word) tF] p2) with
        | ok u q => rw [hc] at this; simpa [Res.parser, pure_apply, report_all] using this
        | halt h q => rw [hc] at this; simpa [Res.parser, report_all] using this
      · intro b ty q
        cases hc : sign_codegen (sign_operation_of p.word) op
            (report_all [.type_error (sign_type_of p.word) tF] p2) with
        | ok u q1 => simp only [pure_apply, Res.ok.injEq, Prod.mk.injEq]; intro h; exact ⟨h.1.1.symm, h.1.2.symm⟩
        | halt h q1 => simp
      · intro q _ hq
        simp [hq, pure_apply]

/-- Witness for C8 on the factor `not 1` in test mode: the operand `1` has
type `INT_T`, the sign `not` has type `BOOL_T`, and exactly the diagnostic
`type_error(BOOL_T, INT_T)` is written. -/
theorem C8_sign_typing_witness :
    is_sign example_not_one.word = true
    ∧ (parse_factor 2 .GARBAGE_T 0 example_not_one).parser.diagnostics
        = [.type_error .BOOL_T .INT_T] :=
  ⟨by decide,
   (C8_sign_typing 1 .GARBAGE_T 0 example_not_one
      ((do advance; parse_factor 1 .GARBAGE_T 0) example_not_one).parser .INT_T
      (by decide) (by decide!)).1.trans (by decide!)⟩

/-- C9: typing of statement conditions.  Let the condition (resp. the printed
expression) `E` be parsed successfully with type `tE`, leaving the record
`p1`.  For `if` and `while` the statement then behaves as the rest of the
production started from `p1` with `type_error(BOOL_T, tE)` appended exactly
when `tE` is not `BOOL_T` and nothing appended otherwise; for `print` the
appended diagnostic is `type_error(INT_T, BOOL_T, tE)` exactly when `tE` is
neither `INT_T` nor `BOOL_T`, and these are all the diagnostics the statement
writes after those of `E`.  In production mode the reported error ends the
run with `exit`. -/
theorem C9_statement_condition_typing :
    (∀ (fuel : Nat) (p pa p1 : Parser) (e : Nat) (tE : expr_type),
      is_keyword p.word .KW_IF = true →
      (do advance; new_operand_slot none) p = .ok e pa →
      parse_expr fuel expr_type.GARBAGE_T e pa = .ok (true, tE) p1 →
      ((p1.test_mode = true ∨ tE = expr_type.BOOL_T) →
        parse_if_stmt (fuel + 1) p
          = if_stmt_tail (parse_block fuel) (parse_if_stmt_hat fuel) e
              (report_all (if tE = expr_type.BOOL_T then [] else [.type_error expr_type.BOOL_T tE]) p1))
      ∧ (p1.test_mode = false → tE ≠ expr_type.BOOL_T →
        parse_if_stmt (fuel + 1) p
          = .halt .exit_failure (report_all [.type_error expr_type.BOOL_T tE] p1)))
    ∧ (∀ (fuel : Nat) (p pa p1 : Parser) (e : Nat) (while_cond while_done : String)
        (tE : expr_type),
      is_keyword p.word .KW_WHILE = true →
      (do
        advance
        let e ← new_operand_slot none
        let while_cond ← get_new_label "while_cond"
        let while_done ← get_new_label "while_done"
        emit (.label while_cond)
        pure (e, while_cond, while_done)) p = .ok (e, while_cond, while_done) pa →
      parse_expr fuel expr_type.GARBAGE_T e pa = .ok (true, tE) p1 →
      ((p1.test_mode = true ∨ tE = expr_type.BOOL_T) →
        parse_while_stmt (fuel + 1) p
          = while_stmt_tail (parse_block fuel) while_cond while_done e
              (report_all (if tE = expr_type.BOOL_T then [] else [.type_error expr_type.BOOL_T tE]) p1))
      ∧ (p1.test_mode = false → tE ≠ expr_type.BOOL_T →
        parse_while_stmt (fuel + 1) p
          = .halt .exit_failure (report_all [.type_error expr_type.BOOL_T tE] p1)))
    ∧ (∀ (fuel : Nat) (p pa p1 : Parser) (e : Nat) (tE : expr_type),
      is_keyword p.word .KW_PRINT = true →
      (do advance; new_operand_slot none) p = .ok e pa →
      parse_expr fuel expr_type.GARBAGE_T e pa = .ok (true, tE) p1 →
      ((p1.test_mode = true ∨ tE = expr_type.INT_T ∨ tE = expr_type.BOOL_T) →
        parse_print_stmt (fuel + 1) p
          = (do print_codegen e; end_of_scope e; pure true)
              (report_all (if tE = expr_type.INT_T ∨ tE = expr_type.BOOL_T then []
                else [.type_error2 expr_type.INT_T expr_type.BOOL_T tE]) p1))
      ∧ (p1.test_mode = false → ¬ (tE = expr_type.INT_T ∨ tE = expr_type.BOOL_T) →
        parse_print_stmt (fuel + 1) p
          = .halt .exit_failure (report_all [.type_error2 expr_type.INT_T expr_type.BOOL_T tE] p1))
      ∧ (parse_print_stmt (fuel + 1) p).parser.diagnostics
          = p1.diagnostics ++
            (if tE = expr_type.INT_T ∨ tE = expr_type.BOOL_T then [] else [.type_error2 expr_type.INT_T expr_type.BOOL_T tE])) := by
  refine ⟨?_, ?_, ?_⟩
  · intro fuel p pa p1 e tE hw hpre hE
    have hpre1 : new_operand_slot none p.advanced = .ok e pa := by
      simpa [bind_apply, advance_apply] using hpre
    have hmain : parse_if_stmt (fuel + 1) p
        = (do
            checked (if tE = expr_type.BOOL_T then [] else [.type_error expr_type.BOOL_T tE]) ()
            if_stmt_tail (parse_block fuel) (parse_if_stmt_hat fuel) e) p1 := by
      rw [parse_if_stmt]
      simp only [bind_apply, get_word_apply, hw, if_true, advance_apply, hpre1, hE]
      by_cases h : tE = expr_type.BOOL_T
      · simp [h, bind_apply, pure_apply, checked]
      · simp [h, bind_apply, type_error_apply]
    rw [hmain]
    refine ⟨?_, ?_⟩
    · intro h
      by_cases hb : tE = expr_type.BOOL_T
      · simp [hb, bind_apply, checked, report_all]
      · have htm : p1.test_mode = true := by
          rcases h with h | h
          · exact h
          · exact absurd h hb
        simp [hb, bind_apply, checked, htm]
    · intro htm hb
      simp [hb, bind_apply, checked, htm]
  · intro fuel p pa p1 e wc wd tE hw hpre hE
    have hmain : parse_while_stmt (fuel + 1) p
        = (do
            checked (if tE = expr_type.BOOL_T then [] else [.type_error expr_type.BOOL_T tE]) ()
            while_stmt_tail (parse_block fuel) wc wd e) p1 := by
      rw [parse_while_stmt]
      simp only [bind_apply, get_word_apply, hw, if_true, advance_apply] at hpre ⊢
      cases h1 : new_operand_slot none p.advanced with
      | halt h q => simp [h1] at hpre
      | ok e1 q1 =>
        simp only [h1] at hpre ⊢
        cases h2 : get_new_label "while_cond" q1 with
        | halt h q => simp [h2] at hpre
        | ok wc1 q2 =>
          simp only [h2] at hpre ⊢
          cases h3 : get_new_label "while_done" q2 with
          | halt h q => simp [h3] at hpre
          | ok wd1 q3 =>
            simp only [h3] at hpre ⊢
            cases h4 : emit (.label wc1) q3 with
            | halt h q => simp [h4] at hpre
            | ok u q4 =>
              simp only [h4, pure_apply, Res.ok.injEq, Prod.mk.injEq] at hpre ⊢
              obtain ⟨⟨rfl, rfl, rfl⟩, rfl⟩ := hpre
              simp only [hE]
              by_cases h : tE = expr_type.BOOL_T
              · simp [h, bind_apply, pure_apply, checked]
              · simp [h, bind_apply, type_error_apply]
    rw [hmain]
    refine ⟨?_, ?_⟩
    · intro h
      by_cases hb : tE = expr_type.BOOL_T
      · simp [hb, bind_apply, checked, report_all]
      · have htm : p1.test_mode = true := by
          rcases h with h | h
          · exact h
          · exact absurd h hb
        simp [hb, bind_apply, checked, htm]
    · intro htm hb
      simp [hb, bind_apply, checked, htm]
  · intro fuel p pa p1 e tE hw hpre hE
    have hpre1 : new_operand_slot none p.advanced = .ok e pa := by
      simpa [bind_apply, advance_apply] using hpre
    have hmain : parse_print_stmt (fuel + 1) p
        = (do
            checked (if tE = expr_type.INT_T ∨ tE = expr_type.BOOL_T then []
              else [.type_error2 expr_type.INT_T expr_type.BOOL_T tE]) ()
            print_codegen e
            end_of_scope e
            pure true) p1 := by
      rw [parse_print_stmt]
      simp only [bind_apply, get_word_apply, hw, if_true, advance_apply, hpre1, hE]
      by_cases h : tE = expr_type.INT_T ∨ tE = expr_type.BOOL_T
      · have h1 : ¬ (tE ≠ expr_type.INT_T ∧ tE ≠ expr_type.BOOL_T) := by
          rcases h with h | h <;> simp [h]
        simp [h, h1, bind_apply, pure_apply, checked]
      · have h1 : tE ≠ expr_type.INT_T ∧ tE ≠ expr_type.BOOL_T := by
          constructor
          · intro h2; exact h (Or.inl h2)
          · intro h2; exact h (Or.inr h2)
        simp [h, h1, bind_apply, type_error2_apply]
    have hk : keeps_semantic_state (do print_codegen e; end_of_scope e; pure true) :=
      keeps_bind (keeps_print_codegen e)
        (fun _ => keeps_bind (keeps_end_of_scope e) (fun _ => keeps_pure _))
    rw [hmain]
    refine ⟨?_, ?_, ?_⟩
    · intro h
      by_cases hb : tE = expr_type.INT_T ∨ tE = expr_type.BOOL_T
      · simp [hb, bind_apply, checked, report_all]
      · have htm : p1.test_mode = true := by
          rcases h with h | h
          · exact h
          · exact absurd h hb
        simp [hb, bind_apply, checked, htm]
    · intro htm hb
      simp [hb, bind_apply, checked, htm]
    · by_cases hb : tE = expr_type.INT_T ∨ tE = expr_type.BOOL_T
      · simp only [hb, if_true, bind_apply, checked, List.append_nil]
        exact (hk p1).1
      · simp only [hb, if_false, bind_apply, checked]
        cases htm : p1.test_mode
        · simp [Res.parser, report_all]
        · simp only [if_true]
          have := (hk (report_all [.type_error2 expr_type.INT_T expr_type.BOOL_T tE] p1)).1
          simpa [report_all] using this

theorem C9_statement_condition_typing_witness :
    is_keyword example_if_one.word .KW_IF = true
    ∧ parse_if_stmt 6 example_if_one
        = if_stmt_tail (parse_block 5) (parse_if_stmt_hat 5) 0
            (report_all [.type_error .BOOL_T .INT_T]
              (parse_expr 5 .GARBAGE_T 0 (advanced_with_slot example_if_one)).parser)
    ∧ parse_while_stmt 6 example_while_one
        = while_stmt_tail (parse_block 5) "while_cond1" "while_done1" 0
            (report_all [.type_error .BOOL_T .INT_T]
              (parse_expr 5 .GARBAGE_T 0 (after_while_head example_while_one)).parser)
    ∧ (parse_print_stmt 6 example_print_procedure).parser.diagnostics
        = [.type_error2 .INT_T .BOOL_T .PROCEDURE_T] :=
  ⟨by decide,
   ((C9_statement_condition_typing.1 5 example_if_one (advanced_with_slot example_if_one)
      (parse_expr 5 .GARBAGE_T 0 (advanced_with_slot example_if_one)).parser 0 .INT_T
      (by decide) (by decide!) (by decide!)).1 (Or.inl (by decide!))),
   ((C9_statement_condition_typing.2.1 5 example_while_one (after_while_head example_while_one)
      (parse_expr 5 .GARBAGE_T 0 (after_while_head example_while_one)).parser 0
      "while_cond1" "while_done1" .INT_T
      (by decide) (by decide!) (by decide!)).1 (Or.inl (by decide!))),
   ((C9_statement_condition_typing.2.2 5 example_print_procedure
      (advanced_with_slot example_print_procedure)
      (parse_expr 5 .GARBAGE_T 0 (advanced_with_slot example_print_procedure)).parser 0 .PROCEDURE_T
      (by decide) (by decide!) (by decide!)).2.2.trans (by decide!))⟩

/-- C10: typing of assignments.  Let the statement start at the declared
identifier `id`, followed by `:=` and an expression that parses successfully
with type `tE`, leaving the record `p1`.  Then `parse_stmt` writes, after the
diagnostics of the expression, `type_error(T, tE)` with `T` the type of `id`
in the current environment exactly when `tE` differs from `T`, and nothing
else: the diagnostic names `T` as expected and `tE` as found.  In test
mode, or without an error, the statement goes on with the code of the
assignment; in production mode the error ends the run with `exit`. -/
theorem C10_assignment_typing (fuel : Nat) (p pa p1 : Parser) (id : String) (e : Nat)
    (tE : expr_type)
    (hw : p.word = .TOKEN_ID id)
    (hdecl : p.stab.is_decl id p.current_env = true)
    (hpre : (do
      set_procedure_name id
      advance
      new_operand_slot (some (.OPTYPE_MEMORY id))) p = .ok e pa)
    (hassign : is_punctuation pa.word .PUNC_ASSIGN = true)
    (hE : (do advance; parse_expr fuel .GARBAGE_T e) pa = .ok (true, tE) p1) :
    (parse_stmt (fuel + 2) p).parser.diagnostics
        = p1.diagnostics ++
          (if tE = p.stab.get_type id p.current_env then []
            else [.type_error (p.stab.get_type id p.current_env) tE])
    ∧ ((p1.test_mode = true ∨ tE = p.stab.get_type id p.current_env) →
        parse_stmt (fuel + 2) p
          = (do
              if p.stab.get_type id p.current_env ≠ .PROCEDURE_T then
                assignment_codegen id e
              end_of_scope e
              pure true)
            (report_all (if tE = p.stab.get_type id p.current_env then []
              else [.type_error (p.stab.get_type id p.current_env) tE]) p1))
    ∧ (p1.test_mode = false → tE ≠ p.stab.get_type id p.current_env →
        parse_stmt (fuel + 2) p
          = .halt .exit_failure
              (report_all [.type_error (p.stab.get_type id p.current_env) tE] p1)) := by
  have hpa : environment pa = environment p := by
    have hsp : keeps_semantic_state (set_procedure_name id) := fun _ => ⟨rfl, rfl⟩
    have h := (keeps_bind hsp (fun _ => keeps_bind keeps_advance
      (fun _ => keeps_new_operand_slot (some (.OPTYPE_MEMORY id)))) p).2
    rw [hpre] at h
    exact h
  have hE1 : parse_expr fuel .GARBAGE_T e pa.advanced = .ok (true, tE) p1 := by
    simpa [bind_apply, advance_apply] using hE
  have hp1 : environment p1 = environment p := by
    have h := parse_expr_environment fuel .GARBAGE_T e pa.advanced
    rw [hE1] at h
    exact (h.trans (keeps_advance pa).2).trans hpa
  have hstab : p1.stab = p.stab := congrArg (fun x => x.2.1) hp1
  have henv : p1.current_env = p.current_env := congrArg (fun x => x.2.2.1) hp1
  have hk : keeps_semantic_state (do
      if p.stab.get_type id p.current_env ≠ expr_type.PROCEDURE_T then
        assignment_codegen id e
      end_of_scope e
      pure true) := by
    split
    · exact keeps_bind (keeps_assignment_codegen id e)
        (fun _ => keeps_bind (keeps_end_of_scope e) (fun _ => keeps_pure _))
    · exact keeps_bind (keeps_pure _)
        (fun _ => keeps_bind (keeps_end_of_scope e) (fun _ => keeps_pure _))
  have hmain : parse_stmt (fuel + 2) p
      = (do
          checked (if tE = p.stab.get_type id p.current_env then []
            else [Diagnostic.type_error (p.stab.get_type id p.current_env) tE]) ()
          if p.stab.get_type id p.current_env ≠ expr_type.PROCEDURE_T then
            assignment_codegen id e
          end_of_scope e
          pure true) p1 := by
    rw [parse_stmt]
    simp only [bind_apply, get_word_apply, hw]
    rw [parse_stmt_identifier]
    simp only [bind_apply, getp_apply, hdecl, Bool.not_true, Bool.false_eq_true, if_false]
    simp only [bind_apply] at hpre
    cases h1 : set_procedure_name id p with
    | halt h q => simp [h1] at hpre
    | ok u q1 =>
      simp only [h1] at hpre ⊢
      cases h2 : advance q1 with
      | halt h q => simp [h2] at hpre
      | ok u2 q2 =>
        simp only [h2] at hpre ⊢
        rw [hpre]
        simp only []
        rw [parse_adhoc_as_pc_tail]
        simp only [bind_apply, get_word_apply, hassign, if_true, advance_apply, hE1, pure_apply,
          getp_apply, hstab, henv]
        by_cases h : tE = p.stab.get_type id p.current_env
        · simp [h, bind_apply, pure_apply, checked]
        · simp [h, bind_apply, type_error_apply]
  rw [hmain]
  refine ⟨?_, ?_, ?_⟩
  · by_cases hb : tE = p.stab.get_type id p.current_env
    · simp only [hb, if_true, bind_apply, checked, List.append_nil]
      exact (hk p1).1
    · simp only [hb, if_false, bind_apply, checked]
      cases htm : p1.test_mode
      · simp [Res.parser, report_all]
      · simp only [if_true]
        have := (hk (report_all [.type_error (p.stab.get_type id p.current_env) tE] p1)).1
        simpa [report_all] using this
  · intro h
    by_cases hb : tE = p.stab.get_type id p.current_env
    · simp [hb, bind_apply, checked, report_all]
    · have htm : p1.test_mode = true := by
        rcases h with h | h
        · exact h
        · exact absurd h hb
      simp [hb, bind_apply, checked, htm]
  · intro htm hb
    simp [hb, bind_apply, checked, htm]

theorem C10_assignment_typing_witness :
    example_assign_bool.stab.is_decl "a" example_assign_bool.current_env = true
    ∧ example_assign_bool.stab.get_type "a" example_assign_bool.current_env = .BOOL_T
    ∧ (parse_stmt 7 example_assign_bool).parser.diagnostics = [.type_error .BOOL_T .INT_T] :=
  ⟨by decide, by decide,
   (C10_assignment_typing 5 example_assign_bool (after_identifier "a" example_assign_bool)
      ((do advance; parse_expr 5 .GARBAGE_T 0) (after_identifier "a" example_assign_bool)).parser
      "a" 0 .INT_T (by decide) (by decide) (by decide!) (by decide!) (by decide!)).1.trans
      (by decide!)⟩

/-- C11: typing of calls.  Let the statement start at the declared identifier
`id`, followed by `(`; `pa` is the record after the identifier.  The check of
the callee writes `type_error(PROCEDURE_T, T)`, with `T` the type of `id` in
the program environment, exactly when `T` is not `PROCEDURE_T` (production
mode: the run exits there); otherwise `parse_stmt` goes on with the actual
parameter list, entered with position 0.  Along the actual parameters
`E1, ..., En` (each parsed successfully, each check returning)
`parse_actual_parm_list` returns true, and the check of the parameter with
index `i` (counted from 0) has written `type_error(F, t)`, with `F` the
declared type of the formal parameter of `id` with ordinal `i` and `t` the
type of the expression, exactly when `t` differs from `F`.  In production
mode an actual parameter of another type than its formal parameter ends the
run with `exit`. -/
theorem C11_call_typing :
    (∀ (fuel : Nat) (p pa : Parser) (id : String) (e : Nat),
      p.word = .TOKEN_ID id →
      p.stab.is_decl id p.current_env = true →
      (do
        set_procedure_name id
        advance
        new_operand_slot (some (.OPTYPE_MEMORY id))) p = .ok e pa →
      is_punctuation pa.word .PUNC_OPEN = true →
      (callee_errors p.stab id p.main_env = [] ↔ p.stab.get_type id p.main_env = .PROCEDURE_T)
      ∧ ((pa.test_mode = true ∨ p.stab.get_type id p.main_env = .PROCEDURE_T) →
          parse_stmt (fuel + 2) p
            = (do
                let expr_list ← parse_expr_list fuel
                let adhoc_as_pc_tail ← expr_list_tail .GARBAGE_T expr_list
                adhoc_as_pc_tail_semantics id e adhoc_as_pc_tail)
              (call_entered (callee_errors p.stab id p.main_env) pa)
          ∧ (call_entered (callee_errors p.stab id p.main_env) pa).diagnostics
            = pa.diagnostics ++ callee_errors p.stab id p.main_env)
      ∧ (pa.test_mode = false → p.stab.get_type id p.main_env ≠ .PROCEDURE_T →
          parse_stmt (fuel + 2) p
            = .halt .exit_failure
                (report_all [.type_error .PROCEDURE_T (p.stab.get_type id p.main_env)] pa)))
    ∧ (∀ (fuel : Nat) (p pa q : Parser) (id : String) (e : Nat)
        (acts : List (expr_type × Parser × Parser)),
      p.word = .TOKEN_ID id →
      p.stab.is_decl id p.current_env = true →
      (do
        set_procedure_name id
        advance
        new_operand_slot (some (.OPTYPE_MEMORY id))) p = .ok e pa →
      is_punctuation pa.word .PUNC_OPEN = true →
      actual_parms fuel (call_entered (callee_errors p.stab id p.main_env) pa) acts q →
      (∃ qf, parse_actual_parm_list fuel (call_entered (callee_errors p.stab id p.main_env) pa)
            = .ok true qf
          ∧ qf.diagnostics = q.diagnostics)
      ∧ ∀ (i : Nat) (t : expr_type) (p1 p2 : Parser), acts[i]? = some (t, p1, p2) →
          p2.diagnostics = p1.diagnostics ++ actual_errors p.stab id (i : Int) t)
    ∧ (∀ (fuel e : Nat) (p p1 : Parser) (t : expr_type),
      (do
        let expression ← new_operand_slot none
        let expr ← parse_expr fuel .GARBAGE_T expression
        pure (expression, expr)) p = .ok (e, (true, t)) p1 →
      p1.test_mode = false →
      t ≠ p.stab.get_type_pos p.procedure_name p.actual_parm_position →
      parse_actual_parm_list (fuel + 1) p
        = .halt .exit_failure
            (report_all [.type_error
              (p.stab.get_type_pos p.procedure_name p.actual_parm_position) t] p1)) := by
  refine ⟨?_, ?_, ?_⟩
  · intro fuel p pa id e hw hdecl hpre hopen
    have hmain := parse_stmt_call fuel p pa id e hw hdecl hpre hopen
    have hiff : callee_errors p.stab id p.main_env = []
        ↔ p.stab.get_type id p.main_env = .PROCEDURE_T := by
      unfold callee_errors
      split <;> simp_all
    refine ⟨hiff, ?_, ?_⟩
    · intro h
      have h1 : pa.test_mode = true ∨ callee_errors p.stab id p.main_env = [] :=
        h.imp (fun x => x) hiff.2
      refine ⟨?_, (call_entered_fields _ _).2.2.2⟩
      rw [hmain, bind_apply, checked_ok _ _ _ h1 (callee_errors_length _ _ _)]
      rfl
    · intro htm hne
      have he : callee_errors p.stab id p.main_env
          = [.type_error .PROCEDURE_T (p.stab.get_type id p.main_env)] := by
        simp [callee_errors, hne]
      rw [hmain, bind_apply, he, checked_exit _ _ _ _ htm]
  · intro fuel p pa q id e acts hw hdecl hpre hopen hacts
    have hpa : pa.stab = p.stab ∧ pa.procedure_name = id := by
      simp only [bind_apply, set_procedure_name, modifyp_apply, advance_apply, new_operand_slot,
        Res.ok.injEq] at hpre
      rw [← hpre.2]
      simp only [Parser.advanced]
      split <;> exact ⟨rfl, rfl⟩
    obtain ⟨hs, hn, hpos, _⟩ := call_entered_fields (callee_errors p.stab id p.main_env) pa
    obtain ⟨hret, hall⟩ := actual_parms_typing hacts
    refine ⟨hret, ?_⟩
    intro i t p1 p2 hi
    have h := hall i t p1 p2 hi
    rw [hs, hn, hpos, hpa.1, hpa.2, zero_add] at h
    exact h
  · intro fuel e p p1 t hE htm hne
    exact parse_actual_parm_list_exit fuel e p p1 t hE htm hne

theorem C11_call_typing_witness :
    example_call_checked.diagnostics
        = example_call_parsed.diagnostics ++ actual_errors example_call.stab "q" 0 .INT_T
    ∧ actual_errors example_call.stab "q" 0 .INT_T = [] :=
  ⟨(C11_call_typing.2.1 5 example_call (after_identifier "q" example_call)
      example_call_checked "q" 0 [(.INT_T, example_call_parsed, example_call_checked)]
      (by decide) (by decide) (by decide!) (by decide!)
      (actual_parms.last 3 1 example_call_entered example_call_parsed example_call_checked
        .INT_T (by decide!) (by decide!) (by decide!))).2 0 .INT_T example_call_parsed
      example_call_checked rfl,
   by decide⟩

/-- C12: undeclared identifiers.  At an identifier that is a factor of an
expression, and at an identifier that starts a statement (the target of an
assignment or of a call), when `is_decl` answers false for the identifier in
the current environment the undeclared-identifier error is raised for it: in
test mode the production goes on from the record with the diagnostic
appended, in production mode the run exits with it.  When `is_decl` answers
true the factor is accepted with the declared type and nothing is written. -/
theorem C12_undeclared_identifier :
    (∀ (fuel : Nat) (tin : expr_type) (op : Nat) (p : Parser) (id : String),
      p.word = .TOKEN_ID id →
      (p.stab.is_decl id p.current_env = false →
        (p.test_mode = true →
          parse_factor (fuel + 1) tin op p
            = (do
                assign_operand op (.OPTYPE_MEMORY id)
                advance
                pure (true, tin)) (report_all [.undeclared_identifier id] p))
        ∧ (p.test_mode = false →
          parse_factor (fuel + 1) tin op p
            = .halt .exit_failure (report_all [.undeclared_identifier id] p)))
      ∧ (p.stab.is_decl id p.current_env = true →
          parse_factor (fuel + 1) tin op p
            = (do
                assign_operand op (.OPTYPE_MEMORY id)
                advance
                pure (true, p.stab.get_type id p.current_env)) p))
    ∧ (∀ (fuel : Nat) (p : Parser) (id : String),
      p.word = .TOKEN_ID id →
      p.stab.is_decl id p.current_env = false →
      (p.test_mode = true →
        parse_stmt (fuel + 1) p
          = (do
              advance
              let expression ← new_operand_slot (some (.OPTYPE_MEMORY id))
              let adhoc_as_pc_tail ← parse_adhoc_as_pc_tail fuel .GARBAGE_T expression
              adhoc_as_pc_tail_semantics id expression adhoc_as_pc_tail)
            (report_all [.undeclared_identifier id] p))
      ∧ (p.test_mode = false →
        parse_stmt (fuel + 1) p
          = .halt .exit_failure (report_all [.undeclared_identifier id] p))) := by
  refine ⟨?_, ?_⟩
  · intro fuel tin op p id hw
    refine ⟨?_, ?_⟩
    · intro hdecl
      have hmain : parse_factor (fuel + 1) tin op p
          = (do
              checked [.undeclared_identifier id] ()
              assign_operand op (.OPTYPE_MEMORY id)
              advance
              pure (true, tin)) p := by
        rw [parse_factor]
        simp only [bind_apply, get_word_apply, hw, getp_apply, hdecl, Bool.not_false, if_true,
          undeclared_identifier_apply]
        cases checked [Diagnostic.undeclared_identifier id] () p <;> rfl
      rw [hmain]
      refine ⟨?_, ?_⟩
      · intro htm
        rw [bind_apply, checked_ok _ _ _ (Or.inl htm) (by simp)]
      · intro htm
        rw [bind_apply, checked_exit _ _ _ _ htm]
    · intro hdecl
      rw [parse_factor]
      simp only [bind_apply, get_word_apply, hw, getp_apply, hdecl, Bool.not_true,
        Bool.false_eq_true, if_false, pure_apply]
  · intro fuel p id hw hdecl
    have hmain : parse_stmt (fuel + 1) p
        = (do
            checked [.undeclared_identifier id] ()
            advance
            let expression ← new_operand_slot (some (.OPTYPE_MEMORY id))
            let adhoc_as_pc_tail ← parse_adhoc_as_pc_tail fuel .GARBAGE_T expression
            adhoc_as_pc_tail_semantics id expression adhoc_as_pc_tail) p := by
      rw [parse_stmt]
      simp only [bind_apply, get_word_apply, hw]
      rw [parse_stmt_identifier_eq]
      simp only [bind_apply, getp_apply, hdecl, Bool.not_false, if_true,
        undeclared_identifier_apply]
    rw [hmain]
    refine ⟨?_, ?_⟩
    · intro htm
      rw [bind_apply, checked_ok _ _ _ (Or.inl htm) (by simp)]
    · intro htm
      rw [bind_apply, checked_exit _ _ _ _ htm]

theorem C12_undeclared_identifier_witness :
    example_undeclared_target.stab.is_decl "a" example_undeclared_target.current_env = false
    ∧ parse_stmt 1 example_undeclared_target
        = .halt .exit_failure
            (report_all [.undeclared_identifier "a"] example_undeclared_target)
    ∧ (compile false 20 prog_undeclared_target).halted = some .exit_failure
    ∧ (compile false 20 prog_undeclared_target).parser.diagnostics
        = [.undeclared_identifier "a"] :=
  ⟨by decide,
   (C12_undeclared_identifier.2 0 example_undeclared_target "a" (by decide) (by decide)).2
     (by decide),
   by decide!, by decide!⟩

/-- C13: uniqueness of declarations.  After every run of `parse_program` from
a freshly constructed parser, whether it returns or is ended, no two entries
of the symbol table have the same name and environment.  Every declaration
site goes through the guard `declare`: the variable identifier lists
(`parse_identifier_list`, `parse_identifier_list_prm`), the formal parameter
list (`parse_formal_parm_list`, and `parse_identifier_list_prm` again) and
the procedure name (`parse_procedure_decl`); the guard runs the installation
exactly when `is_decl` answers false for the name in the current
environment, and otherwise raises the multiply-defined-identifier error and
leaves the symbol table as it is. -/
theorem C13_declarations_unique :
    (∀ (test_mode : Bool) (fuel : Nat) (tokens : List Token),
      (compile test_mode fuel tokens).parser.stab.keys.Nodup)
    ∧ (∀ (id : String) (install : M Unit) (p : Parser),
      (p.stab.is_decl id p.current_env = true →
        declare id install p = checked [.multiply_defined_identifier id] () p
        ∧ (declare id install p).parser.stab = p.stab)
      ∧ (p.stab.is_decl id p.current_env = false → declare id install p = install p))
    ∧ (∀ fuel : Nat, parse_identifier_list (fuel + 1)
        = (do
            match (← get_word) with
            | .TOKEN_ID identifier_attr =>
              declare identifier_attr (stab_install identifier_attr .UNKNOWN_T)
              reserve_program_label identifier_attr
              advance
              parse_identifier_list_prm fuel
            | word =>
              parse_error "identifier" word
              pure false))
    ∧ (∀ fuel : Nat, parse_identifier_list_prm (fuel + 1)
        = (do
            if is_punctuation (← get_word) .PUNC_COMMA then
              advance
              match (← get_word) with
              | .TOKEN_ID identifier_attr =>
                declare identifier_attr (do
                  if (← getp).parsing_formal_parm_list then
                    stab_install_formal identifier_attr
                  else
                    stab_install identifier_attr .UNKNOWN_T)
                reserve_program_label identifier_attr
                advance
                parse_identifier_list_prm fuel
              | word =>
                parse_error "identifier" word
                pure false
            else
              pure true))
    ∧ (∀ fuel : Nat, parse_formal_parm_list (fuel + 1)
        = (do
            match (← get_word) with
            | .TOKEN_ID identifier_attr =>
              declare identifier_attr (stab_install_formal identifier_attr)
              advance
              if (← parse_identifier_list_prm fuel) then
                if is_punctuation (← get_word) .PUNC_COLON then
                  advance
                  let standard_type ← parse_standard_type .GARBAGE_T
                  if standard_type.1 then
                    stab_update_type standard_type.2
                    parse_formal_parm_list_hat fuel
                  else
                    pure false
                else
                  parse_error "':'" (← get_word)
                  pure false
              else
                pure false
            | word =>
              parse_error "identifier" word
              pure false))
    ∧ (∀ fuel : Nat, parse_procedure_decl (fuel + 1)
        = (do
            if is_keyword (← get_word) .KW_PROCEDURE then
              advance
              match (← get_word) with
              | .TOKEN_ID identifier_attr =>
                declare identifier_attr (enter_procedure identifier_attr)
                advance
                if is_punctuation (← get_word) .PUNC_OPEN then
                  advance
                  if (← parse_procedure_args fuel) then
                    if is_punctuation (← get_word) .PUNC_CLOSE then
                      advance
                      if (← parse_variable_decl_list fuel) then
                        if (← parse_block fuel) then
                          leave_procedure
                          pure true
                        else
                          pure false
                      else
                        pure false
                    else
                      parse_error "')'" (← get_word)
                      pure false
                  else
                    pure false
                else
                  parse_error "'('" (← get_word)
                  pure false
              | word =>
                parse_error "identifier" word
                pure false
            else
              parse_error "procedure" (← get_word)
              pure false)) :=
  ⟨fun test_mode fuel tokens => parse_program_unique fuel (Parser.init test_mode tokens) rfl,
   fun id install p =>
     ⟨fun h => ⟨declare_of_decl id install p h, by
        rw [declare_of_decl id install p h]; exact stab_checked _ _ _⟩,
      fun h => declare_of_not_decl id install p h⟩,
   parse_identifier_list_site, parse_identifier_list_prm_site, parse_formal_parm_list_site,
   parse_procedure_decl_site⟩

theorem C13_declarations_unique_witness :
    example_declared_twice.stab.is_decl "a" example_declared_twice.current_env = true
    ∧ (declare "a" (stab_install "a" .UNKNOWN_T) example_declared_twice).parser.stab
        = example_declared_twice.stab
    ∧ (compile false 20 prog_declared_twice).halted = some .exit_failure
    ∧ (compile false 20 prog_declared_twice).parser.diagnostics
        = [.multiply_defined_identifier "a"]
    ∧ (compile true 20 prog_declared_twice).parser.stab.keys = [("p", "_EXTERNAL"), ("a", "p")] :=
  ⟨by decide,
   ((C13_declarations_unique.2.1 "a" (stab_install "a" .UNKNOWN_T) example_declared_twice).1
     (by decide)).2,
   by decide!, by decide!, by decide!⟩

/-- C14: formal-parameter ordinals.  A run of `parse_procedure_decl` over
`procedure name ( formals ) locals`, where the procedure name and every
identifier is undeclared when it is met, reaches the block of the procedure
with the symbol table extended, in this order, by the procedure name, the
formal parameters in source order (across commas and semicolon-separated
groups) in the environment `name` with the ordinals 0, 1, 2, ... whatever the
counter was before, and the local variables in the environment `name`
without an ordinal. -/
theorem C14_formal_parameter_ordinals (fuel : Nat) (p p1 p2 : Parser) (name : String)
    (formals locals : List String)
    (hkw : is_keyword p.word .KW_PROCEDURE = true)
    (hname : p.advanced.word = .TOKEN_ID name)
    (hnew : p.advanced.stab.is_decl name p.advanced.current_env = false)
    (hflag : p.parsing_formal_parm_list = false)
    (hopen : is_punctuation (procedure_entered name p).parser.word .PUNC_OPEN = true)
    (hformals : formal_args fuel (procedure_entered name p).parser.advanced formals p1)
    (hclose : is_punctuation p1.word .PUNC_CLOSE = true)
    (hlocals : variable_groups fuel p1.advanced locals p2) :
    parse_procedure_decl (fuel + 1) p
      = (do
          if (← parse_block fuel) then
            leave_procedure
            pure true
          else
            pure false) p2
    ∧ p2.current_env = name
    ∧ p2.stab.ordinals
        = p.stab.ordinals ++ (name, p.current_env, none)
            :: (with_ordinals name 0 formals ++ without_ordinals name locals)
    ∧ (∀ (i : Nat) (x : String), formals[i]? = some x →
        (x, name, some (i : Int)) ∈ p2.stab.ordinals)
    ∧ (∀ x ∈ locals, (x, name, none) ∈ p2.stab.ordinals) := by
  have he := procedure_entered_header name p
  have ha := advanced_header (procedure_entered name p).parser
  simp only [Parser.header, Prod.mk.injEq] at he ha
  obtain ⟨e1, e2, e3, e4⟩ := he
  obtain ⟨a1, a2, a3, a4⟩ := ha
  obtain ⟨frun, f1, f2, f3⟩ := formal_args_run _ _ _ _ hformals (by rw [a3, e3, hflag])
  have hb := advanced_header p1
  simp only [Parser.header, Prod.mk.injEq] at hb
  obtain ⟨b1, b2, b3, b4⟩ := hb
  obtain ⟨vrun, v1, v2, v3⟩ := variable_groups_run _ _ _ _ hlocals (by rw [b3, f2])
  have henv : p2.current_env = name := by rw [v1, b2, f1, a2, e2]
  have hord : p2.stab.ordinals
      = p.stab.ordinals ++ (name, p.current_env, none)
          :: (with_ordinals name 0 formals ++ without_ordinals name locals) := by
    rw [v3, b1, b2, f3, f1, a1, a2, a4, e1, e2, e4, ordinals_install]
    simp
  refine ⟨?_, henv, hord, ?_, ?_⟩
  · rw [parse_procedure_decl_first fuel p name hkw hname hnew]
    simp only [bind_apply, get_word_apply, hopen, if_true, advance_apply, frun, hclose, vrun]
  · intro i x hx
    rw [hord]
    have := with_ordinals_mem name 0 formals i x hx
    simp only [zero_add] at this
    simp [this]
  · intro x hx
    rw [hord]
    simp only [List.mem_append, List.mem_cons, without_ordinals, List.mem_map]
    exact Or.inr (Or.inr (Or.inr ⟨x, hx, rfl⟩))

theorem C14_formal_parameter_ordinals_witness :
    example_locals.advanced.stab.ordinals
      = [("p", "_EXTERNAL", none), ("q", "p", none), ("x", "q", some 0), ("y", "q", some 1),
         ("z", "q", some 2), ("w", "q", none)] :=
  (C14_formal_parameter_ordinals 5 example_procedure_header
    (set_parsing_formal_parm_list false example_formals_second).parser
    example_locals.advanced "q" ["x", "y", "z"] ["w"]
    (by decide!) (by decide!) (by decide!) (by decide!) (by decide!)
    (formal_args.some 4 _ example_formals_second ["x", "y", "z"] (by decide!)
      (formal_groups.more 2 _ _ example_formals_first example_formals_second "x" ["y"] ["z"]
        (by decide!) (by decide!)
        (more_identifiers.next 2 _ _ "y" [] (by decide!) (by decide!) (by decide!)
          (more_identifiers.done 1 _ (by decide!)))
        (by decide!) (by decide!)
        (formal_groups.last 0 _ _ example_formals_second "z" [] (by decide!) (by decide!)
          (more_identifiers.done 0 _ (by decide!)) (by decide!) (by decide!))))
    (by decide!)
    (variable_groups.group 2 _ _ example_locals example_locals.advanced "w" [] []
      (by decide!) (by decide!) (more_identifiers.done 1 _ (by decide!)) (by decide!)
      (by decide!) (variable_groups.done 3 _ (by decide!)))).2.2.1

/-- C15: environment switching.  The productions that parse the formals, the
local declarations and the body of a procedure never change the current
environment, however they end.  When `parse_procedure_decl` meets
`procedure name` at program level with `name` undeclared, it installs `name`
with type `PROCEDURE_T` in the program environment and runs the rest of the
production (formals, local declarations, body) from a record whose current
environment is `name`.  Whenever `parse_procedure_decl` returns true, the
current environment of the record it returns is the program environment,
which is the one it was called with. -/
theorem C15_environment_switching :
    (∀ (fuel : Nat) (p : Parser),
      (parse_procedure_args fuel p).parser.current_env = p.current_env
      ∧ (parse_variable_decl_list fuel p).parser.current_env = p.current_env
      ∧ (parse_block fuel p).parser.current_env = p.current_env)
    ∧ (∀ (fuel : Nat) (p : Parser) (name : String),
        is_keyword p.word .KW_PROCEDURE = true →
        p.advanced.word = .TOKEN_ID name →
        p.advanced.stab.is_decl name p.advanced.current_env = false →
        p.current_env = p.main_env →
        parse_procedure_decl (fuel + 1) p
          = procedure_rest fuel (procedure_entered name p).parser
        ∧ (procedure_entered name p).parser.current_env = name
        ∧ (procedure_entered name p).parser.main_env = p.main_env
        ∧ (procedure_entered name p).parser.stab.entries
            = p.stab.entries
              ++ [{ id := name, env := p.main_env, type := .PROCEDURE_T, position := none }])
    ∧ (∀ (fuel : Nat) (p q : Parser),
        parse_procedure_decl fuel p = .ok true q →
        q.current_env = q.main_env ∧ q.main_env = p.main_env) := by
  refine ⟨?_, ?_, ?_⟩
  · intro fuel p
    exact ⟨(parse_procedure_args_environments fuel p).1,
      (parse_variable_decl_list_environments fuel p).1, (parse_block_environments fuel p).1⟩
  · intro fuel p name hkw hw hd hmain
    have he := procedure_entered_header name p
    simp only [Parser.header, Prod.mk.injEq] at he
    obtain ⟨e1, e2, -, -⟩ := he
    refine ⟨parse_procedure_decl_rest fuel p name hkw hw hd, e2, ?_, ?_⟩
    · have h1 : (procedure_entered name p).parser
          = (enter_procedure name p.advanced).parser.advanced := rfl
      rw [h1, advanced_main_env]
      exact advanced_main_env p
    · rw [e1, hmain]
      rfl
  · intro fuel p q h
    refine ⟨parse_procedure_decl_returns_true fuel p q h, ?_⟩
    have := parse_procedure_decl_main_env fuel p
    rw [h] at this
    exact this

theorem C15_environment_switching_witness :
    (procedure_entered "q" example_procedure_header).parser.current_env = "q"
    ∧ (procedure_entered "q" example_procedure_header).parser.stab.entries
        = example_procedure_header.stab.entries
          ++ [{ id := "q", env := "p", type := .PROCEDURE_T, position := none }]
    ∧ (parse_procedure_decl 30 example_procedure_header).value = some true
    ∧ (parse_procedure_decl 30 example_procedure_header).parser.current_env = "p" :=
  ⟨(C15_environment_switching.2.1 29 example_procedure_header "q"
      (by decide!) (by decide!) (by decide!) (by decide!)).2.1,
   (C15_environment_switching.2.1 29 example_procedure_header "q"
      (by decide!) (by decide!) (by decide!) (by decide!)).2.2.2,
   by decide!,
   ((C15_environment_switching.2.2 30 example_procedure_header
      (parse_procedure_decl 30 example_procedure_header).parser (by decide!)).1).trans
     (by decide!)⟩

/-- C16: a failure path of `parse_procedure_decl` that keeps the environment
of the procedure.  On `program p; procedure q (x : int begin ...`, where the
closing parenthesis is missing, `parse_procedure_decl` reports the parse
error and returns false, in test mode and in production mode alike, and the
current environment of the record it returns is `q`, not the program
environment `p`; `parse_program` then returns false with the same record. -/
theorem C16_failed_procedure_keeps_environment :
    (∀ test_mode : Bool,
      (parse_procedure_decl 30 (example_unclosed_formals test_mode)).value = some false
      ∧ (parse_procedure_decl 30 (example_unclosed_formals test_mode)).parser.diagnostics
          = [.parse_error "')'" (.TOKEN_KEYWORD .KW_BEGIN)]
      ∧ (parse_procedure_decl 30 (example_unclosed_formals test_mode)).parser.current_env = "q"
      ∧ (parse_procedure_decl 30 (example_unclosed_formals test_mode)).parser.main_env = "p")
    ∧ (∀ test_mode : Bool,
      (compile test_mode 40 prog_unclosed_formals).value = some false
      ∧ (compile test_mode 40 prog_unclosed_formals).parser.current_env = "q"
      ∧ (compile test_mode 40 prog_unclosed_formals).parser.main_env = "p") := by
  decide!

/-- C17: program-variable labels of a procedure named like the program.  The
test `*current_env == *main_env` of the label reservation compares the names
of the environments.  In `program p; a : int; procedure p (x, y : int) z :
int; ...` the procedure `p` is accepted, and its formal parameter `y` and its
local variable `z` are appended to the program-variable labels and get a data
directive; with the procedure called `q` the labels are those of the program
scope alone. -/
theorem C17_labels_of_procedure_named_like_program :
    (compile false 60 (prog_procedure_named "p")).value = some true
    ∧ (compile false 60 (prog_procedure_named "p")).parser.diagnostics = []
    ∧ (compile false 60 (prog_procedure_named "p")).parser.stab.ordinals
        = [("p", "_EXTERNAL", none), ("a", "p", none), ("p", "p", none), ("x", "p", some 0),
           ("y", "p", some 1), ("z", "p", none)]
    ∧ (compile false 60 (prog_procedure_named "p")).parser.program_labels = ["a", "y", "z"]
    ∧ (compile false 60 (prog_procedure_named "p")).parser.e.out
        = [.label "_p", .move_reg_imm .R1 1, .move_mem_reg "x" .R1, .move_reg_imm .R1 2,
           .move_mem_reg "a" .R1, .halt, .comment "Data directives for program variables.",
           .data_directive "a" 1, .data_directive "y" 1, .data_directive "z" 1]
    ∧ (compile false 60 (prog_procedure_named "q")).value = some true
    ∧ (compile false 60 (prog_procedure_named "q")).parser.program_labels = ["a"] := by
  decide!

/-- C18: program epilogue.  Whenever `parse_program` returns true, the IR of
the record it returns ends with the halt instruction, then (when there are
program-variable labels) the section comment and one data directive of size 1
per program-variable label in the order of the list, then (when the spill
table has entries) the section comment and one data directive of size 1 per
entry of the spill table, active or not, in the order of the table, and
nothing else.  The two lists are in order of declaration and creation and
hold every label ever entered: the label reservation appends at the end,
`allocate_spill_memory` leaves the table as it is or appends one active entry
at the end, `deallocate_spill_memory` removes no entry and changes no label,
and no production, however it ends, does anything to the two lists of labels
but extend them at the end. -/
theorem C18_program_epilogue :
    (∀ (fuel : Nat) (p q : Parser), parse_program fuel p = .ok true q →
      ∃ body, q.e.out = body ++ epilogue q)
    ∧ (∀ (id : String) (p : Parser),
      (reserve_program_label id p).parser.program_labels
        = if p.current_env = p.main_env then p.program_labels ++ [id] else p.program_labels)
    ∧ (∀ p : Parser,
      (allocate_spill_memory p).parser.spilled_labels = p.spilled_labels
      ∨ ∃ l, (allocate_spill_memory p).parser.spilled_labels = p.spilled_labels ++ [(l, true)])
    ∧ (∀ (l : String) (p : Parser),
      (deallocate_spill_memory l p).parser.spilled_labels.map (fun entry => entry.1)
        = p.spilled_labels.map (fun entry => entry.1))
    ∧ (∀ fuel : Nat,
      extends_labels (parse_program fuel)
      ∧ extends_labels (parse_decl_list fuel)
      ∧ extends_labels (parse_block fuel)
      ∧ extends_labels (parse_stmt fuel)
      ∧ (∀ t op, extends_labels (parse_expr fuel t op))) := by
  refine ⟨fun fuel p q h => parse_program_ends_with_epilogue fuel p q h, ?_, ?_, ?_,
    extends_labels_productions⟩
  · intro id p
    simp only [reserve_program_label, modifyp_apply, Res.parser]
    split <;> rfl
  · intro p
    unfold allocate_spill_memory
    split
    · exact Or.inl rfl
    · exact Or.inr ⟨_, rfl⟩
  · intro l p
    simp only [deallocate_spill_memory, modifyp_apply, Res.parser, List.map_map]
    apply List.map_congr_left
    intro entry _
    simp only [Function.comp]
    split <;> rfl

theorem C18_program_epilogue_witness :
    (∃ body, (compile false 80 prog_nested_products).parser.e.out
      = body ++ epilogue (compile false 80 prog_nested_products).parser)
    ∧ (compile false 80 prog_nested_products).parser.spilled_labels
        = [("spill1", true), ("spill2", false)]
    ∧ epilogue (compile false 80 prog_nested_products).parser
        = [.halt, .comment "Data directives for program variables.",
           .data_directive "a" 1, .data_directive "b" 1, .data_directive "c" 1,
           .data_directive "d" 1, .data_directive "e" 1, .data_directive "f" 1,
           .data_directive "g" 1, .data_directive "h" 1,
           .comment "Data directives for spilled memories.",
           .data_directive "spill1" 1, .data_directive "spill2" 1] :=
  ⟨C18_program_epilogue.1 80 (Parser.init false prog_nested_products)
      (compile false 80 prog_nested_products).parser (by decide!),
   by decide!, by decide!⟩

/-- C19: the sum of two literals.  For every program name `p` other than the
reserved environment name `_EXTERNAL` (no identifier of the scanner, which
accepts the letters a to z and digits only), every variable `a`, all literals
`m` and `n`, in test mode and in production mode, and with any fuel from 10
on, compiling `program p; a : int; begin a := m + n; end;` returns true, and
the IR is exactly: the label `_p`, the move of the immediate of `m` into
`R1`, `ADD R1, n`, the move of `R1` to `a`, the halt instruction, the section
comment of the program variables and the data directive of size 1 for `a`.
No error is reported, the spill table is empty and the emitter has generated
no label.  The immediate of a literal is its value as long as that fits the
`int` the source reads it into. -/
theorem C19_sum_of_two_literals (test_mode : Bool) (p a : String) (m n k : Nat)
    (hp : p ≠ "_EXTERNAL") :
    (∃ q, compile test_mode (k + 10) (prog_sum p a m n) = .ok true q
      ∧ q.e.out = [.label ("_" ++ p), .move_reg_imm .R1 (num_value m),
          .inst_2addr .INST_ADD .R1 (.OPTYPE_IMMEDIATE (num_value n)), .move_mem_reg a .R1,
          .halt, .comment "Data directives for program variables.", .data_directive a 1]
      ∧ q.spilled_labels = []
      ∧ q.e.counters = []
      ∧ q.diagnostics = [])
    ∧ (m ≤ 2147483647 → num_value m = (m : Int))
    ∧ (n ≤ 2147483647 → num_value n = (n : Int)) := by
  refine ⟨?_, num_value_of_le m, num_value_of_le n⟩
  obtain ⟨r, hr⟩ : ∃ r, r = compile test_mode (k + 10) (prog_sum p a m n) := ⟨_, rfl⟩
  rw [← hr]
  simp only [compile, Parser.init, prog_sum, parse_program, parse_decl_list, parse_variable_decl_list,
    parse_variable_decl, parse_identifier_list, parse_identifier_list_prm, parse_standard_type,
    parse_procedure_decl_list, parse_block, parse_stmt_list, parse_stmt_list_prm, parse_stmt,
    parse_stmt_identifier, parse_adhoc_as_pc_tail, parse_expr, parse_expr_hat, parse_simple_expr,
    parse_simple_expr_prm, parse_term, parse_term_prm, parse_factor,
    expr_semantics, simple_expr_semantics, simple_expr_prm_semantics, term_semantics,
    addop_type_of, addop_instruction, addop_codegen, assignment_codegen,
    left_op_into_register, expression_into_register, emit_move_operand, emit_2addr_operand,
    release_right_op, operand_at, has_free_register, allocate_register, deallocate_register,
    Register_Allocator.has_free_register, Register_Allocator.allocate_register,
    Register_Allocator.deallocate_register, Register_Allocator.inuse,
    assign_operand, delete_operand, set_last_register_op, new_operand_slot, end_of_scope,
    emit_epilogue, emit_data_directives, emit, Emitter.emit, enter_program, stab_install,
    reserve_program_label, stab_update_type, set_procedure_name,
    Symbol_Table.install, Symbol_Table.update_type, Symbol_Table.is_decl,
    Symbol_Table.lookup_scoped, Symbol_Table.lookup, Symbol_Table.program_env,
    Symbol_Table.get_type,
    bind_apply, pure_apply, get_word_apply, getp_apply, modifyp_apply, advance_apply,
    Parser.advanced, is_keyword, is_punctuation, is_identifier, is_addop_attr,
    hp, Ne.symm hp,
    ite_true, ite_false, if_true, if_false, Bool.not_true, Bool.not_false, Bool.true_and,
    Bool.and_true, Bool.false_and, Bool.and_false, Bool.or_false, Bool.false_or, Bool.or_true,
    Bool.true_or, decide_True, decide_False, decide_eq_true_eq, List.find?_cons, List.find?_nil,
    List.map_cons, List.map_nil, List.append_nil, List.nil_append, List.cons_append,
    List.headD_cons, List.tail_cons, List.isEmpty_cons, List.isEmpty_nil, List.foldl_cons,
    List.foldl_nil, Option.map_some', Option.map_none', Option.isSome_some, Option.isSome_none,
    List.length_nil, List.length_cons, List.getElem?_cons_zero, reduceCtorEq, true_and, and_true,
    ne_eq, not_true_eq_false, not_false_eq_true, and_self, Bool.false_eq_true, Bool.true_eq_false,
    decide_not, Bool.not_eq_true', Bool.decide_eq_true, Bool.decide_eq_false, and_false, false_and,
    or_false, false_or, or_true, true_or, decide_eq_false_iff_not,
    List.modify_nil, List.modify_zero_cons, List.modify_succ_cons, List.length_modify,
    List.getElem?_cons_succ, Nat.reduceAdd, zero_add, List.length_singleton] at hr

  subst hr
  exact ⟨_, rfl, rfl, rfl, rfl, rfl⟩

theorem C19_sum_of_two_literals_witness :
    ∃ q, compile false 10 (prog_sum "p" "a" 1 2) = .ok true q
      ∧ q.e.out = [.label "_p", .move_reg_imm .R1 1,
          .inst_2addr .INST_ADD .R1 (.OPTYPE_IMMEDIATE 2), .move_mem_reg "a" .R1,
          .halt, .comment "Data directives for program variables.", .data_directive "a" 1]
      ∧ q.spilled_labels = []
      ∧ q.e.counters = []
      ∧ q.diagnostics = [] :=
  (C19_sum_of_two_literals false "p" "a" 1 2 0 (by decide)).1

/-- C20: the claim as stated fails.  Compiling `program p; a, b, c, d : int; begin
a := ((b + c) * (b - c)) + ((b + c) * (b - c)); end;` performs no spill and
emits no spill data directive. -/
theorem C20_two_products_counterexample :
    ¬ (1 ≤ spills_performed (compile false 60 prog_two_products).parser.e.out
        ∧ (spill_directives (compile false 60 prog_two_products).parser).length = 1) := by
  decide!

/-- C20: the amended claim.  Compiling `program p; a, b, c, d : int; begin a := ((b + c)
* (b - c)) + ((b + c) * (b - c)); end;` returns true without a spill.  The
three registers suffice: the first product is held in `R1` while the second
group is computed in `R2` and `R3`.  The spill table stays empty, the
emitter generates no label, the IR has no spill data directive, and every
register is free at the end. -/
theorem C20_two_products_without_spill :
    (compile false 60 prog_two_products).value = some true
    ∧ spills_performed (compile false 60 prog_two_products).parser.e.out = 0
    ∧ (compile false 60 prog_two_products).parser.spilled_labels = []
    ∧ (compile false 60 prog_two_products).parser.e.counters = []
    ∧ spill_directives (compile false 60 prog_two_products).parser = []
    ∧ (compile false 60 prog_two_products).parser.allocator.all_free = true
    ∧ (compile false 60 prog_two_products).parser.e.out
        = [.label "_p",
           .move_reg_mem .R1 "b", .inst_2addr .INST_ADD .R1 (.OPTYPE_MEMORY "c"),
           .move_reg_mem .R2 "b", .inst_2addr .INST_SUB .R2 (.OPTYPE_MEMORY "c"),
           .inst_2addr .INST_MUL .R1 (.OPTYPE_REGISTER .R2),
           .move_reg_mem .R2 "b", .inst_2addr .INST_ADD .R2 (.OPTYPE_MEMORY "c"),
           .move_reg_mem .R3 "b", .inst_2addr .INST_SUB .R3 (.OPTYPE_MEMORY "c"),
           .inst_2addr .INST_MUL .R2 (.OPTYPE_REGISTER .R3),
           .inst_2addr .INST_ADD .R1 (.OPTYPE_REGISTER .R2),
           .move_mem_reg "a" .R1, .halt,
           .comment "Data directives for program variables.",
           .data_directive "a" 1, .data_directive "b" 1, .data_directive "c" 1,
           .data_directive "d" 1] := by
  decide!

/-- C25: the spill step.  The block guarded by `if
(!allocator->has_free_register())` returns exactly with the spill step: a
label `S` from `allocate_spill_memory`, the comment and `MOVE S, R` with `R`
the register of the operand `last_register_op` refers to, `R` deallocated,
and the slot of `last_register_op` rewritten to the memory operand `S`; with
no free register and `last_register_op` at a register operand the step is
taken.  Both materialization blocks (the one of the operators and the sign,
which rewrites the slot, and the one of the statements, which does not)
return exactly with the materialization: nothing for a register operand,
otherwise the spill step when and only when no register is free, then the
allocation and the move.  With a free register the record before the
allocation is the record itself, so that the spill table and the spill
labels are unchanged and the only IR is the move. -/
theorem C25_spill_step :
    (∀ p q : Parser, spill_last_register_op p = .ok () q ↔ spill_step p q)
    ∧ (∀ (p : Parser) (x : Nat) (r : Register),
        p.allocator.has_free_register = false →
        p.last_register_op = some x →
        p.slots[x]? = some { op := some (.OPTYPE_REGISTER r), deleted := false, live := true } →
        ∃ q, spill_last_register_op p = .ok () q)
    ∧ (∀ (b : Bool) (x : Nat) (p q : Parser) (r : Register),
        left_op_into_register b x p = .ok r q ↔ materialized true x p r q)
    ∧ (∀ (x : Nat) (p q : Parser) (r : Register),
        expression_into_register x p = .ok r q ↔ materialized false x p r q)
    ∧ (∀ p p1 : Parser, room_made p p1 →
        (p.allocator.has_free_register = true → p1 = p)
        ∧ (p.allocator.has_free_register = false → spill_step p p1))
    ∧ (∀ (rewrite : Bool) (x : Nat) (p q : Parser) (r : Register),
        materialized rewrite x p r q → p.allocator.has_free_register = true →
        q.spilled_labels = p.spilled_labels
        ∧ q.e.counters = p.e.counters
        ∧ ∃ o, p.slots[x]? = some { op := some o, deleted := false, live := true }
            ∧ q.e.out = p.e.out ++ load_code r o) := by
  refine ⟨spill_last_register_op_iff, ?_, left_op_into_register_iff,
    expression_into_register_iff, ?_, ?_⟩
  · intro p x r hf hx hs
    obtain ⟨S, p1, h1⟩ := allocate_spill_memory_total p
    obtain ⟨a, ha⟩ := deallocate_of_inuse (all_inuse_of_no_free hf r)
    exact ⟨_, (spill_last_register_op_iff p _).2 ⟨S, p1, x, r, a, h1, hx, hs, ha, rfl⟩⟩
  · intro p p1 h
    rcases h with ⟨hf, rfl⟩ | ⟨hf, h⟩
    · exact ⟨fun _ => rfl, fun h => by rw [hf] at h; cases h⟩
    · exact ⟨fun h => (by rw [hf] at h; cases h), fun _ => h⟩
  · intro rewrite x p q r h hf
    obtain ⟨o, hx, h⟩ := h
    rcases h with ⟨rfl, rfl⟩ | ⟨ho, p1, a, hroom, ha, rfl⟩
    · exact ⟨rfl, rfl, ⟨_, hx, by simp [load_code]⟩⟩
    · rcases hroom with ⟨-, rfl⟩ | ⟨hf1, -⟩
      · exact ⟨rfl, rfl, ⟨o, hx, rfl⟩⟩
      · rw [hf] at hf1; cases hf1

theorem C25_spill_step_witness :
    spill_step example_full_pool (spill_last_register_op example_full_pool).parser
    ∧ (spill_last_register_op example_full_pool).parser.e.out
        = [.comment "Spill register to memory since all registers are live.",
           .move_mem_reg "spill1" .R3]
    ∧ (spill_last_register_op example_full_pool).parser.slots
        = [{ op := some (.OPTYPE_MEMORY "spill1"), deleted := false, live := true },
           { op := some (.OPTYPE_MEMORY "g"), deleted := false, live := true }]
    ∧ (spill_last_register_op example_full_pool).parser.allocator
        = { inuse1 := true, inuse2 := true, inuse3 := false }
    ∧ (spill_last_register_op example_full_pool).parser.spilled_labels = [("spill1", true)]
    ∧ materialized true 1 example_full_pool .R3
        (left_op_into_register true 1 example_full_pool).parser :=
  ⟨(C25_spill_step.1 example_full_pool _).1 (by decide!),
   by decide!, by decide!, by decide!, by decide!,
   (C25_spill_step.2.2.1 true 1 example_full_pool _ .R3).1 (by decide!)⟩

/-- C22: binary operator emission.  When the block of an additive or a
multiplicative operator returns, the left operand has been materialized into
a register (its own, or a newly allocated one it was moved into), one
2-address instruction with that register as destination and the right
operand in its current form as source has been emitted, it is the only
2-address instruction among the lines emitted, and the left slot holds that
register operand; the mnemonic is ADD for `+` and `or`, SUB for `-`, MUL for
`*` and `and`, DIV for `/`.  The blocks return whenever the left operand can
be materialized and the right operand is there (with its register allocated
when it is a register operand). -/
theorem C22_binary_operator_emission :
    (∀ (a : addop_attr) (l r : Nat) (p q : Parser), addop_codegen a l r p = .ok () q →
        binary_emitted (addop_instruction a)
          (fun reg n => if a = .ADDOP_OR then or_code reg n else []) l r p q)
    ∧ (∀ (m : mulop_attr) (l r : Nat) (p q : Parser), mulop_codegen m l r p = .ok () q →
        binary_emitted (mulop_instruction m) (fun _ _ => []) l r p q)
    ∧ (∀ (reg : Register) (n : Nat), (or_code reg n).filter IR.is_2addr = [])
    ∧ (addop_instruction .ADDOP_ADD = .INST_ADD ∧ addop_instruction .ADDOP_OR = .INST_ADD
        ∧ addop_instruction .ADDOP_SUB = .INST_SUB ∧ mulop_instruction .MULOP_MUL = .INST_MUL
        ∧ mulop_instruction .MULOP_AND = .INST_MUL ∧ mulop_instruction .MULOP_DIV = .INST_DIV)
    ∧ (∀ (a : addop_attr) (m : mulop_attr) (l r : Nat) (p p1 : Parser) (reg : Register)
        (src : Operand), materialized true l p reg p1 →
        p1.slots[r]? = some { op := some src, deleted := false, live := true } →
        (∀ r1, src = .OPTYPE_REGISTER r1 → p1.allocator.inuse r1 = true) →
        (∃ q, addop_codegen a l r p = .ok () q) ∧ (∃ q, mulop_codegen m l r p = .ok () q)) :=
  ⟨fun _ _ _ _ _ h => addop_codegen_ok h, fun _ _ _ _ _ h => mulop_codegen_ok h,
   fun _ _ => rfl, ⟨rfl, rfl, rfl, rfl, rfl, rfl⟩,
   fun a m _ _ _ _ _ _ hm hs hr =>
     ⟨addop_codegen_total a hm hs hr, mulop_codegen_total m hm hs hr⟩⟩

theorem C22_binary_operator_emission_witness :
    addop_codegen .ADDOP_ADD 0 2 example_sum_second = .ok () example_sum_code
    ∧ binary_emitted .INST_ADD (fun _ _ => []) 0 2 example_sum_second example_sum_code
    ∧ emitted example_sum_second example_sum_code
        = [.move_reg_imm .R1 1, .inst_2addr .INST_ADD .R1 (.OPTYPE_MEMORY "a")]
    ∧ mulop_codegen .MULOP_MUL 0 1 example_product_second = .ok () example_product_code
    ∧ binary_emitted .INST_MUL (fun _ _ => []) 0 1 example_product_second example_product_code
    ∧ emitted example_product_second example_product_code
        = [.move_reg_imm .R1 1, .inst_2addr .INST_MUL .R1 (.OPTYPE_MEMORY "a")] :=
  ⟨by decide!,
   C22_binary_operator_emission.1 .ADDOP_ADD 0 2 example_sum_second example_sum_code
     (by decide!),
   by decide!, by decide!,
   C22_binary_operator_emission.2.1 .MULOP_MUL 0 1 example_product_second example_product_code
     (by decide!),
   by decide!⟩

/-- C24: the normalization of `or`.  When the block of an additive operator
returns, the lines that follow the materialization of the left operand are
the instruction of the operator and a tail; for `or` the instruction is ADD
and the tail is the comment line, `BREZ left, or_doneK`, `MOVE left, 1` and
the label `or_doneK`, where `or_doneK` is the next label of the stem
`or_done`, whose counter is advanced; for `+` and `-` the tail is empty and
no label is generated.  Nothing in this depends on the forms of the
operands. -/
theorem C24_or_normalization (a : addop_attr) (l r : Nat) (p q : Parser)
    (h : addop_codegen a l r p = .ok () q) :
    ∃ (reg : Register) (p1 : Parser) (src : Operand) (tail : List IR),
      materialized true l p reg p1
      ∧ p1.slots[r]? = some { op := some src, deleted := false, live := true }
      ∧ q.e.out = p1.e.out ++ .inst_2addr (addop_instruction a) reg src :: tail
      ∧ (a = .ADDOP_OR →
          addop_instruction a = .INST_ADD
          ∧ tail = [.comment "Normalize result of OR operation to 0 or 1.",
              .branch_cond .INST_BREZ reg ("or_done" ++ toString (p1.e.count "or_done" + 1)),
              .move_reg_imm reg 1,
              .label ("or_done" ++ toString (p1.e.count "or_done" + 1))]
          ∧ q.e.count "or_done" = p1.e.count "or_done" + 1)
      ∧ (a ≠ .ADDOP_OR → tail = [] ∧ q.e.counters = p1.e.counters) := by
  unfold addop_codegen at h
  obtain ⟨reg, p1, h1, h⟩ := bind_eq_ok h
  have hm := (left_op_into_register_iff _ _ _ _ _).1 h1
  obtain ⟨_, p2, h2, h⟩ := bind_eq_ok h
  simp only [set_last_register_op, modifyp_apply, Res.ok.injEq, true_and] at h2
  subst h2
  obtain ⟨_, p3, h3, h⟩ := bind_eq_ok h
  obtain ⟨src, hs, rfl⟩ := emit_2addr_operand_ok h3
  cases a with
  | ADDOP_ADD =>
    simp only [reduceCtorEq, if_false, bind_apply, pure_apply] at h
    obtain ⟨-, -, -, he, -⟩ := release_right_op_ok h
    exact ⟨reg, p1, src, [], hm, hs, (by rw [he]; rfl), (fun h => by cases h),
      fun _ => ⟨rfl, by rw [he]; rfl⟩⟩
  | ADDOP_SUB =>
    simp only [reduceCtorEq, if_false, bind_apply, pure_apply] at h
    obtain ⟨-, -, -, he, -⟩ := release_right_op_ok h
    exact ⟨reg, p1, src, [], hm, hs, (by rw [he]; rfl), (fun h => by cases h),
      fun _ => ⟨rfl, by rw [he]; rfl⟩⟩
  | ADDOP_OR =>
    simp only [if_true, bind_apply, emit, modifyp_apply, get_new_label] at h
    obtain ⟨-, -, -, he, -⟩ := release_right_op_ok h
    refine ⟨reg, p1, src, _, hm, hs, ?_, fun _ => ⟨rfl, rfl, ?_⟩, fun h => absurd rfl h⟩
    · rw [he]
      simp [Emitter.emit, Emitter.get_new_label, Emitter.count]
    · rw [he]
      exact count_get_new_label p1.e "or_done"

theorem C24_or_normalization_witness :
    addop_codegen .ADDOP_OR 0 1 example_two_operands
      = .ok () (addop_codegen .ADDOP_OR 0 1 example_two_operands).parser
    ∧ (addop_codegen .ADDOP_OR 0 1 example_two_operands).parser.e.out
      = [.move_reg_mem .R1 "a", .inst_2addr .INST_ADD .R1 (.OPTYPE_MEMORY "b"),
         .comment "Normalize result of OR operation to 0 or 1.",
         .branch_cond .INST_BREZ .R1 "or_done1", .move_reg_imm .R1 1, .label "or_done1"]
    ∧ ∃ (reg : Register) (p1 : Parser) (src : Operand) (tail : List IR),
      materialized true 0 example_two_operands reg p1
      ∧ p1.slots[1]? = some { op := some src, deleted := false, live := true }
      ∧ (addop_codegen .ADDOP_OR 0 1 example_two_operands).parser.e.out
          = p1.e.out ++ .inst_2addr (addop_instruction .ADDOP_OR) reg src :: tail
      ∧ (addop_attr.ADDOP_OR = .ADDOP_OR →
          addop_instruction .ADDOP_OR = .INST_ADD
          ∧ tail = [.comment "Normalize result of OR operation to 0 or 1.",
              .branch_cond .INST_BREZ reg ("or_done" ++ toString (p1.e.count "or_done" + 1)),
              .move_reg_imm reg 1,
              .label ("or_done" ++ toString (p1.e.count "or_done" + 1))]
          ∧ (addop_codegen .ADDOP_OR 0 1 example_two_operands).parser.e.count "or_done"
              = p1.e.count "or_done" + 1)
      ∧ (addop_attr.ADDOP_OR ≠ .ADDOP_OR → tail = []
          ∧ (addop_codegen .ADDOP_OR 0 1 example_two_operands).parser.e.counters
              = p1.e.counters) :=
  ⟨by decide!, by decide!,
   C24_or_normalization .ADDOP_OR 0 1 example_two_operands _ (by decide!)⟩

/-- C23: relational emission.  When the block of a relational operator
returns, the left operand has been materialized into a register and the
lines that follow are the comment, `SUB left, right`, the comment, the
conditional branches of the operator to `compare_falseK` in the pattern of
the table (`=`: BRNE, BRPO; `<>`: BREZ; `>`: BRNE, BREZ; `>=`: BRNE; `<`:
BREZ, BRPO; `<=`: BRPO), which is what the `switch` of the source emits, then `MOVE left, 1; BR compare_doneK;
compare_falseK:; MOVE left, 0; compare_doneK:`, all on the register of the
left operand; the two labels are the next ones of their stems, whose
counters are advanced.  The block returns whenever the left operand can be
materialized and the right operand is there. -/
theorem C23_relational_emission :
    (∀ (c : relop_attr) (l r : Nat) (p q : Parser), relop_codegen c l r p = .ok () q →
      ∃ (reg : Register) (p1 : Parser) (src : Operand),
        materialized true l p reg p1
        ∧ p1.slots[r]? = some { op := some src, deleted := false, live := true }
        ∧ q.e.out = p1.e.out ++ relational_code c reg src
            ("compare_false" ++ toString (p1.e.count "compare_false" + 1))
            ("compare_done" ++ toString (p1.e.count "compare_done" + 1))
        ∧ q.e.count "compare_false" = p1.e.count "compare_false" + 1
        ∧ q.e.count "compare_done" = p1.e.count "compare_done" + 1
        ∧ (l ≠ r → q.slots[l]?
            = some { op := some (.OPTYPE_REGISTER reg), deleted := false, live := true }))
    ∧ (∀ (c : relop_attr) (reg : Register) (f : String) (p : Parser),
        emit_compare_branches c reg f p
          = .ok () { p with e := { p.e with
              out := p.e.out ++ (compare_branches c).map (fun i => .branch_cond i reg f) } })
    ∧ (∀ (c : relop_attr) (l r : Nat) (p p1 : Parser) (reg : Register) (src : Operand),
        materialized true l p reg p1 →
        p1.slots[r]? = some { op := some src, deleted := false, live := true } →
        (∀ r1, src = .OPTYPE_REGISTER r1 → p1.allocator.inuse r1 = true) →
        ∃ q, relop_codegen c l r p = .ok () q) := by
  refine ⟨?_, fun c _ _ _ => by cases c <;> simp [emit_compare_branches, compare_branches, emit,
    Emitter.emit, bind_apply, modifyp_apply],
    fun c _ _ _ _ _ _ hm hs hr => relop_codegen_total c hm hs hr⟩
  intro c l r p q h
  obtain ⟨reg, p1, p2, src, hm, hs, hout, hcf, hcd, hsl, -, -, -, hrel⟩ := relop_codegen_ok h
  have hrel := release_right_op_ok hrel
  have he : q.e = p2.e := hrel.choose_spec.2.2.1
  refine ⟨reg, p1, src, hm, hs, ?_, ?_, ?_, ?_⟩
  · rw [he]; exact hout
  · rw [he]; exact hcf
  · rw [he]; exact hcd
  · intro hne
    rw [released_right_slot hrel l hne, hsl]
    exact materialized_slot hm

theorem C23_relational_emission_witness :
    relop_codegen .RELOP_LT 0 1 example_two_operands
      = .ok () (relop_codegen .RELOP_LT 0 1 example_two_operands).parser
    ∧ (relop_codegen .RELOP_LT 0 1 example_two_operands).parser.e.out
      = [.move_reg_mem .R1 "a",
         .comment "Compare two values by examining their difference.",
         .inst_2addr .INST_SUB .R1 (.OPTYPE_MEMORY "b"),
         .comment "Normalize result of comparison to 0 or 1.",
         .branch_cond .INST_BREZ .R1 "compare_false1",
         .branch_cond .INST_BRPO .R1 "compare_false1",
         .move_reg_imm .R1 1, .branch "compare_done1", .label "compare_false1",
         .move_reg_imm .R1 0, .label "compare_done1"]
    ∧ ∃ (reg : Register) (p1 : Parser) (src : Operand),
        materialized true 0 example_two_operands reg p1
        ∧ p1.slots[1]? = some { op := some src, deleted := false, live := true }
        ∧ (relop_codegen .RELOP_LT 0 1 example_two_operands).parser.e.out
          = p1.e.out ++ relational_code .RELOP_LT reg src
            ("compare_false" ++ toString (p1.e.count "compare_false" + 1))
            ("compare_done" ++ toString (p1.e.count "compare_done" + 1))
        ∧ (relop_codegen .RELOP_LT 0 1 example_two_operands).parser.e.count "compare_false"
          = p1.e.count "compare_false" + 1
        ∧ (relop_codegen .RELOP_LT 0 1 example_two_operands).parser.e.count "compare_done"
          = p1.e.count "compare_done" + 1
        ∧ (0 ≠ 1 → (relop_codegen .RELOP_LT 0 1 example_two_operands).parser.slots[0]?
            = some { op := some (.OPTYPE_REGISTER reg), deleted := false, live := true }) :=
  ⟨by decide!, by decide!,
   C23_relational_emission.1 .RELOP_LT 0 1 example_two_operands _ (by decide!)⟩

/-- C30: the operands of factors.  A bare declared identifier `x` returns
true with the type of `x`, the operand slot holding the memory operand `x`
and the emitter unchanged; an integer literal returns true with `INT_T`, the
slot holding the immediate operand of the literal and the emitter unchanged;
a parenthesized factor returns true exactly when the inner expression does
and `)` follows, with the type and the record (operand included) of the
inner expression, the lookahead advanced; `+F` returns true exactly when `F`
does, in the record after `F` (with the diagnostic of the type check if
any), so that the operand and the IR are those of `F`; `-F` and `not F`
return true exactly when `F` does and the operand of `F` is materialized
(its own register, or a newly allocated register it is moved into), the last
line emitted being NEG, respectively NOT, on that register, which the slot
holds as a register operand. -/
theorem C30_factor_operands (fuel : Nat) (t : expr_type) (op : Nat) (p : Parser) :
    (∀ x, p.word = .TOKEN_ID x → p.stab.is_decl x p.current_env = true →
      ∃ q, parse_factor (fuel + 1) t op p = .ok (true, p.stab.get_type x p.current_env) q
        ∧ q.e = p.e
        ∧ q.slots = p.slots.modify
            (fun s => { s with op := some (.OPTYPE_MEMORY x), deleted := false }) op)
    ∧ (∀ n, p.word = .TOKEN_NUM n →
      ∃ q, parse_factor (fuel + 1) t op p = .ok (true, .INT_T) q
        ∧ q.e = p.e
        ∧ q.slots = p.slots.modify
            (fun s => { s with op := some (.OPTYPE_IMMEDIATE (num_value n)), deleted := false }) op
        ∧ (n ≤ 2147483647 → num_value n = (n : Int)))
    ∧ (p.word = .TOKEN_PUNC .PUNC_OPEN → ∀ ty q,
        parse_factor (fuel + 1) t op p = .ok (true, ty) q
          ↔ ∃ q1, parse_expr fuel .GARBAGE_T op p.advanced = .ok (true, ty) q1
              ∧ q1.word = .TOKEN_PUNC .PUNC_CLOSE ∧ q = q1.advanced)
    ∧ (∀ q1 : Parser, q1.advanced.e = q1.e ∧ q1.advanced.slots = q1.slots
        ∧ q1.advanced.allocator = q1.allocator)
    ∧ (p.word = .TOKEN_ADDOP .ADDOP_ADD → ∀ ty q,
        parse_factor (fuel + 1) t op p = .ok (true, ty) q
          ↔ ∃ q1, parse_factor fuel .GARBAGE_T op p.advanced = .ok (true, ty) q1
              ∧ (q1.test_mode = true ∨ ty = .INT_T)
              ∧ q = { q1 with diagnostics := q1.diagnostics
                        ++ (if ty = .INT_T then [] else [.type_error .INT_T ty]) })
    ∧ (∀ i : inst_type, (p.word = .TOKEN_ADDOP .ADDOP_SUB ∧ i = .INST_NEG)
          ∨ (p.word = .TOKEN_KEYWORD .KW_NOT ∧ i = .INST_NOT) → ∀ ty q,
        parse_factor (fuel + 1) t op p = .ok (true, ty) q
          ↔ ∃ (q1 q3 : Parser) (reg : Register),
              parse_factor fuel .GARBAGE_T op p.advanced = .ok (true, ty) q1
              ∧ (q1.test_mode = true ∨ ty = sign_type_of p.word)
              ∧ materialized true op
                  { q1 with diagnostics := q1.diagnostics
                      ++ (if ty = sign_type_of p.word then []
                          else [.type_error (sign_type_of p.word) ty]) } reg q3
              ∧ q = { q3 with last_register_op := some op,
                              e := q3.e.emit (.inst_1addr i reg) }
              ∧ q.e.out.getLast? = some (.inst_1addr i reg)
              ∧ q.slots[op]?
                  = some { op := some (.OPTYPE_REGISTER reg), deleted := false, live := true }) := by
  refine ⟨?_, ?_, fun hw ty q => parse_factor_parenthesized fuel t op p hw ty q,
    fun q1 => ⟨(advanced_codegen q1).1, (advanced_codegen q1).2.1, (advanced_codegen q1).2.2.1⟩,
    fun hw ty q => parse_factor_plus fuel t op p hw ty q, ?_⟩
  · intro x hw hd
    refine ⟨_, parse_factor_identifier fuel t op p x hw hd, ?_, ?_⟩
    · exact (advanced_codegen _).1
    · exact (advanced_codegen _).2.1
  · intro n hw
    refine ⟨_, parse_factor_number fuel t op p n hw, ?_, ?_, num_value_of_le n⟩
    · exact (advanced_codegen _).1
    · exact (advanced_codegen _).2.1
  · intro i hw ty q
    rw [parse_factor_negated fuel t op p i hw ty q]
    constructor
    · rintro ⟨q1, q3, reg, hF, hm, hmat, rfl⟩
      have hsl : q3.slots[op]?
          = some { op := some (.OPTYPE_REGISTER reg), deleted := false, live := true } :=
        materialized_slot hmat
      refine ⟨q1, q3, reg, hF, hm, hmat, rfl, ?_, hsl⟩
      simp [Emitter.emit]
    · rintro ⟨q1, q3, reg, hF, hm, hmat, rfl, -, -⟩
      exact ⟨q1, q3, reg, hF, hm, hmat, rfl⟩

theorem C30_factor_operands_witness :
    parse_factor 2 .GARBAGE_T 0 example_not_a
      = .ok (true, .BOOL_T) (parse_factor 2 .GARBAGE_T 0 example_not_a).parser
    ∧ (parse_factor 2 .GARBAGE_T 0 example_not_a).parser.e.out
      = [.move_reg_mem .R1 "a", .inst_1addr .INST_NOT .R1]
    ∧ (parse_factor 2 .GARBAGE_T 0 example_not_a).parser.slots
      = [{ op := some (.OPTYPE_REGISTER .R1), deleted := false, live := true }]
    ∧ ∃ (q1 q3 : Parser) (reg : Register),
        parse_factor 1 .GARBAGE_T 0 example_not_a.advanced = .ok (true, .BOOL_T) q1
        ∧ (q1.test_mode = true ∨ expr_type.BOOL_T = sign_type_of example_not_a.word)
        ∧ materialized true 0
            { q1 with diagnostics := q1.diagnostics
                ++ (if expr_type.BOOL_T = sign_type_of example_not_a.word then []
                    else [.type_error (sign_type_of example_not_a.word) .BOOL_T]) } reg q3
        ∧ (parse_factor 2 .GARBAGE_T 0 example_not_a).parser
            = { q3 with last_register_op := some 0,
                        e := q3.e.emit (.inst_1addr .INST_NOT reg) }
        ∧ (parse_factor 2 .GARBAGE_T 0 example_not_a).parser.e.out.getLast?
            = some (.inst_1addr .INST_NOT reg)
        ∧ (parse_factor 2 .GARBAGE_T 0 example_not_a).parser.slots[0]?
            = some { op := some (.OPTYPE_REGISTER reg), deleted := false, live := true } :=
  ⟨by decide!, by decide!, by decide!,
   ((C30_factor_operands 1 .GARBAGE_T 0 example_not_a).2.2.2.2.2 .INST_NOT
      (Or.inr ⟨by decide!, rfl⟩) .BOOL_T _).1 (by decide!)⟩

/-- C21: the claim as stated fails on its own example.  Compiling `program
p; a, b, c, d, e, f, g, h : int; begin a := (a + b) + ((c + d) + ((e + f) +
(g + h))); end;` does not perform exactly one spill. -/
theorem C21_nested_sums_counterexample :
    ¬ (spills_performed (compile false 60 prog_nested_sums).parser.e.out = 1
        ∧ (compile false 60 prog_nested_sums).parser.allocator.all_free = true) := by
  decide!

/-- C21: the amended claim.  Compiling `program p; a, b, c, d, e, f, g, h :
int; begin a := (a + b) + ((c + d) + ((e + f) + (g + h))); end;` returns
true with exactly two spills: the sum `e + f` in `R3` is spilled to `spill1`
when `g` is loaded, and the sum `g + h` in `R3` is spilled to `spill2` when
the spilled `e + f` is loaded again as the left operand of the third
addition.  Every register is free after the statement. -/
theorem C21_nested_sums_two_spills :
    (compile false 60 prog_nested_sums).value = some true
    ∧ spills_performed (compile false 60 prog_nested_sums).parser.e.out = 2
    ∧ (compile false 60 prog_nested_sums).parser.spilled_labels
        = [("spill1", true), ("spill2", false)]
    ∧ (compile false 60 prog_nested_sums).parser.allocator.all_free = true
    ∧ (compile false 60 prog_nested_sums).parser.diagnostics = []
    ∧ (compile false 60 prog_nested_sums).parser.e.out.take 18
        = [.label "_p",
           .move_reg_mem .R1 "a", .inst_2addr .INST_ADD .R1 (.OPTYPE_MEMORY "b"),
           .move_reg_mem .R2 "c", .inst_2addr .INST_ADD .R2 (.OPTYPE_MEMORY "d"),
           .move_reg_mem .R3 "e", .inst_2addr .INST_ADD .R3 (.OPTYPE_MEMORY "f"),
           .comment "Spill register to memory since all registers are live.",
           .move_mem_reg "spill1" .R3,
           .move_reg_mem .R3 "g", .inst_2addr .INST_ADD .R3 (.OPTYPE_MEMORY "h"),
           .comment "Spill register to memory since all registers are live.",
           .move_mem_reg "spill2" .R3,
           .move_reg_mem .R3 "spill1",
           .inst_2addr .INST_ADD .R3 (.OPTYPE_MEMORY "spill2"),
           .inst_2addr .INST_ADD .R2 (.OPTYPE_REGISTER .R3),
           .inst_2addr .INST_ADD .R1 (.OPTYPE_REGISTER .R2),
           .move_mem_reg "a" .R1] := by
  decide!

/-- C28: the claim as stated fails.  In `program p; procedure q(x : int)
begin x := 1; end; begin q := q; end;` the assignment `q := q` is accepted
without a diagnostic (both sides have the type `PROCEDURE_T`), and no IR is
emitted for it: the guard `identifier_type != PROCEDURE_T` skips the code of
the assignment. -/
theorem C28_assign_procedure_counterexample :
    example_assign_procedure.word = .TOKEN_ID "q"
    ∧ example_assign_procedure.advanced.word = .TOKEN_PUNC .PUNC_ASSIGN
    ∧ (parse_stmt 6 example_assign_procedure).value = some true
    ∧ (parse_stmt 6 example_assign_procedure).parser.diagnostics = []
    ∧ (parse_stmt 6 example_assign_procedure).parser.e.out = []
    ∧ (¬ ∃ R, (parse_stmt 6 example_assign_procedure).parser.e.out.getLast?
          = some (.move_mem_reg "q" R))
    ∧ (compile false 30 prog_assign_procedure).value = some true
    ∧ (compile false 30 prog_assign_procedure).parser.diagnostics = []
    ∧ (compile false 30 prog_assign_procedure).parser.e.out
        = [.label "_p", .move_reg_imm .R1 1, .move_mem_reg "x" .R1, .halt] := by
  refine ⟨by decide!, by decide!, by decide!, by decide!, by decide!, ?_, by decide!, by decide!,
    by decide!⟩
  rintro ⟨R, h⟩
  rw [show (parse_stmt 6 example_assign_procedure).parser.e.out = [] from by decide!] at h
  cases h

/-- C28: the amended claim.  For every assignment statement `id := E` that
`parse_stmt` accepts and whose target `id` does not have the type
`PROCEDURE_T`: the expression `E` has been parsed successfully, its value has
been materialized in a register `R` (the register of its operand, or a newly
allocated register loaded with its immediate or memory operand, after the
spill step when no register was free), the last line of the IR is `MOVE id,
R`, appended right after the materialization, and `R` has been deallocated
afterwards.  Nothing is assumed about diagnostics: in test mode this also
holds for an assignment with a type error. -/
theorem C28_assignment_emission (fuel : Nat) (id : String) (p q : Parser)
    (hw : p.word = .TOKEN_ID id)
    (hassign : p.advanced.word = .TOKEN_PUNC .PUNC_ASSIGN)
    (hty : p.stab.get_type id p.current_env ≠ .PROCEDURE_T)
    (h : parse_stmt (fuel + 2) p = .ok true q) :
    ∃ (e : Nat) (p1 q1 q2 : Parser) (ty : expr_type) (R : Register),
      statement_entered id p = .ok e p1
      ∧ parse_expr fuel .GARBAGE_T e p1.advanced = .ok (true, ty) q1
      ∧ materialized false e
          (report_all (if ty = p.stab.get_type id p.current_env then []
            else [.type_error (p.stab.get_type id p.current_env) ty]) q1) R q2
      ∧ q.e.out = q2.e.out ++ [.move_mem_reg id R]
      ∧ q.e.out.getLast? = some (.move_mem_reg id R)
      ∧ q2.allocator.deallocate_register R = some q.allocator := by
  rw [parse_stmt] at h
  simp only [bind_apply, get_word_apply, hw] at h
  rw [parse_stmt_identifier_entered] at h
  obtain ⟨e, p1, h1, h⟩ := bind_eq_ok h
  obtain ⟨-, hword, hstab, henv, -⟩ := statement_entered_ok h1
  obtain ⟨tail, p2, h2, h⟩ := bind_eq_ok h
  rw [parse_adhoc_as_pc_tail_assign _ _ _ _ (hword.trans hassign)] at h2
  obtain ⟨expr, q1, h3, h4⟩ := bind_eq_ok h2
  obtain ⟨b, ty⟩ := expr
  cases b with
  | false =>
    simp only [Bool.false_eq_true, if_false, pure_apply, Res.ok.injEq] at h4
    obtain ⟨rfl, rfl⟩ := h4
    simp [adhoc_as_pc_tail_semantics, bind_apply, end_of_scope, modifyp_apply, pure_apply] at h
  | true =>
    simp only [if_true, pure_apply, Res.ok.injEq] at h4
    obtain ⟨rfl, rfl⟩ := h4
    have hd := declarations_fields (parse_expr_declarations fuel .GARBAGE_T e p1.advanced)
    rw [h3] at hd
    have hd1 := declarations_fields (declarations_advance p1)
    simp only [advance_apply, Res.parser] at hd hd1
    have hs : q1.stab = p.stab := hd.2.1.trans (hd1.2.1.trans hstab)
    have hc : q1.current_env = p.current_env := hd.2.2.1.trans (hd1.2.2.1.trans henv)
    rw [adhoc_as_pc_tail_semantics_true, hs, hc] at h
    obtain ⟨_, q1c, h5, h⟩ := bind_eq_ok h
    obtain ⟨-, rfl⟩ := checked_eq_ok h5
    simp only [ne_eq, hty, not_false_eq_true, if_true] at h
    obtain ⟨_, q3, h6, h⟩ := bind_eq_ok h
    obtain ⟨R, q2, a, hm, ha, rfl⟩ := (assignment_codegen_iff _ _ _ _).1 h6
    simp only [bind_apply, end_of_scope, modifyp_apply, pure_apply, Res.ok.injEq, true_and] at h
    subst h
    refine ⟨e, p1, q1, q2, ty, R, h1, h3, hm, rfl, ?_, ha⟩
    simp [Emitter.emit]

theorem C28_assignment_emission_witness :
    parse_stmt 7 example_assign_one = .ok true (parse_stmt 7 example_assign_one).parser
    ∧ (parse_stmt 7 example_assign_one).parser.e.out
        = [.move_reg_imm .R1 1, .move_mem_reg "a" .R1]
    ∧ (parse_stmt 7 example_assign_one).parser.allocator.all_free = true
    ∧ ∃ (e : Nat) (p1 q1 q2 : Parser) (ty : expr_type) (R : Register),
      statement_entered "a" example_assign_one = .ok e p1
      ∧ parse_expr 5 .GARBAGE_T e p1.advanced = .ok (true, ty) q1
      ∧ materialized false e
          (report_all
            (if ty = example_assign_one.stab.get_type "a" example_assign_one.current_env then []
            else [.type_error
              (example_assign_one.stab.get_type "a" example_assign_one.current_env) ty]) q1) R q2
      ∧ (parse_stmt 7 example_assign_one).parser.e.out = q2.e.out ++ [.move_mem_reg "a" R]
      ∧ (parse_stmt 7 example_assign_one).parser.e.out.getLast? = some (.move_mem_reg "a" R)
      ∧ q2.allocator.deallocate_register R
          = some (parse_stmt 7 example_assign_one).parser.allocator :=
  ⟨by decide!, by decide!, by decide!,
   C28_assignment_emission 5 "a" example_assign_one _ (by decide!) (by decide!) (by decide!)
     (by decide!)⟩

/-- C26: if-statement emission.  Let `parse_if_stmt` return true from a
record at a statement boundary (ownership of the registers is consistent and
no operand variable in scope holds a register).  Then the condition `E` was
parsed into the operand `o`; `R` is the register of `o`, or a register that
was free and into which `o` is moved; the labels `elseK` and `if_doneK` are
the next ones of their stems, whose counters are advanced; and the IR emitted
for the statement is, in order: the code of `E`, the move into `R` when `o`
is not a register, `BREZ R, elseK`, the code of the block `B1`, `BR
if_doneK`, the label `elseK`, the code of the `else` part (the block `B2`
when the next token is `else`, nothing otherwise) and the label `if_doneK`.
`R` is deallocated before `B1` is parsed: in the record `pT` in which `B1` is
entered `R` is free, the register pool equals the pool before the statement,
and `pT` is at a statement boundary again; so are the record `pJ` in which
the `else` part is entered and the record the statement returns with. -/
theorem C26_if_emission (fuel : Nat) (p q : Parser) (hb : statement_boundary p)
    (h : parse_if_stmt (fuel + 1) p = .ok true q) :
    ∃ (e : Nat) (p1 pE pT pB pJ pH : Parser) (ty : expr_type) (o : Operand) (R : Register)
      (elseK if_doneK : String),
      new_operand_slot none p.advanced = .ok e p1
      ∧ parse_expr fuel .GARBAGE_T e p1 = .ok (true, ty) pE
      ∧ pE.slots[e]? = some { op := some o, deleted := false, live := true }
      ∧ (o = .OPTYPE_REGISTER R ∨ (o.is_register = false ∧ pE.allocator.inuse R = false))
      ∧ elseK = "else" ++ toString (pE.e.count "else" + 1)
      ∧ if_doneK = "if_done" ++ toString (pE.e.count "if_done" + 1)
      ∧ pT.e.count "else" = pE.e.count "else" + 1
      ∧ pT.e.count "if_done" = pE.e.count "if_done" + 1
      ∧ pT.e.out = pE.e.out ++ load_code R o ++ [.branch_cond .INST_BREZ R elseK]
      ∧ pT.allocator.inuse R = false
      ∧ pT.allocator = p.allocator
      ∧ statement_boundary pT
      ∧ parse_block fuel pT = .ok true pB
      ∧ (do emit (.branch if_doneK); emit (.label elseK)) pB = .ok () pJ
      ∧ statement_boundary pJ
      ∧ parse_if_stmt_hat fuel pJ = .ok true pH
      ∧ (is_keyword pJ.word .KW_ELSE = false → pH = pJ)
      ∧ (is_keyword pJ.word .KW_ELSE = true →
          ∃ n, fuel = n + 1 ∧ parse_block n pJ.advanced = .ok true pH)
      ∧ (do emit (.label if_doneK); end_of_scope e) pH = .ok () q
      ∧ q.e.out = p.e.out ++ (emitted p1 pE ++ load_code R o
          ++ [.branch_cond .INST_BREZ R elseK] ++ emitted pT pB
          ++ [.branch if_doneK, .label elseK] ++ emitted pJ pH ++ [.label if_doneK])
      ∧ statement_boundary q := by
  obtain ⟨e, p1, pE, ty, -, h1, hE, ht⟩ := parse_if_stmt_ok h
  obtain ⟨labels, pC, pB, pJ, pH, hc, -, hblock, hj, hhat, hq⟩ := if_stmt_tail_ok ht
  obtain ⟨R, pM, hm, hl, hd, hs, hout, hce, hcd⟩ := if_condition_codegen_ok hc
  obtain ⟨hel, h1s, hfill, ho1⟩ := right_operand_slot (advanced_same_registers p) h1 hb.1
  have hbal := (balanced_productions fuel).1 .GARBAGE_T e p1 ty pE hE ho1 hfill
  have hsame : same_registers pE
      (report_all (if ty = .BOOL_T then [] else [.type_error .BOOL_T ty]) pE) := ⟨rfl, rfl⟩
  have hoC : owner_invariant pC :=
    preserves_ok (owner_if_condition_codegen e) hc
      (owner_invariant_congr hsame hbal.2.2.2.2.2.1)
  obtain ⟨hload, halloc, hbT, hfree⟩ :=
    condition_released hb hel h1s hbal hsame hm hd rfl hs hoC
  obtain ⟨o, hso⟩ := hbal.2.2.2.2.1
  obtain ⟨hMout, hMc, hR⟩ := condition_loaded_out (show (report_all
    (if ty = .BOOL_T then [] else [.type_error .BOOL_T ty]) pE).slots[e]? = _ from hso) hload
  have hMout1 : pM.e.out = pE.e.out ++ load_code R o := hMout
  have hMc1 : pM.e.counters = pE.e.counters := hMc
  have hcnt : ∀ stem, pM.e.count stem = pE.e.count stem := count_congr hMc1
  obtain ⟨ae, as, aa, -, -⟩ := advanced_codegen pC
  have hp1 : p1.e.out = p.e.out := by
    simp only [new_operand_slot, Res.ok.injEq] at h1
    rw [← h1.2]
    exact congrArg Emitter.out (advanced_codegen p).1
  have hoE := out_eq_append_emitted ((appends_out_productions fuel).2.2.2.2.2 .GARBAGE_T e) hE
  have hoB := out_eq_append_emitted (appends_out_productions fuel).1 hblock
  have hoH := out_eq_append_emitted (appends_out_productions fuel).2.2.1 hhat
  have hoJ : pJ.e.out = pB.e.out ++ [.branch labels.2, .label labels.1] := by
    simp only [bind_apply, emit, modifyp_apply, Res.ok.injEq, true_and] at hj
    rw [← hj]
    simp [Emitter.emit]
  have hoq : q.e.out = pH.e.out ++ [.label labels.2] := by
    simp only [bind_apply, emit, end_of_scope, modifyp_apply, Res.ok.injEq, true_and] at hq
    rw [← hq]
    simp [Emitter.emit]
  have hoT : pC.advanced.e.out = pE.e.out ++ load_code R o
      ++ [.branch_cond .INST_BREZ R labels.1] := by
    rw [ae, hout, hMout1]
  have hl1 : labels.1 = "else" ++ toString (pE.e.count "else" + 1) := by
    rw [hl, hcnt]
  have hl2 : labels.2 = "if_done" ++ toString (pE.e.count "if_done" + 1) := by
    rw [hl]
    simp only [hcnt]
  obtain ⟨helse1, helse2⟩ := parse_if_stmt_hat_ok hhat
  have hbT1 := statement_boundary_congr (advanced_same_registers pC) hbT
  have hbJ : statement_boundary pJ := by
    have hbB := (statement_boundary_productions fuel).1 _ pB hblock hbT1
    simp only [bind_apply, emit, modifyp_apply, Res.ok.injEq, true_and] at hj
    rw [← hj]
    exact statement_boundary_congr ⟨rfl, rfl⟩ hbB
  refine ⟨e, p1, pE, pC.advanced, pB, pJ, pH, ty, o, R, labels.1, labels.2, h1, hE, hso, hR,
    hl1, hl2, ?_, ?_, hoT, ?_, ?_, hbT1, hblock, hj, hbJ, hhat, helse1, helse2, hq, ?_,
    (statement_boundary_productions (fuel + 1)).2.2.2.2.1 p q h hb⟩
  · rw [ae, hce, hcnt]
  · rw [ae, hcd, hcnt]
  · rw [aa]; exact hfree
  · rw [aa]; exact halloc
  · rw [hoq, hoH, hoJ, hoB, hoT, hoE, hp1]
    simp only [List.append_assoc]

/-- Witness for C26 on `if a < b then begin a := 1; end else begin b := 2;
end` in production mode: the condition is left in `R1` by the comparison, so
no move is emitted before `BREZ R1, else1`, and all registers are free again
when the statement returns. -/
theorem C26_if_emission_witness :
    statement_boundary example_if_less
    ∧ parse_if_stmt 10 example_if_less = .ok true (parse_if_stmt 10 example_if_less).parser
    ∧ (parse_if_stmt 10 example_if_less).parser.e.out
        = [.move_reg_mem .R1 "a",
           .comment "Compare two values by examining their difference.",
           .inst_2addr .INST_SUB .R1 (.OPTYPE_MEMORY "b"),
           .comment "Normalize result of comparison to 0 or 1.",
           .branch_cond .INST_BREZ .R1 "compare_false1",
           .branch_cond .INST_BRPO .R1 "compare_false1",
           .move_reg_imm .R1 1, .branch "compare_done1", .label "compare_false1",
           .move_reg_imm .R1 0, .label "compare_done1",
           .branch_cond .INST_BREZ .R1 "else1",
           .move_reg_imm .R1 1, .move_mem_reg "a" .R1,
           .branch "if_done1", .label "else1",
           .move_reg_imm .R1 2, .move_mem_reg "b" .R1,
           .label "if_done1"]
    ∧ ∃ (e : Nat) (p1 pE pT pB pJ pH : Parser) (ty : expr_type) (o : Operand) (R : Register)
      (elseK if_doneK : String),
      new_operand_slot none example_if_less.advanced = .ok e p1
      ∧ parse_expr 9 .GARBAGE_T e p1 = .ok (true, ty) pE
      ∧ pE.slots[e]? = some { op := some o, deleted := false, live := true }
      ∧ (o = .OPTYPE_REGISTER R ∨ (o.is_register = false ∧ pE.allocator.inuse R = false))
      ∧ elseK = "else" ++ toString (pE.e.count "else" + 1)
      ∧ if_doneK = "if_done" ++ toString (pE.e.count "if_done" + 1)
      ∧ pT.e.count "else" = pE.e.count "else" + 1
      ∧ pT.e.count "if_done" = pE.e.count "if_done" + 1
      ∧ pT.e.out = pE.e.out ++ load_code R o ++ [.branch_cond .INST_BREZ R elseK]
      ∧ pT.allocator.inuse R = false
      ∧ pT.allocator = example_if_less.allocator
      ∧ statement_boundary pT
      ∧ parse_block 9 pT = .ok true pB
      ∧ (do emit (.branch if_doneK); emit (.label elseK)) pB = .ok () pJ
      ∧ statement_boundary pJ
      ∧ parse_if_stmt_hat 9 pJ = .ok true pH
      ∧ (is_keyword pJ.word .KW_ELSE = false → pH = pJ)
      ∧ (is_keyword pJ.word .KW_ELSE = true →
          ∃ n, 9 = n + 1 ∧ parse_block n pJ.advanced = .ok true pH)
      ∧ (do emit (.label if_doneK); end_of_scope e) pH
          = .ok () (parse_if_stmt 10 example_if_less).parser
      ∧ (parse_if_stmt 10 example_if_less).parser.e.out
        = example_if_less.e.out ++ (emitted p1 pE ++ load_code R o
          ++ [.branch_cond .INST_BREZ R elseK] ++ emitted pT pB
          ++ [.branch if_doneK, .label elseK] ++ emitted pJ pH ++ [.label if_doneK])
      ∧ statement_boundary (parse_if_stmt 10 example_if_less).parser :=
  ⟨statement_boundary_of_no_slots rfl, by decide!, by decide!,
   C26_if_emission 9 example_if_less _ (statement_boundary_of_no_slots rfl) (by decide!)⟩

/-- C27: while-statement emission.  Let `parse_while_stmt` return true from a
record at a statement boundary (ownership of the registers is consistent and
no operand variable in scope holds a register).  Then the labels
`while_condK` and `while_doneK` are the next ones of their stems, whose
counters are advanced; the condition `E` was parsed into the operand `o`;
`R` is the register of `o`, or a register that was free and into which `o`
is moved; and the IR emitted for the statement is, in order: the label
`while_condK`, the code of `E`, the move into `R` when `o` is not a
register, `BREZ R, while_doneK`, the code of the block `B`, `BR while_condK`
and the label `while_doneK`.  `R` is deallocated before `B` is parsed: in
the record `pT` in which `B` is entered `R` is free, the register pool
equals the pool before the statement, and `pT` is at a statement boundary
again; so is the record the statement returns with. -/
theorem C27_while_emission (fuel : Nat) (p q : Parser) (hb : statement_boundary p)
    (h : parse_while_stmt (fuel + 1) p = .ok true q) :
    ∃ (e : Nat) (p1 p2 pE pT pB : Parser) (ty : expr_type) (o : Operand) (R : Register)
      (while_condK while_doneK : String),
      new_operand_slot none p.advanced = .ok e p1
      ∧ while_condK = "while_cond" ++ toString (p.e.count "while_cond" + 1)
      ∧ while_doneK = "while_done" ++ toString (p.e.count "while_done" + 1)
      ∧ p2 = { p1 with e := (((p1.e.get_new_label "while_cond").2.get_new_label
            "while_done").2.emit (.label while_condK)) }
      ∧ p2.e.count "while_cond" = p.e.count "while_cond" + 1
      ∧ p2.e.count "while_done" = p.e.count "while_done" + 1
      ∧ p2.e.out = p.e.out ++ [.label while_condK]
      ∧ parse_expr fuel .GARBAGE_T e p2 = .ok (true, ty) pE
      ∧ pE.slots[e]? = some { op := some o, deleted := false, live := true }
      ∧ (o = .OPTYPE_REGISTER R ∨ (o.is_register = false ∧ pE.allocator.inuse R = false))
      ∧ pT.e.out = pE.e.out ++ load_code R o ++ [.branch_cond .INST_BREZ R while_doneK]
      ∧ pT.allocator.inuse R = false
      ∧ pT.allocator = p.allocator
      ∧ statement_boundary pT
      ∧ parse_block fuel pT = .ok true pB
      ∧ (do emit (.branch while_condK); emit (.label while_doneK); end_of_scope e) pB
          = .ok () q
      ∧ q.e.out = p.e.out ++ ([.label while_condK] ++ emitted p2 pE ++ load_code R o
          ++ [.branch_cond .INST_BREZ R while_doneK] ++ emitted pT pB
          ++ [.branch while_condK, .label while_doneK])
      ∧ statement_boundary q := by
  obtain ⟨e, p1, p2, pE, ty, -, h1, h2, hE, ht⟩ := parse_while_stmt_ok h
  obtain ⟨pC, pB, hc, -, hblock, hq⟩ := while_stmt_tail_ok ht
  obtain ⟨R, pM, hm, hd, hs, hout, -⟩ := while_condition_codegen_ok hc
  obtain ⟨hel, h1s, hfill, ho1⟩ := right_operand_slot (advanced_same_registers p) h1 hb.1
  have h12 : same_registers p1 p2 := by rw [h2]; exact ⟨rfl, rfl⟩
  have hbal := (balanced_productions fuel).1 .GARBAGE_T e p2 ty pE hE
    (owner_invariant_congr h12 ho1) (fillable_congr h12.1 hfill)
  have hsame : same_registers pE
      (report_all (if ty = .BOOL_T then [] else [.type_error .BOOL_T ty]) pE) := ⟨rfl, rfl⟩
  have hoC : owner_invariant pC :=
    preserves_ok (owner_while_condition_codegen _ e) hc
      (owner_invariant_congr hsame hbal.2.2.2.2.2.1)
  obtain ⟨hload, halloc, hbT, hfree⟩ :=
    condition_released hb hel ⟨h12.1.trans h1s.1, h12.2.trans h1s.2⟩ hbal hsame hm hd rfl hs hoC
  obtain ⟨o, hso⟩ := hbal.2.2.2.2.1
  obtain ⟨hMout, -, hR⟩ := condition_loaded_out (show (report_all
    (if ty = .BOOL_T then [] else [.type_error .BOOL_T ty]) pE).slots[e]? = _ from hso) hload
  have hMout1 : pM.e.out = pE.e.out ++ load_code R o := hMout
  obtain ⟨ae, as, aa, -, -⟩ := advanced_codegen pC
  have hp1 : p1.e = p.e := by
    simp only [new_operand_slot, Res.ok.injEq] at h1
    rw [← h1.2]
    exact (advanced_codegen p).1
  have hne : ("while_cond" : String) ≠ "while_done" := by decide
  have hoE := out_eq_append_emitted ((appends_out_productions fuel).2.2.2.2.2 .GARBAGE_T e) hE
  have hoB := out_eq_append_emitted (appends_out_productions fuel).1 hblock
  have hoq : q.e.out = pB.e.out ++ [.branch (p1.e.get_new_label "while_cond").1,
      .label ((p1.e.get_new_label "while_cond").2.get_new_label "while_done").1] := by
    simp only [bind_apply, emit, end_of_scope, modifyp_apply, Res.ok.injEq, true_and] at hq
    rw [← hq]
    simp [Emitter.emit]
  have hoT : pC.advanced.e.out = pE.e.out ++ load_code R o ++ [.branch_cond .INST_BREZ R
      ((p1.e.get_new_label "while_cond").2.get_new_label "while_done").1] := by
    rw [ae, hout, hMout1]
  have hl1 : (p1.e.get_new_label "while_cond").1
      = "while_cond" ++ toString (p.e.count "while_cond" + 1) := by
    rw [hp1]; rfl
  have hl2 : ((p1.e.get_new_label "while_cond").2.get_new_label "while_done").1
      = "while_done" ++ toString (p.e.count "while_done" + 1) := by
    rw [hp1]
    show "while_done" ++ toString ((p.e.get_new_label "while_cond").2.count "while_done" + 1) = _
    rw [count_get_new_label_ne _ hne]
  have ho2 : p2.e.out = p.e.out ++ [.label (p1.e.get_new_label "while_cond").1] := by
    rw [h2, hp1]
    simp [Emitter.emit, Emitter.get_new_label]
  refine ⟨e, p1, p2, pE, pC.advanced, pB, ty, o, R, _, _, h1, hl1, hl2, h2, ?_, ?_, ho2, hE,
    hso, hR, hoT, ?_, ?_, ?_, hblock, hq, ?_,
    (statement_boundary_productions (fuel + 1)).2.2.2.2.2.2 p q h hb⟩
  · rw [h2, hp1]
    show (((p.e.get_new_label "while_cond").2.get_new_label "while_done").2.emit _).count
      "while_cond" = _
    rw [count_emit, count_get_new_label_ne _ hne.symm, count_get_new_label]
  · rw [h2, hp1]
    show (((p.e.get_new_label "while_cond").2.get_new_label "while_done").2.emit _).count
      "while_done" = _
    rw [count_emit, count_get_new_label, count_get_new_label_ne _ hne]
  · rw [aa]; exact hfree
  · rw [aa]; exact halloc
  · exact statement_boundary_congr (advanced_same_registers pC) hbT
  · rw [hoq, hoB, hoT, hoE, ho2]
    simp only [List.append_assoc]

/-- Witness for C27 on `while c loop begin c := a < 1; end` in production
mode: the condition is the memory operand `c`, which is moved into the free
register `R1` before `BREZ R1, while_done1`. -/
theorem C27_while_emission_witness :
    statement_boundary example_while_flag
    ∧ parse_while_stmt 10 example_while_flag
        = .ok true (parse_while_stmt 10 example_while_flag).parser
    ∧ (parse_while_stmt 10 example_while_flag).parser.e.out
        = [.label "while_cond1",
           .move_reg_mem .R1 "c",
           .branch_cond .INST_BREZ .R1 "while_done1",
           .move_reg_mem .R1 "a",
           .comment "Compare two values by examining their difference.",
           .inst_2addr .INST_SUB .R1 (.OPTYPE_IMMEDIATE 1),
           .comment "Normalize result of comparison to 0 or 1.",
           .branch_cond .INST_BREZ .R1 "compare_false1",
           .branch_cond .INST_BRPO .R1 "compare_false1",
           .move_reg_imm .R1 1, .branch "compare_done1", .label "compare_false1",
           .move_reg_imm .R1 0, .label "compare_done1",
           .move_mem_reg "c" .R1,
           .branch "while_cond1", .label "while_done1"]
    ∧ ∃ (e : Nat) (p1 p2 pE pT pB : Parser) (ty : expr_type) (o : Operand) (R : Register)
      (while_condK while_doneK : String),
      new_operand_slot none example_while_flag.advanced = .ok e p1
      ∧ while_condK = "while_cond" ++ toString (example_while_flag.e.count "while_cond" + 1)
      ∧ while_doneK = "while_done" ++ toString (example_while_flag.e.count "while_done" + 1)
      ∧ p2 = { p1 with e := (((p1.e.get_new_label "while_cond").2.get_new_label
            "while_done").2.emit (.label while_condK)) }
      ∧ p2.e.count "while_cond" = example_while_flag.e.count "while_cond" + 1
      ∧ p2.e.count "while_done" = example_while_flag.e.count "while_done" + 1
      ∧ p2.e.out = example_while_flag.e.out ++ [.label while_condK]
      ∧ parse_expr 9 .GARBAGE_T e p2 = .ok (true, ty) pE
      ∧ pE.slots[e]? = some { op := some o, deleted := false, live := true }
      ∧ (o = .OPTYPE_REGISTER R ∨ (o.is_register = false ∧ pE.allocator.inuse R = false))
      ∧ pT.e.out = pE.e.out ++ load_code R o ++ [.branch_cond .INST_BREZ R while_doneK]
      ∧ pT.allocator.inuse R = false
      ∧ pT.allocator = example_while_flag.allocator
      ∧ statement_boundary pT
      ∧ parse_block 9 pT = .ok true pB
      ∧ (do emit (.branch while_condK); emit (.label while_doneK); end_of_scope e) pB
          = .ok () (parse_while_stmt 10 example_while_flag).parser
      ∧ (parse_while_stmt 10 example_while_flag).parser.e.out
        = example_while_flag.e.out ++ ([.label while_condK] ++ emitted p2 pE ++ load_code R o
          ++ [.branch_cond .INST_BREZ R while_doneK] ++ emitted pT pB
          ++ [.branch while_condK, .label while_doneK])
      ∧ statement_boundary (parse_while_stmt 10 example_while_flag).parser :=
  ⟨statement_boundary_of_no_slots rfl, by decide!, by decide!,
   C27_while_emission 9 example_while_flag _ (statement_boundary_of_no_slots rfl)
     (by decide!)⟩

/-- C33: a block needs a non-empty statement list.  On `begin end` the
statement list is entered on `end`, which starts neither a statement nor is
`;`: `parse_block` returns false (with `begin` consumed and nothing
written), and it returns true at no fuel.  On `begin ; end` it returns
true, the leading `;` standing for an empty first statement.  Hence every
program whose main block is `begin end` is rejected: when `parse_program`,
started in the record `p`, has matched `program`, the name and `;`, the
declarations have returned true and the main block is entered on `begin
end`, `parse_program` returns false.  So is every procedure declaration
whose block is `begin end`, and every program with such a procedure
declaration, whichever of its procedure declarations it is. -/
theorem C33_block_needs_statement_list :
    (∀ (fuel : Nat) (p : Parser), at_empty_block p →
      parse_block (fuel + 2) p = .ok false p.advanced)
    ∧ (∀ (fuel : Nat) (p q : Parser), at_empty_block p → parse_block fuel p ≠ .ok true q)
    ∧ (∀ (fuel : Nat) (p : Parser) (rest : List Token),
        p.word = .TOKEN_KEYWORD .KW_BEGIN →
        p.lex = .TOKEN_PUNC .PUNC_SEMI :: .TOKEN_KEYWORD .KW_END :: rest →
        parse_block (fuel + 3) p = .ok true p.advanced.advanced.advanced)
    ∧ (∀ (fuel : Nat) (p pB : Parser), main_block_entered fuel p pB → at_empty_block pB →
        parse_program (fuel + 1) p = .ok false pB.advanced)
    ∧ (∀ (fuel : Nat) (p pB : Parser), procedure_block_entered (fuel + 2) p pB →
        at_empty_block pB → parse_procedure_decl (fuel + 3) p = .ok false pB.advanced)
    ∧ (∀ (fuel k : Nat) (p r pB : Parser), program_procedure_reached fuel p (k + 3) r →
        procedure_block_entered (k + 2) r pB → at_empty_block pB →
        parse_program (fuel + 2) p = .ok false pB.advanced) := by
  refine ⟨parse_block_empty, ?_, parse_block_empty_statement, ?_, ?_, ?_⟩
  · intro fuel p q he h
    exact parse_block_not_empty h he
  · intro fuel p pB hm he
    obtain ⟨pD, hD, hd⟩ := hm
    have hf := parse_decl_list_fuel hd
    obtain ⟨n, hn⟩ : ∃ n, fuel = n + 2 := ⟨fuel - 2, by omega⟩
    subst hn
    exact parse_program_block_false ⟨pD, hD, hd⟩ (parse_block_empty n pB he)
  · intro fuel p pB hm he
    exact parse_procedure_decl_block_false hm (parse_block_empty fuel pB he)
  · intro fuel k p r pB hr hm he
    exact parse_program_procedure_false hr
      (parse_procedure_decl_block_false hm (parse_block_empty k pB he))

/-- Witness for C33: `begin end` alone, the main block of `program p; begin
end;` and the block of the procedure of `program p; procedure q() begin end;
begin ; end;`; the two programs are rejected and `program p; begin ; end;`
is accepted. -/
theorem C33_block_needs_statement_list_witness :
    at_empty_block (Parser.init false [.TOKEN_KEYWORD .KW_BEGIN, .TOKEN_KEYWORD .KW_END])
    ∧ parse_block 2 (Parser.init false [.TOKEN_KEYWORD .KW_BEGIN, .TOKEN_KEYWORD .KW_END])
        = .ok false
            (Parser.init false [.TOKEN_KEYWORD .KW_BEGIN, .TOKEN_KEYWORD .KW_END]).advanced
    ∧ main_block_entered 3 (Parser.init false prog_empty_block) example_empty_main_block
    ∧ at_empty_block example_empty_main_block
    ∧ compile false 4 prog_empty_block = .ok false example_empty_main_block.advanced
    ∧ program_procedure_reached 5 (Parser.init false prog_empty_procedure_block) 4
        example_empty_procedure
    ∧ procedure_block_entered 3 example_empty_procedure example_empty_procedure_block
    ∧ at_empty_block example_empty_procedure_block
    ∧ parse_procedure_decl 4 example_empty_procedure
        = .ok false example_empty_procedure_block.advanced
    ∧ compile false 7 prog_empty_procedure_block
        = .ok false example_empty_procedure_block.advanced
    ∧ (compile true 4 prog_empty_block).value = some false
    ∧ (compile false 4 prog_empty_statement).value = some true :=
  have hmain : main_block_entered 3 (Parser.init false prog_empty_block)
      example_empty_main_block :=
    ⟨_, ⟨"p", by decide!, by decide!, by decide!, rfl⟩, by decide!⟩
  have hreached : program_procedure_reached 5 (Parser.init false prog_empty_procedure_block) 4
      example_empty_procedure :=
    ⟨_, example_empty_procedure, ⟨"p", by decide!, by decide!, by decide!, rfl⟩, by decide!,
      procedure_reached.first 4 _ (by decide!)⟩
  have hblock : procedure_block_entered 3 example_empty_procedure
      example_empty_procedure_block :=
    ⟨"q", example_empty_procedure_named, example_empty_procedure_args, by decide!, by decide!,
      by decide!, by decide!, by decide!, by decide!, by decide!⟩
  ⟨by decide, C33_block_needs_statement_list.1 0 _ (by decide), hmain, by decide!,
   C33_block_needs_statement_list.2.2.2.1 3 _ _ hmain (by decide!),
   hreached, hblock, by decide!,
   C33_block_needs_statement_list.2.2.2.2.1 1 _ _ hblock (by decide!),
   C33_block_needs_statement_list.2.2.2.2.2 5 1 _ _ _ hreached hblock (by decide!),
   by decide!, by decide!⟩

/-- C31: syntax failures that are not reported.  On each of the three
inputs the claim names (a block with an empty statement list, a declaration
whose type is neither `int` nor `bool`, a statement identifier followed by
neither `:=` nor `(`), and on an assignment without a factor,
`parse_program` returns false in both modes and nothing at all has been
written: `parse_stmt_list`, `parse_standard_type`, `parse_adhoc_as_pc_tail`
and `parse_factor` return false without a call of `parse_error`, and no
caller reports the mismatch either.  A mismatch at a literal terminal (here
the missing final `;`) is reported exactly once. -/
theorem C31_silent_syntax_failures :
    (∀ test_mode : Bool,
      (compile test_mode 12 prog_empty_block).value = some false
      ∧ (compile test_mode 12 prog_empty_block).parser.diagnostics = []
      ∧ (compile test_mode 12 prog_bad_standard_type).value = some false
      ∧ (compile test_mode 12 prog_bad_standard_type).parser.diagnostics = []
      ∧ (compile test_mode 12 prog_bad_statement_tail).value = some false
      ∧ (compile test_mode 12 prog_bad_statement_tail).parser.diagnostics = []
      ∧ (compile test_mode 12 prog_missing_factor).value = some false
      ∧ (compile test_mode 12 prog_missing_factor).parser.diagnostics = [])
    ∧ (∀ test_mode : Bool,
      (compile test_mode 12 prog_missing_semicolon).value = some false
      ∧ (compile test_mode 12 prog_missing_semicolon).parser.diagnostics
          = [.parse_error "';'" .TOKEN_EOF]) := by
  refine ⟨fun test_mode => ?_, fun test_mode => ?_⟩
  · cases test_mode <;> decide!
  · cases test_mode <;> decide!

/-- C37: the release of a right operand that names a program variable can
change the spill table.  `deallocate_spill_memory` compares label strings,
and the release calls it for every memory operand, so the table is left as
it is exactly when no active entry bears the name of the variable.  For the
variable `spill1` and the table `[(spill1, active)]` the release of the right
operand of `g + spill1` marks the entry inactive; in `program p; a, b, c, d,
e, f, g, spill1 : int; begin a := (a + b) + ((c + d) + ((e + f) + (g +
spill1))); end;`, which is accepted without a diagnostic, the second spill
then reuses the label `spill1`, to which `e + f` was spilled and from which
it has not been loaded yet, and `spill1` gets two data directives. -/
theorem C37_variable_named_like_spill_label :
    (release_right_op 1 example_release_variable).parser.spilled_labels = [("spill1", false)]
    ∧ example_release_variable.spilled_labels = [("spill1", true)]
    ∧ (compile false 40 prog_variable_named_spill).value = some true
    ∧ (compile false 40 prog_variable_named_spill).parser.diagnostics = []
    ∧ (compile false 40 prog_variable_named_spill).parser.spilled_labels = [("spill1", false)]
    ∧ ((compile false 40 prog_variable_named_spill).parser.e.out.drop 7).take 8
        = [.comment "Spill register to memory since all registers are live.",
           .move_mem_reg "spill1" .R3,
           .move_reg_mem .R3 "g",
           .inst_2addr .INST_ADD .R3 (.OPTYPE_MEMORY "spill1"),
           .comment "Spill register to memory since all registers are live.",
           .move_mem_reg "spill1" .R3,
           .move_reg_mem .R3 "spill1",
           .inst_2addr .INST_ADD .R3 (.OPTYPE_MEMORY "spill1")]
    ∧ (compile false 40 prog_variable_named_spill).parser.e.out.count
        (.data_directive "spill1" 1) = 2 := by
  refine ⟨by decide!, by decide!, by decide!, by decide!, by decide!, by decide!, by decide!⟩

/-- C34: the meaning of the relational code.  The machine is the one of the
claim: `SUB r, s` sets `r := r - s` on the integers, `BREZ`, `BRNE` and
`BRPO` branch when the register is zero, negative and positive, `BR` branches
always and `MOVE r, k` sets `r := k`.  When the block of a relational
operator of `parse_expr_hat` returns, the lines it has emitted after the
materialization of the left operand are the relational code on the register
`reg` of the left operand and the right operand `src`, and this code ends
with the label `compare_done`.  Run inside any program in which its two
labels are not defined earlier, from a state at its first line, the machine
reaches the line behind `compare_done` with 1 in the left register if the
relation holds between the value the left register had and the value the
right operand denoted, and with 0 otherwise; the other registers and the
memory are unchanged. -/
theorem C34_relational_code_semantics (c : relop_attr) (l r : Nat) (p q : Parser)
    (h : relop_codegen c l r p = .ok () q) :
    ∃ (reg : Register) (p1 : Parser) (src : Operand) (lf ld : String),
      materialized true l p reg p1
      ∧ p1.slots[r]? = some { op := some src, deleted := false, live := true }
      ∧ q.e.out = p1.e.out ++ relational_code c reg src lf ld
      ∧ (relational_code c reg src lf ld).getLast? = some (.label ld)
      ∧ ∀ (before after : List IR) (m : Machine),
          IR.label lf ∉ before → IR.label ld ∉ before → m.pc = before.length →
          reaches (before ++ (relational_code c reg src lf ld ++ after)) m
            { reg := fun r1 => if r1 = reg then
                (if relop_holds c (m.reg reg) (m.value src) then 1 else 0) else m.reg r1,
              mem := m.mem,
              pc := before.length + (relational_code c reg src lf ld).length } := by
  obtain ⟨reg, p1, p2, src, hm, hs, hout, -, -, -, -, -, -, hrel⟩ := relop_codegen_ok h
  have hrel := release_right_op_ok hrel
  have he : q.e = p2.e := hrel.choose_spec.2.2.1
  refine ⟨reg, p1, src, _, _, hm, hs, by rw [he]; exact hout, ?_, ?_⟩
  · cases c <;> simp [relational_code, compare_branches]
  · intro before after m hf hd h0
    exact relational_code_run c before after reg src _ _
      (compare_false_ne_compare_done _ _) hf hd m h0

theorem C34_relational_code_semantics_witness :
    relop_codegen .RELOP_LT 0 1 example_two_operands
      = .ok () (relop_codegen .RELOP_LT 0 1 example_two_operands).parser
    ∧ ∃ (reg : Register) (p1 : Parser) (src : Operand) (lf ld : String),
      materialized true 0 example_two_operands reg p1
      ∧ p1.slots[1]? = some { op := some src, deleted := false, live := true }
      ∧ (relop_codegen .RELOP_LT 0 1 example_two_operands).parser.e.out
        = p1.e.out ++ relational_code .RELOP_LT reg src lf ld
      ∧ (relational_code .RELOP_LT reg src lf ld).getLast? = some (.label ld)
      ∧ ∀ (before after : List IR) (m : Machine),
          IR.label lf ∉ before → IR.label ld ∉ before → m.pc = before.length →
          reaches (before ++ (relational_code .RELOP_LT reg src lf ld ++ after)) m
            { reg := fun r1 => if r1 = reg then
                (if relop_holds .RELOP_LT (m.reg reg) (m.value src) then 1 else 0)
                else m.reg r1,
              mem := m.mem,
              pc := before.length + (relational_code .RELOP_LT reg src lf ld).length } :=
  ⟨by decide!,
   C34_relational_code_semantics .RELOP_LT 0 1 example_two_operands _ (by decide!)⟩

/-- C36: a spill overwrites a live spilled value.  The program
`prog_nested_sums_twice` (the assignment `a := (a + b) + ((c + d) + ((e + f)
+ (g + h)))` twice) is accepted in production mode with no diagnostic.  In
the code of the second assignment the sum `e + f` is spilled by `MOVE spill2,
R3`, and, before that value is loaded again, the sum `g + h` is spilled by
`MOVE spill2, R3` to the same label; both operands of the `ADD` that follows
are the cell `spill2`.  Run on the machine from the state
`machine_powers_of_two`, the first assignment stores 255 in `a` and the
second one stores 653, where the statement denotes 509: the sum `e + f` is
lost and `g + h` is counted twice. -/
theorem C36_spill_overwrites_live_spilled_value :
    (compile false 40 prog_nested_sums_twice).value = some true
    ∧ (compile false 40 prog_nested_sums_twice).parser.diagnostics = []
    ∧ ((compile false 40 prog_nested_sums_twice).parser.e.out.drop 22).take 10
      = [.move_reg_mem .R3 "e",
         .inst_2addr .INST_ADD .R3 (.OPTYPE_MEMORY "f"),
         .comment "Spill register to memory since all registers are live.",
         .move_mem_reg "spill2" .R3,
         .move_reg_mem .R3 "g",
         .inst_2addr .INST_ADD .R3 (.OPTYPE_MEMORY "h"),
         .comment "Spill register to memory since all registers are live.",
         .move_mem_reg "spill2" .R3,
         .move_reg_mem .R3 "spill2",
         .inst_2addr .INST_ADD .R3 (.OPTYPE_MEMORY "spill2")]
    ∧ (compile false 40 prog_nested_sums_twice).parser.spilled_labels
      = [("spill1", true), ("spill2", false)]
    ∧ ((steps (compile false 40 prog_nested_sums_twice).parser.e.out 18
          machine_powers_of_two).map (fun m => (m.pc, m.mem "a"))) = some (18, 255)
    ∧ ((steps (compile false 40 prog_nested_sums_twice).parser.e.out 35
          machine_powers_of_two).map (fun m => (m.pc, m.mem "a"))) = some (35, 653)
    ∧ (compile false 40 prog_nested_sums_twice).parser.e.out[35]? = some .halt
    ∧ (255 + 2) + ((4 + 8) + ((16 + 32) + (64 + 128))) = (509 : Int) := by
  refine ⟨by decide!, by decide!, by decide!, by decide!, by decide!, by decide!, by decide!,
    by decide⟩

/-- C38: the number of actual parameters of a call is not checked from below.
Let the statement start at the identifier `id`, followed by `(`, where `id`
has the type `PROCEDURE_T`; `pa` is the record after the identifier.  Nothing
is assumed about the number of formal parameters of `id`: it may exceed the
number of actual parameters.  A call `id ( )` with no actual parameter is
accepted and writes no diagnostic.  A call `id ( E1, ..., En )` whose actual
parameters are parsed one by one up to the closing bracket, each `Ei` of the
declared type of the formal parameter with ordinal `i - 1`, is accepted; the
checks of the parameters and the end of the list write nothing, and when no
`Ei` has written a diagnostic of its own the diagnostics after the statement
are those before it. -/
theorem C38_call_arity_not_checked_from_below :
    (∀ (fuel : Nat) (p pa : Parser) (id : String) (e : Nat),
      p.word = .TOKEN_ID id →
      (do
        set_procedure_name id
        advance
        new_operand_slot (some (.OPTYPE_MEMORY id))) p = .ok e pa →
      is_punctuation pa.word .PUNC_OPEN = true →
      p.stab.get_type id p.main_env = .PROCEDURE_T →
      p.stab.get_type id p.current_env = .PROCEDURE_T →
      is_punctuation pa.advanced.word .PUNC_CLOSE = true →
      ∃ qf, parse_stmt (fuel + 3) p = .ok true qf ∧ qf.diagnostics = p.diagnostics)
    ∧ (∀ (fuel : Nat) (p pa q : Parser) (id : String) (e : Nat)
        (acts : List (expr_type × Parser × Parser)),
      p.word = .TOKEN_ID id →
      (do
        set_procedure_name id
        advance
        new_operand_slot (some (.OPTYPE_MEMORY id))) p = .ok e pa →
      is_punctuation pa.word .PUNC_OPEN = true →
      p.stab.get_type id p.main_env = .PROCEDURE_T →
      p.stab.get_type id p.current_env = .PROCEDURE_T →
      actual_parms fuel (call_entered [] pa) acts q →
      (∀ (i : Nat) (t : expr_type) (p1 p2 : Parser), acts[i]? = some (t, p1, p2) →
        t = p.stab.get_type_pos id (i : Int)) →
      is_punctuation q.word .PUNC_CLOSE = true →
      ∃ qf, parse_stmt (fuel + 3) p = .ok true qf
        ∧ qf.diagnostics = q.diagnostics
        ∧ (∀ (i : Nat) (t : expr_type) (p1 p2 : Parser), acts[i]? = some (t, p1, p2) →
            p2.diagnostics = p1.diagnostics)
        ∧ (actuals_silent (call_entered [] pa) acts → qf.diagnostics = p.diagnostics)) := by
  have hpa_fields : ∀ (p pa : Parser) (id : String) (e : Nat), (do
        set_procedure_name id
        advance
        new_operand_slot (some (.OPTYPE_MEMORY id))) p = .ok e pa →
      pa.stab = p.stab ∧ pa.procedure_name = id ∧ pa.diagnostics = p.diagnostics := by
    intro p pa id e hpre
    simp only [bind_apply, set_procedure_name, modifyp_apply, advance_apply, new_operand_slot,
      Res.ok.injEq] at hpre
    rw [← hpre.2]
    simp only [Parser.advanced]
    split <;> exact ⟨rfl, rfl, rfl⟩
  refine ⟨?_, ?_⟩
  · intro fuel p pa id e hw hpre hopen hmain hcur hclose
    have hce : (call_entered [] pa).word = pa.advanced.word
        ∧ (call_entered [] pa).diagnostics = pa.diagnostics := by
      simp only [call_entered, bind_apply, reset_actual_parm_position, modifyp_apply,
        advance_apply, Res.parser, Parser.advanced, report_all_nil]
      split <;> exact ⟨rfl, rfl⟩
    have hns : starts_expression (call_entered [] pa).word = false := by
      rw [hce.1]
      revert hclose
      cases pa.advanced.word <;>
        simp [starts_expression, is_punctuation, is_identifier, is_number, is_addop_attr,
          is_keyword]
      intro h
      subst h
      decide
    have hL : parse_expr_list (fuel + 1) (call_entered [] pa)
        = .ok true (call_entered [] pa) := by
      unfold starts_expression at hns
      simp only [parse_expr_list, bind_apply, get_word_apply, hns, Bool.false_eq_true,
        if_false, pure_apply]
    obtain ⟨qf, hqf, hd⟩ := parse_stmt_call_accepted (fuel + 1) p pa (call_entered [] pa) id e
      hw hpre hopen hmain hcur hL (by rw [hce.1]; exact hclose)
    exact ⟨qf, hqf, by rw [hd, hce.2, (hpa_fields p pa id e hpre).2.2]⟩
  · intro fuel p pa q id e acts hw hpre hopen hmain hcur hacts htypes hclose
    obtain ⟨hst, hn, hpos, hdiag⟩ := call_entered_fields [] pa
    obtain ⟨hpst, hpn, hpd⟩ := hpa_fields p pa id e hpre
    have htypes1 : ∀ (i : Nat) (t : expr_type) (p1 p2 : Parser),
        acts[i]? = some (t, p1, p2) →
        t = (call_entered [] pa).stab.get_type_pos (call_entered [] pa).procedure_name
          ((call_entered [] pa).actual_parm_position + i) := by
      intro i t p1 p2 hi
      rw [hst, hn, hpos, hpst, hpn, zero_add]
      exact htypes i t p1 p2 hi
    obtain ⟨s, hs⟩ := actual_parms_returns hacts
    have hstart := actual_parms_starts hacts
    have hL : parse_expr_list (fuel + 1) (call_entered [] pa)
        = .ok true { q with slots := s } := by
      unfold starts_expression at hstart
      simp only [parse_expr_list, bind_apply, get_word_apply, hstart, if_true]
      exact hs
    obtain ⟨qf, hqf, hd⟩ := parse_stmt_call_accepted (fuel + 1) p pa _ id e
      hw hpre hopen hmain hcur hL hclose
    refine ⟨qf, hqf, hd, ?_, ?_⟩
    · intro i t p1 p2 hi
      rw [(actual_parms_typing hacts).2 i t p1 p2 hi]
      unfold actual_errors
      rw [if_pos (htypes1 i t p1 p2 hi), List.append_nil]
    · intro hsil
      rw [hd]
      show q.diagnostics = p.diagnostics
      rw [actual_parms_silent hacts hsil htypes1, hdiag, List.append_nil, hpd]

theorem C38_call_arity_not_checked_from_below_witness :
    (∃ qf, parse_stmt 5 example_call_none_of_two = .ok true qf
      ∧ qf.diagnostics = example_call_none_of_two.diagnostics)
    ∧ (∃ qf, parse_stmt 9 example_call_one_of_two = .ok true qf
      ∧ qf.diagnostics = example_call_one_of_two_checked.diagnostics
      ∧ (∀ (i : Nat) (t : expr_type) (p1 p2 : Parser),
          [(expr_type.INT_T, example_call_one_of_two_parsed,
            example_call_one_of_two_checked)][i]? = some (t, p1, p2) →
          p2.diagnostics = p1.diagnostics)
      ∧ (actuals_silent example_call_one_of_two_entered
          [(.INT_T, example_call_one_of_two_parsed, example_call_one_of_two_checked)] →
          qf.diagnostics = example_call_one_of_two.diagnostics))
    ∧ example_call_one_of_two.stab.get_type_pos "q" 0 = .INT_T
    ∧ example_call_one_of_two.stab.get_type_pos "q" 1 = .INT_T
    ∧ actuals_silent example_call_one_of_two_entered
        [(.INT_T, example_call_one_of_two_parsed, example_call_one_of_two_checked)]
    ∧ (compile false 30 prog_calls_with_too_few_actuals).value = some true
    ∧ (compile false 30 prog_calls_with_too_few_actuals).parser.diagnostics = []
    ∧ (compile false 30 prog_calls_with_too_few_actuals).parser.stab.get_type_pos "q" 1
      = .INT_T :=
  ⟨C38_call_arity_not_checked_from_below.1 2 example_call_none_of_two
      (after_identifier "q" example_call_none_of_two) "q" 0
      (by decide) (by decide!) (by decide!) (by decide!) (by decide!) (by decide!),
   C38_call_arity_not_checked_from_below.2 6 example_call_one_of_two
      (after_identifier "q" example_call_one_of_two) example_call_one_of_two_checked "q" 0
      [(.INT_T, example_call_one_of_two_parsed, example_call_one_of_two_checked)]
      (by decide) (by decide!) (by decide!) (by decide!) (by decide!)
      (actual_parms.last 4 1 example_call_one_of_two_entered example_call_one_of_two_parsed
        example_call_one_of_two_checked .INT_T (by decide!) (by decide!) (by decide!))
      (by
        intro i t p1 p2 hi
        cases i with
        | zero =>
          simp only [List.getElem?_cons_zero, Option.some.injEq, Prod.mk.injEq] at hi
          rw [← hi.1]
          decide
        | succ i => simp at hi)
      (by decide!),
   by decide, by decide, ⟨by decide!, trivial⟩, by decide!, by decide!, by decide!⟩

/-- C39: no shadowing.  A name `x` that has an entry in the program
environment `m` (a global variable or a procedure declared so far) is
declared in every environment, because `is_decl` falls back to the program
environment; after `procedure q` has been entered at program level this
holds for `q` itself.  At each of the three sites that declare a formal
parameter or a local variable (`parse_formal_parm_list`,
`parse_identifier_list`, `parse_identifier_list_prm`) such a name takes the
branch of the multiply-defined-identifier error instead of the installation:
the production equals the error followed by the rest of the production, the
error writes the diagnostic, and the record it leaves is the record before
with this one diagnostic appended, so the symbol table has no new entry (in
production mode the run exits there, in test mode the production goes on). -/
theorem C39_no_shadowing :
    (∀ (t : Symbol_Table) (x m env : String), t.program_env = some m →
      (t.lookup x m).isSome = true → t.is_decl x env = true)
    ∧ (∀ (p : Parser) (q : String), p.stab.program_env = some p.current_env →
      (enter_procedure q p).parser.current_env = q
      ∧ (enter_procedure q p).parser.stab.program_env = some p.current_env
      ∧ ((enter_procedure q p).parser.stab.lookup q p.current_env).isSome = true
      ∧ (enter_procedure q p).parser.stab.is_decl q (enter_procedure q p).parser.current_env
          = true)
    ∧ (∀ (x m : String) (install : M Unit) (p : Parser), p.stab.program_env = some m →
      (p.stab.lookup x m).isSome = true →
      declare x install p = checked [.multiply_defined_identifier x] () p
      ∧ (declare x install p).parser = report_all [.multiply_defined_identifier x] p
      ∧ (declare x install p).parser.stab = p.stab
      ∧ (p.test_mode = false → declare x install p
          = .halt .exit_failure (report_all [.multiply_defined_identifier x] p))
      ∧ (p.test_mode = true → declare x install p
          = .ok () (report_all [.multiply_defined_identifier x] p)))
    ∧ (∀ (fuel : Nat) (x m : String) (p : Parser), p.word = .TOKEN_ID x →
      p.stab.program_env = some m → (p.stab.lookup x m).isSome = true →
      parse_formal_parm_list (fuel + 1) p
        = (do
            checked [.multiply_defined_identifier x] ()
            advance
            if (← parse_identifier_list_prm fuel) then
              if is_punctuation (← get_word) .PUNC_COLON then
                advance
                let standard_type ← parse_standard_type .GARBAGE_T
                if standard_type.1 then
                  stab_update_type standard_type.2
                  parse_formal_parm_list_hat fuel
                else
                  pure false
              else
                parse_error "':'" (← get_word)
                pure false
            else
              pure false) p)
    ∧ (∀ (fuel : Nat) (x m : String) (p : Parser), p.word = .TOKEN_ID x →
      p.stab.program_env = some m → (p.stab.lookup x m).isSome = true →
      parse_identifier_list (fuel + 1) p
        = (do
            checked [.multiply_defined_identifier x] ()
            reserve_program_label x
            advance
            parse_identifier_list_prm fuel) p)
    ∧ (∀ (fuel : Nat) (x m : String) (p : Parser),
      is_punctuation p.word .PUNC_COMMA = true → p.advanced.word = .TOKEN_ID x →
      p.stab.program_env = some m → (p.stab.lookup x m).isSome = true →
      parse_identifier_list_prm (fuel + 1) p
        = (do
            checked [.multiply_defined_identifier x] ()
            reserve_program_label x
            advance
            parse_identifier_list_prm fuel) p.advanced) := by
  refine ⟨is_decl_of_program_level, ?_, ?_, ?_, ?_, ?_⟩
  · intro p q hm
    have h2 : (enter_procedure q p).parser.stab.program_env = some p.current_env :=
      program_env_install _ _ _ _ _ hm
    have h3 : ((enter_procedure q p).parser.stab.lookup q p.current_env).isSome = true :=
      lookup_install_self _ _ _ _
    exact ⟨rfl, h2, h3, is_decl_of_program_level _ _ _ _ h2 h3⟩
  · intro x m install p hm hx
    obtain ⟨h1, h2⟩ := declare_program_level x m install p hm hx
    refine ⟨h1, h2, by rw [h2]; rfl, ?_, ?_⟩
    · intro htm
      rw [h1, checked_exit _ _ _ _ htm]
    · intro htm
      rw [h1]
      simp [checked, htm]
  · intro fuel x m p hw hm hx
    rw [parse_formal_parm_list_site]
    simp only [bind_apply, get_word_apply, hw]
    rw [(declare_program_level x m _ p hm hx).1]
  · intro fuel x m p hw hm hx
    rw [parse_identifier_list_site]
    simp only [bind_apply, get_word_apply, hw]
    rw [(declare_program_level x m _ p hm hx).1]
  · intro fuel x m p hc hw hm hx
    have hst : p.advanced.stab = p.stab := by
      unfold Parser.advanced
      cases p.lex <;> rfl
    rw [parse_identifier_list_prm_site]
    simp only [bind_apply, get_word_apply, hc, if_true, advance_apply, hw]
    rw [(declare_program_level x m _ p.advanced (by rw [hst]; exact hm)
      (by rw [hst]; exact hx)).1]

theorem C39_no_shadowing_witness :
    example_formal_named_like_global.stab.program_env = some "p"
    ∧ parse_formal_parm_list 10 example_formal_named_like_global
      = (do
          checked [.multiply_defined_identifier "a"] ()
          advance
          if (← parse_identifier_list_prm 9) then
            if is_punctuation (← get_word) .PUNC_COLON then
              advance
              let standard_type ← parse_standard_type .GARBAGE_T
              if standard_type.1 then
                stab_update_type standard_type.2
                parse_formal_parm_list_hat 9
              else
                pure false
            else
              parse_error "':'" (← get_word)
              pure false
          else
            pure false) example_formal_named_like_global
    ∧ (parse_formal_parm_list 10 example_formal_named_like_global).parser.diagnostics
      = [.multiply_defined_identifier "a", .multiply_defined_identifier "r"]
    ∧ (parse_formal_parm_list 10 example_formal_named_like_global).parser.stab.keys
      = example_formal_named_like_global.stab.keys
    ∧ (compile false 30 (prog_names_in_procedure "y" "z")).value = some true
    ∧ (compile false 30 (prog_names_in_procedure "a" "z")).halted = some .exit_failure
    ∧ (compile false 30 (prog_names_in_procedure "a" "z")).parser.diagnostics
      = [.multiply_defined_identifier "a"]
    ∧ (compile false 30 (prog_names_in_procedure "z" "a")).parser.diagnostics
      = [.multiply_defined_identifier "a"]
    ∧ (compile false 30 (prog_names_in_procedure "q" "z")).parser.diagnostics
      = [.multiply_defined_identifier "q"]
    ∧ (compile false 30 (prog_names_in_procedure "z" "r")).parser.diagnostics
      = [.multiply_defined_identifier "r"]
    ∧ (compile true 30 (prog_names_in_procedure "q" "r")).parser.diagnostics
      = [.multiply_defined_identifier "q", .multiply_defined_identifier "r"]
    ∧ (compile true 30 (prog_names_in_procedure "q" "r")).parser.stab.keys
      = [("p", "_EXTERNAL"), ("a", "p"), ("r", "p"), ("x", "r"), ("q", "p")] :=
  ⟨by decide,
   C39_no_shadowing.2.2.2.1 9 "a" "p" example_formal_named_like_global (by decide)
     (by decide) (by decide),
   by decide!, by decide!, by decide!, by decide!, by decide!, by decide!, by decide!,
   by decide!, by decide!, by decide!⟩

/-- C32: a program of the grammar that is not accepted.  The token sequence
`prog_three_calls_then_assignment` (`program p; a, b : int; procedure q(x :
int) begin x := 1; end; begin q(a + b); q(a + b); q(a + b); a := 1; end;`)
is derivable from `PROGRAM` in the grammar of section 4.4.1, yet in test mode
`parse_program` does not return true on it: each call leaves the register of
its actual parameter allocated, and at `a := 1` no register is free and
`last_register_op` refers to a variable that is out of scope, where the run
ends (with every fuel tried from 14 on; below, the fuel runs out).  No
diagnostic has been written, and the tokens `end ;` have not been reached. -/
theorem C32_derivable_program_not_accepted :
    derives .PROGRAM prog_three_calls_then_assignment
    ∧ (compile true 14 prog_three_calls_then_assignment).halted
      = some (.contract .invalid_last_register_op)
    ∧ (compile true 40 prog_three_calls_then_assignment).halted
      = some (.contract .invalid_last_register_op)
    ∧ (compile true 40 prog_three_calls_then_assignment).value = none
    ∧ (compile true 40 prog_three_calls_then_assignment).parser.diagnostics = []
    ∧ (compile true 40 prog_three_calls_then_assignment).parser.word = .TOKEN_PUNC .PUNC_SEMI
    ∧ (compile true 40 prog_three_calls_then_assignment).parser.lex
      = [.TOKEN_KEYWORD .KW_END, .TOKEN_PUNC .PUNC_SEMI]
    ∧ (compile true 40 prog_three_calls_then_assignment).parser.allocator.has_free_register
      = false :=
  ⟨derives_three_calls_then_assignment, by decide!, by decide!, by decide!, by decide!,
   by decide!, by decide!, by decide!⟩

/-- C35: semantic correctness of expression code without spills.  Let
`parse_expr` return true for the operand slot `op`, from the record `p` to
the record `q`, let the evaluator `value_expr` read an expression over
integer literals, variables, unary `+` and `-`, binary `+`, `-`, `*`, `/`
and parentheses at the head of the token stream of `p` and give it the value
`v` for the memory `mem`, and let the compilation perform no spill (no line
emitted stores a register to memory).  Then `parse_expr` has consumed that
expression, the slot `op` holds an operand `o`, and the emitted lines `code`,
run by the machine inside any program from any contents of the registers,
reach their end with the memory unchanged and with `o` denoting `v`. -/
theorem C35_spill_free_expression_code (mem : String → Int) (n m : Nat) (t ty : expr_type)
    (op : Nat) (p q : Parser) (v : Int) (st : Token × List Token)
    (h : parse_expr n t op p = .ok (true, ty) q)
    (hval : value_expr mem m (p.word, p.lex) = some (v, st))
    (hsc : in_scope p op)
    (hsf : spill_free p.e.out.length q.e.out) :
    st = (q.word, q.lex)
    ∧ ∃ (o : Operand) (code : List IR),
        q.slots[op]? = some { op := some o, deleted := false, live := true }
        ∧ q.e.out = p.e.out ++ code
        ∧ ∀ (before after : List IR) (reg : Register → Int),
            ∃ reg1, reaches (before ++ (code ++ after)) ⟨reg, mem, before.length⟩
                ⟨reg1, mem, before.length + code.length⟩
              ∧ operand_value reg1 mem o = v := by
  obtain ⟨hst, o, code, a1, a2, -, -, -, -, -, a8⟩ :=
    (value_expression_productions mem n).1 m t op p ty q v st h hval hsc hsf
  refine ⟨hst, o, code, a1, a2, ?_⟩
  intro before after reg
  obtain ⟨reg1, hrun, hv⟩ := a8 reg trivial
  exact ⟨reg1, reaches_of_run_lines hrun before after, hv⟩

theorem C35_spill_free_expression_code_witness :
    parse_expr 9 .GARBAGE_T 0 example_int_expression
      = .ok (true, .INT_T) (parse_expr 9 .GARBAGE_T 0 example_int_expression).parser
    ∧ value_expr example_memory 9 (example_int_expression.word, example_int_expression.lex)
      = some (4, (.TOKEN_PUNC .PUNC_SEMI, []))
    ∧ in_scope example_int_expression 0
    ∧ spill_free example_int_expression.e.out.length
        (parse_expr 9 .GARBAGE_T 0 example_int_expression).parser.e.out
    ∧ (parse_expr 9 .GARBAGE_T 0 example_int_expression).parser.e.out
      = [.move_reg_mem .R1 "a", .inst_2addr .INST_ADD .R1 (.OPTYPE_IMMEDIATE 7),
         .move_reg_mem .R2 "b", .inst_1addr .INST_NEG .R2,
         .inst_2addr .INST_DIV .R1 (.OPTYPE_REGISTER .R2)]
    ∧ ((.TOKEN_PUNC .PUNC_SEMI, []) : Token × List Token)
        = ((parse_expr 9 .GARBAGE_T 0 example_int_expression).parser.word,
            (parse_expr 9 .GARBAGE_T 0 example_int_expression).parser.lex)
    ∧ ∃ (o : Operand) (code : List IR),
        (parse_expr 9 .GARBAGE_T 0 example_int_expression).parser.slots[0]?
          = some { op := some o, deleted := false, live := true }
        ∧ (parse_expr 9 .GARBAGE_T 0 example_int_expression).parser.e.out
          = example_int_expression.e.out ++ code
        ∧ ∀ (before after : List IR) (reg : Register → Int),
            ∃ reg1, reaches (before ++ (code ++ after)) ⟨reg, example_memory, before.length⟩
                ⟨reg1, example_memory, before.length + code.length⟩
              ∧ operand_value reg1 example_memory o = 4 :=
  ⟨by decide!, by decide!, ⟨_, rfl, rfl⟩, spill_free_of_all (by decide!), by decide!,
   C35_spill_free_expression_code example_memory 9 9 .GARBAGE_T .INT_T 0 example_int_expression
     _ 4 _ (by decide!) (by decide!) ⟨_, rfl, rfl⟩ (spill_free_of_all (by decide!))⟩

end Cs420
